import Mathlib

/-!
# Sudoku engine (`sudoku.c`): shallow embedding and verified properties

The engine state of `sudoku.c` is a set of process-wide arrays of C `int`s.
Every value the engine stores is non-negative and below `2^27`, so the packed
words are modelled as natural numbers with the bit operations of the source.
Counters that the source lets go negative (`idx_history`, return codes, the
`digits` scratch array) are integers.

* `board[81]`      is a `List Nat` (reads out of range give `0`);
* `history[3*81]`  is a `List Nat` together with `idx_history : Int`; entries at
  and above `idx_history` are stale data that some functions do read;
* a write to `history` outside the array is undefined behaviour in C and makes
  the embedded function return `none`;
* unbounded loops take a fuel argument and return `none` when it runs out.
-/

namespace Sudoku

/-! ## Common state encoding in a 32-bit integer -/

/-- Bits 0-6 of a packed word: the cell index. -/
def INDEX_MASK : Nat := 0x0000007f

/-- Macro `GET_INDEX(val)`. -/
def GET_INDEX (val : Nat) : Nat := INDEX_MASK &&& val

/-- Macro `SET_INDEX(val)`. -/
def SET_INDEX (val : Nat) : Nat := val

/-- Bits 7-15 of a packed word: one bit per digit, set when the digit is not possible. -/
def STATE_MASK : Nat := 0x0000ff80

/-- Macro `STATE_SHIFT`, written `(7-1)` in the source. -/
def STATE_SHIFT : Nat := 7 - 1

/-- Macro `DIGIT_STATE(digit)`. -/
def DIGIT_STATE (digit : Nat) : Nat := 1 <<< (STATE_SHIFT + digit)

/-- Bits 16-19 of a packed word: the digit. -/
def DIGIT_MASK : Nat := 0x000f0000

/-- Macro `DIGIT_SHIFT`. -/
def DIGIT_SHIFT : Nat := 16

/-- Macro `GET_DIGIT(val)`. -/
def GET_DIGIT (val : Nat) : Nat := (val &&& DIGIT_MASK) >>> DIGIT_SHIFT

/-- Macro `SET_DIGIT(val)`. -/
def SET_DIGIT (val : Nat) : Nat := val <<< DIGIT_SHIFT

/-- Flag: digit initially fixed. -/
def FIXED : Nat := 0x00100000

/-- Flag: the solver chose this digit. -/
def CHOICE : Nat := 0x00200000

/-- Flag: record ignored by `reapply`. -/
def IGNORED : Nat := 0x00400000

/-- Hint code of a row. -/
def HINT_ROW : Nat := 0x01000000

/-- Hint code of a column. -/
def HINT_COLUMN : Nat := 0x02000000

/-- Hint code of a block. -/
def HINT_BLOCK : Nat := 0x04000000

/-- Macro `ROW(idx)`. -/
def ROW (idx : Nat) : Nat := idx / 9

/-- Macro `COLUMN(idx)`. -/
def COLUMN (idx : Nat) : Nat := idx % 9

/-- Macro `INDEX(row,col)`. -/
def INDEX (row col : Nat) : Nat := 9 * row + col

/-- Macro `BLOCK(idx)`. -/
def BLOCK (idx : Nat) : Nat := 3 * (ROW idx / 3) + COLUMN idx / 3

/-- Macro `IDX_BLOCK(row,col)`. -/
def IDX_BLOCK (row col : Nat) : Nat := 3 * (row / 3) + col / 3

/-! ## Arrays -/

/-- Array read `a[i]`. -/
def rd (a : List Nat) (i : Nat) : Nat := a.getD i 0

/-- Array write `a[i] = v`. -/
def wr (a : List Nat) (i : Nat) (v : Nat) : List Nat := a.set i v

/-- Macro `STATE(idx)`. -/
def STATE (board : List Nat) (idx : Nat) : Nat := rd board idx &&& STATE_MASK

/-- Macro `DIGIT(idx)`. -/
def DIGIT (board : List Nat) (idx : Nat) : Nat := GET_DIGIT (rd board idx)

/-- Macro `IS_EMPTY(idx)`. -/
def IS_EMPTY (board : List Nat) (idx : Nat) : Bool := DIGIT board idx == 0

/-- Macro `DISALLOWED(idx,digit)`; the C truth value is "non-zero". -/
def DISALLOWED (board : List Nat) (idx digit : Nat) : Nat := rd board idx &&& DIGIT_STATE digit

/-- Macro `IS_FIXED(idx)`. -/
def IS_FIXED (board : List Nat) (idx : Nat) : Nat := rd board idx &&& FIXED

/-- The process-wide engine state: `board`, `history`, `idx_history` and `pass`. -/
structure State where
  /-- The array `int board[81]`. -/
  board : List Nat
  /-- The array `int history[3 * 81]`. -/
  history : List Nat
  /-- The counter `idx_history`: the number of live history records. -/
  idx_history : Int
  /-- The counter `pass` of passes of the deterministic solver. -/
  pass : Nat
deriving DecidableEq, Repr

/-- Function `reset`: zero the board and the history. -/
def reset : State :=
  { board := List.replicate 81 0, history := List.replicate 243 0, idx_history := 0, pass := 0 }

/-! ## Management of the move history -/

/-- First loop of `compress`: the index of the first ignored record, or `idx_history`.
The first argument bounds the number of iterations still to run. -/
def compress_first (history : List Nat) (idx_history : Int) : Nat → Nat → Nat
  | 0, k => k
  | fuel + 1, k =>
    if (k : Int) < idx_history then
      if rd history k &&& IGNORED ≠ 0 then k
      else compress_first history idx_history fuel (k + 1)
    else k

/-- Second loop of `compress`: while `i < idx_history && j < limit`, copy the records
that are not ignored down to position `j`. Returns the array and the final `i`, `j`. -/
def compress_move (idx_history limit : Int) :
    Nat → List Nat → Nat → Nat → List Nat × Nat × Nat
  | 0, history, i, j => (history, i, j)
  | fuel + 1, history, i, j =>
    if (i : Int) < idx_history ∧ (j : Int) < limit then
      if rd history i &&& IGNORED = 0 then
        compress_move idx_history limit fuel (wr history j (rd history i)) (i + 1) (j + 1)
      else compress_move idx_history limit fuel history (i + 1) j
    else (history, i, j)

/-- Third loop of `compress`: copy the remaining records unchanged. -/
def compress_rest (idx_history : Int) : Nat → List Nat → Nat → Nat → List Nat × Nat
  | 0, history, _, j => (history, j)
  | fuel + 1, history, i, j =>
    if (i : Int) < idx_history then
      compress_rest idx_history fuel (wr history j (rd history i)) (i + 1) (j + 1)
    else (history, j)

/-- Function `compress(limit)`. -/
def compress (s : State) (limit : Int) : State :=
  let n := s.idx_history.toNat
  let k := compress_first s.history s.idx_history n 0
  let r := compress_move s.idx_history limit n s.history k k
  let r2 := compress_rest s.idx_history n r.1 r.2.1 r.2.2
  { s with history := r2.1, idx_history := (r2.2 : Int) }

/-- Last loop of `add_move`: going down from index `i - 1`, mark the first record that
refers to `idx` as ignored and stop. -/
def add_move_ignore (history : List Nat) (idx : Nat) : Nat → List Nat
  | 0 => history
  | i + 1 =>
    if GET_INDEX (rd history i) = idx then wr history i (rd history i ||| IGNORED)
    else add_move_ignore history idx i

/-- Function `add_move(idx, digit, choice)`. The capacity test compares with a `size_t`,
so a negative `idx_history` also triggers the compression. The result is `none` when
the store `history[idx_history++]` falls outside the array. -/
def add_move (s : State) (idx digit choice : Nat) : Option State :=
  let s1 := if 243 - 1 ≤ s.idx_history ∨ s.idx_history < 0 then compress s 81 else s
  if s1.idx_history < 0 ∨ 243 ≤ s1.idx_history then none
  else
    let n := s1.idx_history.toNat
    let h1 := wr s1.history n (SET_INDEX idx ||| SET_DIGIT digit ||| choice)
    some { s1 with history := add_move_ignore h1 idx n, idx_history := s1.idx_history + 1 }

/-! ## Iteration over rows, columns and blocks -/

/-- Function `idx_row`. -/
def idx_row (el idx : Nat) : Nat := INDEX el idx

/-- Function `idx_column`. -/
def idx_column (el idx : Nat) : Nat := INDEX idx el

/-- Function `idx_block`. -/
def idx_block (el idx : Nat) : Nat := INDEX (3 * (el / 3) + idx / 3) (3 * (el % 3) + idx % 3)

/-! ## Board -/

/-- One iteration of the loop of `update`. -/
def update_step (row col block mask : Nat) (board : List Nat) (i : Nat) : List Nat :=
  let b1 := wr board (idx_row row i) (rd board (idx_row row i) ||| mask)
  let b2 := wr b1 (idx_column col i) (rd b1 (idx_column col i) ||| mask)
  wr b2 (idx_block block i) (rd b2 (idx_block block i) ||| mask)

/-- Function `update(idx)`. -/
def update (board : List Nat) (idx : Nat) : List Nat :=
  let row := ROW idx
  let col := COLUMN idx
  let block := IDX_BLOCK row col
  let mask := DIGIT_STATE (DIGIT board idx)
  let b0 := wr board idx (rd board idx ||| STATE_MASK)
  (List.range 9).foldl (update_step row col block mask) b0

/-- Body of the loop of `reapply` for the record `h`; the accumulator is `allok` and the
board. -/
def reapply_step (acc : Int × List Nat) (h : Nat) : Int × List Nat :=
  if h &&& IGNORED = 0 ∧ GET_DIGIT h ≠ 0 then
    let idx := GET_INDEX h
    let digit := GET_DIGIT h
    let allok : Int :=
      if ¬ IS_EMPTY acc.2 idx ∨ DISALLOWED acc.2 idx digit ≠ 0 then -1 else acc.1
    let b1 := wr acc.2 idx (SET_DIGIT digit)
    let b2 := if h &&& FIXED ≠ 0 then wr b1 idx (rd b1 idx ||| FIXED) else b1
    (allok, update b2 idx)
  else acc

/-- The loop of `reapply` over the records `history[0 .. n-1]`, from the cleared board. -/
def replay (history : List Nat) (n : Nat) : Int × List Nat :=
  (history.take n).foldl reapply_step (0, List.replicate 81 0)

/-- Function `reapply`: returns `allok` and the state with the rebuilt board. -/
def reapply (s : State) : Int × State :=
  let r := replay s.history s.idx_history.toNat
  (r.1, { s with board := r.2 })

/-- Function `fill(idx, digit)`: returns `0` on success, else `-1`. -/
def fill (s : State) (idx digit : Nat) : Option (Int × State) :=
  if ¬ IS_EMPTY s.board idx then
    some (if DIGIT s.board idx = digit then 0 else -1, s)
  else if DISALLOWED s.board idx digit ≠ 0 then
    some (-1, s)
  else
    let b1 := wr s.board idx (SET_DIGIT digit)
    (add_move { s with board := update b1 idx } idx digit 0).map (fun s1 => (0, s1))

/-- The loop of `choose`; the first argument bounds the iterations still to run. -/
def choose_loop (s : State) (idx : Nat) : Nat → Nat → Option (Int × State)
  | 0, _ => some (-1, s)
  | fuel + 1, digit =>
    if digit ≤ 9 then
      if DISALLOWED s.board idx digit = 0 then
        let b1 := wr s.board idx (SET_DIGIT digit)
        (add_move { s with board := update b1 idx } idx digit CHOICE).map
          (fun s1 => ((digit : Int), s1))
      else choose_loop s idx fuel (digit + 1)
    else some (-1, s)

/-- Function `choose(idx, digit)`: place the first allowed digit from `digit` upwards. -/
def choose (s : State) (idx digit : Nat) : Option (Int × State) :=
  choose_loop s idx (10 - digit) digit

/-! ## Propagator -/

/-- Read of an `int` scratch array that may hold `-1`. -/
def rdi (a : List Int) (i : Nat) : Int := a.getD i 0

/-- Write to an `int` scratch array that may hold `-1`. -/
def wri (a : List Int) (i : Nat) (v : Int) : List Int := a.set i v

/-- One iteration of the loop of `numset`, for bit `STATE_SHIFT + 1 + t`. -/
def numset_step (mask : Nat) (acc : Nat × List Nat) (t : Nat) : Nat × List Nat :=
  let i := STATE_SHIFT + 1 + t
  if mask &&& (1 <<< i) ≠ 0 then (acc.1 + 1, acc.2)
  else (acc.1, wr acc.2 (i - STATE_SHIFT - 1) (rd acc.2 (i - STATE_SHIFT - 1) + 1))

/-- Function `numset(mask)`: the number of set bits within `STATE_MASK`; as a side effect
the global `counts` is incremented for every clear bit. -/
def numset (counts : List Nat) (mask : Nat) : Nat × List Nat :=
  (List.range 9).foldl (numset_step mask) (0, counts)

/-- One iteration of the loop of `count_set_digits`. -/
def count_set_digits_step (board : List Nat) (el : Nat) (idx_fn : Nat → Nat → Nat)
    (acc : List Int × List Nat) (i : Nat) : List Int × List Nat :=
  let r := numset acc.2 (rd board (idx_fn el i))
  (wri acc.1 i (r.1 : Int), r.2)

/-- Function `count_set_digits(el, idx_fn)`: returns the globals `digits` and `counts`. -/
def count_set_digits (board : List Nat) (el : Nat) (idx_fn : Nat → Nat → Nat) :
    List Int × List Nat :=
  (List.range 9).foldl (count_set_digits_step board el idx_fn)
    (List.replicate 9 0, List.replicate 9 0)

/-- The loop of `singles` that finds the digit of a cell with one candidate left:
`for (sta >>= STATE_SHIFT + 1; 0 != sta; sta >>= 1) ++d`, after the first shift. -/
def singles_digit : Nat → Nat → Nat → Nat
  | 0, _, d => d
  | fuel + 1, sta, d => if sta ≠ 0 then singles_digit fuel (sta >>> 1) (d + 1) else d

/-- Second `if` of the loop body of `singles`: one allowed position is left in the element
for digit `c + 1`; the first cell that allows it is recorded. -/
def singles_position (board : List Nat) (el : Nat) (idx_fn : Nat → Nat → Nat) (hintcode : Nat)
    (counts : List Nat) (c : Nat) (possible : List Nat) : List Nat :=
  if rd counts c = 1 ∧ possible.length < 81 then
    match (List.range 9).find? (fun j => DISALLOWED board (idx_fn el j) (c + 1) == 0) with
    | some j => possible ++ [SET_INDEX (idx_fn el j) ||| SET_DIGIT (c + 1) ||| hintcode]
    | none => possible
  else possible

/-- Third `if` of the loop body of `singles`: 8 digits are masked at position `i`, the
remaining digit is recorded. -/
def singles_square (board : List Nat) (el : Nat) (idx_fn : Nat → Nat → Nat) (hintcode : Nat)
    (digits : List Int) (i : Nat) (possible : List Nat) : List Nat :=
  if rdi digits i = 8 ∧ possible.length < 81 then
    let idx := idx_fn el i
    let sta := STATE_MASK &&& (0xffffffff ^^^ STATE board idx)
    let d := singles_digit 32 (sta >>> (STATE_SHIFT + 1)) 0
    if 0 < d ∧ d < 10 then possible ++ [SET_INDEX idx ||| SET_DIGIT d ||| hintcode]
    else possible
  else possible

/-- The main loop of `singles` from iteration `i`; returns the final `i` and `possible`.
The global `idx_possible` is the length of `possible`. The first `if` of the body leaves
the loop when no position is left for digit `c + 1` and the element does not hold it. -/
def singles_loop (board : List Nat) (el : Nat) (idx_fn : Nat → Nat → Nat) (hintcode : Nat)
    (digits : List Int) (counts : List Nat) : Nat → Nat → List Nat → Nat × List Nat
  | 0, i, possible => (i, possible)
  | fuel + 1, i, possible =>
    if i < 9 then
      let c := i
      if rd counts c = 0 ∧
          ¬ (List.range 9).any (fun j => DIGIT board (idx_fn el j) == c + 1) then
        (i, possible)
      else
        let p1 := singles_position board el idx_fn hintcode counts c possible
        let p2 := singles_square board el idx_fn hintcode digits i p1
        singles_loop board el idx_fn hintcode digits counts fuel (i + 1) p2
    else (i, possible)

/-- Function `singles(el, idx_fn, hintcode)`: returns `-(i < 9)` and `possible`. -/
def singles (board : List Nat) (el : Nat) (idx_fn : Nat → Nat → Nat) (hintcode : Nat)
    (possible : List Nat) : Int × List Nat :=
  let dc := count_set_digits board el idx_fn
  let r := singles_loop board el idx_fn hintcode dc.1 dc.2 9 0 possible
  (if r.1 < 9 then -1 else 0, r.2)

/-- The loop of `findmoves` from element `el`. -/
def findmoves_loop (board : List Nat) : Nat → Nat → List Nat → Int × List Nat
  | 0, _, possible => ((possible.length : Int), possible)
  | fuel + 1, el, possible =>
    if el < 9 then
      let r1 := singles board el idx_row HINT_ROW possible
      if r1.1 = -1 then (-1, r1.2)
      else
        let r2 := singles board el idx_column HINT_COLUMN r1.2
        if r2.1 = -1 then (-1, r2.2)
        else
          let r3 := singles board el idx_block HINT_BLOCK r2.2
          if r3.1 = -1 then (-1, r3.2)
          else findmoves_loop board fuel (el + 1) r3.2
    else ((possible.length : Int), possible)

/-- Function `findmoves`: the number of moves (or `-1`) and the array `possible`. -/
def findmoves (board : List Nat) : Int × List Nat :=
  findmoves_loop board 9 0 []

/-- The statement `board[idx_fn(el, k)] |= mask` of `pairs`. -/
def pairs_mask (el : Nat) (idx_fn : Nat → Nat → Nat) (mask : Nat) (board : List Nat) (k : Nat) :
    List Nat :=
  wr board (idx_fn el k) (rd board (idx_fn el k) ||| mask)

/-- Body of the `j` loop of `pairs`; the accumulator is the board and `digits`. -/
def pairs_inner (el : Nat) (idx_fn : Nat → Nat → Nat) (i : Nat) (acc : List Nat × List Int)
    (j : Nat) : List Nat × List Int :=
  let idx := idx_fn el i
  if STATE acc.1 idx = STATE acc.1 (idx_fn el j) then
    let mask := STATE_MASK ^^^ (STATE_MASK &&& rd acc.1 idx)
    let b1 := (List.range' 0 i).foldl (pairs_mask el idx_fn mask) acc.1
    let b2 := (List.range' (i + 1) (j - (i + 1))).foldl (pairs_mask el idx_fn mask) b1
    let b3 := (List.range' (j + 1) (9 - (j + 1))).foldl (pairs_mask el idx_fn mask) b2
    (b3, wri acc.2 j (-1))
  else acc

/-- Body of the `i` loop of `pairs`. -/
def pairs_outer (el : Nat) (idx_fn : Nat → Nat → Nat) (acc : List Nat × List Int) (i : Nat) :
    List Nat × List Int :=
  if rdi acc.2 i = 7 then
    (List.range' (i + 1) (9 - (i + 1))).foldl (pairs_inner el idx_fn i) acc
  else acc

/-- Function `pairs(el, idx_fn)`, reading the global `digits`; returns the board. -/
def pairs (board : List Nat) (digits : List Int) (el : Nat) (idx_fn : Nat → Nat → Nat) :
    List Nat :=
  ((List.range 8).foldl (pairs_outer el idx_fn) (board, digits)).1

/-- One iteration of the loop of `exmask`. -/
def exmask_step (mask block el : Nat) (idx_fn : Nat → Nat → Nat) (board : List Nat) (i : Nat) :
    List Nat :=
  let idx := idx_fn el i
  if block ≠ BLOCK idx ∧ IS_EMPTY board idx then wr board idx (rd board idx ||| mask)
  else board

/-- Function `exmask(mask, block, el, idx_fn)`. -/
def exmask (board : List Nat) (mask block el : Nat) (idx_fn : Nat → Nat → Nat) : List Nat :=
  (List.range 9).foldl (exmask_step mask block el idx_fn) board

/-- One iteration of the loop of `exblock` that collects the digits known in the block. -/
def exblock_step (board : List Nat) (block : Nat) (mask : Nat) (i : Nat) : Nat :=
  let idx := idx_block block i
  if ¬ IS_EMPTY board idx then mask ||| DIGIT_STATE (DIGIT board idx) else mask

/-- Function `exblock(block, el, idx_fn)`. -/
def exblock (board : List Nat) (block el : Nat) (idx_fn : Nat → Nat → Nat) : List Nat :=
  let mask := (List.range 9).foldl (exblock_step board block) 0
  exmask board (mask ^^^ STATE_MASK) block el idx_fn

/-- Body of the second loop of `block`; the accumulator is `row` and `col`. -/
def block_step (board : List Nat) (el : Nat) (acc : Int × Int) (i : Nat) : Int × Int :=
  let idx := idx_block el i
  if IS_EMPTY board idx then
    (if (ROW idx : Int) ≠ acc.1 then -1 else acc.1,
     if (COLUMN idx : Int) ≠ acc.2 then -1 else acc.2)
  else acc

/-- Function `block(el)`. -/
def block (board : List Nat) (el : Nat) : List Nat :=
  match (List.range 9).find? (fun i => IS_EMPTY board (idx_block el i)) with
  | none => board
  | some i =>
    let idx := idx_block el i
    let rc := (List.range' (i + 1) (9 - (i + 1))).foldl (block_step board el)
      ((ROW idx : Int), (COLUMN idx : Int))
    let b1 := if 0 ≤ rc.1 then exblock board el rc.1.toNat idx_row else board
    if 0 ≤ rc.2 then exblock b1 el rc.2.toNat idx_column else b1

/-- Body of the inner loop of `common`; the accumulator is `row` and `col`. -/
def common_step (board : List Nat) (el mask : Nat) (acc : Int × Int) (i : Nat) : Int × Int :=
  let idx := idx_block el i
  if IS_EMPTY board idx ∧ rd board idx &&& mask = 0 then
    (if acc.1 < 0 then (ROW idx : Int) else if acc.1 ≠ (ROW idx : Int) then 9 else acc.1,
     if acc.2 < 0 then (COLUMN idx : Int) else if acc.2 ≠ (COLUMN idx : Int) then 9 else acc.2)
  else acc

/-- Body of the `digit` loop of `common`. -/
def common_digit (el : Nat) (board : List Nat) (digit : Nat) : List Nat :=
  let mask := DIGIT_STATE digit
  let rc := (List.range 9).foldl (common_step board el mask) ((-1 : Int), (-1 : Int))
  let b1 := if rc.1 ≠ -1 ∧ rc.1 < 9 then exmask board mask el rc.1.toNat idx_row else board
  if rc.2 ≠ -1 ∧ rc.2 < 9 then exmask b1 mask el rc.2.toNat idx_column else b1

/-- Function `common(el)`. -/
def common (board : List Nat) (el : Nat) : List Nat :=
  (List.range' 1 9).foldl (common_digit el) board

/-- Inner loop of the first part of `position2`; the accumulator is `count` and `posn`. -/
def position2_count (board : List Nat) (el mask : Nat) (acc : Nat × Nat) (i : Nat) : Nat × Nat :=
  if mask &&& rd board (idx_block el i) = 0 then (acc.1 + 1, acc.2 ||| DIGIT_STATE i) else acc

/-- Body of the first loop of `position2`: fill in `posn_digit[digit]`. -/
def position2_posn (board : List Nat) (el : Nat) (posn_digit : List Nat) (digit : Nat) :
    List Nat :=
  let cp := (List.range 9).foldl (position2_count board el (DIGIT_STATE digit)) (0, 0)
  let p0 := wr posn_digit digit 0
  if cp.1 = 2 then wr p0 digit cp.2 else p0

/-- The masking loop of `position2` for one matching pair of digits. -/
def position2_mask (el mask mask2 : Nat) (board : List Nat) (i : Nat) : List Nat :=
  let idx := idx_block el i
  if mask2 &&& rd board idx = 0 then wr board idx (rd board idx ||| mask) else board

/-- Body of the second loop of `position2`; the accumulator is the board and `posn_digit`. -/
def position2_digit (el : Nat) (acc : List Nat × List Nat) (digit : Nat) : List Nat × List Nat :=
  if rd acc.2 digit ≠ 0 then
    match (List.range' (digit + 1) (9 - digit)).find?
        (fun digit2 => rd acc.2 digit == rd acc.2 digit2) with
    | some digit2 =>
      let mask := STATE_MASK ^^^ (DIGIT_STATE digit ||| DIGIT_STATE digit2)
      let mask2 := DIGIT_STATE digit
      let b1 := (List.range 9).foldl (position2_mask el mask mask2) acc.1
      (b1, wr (wr acc.2 digit2 0) digit 0)
    | none => acc
  else acc

/-- Function `position2(el)`. -/
def position2 (board : List Nat) (el : Nat) : List Nat :=
  let posn_digit := (List.range' 1 9).foldl (position2_posn board el) (List.replicate 10 0)
  ((List.range' 1 8).foldl (position2_digit el) (board, posn_digit)).1

/-- Body of the first loop of `allmoves`. -/
def allmoves_pairs (board : List Nat) (i : Nat) : List Nat :=
  let b1 := pairs board (count_set_digits board i idx_row).1 i idx_row
  let b2 := pairs b1 (count_set_digits b1 i idx_column).1 i idx_column
  pairs b2 (count_set_digits b2 i idx_block).1 i idx_block

/-- Body of the second loop of `allmoves`. -/
def allmoves_block (board : List Nat) (i : Nat) : List Nat :=
  position2 (common (block board i) i) i

/-- Function `allmoves`: returns the number of moves (or `-1`), the array `possible` and
the board, which the advanced strategies may have masked further. -/
def allmoves (board : List Nat) : Int × List Nat × List Nat :=
  let r := findmoves board
  if r.1 ≠ 0 then (r.1, r.2, board)
  else
    let b1 := (List.range 9).foldl allmoves_pairs board
    let r1 := findmoves b1
    if r1.1 ≠ 0 then (r1.1, r1.2, b1)
    else
      let b2 := (List.range 9).foldl allmoves_block b1
      let r2 := findmoves b2
      (r2.1, r2.2, b2)

/-! ## Solver -/

/-- The loop `for (i = 0; i < n; ++i)` of `deterministic`, over `possible[0 .. n-1]`:
`some (-1, _)` when a fill failed, `some (0, _)` when all succeeded. -/
def deterministic_fill : List Nat → State → Option (Int × State)
  | [], s => some (0, s)
  | p :: ps, s =>
    match fill s (GET_INDEX p) (GET_DIGIT p) with
    | none => none
    | some (r, s1) => if r = -1 then some (-1, s1) else deterministic_fill ps s1

/-- The `while` loop of `deterministic`, entered with the result of `allmoves`. -/
def deterministic_loop : Nat → Int × List Nat × List Nat → State → Option (Int × State)
  | 0, _, _ => none
  | fuel + 1, r, s =>
    let s0 := { s with board := r.2.2 }
    if 0 < r.1 then
      let s1 := { s0 with pass := s0.pass + 1 }
      match deterministic_fill (r.2.1.take r.1.toNat) s1 with
      | none => none
      | some (x, s2) =>
        if x = -1 then some (-1, s2)
        else deterministic_loop fuel (allmoves s2.board) s2
    else some (r.1, s0)

/-- Function `deterministic`: returns `0` when no more moves are found, `-1` on error. -/
def deterministic (fuel : Nat) (s : State) : Option (Int × State) :=
  deterministic_loop fuel (allmoves s.board) s

/-- Comparison function `cmp` of `choice`. -/
def cmp (e1 e2 : Nat) : Int := (GET_DIGIT e2 : Int) - (GET_DIGIT e1 : Int)

/-- The scan of `choice` from cell `i`: collects `possible`, or stops with `none` when an
empty square has nothing possible (the source then returns `-2`). The side effect of
`numset` on `counts` is dropped: `counts` is cleared before it is next read. -/
def choice_scan (board : List Nat) : Nat → Nat → List Nat → Option (List Nat)
  | 0, _, possible => some possible
  | fuel + 1, i, possible =>
    if i < 81 then
      if IS_EMPTY board i then
        let p := SET_INDEX i ||| SET_DIGIT (numset (List.replicate 9 0) (rd board i)).1
        if GET_DIGIT p = 9 then none
        else choice_scan board fuel (i + 1) (possible ++ [p])
      else choice_scan board fuel (i + 1) possible
    else some possible

/-- Function `choice`: the index of the square for a choice, `-1` when all squares are
known, `-2` on inconsistency. The library function `qsort` is a parameter. -/
def choice (qsort : (Nat → Nat → Int) → List Nat → List Nat) (board : List Nat) : Int :=
  match choice_scan board 81 0 [] with
  | none => -2
  | some possible =>
    if possible.length = 0 then -1
    else (GET_INDEX (rd (qsort cmp possible) 0) : Int)

/-- The loop of `backtrack`; the first argument bounds the iterations still to run. -/
def backtrack_loop : Nat → State → Option (Int × State)
  | 0, _ => none
  | fuel + 1, s =>
    let s1 := { s with idx_history := s.idx_history - 1 }
    if 0 < s1.idx_history then
      let h := rd s1.history s1.idx_history.toNat
      if h &&& CHOICE ≠ 0 then
        let idx := GET_INDEX h
        let digit := GET_DIGIT h + 1
        let s2 := (reapply s1).2
        match choose s2 idx digit with
        | none => none
        | some (r, s3) => if r ≠ -1 then some ((idx : Int), s3) else backtrack_loop fuel s3
      else backtrack_loop fuel s1
    else some (-1, s1)

/-- Function `backtrack`: `-1` if no further choice is possible, else the index of the
changed square. -/
def backtrack (s : State) : Option (Int × State) :=
  backtrack_loop (s.idx_history.toNat + 1) s

/-- Function `solve`: `0` on success, `-1` on error. -/
def solve (qsort : (Nat → Nat → Int) → List Nat → List Nat) :
    Nat → State → Option (Int × State)
  | 0, _ => none
  | fuel + 1, s =>
    match deterministic (fuel + 1) s with
    | none => none
    | some (r, s1) =>
      if r = 0 then
        let idx := choice qsort s1.board
        if idx = -1 then some (0, s1)
        else if idx < 0 then
          match backtrack s1 with
          | none => none
          | some (b, s2) => if b = -1 then some (-1, s2) else solve qsort fuel s2
        else
          match choose s1 idx.toNat 1 with
          | none => none
          | some (c, s2) =>
            if c = -1 then
              match backtrack s2 with
              | none => none
              | some (b, s3) => if b = -1 then some (-1, s3) else solve qsort fuel s3
            else solve qsort fuel s2
      else
        match backtrack s1 with
        | none => none
        | some (b, s2) => if b = -1 then some (-1, s2) else solve qsort fuel s2

/-- The `do ... while` loop of `number_solutions`, entered after a successful `solve`. -/
def number_solutions_loop (qsort : (Nat → Nat → Int) → List Nat → List Nat) :
    Nat → Nat → State → Option (Nat × State)
  | 0, _, _ => none
  | fuel + 1, count, s =>
    match backtrack s with
    | none => none
    | some (b, s1) =>
      if b ≠ -1 then
        match solve qsort (fuel + 1) s1 with
        | none => none
        | some (r, s2) =>
          if r ≠ -1 then number_solutions_loop qsort fuel (count + 1) s2
          else some (count + 1, s2)
      else some (count + 1, s1)

/-- Function `number_solutions`: the number of solutions found (`0` if none). -/
def number_solutions (qsort : (Nat → Nat → Int) → List Nat → List Nat) (fuel : Nat)
    (s : State) : Option (Nat × State) :=
  match solve qsort fuel s with
  | none => none
  | some (r, s1) =>
    if r ≠ -1 then number_solutions_loop qsort fuel 0 s1
    else some (0, s1)

/-! ## Generator -/

/-- The scan `for (idx_history = 0; history[idx_history] & FIXED; ++idx_history)` of
`clear_moves` from index `i`; `none` when it reads past the end of the array. -/
def clear_moves_scan (history : List Nat) : Nat → Nat → Option Nat
  | 0, _ => none
  | fuel + 1, i =>
    if 243 ≤ i then none
    else if rd history i &&& FIXED ≠ 0 then clear_moves_scan history fuel (i + 1)
    else some i

/-- Function `clear_moves`: keep the leading fixed records and replay them. -/
def clear_moves (s : State) : Option State :=
  match clear_moves_scan s.history 244 0 with
  | none => none
  | some n => some (reapply { s with idx_history := (n : Int) }).2

/-- The part of `classify` that changes the state: `pass = 0; clear_moves(); solve()`.
Returns the result of `solve` (the score is computed from the state it leaves). -/
def classify_solve (qsort : (Nat → Nat → Int) → List Nat → List Nat) (fuel : Nat)
    (s : State) : Option (Int × State) :=
  match clear_moves { s with pass := 0 } with
  | none => none
  | some s1 => solve qsort fuel s1

/-- One iteration of the loop `fill(tmplt[i], digits[i % 9])` of `generate`; the result
of `fill` is not looked at. -/
def generate_fill_step (digits tmplt : List Nat) (acc : Option State) (i : Nat) :
    Option State :=
  match acc with
  | none => none
  | some s => (fill s (rd tmplt i) (rd digits (i % 9))).map (fun r => r.2)

/-- The loop `for (i = 0; i < len_tmplt; ++i) fill(tmplt[i], digits[i % 9])`. -/
def generate_fill (digits tmplt : List Nat) (s : State) : Option State :=
  (List.range tmplt.length).foldl (generate_fill_step digits tmplt) (some s)

/-- The loop `for (i = 0; i < len_tmplt; ++i) board[tmplt[i]] |= FIXED`. -/
def generate_mark (tmplt : List Nat) (board : List Nat) : List Nat :=
  (List.range tmplt.length).foldl
    (fun b i => wr b (rd tmplt i) (rd b (rd tmplt i) ||| FIXED)) board

/-- Body of the loop of `generate` that constructs the fixed squares; the accumulator is
the history and `idx_history`. -/
def generate_fixed_step (board : List Nat) (acc : List Nat × Nat) (i : Nat) :
    List Nat × Nat :=
  if IS_FIXED board i ≠ 0 then
    (wr acc.1 acc.2 (SET_INDEX i ||| SET_DIGIT (DIGIT board i) ||| FIXED), acc.2 + 1)
  else acc

/-- The loop `for (idx_history = i = 0; i < 81; ++i)` of `generate`. -/
def generate_fixed (board history : List Nat) : List Nat × Nat :=
  (List.range 81).foldl (generate_fixed_step board) (history, 0)

/-- One round of the loop of `generate` up to the test of the requested class, for the
arrays `digits` and `tmplt` as `rotate` and `shuffle` have left them. The result is
`none` when the model runs out of fuel or leaves an array, `some none` when the round
ends in `continue`, and `some (some s)` with the state reached otherwise. -/
def generate_round (qsort : (Nat → Nat → Int) → List Nat → List Nat) (fuel : Nat)
    (digits tmplt : List Nat) : Option (Option State) :=
  match generate_fill digits tmplt reset with
  | none => none
  | some s1 =>
    match solve qsort fuel s1 with
    | none => none
    | some (r1, s2) =>
      if r1 ≠ 0 ∨ s2.idx_history < 81 then some none
      else
        let b := generate_mark tmplt s2.board
        let hn := generate_fixed b s2.history
        match clear_moves (State.mk b hn.1 (hn.2 : Int) s2.pass) with
        | none => none
        | some s3 =>
          match solve qsort fuel s3 with
          | none => none
          | some (r2, s4) =>
            if r2 ≠ 0 ∨ s4.idx_history < 81 then some none
            else
              match backtrack s4 with
              | none => none
              | some (b1, s5) =>
                if b1 ≠ -1 then
                  match solve qsort fuel s5 with
                  | none => none
                  | some (r3, s6) => if r3 = 0 then some none else some (some s6)
                else some (some s5)

/-- One round of the loop of `generate` with the test of the requested class:
`requested` is `none` when no class was requested, else it tells whether the class that
`classify` computes from its call of `solve` is the requested one. -/
def generate_attempt (qsort : (Nat → Nat → Int) → List Nat → List Nat) (fuel : Nat)
    (digits tmplt : List Nat) (requested : Option (Int × State → Bool)) :
    Option (Option State) :=
  match generate_round qsort fuel digits tmplt with
  | none => none
  | some none => some none
  | some (some s) =>
    match requested with
    | none => some (some s)
    | some want =>
      match classify_solve qsort fuel s with
      | none => none
      | some (r, s1) => if want (r, s1) then some (some s1) else some none

/-- The end of `generate`, after the loop: `classify()` for the title, then
`clear_moves()`. -/
def generate_finish (qsort : (Nat → Nat → Int) → List Nat → List Nat) (fuel : Nat)
    (s : State) : Option State :=
  match classify_solve qsort fuel s with
  | none => none
  | some (_, s1) => clear_moves s1

end Sudoku

namespace Sudoku

/-! ## Specification vocabulary -/

/-- Two cells see each other: they share a row, a column or a block. -/
def peer (i j : Nat) : Prop := ROW i = ROW j ∨ COLUMN i = COLUMN j ∨ BLOCK i = BLOCK j

instance (i j : Nat) : Decidable (peer i j) := by
  unfold peer
  infer_instance

/-- No two distinct cells of a row, column or block hold the same non-zero digit. -/
def NoConflict (board : List Nat) : Prop :=
  ∀ i < 81, ∀ j < 81, i ≠ j → peer i j → DIGIT board i ≠ 0 → DIGIT board i ≠ DIGIT board j

instance (board : List Nat) : Decidable (NoConflict board) :=
  Nat.decidableBallLT 81 (fun i _ => ∀ j, j < 81 →
    (i ≠ j → peer i j → DIGIT board i ≠ 0 → DIGIT board i ≠ DIGIT board j))

/-- The digits held by the nine cells of a unit. -/
def unit_digits (board : List Nat) (idx_fn : Nat → Nat → Nat) (el : Nat) : List Nat :=
  (List.range 9).map (fun k => DIGIT board (idx_fn el k))

/-- All 81 cells hold a digit 1..9 and every row, column and block contains each digit
1..9 exactly once. -/
def Solved (board : List Nat) : Prop :=
  (∀ i < 81, 1 ≤ DIGIT board i ∧ DIGIT board i ≤ 9) ∧
  ∀ el < 9, ∀ d < 10, 1 ≤ d →
    (unit_digits board idx_row el).count d = 1 ∧
    (unit_digits board idx_column el).count d = 1 ∧
    (unit_digits board idx_block el).count d = 1

instance (board : List Nat) : Decidable (Solved board) := by
  unfold Solved
  infer_instance

/-- A well-formed board: 81 cells, digits at most 9, every filled cell has all nine mask
bits set, and the digit of every filled cell is masked out in all cells that see it. -/
structure BoardWF (board : List Nat) : Prop where
  len : board.length = 81
  digit_le : ∀ i < 81, DIGIT board i ≤ 9
  full : ∀ i < 81, DIGIT board i ≠ 0 → ∀ d, 1 ≤ d → d ≤ 9 → DISALLOWED board i d ≠ 0
  seen : ∀ i < 81, ∀ j < 81, peer i j → DIGIT board i ≠ 0 →
    DISALLOWED board j (DIGIT board i) ≠ 0

/-- A history record that `reapply` replays: not ignored and with a non-zero digit. -/
def replayable (h : Nat) : Prop := h &&& IGNORED = 0 ∧ GET_DIGIT h ≠ 0

instance (h : Nat) : Decidable (replayable h) := by
  unfold replayable
  infer_instance

/-- The word that `reapply` stores in the cell of record `h` before `update`. -/
def record_word (h : Nat) : Nat :=
  if h &&& FIXED ≠ 0 then SET_DIGIT (GET_DIGIT h) ||| FIXED else SET_DIGIT (GET_DIGIT h)

/-- A well-formed move record: the cell index is on the board and the digit is 0..9. -/
def WFRec (h : Nat) : Prop := GET_INDEX h < 81 ∧ GET_DIGIT h ≤ 9

instance (h : Nat) : Decidable (WFRec h) := by
  unfold WFRec
  infer_instance

/-- The live records `history[0 .. n-1]` are all well-formed. -/
def WFHistory (history : List Nat) (n : Nat) : Prop := ∀ k < n, WFRec (rd history k)

instance (history : List Nat) (n : Nat) : Decidable (WFHistory history n) := by
  unfold WFHistory
  infer_instance

/-- Board `b` carries the digits of board `r` and at least the mask bits of `r`. -/
def Above (b r : List Nat) : Prop :=
  b.length = 81 ∧ ∀ i < 81, DIGIT b i = DIGIT r i ∧
    ∀ d, 1 ≤ d → d ≤ 9 → DISALLOWED r i d ≠ 0 → DISALLOWED b i d ≠ 0

/-- The set of filled cells of a board. -/
def filled (board : List Nat) : Finset Nat :=
  (Finset.range 81).filter (fun i => DIGIT board i ≠ 0)

/-- A call of `fill` or of `choose` with its arguments. -/
inductive Call where
  | fill (idx digit : Nat)
  | choose (idx digit : Nat)
deriving DecidableEq, Repr

/-- The arguments of a call are a cell index 0..80 and a digit 1..9; the start digit of
`choose` may be any digit from 1 on. -/
def Call.ok : Call → Prop
  | Call.fill idx digit => idx < 81 ∧ 1 ≤ digit ∧ digit ≤ 9
  | Call.choose idx digit => idx < 81 ∧ 1 ≤ digit

instance (c : Call) : Decidable c.ok := by
  cases c <;> (unfold Call.ok; infer_instance)

/-- Run one call and drop its return value. -/
def run_call (s : State) : Call → Option State
  | Call.fill idx digit => (fill s idx digit).map Prod.snd
  | Call.choose idx digit => (choose s idx digit).map Prod.snd

/-- Run a sequence of calls, whether they succeed or fail. -/
def run_calls : State → List Call → Option State
  | s, [] => some s
  | s, c :: cs =>
    match run_call s c with
    | none => none
    | some s1 => run_calls s1 cs

/-- Run a sequence of calls `fill(idx, digit)`, whether they succeed or fail. -/
def run_fills : State → List (Nat × Nat) → Option State
  | s, [] => some s
  | s, c :: cs =>
    match fill s c.1 c.2 with
    | none => none
    | some r => run_fills r.2 cs

/-- Invariant of the states built from `reset` by calls of `fill` and `choose`: the board
is the valid replay of the history, which holds one record per filled cell. -/
structure FreshInv (s : State) : Prop where
  hlen : s.history.length = 243
  nonneg : 0 ≤ s.idx_history
  card : s.idx_history.toNat = (filled s.board).card
  wf : WFHistory s.history s.idx_history.toNat
  rep : replay s.history s.idx_history.toNat = (0, s.board)
  cells : ∀ k < s.idx_history.toNat, DIGIT s.board (GET_INDEX (rd s.history k)) ≠ 0

/-- Invariant of the history during a solve: the live records are well-formed and their
replay is valid. -/
structure HistInv (s : State) : Prop where
  hlen : s.history.length = 243
  nonneg : 0 ≤ s.idx_history
  le : s.idx_history ≤ 243
  wf : WFHistory s.history s.idx_history.toNat
  ok : (replay s.history s.idx_history.toNat).1 = 0

/-- Invariant of the solver: the history invariant, and the board carries the digits of
the replay of the history and at least its mask bits. -/
structure SolveInv (s : State) : Prop where
  hist : HistInv s
  above : Above s.board (replay s.history s.idx_history.toNat).2

/-- Grid `G` agrees with the replayed records among `history[0 .. n-1]`. -/
def Agree (G : List Nat) (history : List Nat) (n : Nat) : Prop :=
  ∀ k < n, replayable (rd history k) →
    DIGIT G (GET_INDEX (rd history k)) = GET_DIGIT (rd history k)

/-- Grid `G` is consistent with board `b`: it agrees with every filled cell, and its digit
at each empty cell is not masked out there. -/
def Cons (G b : List Nat) : Prop :=
  ∀ i < 81, (DIGIT b i ≠ 0 → DIGIT G i = DIGIT b i) ∧
    (DIGIT b i = 0 → DISALLOWED b i (DIGIT G i) = 0)

/-- A word with bits only inside `STATE_MASK` (bits 7..15). -/
def inState (m : Nat) : Prop := ∀ i, m.testBit i = true → 7 ≤ i ∧ i < 16

/-- A well-formed candidate move: cell index 0..80 and digit 1..9. -/
def CandOK (p : Nat) : Prop := GET_INDEX p < 81 ∧ 1 ≤ GET_DIGIT p ∧ GET_DIGIT p ≤ 9

/-- A sorting function that `qsort` may be: insertion sort by the comparison function. -/
def qsort_model (c : Nat → Nat → Int) (l : List Nat) : List Nat :=
  l.insertionSort (fun a b => c a b ≤ 0)

/-- The state handed over by the board loader for a list of clues (cell, digit): the
history holds one fixed record per clue and the board is its replay. -/
def clues_state (clues : List (Nat × Nat)) : State :=
  { board := (replay (clues.map (fun c => SET_INDEX c.1 ||| SET_DIGIT c.2 ||| FIXED))
      clues.length).2,
    history := clues.map (fun c => SET_INDEX c.1 ||| SET_DIGIT c.2 ||| FIXED) ++
      List.replicate (243 - clues.length) 0,
    idx_history := clues.length,
    pass := 0 }

/-- A complete valid grid, row by row. -/
def grid_example : List Nat :=
  [5,3,4,6,7,8,9,1,2, 6,7,2,1,9,5,3,4,8, 1,9,8,3,4,2,5,6,7,
   8,5,9,7,6,1,4,2,3, 4,2,6,8,5,3,7,9,1, 7,1,3,9,2,4,8,5,6,
   9,6,1,5,3,7,2,8,4, 2,8,7,4,1,9,6,3,5, 3,4,5,2,8,6,1,7,9]

/-- The clues of `grid_example` without the cells 0, 40 and 80. -/
def clues_example : List (Nat × Nat) :=
  ((List.range 81).filter (fun i => i ≠ 0 ∧ i ≠ 40 ∧ i ≠ 80)).map
    (fun i => (i, grid_example.getD i 0))

/-- The state in which `solve` leaves the puzzle `clues_example`. -/
def solved_example : State :=
  match solve qsort_model 10 (clues_state clues_example) with
  | some (_, s) => s
  | none => reset

/-- A state whose history fills cell 0 twice, with 5 and then with 6. -/
def state_double_fill : State :=
  { board := List.replicate 81 0,
    history := [SET_INDEX 0 ||| SET_DIGIT 5, SET_INDEX 0 ||| SET_DIGIT 6] ++
      List.replicate 241 0,
    idx_history := 2,
    pass := 0 }

/-- The state after `fill(0, 5)` on the state of `reset`. -/
def state_one_fill : State :=
  match fill reset 0 5 with
  | some (_, s) => s
  | none => reset

/-- A state at history capacity: 121 times the user filled cell 0 with digit 1 and
cleared it again, so that 242 records are live, all but the last ignored, and the board
is empty. -/
def state_at_capacity : State :=
  { board := List.replicate 81 0,
    history := (List.range 243).map (fun k =>
      if k = 242 then 0
      else if k = 241 then SET_INDEX 0 ||| SET_DIGIT 0
      else if k % 2 = 0 then SET_INDEX 0 ||| SET_DIGIT 1 ||| IGNORED
      else SET_INDEX 0 ||| SET_DIGIT 0 ||| IGNORED),
    idx_history := 242,
    pass := 0 }

end Sudoku

namespace Sudoku

/-- A candidate move that every completion `G` must make: it names a cell of the board
and the digit that `G` holds there. -/
def Forced (G : List Nat) (p : Nat) : Prop :=
  GET_INDEX p < 81 ∧ GET_DIGIT p = DIGIT G (GET_INDEX p)

/-- Board `b` is well formed and grid `G` is consistent with it. -/
def Good (G b : List Nat) : Prop := BoardWF b ∧ Cons G b

/-- Grids `G` and `F` hold the same digits in all 81 cells. -/
def SameDigits (G F : List Nat) : Prop := ∀ i < 81, DIGIT G i = DIGIT F i

/-- No grid of the class `C` agrees with all live records of the history. -/
def Dead (C : List Nat → Prop) (s : State) : Prop :=
  ∀ G, C G → ¬ Agree G s.history s.idx_history.toNat

/-- A property of histories that survives every record written by `add_move` for `fill`
and `choose`. -/
def WordClosed (P : List Nat → Prop) : Prop :=
  ∀ hist k idx d flags, idx < 81 → 1 ≤ d → d ≤ 9 → (flags = 0 ∨ flags = CHOICE) →
    P hist → P (wr hist k (SET_INDEX idx ||| SET_DIGIT d ||| flags))

/-- History `h'` with `n'` live records extends history `h` with `n` live records. -/
def Ext (h : List Nat) (n : Nat) (h' : List Nat) (n' : Nat) : Prop :=
  n ≤ n' ∧ ∀ k < n, rd h' k = rd h k

/-- History `h'` is history `h` with one choice record advanced to a larger digit: the
records before it are the same. -/
def Adv (h : List Nat) (n : Nat) (h' : List Nat) (n' : Nat) : Prop :=
  ∃ k, k < n ∧ k < n' ∧ (∀ j < k, rd h' j = rd h j) ∧ rd h k &&& CHOICE ≠ 0 ∧
    rd h' k &&& CHOICE ≠ 0 ∧ GET_INDEX (rd h' k) = GET_INDEX (rd h k) ∧
    GET_DIGIT (rd h k) < GET_DIGIT (rd h' k)

/-- Grid `F` lies behind the search path: at some choice record the path holds a larger
digit than `F`, which agrees with the records before it. -/
def Behind (F : List Nat) (h : List Nat) (n : Nat) : Prop :=
  ∃ k, k < n ∧ rd h k &&& CHOICE ≠ 0 ∧ Agree F h k ∧
    DIGIT F (GET_INDEX (rd h k)) < GET_DIGIT (rd h k)

/-- The live records read as a decimal number, first record first: it grows with every
record that is added and with every choice that is advanced. -/
def weight (hist : List Nat) : Nat → Nat
  | 0 => 0
  | n + 1 => weight hist n + GET_DIGIT (rd hist n) * 10 ^ (80 - n)

/-- Invariant of the search of `solve` for the grids of a class `C`. The first `m0`
records are the puzzle (records `1 .. m0 - 1` are no choice points, so that `backtrack`
never changes them); every live record is replayed and the history holds one record per
filled cell; every grid of `C` that agrees with the live records is consistent with the
board; and along the records from `m0` on, such a grid holds the digit of every forced
record and at least the digit of every choice record, as long as it agrees with the
records before it. The history also has the property `P`. -/
structure SearchInv (C : List Nat → Prop) (P : List Nat → Prop) (m0 : Nat) (H0 : List Nat)
    (s : State) : Prop where
  inv : SolveInv s
  live : ∀ k < s.idx_history.toNat, replayable (rd s.history k)
  card : s.idx_history.toNat = (filled s.board).card
  base1 : 1 ≤ m0
  base : m0 ≤ s.idx_history.toNat
  nochoice : ∀ k, 1 ≤ k → k < m0 → rd s.history k &&& CHOICE = 0
  pre : ∀ k < m0, rd s.history k = rd H0 k
  sound : ∀ G, C G → Agree G s.history s.idx_history.toNat → Cons G s.board
  lex : ∀ G, C G → ∀ k, m0 ≤ k → k < s.idx_history.toNat → Agree G s.history k →
    (rd s.history k &&& CHOICE ≠ 0 →
      GET_DIGIT (rd s.history k) ≤ DIGIT G (GET_INDEX (rd s.history k))) ∧
    (rd s.history k &&& CHOICE = 0 →
      DIGIT G (GET_INDEX (rd s.history k)) = GET_DIGIT (rd s.history k))
  hp : P s.history

/-- Invariant of the loop of `backtrack`: the history part of `SearchInv`, and no grid of
the class agrees with the records that are still live (and with the puzzle records). -/
structure BackInv (C : List Nat → Prop) (P : List Nat → Prop) (m0 : Nat) (H0 : List Nat)
    (s : State) : Prop where
  hist : HistInv s
  le81 : s.idx_history ≤ 81
  live : ∀ k < s.idx_history.toNat, replayable (rd s.history k)
  base1 : 1 ≤ m0
  nochoice : ∀ k, 1 ≤ k → k < m0 → rd s.history k &&& CHOICE = 0
  pre : ∀ k < m0, rd s.history k = rd H0 k
  lex : ∀ G, C G → ∀ k, m0 ≤ k → k < s.idx_history.toNat → Agree G s.history k →
    (rd s.history k &&& CHOICE ≠ 0 →
      GET_DIGIT (rd s.history k) ≤ DIGIT G (GET_INDEX (rd s.history k))) ∧
    (rd s.history k &&& CHOICE = 0 →
      DIGIT G (GET_INDEX (rd s.history k)) = GET_DIGIT (rd s.history k))
  dead : ∀ G, C G → ¬ Agree G s.history (max s.idx_history.toNat m0)
  hp : P s.history

/-- A history record of a fixed clue: a cell, a digit 1..9, the flag `FIXED` and neither
`CHOICE` nor `IGNORED`. -/
def ClueRec (h : Nat) : Prop :=
  GET_INDEX h < 81 ∧ 1 ≤ GET_DIGIT h ∧ GET_DIGIT h ≤ 9 ∧ h &&& FIXED ≠ 0 ∧
    h &&& CHOICE = 0 ∧ h &&& IGNORED = 0

instance (h : Nat) : Decidable (ClueRec h) := by
  unfold ClueRec
  infer_instance

/-- The grid `grid_example` as a board, with the digits 1 and `grid_example[idx]`
exchanged: a complete valid grid that holds 1 in cell `idx`. -/
def grid_with_one (idx : Nat) : List Nat :=
  grid_example.map (fun v =>
    SET_DIGIT (if v = 1 then grid_example.getD idx 0
      else if v = grid_example.getD idx 0 then 1 else v))

/-- The grid `grid_with_one idx` with the digits 2 and 3 exchanged: a second complete
valid grid that holds 1 in cell `idx`. -/
def grid_with_one_alt (idx : Nat) : List Nat :=
  (grid_with_one idx).map (fun w =>
    SET_DIGIT (if GET_DIGIT w = 2 then 3 else if GET_DIGIT w = 3 then 2 else GET_DIGIT w))

/-- Clues without a completion: the first row holds 1..8 in its first eight cells and
the 9 stands below the ninth. -/
def clues_dead : List (Nat × Nat) :=
  [(0, 1), (1, 2), (2, 3), (3, 4), (4, 5), (5, 6), (6, 7), (7, 8), (17, 9)]

/-- The state in which `solve` leaves the puzzle `clues_dead`. -/
def dead_example : State :=
  match solve qsort_model 3 (clues_state clues_dead) with
  | some (_, s) => s
  | none => reset

/-- No record of the history from position `m` on carries the flag `FIXED`. -/
def NoFixedFrom (m : Nat) (hist : List Nat) : Prop := ∀ k, m ≤ k → rd hist k &&& FIXED = 0

/-- History `hist` starts with the `nf` clue records of `H0` and holds no fixed record
behind them. -/
def CluePrefix (H0 : List Nat) (nf : Nat) (hist : List Nat) : Prop :=
  hist.length = 243 ∧ NoFixedFrom nf hist ∧ ∀ k < nf, rd hist k = rd H0 k

/-- The first `nf` records of `H0` are a puzzle with exactly one solution: they are clue
records whose replay is valid, some complete valid grid agrees with them, and any two
such grids hold the same digits. -/
structure UniquePuzzle (H0 : List Nat) (nf : Nat) : Prop where
  pos : 1 ≤ nf
  le : nf ≤ 81
  clues : ∀ k < nf, ClueRec (rd H0 k)
  valid : (replay H0 nf).1 = 0
  ex : ∃ F, Solved F ∧ Agree F H0 nf
  uniq : ∀ G G', Solved G → Agree G H0 nf → Solved G' → Agree G' H0 nf → SameDigits G G'

/-- The digits 1..9 in their initial order, a possible outcome of the shuffle. -/
def digits_example : List Nat := [1, 2, 3, 4, 5, 6, 7, 8, 9]

/-- A template of 78 cells (all but 4, 5 and 6), ordered so that the loop
`fill(tmplt[i], digits_example[i % 9])` writes the digits of `grid_example`. -/
def template_example : List Nat :=
  [7, 8, 1, 2, 0, 3, 10, 17, 13, 12, 11, 15, 16, 14, 9, 26, 20, 19, 18, 23, 21, 22, 24, 25,
   30, 27, 29, 32, 34, 35, 33, 28, 31, 42, 39, 43, 44, 37, 41, 36, 40, 38, 45, 51, 48, 46,
   49, 47, 50, 52, 53, 59, 61, 54, 56, 60, 58, 62, 57, 55, 65, 64, 68, 67, 63, 70, 66, 71,
   69, 79, 76, 80, 78, 75, 72, 73, 74, 77]

/-- The state after the loop of `fill` calls of `generate` on the example template. -/
def filled_example : State :=
  State.mk
    [393088, 262016, 327552, 458624, 57216, 49024, 32640, 130944, 196480, 458624, 524160,
     196480, 130944, 655232, 393088, 262016, 327552, 589696, 130944, 655232, 589696, 262016,
     327552, 196480, 393088, 458624, 524160, 589696, 393088, 655232, 524160, 458624, 130944,
     327552, 196480, 262016, 327552, 196480, 458624, 589696, 393088, 262016, 524160, 655232,
     130944, 524160, 130944, 262016, 655232, 196480, 327552, 589696, 393088, 458624, 655232,
     458624, 130944, 393088, 262016, 524160, 196480, 589696, 327552, 196480, 589696, 524160,
     327552, 130944, 655232, 458624, 262016, 393088, 262016, 327552, 393088, 196480, 589696,
     458624, 130944, 524160, 655232]
    ([65543, 131080, 196609, 262146, 327680, 393219, 458762, 524305, 589837, 65548, 131083,
     196623, 262160, 327694, 393225, 458778, 524308, 589843, 65554, 131095, 196629, 262166,
     327704, 393241, 458782, 524315, 589853, 65568, 131106, 196643, 262177, 327708, 393247,
     458794, 524327, 589867, 65580, 131109, 196649, 262180, 327720, 393254, 458797, 524339,
     589872, 65582, 131121, 196655, 262194, 327732, 393269, 458811, 524349, 589878, 65592,
     131132, 196666, 262206, 327737, 393271, 458817, 524352, 589892, 65603, 131135, 196678,
     262210, 327751, 393285, 458831, 524364, 589904, 65614, 131147, 196680, 262217, 327754,
     393293, 0, 0, 0] ++
      List.replicate 162 0)
    78 0

/-- The state after the first `solve` of the example round of `generate`. -/
def completed_example : State :=
  State.mk
    [393088, 262016, 327552, 458624, 524160, 589696, 655232, 130944, 196480, 458624, 524160,
     196480, 130944, 655232, 393088, 262016, 327552, 589696, 130944, 655232, 589696, 262016,
     327552, 196480, 393088, 458624, 524160, 589696, 393088, 655232, 524160, 458624, 130944,
     327552, 196480, 262016, 327552, 196480, 458624, 589696, 393088, 262016, 524160, 655232,
     130944, 524160, 130944, 262016, 655232, 196480, 327552, 589696, 393088, 458624, 655232,
     458624, 130944, 393088, 262016, 524160, 196480, 589696, 327552, 196480, 589696, 524160,
     327552, 130944, 655232, 458624, 262016, 393088, 262016, 327552, 393088, 196480, 589696,
     458624, 130944, 524160, 655232]
    ([65543, 131080, 196609, 262146, 327680, 393219, 458762, 524305, 589837, 65548, 131083,
     196623, 262160, 327694, 393225, 458778, 524308, 589843, 65554, 131095, 196629, 262166,
     327704, 393241, 458782, 524315, 589853, 65568, 131106, 196643, 262177, 327708, 393247,
     458794, 524327, 589867, 65580, 131109, 196649, 262180, 327720, 393254, 458797, 524339,
     589872, 65582, 131121, 196655, 262194, 327732, 393269, 458811, 524349, 589878, 65592,
     131132, 196666, 262206, 327737, 393271, 458817, 524352, 589892, 65603, 131135, 196678,
     262210, 327751, 393285, 458831, 524364, 589904, 65614, 131147, 196680, 262217, 327754,
     393293, 458756, 524293, 589830] ++
      List.replicate 162 0)
    81 1

/-- The state after the first 26 `fill` calls of `generate` on the example template. -/
def filled26_example : State :=
  State.mk
    [393088, 262016, 327552, 458624, 40832, 40832, 32640, 130944, 196480, 458624, 524160,
     196480, 130944, 655232, 393088, 262016, 327552, 589696, 130944, 655232, 589696, 262016,
     327552, 196480, 393088, 458624, 524160, 589696, 57856, 25856, 524160, 58368, 26880, 27136,
     29824, 24832, 22656, 57856, 17664, 12928, 41984, 10496, 2560, 5248, 24832, 22656, 57856,
     17664, 12928, 41984, 10496, 2560, 5248, 24832, 22656, 41472, 17664, 12928, 33792, 2304,
     2560, 5248, 24832, 22656, 41472, 17664, 12928, 33792, 2304, 2560, 5248, 24832, 22656,
     41472, 17664, 12928, 33792, 2304, 2560, 5248, 24832]
    ([65543, 131080, 196609, 262146, 327680, 393219, 458762, 524305, 589837, 65548, 131083,
     196623, 262160, 327694, 393225, 458778, 524308, 589843, 65554, 131095, 196629, 262166,
     327704, 393241, 458782, 524315] ++
      List.replicate 217 0)
    26 0

/-- The state after the first 52 `fill` calls of `generate` on the example template. -/
def filled52_example : State :=
  State.mk
    [393088, 262016, 327552, 458624, 40832, 49024, 32640, 130944, 196480, 458624, 524160,
     196480, 130944, 655232, 393088, 262016, 327552, 589696, 130944, 655232, 589696, 262016,
     327552, 196480, 393088, 458624, 524160, 589696, 393088, 655232, 524160, 458624, 130944,
     327552, 196480, 262016, 327552, 196480, 458624, 589696, 393088, 262016, 524160, 655232,
     130944, 524160, 130944, 262016, 655232, 196480, 327552, 589696, 393088, 458624, 31872,
     43904, 63232, 62080, 48384, 524160, 28160, 48512, 29568, 31872, 43904, 55040, 62080, 48384,
     12160, 28160, 40320, 29568, 31872, 43904, 55040, 62080, 48384, 12160, 28160, 40320, 29568]
    ([65543, 131080, 196609, 262146, 327680, 393219, 458762, 524305, 589837, 65548, 131083,
     196623, 262160, 327694, 393225, 458778, 524308, 589843, 65554, 131095, 196629, 262166,
     327704, 393241, 458782, 524315, 589853, 65568, 131106, 196643, 262177, 327708, 393247,
     458794, 524327, 589867, 65580, 131109, 196649, 262180, 327720, 393254, 458797, 524339,
     589872, 65582, 131121, 196655, 262194, 327732, 393269, 458811] ++
      List.replicate 191 0)
    52 0

/-- The state after the first 65 `fill` calls of `generate` on the example template. -/
def filled65_example : State :=
  State.mk
    [393088, 262016, 327552, 458624, 40832, 49024, 32640, 130944, 196480, 458624, 524160,
     196480, 130944, 655232, 393088, 262016, 327552, 589696, 130944, 655232, 589696, 262016,
     327552, 196480, 393088, 458624, 524160, 589696, 393088, 655232, 524160, 458624, 130944,
     327552, 196480, 262016, 327552, 196480, 458624, 589696, 393088, 262016, 524160, 655232,
     130944, 524160, 130944, 262016, 655232, 196480, 327552, 589696, 393088, 458624, 655232,
     458624, 130944, 393088, 262016, 524160, 196480, 589696, 327552, 196480, 589696, 524160,
     64384, 130944, 655232, 61312, 64896, 63360, 64896, 64384, 63360, 64128, 49024, 44928,
     28416, 56704, 30592]
    ([65543, 131080, 196609, 262146, 327680, 393219, 458762, 524305, 589837, 65548, 131083,
     196623, 262160, 327694, 393225, 458778, 524308, 589843, 65554, 131095, 196629, 262166,
     327704, 393241, 458782, 524315, 589853, 65568, 131106, 196643, 262177, 327708, 393247,
     458794, 524327, 589867, 65580, 131109, 196649, 262180, 327720, 393254, 458797, 524339,
     589872, 65582, 131121, 196655, 262194, 327732, 393269, 458811, 524349, 589878, 65592,
     131132, 196666, 262206, 327737, 393271, 458817, 524352, 589892, 65603, 131135] ++
      List.replicate 178 0)
    65 0

/-- The example template followed by cell 5: with `digits_example` the fill of this last
cell is `fill(5, 7)`, which fails because column 5 holds a 7 already. -/
def template_failing : List Nat := template_example ++ [5]

/-- The board of `completed_example` with the cells of `template_failing` marked as fixed. -/
def marked_failing : List Nat :=
  [1441664, 1310592, 1376128, 1507200, 524160, 1638272, 655232, 1179520, 1245056, 1507200,
   1572736, 1245056, 1179520, 1703808, 1441664, 1310592, 1376128, 1638272, 1179520, 1703808,
   1638272, 1310592, 1376128, 1245056, 1441664, 1507200, 1572736, 1638272, 1441664, 1703808,
   1572736, 1507200, 1179520, 1376128, 1245056, 1310592, 1376128, 1245056, 1507200, 1638272,
   1441664, 1310592, 1572736, 1703808, 1179520, 1572736, 1179520, 1310592, 1703808, 1245056,
   1376128, 1638272, 1441664, 1507200, 1703808, 1507200, 1179520, 1441664, 1310592, 1572736,
   1245056, 1638272, 1376128, 1245056, 1638272, 1572736, 1376128, 1179520, 1703808, 1507200,
   1310592, 1441664, 1310592, 1376128, 1441664, 1245056, 1638272, 1507200, 1179520, 1572736,
   1703808]

/-- The state after the fixed squares of the round on `template_failing` have been
constructed and `clear_moves` has run: 79 clues. -/
def clued_failing : State :=
  State.mk
    [1441664, 1310592, 1376128, 1507200, 57216, 1638272, 32640, 1179520, 1245056, 1507200,
     1572736, 1245056, 1179520, 1703808, 1441664, 1310592, 1376128, 1638272, 1179520, 1703808,
     1638272, 1310592, 1376128, 1245056, 1441664, 1507200, 1572736, 1638272, 1441664, 1703808,
     1572736, 1507200, 1179520, 1376128, 1245056, 1310592, 1376128, 1245056, 1507200, 1638272,
     1441664, 1310592, 1572736, 1703808, 1179520, 1572736, 1179520, 1310592, 1703808, 1245056,
     1376128, 1638272, 1441664, 1507200, 1703808, 1507200, 1179520, 1441664, 1310592, 1572736,
     1245056, 1638272, 1376128, 1245056, 1638272, 1572736, 1376128, 1179520, 1703808, 1507200,
     1310592, 1441664, 1310592, 1376128, 1441664, 1245056, 1638272, 1507200, 1179520, 1572736,
     1703808]
    ([1376256, 1245185, 1310722, 1441795, 1572869, 1114119, 1179656, 1441801, 1507338, 1179659,
     1114124, 1638413, 1376270, 1245199, 1310736, 1572881, 1114130, 1638419, 1572884, 1245205,
     1310742, 1179671, 1376280, 1441817, 1507354, 1572891, 1376284, 1638429, 1507358, 1441823,
     1114144, 1310753, 1179682, 1245219, 1310756, 1179685, 1441830, 1572903, 1376296, 1245225,
     1507370, 1638443, 1114156, 1507373, 1114158, 1245231, 1638448, 1179697, 1310770, 1572915,
     1376308, 1441845, 1638454, 1441847, 1114168, 1376313, 1245242, 1507387, 1179708, 1572925,
     1310782, 1179711, 1572928, 1507393, 1310786, 1114179, 1638468, 1441861, 1245254, 1376327,
     1245256, 1310793, 1376330, 1179723, 1572940, 1441869, 1114190, 1507407, 1638480, 524293,
     589830] ++
      List.replicate 162 0)
    79 1

/-- The board after `reapply` has replayed the first 26 clues of `clued_failing`. -/
def replayed26_failing : List Nat :=
  [1441664, 1310592, 1376128, 1507200, 57216, 1638272, 32640, 1179520, 1245056, 1507200,
   1572736, 1245056, 1179520, 1703808, 1441664, 1310592, 1376128, 1638272, 1179520, 1703808,
   1638272, 1310592, 1376128, 1245056, 1441664, 1507200, 1572736, 1638272, 57856, 17664, 21120,
   50176, 18688, 18944, 21632, 24832, 22656, 57856, 17664, 4736, 33792, 18688, 2560, 5248,
   24832, 22656, 57856, 17664, 4736, 33792, 18688, 2560, 5248, 24832, 22656, 41472, 17664, 4736,
   33792, 18688, 2560, 5248, 24832, 22656, 41472, 17664, 4736, 33792, 18688, 2560, 5248, 24832,
   22656, 41472, 17664, 4736, 33792, 18688, 2560, 5248, 24832]

/-- The board after `reapply` has replayed the first 52 clues of `clued_failing`. -/
def replayed52_failing : List Nat :=
  [1441664, 1310592, 1376128, 1507200, 57216, 1638272, 32640, 1179520, 1245056, 1507200,
   1572736, 1245056, 1179520, 1703808, 1441664, 1310592, 1376128, 1638272, 1179520, 1703808,
   1638272, 1310592, 1376128, 1245056, 1441664, 1507200, 1572736, 1638272, 1441664, 1703808,
   1572736, 1507200, 1179520, 1376128, 1245056, 1310592, 1376128, 1245056, 1507200, 1638272,
   1441664, 1310592, 1572736, 1703808, 1179520, 1572736, 1179520, 1310592, 1703808, 1245056,
   1376128, 1638272, 1441664, 1507200, 31872, 43904, 55040, 62080, 40192, 20352, 28160, 40320,
   29568, 31872, 43904, 55040, 62080, 40192, 20352, 28160, 40320, 29568, 31872, 43904, 55040,
   62080, 40192, 20352, 28160, 40320, 29568]

/-- The state after the second `solve` of the round on `template_failing`. -/
def resolved_failing : State :=
  State.mk
    [1441664, 1310592, 1376128, 1507200, 524160, 1638272, 655232, 1179520, 1245056, 1507200,
     1572736, 1245056, 1179520, 1703808, 1441664, 1310592, 1376128, 1638272, 1179520, 1703808,
     1638272, 1310592, 1376128, 1245056, 1441664, 1507200, 1572736, 1638272, 1441664, 1703808,
     1572736, 1507200, 1179520, 1376128, 1245056, 1310592, 1376128, 1245056, 1507200, 1638272,
     1441664, 1310592, 1572736, 1703808, 1179520, 1572736, 1179520, 1310592, 1703808, 1245056,
     1376128, 1638272, 1441664, 1507200, 1703808, 1507200, 1179520, 1441664, 1310592, 1572736,
     1245056, 1638272, 1376128, 1245056, 1638272, 1572736, 1376128, 1179520, 1703808, 1507200,
     1310592, 1441664, 1310592, 1376128, 1441664, 1245056, 1638272, 1507200, 1179520, 1572736,
     1703808]
    ([1376256, 1245185, 1310722, 1441795, 1572869, 1114119, 1179656, 1441801, 1507338, 1179659,
     1114124, 1638413, 1376270, 1245199, 1310736, 1572881, 1114130, 1638419, 1572884, 1245205,
     1310742, 1179671, 1376280, 1441817, 1507354, 1572891, 1376284, 1638429, 1507358, 1441823,
     1114144, 1310753, 1179682, 1245219, 1310756, 1179685, 1441830, 1572903, 1376296, 1245225,
     1507370, 1638443, 1114156, 1507373, 1114158, 1245231, 1638448, 1179697, 1310770, 1572915,
     1376308, 1441845, 1638454, 1441847, 1114168, 1376313, 1245242, 1507387, 1179708, 1572925,
     1310782, 1179711, 1572928, 1507393, 1310786, 1114179, 1638468, 1441861, 1245254, 1376327,
     1245256, 1310793, 1376330, 1179723, 1572940, 1441869, 1114190, 1507407, 1638480, 458756,
     589830] ++
      List.replicate 162 0)
    81 2

/-- The state after the accepted round of `generate` on `template_failing`. -/
def generated_failing : State :=
  State.mk
    [1441664, 1310592, 1376128, 1507200, 524160, 1638272, 655232, 1179520, 1245056, 1507200,
     1572736, 1245056, 1179520, 1703808, 1441664, 1310592, 1376128, 1638272, 1179520, 1703808,
     1638272, 1310592, 1376128, 1245056, 1441664, 1507200, 1572736, 1638272, 1441664, 1703808,
     1572736, 1507200, 1179520, 1376128, 1245056, 1310592, 1376128, 1245056, 1507200, 1638272,
     1441664, 1310592, 1572736, 1703808, 1179520, 1572736, 1179520, 1310592, 1703808, 1245056,
     1376128, 1638272, 1441664, 1507200, 1703808, 1507200, 1179520, 1441664, 1310592, 1572736,
     1245056, 1638272, 1376128, 1245056, 1638272, 1572736, 1376128, 1179520, 1703808, 1507200,
     1310592, 1441664, 1310592, 1376128, 1441664, 1245056, 1638272, 1507200, 1179520, 1572736,
     1703808]
    ([1376256, 1245185, 1310722, 1441795, 1572869, 1114119, 1179656, 1441801, 1507338, 1179659,
     1114124, 1638413, 1376270, 1245199, 1310736, 1572881, 1114130, 1638419, 1572884, 1245205,
     1310742, 1179671, 1376280, 1441817, 1507354, 1572891, 1376284, 1638429, 1507358, 1441823,
     1114144, 1310753, 1179682, 1245219, 1310756, 1179685, 1441830, 1572903, 1376296, 1245225,
     1507370, 1638443, 1114156, 1507373, 1114158, 1245231, 1638448, 1179697, 1310770, 1572915,
     1376308, 1441845, 1638454, 1441847, 1114168, 1376313, 1245242, 1507387, 1179708, 1572925,
     1310782, 1179711, 1572928, 1507393, 1310786, 1114179, 1638468, 1441861, 1245254, 1376327,
     1245256, 1310793, 1376330, 1179723, 1572940, 1441869, 1114190, 1507407, 1638480, 458756,
     589830] ++
      List.replicate 162 0)
    0 2

end Sudoku

namespace Sudoku

/-! ## User-level moves -/

/-- Function `fillx(idx, digit)`: user-level fill, allowing clears and overwrites. The
call `beep()` does not touch the engine state. The result is `none` when `add_move`
stores outside the array. -/
def fillx (s : State) (idx digit : Nat) : Option State :=
  if DIGIT s.board idx = digit then some s
  else if digit ≠ 0 ∧ IS_EMPTY s.board idx then
    let b1 := wr s.board idx (SET_DIGIT digit ||| SET_INDEX idx)
    add_move { s with board := update b1 idx } idx digit 0
  else
    match add_move s idx 0 0 with
    | none => none
    | some s1 =>
      let s2 := (reapply s1).2
      if digit ≠ 0 then
        if 0 < s2.idx_history then
          let n := (s2.idx_history - 1).toNat
          some (reapply { s2 with
            history := wr s2.history n (rd s2.history n ||| SET_DIGIT digit) }).2
        else some s2
      else some s2

/-- The loop of the command `u` of `play_the_game`: going down from index `i - 1`, clear
the flag `IGNORED` of the first record that refers to cell `idx` and stop; `~IGNORED` is
a 32-bit word. -/
def undo_unignore (history : List Nat) (idx : Nat) : Nat → List Nat
  | 0 => history
  | i + 1 =>
    if GET_INDEX (rd history i) = idx then
      wr history i (rd history i &&& (0xffffffff ^^^ IGNORED))
    else undo_unignore history idx i

/-- The command `u` (undo last move) of `play_the_game`, without the handling of the
screen, the hints and the cursor: nothing happens when the history is empty or its last
record is fixed; else the last record is dropped, the previous record of its cell is no
longer ignored, and the board is rebuilt by `reapply`. -/
def undo (s : State) : State :=
  if s.idx_history ≤ 0 ∨ rd s.history (s.idx_history - 1).toNat &&& FIXED ≠ 0 then s
  else
    let n := (s.idx_history - 1).toNat
    let h := undo_unignore s.history (GET_INDEX (rd s.history n)) n
    (reapply { s with history := h, idx_history := s.idx_history - 1 }).2

/-- A user-level operation on the history: a call of `fillx` or the undo command. -/
inductive UserOp where
  | fillx (idx digit : Nat)
  | undo
deriving DecidableEq, Repr

/-- The arguments of a user-level operation: a cell index 0..80 and a digit 0..9, where
0 clears the cell. -/
def UserOp.ok : UserOp → Prop
  | UserOp.fillx idx digit => idx < 81 ∧ digit ≤ 9
  | UserOp.undo => True

instance (c : UserOp) : Decidable c.ok := by
  cases c <;> (unfold UserOp.ok; infer_instance)

/-- Run one user-level operation. -/
def run_user_op (s : State) : UserOp → Option State
  | UserOp.fillx idx digit => fillx s idx digit
  | UserOp.undo => some (undo s)

/-- Run a sequence of user-level operations. -/
def run_user : State → List UserOp → Option State
  | s, [] => some s
  | s, c :: cs =>
    match run_user_op s c with
    | none => none
    | some s1 => run_user s1 cs

/-- Among the live records `history[0 .. n-1]`, the most recent record of every cell
index is not ignored. -/
def RecentLive (history : List Nat) (n : Nat) : Prop :=
  ∀ k < n, (∀ k' < n, k < k' → GET_INDEX (rd history k') ≠ GET_INDEX (rd history k)) →
    rd history k &&& IGNORED = 0

instance (history : List Nat) (n : Nat) : Decidable (RecentLive history n) :=
  Nat.decidableBallLT n (fun k _ =>
    (∀ k' < n, k < k' → GET_INDEX (rd history k') ≠ GET_INDEX (rd history k)) →
      rd history k &&& IGNORED = 0)

/-- The property `RecentLive` of a list of records, by recursion on the list: a record is
not ignored or a later record refers to the same cell. -/
def RecentLiveList : List Nat → Prop
  | [] => True
  | x :: xs => (x &&& IGNORED = 0 ∨ ∃ y ∈ xs, GET_INDEX y = GET_INDEX x) ∧ RecentLiveList xs

/-- The records that the loops of `compress(limit)` leave, given the number `j` of records
already kept: a record that is not ignored is kept; an ignored record is dropped as long
as fewer than `limit` records have been kept, and kept afterwards. -/
def compress_kept (limit : Int) : Nat → List Nat → List Nat
  | _, [] => []
  | j, x :: xs =>
    if x &&& IGNORED = 0 then x :: compress_kept limit (j + 1) xs
    else if (j : Int) < limit then compress_kept limit j xs
    else x :: compress_kept limit j xs

/-- The live records after `compress(limit)` as the specification words them: the ignored
records before the most recent `limit` records are removed. -/
def compress_described (limit : Nat) (l : List Nat) : List Nat :=
  (l.take (l.length - limit)).filter (fun x => decide (x &&& IGNORED = 0)) ++
    l.drop (l.length - limit)

/-- A state with the live records `records` on an empty board. -/
def history_state (records : List Nat) : State :=
  { board := List.replicate 81 0,
    history := records ++ List.replicate (243 - records.length) 0,
    idx_history := records.length,
    pass := 0 }

/-- Two records of cell 5, the more recent one ignored. -/
def records_stale : List Nat :=
  [SET_INDEX 5 ||| SET_DIGIT 1, SET_INDEX 5 ||| SET_DIGIT 2 ||| IGNORED]

/-- Four records: cell 0 twice and cell 1 twice, the older record of each cell ignored. -/
def records_twice : List Nat :=
  [SET_INDEX 0 ||| SET_DIGIT 1 ||| IGNORED, SET_INDEX 0 ||| SET_DIGIT 2,
   SET_INDEX 1 ||| SET_DIGIT 3 ||| IGNORED, SET_INDEX 1 ||| SET_DIGIT 4]

/-- The state in which `backtrack` leaves the puzzle with the single clue 7 in cell 3:
no choice is open and the history is rewound. -/
def state_rewound : State :=
  match backtrack (clues_state [(3, 7)]) with
  | some (_, s) => s
  | none => reset

/-- Invariant of the history under the user-level operations: the array has its 243
entries, `idx_history` is within it, and the most recent live record of every cell is not
ignored. -/
structure UserInv (s : State) : Prop where
  hlen : s.history.length = 243
  nonneg : 0 ≤ s.idx_history
  le : s.idx_history ≤ 243
  recent : RecentLive s.history s.idx_history.toNat

/-- A session of user-level operations: fills, an overwrite, an undo and a clear. -/
def ops_example : List UserOp :=
  [UserOp.fillx 0 5, UserOp.fillx 0 6, UserOp.fillx 1 3, UserOp.undo, UserOp.fillx 40 9,
   UserOp.fillx 0 0]

/-- The state after the session `ops_example` from the empty board. -/
def user_example : State :=
  match run_user reset ops_example with
  | some s => s
  | none => reset

/-! ## Vocabulary for the scans of a unit -/

/-- Some digit 1..9 is masked out in all nine cells of the unit `el` of `idx_fn` and is
not the digit of any of its cells. -/
def UnitDead (board : List Nat) (el : Nat) (idx_fn : Nat → Nat → Nat) : Prop :=
  ∃ d, 1 ≤ d ∧ d ≤ 9 ∧ (∀ j < 9, DISALLOWED board (idx_fn el j) d ≠ 0) ∧
    ∀ j < 9, DIGIT board (idx_fn el j) ≠ d

/-- Fills of the first eight cells of row 0 with the digits of `grid_example`. -/
def row_clues : List (Nat × Nat) :=
  [(0, 5), (1, 3), (2, 4), (3, 6), (4, 7), (5, 8), (6, 9), (7, 1)]

/-- The state after the fills `row_clues` from the empty board. -/
def row_example : State :=
  match run_fills reset row_clues with
  | some s => s
  | none => reset

/-- Invariant of the loops of `pairs` once the pair at the positions `p` and `q` of the
unit has been processed: the words of the two pair cells are those of the board `board0`
at the start, every other cell of the unit has the bits of the digits `a` and `c` set, and
`digits[q]` is no longer 7. -/
structure PairInv (el : Nat) (idx_fn : Nat → Nat → Nat) (board0 : List Nat) (p q a c : Nat)
    (acc : List Nat × List Int) : Prop where
  len : acc.1.length = 81
  keep_p : rd acc.1 (idx_fn el p) = rd board0 (idx_fn el p)
  keep_q : rd acc.1 (idx_fn el q) = rd board0 (idx_fn el q)
  masked : ∀ k < 9, k ≠ p → k ≠ q →
    (rd acc.1 (idx_fn el k)).testBit (6 + a) = true ∧
    (rd acc.1 (idx_fn el k)).testBit (6 + c) = true
  done : rdi acc.2 q ≠ 7

/-- Fills of the first seven cells of row 0 with the digits of `grid_example`: the cells 7
and 8 are left with the candidates 1 and 2. -/
def pair_clues : List (Nat × Nat) :=
  [(0, 5), (1, 3), (2, 4), (3, 6), (4, 7), (5, 8), (6, 9)]

/-- The state after the fills `pair_clues` from the empty board. -/
def pair_example : State :=
  match run_fills reset pair_clues with
  | some s => s
  | none => reset

/-- Fills of the first six cells of row 0 and of a 9 in cell 15: the cells 6, 7 and 8 are
all three left with the candidates 1 and 2. -/
def triple_clues : List (Nat × Nat) :=
  [(0, 5), (1, 3), (2, 4), (3, 6), (4, 7), (5, 8), (15, 9)]

/-- The state after the fills `triple_clues` from the empty board. -/
def triple_example : State :=
  match run_fills reset triple_clues with
  | some s => s
  | none => reset

end Sudoku

namespace Sudoku

/-! ## Hints -/

/-- Comparison function `cmpindex` of `findhints`. -/
def cmpindex (a b : Nat) : Int := (GET_INDEX b : Int) - (GET_INDEX a : Int)

/-- Body of the second loop of `findhints`: `block(i); common(i)`. -/
def findhints_block (board : List Nat) (i : Nat) : List Nat :=
  common (block board i) i

/-- Body of the loop of `findhints` that is to allow one hint per square, for index `j`;
the accumulator is the array `possible` and the index `i`. -/
def findhints_merge (acc : List Nat × Nat) (j : Nat) : List Nat × Nat :=
  if GET_INDEX (rd acc.1 acc.2) = GET_INDEX (rd acc.1 j) then
    if GET_DIGIT (rd acc.1 acc.2) = GET_DIGIT (rd acc.1 j) then
      (wr acc.1 acc.2 (rd acc.1 acc.2 ||| rd acc.1 j), acc.2)
    else acc
  else (acc.1, j)

/-- The first two blocks of `findhints`: the result of the last `findmoves`, the board as
the strategies have left it and the flag `mutated`. -/
def findhints_search (board : List Nat) : (Int × List Nat) × List Nat × Bool :=
  let r0 := findmoves board
  let st1 : (Int × List Nat) × List Nat × Bool :=
    if r0.1 < 2 then
      let b1 := (List.range 9).foldl allmoves_pairs board
      (findmoves b1, b1, true)
    else (r0, board, false)
  if st1.1.1 < 2 then
    let b2 := (List.range 9).foldl findhints_block st1.2.1
    (findmoves b2, b2, true)
  else st1

/-- The block of `findhints` that sorts the `n` moves and merges them: returns the new
`n` and the array `possible`. -/
def findhints_unique (qsort : (Nat → Nat → Int) → List Nat → List Nat) (n : Int)
    (possible : List Nat) : Int × List Nat :=
  if 0 < n then
    let m := (List.range' 1 (n.toNat - 1)).foldl findhints_merge (qsort cmpindex possible, 0)
    ((m.2 : Int) + 1, m.1)
  else (n, possible)

/-- Function `findhints`: returns the number of hints, the array `possible` and the
state. The library function `qsort` is a parameter. -/
def findhints (qsort : (Nat → Nat → Int) → List Nat → List Nat) (s : State) :
    Int × List Nat × State :=
  let st := findhints_search s.board
  let out := findhints_unique qsort st.1.1 st.1.2
  let s1 : State := { s with board := st.2.1 }
  (out.1, out.2, if st.2.2 then (reapply s1).2 else s1)

/-- Two rows of clues that leave one cell each to a single digit: the first eight cells
of the first and of the second row of `grid_example`. -/
def hint_clues : List (Nat × Nat) :=
  [(0, 5), (1, 3), (2, 4), (3, 6), (4, 7), (5, 8), (6, 9), (7, 1),
   (9, 6), (10, 7), (11, 2), (12, 1), (13, 9), (14, 5), (15, 3), (16, 4)]

/-- The state that the board loader hands over for `hint_clues`. -/
def hint_example : State := clues_state hint_clues

/-! ## Open choice points -/

/-- The record `history[k]` is an open choice point: it is tagged `CHOICE` and some digit
higher than the recorded one is not masked out at its cell on the board replayed from the
records before it. -/
def OpenChoice (history : List Nat) (k : Nat) : Prop :=
  rd history k &&& CHOICE ≠ 0 ∧
    ∃ d, GET_DIGIT (rd history k) < d ∧ d ≤ 9 ∧
      DISALLOWED (replay history k).2 (GET_INDEX (rd history k)) d = 0

/-- The outcome `r`, `s'` of `backtrack` described from the state `s` it was called in:
either it returns -1, no record at a position from 1 on is an open choice point, and the
history array is unchanged; or record `k` is the most recent open choice point at a
position from 1 on, `d` is the smallest digit above the recorded one that is not masked
out at its cell on the board replayed from the records before `k`, the new board is that
board with `d` placed in the cell, record `k` is replaced by the choice of `d`, the
history ends behind it, and the cell index is returned. -/
def Backtracked (s : State) (r : Int) (s' : State) : Prop :=
  (r = -1 ∧ (∀ k, 1 ≤ k → k < s.idx_history.toNat → ¬ OpenChoice s.history k) ∧
      s'.history = s.history ∧ s'.idx_history ≤ 0) ∨
  (∃ k d, 1 ≤ k ∧ k < s.idx_history.toNat ∧ OpenChoice s.history k ∧
      (∀ j, k < j → j < s.idx_history.toNat → ¬ OpenChoice s.history j) ∧
      GET_DIGIT (rd s.history k) < d ∧ d ≤ 9 ∧
      DISALLOWED (replay s.history k).2 (GET_INDEX (rd s.history k)) d = 0 ∧
      (∀ d', GET_DIGIT (rd s.history k) < d' → d' < d →
        DISALLOWED (replay s.history k).2 (GET_INDEX (rd s.history k)) d' ≠ 0) ∧
      r = (GET_INDEX (rd s.history k) : Int) ∧
      s' = State.mk
        (update (wr (replay s.history k).2 (GET_INDEX (rd s.history k)) (SET_DIGIT d))
          (GET_INDEX (rd s.history k)))
        (add_move_ignore
          (wr s.history k (SET_INDEX (GET_INDEX (rd s.history k)) ||| SET_DIGIT d ||| CHOICE))
          (GET_INDEX (rd s.history k)) k)
        ((k : Int) + 1) s.pass)

/-- The state of `solve` on the empty board after its first step, the choice of digit 1
for cell 0. -/
def first_choice_example : State :=
  match choose reset 0 1 with
  | some (_, s) => s
  | none => reset

/-- A solver history on one clue with two choice records, the second of them open: cell
0 holds the clue 1, the solver chose 2 for cell 1 and 3 for cell 2. -/
def two_choices_example : State :=
  match choose (clues_state [(0, 1)]) 1 1 with
  | some (_, s1) =>
    match choose s1 2 1 with
    | some (_, s2) => s2
    | none => reset
  | none => reset

/-! ## The square for a choice -/

/-- The number of digits 1..9 that are not masked out at cell `i`: its remaining
candidates. -/
def candidates (board : List Nat) (i : Nat) : Nat :=
  ((List.range' 1 9).filter (fun d => decide (DISALLOWED board i d = 0))).length

/-- The entry that `choice` stores in `possible` for the empty cell `i`. -/
def choice_word (board : List Nat) (i : Nat) : Nat :=
  SET_INDEX i ||| SET_DIGIT (numset (List.replicate 9 0) (rd board i)).1

/-- A sorting function that `qsort` may be as well: insertion sort of the array read
backwards, which leaves equal elements in reverse order. -/
def qsort_reversed (c : Nat → Nat → Int) (l : List Nat) : List Nat :=
  l.reverse.insertionSort (fun a b => c a b ≤ 0)

/-! ## A round of `generate` that is discarded -/

/-- A template of nine cells on which the fills with `digits_example` leave a board that
has no solution: 1..8 in the first row and 9 below its ninth cell. -/
def template_dead : List Nat := [0, 1, 2, 3, 4, 5, 6, 7, 17]

/-! ## The board and the replay of the history -/

/-- Boards `b` and `r` hold the same words up to mask bits: in every cell the same digit
and, outside the bits of `STATE_MASK`, the same flags. -/
def Same (b r : List Nat) : Prop :=
  b.length = 81 ∧ ∀ i < 81, DIGIT b i = DIGIT r i ∧
    rd b i ||| STATE_MASK = rd r i ||| STATE_MASK

/-- Invariant of `solve` for the board: the search invariant for the history (stated for
the empty class of grids, so that only its part on the history and the digits is left),
and the board is the replay of the live records up to mask bits. -/
structure KeepInv (m0 : Nat) (H0 : List Nat) (s : State) : Prop where
  search : SearchInv (fun _ => False) (fun _ => True) m0 H0 s
  same : Same s.board (replay s.history s.idx_history.toNat).2

/-- The state in which a failed `solve` leaves the board: the puzzle records are in
place, and for some number `k` of records, at least the puzzle records, that replay
without an error, the board is their replay up to mask bits. -/
def Stale (m0 : Nat) (H0 : List Nat) (s : State) : Prop :=
  s.history.length = 243 ∧ (∀ k < m0, rd s.history k = rd H0 k) ∧
    ∃ k, m0 ≤ k ∧ k ≤ 81 ∧ WFHistory s.history k ∧
      (∀ j < k, replayable (rd s.history j)) ∧ (replay s.history k).1 = 0 ∧
      Same s.board (replay s.history k).2

end Sudoku

namespace Sudoku

/-- Macro `LIMIT_FACTOR_VERY_EASY`. -/
def LIMIT_FACTOR_VERY_EASY : Int := 15

/-- Macro `LIMIT_FACTOR_EASY`. -/
def LIMIT_FACTOR_EASY : Int := 11

/-- Macro `LIMIT_FACTOR_MEDIUM`. -/
def LIMIT_FACTOR_MEDIUM : Int := 7

/-- Macro `LIMIT_FACTOR_HARD`. -/
def LIMIT_FACTOR_HARD : Int := 4

/-- Constant `NAME_VERY_EASY`. -/
def NAME_VERY_EASY : String := "very easy"

/-- Constant `NAME_EASY`. -/
def NAME_EASY : String := "easy"

/-- Constant `NAME_MEDIUM`. -/
def NAME_MEDIUM : String := "medium"

/-- Constant `NAME_HARD`. -/
def NAME_HARD : String := "hard"

/-- Constant `NAME_FIENDISH`. -/
def NAME_FIENDISH : String := "fiendish"

/-- Function `class_name_by_score(score)`; the global `pass`, which the macro `CL` reads,
is an argument. -/
def class_name_by_score (pass : Nat) (score : Int) : String :=
  if LIMIT_FACTOR_VERY_EASY * (pass : Int) < score then NAME_VERY_EASY
  else if LIMIT_FACTOR_EASY * (pass : Int) < score then NAME_EASY
  else if LIMIT_FACTOR_MEDIUM * (pass : Int) < score then NAME_MEDIUM
  else if LIMIT_FACTOR_HARD * (pass : Int) < score then NAME_HARD
  else NAME_FIENDISH

/-- Function `classify`. The result is `none` when the call does not return normally (the
search runs out of fuel, an array index leaves its array, or the assertion
`81 == idx_history` fails), `some (none, _)` when it returns 0, and `some (some name, _)`
when it returns a class name. -/
def classify (qsort : (Nat → Nat → Int) → List Nat → List Nat) (fuel : Nat) (s : State) :
    Option (Option String × State) :=
  match classify_solve qsort fuel s with
  | none => none
  | some (r, s1) =>
    if r = -1 then some (none, s1)
    else
      let score : Int := (List.range 81).foldl
        (fun sc i => if IS_FIXED s1.board i ≠ 0 then sc - 1 else sc) 81
      if s1.idx_history ≠ 81 then none
      else
        let score2 : Int := (List.range 81).foldl
          (fun sc i => if rd s1.history i &&& CHOICE ≠ 0 then sc - 5 else sc) score
        some (some (class_name_by_score s1.pass score2), s1)

/-- The score as the specification states it: 81 less the number of fixed cells less five
times the number of history records tagged as choice. -/
def score_stated (s : State) : Int :=
  81 - (((List.range 81).filter (fun i => IS_FIXED s.board i ≠ 0)).length : Int) -
    5 * (((List.range 81).filter (fun k => rd s.history k &&& CHOICE ≠ 0)).length : Int)

/-- The label as the specification states it, from the score and the number of passes. -/
def label_stated (pass : Nat) (score : Int) : String :=
  if score > 15 * (pass : Int) then "very easy"
  else if score > 11 * (pass : Int) then "easy"
  else if score > 7 * (pass : Int) then "medium"
  else if score > 4 * (pass : Int) then "hard"
  else "fiendish"

end Sudoku

namespace Sudoku

/-! ## Vocabulary for the passes of `deterministic` -/

/-- Precondition of `deterministic` on the state: the board is well formed, the history
array has its 243 entries, and the records in use plus one record for every empty cell
stay below the capacity test of `add_move`. -/
structure PassInv (s : State) : Prop where
  board_wf : BoardWF s.board
  hlen : s.history.length = 243
  nonneg : 0 ≤ s.idx_history
  room : s.idx_history.toNat + (81 - (filled s.board).card) ≤ 242

/-! ## The ignored-flag invariant of the history -/

/-- Among the live records `history[0 .. n-1]`, a record is flagged ignored iff a later
record refers to the same cell index. -/
def IgnoredIff (history : List Nat) (n : Nat) : Prop :=
  ∀ k < n, (rd history k &&& IGNORED ≠ 0 ↔
    ∃ k' < n, k < k' ∧ GET_INDEX (rd history k') = GET_INDEX (rd history k))

instance (history : List Nat) (n : Nat) : Decidable (IgnoredIff history n) :=
  Nat.decidableBallLT n (fun k _ =>
    (rd history k &&& IGNORED ≠ 0 ↔
      ∃ k' < n, k < k' ∧ GET_INDEX (rd history k') = GET_INDEX (rd history k)))

/-- The property `IgnoredIff` of a list of records, by recursion on the list. -/
def IgnoredIffList : List Nat → Prop
  | [] => True
  | x :: xs => (x &&& IGNORED ≠ 0 ↔ ∃ y ∈ xs, GET_INDEX y = GET_INDEX x) ∧ IgnoredIffList xs

/-! ## Fixing the squares -/

/-- The loop `for (i = 0; i < idx_history; ++i) history[i] |= FIXED` of `fix`. -/
def fix_flag (history : List Nat) (n : Nat) : List Nat :=
  (List.range n).foldl (fun h i => wr h i (rd h i ||| FIXED)) history

/-- Function `fix`: returns `-1` and the state after `reapply` when the replay reports an
error; else compresses the history, flags every record fixed, replays again and returns
`0`. The rendering and the cursor movement are not part of the state. -/
def fix (s : State) : Int × State :=
  let r := reapply s
  if r.1 = 0 then
    let s1 := compress r.2 r.2.idx_history
    let s2 := { s1 with history := fix_flag s1.history s1.idx_history.toNat }
    (0, (reapply s2).2)
  else (-1, r.2)

/-! ## Rotation and shuffle of `int` arrays

An `int` array is a list of integers read with `rdi` and written with `wri`; a pointer
into the array is an offset from its start. The offsets are natural numbers: a pointer
is never moved below the start of the array when the entry condition `0 < idx < len` of
`rotate` holds. -/

/-- Function `exchange(a, b, len)` on the array `x`: swaps `a[i]` and `b[i]` for
`i < len`. -/
def exchange (x : List Int) (a b : Nat) (len : Int) : List Int :=
  (List.range len.toNat).foldl
    (fun y i => wri (wri y (a + i) (rdi y (b + i))) (b + i) (rdi y (a + i))) x

/-- Function `rotate1_left(a, len)` on the array `x`. -/
def rotate1_left (x : List Int) (a : Nat) (len : Int) : List Int :=
  let tmp := rdi x a
  let x1 := (List.range (len.toNat - 1)).foldl
    (fun y k => wri y (a + k) (rdi y (a + k + 1))) x
  wri x1 (a + (len - 1).toNat) tmp

/-- Function `rotate1_right(a, len)` on the array `x`. -/
def rotate1_right (x : List Int) (a : Nat) (len : Int) : List Int :=
  let tmp := rdi x (a + (len - 1).toNat)
  let x1 := (List.range (len.toNat - 1)).foldl
    (fun y k => wri y (a + (len.toNat - 1 - k)) (rdi y (a + (len.toNat - 1 - k) - 1))) x
  wri x1 a tmp

/-- The `while` loop of `rotate` and the final `exchange`; the first argument bounds the
number of times the loop condition is evaluated, `none` when it is used up. -/
def rotate_loop : Nat → List Int → Nat → Int → Int → Option (List Int)
  | 0, _, _, _, _ => none
  | fuel + 1, x, a, len, idx =>
    let xdi := len - idx
    let delta := idx - xdi
    if 0 ≠ delta ∧ 0 ≠ idx then
      if delta < 0 then
        if 1 = idx then rotate_loop fuel (rotate1_left x a len) a len 0
        else rotate_loop fuel (exchange x a (a + xdi.toNat) idx) a xdi idx
      else
        if 1 = xdi then rotate_loop fuel (rotate1_right x a len) a len 0
        else rotate_loop fuel (exchange x a (a + idx.toNat) xdi) (a + xdi.toNat) idx (idx - xdi)
    else some (if 0 < idx then exchange x a (a + idx.toNat) idx else x)

/-- Function `rotate(a, len, idx)` on the array `x`, with `a` at its start. -/
def rotate (fuel : Nat) (x : List Int) (len idx : Int) : Option (List Int) :=
  rotate_loop fuel x 0 len idx

/-- The loop of `shuffle`: `rand r` is the value of the next call of `rand()`; the first
argument is the number of iterations left, `i` of them. Returns the array and the
position in the sequence of random draws. -/
def shuffle_loop (rand : Nat → Nat) : Nat → List Int → Int → Nat → List Int × Nat
  | 0, x, _, r => (x, r)
  | fuel + 1, x, i, r =>
    if 1 ≤ i then
      let j := (rand r : Int) % i
      let i1 := i - 1
      let tmp := rdi x i1.toNat
      let x1 := wri x i1.toNat (rdi x j.toNat)
      shuffle_loop rand fuel (wri x1 j.toNat tmp) i1 (r + 1)
    else (x, r)

/-- Function `shuffle(a, len)` on the array `x`, with `a` at its start: the loop runs
once for each value of `i` from `len` down to 1. -/
def shuffle (rand : Nat → Nat) (x : List Int) (len : Int) (r : Nat) : List Int × Nat :=
  shuffle_loop rand len.toNat x len r

/-- The digits of `generate`: `digits[i] = i + 1`, then
`rotate(digits, 9, 1 + rand() % 8)` and `shuffle(digits, 9)`. -/
def generate_digits (rand : Nat → Nat) (fuel : Nat) (r : Nat) : Option (List Int × Nat) :=
  match rotate fuel ((List.range 9).map (fun i => (i : Int) + 1)) 9
      (1 + (rand r : Int) % 8) with
  | none => none
  | some d => some (shuffle rand d 9 (r + 1))

/-- The template of `generate` after `select_template` has set `tmplt` and `len_tmplt`:
`rotate(tmplt, len_tmplt, 1 + rand() % (len_tmplt - 1))` and
`shuffle(tmplt, len_tmplt)`; `none` when the remainder is taken modulo zero. -/
def generate_template (rand : Nat → Nat) (fuel : Nat) (tmplt : List Int) (len_tmplt : Int)
    (r : Nat) : Option (List Int × Nat) :=
  if len_tmplt - 1 = 0 then none
  else
    match rotate fuel tmplt len_tmplt (1 + (rand r : Int) % (len_tmplt - 1)) with
    | none => none
    | some t => some (shuffle rand t len_tmplt (r + 1))

end Sudoku

namespace Sudoku

/-! ## Intermediate boards and states of the example round

The evaluations of the example round of `generate` are cut in short segments; these are
the boards and states between the segments. -/

/-- The board after `reapply` has replayed the first 9 clues of `clued_failing`. -/
def replayed9_failing : List Nat :=
  [1441664, 1310592, 1376128, 1507200, 24448, 1638272, 24448, 1179520, 1245056, 1507200, 1572736,
   15872, 28672, 28672, 28672, 12672, 12672, 12672, 15872, 15872, 15872, 20480, 20480, 20480, 384,
   384, 384, 6144, 8704, 1024, 4096, 0, 16384, 0, 128, 256, 6144, 8704, 1024, 4096, 0, 16384, 0,
   128, 256, 6144, 8704, 1024, 4096, 0, 16384, 0, 128, 256, 6144, 8704, 1024, 4096, 0, 16384, 0,
   128, 256, 6144, 8704, 1024, 4096, 0, 16384, 0, 128, 256, 6144, 8704, 1024, 4096, 0, 16384, 0,
   128, 256]

/-- The board after `reapply` has replayed the first 18 clues of `clued_failing`. -/
def replayed18_failing : List Nat :=
  [1441664, 1310592, 1376128, 1507200, 57216, 1638272, 24448, 1179520, 1245056, 1507200, 1572736,
   1245056, 1179520, 1703808, 1441664, 1310592, 1376128, 1638272, 1179520, 1703808, 49024, 55424,
   55424, 55424, 51072, 51072, 51072, 6272, 41472, 1280, 4224, 32768, 18432, 512, 1152, 16640, 6272,
   41472, 1280, 4224, 32768, 18432, 512, 1152, 16640, 6272, 41472, 1280, 4224, 32768, 18432, 512,
   1152, 16640, 6272, 41472, 1280, 4224, 32768, 18432, 512, 1152, 16640, 6272, 41472, 1280, 4224,
   32768, 18432, 512, 1152, 16640, 6272, 41472, 1280, 4224, 32768, 18432, 512, 1152, 16640]

/-- The board after `reapply` has replayed the first 31 clues of `clued_failing`. -/
def replayed31_failing : List Nat :=
  [1441664, 1310592, 1376128, 1507200, 57216, 1638272, 32640, 1179520, 1245056, 1507200, 1572736,
   1245056, 1179520, 1703808, 1441664, 1310592, 1376128, 1638272, 1179520, 1703808, 1638272,
   1310592, 1376128, 1245056, 1441664, 1507200, 1572736, 1638272, 1441664, 1703808, 1572736,
   1507200, 1179520, 64128, 64640, 63872, 55424, 59904, 52480, 12928, 46208, 31104, 2560, 5248,
   24832, 55424, 59904, 52480, 12928, 46208, 31104, 2560, 5248, 24832, 22656, 43520, 50432, 12928,
   37888, 18816, 2560, 5248, 24832, 22656, 43520, 50432, 12928, 37888, 18816, 2560, 5248, 24832,
   22656, 43520, 50432, 12928, 37888, 18816, 2560, 5248, 24832]

/-- The board after `reapply` has replayed the first 36 clues of `clued_failing`. -/
def replayed36_failing : List Nat :=
  [1441664, 1310592, 1376128, 1507200, 57216, 1638272, 32640, 1179520, 1245056, 1507200, 1572736,
   1245056, 1179520, 1703808, 1441664, 1310592, 1376128, 1638272, 1179520, 1703808, 1638272,
   1310592, 1376128, 1245056, 1441664, 1507200, 1572736, 1638272, 1441664, 1703808, 1572736,
   1507200, 1179520, 1376128, 1245056, 1310592, 1376128, 1245056, 52480, 14208, 46464, 32128, 3840,
   6016, 26368, 56704, 61184, 52480, 12928, 46208, 31104, 3840, 6016, 26368, 23680, 43776, 50432,
   12928, 37888, 18816, 3584, 5504, 25344, 23680, 43776, 50432, 12928, 37888, 18816, 3584, 5504,
   25344, 23680, 43776, 50432, 12928, 37888, 18816, 3584, 5504, 25344]

/-- The board after `reapply` has replayed the first 41 clues of `clued_failing`. -/
def replayed41_failing : List Nat :=
  [1441664, 1310592, 1376128, 1507200, 57216, 1638272, 32640, 1179520, 1245056, 1507200, 1572736,
   1245056, 1179520, 1703808, 1441664, 1310592, 1376128, 1638272, 1179520, 1703808, 1638272,
   1310592, 1376128, 1245056, 1441664, 1507200, 1572736, 1638272, 1441664, 1703808, 1572736,
   1507200, 1179520, 1376128, 1245056, 1310592, 1376128, 1245056, 1507200, 1638272, 1441664,
   1310592, 1572736, 32640, 32512, 56704, 65280, 56576, 31360, 65152, 31616, 12032, 14208, 26368,
   23680, 43776, 54528, 29312, 39936, 19328, 11776, 5504, 25344, 23680, 43776, 54528, 29312, 39936,
   19328, 11776, 5504, 25344, 23680, 43776, 54528, 29312, 39936, 19328, 11776, 5504, 25344]

/-- The board after `reapply` has replayed the first 46 clues of `clued_failing`. -/
def replayed46_failing : List Nat :=
  [1441664, 1310592, 1376128, 1507200, 57216, 1638272, 32640, 1179520, 1245056, 1507200, 1572736,
   1245056, 1179520, 1703808, 1441664, 1310592, 1376128, 1638272, 1179520, 1703808, 1638272,
   1310592, 1376128, 1245056, 1441664, 1507200, 1572736, 1638272, 1441664, 1703808, 1572736,
   1507200, 1179520, 1376128, 1245056, 1310592, 1376128, 1245056, 1507200, 1638272, 1441664,
   1310592, 1572736, 1703808, 1179520, 1572736, 1179520, 1310592, 31360, 65152, 31616, 44928, 46976,
   59264, 31872, 43904, 55040, 29312, 39936, 19328, 11776, 38272, 25472, 31872, 43904, 55040, 29312,
   39936, 19328, 11776, 38272, 25472, 31872, 43904, 55040, 29312, 39936, 19328, 11776, 38272, 25472]

/-- The board after `reapply` has replayed the first 49 clues of `clued_failing`. -/
def replayed49_failing : List Nat :=
  [1441664, 1310592, 1376128, 1507200, 57216, 1638272, 32640, 1179520, 1245056, 1507200, 1572736,
   1245056, 1179520, 1703808, 1441664, 1310592, 1376128, 1638272, 1179520, 1703808, 1638272,
   1310592, 1376128, 1245056, 1441664, 1507200, 1572736, 1638272, 1441664, 1703808, 1572736,
   1507200, 1179520, 1376128, 1245056, 1310592, 1376128, 1245056, 1507200, 1638272, 1441664,
   1310592, 1572736, 1703808, 1179520, 1572736, 1179520, 1310592, 1703808, 1245056, 1376128, 44928,
   46976, 59264, 31872, 43904, 55040, 62080, 40192, 20352, 11776, 38272, 25472, 31872, 43904, 55040,
   62080, 40192, 20352, 11776, 38272, 25472, 31872, 43904, 55040, 62080, 40192, 20352, 11776, 38272,
   25472]

/-- The board after `reapply` has replayed the first 56 clues of `clued_failing`. -/
def replayed56_failing : List Nat :=
  [1441664, 1310592, 1376128, 1507200, 57216, 1638272, 32640, 1179520, 1245056, 1507200, 1572736,
   1245056, 1179520, 1703808, 1441664, 1310592, 1376128, 1638272, 1179520, 1703808, 1638272,
   1310592, 1376128, 1245056, 1441664, 1507200, 1572736, 1638272, 1441664, 1703808, 1572736,
   1507200, 1179520, 1376128, 1245056, 1310592, 1376128, 1245056, 1507200, 1638272, 1441664,
   1310592, 1572736, 1703808, 1179520, 1572736, 1179520, 1310592, 1703808, 1245056, 1376128,
   1638272, 1441664, 1507200, 1703808, 1507200, 1179520, 1441664, 40320, 57216, 65152, 40320, 64384,
   64640, 48000, 55168, 64128, 40192, 20352, 28160, 40320, 29568, 64640, 48000, 55168, 64128, 40192,
   20352, 28160, 40320, 29568]

/-- The board after `reapply` has replayed the first 60 clues of `clued_failing`. -/
def replayed60_failing : List Nat :=
  [1441664, 1310592, 1376128, 1507200, 57216, 1638272, 32640, 1179520, 1245056, 1507200, 1572736,
   1245056, 1179520, 1703808, 1441664, 1310592, 1376128, 1638272, 1179520, 1703808, 1638272,
   1310592, 1376128, 1245056, 1441664, 1507200, 1572736, 1638272, 1441664, 1703808, 1572736,
   1507200, 1179520, 1376128, 1245056, 1310592, 1376128, 1245056, 1507200, 1638272, 1441664,
   1310592, 1572736, 1703808, 1179520, 1572736, 1179520, 1310592, 1703808, 1245056, 1376128,
   1638272, 1441664, 1507200, 1703808, 1507200, 1179520, 1441664, 1310592, 1572736, 1245056,
   1638272, 64384, 64640, 48000, 55168, 64128, 48896, 28544, 28416, 56704, 29568, 64640, 48000,
   55168, 64128, 48896, 28544, 28416, 56704, 29568]

/-- The board after `reapply` has replayed the first 64 clues of `clued_failing`. -/
def replayed64_failing : List Nat :=
  [1441664, 1310592, 1376128, 1507200, 57216, 1638272, 32640, 1179520, 1245056, 1507200, 1572736,
   1245056, 1179520, 1703808, 1441664, 1310592, 1376128, 1638272, 1179520, 1703808, 1638272,
   1310592, 1376128, 1245056, 1441664, 1507200, 1572736, 1638272, 1441664, 1703808, 1572736,
   1507200, 1179520, 1376128, 1245056, 1310592, 1376128, 1245056, 1507200, 1638272, 1441664,
   1310592, 1572736, 1703808, 1179520, 1572736, 1179520, 1310592, 1703808, 1245056, 1376128,
   1638272, 1441664, 1507200, 1703808, 1507200, 1179520, 1441664, 1310592, 1572736, 1245056,
   1638272, 1376128, 1245056, 1638272, 1572736, 64384, 65280, 28544, 28416, 64896, 30592, 64896,
   64384, 63360, 64128, 48896, 28544, 28416, 56704, 30592]

/-- The board after `reapply` has replayed the first 68 clues of `clued_failing`. -/
def replayed68_failing : List Nat :=
  [1441664, 1310592, 1376128, 1507200, 57216, 1638272, 32640, 1179520, 1245056, 1507200, 1572736,
   1245056, 1179520, 1703808, 1441664, 1310592, 1376128, 1638272, 1179520, 1703808, 1638272,
   1310592, 1376128, 1245056, 1441664, 1507200, 1572736, 1638272, 1441664, 1703808, 1572736,
   1507200, 1179520, 1376128, 1245056, 1310592, 1376128, 1245056, 1507200, 1638272, 1441664,
   1310592, 1572736, 1703808, 1179520, 1572736, 1179520, 1310592, 1703808, 1245056, 1376128,
   1638272, 1441664, 1507200, 1703808, 1507200, 1179520, 1441664, 1310592, 1572736, 1245056,
   1638272, 1376128, 1245056, 1638272, 1572736, 1376128, 1179520, 1703808, 1507200, 64896, 63360,
   64896, 64384, 63360, 65152, 49024, 61312, 32512, 56704, 30592]

/-- The board after `reapply` has replayed the first 72 clues of `clued_failing`. -/
def replayed72_failing : List Nat :=
  [1441664, 1310592, 1376128, 1507200, 57216, 1638272, 32640, 1179520, 1245056, 1507200, 1572736,
   1245056, 1179520, 1703808, 1441664, 1310592, 1376128, 1638272, 1179520, 1703808, 1638272,
   1310592, 1376128, 1245056, 1441664, 1507200, 1572736, 1638272, 1441664, 1703808, 1572736,
   1507200, 1179520, 1376128, 1245056, 1310592, 1376128, 1245056, 1507200, 1638272, 1441664,
   1310592, 1572736, 1703808, 1179520, 1572736, 1179520, 1310592, 1703808, 1245056, 1376128,
   1638272, 1441664, 1507200, 1703808, 1507200, 1179520, 1441664, 1310592, 1572736, 1245056,
   1638272, 1376128, 1245056, 1638272, 1572736, 1376128, 1179520, 1703808, 1507200, 1310592,
   1441664, 1310592, 1376128, 63360, 65152, 49024, 61312, 32512, 57216, 32640]

/-- The board after `reapply` has replayed the first 76 clues of `clued_failing`. -/
def replayed76_failing : List Nat :=
  [1441664, 1310592, 1376128, 1507200, 57216, 1638272, 32640, 1179520, 1245056, 1507200, 1572736,
   1245056, 1179520, 1703808, 1441664, 1310592, 1376128, 1638272, 1179520, 1703808, 1638272,
   1310592, 1376128, 1245056, 1441664, 1507200, 1572736, 1638272, 1441664, 1703808, 1572736,
   1507200, 1179520, 1376128, 1245056, 1310592, 1376128, 1245056, 1507200, 1638272, 1441664,
   1310592, 1572736, 1703808, 1179520, 1572736, 1179520, 1310592, 1703808, 1245056, 1376128,
   1638272, 1441664, 1507200, 1703808, 1507200, 1179520, 1441664, 1310592, 1572736, 1245056,
   1638272, 1376128, 1245056, 1638272, 1572736, 1376128, 1179520, 1703808, 1507200, 1310592,
   1441664, 1310592, 1376128, 1441664, 1245056, 1638272, 1507200, 32512, 57216, 32640]

/-- The state of the example round of `generate` after its first `k` fills, for the board
`b` that they leave: the history holds the first `k` records of `filled_example`. -/
def filled_upto (b : List Nat) (k : Nat) : State :=
  State.mk b (filled_example.history.take k ++ List.replicate (243 - k) 0) (k : Int) 0

/-- The board after the first 5 fills of the example round of `generate`. -/
def filled5_board : List Nat :=
  [393088, 262016, 327552, 3968, 3968, 3968, 3968, 130944, 196480, 3584, 3584, 3584, 0, 0, 0, 384,
   384, 384, 3584, 3584, 3584, 0, 0, 0, 384, 384, 384, 2048, 512, 1024, 0, 0, 0, 0, 128, 256, 2048,
   512, 1024, 0, 0, 0, 0, 128, 256, 2048, 512, 1024, 0, 0, 0, 0, 128, 256, 2048, 512, 1024, 0, 0, 0,
   0, 128, 256, 2048, 512, 1024, 0, 0, 0, 0, 128, 256, 2048, 512, 1024, 0, 0, 0, 0, 128, 256]

/-- The board after the first 10 fills of the example round of `generate`. -/
def filled10_board : List Nat :=
  [393088, 262016, 327552, 458624, 40832, 40832, 24448, 130944, 196480, 61056, 524160, 61056,
   130944, 655232, 61568, 57728, 57728, 589696, 11776, 11776, 11776, 36992, 36992, 36992, 16768,
   16768, 16768, 2048, 8704, 1024, 4224, 32768, 0, 0, 128, 16640, 2048, 8704, 1024, 4224, 32768, 0,
   0, 128, 16640, 2048, 8704, 1024, 4224, 32768, 0, 0, 128, 16640, 2048, 8704, 1024, 4224, 32768, 0,
   0, 128, 16640, 2048, 8704, 1024, 4224, 32768, 0, 0, 128, 16640, 2048, 8704, 1024, 4224, 32768, 0,
   0, 128, 16640]

/-- The board after the first 15 fills of the example round of `generate`. -/
def filled15_board : List Nat :=
  [393088, 262016, 327552, 458624, 40832, 40832, 24448, 130944, 196480, 458624, 524160, 196480,
   130944, 655232, 393088, 262016, 327552, 589696, 16128, 16128, 16128, 39040, 39040, 39040, 18304,
   18304, 18304, 6144, 8704, 1280, 4224, 32768, 2048, 512, 1152, 16640, 6144, 8704, 1280, 4224,
   32768, 2048, 512, 1152, 16640, 6144, 8704, 1280, 4224, 32768, 2048, 512, 1152, 16640, 6144, 8704,
   1280, 4224, 32768, 2048, 512, 1152, 16640, 6144, 8704, 1280, 4224, 32768, 2048, 512, 1152, 16640,
   6144, 8704, 1280, 4224, 32768, 2048, 512, 1152, 16640]

/-- The board after the first 20 fills of the example round of `generate`. -/
def filled20_board : List Nat :=
  [393088, 262016, 327552, 458624, 40832, 40832, 32640, 130944, 196480, 458624, 524160, 196480,
   130944, 655232, 393088, 262016, 327552, 589696, 130944, 655232, 589696, 63872, 63872, 196480,
   59264, 59264, 524160, 6272, 41472, 17664, 4224, 32768, 2304, 512, 1152, 24832, 6272, 41472,
   17664, 4224, 32768, 2304, 512, 1152, 24832, 6272, 41472, 17664, 4224, 32768, 2304, 512, 1152,
   24832, 6272, 41472, 17664, 4224, 32768, 2304, 512, 1152, 24832, 6272, 41472, 17664, 4224, 32768,
   2304, 512, 1152, 24832, 6272, 41472, 17664, 4224, 32768, 2304, 512, 1152, 24832]

/-- The board after the first 23 fills of the example round of `generate`. -/
def filled23_board : List Nat :=
  [393088, 262016, 327552, 458624, 40832, 40832, 32640, 130944, 196480, 458624, 524160, 196480,
   130944, 655232, 393088, 262016, 327552, 589696, 130944, 655232, 589696, 262016, 327552, 196480,
   393088, 61312, 524160, 6272, 41472, 17664, 4736, 33792, 2304, 2560, 1152, 24832, 6272, 41472,
   17664, 4736, 33792, 2304, 2560, 1152, 24832, 6272, 41472, 17664, 4736, 33792, 2304, 2560, 1152,
   24832, 6272, 41472, 17664, 4736, 33792, 2304, 2560, 1152, 24832, 6272, 41472, 17664, 4736, 33792,
   2304, 2560, 1152, 24832, 6272, 41472, 17664, 4736, 33792, 2304, 2560, 1152, 24832]

/-- The board after the first 29 fills of the example round of `generate`. -/
def filled29_board : List Nat :=
  [393088, 262016, 327552, 458624, 40832, 40832, 32640, 130944, 196480, 458624, 524160, 196480,
   130944, 655232, 393088, 262016, 327552, 589696, 130944, 655232, 589696, 262016, 327552, 196480,
   393088, 458624, 524160, 589696, 58240, 655232, 524160, 58752, 130944, 60288, 196480, 57728,
   55424, 57856, 50432, 12928, 42112, 10624, 2816, 5504, 24832, 55424, 57856, 50432, 12928, 42112,
   10624, 2816, 5504, 24832, 22656, 41472, 50432, 12928, 33792, 2432, 2560, 5504, 24832, 22656,
   41472, 50432, 12928, 33792, 2432, 2560, 5504, 24832, 22656, 41472, 50432, 12928, 33792, 2432,
   2560, 5504, 24832]

/-- The board after the first 32 fills of the example round of `generate`. -/
def filled32_board : List Nat :=
  [393088, 262016, 327552, 458624, 40832, 40832, 32640, 130944, 196480, 458624, 524160, 196480,
   130944, 655232, 393088, 262016, 327552, 589696, 130944, 655232, 589696, 262016, 327552, 196480,
   393088, 458624, 524160, 589696, 393088, 655232, 524160, 61312, 130944, 327552, 196480, 262016,
   55424, 59904, 52480, 12928, 42112, 10624, 3840, 6016, 26368, 55424, 59904, 52480, 12928, 42112,
   10624, 3840, 6016, 26368, 22656, 43520, 50432, 12928, 33792, 2432, 3584, 5504, 25344, 22656,
   43520, 50432, 12928, 33792, 2432, 3584, 5504, 25344, 22656, 43520, 50432, 12928, 33792, 2432,
   3584, 5504, 25344]

/-- The board after the first 35 fills of the example round of `generate`. -/
def filled35_board : List Nat :=
  [393088, 262016, 327552, 458624, 40832, 40832, 32640, 130944, 196480, 458624, 524160, 196480,
   130944, 655232, 393088, 262016, 327552, 589696, 130944, 655232, 589696, 262016, 327552, 196480,
   393088, 458624, 524160, 589696, 393088, 655232, 524160, 458624, 130944, 327552, 196480, 262016,
   63616, 59904, 60672, 589696, 62592, 31104, 524160, 30592, 26368, 55424, 59904, 52480, 29312,
   62592, 31104, 12032, 14208, 26368, 22656, 43520, 50432, 29312, 37888, 2432, 11776, 5504, 25344,
   22656, 43520, 50432, 29312, 37888, 2432, 11776, 5504, 25344, 22656, 43520, 50432, 29312, 37888,
   2432, 11776, 5504, 25344]

/-- The board after the first 38 fills of the example round of `generate`. -/
def filled38_board : List Nat :=
  [393088, 262016, 327552, 458624, 40832, 40832, 32640, 130944, 196480, 458624, 524160, 196480,
   130944, 655232, 393088, 262016, 327552, 589696, 130944, 655232, 589696, 262016, 327552, 196480,
   393088, 458624, 524160, 589696, 393088, 655232, 524160, 458624, 130944, 327552, 196480, 262016,
   63872, 196480, 60800, 589696, 62848, 63872, 524160, 655232, 130944, 55680, 60160, 52480, 29312,
   62592, 31104, 44928, 46976, 59264, 22656, 43776, 50432, 29312, 37888, 2432, 11776, 38272, 25472,
   22656, 43776, 50432, 29312, 37888, 2432, 11776, 38272, 25472, 22656, 43776, 50432, 29312, 37888,
   2432, 11776, 38272, 25472]

/-- The board after the first 41 fills of the example round of `generate`. -/
def filled41_board : List Nat :=
  [393088, 262016, 327552, 458624, 40832, 40832, 32640, 130944, 196480, 458624, 524160, 196480,
   130944, 655232, 393088, 262016, 327552, 589696, 130944, 655232, 589696, 262016, 327552, 196480,
   393088, 458624, 524160, 589696, 393088, 655232, 524160, 458624, 130944, 327552, 196480, 262016,
   327552, 196480, 61312, 589696, 393088, 262016, 524160, 655232, 130944, 56704, 61184, 52480,
   31360, 65152, 31616, 44928, 46976, 59264, 23680, 43776, 50432, 29312, 39936, 2944, 11776, 38272,
   25472, 23680, 43776, 50432, 29312, 39936, 2944, 11776, 38272, 25472, 23680, 43776, 50432, 29312,
   39936, 2944, 11776, 38272, 25472]

/-- The board after the first 44 fills of the example round of `generate`. -/
def filled44_board : List Nat :=
  [393088, 262016, 327552, 458624, 40832, 40832, 32640, 130944, 196480, 458624, 524160, 196480,
   130944, 655232, 393088, 262016, 327552, 589696, 130944, 655232, 589696, 262016, 327552, 196480,
   393088, 458624, 524160, 589696, 393088, 655232, 524160, 458624, 130944, 327552, 196480, 262016,
   327552, 196480, 458624, 589696, 393088, 262016, 524160, 655232, 130944, 524160, 65280, 64768,
   31360, 65152, 31616, 589696, 63360, 59264, 31872, 43776, 54528, 29312, 39936, 2944, 28160, 38272,
   25472, 31872, 43776, 54528, 29312, 39936, 2944, 28160, 38272, 25472, 31872, 43776, 54528, 29312,
   39936, 2944, 28160, 38272, 25472]

/-- The board after the first 47 fills of the example round of `generate`. -/
def filled47_board : List Nat :=
  [393088, 262016, 327552, 458624, 40832, 40832, 32640, 130944, 196480, 458624, 524160, 196480,
   130944, 655232, 393088, 262016, 327552, 589696, 130944, 655232, 589696, 262016, 327552, 196480,
   393088, 458624, 524160, 589696, 393088, 655232, 524160, 458624, 130944, 327552, 196480, 262016,
   327552, 196480, 458624, 589696, 393088, 262016, 524160, 655232, 130944, 524160, 130944, 64896,
   655232, 196480, 64384, 589696, 63360, 59264, 31872, 43904, 54528, 62080, 40192, 2944, 28160,
   38272, 25472, 31872, 43904, 54528, 62080, 40192, 2944, 28160, 38272, 25472, 31872, 43904, 54528,
   62080, 40192, 2944, 28160, 38272, 25472]

/-- The board after the first 50 fills of the example round of `generate`. -/
def filled50_board : List Nat :=
  [393088, 262016, 327552, 458624, 40832, 40832, 32640, 130944, 196480, 458624, 524160, 196480,
   130944, 655232, 393088, 262016, 327552, 589696, 130944, 655232, 589696, 262016, 327552, 196480,
   393088, 458624, 524160, 589696, 393088, 655232, 524160, 458624, 130944, 327552, 196480, 262016,
   327552, 196480, 458624, 589696, 393088, 262016, 524160, 655232, 130944, 524160, 130944, 262016,
   655232, 196480, 327552, 589696, 393088, 61312, 31872, 43904, 55040, 62080, 40192, 3968, 28160,
   40320, 25472, 31872, 43904, 55040, 62080, 40192, 3968, 28160, 40320, 25472, 31872, 43904, 55040,
   62080, 40192, 3968, 28160, 40320, 25472]

/-- The board after the first 54 fills of the example round of `generate`. -/
def filled54_board : List Nat :=
  [393088, 262016, 327552, 458624, 40832, 49024, 32640, 130944, 196480, 458624, 524160, 196480,
   130944, 655232, 393088, 262016, 327552, 589696, 130944, 655232, 589696, 262016, 327552, 196480,
   393088, 458624, 524160, 589696, 393088, 655232, 524160, 458624, 130944, 327552, 196480, 262016,
   327552, 196480, 458624, 589696, 393088, 262016, 524160, 655232, 130944, 524160, 130944, 262016,
   655232, 196480, 327552, 589696, 393088, 458624, 655232, 60288, 63232, 62080, 64768, 524160,
   60928, 589696, 62336, 64640, 43904, 55040, 62080, 48384, 12160, 28160, 56704, 29568, 64640,
   43904, 55040, 62080, 48384, 12160, 28160, 56704, 29568]

/-- The board after the first 56 fills of the example round of `generate`. -/
def filled56_board : List Nat :=
  [393088, 262016, 327552, 458624, 40832, 49024, 32640, 130944, 196480, 458624, 524160, 196480,
   130944, 655232, 393088, 262016, 327552, 589696, 130944, 655232, 589696, 262016, 327552, 196480,
   393088, 458624, 524160, 589696, 393088, 655232, 524160, 458624, 130944, 327552, 196480, 262016,
   327552, 196480, 458624, 589696, 393088, 262016, 524160, 655232, 130944, 524160, 130944, 262016,
   655232, 196480, 327552, 589696, 393088, 458624, 655232, 60288, 130944, 62336, 64896, 524160,
   196480, 589696, 62336, 64640, 43904, 55168, 62080, 48384, 12160, 28416, 56704, 29568, 64640,
   43904, 55168, 62080, 48384, 12160, 28416, 56704, 29568]

/-- The board after the first 58 fills of the example round of `generate`. -/
def filled58_board : List Nat :=
  [393088, 262016, 327552, 458624, 40832, 49024, 32640, 130944, 196480, 458624, 524160, 196480,
   130944, 655232, 393088, 262016, 327552, 589696, 130944, 655232, 589696, 262016, 327552, 196480,
   393088, 458624, 524160, 589696, 393088, 655232, 524160, 458624, 130944, 327552, 196480, 262016,
   327552, 196480, 458624, 589696, 393088, 262016, 524160, 655232, 130944, 524160, 130944, 262016,
   655232, 196480, 327552, 589696, 393088, 458624, 655232, 61312, 130944, 63360, 262016, 524160,
   196480, 589696, 327552, 64640, 43904, 55168, 62080, 48896, 12160, 28416, 56704, 30592, 64640,
   43904, 55168, 62080, 48896, 12160, 28416, 56704, 30592]

/-- The board after the first 60 fills of the example round of `generate`. -/
def filled60_board : List Nat :=
  [393088, 262016, 327552, 458624, 40832, 49024, 32640, 130944, 196480, 458624, 524160, 196480,
   130944, 655232, 393088, 262016, 327552, 589696, 130944, 655232, 589696, 262016, 327552, 196480,
   393088, 458624, 524160, 589696, 393088, 655232, 524160, 458624, 130944, 327552, 196480, 262016,
   327552, 196480, 458624, 589696, 393088, 262016, 524160, 655232, 130944, 524160, 130944, 262016,
   655232, 196480, 327552, 589696, 393088, 458624, 655232, 458624, 130944, 393088, 262016, 524160,
   196480, 589696, 327552, 64640, 48000, 55168, 64128, 48896, 12160, 28416, 56704, 30592, 64640,
   48000, 55168, 64128, 48896, 12160, 28416, 56704, 30592]

/-- The board after the first 62 fills of the example round of `generate`. -/
def filled62_board : List Nat :=
  [393088, 262016, 327552, 458624, 40832, 49024, 32640, 130944, 196480, 458624, 524160, 196480,
   130944, 655232, 393088, 262016, 327552, 589696, 130944, 655232, 589696, 262016, 327552, 196480,
   393088, 458624, 524160, 589696, 393088, 655232, 524160, 458624, 130944, 327552, 196480, 262016,
   327552, 196480, 458624, 589696, 393088, 262016, 524160, 655232, 130944, 524160, 130944, 262016,
   655232, 196480, 327552, 589696, 393088, 458624, 655232, 458624, 130944, 393088, 262016, 524160,
   196480, 589696, 327552, 64640, 589696, 524160, 64128, 65280, 28544, 28416, 64896, 30592, 64640,
   64384, 63360, 64128, 48896, 12160, 28416, 56704, 30592]

/-- The board after the first 64 fills of the example round of `generate`. -/
def filled64_board : List Nat :=
  [393088, 262016, 327552, 458624, 40832, 49024, 32640, 130944, 196480, 458624, 524160, 196480,
   130944, 655232, 393088, 262016, 327552, 589696, 130944, 655232, 589696, 262016, 327552, 196480,
   393088, 458624, 524160, 589696, 393088, 655232, 524160, 458624, 130944, 327552, 196480, 262016,
   327552, 196480, 458624, 589696, 393088, 262016, 524160, 655232, 130944, 524160, 130944, 262016,
   655232, 196480, 327552, 589696, 393088, 458624, 655232, 458624, 130944, 393088, 262016, 524160,
   196480, 589696, 327552, 64640, 589696, 524160, 64128, 130944, 655232, 61312, 64896, 63360, 64640,
   64384, 63360, 64128, 49024, 44928, 28416, 56704, 30592]

/-- The board after the first 67 fills of the example round of `generate`. -/
def filled67_board : List Nat :=
  [393088, 262016, 327552, 458624, 40832, 49024, 32640, 130944, 196480, 458624, 524160, 196480,
   130944, 655232, 393088, 262016, 327552, 589696, 130944, 655232, 589696, 262016, 327552, 196480,
   393088, 458624, 524160, 589696, 393088, 655232, 524160, 458624, 130944, 327552, 196480, 262016,
   327552, 196480, 458624, 589696, 393088, 262016, 524160, 655232, 130944, 524160, 130944, 262016,
   655232, 196480, 327552, 589696, 393088, 458624, 655232, 458624, 130944, 393088, 262016, 524160,
   196480, 589696, 327552, 196480, 589696, 524160, 327552, 130944, 655232, 61312, 262016, 63360,
   64896, 64384, 63360, 65152, 49024, 44928, 28416, 57216, 30592]

/-- The board after the first 69 fills of the example round of `generate`. -/
def filled69_board : List Nat :=
  [393088, 262016, 327552, 458624, 40832, 49024, 32640, 130944, 196480, 458624, 524160, 196480,
   130944, 655232, 393088, 262016, 327552, 589696, 130944, 655232, 589696, 262016, 327552, 196480,
   393088, 458624, 524160, 589696, 393088, 655232, 524160, 458624, 130944, 327552, 196480, 262016,
   327552, 196480, 458624, 589696, 393088, 262016, 524160, 655232, 130944, 524160, 130944, 262016,
   655232, 196480, 327552, 589696, 393088, 458624, 655232, 458624, 130944, 393088, 262016, 524160,
   196480, 589696, 327552, 196480, 589696, 524160, 327552, 130944, 655232, 458624, 262016, 393088,
   64896, 64384, 63360, 65152, 49024, 44928, 32512, 57216, 32640]

/-- The board after the first 71 fills of the example round of `generate`. -/
def filled71_board : List Nat :=
  [393088, 262016, 327552, 458624, 57216, 49024, 32640, 130944, 196480, 458624, 524160, 196480,
   130944, 655232, 393088, 262016, 327552, 589696, 130944, 655232, 589696, 262016, 327552, 196480,
   393088, 458624, 524160, 589696, 393088, 655232, 524160, 458624, 130944, 327552, 196480, 262016,
   327552, 196480, 458624, 589696, 393088, 262016, 524160, 655232, 130944, 524160, 130944, 262016,
   655232, 196480, 327552, 589696, 393088, 458624, 655232, 458624, 130944, 393088, 262016, 524160,
   196480, 589696, 327552, 196480, 589696, 524160, 327552, 130944, 655232, 458624, 262016, 393088,
   64896, 64384, 63360, 65152, 589696, 61312, 32512, 524160, 32640]

/-- The board after the first 73 fills of the example round of `generate`. -/
def filled73_board : List Nat :=
  [393088, 262016, 327552, 458624, 57216, 49024, 32640, 130944, 196480, 458624, 524160, 196480,
   130944, 655232, 393088, 262016, 327552, 589696, 130944, 655232, 589696, 262016, 327552, 196480,
   393088, 458624, 524160, 589696, 393088, 655232, 524160, 458624, 130944, 327552, 196480, 262016,
   327552, 196480, 458624, 589696, 393088, 262016, 524160, 655232, 130944, 524160, 130944, 262016,
   655232, 196480, 327552, 589696, 393088, 458624, 655232, 458624, 130944, 393088, 262016, 524160,
   196480, 589696, 327552, 196480, 589696, 524160, 327552, 130944, 655232, 458624, 262016, 393088,
   64896, 64384, 63360, 65152, 589696, 61312, 130944, 524160, 655232]

/-- The board after the first 75 fills of the example round of `generate`. -/
def filled75_board : List Nat :=
  [393088, 262016, 327552, 458624, 57216, 49024, 32640, 130944, 196480, 458624, 524160, 196480,
   130944, 655232, 393088, 262016, 327552, 589696, 130944, 655232, 589696, 262016, 327552, 196480,
   393088, 458624, 524160, 589696, 393088, 655232, 524160, 458624, 130944, 327552, 196480, 262016,
   327552, 196480, 458624, 589696, 393088, 262016, 524160, 655232, 130944, 524160, 130944, 262016,
   655232, 196480, 327552, 589696, 393088, 458624, 655232, 458624, 130944, 393088, 262016, 524160,
   196480, 589696, 327552, 196480, 589696, 524160, 327552, 130944, 655232, 458624, 262016, 393088,
   262016, 64384, 63360, 196480, 589696, 61312, 130944, 524160, 655232]

/-- The board after the first 77 fills of the example round of `generate`. -/
def filled77_board : List Nat :=
  [393088, 262016, 327552, 458624, 57216, 49024, 32640, 130944, 196480, 458624, 524160, 196480,
   130944, 655232, 393088, 262016, 327552, 589696, 130944, 655232, 589696, 262016, 327552, 196480,
   393088, 458624, 524160, 589696, 393088, 655232, 524160, 458624, 130944, 327552, 196480, 262016,
   327552, 196480, 458624, 589696, 393088, 262016, 524160, 655232, 130944, 524160, 130944, 262016,
   655232, 196480, 327552, 589696, 393088, 458624, 655232, 458624, 130944, 393088, 262016, 524160,
   196480, 589696, 327552, 196480, 589696, 524160, 327552, 130944, 655232, 458624, 262016, 393088,
   262016, 327552, 393088, 196480, 589696, 61312, 130944, 524160, 655232]

/-! ## Intermediate boards of the example with two rows of clues -/

/-- The history records of the clues `hint_clues`. -/
def hint_records : List Nat :=
  hint_clues.map (fun c => SET_INDEX c.1 ||| SET_DIGIT c.2 ||| FIXED)

/-- The board after `reapply` has replayed the first 6 clues of `hint_clues`. -/
def hint6_board : List Nat :=
  [1441664, 1310592, 1376128, 1507200, 1572736, 1638272, 32256, 32256, 32256, 3584, 3584, 3584,
   28672, 28672, 28672, 0, 0, 0, 3584, 3584, 3584, 28672, 28672, 28672, 0, 0, 0, 2048, 512, 1024,
   4096, 8192, 16384, 0, 0, 0, 2048, 512, 1024, 4096, 8192, 16384, 0, 0, 0, 2048, 512, 1024, 4096,
   8192, 16384, 0, 0, 0, 2048, 512, 1024, 4096, 8192, 16384, 0, 0, 0, 2048, 512, 1024, 4096, 8192,
   16384, 0, 0, 0, 2048, 512, 1024, 4096, 8192, 16384, 0, 0, 0]

/-- The board after `reapply` has replayed the first 11 clues of `hint_clues`. -/
def hint11_board : List Nat :=
  [1441664, 1310592, 1376128, 1507200, 1572736, 1638272, 1703808, 1179520, 65152, 1507200, 1572736,
   1245056, 28928, 28928, 28928, 45440, 45440, 45440, 16128, 16128, 16128, 28672, 28672, 28672,
   32896, 32896, 32896, 6144, 8704, 1280, 4096, 8192, 16384, 32768, 128, 0, 6144, 8704, 1280, 4096,
   8192, 16384, 32768, 128, 0, 6144, 8704, 1280, 4096, 8192, 16384, 32768, 128, 0, 6144, 8704, 1280,
   4096, 8192, 16384, 32768, 128, 0, 6144, 8704, 1280, 4096, 8192, 16384, 32768, 128, 0, 6144, 8704,
   1280, 4096, 8192, 16384, 32768, 128, 0]

/-- The board of `hint_example`: the replay of the 16 clues of `hint_clues`. -/
def hint_board : List Nat :=
  [1441664, 1310592, 1376128, 1507200, 1572736, 1638272, 1703808, 1179520, 65152, 1507200, 1572736,
   1245056, 1179520, 1703808, 1441664, 1310592, 1376128, 49024, 16128, 16128, 16128, 63616, 63616,
   63616, 34432, 34432, 34432, 6144, 8704, 1280, 4224, 40960, 18432, 33280, 1152, 0, 6144, 8704,
   1280, 4224, 40960, 18432, 33280, 1152, 0, 6144, 8704, 1280, 4224, 40960, 18432, 33280, 1152, 0,
   6144, 8704, 1280, 4224, 40960, 18432, 33280, 1152, 0, 6144, 8704, 1280, 4224, 40960, 18432,
   33280, 1152, 0, 6144, 8704, 1280, 4224, 40960, 18432, 33280, 1152, 0]

/-- The moves that `findmoves` finds on the board of `hint_example`. -/
def hint_moves : List Nat :=
  [16908296, 16908296, 17301521, 17301521, 67239944, 67633169, 33685512, 34078737]

/-! ## Moves found in the example round -/

/-- The moves that `findmoves` has found on the board of `clued_failing` after the first three
rows, columns and blocks. -/
def moves3_failing : List Nat :=
  [17235972, 17235972, 17367046, 17367046, 67567620, 67567620, 67698694, 67698694]

/-- The moves that `findmoves` has found on the board of `clued_failing` after the first six
rows, columns and blocks. -/
def moves6_failing : List Nat :=
  [17235972, 17235972, 17367046, 17367046, 67567620, 67567620, 67698694, 67698694, 34013188,
   34013188]

/-- The moves that `findmoves` has found on the board of `clued_failing` after all nine
rows, columns and blocks. -/
def moves_failing : List Nat :=
  [17235972, 17235972, 17367046, 17367046, 67567620, 67567620, 67698694, 67698694, 34013188,
   34013188, 34144262, 34144262]

/-- The moves that `findmoves` has found on the board of `filled_example` after the first three
rows, columns and blocks. -/
def moves3_example : List Nat :=
  [17235972, 17301509, 17235972, 17367046, 17301509, 17367046, 67567620, 67633157, 67567620,
   67633157, 67698694, 67698694]

/-- The moves that `findmoves` has found on the board of `filled_example` after the first six
rows, columns and blocks. -/
def moves6_example : List Nat :=
  [17235972, 17301509, 17235972, 17367046, 17301509, 17367046, 67567620, 67633157, 67567620,
   67633157, 67698694, 67698694, 34013188, 34013188, 34078725, 34078725]

/-- The moves that `findmoves` has found on the board of `filled_example` after all nine
rows, columns and blocks. -/
def moves_example : List Nat :=
  [17235972, 17301509, 17235972, 17367046, 17301509, 17367046, 67567620, 67633157, 67567620,
   67633157, 67698694, 67698694, 34013188, 34013188, 34078725, 34078725, 34144262, 34144262]

end Sudoku

namespace Sudoku

/-! ## Arrays: reads after writes -/

theorem rd_wr (a : List Nat) (i j v : Nat) :
    rd (wr a i v) j = if i = j ∧ i < a.length then v else rd a j := by
  unfold rd wr
  rw [List.getD_eq_getElem?_getD, List.getD_eq_getElem?_getD, List.getElem?_set]
  by_cases hij : i = j
  · subst hij
    by_cases hl : i < a.length
    · simp [hl]
    · have : a[i]? = none := List.getElem?_eq_none (by omega)
      simp [hl, this]
  · simp [hij]

theorem rd_wr_self (a : List Nat) (i v : Nat) (h : i < a.length) : rd (wr a i v) i = v := by
  simp [rd_wr, h]

theorem rd_wr_ne (a : List Nat) (i j v : Nat) (h : i ≠ j) : rd (wr a i v) j = rd a j := by
  simp [rd_wr, h]

@[simp] theorem length_wr (a : List Nat) (i v : Nat) : (wr a i v).length = a.length := by
  simp [wr]

theorem rd_replicate (n i : Nat) : rd (List.replicate n 0) i = 0 := by
  unfold rd
  rw [List.getD_eq_getElem?_getD, List.getElem?_replicate]
  split <;> rfl

theorem rd_ge (a : List Nat) (i : Nat) (h : a.length ≤ i) : rd a i = 0 := by
  unfold rd
  rw [List.getD_eq_getElem?_getD, List.getElem?_eq_none h]
  rfl

theorem wr_ge (a : List Nat) (i v : Nat) (h : a.length ≤ i) : wr a i v = a := by
  unfold wr
  exact List.set_eq_of_length_le h

theorem rd_append_left (a b : List Nat) (i : Nat) (h : i < a.length) :
    rd (a ++ b) i = rd a i := by
  unfold rd
  rw [List.getD_eq_getElem?_getD, List.getD_eq_getElem?_getD, List.getElem?_append_left h]

theorem rd_take (a : List Nat) (n i : Nat) (h : i < n) : rd (a.take n) i = rd a i := by
  unfold rd
  rw [List.getD_eq_getElem?_getD, List.getD_eq_getElem?_getD, List.getElem?_take_of_lt h]

/-! ## Bits of the packed words -/

theorem testBit_STATE_MASK (i : Nat) : STATE_MASK.testBit i = decide (7 ≤ i ∧ i < 16) := by
  by_cases h : i < 16
  · interval_cases i <;> rfl
  · have h1 : STATE_MASK < 2 ^ i :=
      lt_of_lt_of_le (by decide : STATE_MASK < 2 ^ 16) (Nat.pow_le_pow_right (by omega) (by omega))
    rw [Nat.testBit_lt_two_pow h1]
    simp
    omega

theorem testBit_DIGIT_MASK (i : Nat) : DIGIT_MASK.testBit i = decide (16 ≤ i ∧ i < 20) := by
  by_cases h : i < 20
  · interval_cases i <;> rfl
  · have h1 : DIGIT_MASK < 2 ^ i :=
      lt_of_lt_of_le (by decide : DIGIT_MASK < 2 ^ 20) (Nat.pow_le_pow_right (by omega) (by omega))
    rw [Nat.testBit_lt_two_pow h1]
    simp
    omega

theorem testBit_INDEX_MASK (i : Nat) : INDEX_MASK.testBit i = decide (i < 7) := by
  by_cases h : i < 7
  · interval_cases i <;> rfl
  · have h1 : INDEX_MASK < 2 ^ i :=
      lt_of_lt_of_le (by decide : INDEX_MASK < 2 ^ 7) (Nat.pow_le_pow_right (by omega) (by omega))
    rw [Nat.testBit_lt_two_pow h1]
    simp
    omega

theorem DIGIT_STATE_eq (d : Nat) : DIGIT_STATE d = 2 ^ (6 + d) := by
  unfold DIGIT_STATE STATE_SHIFT
  rw [Nat.one_shiftLeft]

theorem testBit_DIGIT_STATE (d i : Nat) : (DIGIT_STATE d).testBit i = decide (6 + d = i) := by
  rw [DIGIT_STATE_eq, Nat.testBit_two_pow]

theorem FIXED_eq : FIXED = 2 ^ 20 := by decide
theorem CHOICE_eq : CHOICE = 2 ^ 21 := by decide
theorem IGNORED_eq : IGNORED = 2 ^ 22 := by decide

theorem testBit_FIXED (i : Nat) : FIXED.testBit i = decide (20 = i) := by
  rw [FIXED_eq, Nat.testBit_two_pow]

theorem testBit_CHOICE (i : Nat) : CHOICE.testBit i = decide (21 = i) := by
  rw [CHOICE_eq, Nat.testBit_two_pow]

theorem testBit_IGNORED (i : Nat) : IGNORED.testBit i = decide (22 = i) := by
  rw [IGNORED_eq, Nat.testBit_two_pow]

theorem and_two_pow_ne_zero (x k : Nat) : x &&& 2 ^ k ≠ 0 ↔ x.testBit k = true := by
  simp [Nat.and_two_pow]

theorem and_two_pow_eq_zero (x k : Nat) : x &&& 2 ^ k = 0 ↔ x.testBit k = false := by
  simp [Nat.and_two_pow]

theorem and_DIGIT_STATE_ne_zero (x d : Nat) :
    x &&& DIGIT_STATE d ≠ 0 ↔ x.testBit (6 + d) = true := by
  rw [DIGIT_STATE_eq, and_two_pow_ne_zero]

theorem and_DIGIT_STATE_eq_zero (x d : Nat) :
    x &&& DIGIT_STATE d = 0 ↔ x.testBit (6 + d) = false := by
  rw [DIGIT_STATE_eq, and_two_pow_eq_zero]

theorem and_eq_zero_iff_testBit (x y : Nat) :
    x &&& y = 0 ↔ ∀ i, (x.testBit i && y.testBit i) = false := by
  constructor
  · intro h i
    rw [← Nat.testBit_and, h, Nat.zero_testBit]
  · intro h
    apply Nat.eq_of_testBit_eq
    intro i
    rw [Nat.testBit_and, h, Nat.zero_testBit]

/-- The digit field of a word is determined by bits 16..19. -/
theorem GET_DIGIT_congr (x y : Nat)
    (h : ∀ i, 16 ≤ i → i < 20 → x.testBit i = y.testBit i) : GET_DIGIT x = GET_DIGIT y := by
  unfold GET_DIGIT DIGIT_SHIFT
  apply Nat.eq_of_testBit_eq
  intro i
  rw [Nat.testBit_shiftRight, Nat.testBit_shiftRight, Nat.testBit_and, Nat.testBit_and,
    testBit_DIGIT_MASK]
  by_cases hi : 16 + i < 20
  · rw [h (16 + i) (by omega) hi]
  · simp [hi]

theorem GET_DIGIT_or (x m : Nat) (hm : m &&& DIGIT_MASK = 0) :
    GET_DIGIT (x ||| m) = GET_DIGIT x := by
  apply GET_DIGIT_congr
  intro i h1 h2
  have := (and_eq_zero_iff_testBit m DIGIT_MASK).1 hm i
  rw [testBit_DIGIT_MASK] at this
  simp [h1, h2] at this
  simp [Nat.testBit_or, this]

theorem GET_DIGIT_SET_DIGIT (d : Nat) (h : d < 16) : GET_DIGIT (SET_DIGIT d) = d := by
  interval_cases d <;> rfl

theorem GET_DIGIT_lt (x : Nat) : GET_DIGIT x < 16 := by
  unfold GET_DIGIT DIGIT_SHIFT
  have h16 : (16 : Nat) = 2 ^ 4 := rfl
  rw [h16]
  apply Nat.lt_pow_two_of_testBit
  intro j hj
  rw [Nat.testBit_shiftRight, Nat.testBit_and, testBit_DIGIT_MASK]
  simp
  omega

theorem STATE_MASK_and_DIGIT_MASK : STATE_MASK &&& DIGIT_MASK = 0 := by decide

theorem DIGIT_STATE_and_DIGIT_MASK (d : Nat) (h : d ≤ 9) : DIGIT_STATE d &&& DIGIT_MASK = 0 := by
  interval_cases d <;> rfl

theorem FIXED_and_DIGIT_MASK : FIXED &&& DIGIT_MASK = 0 := by decide

theorem and_DIGIT_MASK_of_le_STATE (m : Nat) (h : m &&& STATE_MASK = m) :
    m &&& DIGIT_MASK = 0 := by
  rw [← h, Nat.and_assoc, STATE_MASK_and_DIGIT_MASK, Nat.and_zero]

end Sudoku

namespace Sudoku

/-! ## Geometry of rows, columns and blocks -/

theorem peer_refl (i : Nat) : peer i i := Or.inl rfl

theorem peer_symm {i j : Nat} (h : peer i j) : peer j i := by
  unfold peer at *
  rcases h with h | h | h
  · exact Or.inl h.symm
  · exact Or.inr (Or.inl h.symm)
  · exact Or.inr (Or.inr h.symm)

theorem idx_row_lt {el k : Nat} (hel : el < 9) (hk : k < 9) : idx_row el k < 81 := by
  unfold idx_row INDEX; omega

theorem idx_column_lt {el k : Nat} (hel : el < 9) (hk : k < 9) : idx_column el k < 81 := by
  unfold idx_column INDEX; omega

theorem idx_block_lt {el k : Nat} (hel : el < 9) (hk : k < 9) : idx_block el k < 81 := by
  unfold idx_block INDEX; omega

theorem mem_unit_iff (idx j : Nat) (hidx : idx < 81) :
    (∃ i ∈ List.range 9, j = idx_row (ROW idx) i ∨ j = idx_column (COLUMN idx) i ∨
      j = idx_block (IDX_BLOCK (ROW idx) (COLUMN idx)) i) ↔ j < 81 ∧ peer idx j := by
  unfold peer idx_row idx_column idx_block IDX_BLOCK BLOCK ROW COLUMN INDEX
  constructor
  · rintro ⟨i, hi, h⟩
    rw [List.mem_range] at hi
    rcases h with h | h | h
    · refine ⟨by omega, Or.inl ?_⟩; omega
    · refine ⟨by omega, Or.inr (Or.inl ?_)⟩; omega
    · refine ⟨by omega, Or.inr (Or.inr ?_)⟩; omega
  · rintro ⟨hj, h | h | h⟩
    · exact ⟨j % 9, List.mem_range.2 (by omega), Or.inl (by omega)⟩
    · exact ⟨j / 9, List.mem_range.2 (by omega), Or.inr (Or.inl (by omega))⟩
    · exact ⟨3 * (j / 9 % 3) + j % 9 % 3, List.mem_range.2 (by omega),
        Or.inr (Or.inr (by omega))⟩

/-! ## The effect of `update` -/

theorem or_or_self (x m : Nat) : x ||| m ||| m = x ||| m := by
  rw [Nat.or_assoc, Nat.or_self]

theorem update_step_length (row col block mask : Nat) (b : List Nat) (i : Nat) :
    (update_step row col block mask b i).length = b.length := by
  simp [update_step]

theorem update_step_rd (row col block mask : Nat) (b : List Nat) (i j : Nat) :
    rd (update_step row col block mask b i) j =
      if (j = idx_row row i ∨ j = idx_column col i ∨ j = idx_block block i) ∧ j < b.length
      then rd b j ||| mask else rd b j := by
  unfold update_step
  simp only [rd_wr, length_wr]
  by_cases hl : j < b.length
  · by_cases h1 : idx_row row i = j <;> by_cases h2 : idx_column col i = j <;>
      by_cases h3 : idx_block block i = j <;>
      simp [h1, h2, h3, hl, or_or_self, eq_comm]
    all_goals simp_all [or_or_self, eq_comm]
  · have e1 : ¬ (idx_row row i = j ∧ idx_row row i < b.length) := by rintro ⟨h, h'⟩; omega
    have e2 : ¬ (idx_column col i = j ∧ idx_column col i < b.length) := by
      rintro ⟨h, h'⟩; omega
    have e3 : ¬ (idx_block block i = j ∧ idx_block block i < b.length) := by
      rintro ⟨h, h'⟩; omega
    simp [e1, e2, e3, hl]

theorem foldl_update_step_length (row col block mask : Nat) (L : List Nat) (b : List Nat) :
    (L.foldl (update_step row col block mask) b).length = b.length := by
  induction L generalizing b with
  | nil => rfl
  | cons i L ih => rw [List.foldl_cons, ih, update_step_length]

theorem foldl_update_step_rd (row col block mask : Nat) (L : List Nat) (b : List Nat) (j : Nat) :
    rd (L.foldl (update_step row col block mask) b) j =
      if (∃ i ∈ L, j = idx_row row i ∨ j = idx_column col i ∨ j = idx_block block i) ∧
          j < b.length
      then rd b j ||| mask else rd b j := by
  induction L generalizing b with
  | nil => simp
  | cons i L ih =>
    rw [List.foldl_cons, ih, update_step_length, update_step_rd]
    by_cases hl : j < b.length
    · by_cases h1 : (j = idx_row row i ∨ j = idx_column col i ∨ j = idx_block block i)
      · by_cases h2 : ∃ i ∈ L, j = idx_row row i ∨ j = idx_column col i ∨ j = idx_block block i
        · have h3 : ∃ i' ∈ i :: L,
              j = idx_row row i' ∨ j = idx_column col i' ∨ j = idx_block block i' :=
            ⟨i, List.mem_cons_self _ _, h1⟩
          simp only [h1, h2, h3, hl, and_self, if_true, or_or_self]
        · have h3 : ∃ i' ∈ i :: L,
              j = idx_row row i' ∨ j = idx_column col i' ∨ j = idx_block block i' :=
            ⟨i, List.mem_cons_self _ _, h1⟩
          simp only [h1, h2, h3, hl, and_self, if_true, false_and, if_false]
      · by_cases h2 : ∃ i ∈ L, j = idx_row row i ∨ j = idx_column col i ∨ j = idx_block block i
        · have h3 : ∃ i' ∈ i :: L,
              j = idx_row row i' ∨ j = idx_column col i' ∨ j = idx_block block i' := by
            obtain ⟨i', hi', h⟩ := h2
            exact ⟨i', List.mem_cons_of_mem _ hi', h⟩
          simp only [h1, h2, h3, hl, and_self, if_true, false_and, if_false]
        · have h3 : ¬ ∃ i' ∈ i :: L,
              j = idx_row row i' ∨ j = idx_column col i' ∨ j = idx_block block i' := by
            rintro ⟨i', hi', h⟩
            rcases List.mem_cons.1 hi' with rfl | hi'
            · exact h1 h
            · exact h2 ⟨i', hi', h⟩
          simp only [h1, h2, h3, hl, false_and, if_false]
    · simp [hl]

theorem update_length (b : List Nat) (idx : Nat) : (update b idx).length = b.length := by
  unfold update
  simp only [foldl_update_step_length, length_wr]

/-- Closed form of `update(idx)`: the cell gets a full mask, every peer gets the bit of
the cell's digit, every other word is unchanged. -/
theorem update_rd (b : List Nat) (idx j : Nat) (hb : b.length = 81) (hidx : idx < 81) :
    rd (update b idx) j =
      if j = idx then rd b idx ||| STATE_MASK ||| DIGIT_STATE (DIGIT b idx)
      else if j < 81 ∧ peer idx j then rd b j ||| DIGIT_STATE (DIGIT b idx)
      else rd b j := by
  unfold update
  simp only []
  rw [foldl_update_step_rd]
  simp only [mem_unit_iff idx j hidx, length_wr, hb]
  by_cases hj : j = idx
  · subst hj
    have : (j < 81 ∧ peer j j) ∧ j < 81 := ⟨⟨hidx, peer_refl j⟩, hidx⟩
    simp [this, rd_wr_self _ _ _ (by omega : j < b.length), hidx, peer_refl]
  · have hne : idx ≠ j := fun h => hj h.symm
    simp only [hj, if_false, rd_wr_ne _ _ _ _ hne]
    by_cases hp : j < 81 ∧ peer idx j
    · have : (j < 81 ∧ peer idx j) ∧ j < 81 := ⟨hp, hp.1⟩
      simp only [this, hp, and_self, if_true]
    · have : ¬ ((j < 81 ∧ peer idx j) ∧ j < 81) := fun h => hp h.1
      simp [this, hp]

end Sudoku

namespace Sudoku

/-! ## The history after `add_move` -/

theorem add_move_ignore_length (h : List Nat) (idx n : Nat) :
    (add_move_ignore h idx n).length = h.length := by
  induction n with
  | zero => rfl
  | succ i ih =>
    unfold add_move_ignore
    split
    · simp
    · exact ih

theorem add_move_ignore_rd (h : List Nat) (idx n k : Nat) :
    rd (add_move_ignore h idx n) k = rd h k ∨
      (k < n ∧ GET_INDEX (rd h k) = idx ∧ rd (add_move_ignore h idx n) k = rd h k ||| IGNORED) := by
  induction n with
  | zero => exact Or.inl rfl
  | succ i ih =>
    unfold add_move_ignore
    split
    · rename_i hi
      rw [rd_wr]
      by_cases hk : i = k ∧ i < h.length
      · rw [if_pos hk]
        obtain ⟨rfl, _⟩ := hk
        exact Or.inr ⟨by omega, hi, rfl⟩
      · rw [if_neg hk]
        exact Or.inl rfl
    · rcases ih with ih | ⟨h1, h2, h3⟩
      · exact Or.inl ih
      · exact Or.inr ⟨by omega, h2, h3⟩

theorem add_move_ignore_rd_ge (h : List Nat) (idx n k : Nat) (hk : n ≤ k) :
    rd (add_move_ignore h idx n) k = rd h k := by
  rcases add_move_ignore_rd h idx n k with h1 | ⟨h1, _, _⟩
  · exact h1
  · omega

theorem add_move_ignore_none (h : List Nat) (idx n : Nat)
    (hn : ∀ k < n, GET_INDEX (rd h k) ≠ idx) : add_move_ignore h idx n = h := by
  induction n with
  | zero => rfl
  | succ i ih =>
    unfold add_move_ignore
    rw [if_neg (hn i (by omega))]
    exact ih (fun k hk => hn k (by omega))

/-- Below capacity `add_move` does not compress. -/
theorem add_move_below (s : State) (idx digit choice : Nat) (h0 : 0 ≤ s.idx_history)
    (hcap : s.idx_history < 242) :
    add_move s idx digit choice =
      some { s with
        history := add_move_ignore
          (wr s.history s.idx_history.toNat (SET_INDEX idx ||| SET_DIGIT digit ||| choice))
          idx s.idx_history.toNat,
        idx_history := s.idx_history + 1 } := by
  unfold add_move
  have h1 : ¬ (243 - 1 ≤ s.idx_history ∨ s.idx_history < 0) := by omega
  simp only [h1, if_false]
  have h2 : ¬ (s.idx_history < 0 ∨ 243 ≤ s.idx_history) := by omega
  simp only [h2, if_false]

/-! ## Words written by `fill` -/

theorem record_index (idx digit flags : Nat) (hidx : idx < 128) (hf : flags &&& INDEX_MASK = 0) :
    GET_INDEX (SET_INDEX idx ||| SET_DIGIT digit ||| flags) = idx := by
  unfold GET_INDEX SET_INDEX SET_DIGIT DIGIT_SHIFT
  apply Nat.eq_of_testBit_eq
  intro i
  have hfi := (and_eq_zero_iff_testBit flags INDEX_MASK).1 hf i
  rw [testBit_INDEX_MASK] at hfi
  rw [Nat.testBit_and, Nat.testBit_or, Nat.testBit_or, testBit_INDEX_MASK, Nat.testBit_shiftLeft]
  by_cases hi : i < 7
  · have : ¬ i ≥ 16 := by omega
    simp [hi, this] at hfi ⊢
    simp [hfi]
  · have h128 : idx < 2 ^ i :=
      lt_of_lt_of_le hidx (by
        have : (128 : Nat) = 2 ^ 7 := rfl
        rw [this]; exact Nat.pow_le_pow_right (by omega) (by omega))
    simp [hi, Nat.testBit_lt_two_pow h128]

theorem record_digit (idx digit flags : Nat) (hidx : idx < 128) (hd : digit < 16)
    (hf : flags &&& DIGIT_MASK = 0) :
    GET_DIGIT (SET_INDEX idx ||| SET_DIGIT digit ||| flags) = digit := by
  rw [GET_DIGIT_or _ _ hf]
  rw [← GET_DIGIT_SET_DIGIT digit hd]
  apply GET_DIGIT_congr
  intro i h1 h2
  unfold SET_INDEX
  have h128 : idx < 2 ^ i :=
    lt_of_lt_of_le hidx (by
      have : (128 : Nat) = 2 ^ 7 := rfl
      rw [this]; exact Nat.pow_le_pow_right (by omega) (by omega))
  rw [GET_DIGIT_SET_DIGIT digit hd]
  simp [Nat.testBit_or, Nat.testBit_lt_two_pow h128]

theorem record_flag (idx digit flag : Nat) (k : Nat) (hflag : flag = 2 ^ k) (hk : 20 ≤ k)
    (hidx : idx < 128) (hd : digit < 16) :
    (SET_INDEX idx ||| SET_DIGIT digit) &&& flag = 0 := by
  subst hflag
  rw [and_two_pow_eq_zero]
  unfold SET_INDEX SET_DIGIT DIGIT_SHIFT
  have h1 : idx < 2 ^ k :=
    lt_of_lt_of_le hidx (by
      have : (128 : Nat) = 2 ^ 7 := rfl
      rw [this]; exact Nat.pow_le_pow_right (by omega) (by omega))
  have h2 : digit < 2 ^ (k - 16) :=
    lt_of_lt_of_le hd (by
      have : (16 : Nat) = 2 ^ 4 := rfl
      rw [this]; exact Nat.pow_le_pow_right (by omega) (by omega))
  rw [Nat.testBit_or, Nat.testBit_shiftLeft, Nat.testBit_lt_two_pow h1,
    Nat.testBit_lt_two_pow h2]
  simp

theorem SET_DIGIT_and_DIGIT_STATE (digit d : Nat) (hd : d ≤ 9) :
    SET_DIGIT digit &&& DIGIT_STATE d = 0 := by
  rw [and_DIGIT_STATE_eq_zero]
  unfold SET_DIGIT DIGIT_SHIFT
  rw [Nat.testBit_shiftLeft]
  have : ¬ 6 + d ≥ 16 := by omega
  simp [this]

theorem DIGIT_STATE_le_STATE_MASK (d : Nat) (h1 : 1 ≤ d) (h9 : d ≤ 9) :
    STATE_MASK ||| DIGIT_STATE d = STATE_MASK := by
  interval_cases d <;> rfl

theorem placed_length (b : List Nat) (idx digit : Nat) :
    (update (wr b idx (SET_DIGIT digit)) idx).length = b.length := by
  rw [update_length, length_wr]

end Sudoku

namespace Sudoku

/-! ## Claims about `fill` -/

/-- C5 (as stated, refuted): `fill(0, 5)` on a board whose cell 0 already holds 5 returns
success although the cell is not empty and the digit is masked out there. -/
theorem fill_same_digit_succeeds :
    fill state_one_fill 0 5 = some (0, state_one_fill) ∧
      IS_EMPTY state_one_fill.board 0 = false ∧
      DISALLOWED state_one_fill.board 0 5 ≠ 0 := by
  decide!

/-- C5 (amended): `fill(index, digit)` returns success only if the cell is empty and the
digit is not masked out there, or the cell already holds that digit. -/
theorem fill_success_only_if (s s' : State) (idx digit : Nat)
    (h : fill s idx digit = some (0, s')) :
    (IS_EMPTY s.board idx = true ∧ DISALLOWED s.board idx digit = 0) ∨
      (IS_EMPTY s.board idx = false ∧ DIGIT s.board idx = digit) := by
  unfold fill at h
  by_cases he : IS_EMPTY s.board idx = true
  · left
    refine ⟨he, ?_⟩
    by_contra hd
    simp [he, hd] at h
  · right
    simp only [he, not_false_eq_true, if_true, Option.some.injEq, Prod.mk.injEq] at h
    refine ⟨by simpa using he, ?_⟩
    by_contra hd
    simp [hd] at h

theorem fill_success_only_if_witness :
    (IS_EMPTY reset.board 0 = true ∧ DISALLOWED reset.board 0 5 = 0) ∨
      (IS_EMPTY reset.board 0 = false ∧ DIGIT reset.board 0 = 5) :=
  fill_success_only_if reset state_one_fill 0 5 (by decide!)

/-- C6: `fill(index, digit)` returns failure exactly when the cell is non-empty and holds
a different digit, or the cell is empty and the digit is masked out there. -/
theorem fill_failure_iff (s : State) (idx digit : Nat) :
    (∃ s', fill s idx digit = some (-1, s')) ↔
      (IS_EMPTY s.board idx = false ∧ DIGIT s.board idx ≠ digit) ∨
        (IS_EMPTY s.board idx = true ∧ DISALLOWED s.board idx digit ≠ 0) := by
  unfold fill
  by_cases he : IS_EMPTY s.board idx = true
  · by_cases hd : DISALLOWED s.board idx digit = 0
    · simp [he, hd]
    · simp [he, hd]
  · by_cases hd : DIGIT s.board idx = digit
    · simp [he, hd]
    · simp [he, hd]

end Sudoku

namespace Sudoku

end Sudoku

namespace Sudoku

/-! ## Placing a digit: `board[idx] = w; update(idx)` -/

theorem place_rd (b : List Nat) (idx w j : Nat) (hb : b.length = 81) (hidx : idx < 81)
    (hd1 : 1 ≤ GET_DIGIT w) (hd9 : GET_DIGIT w ≤ 9) :
    rd (update (wr b idx w) idx) j =
      if j = idx then w ||| STATE_MASK
      else if j < 81 ∧ peer idx j then rd b j ||| DIGIT_STATE (GET_DIGIT w)
      else rd b j := by
  have hl : (wr b idx w).length = 81 := by simp [hb]
  have hdg : DIGIT (wr b idx w) idx = GET_DIGIT w := by
    unfold DIGIT
    rw [rd_wr_self _ _ _ (by omega)]
  rw [update_rd _ _ _ hl hidx, hdg, rd_wr_self _ _ _ (by omega)]
  by_cases hj : j = idx
  · simp only [hj, if_true]
    rw [Nat.or_assoc, DIGIT_STATE_le_STATE_MASK _ hd1 hd9]
  · have hne : idx ≠ j := fun h => hj h.symm
    simp only [hj, if_false, rd_wr_ne _ _ _ _ hne]

theorem place_DIGIT (b : List Nat) (idx w j : Nat) (hb : b.length = 81) (hidx : idx < 81)
    (hd1 : 1 ≤ GET_DIGIT w) (hd9 : GET_DIGIT w ≤ 9) :
    DIGIT (update (wr b idx w) idx) j = if j = idx then GET_DIGIT w else DIGIT b j := by
  unfold DIGIT
  rw [place_rd b idx w j hb hidx hd1 hd9]
  by_cases hj : j = idx
  · simp only [hj, if_true]
    exact GET_DIGIT_or _ _ STATE_MASK_and_DIGIT_MASK
  · simp only [hj, if_false]
    split
    · exact GET_DIGIT_or _ _ (DIGIT_STATE_and_DIGIT_MASK _ hd9)
    · rfl

theorem place_DISALLOWED_self (b : List Nat) (idx w d : Nat) (hb : b.length = 81)
    (hidx : idx < 81) (hd1 : 1 ≤ GET_DIGIT w) (hd9 : GET_DIGIT w ≤ 9)
    (h1 : 1 ≤ d) (h9 : d ≤ 9) :
    DISALLOWED (update (wr b idx w) idx) idx d ≠ 0 := by
  unfold DISALLOWED
  rw [place_rd b idx w idx hb hidx hd1 hd9, if_pos rfl, and_DIGIT_STATE_ne_zero,
    Nat.testBit_or, testBit_STATE_MASK]
  have : 7 ≤ 6 + d ∧ 6 + d < 16 := by omega
  simp [this]

theorem place_DISALLOWED_other (b : List Nat) (idx w j d : Nat) (hb : b.length = 81)
    (hidx : idx < 81) (hd1 : 1 ≤ GET_DIGIT w) (hd9 : GET_DIGIT w ≤ 9) (hj : j ≠ idx) :
    DISALLOWED (update (wr b idx w) idx) j d ≠ 0 ↔
      DISALLOWED b j d ≠ 0 ∨ (j < 81 ∧ peer idx j ∧ d = GET_DIGIT w) := by
  unfold DISALLOWED
  rw [place_rd b idx w j hb hidx hd1 hd9, if_neg hj]
  by_cases hp : j < 81 ∧ peer idx j
  · rw [if_pos hp, and_DIGIT_STATE_ne_zero, and_DIGIT_STATE_ne_zero, Nat.testBit_or,
      testBit_DIGIT_STATE]
    simp only [Bool.or_eq_true, decide_eq_true_eq]
    constructor
    · rintro (h | h)
      · exact Or.inl h
      · exact Or.inr ⟨hp.1, hp.2, by omega⟩
    · rintro (h | ⟨_, _, h⟩)
      · exact Or.inl h
      · exact Or.inr (by omega)
  · rw [if_neg hp]
    constructor
    · exact Or.inl
    · rintro (h | ⟨h1, h2, _⟩)
      · exact h
      · exact absurd ⟨h1, h2⟩ hp

theorem DIGIT_replicate (i : Nat) : DIGIT (List.replicate 81 0) i = 0 := by
  unfold DIGIT
  rw [rd_replicate]
  rfl

theorem DISALLOWED_replicate (i d : Nat) : DISALLOWED (List.replicate 81 0) i d = 0 := by
  unfold DISALLOWED
  rw [rd_replicate]
  exact Nat.zero_and _

theorem BoardWF_empty : BoardWF (List.replicate 81 0) where
  len := List.length_replicate _ _
  digit_le := by
    intro i _
    rw [DIGIT_replicate]
    omega
  full := by
    intro i _ h
    exact absurd (DIGIT_replicate i) h
  seen := by
    intro i _ j _ _ h
    exact absurd (DIGIT_replicate i) h

theorem NoConflict_empty : NoConflict (List.replicate 81 0) := by
  intro i _ j _ _ _ h
  exact absurd (DIGIT_replicate i) h

/-- Placing a digit 1..9 keeps a board well-formed, even on a filled cell. -/
theorem BoardWF_place (b : List Nat) (idx w : Nat) (hwf : BoardWF b) (hidx : idx < 81)
    (hd1 : 1 ≤ GET_DIGIT w) (hd9 : GET_DIGIT w ≤ 9) :
    BoardWF (update (wr b idx w) idx) where
  len := by rw [update_length, length_wr, hwf.len]
  digit_le := by
    intro i hi
    rw [place_DIGIT b idx w i hwf.len hidx hd1 hd9]
    split
    · exact hd9
    · exact hwf.digit_le i hi
  full := by
    intro i hi hne d h1 h9
    by_cases hii : i = idx
    · subst hii
      exact place_DISALLOWED_self b i w d hwf.len hidx hd1 hd9 h1 h9
    · rw [place_DIGIT b idx w i hwf.len hidx hd1 hd9, if_neg hii] at hne
      rw [place_DISALLOWED_other b idx w i d hwf.len hidx hd1 hd9 hii]
      exact Or.inl (hwf.full i hi hne d h1 h9)
  seen := by
    intro i hi j hj hp hne
    rw [place_DIGIT b idx w i hwf.len hidx hd1 hd9] at hne ⊢
    by_cases hjj : j = idx
    · subst hjj
      apply place_DISALLOWED_self b j w _ hwf.len hidx hd1 hd9
      · split
        · exact hd1
        · rename_i h
          rw [if_neg h] at hne
          omega
      · split
        · exact hd9
        · exact hwf.digit_le i hi
    · rw [place_DISALLOWED_other b idx w j _ hwf.len hidx hd1 hd9 hjj]
      by_cases hii : i = idx
      · subst hii
        rw [if_pos rfl]
        exact Or.inr ⟨hj, hp, rfl⟩
      · rw [if_neg hii] at hne ⊢
        exact Or.inl (hwf.seen i hi j hj hp hne)

/-- On a well-formed board a digit allowed at an empty cell is held by no peer. -/
theorem allowed_not_held (b : List Nat) (idx d j : Nat) (hwf : BoardWF b) (hidx : idx < 81)
    (hj : j < 81) (hp : peer idx j) (hallowed : DISALLOWED b idx d = 0) (hd : d ≠ 0) :
    DIGIT b j ≠ d := by
  intro h
  have := hwf.seen j hj idx hidx (peer_symm hp) (by rw [h]; exact hd)
  rw [h] at this
  exact this hallowed

/-- A valid placement keeps the board free of conflicts. -/
theorem NoConflict_place (b : List Nat) (idx w : Nat) (hwf : BoardWF b) (hnc : NoConflict b)
    (hidx : idx < 81) (hd1 : 1 ≤ GET_DIGIT w) (hd9 : GET_DIGIT w ≤ 9)
    (hallowed : DISALLOWED b idx (GET_DIGIT w) = 0) :
    NoConflict (update (wr b idx w) idx) := by
  intro i hi j hj hij hp hne
  rw [place_DIGIT b idx w i hwf.len hidx hd1 hd9] at hne ⊢
  rw [place_DIGIT b idx w j hwf.len hidx hd1 hd9]
  by_cases hii : i = idx
  · subst hii
    have hji : j ≠ i := fun h => hij h.symm
    rw [if_pos rfl, if_neg hji]
    exact fun h => allowed_not_held b i _ j hwf hidx hj hp hallowed (by omega) h.symm
  · rw [if_neg hii] at hne ⊢
    by_cases hjj : j = idx
    · subst hjj
      rw [if_pos rfl]
      exact allowed_not_held b j _ i hwf hidx hi (peer_symm hp) hallowed (by omega)
    · rw [if_neg hjj]
      exact hnc i hi j hj hij hp hne

theorem Above_refl (b : List Nat) (hb : b.length = 81) : Above b b :=
  ⟨hb, fun _ _ => ⟨rfl, fun _ _ _ h => h⟩⟩

/-- The same placement on two boards keeps one above the other. -/
theorem Above_place (b r : List Nat) (idx w w' : Nat) (hab : Above b r) (hr : r.length = 81)
    (hidx : idx < 81) (hd1 : 1 ≤ GET_DIGIT w) (hd9 : GET_DIGIT w ≤ 9)
    (hww : GET_DIGIT w' = GET_DIGIT w) :
    Above (update (wr b idx w) idx) (update (wr r idx w') idx) := by
  have hd1' : 1 ≤ GET_DIGIT w' := by omega
  have hd9' : GET_DIGIT w' ≤ 9 := by omega
  refine ⟨by rw [update_length, length_wr, hab.1], ?_⟩
  intro i hi
  rw [place_DIGIT b idx w i hab.1 hidx hd1 hd9, place_DIGIT r idx w' i hr hidx hd1' hd9']
  refine ⟨?_, ?_⟩
  · by_cases hii : i = idx
    · rw [if_pos hii, if_pos hii, hww]
    · rw [if_neg hii, if_neg hii]
      exact (hab.2 i hi).1
  · intro d h1 h9 hdis
    by_cases hii : i = idx
    · subst hii
      exact place_DISALLOWED_self b i w d hab.1 hidx hd1 hd9 h1 h9
    · rw [place_DISALLOWED_other r idx w' i d hr hidx hd1' hd9' hii] at hdis
      rw [place_DISALLOWED_other b idx w i d hab.1 hidx hd1 hd9 hii]
      rcases hdis with h | ⟨h1', h2', h3'⟩
      · exact Or.inl ((hab.2 i hi).2 d h1 h9 h)
      · exact Or.inr ⟨h1', h2', by omega⟩

theorem Above_BoardWF (b r : List Nat) (hab : Above b r) (hr : BoardWF r) : BoardWF b where
  len := hab.1
  digit_le := by
    intro i hi
    rw [(hab.2 i hi).1]
    exact hr.digit_le i hi
  full := by
    intro i hi hne d h1 h9
    rw [(hab.2 i hi).1] at hne
    exact (hab.2 i hi).2 d h1 h9 (hr.full i hi hne d h1 h9)
  seen := by
    intro i hi j hj hp hne
    rw [(hab.2 i hi).1] at hne ⊢
    have h1 : 1 ≤ DIGIT r i := by omega
    exact (hab.2 j hj).2 _ h1 (hr.digit_le i hi) (hr.seen i hi j hj hp hne)

theorem Above_NoConflict (b r : List Nat) (hab : Above b r) (hr : NoConflict r) :
    NoConflict b := by
  intro i hi j hj hij hp hne
  rw [(hab.2 i hi).1] at hne ⊢
  rw [(hab.2 j hj).1]
  exact hr i hi j hj hij hp hne

theorem Above_trans (a b c : List Nat) (h1 : Above a b) (h2 : Above b c) : Above a c := by
  refine ⟨h1.1, fun i hi => ⟨?_, ?_⟩⟩
  · rw [(h1.2 i hi).1, (h2.2 i hi).1]
  · intro d hd1 hd9 h
    exact (h1.2 i hi).2 d hd1 hd9 ((h2.2 i hi).2 d hd1 hd9 h)

end Sudoku

namespace Sudoku

/-! ## Replaying the history -/

theorem wr_wr (a : List Nat) (i v w : Nat) : wr (wr a i v) i w = wr a i w := by
  unfold wr
  exact List.set_set _ _ _ _

theorem GET_DIGIT_record_word (h : Nat) : GET_DIGIT (record_word h) = GET_DIGIT h := by
  unfold record_word
  split
  · rw [GET_DIGIT_or _ _ FIXED_and_DIGIT_MASK, GET_DIGIT_SET_DIGIT _ (GET_DIGIT_lt h)]
  · rw [GET_DIGIT_SET_DIGIT _ (GET_DIGIT_lt h)]

theorem reapply_step_skip (acc : Int × List Nat) (h : Nat) (hr : ¬ replayable h) :
    reapply_step acc h = acc := by
  unfold reapply_step
  unfold replayable at hr
  rw [if_neg hr]

theorem reapply_step_board (acc : Int × List Nat) (h : Nat) (hr : replayable h)
    (hidx : GET_INDEX h < acc.2.length) :
    (reapply_step acc h).2 = update (wr acc.2 (GET_INDEX h) (record_word h)) (GET_INDEX h) := by
  unfold reapply_step
  unfold replayable at hr
  rw [if_pos hr]
  simp only []
  unfold record_word
  by_cases hf : h &&& FIXED ≠ 0
  · rw [if_pos hf, if_pos hf, wr_wr, rd_wr_self _ _ _ hidx]
  · rw [if_neg hf, if_neg hf]

theorem reapply_step_ok (acc : Int × List Nat) (h : Nat) (hr : replayable h) :
    (reapply_step acc h).1 =
      if IS_EMPTY acc.2 (GET_INDEX h) = false ∨
          DISALLOWED acc.2 (GET_INDEX h) (GET_DIGIT h) ≠ 0 then -1 else acc.1 := by
  unfold reapply_step
  unfold replayable at hr
  rw [if_pos hr]
  simp only [Bool.not_eq_true]

theorem replay_zero (hist : List Nat) : replay hist 0 = (0, List.replicate 81 0) := by
  unfold replay
  rfl

theorem replay_succ (hist : List Nat) (n : Nat) (hn : n < hist.length) :
    replay hist (n + 1) = reapply_step (replay hist n) (rd hist n) := by
  unfold replay
  rw [List.take_succ, List.foldl_append]
  have : hist[n]? = some (rd hist n) := by
    unfold rd
    rw [List.getD_eq_getElem?_getD, List.getElem?_eq_getElem hn]
    rfl
  rw [this]
  rfl

theorem replay_congr (h1 h2 : List Nat) (n : Nat) (hn1 : n ≤ h1.length) (hn2 : n ≤ h2.length)
    (heq : ∀ k < n, rd h1 k = rd h2 k) : replay h1 n = replay h2 n := by
  induction n with
  | zero => rw [replay_zero, replay_zero]
  | succ n ih =>
    rw [replay_succ _ _ (by omega), replay_succ _ _ (by omega),
      ih (by omega) (by omega) (fun k hk => heq k (by omega)), heq n (by omega)]

theorem replay_BoardWF (hist : List Nat) (n : Nat) (hn : n ≤ hist.length)
    (hwf : WFHistory hist n) : BoardWF (replay hist n).2 := by
  induction n with
  | zero =>
    rw [replay_zero]
    exact BoardWF_empty
  | succ n ih =>
    have ih' := ih (by omega) (fun k hk => hwf k (by omega))
    rw [replay_succ _ _ (by omega)]
    by_cases hr : replayable (rd hist n)
    · have hw := hwf n (by omega)
      rw [reapply_step_board _ _ hr (by rw [ih'.len]; exact hw.1)]
      apply BoardWF_place _ _ _ ih' hw.1
      · rw [GET_DIGIT_record_word]
        have := hr.2
        omega
      · rw [GET_DIGIT_record_word]
        exact hw.2
    · rw [reapply_step_skip _ _ hr]
      exact ih'

theorem replay_ok_cases (hist : List Nat) (n : Nat) (hn : n ≤ hist.length) :
    (replay hist n).1 = 0 ∨ (replay hist n).1 = -1 := by
  induction n with
  | zero =>
    rw [replay_zero]
    exact Or.inl rfl
  | succ n ih =>
    rw [replay_succ _ _ (by omega)]
    by_cases hr : replayable (rd hist n)
    · rw [reapply_step_ok _ _ hr]
      split
      · exact Or.inr rfl
      · exact ih (by omega)
    · rw [reapply_step_skip _ _ hr]
      exact ih (by omega)

/-- The validity flag of `reapply`: it is `-1` exactly when some replayed record found its
cell filled or its digit masked out at the moment it was replayed. -/
theorem replay_invalid_iff (hist : List Nat) (n : Nat) (hn : n ≤ hist.length) :
    (replay hist n).1 = -1 ↔
      ∃ k < n, replayable (rd hist k) ∧
        (IS_EMPTY (replay hist k).2 (GET_INDEX (rd hist k)) = false ∨
          DISALLOWED (replay hist k).2 (GET_INDEX (rd hist k)) (GET_DIGIT (rd hist k)) ≠ 0) := by
  induction n with
  | zero =>
    rw [replay_zero]
    constructor
    · intro h
      exact absurd h (by decide)
    · rintro ⟨k, hk, _⟩
      omega
  | succ n ih =>
    rw [replay_succ _ _ (by omega)]
    have ih' := ih (by omega)
    by_cases hr : replayable (rd hist n)
    · rw [reapply_step_ok _ _ hr]
      by_cases hc : IS_EMPTY (replay hist n).2 (GET_INDEX (rd hist n)) = false ∨
          DISALLOWED (replay hist n).2 (GET_INDEX (rd hist n)) (GET_DIGIT (rd hist n)) ≠ 0
      · rw [if_pos hc]
        exact ⟨fun _ => ⟨n, by omega, hr, hc⟩, fun _ => rfl⟩
      · rw [if_neg hc, ih']
        constructor
        · rintro ⟨k, hk, h⟩
          exact ⟨k, by omega, h⟩
        · rintro ⟨k, hk, h1, h2⟩
          by_cases hkn : k = n
          · subst hkn
            exact absurd h2 hc
          · exact ⟨k, by omega, h1, h2⟩
    · rw [reapply_step_skip _ _ hr, ih']
      constructor
      · rintro ⟨k, hk, h⟩
        exact ⟨k, by omega, h⟩
      · rintro ⟨k, hk, h1, h2⟩
        by_cases hkn : k = n
        · subst hkn
          exact absurd h1 hr
        · exact ⟨k, by omega, h1, h2⟩

theorem replay_valid_prefix (hist : List Nat) (n m : Nat) (hn : n ≤ hist.length) (hm : m ≤ n)
    (h : (replay hist n).1 = 0) : (replay hist m).1 = 0 := by
  rcases replay_ok_cases hist m (by omega) with h0 | h1
  · exact h0
  · exfalso
    obtain ⟨k, hk, hk2⟩ := (replay_invalid_iff hist m (by omega)).1 h1
    have := (replay_invalid_iff hist n hn).2 ⟨k, by omega, hk2⟩
    rw [h] at this
    exact absurd this (by decide)

theorem replay_valid_step (hist : List Nat) (n : Nat) (hn : n < hist.length)
    (h : (replay hist (n + 1)).1 = 0) (hr : replayable (rd hist n)) :
    IS_EMPTY (replay hist n).2 (GET_INDEX (rd hist n)) = true ∧
      DISALLOWED (replay hist n).2 (GET_INDEX (rd hist n)) (GET_DIGIT (rd hist n)) = 0 := by
  have hnot : ¬ (replay hist (n + 1)).1 = -1 := by
    rw [h]
    decide
  rw [replay_invalid_iff hist (n + 1) (by omega)] at hnot
  constructor
  · by_contra hc
    exact hnot ⟨n, by omega, hr, Or.inl (by simpa using hc)⟩
  · by_contra hc
    exact hnot ⟨n, by omega, hr, Or.inr hc⟩

theorem replay_NoConflict (hist : List Nat) (n : Nat) (hn : n ≤ hist.length)
    (hwf : WFHistory hist n) (hok : (replay hist n).1 = 0) : NoConflict (replay hist n).2 := by
  induction n with
  | zero =>
    rw [replay_zero]
    exact NoConflict_empty
  | succ n ih =>
    have hwf' : WFHistory hist n := fun k hk => hwf k (by omega)
    have hok' := replay_valid_prefix hist (n + 1) n hn (by omega) hok
    have ih' := ih (by omega) hwf' hok'
    have hB := replay_BoardWF hist n (by omega) hwf'
    by_cases hr : replayable (rd hist n)
    · have hw := hwf n (by omega)
      have hv := replay_valid_step hist n (by omega) hok hr
      rw [replay_succ _ _ (by omega), reapply_step_board _ _ hr (by rw [hB.len]; exact hw.1)]
      apply NoConflict_place _ _ _ hB ih' hw.1
      · rw [GET_DIGIT_record_word]
        have := hr.2
        omega
      · rw [GET_DIGIT_record_word]
        exact hw.2
      · rw [GET_DIGIT_record_word]
        exact hv.2
    · rw [replay_succ _ _ (by omega), reapply_step_skip _ _ hr]
      exact ih'

/-- Replaying one more record that is replayable and well-formed. -/
theorem replay_succ_place (hist : List Nat) (n : Nat) (hn : n < hist.length)
    (hwf : WFHistory hist (n + 1)) (hr : replayable (rd hist n)) :
    (replay hist (n + 1)).2 =
      update (wr (replay hist n).2 (GET_INDEX (rd hist n)) (record_word (rd hist n)))
        (GET_INDEX (rd hist n)) := by
  have hB := replay_BoardWF hist n (by omega) (fun k hk => hwf k (by omega))
  rw [replay_succ _ _ hn, reapply_step_board _ _ hr (by rw [hB.len]; exact (hwf n (by omega)).1)]

/-- A cell filled at some point of the replay stays filled. -/
theorem replay_filled_mono (hist : List Nat) (n m c : Nat) (hn : n ≤ hist.length) (hm : m ≤ n)
    (hwf : WFHistory hist n) (hc : DIGIT (replay hist m).2 c ≠ 0) :
    DIGIT (replay hist n).2 c ≠ 0 := by
  induction n with
  | zero =>
    have : m = 0 := by omega
    subst this
    exact hc
  | succ n ih =>
    by_cases hmn : m = n + 1
    · subst hmn
      exact hc
    · have hwf' : WFHistory hist n := fun k hk => hwf k (by omega)
      have ih' := ih (by omega) (by omega) hwf'
      have hB := replay_BoardWF hist n (by omega) hwf'
      by_cases hr : replayable (rd hist n)
      · have hw := hwf n (by omega)
        rw [replay_succ_place hist n (by omega) hwf hr,
          place_DIGIT _ _ _ _ hB.len hw.1 (by rw [GET_DIGIT_record_word]; have := hr.2; omega)
            (by rw [GET_DIGIT_record_word]; exact hw.2)]
        split
        · rw [GET_DIGIT_record_word]
          exact hr.2
        · exact ih'
      · rw [replay_succ _ _ (by omega), reapply_step_skip _ _ hr]
        exact ih'

/-- The cell of a replayed record is filled afterwards. -/
theorem replay_record_filled (hist : List Nat) (n k : Nat) (hn : n ≤ hist.length) (hk : k < n)
    (hwf : WFHistory hist n) (hr : replayable (rd hist k)) :
    DIGIT (replay hist n).2 (GET_INDEX (rd hist k)) ≠ 0 := by
  apply replay_filled_mono hist n (k + 1) _ hn (by omega) hwf
  have hwf' : WFHistory hist (k + 1) := fun j hj => hwf j (by omega)
  have hB := replay_BoardWF hist k (by omega) (fun j hj => hwf j (by omega))
  have hw := hwf k hk
  rw [replay_succ_place hist k (by omega) hwf' hr,
    place_DIGIT _ _ _ _ hB.len hw.1 (by rw [GET_DIGIT_record_word]; have := hr.2; omega)
      (by rw [GET_DIGIT_record_word]; exact hw.2), if_pos rfl, GET_DIGIT_record_word]
  exact hr.2

end Sudoku

namespace Sudoku

/-! ## `fill` and `choose` from the state of `reset` -/

theorem add_move_fresh (s : State) (idx digit flags : Nat) (h0 : 0 ≤ s.idx_history)
    (hcap : s.idx_history < 242)
    (hfresh : ∀ k < s.idx_history.toNat, GET_INDEX (rd s.history k) ≠ idx) :
    add_move s idx digit flags =
      some (State.mk s.board
        (wr s.history s.idx_history.toNat (SET_INDEX idx ||| SET_DIGIT digit ||| flags))
        (s.idx_history + 1) s.pass) := by
  rw [add_move_below s idx digit flags h0 hcap, add_move_ignore_none]
  intro k hk
  rw [rd_wr_ne _ _ _ _ (by omega)]
  exact hfresh k hk

/-- What `choose` does: it fails and leaves the state alone when every digit from `digit`
up to 9 is masked out, else it places the first digit that is not. -/
theorem choose_loop_spec (s : State) (idx : Nat) (fuel digit : Nat) (hf : 10 ≤ fuel + digit) :
    (choose_loop s idx fuel digit = some (-1, s) ∧
      ∀ d, digit ≤ d → d ≤ 9 → DISALLOWED s.board idx d ≠ 0) ∨
    (∃ d, digit ≤ d ∧ d ≤ 9 ∧ DISALLOWED s.board idx d = 0 ∧
      (∀ d', digit ≤ d' → d' < d → DISALLOWED s.board idx d' ≠ 0) ∧
      choose_loop s idx fuel digit =
        (add_move (State.mk (update (wr s.board idx (SET_DIGIT d)) idx) s.history
          s.idx_history s.pass) idx d CHOICE).map (fun s1 => ((d : Int), s1))) := by
  induction fuel generalizing digit with
  | zero =>
    left
    refine ⟨rfl, ?_⟩
    intro d h1 h2
    omega
  | succ fuel ih =>
    unfold choose_loop
    by_cases h9 : digit ≤ 9
    · rw [if_pos h9]
      by_cases hd : DISALLOWED s.board idx digit = 0
      · rw [if_pos hd]
        right
        exact ⟨digit, le_refl _, h9, hd, fun d' h1 h2 => by omega, rfl⟩
      · rw [if_neg hd]
        rcases ih (digit + 1) (by omega) with ⟨h1, h2⟩ | ⟨d, h1, h2, h3, h4, h5⟩
        · left
          refine ⟨h1, ?_⟩
          intro d hd1 hd2
          by_cases hdd : d = digit
          · subst hdd
            exact hd
          · exact h2 d (by omega) hd2
        · right
          refine ⟨d, by omega, h2, h3, ?_, h5⟩
          intro d' hd1 hd2
          by_cases hdd : d' = digit
          · subst hdd
            exact hd
          · exact h4 d' (by omega) hd2
    · rw [if_neg h9]
      left
      refine ⟨rfl, ?_⟩
      intro d h1 h2
      omega

theorem choose_spec (s : State) (idx digit : Nat) :
    (choose s idx digit = some (-1, s) ∧
      ∀ d, digit ≤ d → d ≤ 9 → DISALLOWED s.board idx d ≠ 0) ∨
    (∃ d, digit ≤ d ∧ d ≤ 9 ∧ DISALLOWED s.board idx d = 0 ∧
      (∀ d', digit ≤ d' → d' < d → DISALLOWED s.board idx d' ≠ 0) ∧
      choose s idx digit =
        (add_move (State.mk (update (wr s.board idx (SET_DIGIT d)) idx) s.history
          s.idx_history s.pass) idx d CHOICE).map (fun s1 => ((d : Int), s1))) := by
  unfold choose
  exact choose_loop_spec s idx (10 - digit) digit (by omega)

theorem filled_card_le (b : List Nat) : (filled b).card ≤ 81 := by
  unfold filled
  calc ((Finset.range 81).filter (fun i => DIGIT b i ≠ 0)).card
      ≤ (Finset.range 81).card := Finset.card_filter_le _ _
    _ = 81 := Finset.card_range 81

theorem filled_place (b : List Nat) (idx w : Nat) (hb : b.length = 81) (hidx : idx < 81)
    (hd1 : 1 ≤ GET_DIGIT w) (hd9 : GET_DIGIT w ≤ 9) (hempty : DIGIT b idx = 0) :
    (filled (update (wr b idx w) idx)).card = (filled b).card + 1 := by
  have h1 : filled (update (wr b idx w) idx) = insert idx (filled b) := by
    ext i
    unfold filled
    simp only [Finset.mem_filter, Finset.mem_range, Finset.mem_insert]
    rw [place_DIGIT b idx w i hb hidx hd1 hd9]
    by_cases hi : i = idx
    · subst hi
      simp only [if_true, true_or, iff_true]
      exact ⟨hidx, by omega⟩
    · simp only [hi, if_false, false_or]
  have h2 : idx ∉ filled b := by
    unfold filled
    simp only [Finset.mem_filter, Finset.mem_range, not_and, not_not]
    exact fun _ => hempty
  rw [h1, Finset.card_insert_of_not_mem h2]

theorem word_replayable (idx digit flags : Nat) (hidx : idx < 81) (hd1 : 1 ≤ digit)
    (hd9 : digit ≤ 9) (hf : flags = 0 ∨ flags = CHOICE) :
    replayable (SET_INDEX idx ||| SET_DIGIT digit ||| flags) ∧
      WFRec (SET_INDEX idx ||| SET_DIGIT digit ||| flags) ∧
      GET_INDEX (SET_INDEX idx ||| SET_DIGIT digit ||| flags) = idx ∧
      GET_DIGIT (SET_INDEX idx ||| SET_DIGIT digit ||| flags) = digit ∧
      record_word (SET_INDEX idx ||| SET_DIGIT digit ||| flags) = SET_DIGIT digit := by
  have hi : GET_INDEX (SET_INDEX idx ||| SET_DIGIT digit ||| flags) = idx := by
    apply record_index _ _ _ (by omega)
    rcases hf with rfl | rfl <;> decide
  have hd : GET_DIGIT (SET_INDEX idx ||| SET_DIGIT digit ||| flags) = digit := by
    apply record_digit _ _ _ (by omega) (by omega)
    rcases hf with rfl | rfl <;> decide
  have hign : (SET_INDEX idx ||| SET_DIGIT digit ||| flags) &&& IGNORED = 0 := by
    rw [and_eq_zero_iff_testBit]
    intro i
    have h1 := (and_eq_zero_iff_testBit _ _).1
      (record_flag idx digit IGNORED 22 IGNORED_eq (by omega) (by omega) (by omega)) i
    rw [Nat.testBit_or, Bool.and_or_distrib_right, h1, Bool.false_or, testBit_IGNORED]
    rcases hf with rfl | rfl
    · simp
    · rw [testBit_CHOICE]
      by_cases h : 22 = i
      · subst h
        simp
      · simp [h]
  have hfix : (SET_INDEX idx ||| SET_DIGIT digit ||| flags) &&& FIXED = 0 := by
    rw [and_eq_zero_iff_testBit]
    intro i
    have h1 := (and_eq_zero_iff_testBit _ _).1
      (record_flag idx digit FIXED 20 FIXED_eq (by omega) (by omega) (by omega)) i
    rw [Nat.testBit_or, Bool.and_or_distrib_right, h1, Bool.false_or, testBit_FIXED]
    rcases hf with rfl | rfl
    · simp
    · rw [testBit_CHOICE]
      by_cases h : 20 = i
      · subst h
        simp
      · simp [h]
  refine ⟨⟨hign, by rw [hd]; omega⟩, ⟨by rw [hi]; exact hidx, by rw [hd]; exact hd9⟩, hi, hd, ?_⟩
  unfold record_word
  rw [if_neg (by rw [hfix]; simp), hd]

theorem FreshInv_reset : FreshInv reset where
  hlen := by decide!
  nonneg := by decide
  card := by
    show (0 : Int).toNat = (filled (List.replicate 81 0)).card
    have : filled (List.replicate 81 0) = ∅ := by
      unfold filled
      apply Finset.filter_false_of_mem
      intro i _
      rw [DIGIT_replicate]
      simp
    rw [this]
    rfl
  wf := by
    intro k hk
    have : reset.idx_history.toNat = 0 := rfl
    omega
  rep := by
    show replay _ 0 = _
    rw [replay_zero]
    rfl
  cells := by
    intro k hk
    have : reset.idx_history.toNat = 0 := rfl
    omega

theorem FreshInv.fresh_board_wf {s : State} (h : FreshInv s) : BoardWF s.board := by
  have := replay_BoardWF s.history s.idx_history.toNat
    (by rw [h.hlen, h.card]; exact le_trans (filled_card_le _) (by omega)) h.wf
  rw [h.rep] at this
  exact this

theorem FreshInv.fresh_no_conflict {s : State} (h : FreshInv s) : NoConflict s.board := by
  have := replay_NoConflict s.history s.idx_history.toNat
    (by rw [h.hlen, h.card]; exact le_trans (filled_card_le _) (by omega)) h.wf
    (by rw [h.rep])
  rw [h.rep] at this
  exact this

/-- A valid placement with `add_move` from a state of the invariant. -/
theorem FreshInv_place (s : State) (idx digit flags : Nat) (h : FreshInv s) (hidx : idx < 81)
    (hd1 : 1 ≤ digit) (hd9 : digit ≤ 9) (hf : flags = 0 ∨ flags = CHOICE)
    (hempty : DIGIT s.board idx = 0) (hallowed : DISALLOWED s.board idx digit = 0) :
    ∃ s', add_move (State.mk (update (wr s.board idx (SET_DIGIT digit)) idx) s.history
        s.idx_history s.pass) idx digit flags = some s' ∧ FreshInv s' := by
  have hB := h.fresh_board_wf
  have hcard := filled_card_le s.board
  have hfill := filled_place s.board idx (SET_DIGIT digit) hB.len hidx
    (by rw [GET_DIGIT_SET_DIGIT _ (by omega)]; exact hd1)
    (by rw [GET_DIGIT_SET_DIGIT _ (by omega)]; exact hd9) hempty
  have hcard' := filled_card_le (update (wr s.board idx (SET_DIGIT digit)) idx)
  have hn := h.card
  have h0 := h.nonneg
  have hfresh : ∀ k < s.idx_history.toNat, GET_INDEX (rd s.history k) ≠ idx := by
    intro k hk hc
    have := h.cells k hk
    rw [hc] at this
    exact this hempty
  obtain ⟨hw1, hw2, hw3, hw4, hw5⟩ := word_replayable idx digit flags hidx hd1 hd9 hf
  refine ⟨_, add_move_fresh _ idx digit flags h0 (by dsimp only; omega) hfresh, ?_⟩
  have hn1 : (s.idx_history + 1).toNat = s.idx_history.toNat + 1 := by omega
  have hrn : rd (wr s.history s.idx_history.toNat (SET_INDEX idx ||| SET_DIGIT digit ||| flags))
      s.idx_history.toNat = SET_INDEX idx ||| SET_DIGIT digit ||| flags :=
    rd_wr_self _ _ _ (by rw [h.hlen]; omega)
  have hrep : replay (wr s.history s.idx_history.toNat
      (SET_INDEX idx ||| SET_DIGIT digit ||| flags)) s.idx_history.toNat = (0, s.board) := by
    rw [← h.rep]
    apply replay_congr
    · rw [length_wr, h.hlen]; omega
    · rw [h.hlen]; omega
    · intro k hk
      exact rd_wr_ne _ _ _ _ (by omega)
  constructor
  · show (wr _ _ _).length = 243
    rw [length_wr, h.hlen]
  · show 0 ≤ s.idx_history + 1
    omega
  · show (s.idx_history + 1).toNat = _
    rw [hn1, hfill, hn]
  · show WFHistory _ (s.idx_history + 1).toNat
    rw [hn1]
    intro k hk
    by_cases hkn : k = s.idx_history.toNat
    · subst hkn
      rw [hrn]
      exact hw2
    · rw [rd_wr_ne _ _ _ _ (fun h => hkn h.symm)]
      exact h.wf k (by omega)
  · show replay _ (s.idx_history + 1).toNat = _
    rw [hn1, replay_succ _ _ (by rw [length_wr, h.hlen]; omega), hrep, hrn]
    apply Prod.ext
    · rw [reapply_step_ok _ _ hw1, hw3, hw4]
      dsimp only
      rw [if_neg]
      rintro (hc | hc)
      · unfold IS_EMPTY at hc
        rw [hempty] at hc
        exact absurd hc (by decide)
      · exact hc hallowed
    · rw [reapply_step_board _ _ hw1 (by rw [hw3]; dsimp only; rw [hB.len]; exact hidx), hw3,
        hw5]
  · show ∀ k < (s.idx_history + 1).toNat, _
    rw [hn1]
    intro k hk
    dsimp only
    rw [place_DIGIT _ _ _ _ hB.len hidx
      (by rw [GET_DIGIT_SET_DIGIT _ (by omega)]; exact hd1)
      (by rw [GET_DIGIT_SET_DIGIT _ (by omega)]; exact hd9)]
    split
    · rw [GET_DIGIT_SET_DIGIT _ (by omega)]
      omega
    · by_cases hkn : k = s.idx_history.toNat
      · subst hkn
        rename_i hne
        rw [hrn, hw3] at hne
        exact absurd rfl hne
      · rw [rd_wr_ne _ _ _ _ (fun h => hkn h.symm)]
        exact h.cells k (by omega)

theorem FreshInv_fill (s : State) (idx digit : Nat) (h : FreshInv s) (hidx : idx < 81)
    (hd1 : 1 ≤ digit) (hd9 : digit ≤ 9) :
    ∃ r, fill s idx digit = some r ∧ FreshInv r.2 := by
  unfold fill
  by_cases he : IS_EMPTY s.board idx = true
  · by_cases hd : DISALLOWED s.board idx digit = 0
    · have hempty : DIGIT s.board idx = 0 := by
        unfold IS_EMPTY at he
        simpa using he
      obtain ⟨s', h1, h2⟩ := FreshInv_place s idx digit 0 h hidx hd1 hd9 (Or.inl rfl) hempty hd
      refine ⟨(0, s'), ?_, h2⟩
      simp only [he, not_true_eq_false, if_false, hd, ne_eq]
      rw [h1]
      rfl
    · exact ⟨(-1, s), by simp [he, hd], h⟩
  · exact ⟨(if DIGIT s.board idx = digit then 0 else -1, s), by simp [he], h⟩

theorem FreshInv_choose (s : State) (idx digit : Nat) (h : FreshInv s) (hidx : idx < 81)
    (hd1 : 1 ≤ digit) :
    ∃ r, choose s idx digit = some r ∧ FreshInv r.2 := by
  rcases choose_spec s idx digit with ⟨h1, _⟩ | ⟨d, h1, h2, h3, _, h5⟩
  · exact ⟨_, h1, h⟩
  · have hempty : DIGIT s.board idx = 0 := by
      by_contra hne
      exact h.fresh_board_wf.full idx hidx hne d (by omega) h2 h3
    obtain ⟨s', h6, h7⟩ := FreshInv_place s idx d CHOICE h hidx (by omega) h2 (Or.inr rfl)
      hempty h3
    refine ⟨((d : Int), s'), ?_, h7⟩
    rw [h5, h6]
    rfl

theorem FreshInv_run_calls (cs : List Call) (s : State) (h : FreshInv s)
    (hcs : ∀ c ∈ cs, c.ok) : ∃ s', run_calls s cs = some s' ∧ FreshInv s' := by
  induction cs generalizing s with
  | nil => exact ⟨s, rfl, h⟩
  | cons c cs ih =>
    have hc := hcs c (List.mem_cons_self _ _)
    have hrest : ∀ c' ∈ cs, c'.ok := fun c' hc' => hcs c' (List.mem_cons_of_mem _ hc')
    cases c with
    | fill idx digit =>
      obtain ⟨r, h1, h2⟩ := FreshInv_fill s idx digit h hc.1 hc.2.1 hc.2.2
      obtain ⟨s', h3, h4⟩ := ih r.2 h2 hrest
      refine ⟨s', ?_, h4⟩
      unfold run_calls run_call
      simp only [h1, Option.map_some']
      exact h3
    | choose idx digit =>
      obtain ⟨r, h1, h2⟩ := FreshInv_choose s idx digit h hc.1 hc.2
      obtain ⟨s', h3, h4⟩ := ih r.2 h2 hrest
      refine ⟨s', ?_, h4⟩
      unfold run_calls run_call
      simp only [h1, Option.map_some']
      exact h3

theorem FreshInv_run_fills (cs : List (Nat × Nat)) (s : State) (h : FreshInv s)
    (hcs : ∀ c ∈ cs, c.1 < 81 ∧ 1 ≤ c.2 ∧ c.2 ≤ 9) :
    ∃ s', run_fills s cs = some s' ∧ FreshInv s' := by
  induction cs generalizing s with
  | nil => exact ⟨s, rfl, h⟩
  | cons c cs ih =>
    have hc := hcs c (List.mem_cons_self _ _)
    have hrest : ∀ c' ∈ cs, c'.1 < 81 ∧ 1 ≤ c'.2 ∧ c'.2 ≤ 9 :=
      fun c' hc' => hcs c' (List.mem_cons_of_mem _ hc')
    obtain ⟨r, h1, h2⟩ := FreshInv_fill s c.1 c.2 h hc.1 hc.2.1 hc.2.2
    obtain ⟨s', h3, h4⟩ := ih r.2 h2 hrest
    refine ⟨s', ?_, h4⟩
    unfold run_fills
    rw [h1]
    exact h3

end Sudoku

namespace Sudoku

/-! ## Claims about sequences of calls and about `reapply` -/

/-- C8: starting from the empty board of `reset`, after any sequence of calls of `fill`
and `choose` (cell index 0..80, digit 1..9, any start digit from 1 on), whether they succeed or fail, the run is
defined and no two distinct cells of a row, column or block hold the same non-zero
digit. -/
theorem no_conflict_after_calls (cs : List Call) (hcs : ∀ c ∈ cs, c.ok) :
    ∃ s, run_calls reset cs = some s ∧ NoConflict s.board := by
  obtain ⟨s, h1, h2⟩ := FreshInv_run_calls cs reset FreshInv_reset hcs
  exact ⟨s, h1, h2.fresh_no_conflict⟩

theorem no_conflict_after_calls_witness :
    ∃ s, run_calls reset [Call.fill 0 5, Call.fill 1 5, Call.choose 1 1, Call.choose 9 10] =
        some s ∧ NoConflict s.board :=
  no_conflict_after_calls [Call.fill 0 5, Call.fill 1 5, Call.choose 1 1, Call.choose 9 10]
    (by decide)

/-- C9: after any sequence of calls of `fill` (cell index 0..80, digit 1..9) on the state
of `reset`, `reapply` returns 0 and rebuilds exactly the board that `fill` and `update`
built incrementally. -/
theorem reapply_after_fills (cs : List (Nat × Nat))
    (hcs : ∀ c ∈ cs, c.1 < 81 ∧ 1 ≤ c.2 ∧ c.2 ≤ 9) :
    ∃ s, run_fills reset cs = some s ∧ (reapply s).1 = 0 ∧ (reapply s).2.board = s.board := by
  obtain ⟨s, h1, h2⟩ := FreshInv_run_fills cs reset FreshInv_reset hcs
  refine ⟨s, h1, ?_, ?_⟩
  · unfold reapply
    dsimp only
    rw [h2.rep]
  · unfold reapply
    dsimp only
    rw [h2.rep]

theorem reapply_after_fills_witness :
    ∃ s, run_fills reset [(0, 5), (1, 5), (1, 6), (80, 5)] = some s ∧
      (reapply s).1 = 0 ∧ (reapply s).2.board = s.board :=
  reapply_after_fills [(0, 5), (1, 5), (1, 6), (80, 5)] (by decide)

theorem replay_last_wins (hist : List Nat) (n k : Nat) (hn : n ≤ hist.length) (hk : k < n)
    (hwf : WFHistory hist n) (hr : replayable (rd hist k))
    (hlast : ∀ j, k < j → j < n → replayable (rd hist j) →
      GET_INDEX (rd hist j) ≠ GET_INDEX (rd hist k)) :
    DIGIT (replay hist n).2 (GET_INDEX (rd hist k)) = GET_DIGIT (rd hist k) := by
  induction n with
  | zero => omega
  | succ n ih =>
    have hwf' : WFHistory hist n := fun j hj => hwf j (by omega)
    have hB := replay_BoardWF hist n (by omega) hwf'
    by_cases hr' : replayable (rd hist n)
    · have hw := hwf n (by omega)
      rw [replay_succ_place hist n (by omega) hwf hr',
        place_DIGIT _ _ _ _ hB.len hw.1 (by rw [GET_DIGIT_record_word]; have := hr'.2; omega)
          (by rw [GET_DIGIT_record_word]; exact hw.2)]
      by_cases hkn : k = n
      · subst hkn
        rw [if_pos rfl, GET_DIGIT_record_word]
      · rw [if_neg (fun h => hlast n (by omega) (by omega) hr' h.symm)]
        exact ih (by omega) (by omega) hwf' (fun j h1 h2 => hlast j h1 (by omega))
    · have hkn : k ≠ n := by
        rintro rfl
        exact hr' hr
      rw [replay_succ _ _ (by omega), reapply_step_skip _ _ hr']
      exact ih (by omega) (by omega) hwf' (fun j h1 h2 => hlast j h1 (by omega))

/-- C10: for a history of well-formed records, `reapply` returns `-1` exactly when some
replayed record (not ignored, non-zero digit) finds its cell filled or its digit masked
out on the board built from the records before it, else it returns 0; it never stops
early: every cell referenced by a replayed record ends up holding the digit of the last
replayed record for it. -/
theorem reapply_flag (s : State) (hn : s.idx_history.toNat ≤ s.history.length)
    (hwf : WFHistory s.history s.idx_history.toNat) :
    ((reapply s).1 = -1 ↔
      ∃ k < s.idx_history.toNat, replayable (rd s.history k) ∧
        (IS_EMPTY (replay s.history k).2 (GET_INDEX (rd s.history k)) = false ∨
          DISALLOWED (replay s.history k).2 (GET_INDEX (rd s.history k))
            (GET_DIGIT (rd s.history k)) ≠ 0)) ∧
    ((reapply s).1 = 0 ∨ (reapply s).1 = -1) ∧
    (∀ k < s.idx_history.toNat, replayable (rd s.history k) →
      (∀ j, k < j → j < s.idx_history.toNat → replayable (rd s.history j) →
        GET_INDEX (rd s.history j) ≠ GET_INDEX (rd s.history k)) →
      DIGIT (reapply s).2.board (GET_INDEX (rd s.history k)) = GET_DIGIT (rd s.history k)) := by
  refine ⟨?_, ?_, ?_⟩
  · exact replay_invalid_iff s.history _ hn
  · exact replay_ok_cases s.history _ hn
  · intro k hk hr hlast
    exact replay_last_wins s.history _ k hn hk hwf hr hlast

theorem reapply_flag_witness :
    ((reapply state_double_fill).1 = -1 ↔
      ∃ k < state_double_fill.idx_history.toNat, replayable (rd state_double_fill.history k) ∧
        (IS_EMPTY (replay state_double_fill.history k).2
            (GET_INDEX (rd state_double_fill.history k)) = false ∨
          DISALLOWED (replay state_double_fill.history k).2
            (GET_INDEX (rd state_double_fill.history k))
            (GET_DIGIT (rd state_double_fill.history k)) ≠ 0)) ∧
    ((reapply state_double_fill).1 = 0 ∨ (reapply state_double_fill).1 = -1) ∧
    (∀ k < state_double_fill.idx_history.toNat, replayable (rd state_double_fill.history k) →
      (∀ j, k < j → j < state_double_fill.idx_history.toNat →
        replayable (rd state_double_fill.history j) →
        GET_INDEX (rd state_double_fill.history j) ≠
          GET_INDEX (rd state_double_fill.history k)) →
      DIGIT (reapply state_double_fill).2.board (GET_INDEX (rd state_double_fill.history k)) =
        GET_DIGIT (rd state_double_fill.history k)) :=
  reapply_flag state_double_fill (by decide!) (by decide!)

end Sudoku

namespace Sudoku

/-! ## The effect of `compress` on the live records -/

theorem take_wr_succ (H : List Nat) (j v : Nat) (hj : j < H.length) :
    (wr H j v).take (j + 1) = H.take j ++ [v] := by
  unfold wr
  rw [List.set_eq_take_append_cons_drop, if_pos hj]
  have hl : (List.take j H).length = j := by
    rw [List.length_take]
    omega
  rw [List.take_append_eq_append_take, hl, List.take_of_length_le (by omega)]
  simp

theorem drop_wr_of_lt (H : List Nat) (j i v : Nat) (hji : j < i) :
    (wr H j v).drop i = H.drop i := by
  unfold wr
  exact List.drop_set_of_lt _ _ hji

theorem drop_take_cons (H : List Nat) (i m : Nat) (hi : i < H.length) :
    (H.drop i).take (m + 1) = rd H i :: (H.drop (i + 1)).take m := by
  rw [List.drop_eq_getElem_cons hi, List.take_succ_cons]
  congr 1
  unfold rd
  rw [List.getD_eq_getElem?_getD, List.getElem?_eq_getElem hi]
  rfl

theorem compress_move_spec (n : Nat) (limit : Int) (fuel : Nat) (H : List Nat) (i j : Nat)
    (H' : List Nat) (i' j' : Nat)
    (hji : j ≤ i) (hin : i ≤ n) (hn : n ≤ H.length)
    (hr : compress_move (n : Int) limit fuel H i j = (H', i', j')) :
    H'.length = H.length ∧ i ≤ i' ∧ i' ≤ n ∧ j' ≤ i' ∧
    H'.take j' = H.take j ++ ((H.drop i).take (i' - i)).filter
        (fun x => decide (x &&& IGNORED = 0)) ∧
    H'.drop i' = H.drop i' := by
  induction fuel generalizing H i j with
  | zero =>
    unfold compress_move at hr
    simp only [Prod.mk.injEq] at hr
    obtain ⟨rfl, rfl, rfl⟩ := hr
    simp [hji, hin]
  | succ fuel ih =>
    unfold compress_move at hr
    by_cases hc : (i : Int) < (n : Int) ∧ (j : Int) < limit
    · rw [if_pos hc] at hr
      have hi : i < n := by omega
      by_cases hig : rd H i &&& IGNORED = 0
      · rw [if_pos hig] at hr
        obtain ⟨h1, h2, h3, h4, h5, h6⟩ := ih (wr H j (rd H i)) (i + 1) (j + 1) (by omega)
          (by omega) (by rw [length_wr]; exact hn) hr
        refine ⟨by rw [h1, length_wr], by omega, h3, h4, ?_, ?_⟩
        · rw [h5, take_wr_succ _ _ _ (by omega), drop_wr_of_lt _ _ _ _ (by omega)]
          have hsub : i' - i = (i' - (i + 1)) + 1 := by omega
          rw [hsub, drop_take_cons _ _ _ (by omega), List.filter_cons_of_pos (by simpa using hig)]
          simp
        · rw [h6, drop_wr_of_lt _ _ _ _ (by omega)]
      · rw [if_neg hig] at hr
        obtain ⟨h1, h2, h3, h4, h5, h6⟩ := ih H (i + 1) j (by omega) (by omega) hn hr
        refine ⟨h1, by omega, h3, h4, ?_, h6⟩
        rw [h5]
        have hsub : i' - i = (i' - (i + 1)) + 1 := by omega
        rw [hsub, drop_take_cons _ _ _ (by omega), List.filter_cons_of_neg (by simpa using hig)]
    · rw [if_neg hc] at hr
      simp only [Prod.mk.injEq] at hr
      obtain ⟨rfl, rfl, rfl⟩ := hr
      simp [hji, hin]

theorem compress_rest_spec (n : Nat) (fuel : Nat) (H : List Nat) (i j : Nat)
    (H' : List Nat) (j' : Nat)
    (hji : j ≤ i) (hin : i ≤ n) (hn : n ≤ H.length) (hf : n - i ≤ fuel)
    (hr : compress_rest (n : Int) fuel H i j = (H', j')) :
    H'.length = H.length ∧ j' = j + (n - i) ∧
    H'.take j' = H.take j ++ (H.drop i).take (n - i) := by
  induction fuel generalizing H i j with
  | zero =>
    unfold compress_rest at hr
    simp only [Prod.mk.injEq] at hr
    obtain ⟨rfl, rfl⟩ := hr
    have : n - i = 0 := by omega
    simp [this]
  | succ fuel ih =>
    unfold compress_rest at hr
    by_cases hc : (i : Int) < (n : Int)
    · rw [if_pos hc] at hr
      have hi : i < n := by omega
      obtain ⟨h1, h2, h3⟩ := ih (wr H j (rd H i)) (i + 1) (j + 1) (by omega) (by omega)
        (by rw [length_wr]; exact hn) (by omega) hr
      refine ⟨by rw [h1, length_wr], by omega, ?_⟩
      rw [h3, take_wr_succ _ _ _ (by omega), drop_wr_of_lt _ _ _ _ (by omega)]
      have hsub : n - i = (n - (i + 1)) + 1 := by omega
      rw [hsub, drop_take_cons _ _ _ (by omega)]
      simp
    · rw [if_neg hc] at hr
      simp only [Prod.mk.injEq] at hr
      obtain ⟨rfl, rfl⟩ := hr
      have : n - i = 0 := by omega
      simp [this]

theorem compress_first_le (H : List Nat) (n : Nat) (fuel k : Nat) (hk : k ≤ n) :
    k ≤ compress_first H (n : Int) fuel k ∧ compress_first H (n : Int) fuel k ≤ n := by
  induction fuel generalizing k with
  | zero =>
    unfold compress_first
    exact ⟨le_refl _, hk⟩
  | succ fuel ih =>
    unfold compress_first
    by_cases hc : (k : Int) < (n : Int)
    · rw [if_pos hc]
      by_cases hig : rd H k &&& IGNORED ≠ 0
      · rw [if_pos hig]
        exact ⟨le_refl _, hk⟩
      · rw [if_neg hig]
        have := ih (k + 1) (by omega)
        exact ⟨by omega, this.2⟩
    · rw [if_neg hc]
      exact ⟨le_refl _, hk⟩

/-- The live records after `compress` are those before it with some ignored records
removed, in the same order. -/
theorem compress_live (s : State) (limit : Int) (n : Nat) (hs : s.idx_history = (n : Int))
    (hn : n ≤ s.history.length) :
    ∃ k i m : Nat, k ≤ i ∧ i ≤ n ∧ m ≤ n ∧
      (compress s limit).idx_history = (m : Int) ∧
      (compress s limit).history.length = s.history.length ∧
      (compress s limit).board = s.board ∧
      (compress s limit).pass = s.pass ∧
      (compress s limit).history.take m =
        s.history.take k ++
          ((s.history.drop k).take (i - k)).filter (fun x => decide (x &&& IGNORED = 0)) ++
          (s.history.drop i).take (n - i) := by
  have htn : s.idx_history.toNat = n := by omega
  have hk := compress_first_le s.history n n 0 (by omega)
  rcases hm : compress_move (n : Int) limit n s.history
    (compress_first s.history (n : Int) n 0) (compress_first s.history (n : Int) n 0)
    with ⟨H1, i1, j1⟩
  obtain ⟨h1, h2, h3, h4, h5, h6⟩ := compress_move_spec n limit n s.history _ _ H1 i1 j1
    (le_refl _) hk.2 hn hm
  rcases hr : compress_rest (n : Int) n H1 i1 j1 with ⟨H2, j2⟩
  obtain ⟨g1, g2, g3⟩ := compress_rest_spec n n H1 i1 j1 H2 j2 h4 h3 (by rw [h1]; exact hn)
    (by omega) hr
  have hcomp : compress s limit = State.mk s.board H2 (j2 : Int) s.pass := by
    unfold compress
    simp only [hs, htn, hm, hr, Int.toNat_ofNat]
  refine ⟨compress_first s.history (n : Int) n 0, i1, j2, h2, h3, by omega, ?_, ?_, ?_, ?_, ?_⟩
  · rw [hcomp]
  · rw [hcomp]
    show H2.length = _
    rw [g1, h1]
  · rw [hcomp]
  · rw [hcomp]
  · rw [hcomp]
    show H2.take j2 = _
    rw [g3, h5, h6]

end Sudoku

namespace Sudoku

/-! ## `add_move` in general: the replay of the new history -/

theorem foldl_reapply_step_filter (L : List Nat) (acc : Int × List Nat) :
    (L.filter (fun x => decide (x &&& IGNORED = 0))).foldl reapply_step acc =
      L.foldl reapply_step acc := by
  induction L generalizing acc with
  | nil => rfl
  | cons x L ih =>
    by_cases hx : x &&& IGNORED = 0
    · rw [List.filter_cons_of_pos (by simpa using hx), List.foldl_cons, List.foldl_cons, ih]
    · rw [List.filter_cons_of_neg (by simpa using hx), List.foldl_cons, ih,
        reapply_step_skip _ _ (fun h => hx h.1)]

theorem take_split3 (H : List Nat) (k i n : Nat) (hki : k ≤ i) (hin : i ≤ n) :
    H.take k ++ (H.drop k).take (i - k) ++ (H.drop i).take (n - i) = H.take n := by
  have h1 : H.take k ++ (H.drop k).take (i - k) = H.take i := by
    have := List.take_add H k (i - k)
    rw [show k + (i - k) = i by omega] at this
    exact this.symm
  rw [h1]
  have := List.take_add H i (n - i)
  rw [show i + (n - i) = n by omega] at this
  exact this.symm

theorem WFHistory_iff_mem (hist : List Nat) (n : Nat) (hn : n ≤ hist.length) :
    WFHistory hist n ↔ ∀ x ∈ hist.take n, WFRec x := by
  unfold WFHistory
  constructor
  · intro h x hx
    obtain ⟨k, hk, rfl⟩ := List.mem_iff_getElem.1 hx
    rw [List.length_take] at hk
    have hkn : k < n := by omega
    have := h k hkn
    rw [← rd_take hist n k hkn] at this
    unfold rd at this
    rw [List.getD_eq_getElem?_getD, List.getElem?_eq_getElem (by rw [List.length_take]; omega)]
      at this
    exact this
  · intro h k hk
    apply h
    rw [← rd_take hist n k hk]
    unfold rd
    rw [List.getD_eq_getElem?_getD,
      List.getElem?_eq_getElem (by rw [List.length_take]; omega : k < (hist.take n).length)]
    exact List.getElem_mem _

theorem compress_replay (s : State) (limit : Int) (hlen : s.history.length = 243)
    (h0 : 0 ≤ s.idx_history) (hle : s.idx_history ≤ 243)
    (hwf : WFHistory s.history s.idx_history.toNat) :
    (compress s limit).board = s.board ∧ (compress s limit).pass = s.pass ∧
    (compress s limit).history.length = 243 ∧
    0 ≤ (compress s limit).idx_history ∧
    (compress s limit).idx_history ≤ s.idx_history ∧
    WFHistory (compress s limit).history (compress s limit).idx_history.toNat ∧
    replay (compress s limit).history (compress s limit).idx_history.toNat =
      replay s.history s.idx_history.toNat := by
  have hs : s.idx_history = (s.idx_history.toNat : Int) := by omega
  have hn : s.idx_history.toNat ≤ s.history.length := by omega
  obtain ⟨k, i, m, h1, h2, h3, h4, h5, h6, h7, h8⟩ :=
    compress_live s limit s.idx_history.toNat hs hn
  have hm : (compress s limit).idx_history.toNat = m := by omega
  refine ⟨h6, h7, by rw [h5, hlen], by omega, by omega, ?_, ?_⟩
  · rw [hm, WFHistory_iff_mem _ _ (by rw [h5]; omega), h8]
    rw [WFHistory_iff_mem _ _ hn, ← take_split3 s.history k i _ h1 h2] at hwf
    intro x hx
    apply hwf
    simp only [List.mem_append, List.mem_filter] at hx ⊢
    rcases hx with (hx | hx) | hx
    · exact Or.inl (Or.inl hx)
    · exact Or.inl (Or.inr hx.1)
    · exact Or.inr hx
  · unfold replay
    rw [hm, h8, List.foldl_append, List.foldl_append, foldl_reapply_step_filter,
      ← List.foldl_append, ← List.foldl_append, ← List.append_assoc,
      take_split3 s.history k i _ h1 h2]

theorem replay_congr_skip (h1 h2 : List Nat) (n : Nat) (hn1 : n ≤ h1.length)
    (hn2 : n ≤ h2.length)
    (heq : ∀ k < n, rd h1 k = rd h2 k ∨ (¬ replayable (rd h1 k) ∧ ¬ replayable (rd h2 k))) :
    replay h1 n = replay h2 n := by
  induction n with
  | zero => rw [replay_zero, replay_zero]
  | succ n ih =>
    rw [replay_succ _ _ (by omega), replay_succ _ _ (by omega),
      ih (by omega) (by omega) (fun k hk => heq k (by omega))]
    rcases heq n (by omega) with h | ⟨ha, hb⟩
    · rw [h]
    · rw [reapply_step_skip _ _ ha, reapply_step_skip _ _ hb]

theorem not_replayable_or_IGNORED (x : Nat) : ¬ replayable (x ||| IGNORED) := by
  intro h
  have := h.1
  rw [IGNORED_eq, and_two_pow_eq_zero, Nat.testBit_or, Nat.testBit_two_pow_self] at this
  simp at this

theorem WFRec_or_IGNORED (x : Nat) (h : WFRec x) : WFRec (x ||| IGNORED) := by
  unfold WFRec at *
  have h1 : GET_INDEX (x ||| IGNORED) = GET_INDEX x := by
    unfold GET_INDEX
    apply Nat.eq_of_testBit_eq
    intro i
    rw [Nat.testBit_and, Nat.testBit_and, Nat.testBit_or, testBit_INDEX_MASK, testBit_IGNORED]
    by_cases hi : i < 7
    · have : ¬ 22 = i := by omega
      simp [hi, this]
    · simp [hi]
  have h2 : GET_DIGIT (x ||| IGNORED) = GET_DIGIT x := GET_DIGIT_or _ _ (by decide)
  rw [h1, h2]
  exact h

/-- The history after `add_move` for a valid placement at an empty cell: the replay of
the new history is the replay of the old one followed by the new record. -/
theorem add_move_replay (s s' : State) (idx digit flags : Nat)
    (hlen : s.history.length = 243) (h0 : 0 ≤ s.idx_history) (hle : s.idx_history ≤ 243)
    (hwf : WFHistory s.history s.idx_history.toNat)
    (hidx : idx < 81) (hd1 : 1 ≤ digit) (hd9 : digit ≤ 9) (hf : flags = 0 ∨ flags = CHOICE)
    (hcell : DIGIT (replay s.history s.idx_history.toNat).2 idx = 0)
    (h : add_move s idx digit flags = some s') :
    s'.board = s.board ∧ s'.pass = s.pass ∧ s'.history.length = 243 ∧
    0 ≤ s'.idx_history ∧ s'.idx_history ≤ 243 ∧
    WFHistory s'.history s'.idx_history.toNat ∧
    replay s'.history s'.idx_history.toNat =
      reapply_step (replay s.history s.idx_history.toNat)
        (SET_INDEX idx ||| SET_DIGIT digit ||| flags) := by
  unfold add_move at h
  -- the state after the optional compression
  obtain ⟨s1, hs1, g1, g2, g3, g4, g5, g6, g7⟩ : ∃ s1 : State,
      s1 = (if 243 - 1 ≤ s.idx_history ∨ s.idx_history < 0 then compress s 81 else s) ∧
      s1.board = s.board ∧ s1.pass = s.pass ∧ s1.history.length = 243 ∧
      0 ≤ s1.idx_history ∧ s1.idx_history ≤ s.idx_history ∧
      WFHistory s1.history s1.idx_history.toNat ∧
      replay s1.history s1.idx_history.toNat = replay s.history s.idx_history.toNat := by
    refine ⟨_, rfl, ?_⟩
    split
    · exact compress_replay s 81 hlen h0 hle hwf
    · exact ⟨rfl, rfl, hlen, h0, le_refl _, hwf, rfl⟩
  rw [← hs1] at h
  by_cases hc : s1.idx_history < 0 ∨ 243 ≤ s1.idx_history
  · rw [if_pos hc] at h
    exact absurd h (by simp)
  · rw [if_neg hc] at h
    simp only [Option.some.injEq] at h
    subst h
    dsimp only
    have hm : (s1.idx_history + 1).toNat = s1.idx_history.toNat + 1 := by omega
    have hmlt : s1.idx_history.toNat < 243 := by omega
    obtain ⟨hw1, hw2, hw3, hw4, hw5⟩ := word_replayable idx digit flags hidx hd1 hd9 hf
    have hlast : rd (add_move_ignore (wr s1.history s1.idx_history.toNat
        (SET_INDEX idx ||| SET_DIGIT digit ||| flags)) idx s1.idx_history.toNat)
        s1.idx_history.toNat = SET_INDEX idx ||| SET_DIGIT digit ||| flags := by
      rw [add_move_ignore_rd_ge _ _ _ _ (le_refl _), rd_wr_self _ _ _ (by omega)]
    have hold : ∀ k < s1.idx_history.toNat,
        rd (add_move_ignore (wr s1.history s1.idx_history.toNat
          (SET_INDEX idx ||| SET_DIGIT digit ||| flags)) idx s1.idx_history.toNat) k
          = rd s1.history k ∨
        (GET_INDEX (rd s1.history k) = idx ∧
          rd (add_move_ignore (wr s1.history s1.idx_history.toNat
            (SET_INDEX idx ||| SET_DIGIT digit ||| flags)) idx s1.idx_history.toNat) k
            = rd s1.history k ||| IGNORED) := by
      intro k hk
      rcases add_move_ignore_rd (wr s1.history s1.idx_history.toNat
        (SET_INDEX idx ||| SET_DIGIT digit ||| flags)) idx s1.idx_history.toNat k
        with h1 | ⟨_, h2, h3⟩
      · left
        rw [h1, rd_wr_ne _ _ _ _ (by omega)]
      · right
        rw [rd_wr_ne _ _ _ _ (by omega)] at h2 h3
        exact ⟨h2, h3⟩
    refine ⟨g1, g2, ?_, by omega, by omega, ?_, ?_⟩
    · rw [add_move_ignore_length, length_wr, g3]
    · rw [hm]
      intro k hk
      by_cases hkm : k = s1.idx_history.toNat
      · subst hkm
        rw [hlast]
        exact hw2
      · rcases hold k (by omega) with h1 | ⟨_, h3⟩
        · rw [h1]
          exact g6 k (by omega)
        · rw [h3]
          exact WFRec_or_IGNORED _ (g6 k (by omega))
    · rw [hm, replay_succ _ _ (by rw [add_move_ignore_length, length_wr, g3]; omega), hlast,
        ← g7]
      congr 1
      apply replay_congr_skip
      · rw [add_move_ignore_length, length_wr, g3]
        omega
      · omega
      · intro k hk
        rcases hold k hk with h1 | ⟨h2, h3⟩
        · exact Or.inl h1
        · right
          rw [h3]
          refine ⟨not_replayable_or_IGNORED _, ?_⟩
          intro hr
          have := replay_record_filled s1.history s1.idx_history.toNat k (by omega) hk g6 hr
          rw [h2, g7] at this
          exact this hcell

end Sudoku

namespace Sudoku

/-! ## The solver invariant under `fill` and `choose` -/

theorem HistInv.replay_wf {s : State} (h : HistInv s) :
    BoardWF (replay s.history s.idx_history.toNat).2 :=
  replay_BoardWF s.history s.idx_history.toNat
    (by rw [h.hlen]; have := h.nonneg; have := h.le; omega) h.wf

theorem HistInv.replay_no_conflict {s : State} (h : HistInv s) :
    NoConflict (replay s.history s.idx_history.toNat).2 :=
  replay_NoConflict s.history s.idx_history.toNat
    (by rw [h.hlen]; have := h.nonneg; have := h.le; omega) h.wf h.ok

theorem SolveInv.board_wf {s : State} (h : SolveInv s) : BoardWF s.board :=
  Above_BoardWF _ _ h.above h.hist.replay_wf

theorem SolveInv.no_conflict {s : State} (h : SolveInv s) : NoConflict s.board :=
  Above_NoConflict _ _ h.above h.hist.replay_no_conflict

theorem SolveInv_place (s s' : State) (idx digit flags : Nat) (h : SolveInv s)
    (hidx : idx < 81) (hd1 : 1 ≤ digit) (hd9 : digit ≤ 9) (hf : flags = 0 ∨ flags = CHOICE)
    (hempty : DIGIT s.board idx = 0) (hallowed : DISALLOWED s.board idx digit = 0)
    (hadd : add_move (State.mk (update (wr s.board idx (SET_DIGIT digit)) idx) s.history
      s.idx_history s.pass) idx digit flags = some s') : SolveInv s' := by
  have hcell : DIGIT (replay s.history s.idx_history.toNat).2 idx = 0 := by
    rw [← (h.above.2 idx hidx).1]
    exact hempty
  have hrallowed : DISALLOWED (replay s.history s.idx_history.toNat).2 idx digit = 0 := by
    by_contra hc
    exact (h.above.2 idx hidx).2 digit hd1 hd9 hc hallowed
  obtain ⟨g1, _, g3, g4, g5, g6, g7⟩ := add_move_replay
    (State.mk (update (wr s.board idx (SET_DIGIT digit)) idx) s.history s.idx_history s.pass)
    s' idx digit flags h.hist.hlen h.hist.nonneg h.hist.le h.hist.wf hidx hd1 hd9 hf hcell hadd
  dsimp only at g1 g7
  obtain ⟨hw1, hw2, hw3, hw4, hw5⟩ := word_replayable idx digit flags hidx hd1 hd9 hf
  have hB := h.hist.replay_wf
  refine ⟨⟨g3, g4, g5, g6, ?_⟩, ?_⟩
  · rw [g7, reapply_step_ok _ _ hw1, hw3, hw4, if_neg]
    · exact h.hist.ok
    · rintro (hc | hc)
      · unfold IS_EMPTY at hc
        rw [hcell] at hc
        exact absurd hc (by decide)
      · exact hc hrallowed
  · rw [g7, g1, reapply_step_board _ _ hw1 (by rw [hw3, hB.len]; exact hidx), hw3, hw5]
    exact Above_place _ _ idx _ _ h.above hB.len hidx
      (by rw [GET_DIGIT_SET_DIGIT _ (by omega)]; exact hd1)
      (by rw [GET_DIGIT_SET_DIGIT _ (by omega)]; exact hd9) rfl

theorem SolveInv_fill (s s' : State) (idx digit : Nat) (r : Int) (h : SolveInv s)
    (hidx : idx < 81) (hd1 : 1 ≤ digit) (hd9 : digit ≤ 9)
    (hfill : fill s idx digit = some (r, s')) : SolveInv s' := by
  unfold fill at hfill
  by_cases he : IS_EMPTY s.board idx = true
  · by_cases hd : DISALLOWED s.board idx digit = 0
    · have hempty : DIGIT s.board idx = 0 := by
        unfold IS_EMPTY at he
        simpa using he
      simp only [he, not_true_eq_false, if_false, hd, ne_eq] at hfill
      cases hadd : add_move (State.mk (update (wr s.board idx (SET_DIGIT digit)) idx) s.history
        s.idx_history s.pass) idx digit 0 with
      | none =>
        rw [hadd] at hfill
        exact absurd hfill (by simp)
      | some s1 =>
        rw [hadd] at hfill
        simp only [Option.map_some', Option.some.injEq, Prod.mk.injEq] at hfill
        rw [← hfill.2]
        exact SolveInv_place s s1 idx digit 0 h hidx hd1 hd9 (Or.inl rfl) hempty hd hadd
    · simp [he, hd] at hfill
      rw [← hfill.2]
      exact h
  · simp [he] at hfill
    rw [← hfill.2]
    exact h

/-- The two outcomes of `choose` on a well-formed board. -/
theorem SolveInv_choose (s s' : State) (idx digit : Nat) (r : Int) (h : SolveInv s)
    (hidx : idx < 81) (hd1 : 1 ≤ digit) (hch : choose s idx digit = some (r, s')) :
    SolveInv s' ∧ (r = -1 → s' = s) ∧ (r ≠ -1 → 0 ≤ r) := by
  rcases choose_spec s idx digit with ⟨h1, _⟩ | ⟨d, h1, h2, h3, _, h5⟩
  · rw [h1] at hch
    simp only [Option.some.injEq, Prod.mk.injEq] at hch
    rw [← hch.2, ← hch.1]
    exact ⟨h, fun _ => rfl, fun hc => absurd rfl hc⟩
  · have hempty : DIGIT s.board idx = 0 := by
      by_contra hne
      exact h.board_wf.full idx hidx hne d (by omega) h2 h3
    rw [h5] at hch
    cases hadd : add_move (State.mk (update (wr s.board idx (SET_DIGIT d)) idx) s.history
      s.idx_history s.pass) idx d CHOICE with
    | none =>
      rw [hadd] at hch
      exact absurd hch (by simp)
    | some s1 =>
      rw [hadd] at hch
      simp only [Option.map_some', Option.some.injEq, Prod.mk.injEq] at hch
      rw [← hch.2, ← hch.1]
      refine ⟨SolveInv_place s s1 idx d CHOICE h hidx (by omega) h2 (Or.inr rfl) hempty h3 hadd,
        ?_, ?_⟩
      · intro hc
        omega
      · intro _
        omega

/-! ## Words inside `STATE_MASK` -/

theorem inState_and_DIGIT_MASK (m : Nat) (h : inState m) : m &&& DIGIT_MASK = 0 := by
  rw [and_eq_zero_iff_testBit]
  intro i
  rw [testBit_DIGIT_MASK]
  by_cases hm : m.testBit i = true
  · have := h i hm
    have : ¬ (16 ≤ i ∧ i < 20) := by omega
    simp [this]
  · simp [hm]

theorem inState_STATE_MASK : inState STATE_MASK := by
  intro i hi
  rw [testBit_STATE_MASK] at hi
  simpa using hi

theorem inState_DIGIT_STATE (d : Nat) (h1 : 1 ≤ d) (h9 : d ≤ 9) : inState (DIGIT_STATE d) := by
  intro i hi
  rw [testBit_DIGIT_STATE] at hi
  have : 6 + d = i := by simpa using hi
  omega

theorem inState_zero : inState 0 := by
  intro i hi
  rw [Nat.zero_testBit] at hi
  exact absurd hi (by decide)

theorem inState_or (a b : Nat) (ha : inState a) (hb : inState b) : inState (a ||| b) := by
  intro i hi
  rw [Nat.testBit_or] at hi
  rcases Bool.or_eq_true _ _ ▸ hi with h | h
  · exact ha i h
  · exact hb i h

theorem inState_xor (a b : Nat) (ha : inState a) (hb : inState b) : inState (a ^^^ b) := by
  intro i hi
  rw [Nat.testBit_xor] at hi
  by_cases h : a.testBit i = true
  · exact ha i h
  · have : b.testBit i = true := by
      simp only [Bool.not_eq_true] at h
      rw [h] at hi
      simpa using hi
    exact hb i this

theorem inState_and_left (a b : Nat) (ha : inState a) : inState (a &&& b) := by
  intro i hi
  rw [Nat.testBit_and] at hi
  have : a.testBit i = true := by
    have := (Bool.and_eq_true _ _ ▸ hi)
    exact this.1
  exact ha i this

/-! ## The strategies only add mask bits -/

theorem or_mask_Above (b : List Nat) (k m : Nat) (hb : b.length = 81) (hm : inState m) :
    Above (wr b k (rd b k ||| m)) b := by
  refine ⟨by rw [length_wr, hb], fun i hi => ⟨?_, ?_⟩⟩
  · unfold DIGIT
    rw [rd_wr]
    split
    · rename_i h
      rw [← h.1]
      exact GET_DIGIT_or _ _ (inState_and_DIGIT_MASK m hm)
    · rfl
  · intro d _ _ h
    unfold DISALLOWED at *
    rw [rd_wr]
    split
    · rename_i h'
      rw [← h'.1] at h
      rw [and_DIGIT_STATE_ne_zero] at h ⊢
      rw [Nat.testBit_or, h]
      rfl
    · exact h

theorem foldl_Above {α : Type} (f : List Nat → α → List Nat)
    (hf : ∀ b x, b.length = 81 → (∀ i < 81, DIGIT b i ≤ 9) → Above (f b x) b)
    (L : List α) (b : List Nat) (hb : b.length = 81) (hd : ∀ i < 81, DIGIT b i ≤ 9) :
    Above (L.foldl f b) b := by
  induction L generalizing b with
  | nil => exact Above_refl b hb
  | cons x L ih =>
    rw [List.foldl_cons]
    have h1 := hf b x hb hd
    have h2 := ih (f b x) h1.1 (fun i hi => by rw [(h1.2 i hi).1]; exact hd i hi)
    exact Above_trans _ _ _ h2 h1

theorem foldl_Above_pair {α β : Type} (f : List Nat × β → α → List Nat × β)
    (hf : ∀ acc x, acc.1.length = 81 → (∀ i < 81, DIGIT acc.1 i ≤ 9) →
      Above (f acc x).1 acc.1)
    (L : List α) (acc : List Nat × β) (hb : acc.1.length = 81)
    (hd : ∀ i < 81, DIGIT acc.1 i ≤ 9) :
    Above (L.foldl f acc).1 acc.1 := by
  induction L generalizing acc with
  | nil => exact Above_refl acc.1 hb
  | cons x L ih =>
    rw [List.foldl_cons]
    have h1 := hf acc x hb hd
    have h2 := ih (f acc x) h1.1 (fun i hi => by rw [(h1.2 i hi).1]; exact hd i hi)
    exact Above_trans _ _ _ h2 h1

theorem foldl_Above_mem {α : Type} (f : List Nat → α → List Nat) (L : List α)
    (hf : ∀ b, ∀ x ∈ L, b.length = 81 → (∀ i < 81, DIGIT b i ≤ 9) → Above (f b x) b)
    (b : List Nat) (hb : b.length = 81) (hd : ∀ i < 81, DIGIT b i ≤ 9) :
    Above (L.foldl f b) b := by
  induction L generalizing b with
  | nil => exact Above_refl b hb
  | cons x L ih =>
    rw [List.foldl_cons]
    have h1 := hf b x (List.mem_cons_self _ _) hb hd
    have h2 := ih (fun b y hy => hf b y (List.mem_cons_of_mem _ hy)) (f b x) h1.1
      (fun i hi => by rw [(h1.2 i hi).1]; exact hd i hi)
    exact Above_trans _ _ _ h2 h1

theorem Above_digit_le (b' b : List Nat) (h : Above b' b) (hd : ∀ i < 81, DIGIT b i ≤ 9) :
    ∀ i < 81, DIGIT b' i ≤ 9 := by
  intro i hi
  rw [(h.2 i hi).1]
  exact hd i hi

theorem pairs_mask_foldl_Above (el : Nat) (idx_fn : Nat → Nat → Nat) (mask : Nat)
    (hm : inState mask) (L : List Nat) (b : List Nat) (hb : b.length = 81)
    (hd : ∀ i < 81, DIGIT b i ≤ 9) :
    Above (L.foldl (pairs_mask el idx_fn mask) b) b :=
  foldl_Above _ (fun b _ hb _ => or_mask_Above b _ mask hb hm) L b hb hd

theorem pairs_inner_Above (el : Nat) (idx_fn : Nat → Nat → Nat) (i : Nat)
    (acc : List Nat × List Int) (j : Nat) (hb : acc.1.length = 81)
    (hd : ∀ i < 81, DIGIT acc.1 i ≤ 9) :
    Above (pairs_inner el idx_fn i acc j).1 acc.1 := by
  unfold pairs_inner
  dsimp only
  split
  · have hm : inState (STATE_MASK ^^^ (STATE_MASK &&& rd acc.1 (idx_fn el i))) :=
      inState_xor _ _ inState_STATE_MASK (inState_and_left _ _ inState_STATE_MASK)
    have h1 := pairs_mask_foldl_Above el idx_fn _ hm (List.range' 0 i) acc.1 hb hd
    have h2 := pairs_mask_foldl_Above el idx_fn _ hm (List.range' (i + 1) (j - (i + 1))) _ h1.1
      (Above_digit_le _ _ h1 hd)
    have h3 := pairs_mask_foldl_Above el idx_fn _ hm (List.range' (j + 1) (9 - (j + 1))) _ h2.1
      (Above_digit_le _ _ h2 (Above_digit_le _ _ h1 hd))
    exact Above_trans _ _ _ h3 (Above_trans _ _ _ h2 h1)
  · exact Above_refl _ hb

theorem pairs_outer_Above (el : Nat) (idx_fn : Nat → Nat → Nat)
    (acc : List Nat × List Int) (i : Nat) (hb : acc.1.length = 81)
    (hd : ∀ i < 81, DIGIT acc.1 i ≤ 9) :
    Above (pairs_outer el idx_fn acc i).1 acc.1 := by
  unfold pairs_outer
  split
  · exact foldl_Above_pair _ (fun acc j hb hd => pairs_inner_Above el idx_fn i acc j hb hd)
      _ acc hb hd
  · exact Above_refl _ hb

theorem pairs_Above (b : List Nat) (digits : List Int) (el : Nat) (idx_fn : Nat → Nat → Nat)
    (hb : b.length = 81) (hd : ∀ i < 81, DIGIT b i ≤ 9) :
    Above (pairs b digits el idx_fn) b := by
  unfold pairs
  exact foldl_Above_pair _ (fun acc i hb hd => pairs_outer_Above el idx_fn acc i hb hd)
    _ (b, digits) hb hd

theorem exmask_Above (b : List Nat) (mask blk el : Nat) (idx_fn : Nat → Nat → Nat)
    (hm : inState mask) (hb : b.length = 81) (hd : ∀ i < 81, DIGIT b i ≤ 9) :
    Above (exmask b mask blk el idx_fn) b := by
  unfold exmask
  apply foldl_Above _ _ _ b hb hd
  intro b i hb _
  unfold exmask_step
  dsimp only
  split
  · exact or_mask_Above b _ mask hb hm
  · exact Above_refl b hb

theorem exblock_mask_inState (b : List Nat) (blk : Nat) (hblk : blk < 9)
    (hd : ∀ i < 81, DIGIT b i ≤ 9) (L : List Nat) (hL : ∀ i ∈ L, i < 9) (m : Nat)
    (hm : inState m) : inState (L.foldl (exblock_step b blk) m) := by
  induction L generalizing m with
  | nil => exact hm
  | cons i L ih =>
    rw [List.foldl_cons]
    apply ih (fun j hj => hL j (List.mem_cons_of_mem _ hj))
    unfold exblock_step
    dsimp only
    split
    · rename_i hne
      have hi := hL i (List.mem_cons_self _ _)
      have h81 := idx_block_lt hblk hi
      apply inState_or _ _ hm
      apply inState_DIGIT_STATE
      · unfold IS_EMPTY at hne
        have : DIGIT b (idx_block blk i) ≠ 0 := by simpa using hne
        omega
      · exact hd _ h81
    · exact hm

theorem exblock_Above (b : List Nat) (blk el : Nat) (idx_fn : Nat → Nat → Nat)
    (hblk : blk < 9) (hb : b.length = 81) (hd : ∀ i < 81, DIGIT b i ≤ 9) :
    Above (exblock b blk el idx_fn) b := by
  unfold exblock
  dsimp only
  apply exmask_Above _ _ _ _ _ _ hb hd
  apply inState_xor _ _ _ inState_STATE_MASK
  exact exblock_mask_inState b blk hblk hd _ (fun i hi => List.mem_range.1 hi) 0 inState_zero

theorem block_Above (b : List Nat) (el : Nat) (hel : el < 9) (hb : b.length = 81)
    (hd : ∀ i < 81, DIGIT b i ≤ 9) : Above (block b el) b := by
  unfold block
  split
  · exact Above_refl b hb
  · dsimp only
    generalize (List.range' (_ + 1) (9 - (_ + 1))).foldl (block_step b el) _ = rc
    have h1 : Above (if 0 ≤ rc.1 then exblock b el rc.1.toNat idx_row else b) b := by
      split
      · exact exblock_Above b el _ idx_row hel hb hd
      · exact Above_refl b hb
    split
    · exact Above_trans _ _ _
        (exblock_Above _ el _ idx_column hel h1.1 (Above_digit_le _ _ h1 hd)) h1
    · exact h1

theorem common_digit_Above (b : List Nat) (el d : Nat) (hd1 : 1 ≤ d) (hd9 : d ≤ 9)
    (hb : b.length = 81) (hd : ∀ i < 81, DIGIT b i ≤ 9) : Above (common_digit el b d) b := by
  have hm := inState_DIGIT_STATE d hd1 hd9
  unfold common_digit
  dsimp only
  generalize (List.range 9).foldl (common_step b el (DIGIT_STATE d)) _ = rc
  have h2 : Above (if rc.1 ≠ -1 ∧ rc.1 < 9
      then exmask b (DIGIT_STATE d) el rc.1.toNat idx_row else b) b := by
    split
    · exact exmask_Above b _ el _ idx_row hm hb hd
    · exact Above_refl b hb
  split
  · exact Above_trans _ _ _
      (exmask_Above _ _ el _ idx_column hm h2.1 (Above_digit_le _ _ h2 hd)) h2
  · exact h2

theorem common_Above (b : List Nat) (el : Nat) (hb : b.length = 81)
    (hd : ∀ i < 81, DIGIT b i ≤ 9) : Above (common b el) b := by
  unfold common
  apply foldl_Above_mem _ _ _ b hb hd
  intro b d hd' hb hd
  rw [List.mem_range'_1] at hd'
  exact common_digit_Above b el d (by omega) (by omega) hb hd

theorem position2_Above (b : List Nat) (el : Nat) (hb : b.length = 81)
    (hd : ∀ i < 81, DIGIT b i ≤ 9) : Above (position2 b el) b := by
  unfold position2
  dsimp only
  have key : ∀ (L : List Nat), (∀ d ∈ L, 1 ≤ d ∧ d ≤ 8) → ∀ acc : List Nat × List Nat,
      acc.1.length = 81 → (∀ i < 81, DIGIT acc.1 i ≤ 9) →
      Above (L.foldl (position2_digit el) acc).1 acc.1 := by
    intro L
    induction L with
    | nil => exact fun _ acc hb _ => Above_refl acc.1 hb
    | cons d L ih =>
      intro hL acc hb hd
      rw [List.foldl_cons]
      have hd18 := hL d (List.mem_cons_self _ _)
      have h1 : Above (position2_digit el acc d).1 acc.1 := by
        unfold position2_digit
        split
        · split
          · rename_i d2 hfind
            have hd2 := List.mem_of_find?_eq_some hfind
            rw [List.mem_range'_1] at hd2
            dsimp only
            have hm : inState (STATE_MASK ^^^ (DIGIT_STATE d ||| DIGIT_STATE d2)) :=
              inState_xor _ _ inState_STATE_MASK (inState_or _ _
                (inState_DIGIT_STATE d hd18.1 (by omega))
                (inState_DIGIT_STATE d2 (by omega) (by omega)))
            apply foldl_Above _ _ _ acc.1 hb hd
            intro b i hb _
            unfold position2_mask
            dsimp only
            split
            · exact or_mask_Above b _ _ hb hm
            · exact Above_refl b hb
          · exact Above_refl _ hb
        · exact Above_refl _ hb
      exact Above_trans _ _ _
        (ih (fun d' hd' => hL d' (List.mem_cons_of_mem _ hd')) _ h1.1
          (Above_digit_le _ _ h1 hd)) h1
  apply key _ _ (b, _) hb hd
  intro d hd'
  rw [List.mem_range'_1] at hd'
  omega

theorem allmoves_pairs_Above (b : List Nat) (i : Nat) (hb : b.length = 81)
    (hd : ∀ i < 81, DIGIT b i ≤ 9) : Above (allmoves_pairs b i) b := by
  unfold allmoves_pairs
  dsimp only
  have h1 := pairs_Above b (count_set_digits b i idx_row).1 i idx_row hb hd
  have h2 := pairs_Above _ (count_set_digits (pairs b (count_set_digits b i idx_row).1 i idx_row)
    i idx_column).1 i idx_column h1.1 (Above_digit_le _ _ h1 hd)
  have h3 := pairs_Above _ (count_set_digits (pairs (pairs b (count_set_digits b i idx_row).1 i
    idx_row) (count_set_digits (pairs b (count_set_digits b i idx_row).1 i idx_row) i
    idx_column).1 i idx_column) i idx_block).1 i idx_block h2.1
    (Above_digit_le _ _ h2 (Above_digit_le _ _ h1 hd))
  exact Above_trans _ _ _ h3 (Above_trans _ _ _ h2 h1)

theorem allmoves_block_Above (b : List Nat) (i : Nat) (hi : i < 9) (hb : b.length = 81)
    (hd : ∀ i < 81, DIGIT b i ≤ 9) : Above (allmoves_block b i) b := by
  unfold allmoves_block
  have h1 := block_Above b i hi hb hd
  have h2 := common_Above _ i h1.1 (Above_digit_le _ _ h1 hd)
  have h3 := position2_Above _ i h2.1 (Above_digit_le _ _ h2 (Above_digit_le _ _ h1 hd))
  exact Above_trans _ _ _ h3 (Above_trans _ _ _ h2 h1)

theorem triple_fst {α β γ : Type} (a : α) (b : β) (c : γ) : (a, b, c).1 = a := rfl

theorem triple_snd_fst {α β γ : Type} (a : α) (b : β) (c : γ) : (a, b, c).2.1 = b := rfl

theorem triple_snd_snd {α β γ : Type} (a : α) (b : β) (c : γ) : (a, b, c).2.2 = c := rfl

theorem allmoves_eq (b : List Nat) :
    allmoves b =
      if (findmoves b).1 ≠ 0 then ((findmoves b).1, (findmoves b).2, b)
      else if (findmoves ((List.range 9).foldl allmoves_pairs b)).1 ≠ 0 then
        ((findmoves ((List.range 9).foldl allmoves_pairs b)).1,
          (findmoves ((List.range 9).foldl allmoves_pairs b)).2,
          (List.range 9).foldl allmoves_pairs b)
      else
        ((findmoves ((List.range 9).foldl allmoves_block
            ((List.range 9).foldl allmoves_pairs b))).1,
          (findmoves ((List.range 9).foldl allmoves_block
            ((List.range 9).foldl allmoves_pairs b))).2,
          (List.range 9).foldl allmoves_block ((List.range 9).foldl allmoves_pairs b)) := by
  unfold allmoves
  rfl

/-- The board returned by `allmoves` carries the digits of the board it was given and at
least its mask bits. -/
theorem allmoves_Above (b : List Nat) (hb : b.length = 81) (hd : ∀ i < 81, DIGIT b i ≤ 9) :
    Above (allmoves b).2.2 b := by
  rw [allmoves_eq]
  have h1 : Above ((List.range 9).foldl allmoves_pairs b) b :=
    foldl_Above _ (fun b i hb hd => allmoves_pairs_Above b i hb hd) _ b hb hd
  have h2 : Above ((List.range 9).foldl allmoves_block ((List.range 9).foldl allmoves_pairs b))
      ((List.range 9).foldl allmoves_pairs b) :=
    foldl_Above_mem _ _ (fun b i hi hb hd => allmoves_block_Above b i (List.mem_range.1 hi) hb hd)
      _ h1.1 (Above_digit_le _ _ h1 hd)
  by_cases c1 : (findmoves b).1 ≠ 0
  · rw [if_pos c1]
    exact Above_refl b hb
  · rw [if_neg c1]
    by_cases c2 : (findmoves ((List.range 9).foldl allmoves_pairs b)).1 ≠ 0
    · rw [if_pos c2, triple_snd_snd]
      exact h1
    · rw [if_neg c2, triple_snd_snd]
      exact Above_trans _ _ _ h2 h1

end Sudoku

namespace Sudoku

/-! ## Candidate moves are well-formed -/

theorem CandOK_word (idx d hintcode : Nat) (hidx : idx < 81) (hd1 : 1 ≤ d) (hd9 : d ≤ 9)
    (h1 : hintcode &&& INDEX_MASK = 0) (h2 : hintcode &&& DIGIT_MASK = 0) :
    CandOK (SET_INDEX idx ||| SET_DIGIT d ||| hintcode) := by
  unfold CandOK
  rw [record_index _ _ _ (by omega) h1, record_digit _ _ _ (by omega) (by omega) h2]
  exact ⟨hidx, hd1, hd9⟩

theorem singles_position_CandOK (board : List Nat) (el : Nat) (idx_fn : Nat → Nat → Nat)
    (hintcode : Nat) (counts : List Nat) (hfn : ∀ j < 9, idx_fn el j < 81)
    (h1 : hintcode &&& INDEX_MASK = 0) (h2 : hintcode &&& DIGIT_MASK = 0)
    (c : Nat) (hc : c < 9) (possible : List Nat) (hp : ∀ p ∈ possible, CandOK p) :
    ∀ p ∈ singles_position board el idx_fn hintcode counts c possible, CandOK p := by
  unfold singles_position
  split
  · split
    · rename_i j hj
      have hj9 := List.mem_range.1 (List.mem_of_find?_eq_some hj)
      intro p hp'
      rcases List.mem_append.1 hp' with h | h
      · exact hp p h
      · rw [List.mem_singleton] at h
        rw [h]
        exact CandOK_word _ _ _ (hfn j hj9) (by omega) (by omega) h1 h2
    · exact hp
  · exact hp

theorem singles_square_CandOK (board : List Nat) (el : Nat) (idx_fn : Nat → Nat → Nat)
    (hintcode : Nat) (digits : List Int) (hfn : ∀ j < 9, idx_fn el j < 81)
    (h1 : hintcode &&& INDEX_MASK = 0) (h2 : hintcode &&& DIGIT_MASK = 0)
    (i : Nat) (hi : i < 9) (possible : List Nat) (hp : ∀ p ∈ possible, CandOK p) :
    ∀ p ∈ singles_square board el idx_fn hintcode digits i possible, CandOK p := by
  unfold singles_square
  dsimp only
  split
  · split
    · intro p hp'
      rcases List.mem_append.1 hp' with h | h
      · exact hp p h
      · rw [List.mem_singleton] at h
        rw [h]
        exact CandOK_word _ _ _ (hfn i hi) (by omega) (by omega) h1 h2
    · exact hp
  · exact hp

theorem singles_loop_CandOK (board : List Nat) (el : Nat) (idx_fn : Nat → Nat → Nat)
    (hintcode : Nat) (digits : List Int) (counts : List Nat)
    (hfn : ∀ j < 9, idx_fn el j < 81)
    (h1 : hintcode &&& INDEX_MASK = 0) (h2 : hintcode &&& DIGIT_MASK = 0)
    (fuel i : Nat) (possible : List Nat) (hp : ∀ p ∈ possible, CandOK p) :
    ∀ p ∈ (singles_loop board el idx_fn hintcode digits counts fuel i possible).2, CandOK p := by
  induction fuel generalizing i possible with
  | zero => exact hp
  | succ fuel ih =>
    unfold singles_loop
    by_cases hi : i < 9
    · rw [if_pos hi]
      dsimp only
      split
      · exact hp
      · apply ih
        apply singles_square_CandOK _ _ _ _ _ hfn h1 h2 i hi
        exact singles_position_CandOK _ _ _ _ _ hfn h1 h2 i hi possible hp
    · rw [if_neg hi]
      exact hp

theorem singles_CandOK (board : List Nat) (el : Nat) (idx_fn : Nat → Nat → Nat)
    (hintcode : Nat) (hfn : ∀ j < 9, idx_fn el j < 81)
    (h1 : hintcode &&& INDEX_MASK = 0) (h2 : hintcode &&& DIGIT_MASK = 0)
    (possible : List Nat) (hp : ∀ p ∈ possible, CandOK p) :
    ∀ p ∈ (singles board el idx_fn hintcode possible).2, CandOK p := by
  unfold singles
  exact singles_loop_CandOK board el idx_fn hintcode _ _ hfn h1 h2 9 0 possible hp

theorem findmoves_loop_CandOK (board : List Nat) (fuel el : Nat) (possible : List Nat)
    (hp : ∀ p ∈ possible, CandOK p) :
    ∀ p ∈ (findmoves_loop board fuel el possible).2, CandOK p := by
  induction fuel generalizing el possible with
  | zero => exact hp
  | succ fuel ih =>
    unfold findmoves_loop
    by_cases hel : el < 9
    · rw [if_pos hel]
      dsimp only
      have g1 := singles_CandOK board el idx_row HINT_ROW (fun j hj => idx_row_lt hel hj)
        (by decide) (by decide) possible hp
      have g2 := singles_CandOK board el idx_column HINT_COLUMN
        (fun j hj => idx_column_lt hel hj) (by decide) (by decide) _ g1
      have g3 := singles_CandOK board el idx_block HINT_BLOCK
        (fun j hj => idx_block_lt hel hj) (by decide) (by decide) _ g2
      split
      · exact g1
      · split
        · exact g2
        · split
          · exact g3
          · exact ih _ _ g3
    · rw [if_neg hel]
      exact hp

theorem findmoves_CandOK (board : List Nat) : ∀ p ∈ (findmoves board).2, CandOK p := by
  unfold findmoves
  exact findmoves_loop_CandOK board 9 0 [] (fun p hp => absurd hp (List.not_mem_nil p))

theorem allmoves_CandOK (board : List Nat) : ∀ p ∈ (allmoves board).2.1, CandOK p := by
  rw [allmoves_eq]
  by_cases c1 : (findmoves board).1 ≠ 0
  · rw [if_pos c1, triple_snd_fst]
    exact findmoves_CandOK _
  · rw [if_neg c1]
    by_cases c2 : (findmoves ((List.range 9).foldl allmoves_pairs board)).1 ≠ 0
    · rw [if_pos c2, triple_snd_fst]
      exact findmoves_CandOK _
    · rw [if_neg c2, triple_snd_fst]
      exact findmoves_CandOK _

/-! ## `choice` -/

theorem numset_step_le (mask : Nat) (L : List Nat) (acc : Nat × List Nat) :
    (L.foldl (numset_step mask) acc).1 ≤ acc.1 + L.length := by
  induction L generalizing acc with
  | nil => simp
  | cons t L ih =>
    rw [List.foldl_cons]
    have := ih (numset_step mask acc t)
    have h2 : (numset_step mask acc t).1 ≤ acc.1 + 1 := by
      unfold numset_step
      dsimp only
      split <;> simp
    rw [List.length_cons]
    omega

theorem numset_le (counts : List Nat) (mask : Nat) : (numset counts mask).1 ≤ 9 := by
  unfold numset
  have := numset_step_le mask (List.range 9) (0, counts)
  simpa using this

theorem choice_scan_mem (board : List Nat) (fuel i : Nat) (acc L : List Nat)
    (h : choice_scan board fuel i acc = some L) (hacc : ∀ p ∈ acc, GET_INDEX p < 81) :
    ∀ p ∈ L, GET_INDEX p < 81 := by
  induction fuel generalizing i acc with
  | zero =>
    unfold choice_scan at h
    simp only [Option.some.injEq] at h
    rw [← h]
    exact hacc
  | succ fuel ih =>
    unfold choice_scan at h
    by_cases hi : i < 81
    · rw [if_pos hi] at h
      by_cases he : IS_EMPTY board i = true
      · rw [if_pos he] at h
        dsimp only at h
        split at h
        · exact absurd h (by simp)
        · apply ih _ _ h
          intro p hp
          rcases List.mem_append.1 hp with hp | hp
          · exact hacc p hp
          · rw [List.mem_singleton] at hp
            rw [hp, ← Nat.or_zero (SET_INDEX i ||| _), record_index _ _ _ (by omega) (by decide)]
            exact hi
      · rw [if_neg he] at h
        exact ih _ _ h hacc
    · rw [if_neg hi] at h
      simp only [Option.some.injEq] at h
      rw [← h]
      exact hacc

theorem choice_scan_length (board : List Nat) (fuel i : Nat) (acc L : List Nat)
    (h : choice_scan board fuel i acc = some L) :
    acc.length ≤ L.length ∧
      (81 ≤ i + fuel → acc.length = L.length → ∀ c, i ≤ c → c < 81 → IS_EMPTY board c = false) := by
  induction fuel generalizing i acc with
  | zero =>
    unfold choice_scan at h
    simp only [Option.some.injEq] at h
    rw [← h]
    refine ⟨le_refl _, ?_⟩
    intro h1 _ c h2 h3
    omega
  | succ fuel ih =>
    unfold choice_scan at h
    by_cases hi : i < 81
    · rw [if_pos hi] at h
      by_cases he : IS_EMPTY board i = true
      · rw [if_pos he] at h
        dsimp only at h
        split at h
        · exact absurd h (by simp)
        · have := ih _ _ h
          rw [List.length_append, List.length_singleton] at this
          refine ⟨by omega, ?_⟩
          intro _ h2
          omega
      · rw [if_neg he] at h
        have := ih _ _ h
        refine ⟨this.1, ?_⟩
        intro h1 h2 c h3 h4
        by_cases hc : c = i
        · subst hc
          simpa using he
        · exact this.2 (by omega) h2 c (by omega) h4
    · rw [if_neg hi] at h
      simp only [Option.some.injEq] at h
      rw [← h]
      refine ⟨le_refl _, ?_⟩
      intro _ _ c h2 h3
      omega

/-- When `choice` returns `-1` no cell is empty. -/
theorem choice_done (qsort : (Nat → Nat → Int) → List Nat → List Nat) (board : List Nat)
    (h : choice qsort board = -1) : ∀ c < 81, DIGIT board c ≠ 0 := by
  unfold choice at h
  split at h
  · exact absurd h (by decide)
  · rename_i possible hscan
    split at h
    · rename_i hlen
      intro c hc
      have := (choice_scan_length board 81 0 [] possible hscan).2 (by omega)
        (by rw [hlen]; rfl) c (by omega) hc
      unfold IS_EMPTY at this
      simpa using this
    · have : (0 : Int) ≤ (GET_INDEX (rd (qsort cmp possible) 0) : Int) := Int.ofNat_nonneg _
      omega

theorem rd_zero_mem (L : List Nat) (h : L ≠ []) : rd L 0 ∈ L := by
  cases L with
  | nil => exact absurd rfl h
  | cons x L =>
    unfold rd
    simp

/-- A non-negative result of `choice` is a cell index, for any sorting function that
returns a permutation of its input. -/
theorem choice_index (qsort : (Nat → Nat → Int) → List Nat → List Nat)
    (hq : ∀ c l, (qsort c l).Perm l) (board : List Nat) (h : 0 ≤ choice qsort board) :
    (choice qsort board).toNat < 81 := by
  unfold choice at h ⊢
  split at h
  · exact absurd h (by decide)
  · rename_i possible hscan
    split at h
    · exact absurd h (by decide)
    · rename_i hlen
      have hne : qsort cmp possible ≠ [] := by
        intro hc
        have := (hq cmp possible).length_eq
        rw [hc] at this
        exact hlen this.symm
      have hmem := (hq cmp possible).mem_iff.1 (rd_zero_mem _ hne)
      have := choice_scan_mem board 81 0 [] possible hscan
        (fun p hp => absurd hp (List.not_mem_nil p)) _ hmem
      rw [if_neg hlen]
      simpa using this

end Sudoku

namespace Sudoku

/-! ## The solver invariant through `deterministic`, `backtrack` and `solve` -/

theorem SolveInv_board (s : State) (b : List Nat) (h : SolveInv s) (hab : Above b s.board) :
    SolveInv (State.mk b s.history s.idx_history s.pass) :=
  ⟨⟨h.hist.hlen, h.hist.nonneg, h.hist.le, h.hist.wf, h.hist.ok⟩,
    Above_trans _ _ _ hab h.above⟩

theorem SolveInv_pass (s : State) (n : Nat) (h : SolveInv s) :
    SolveInv (State.mk s.board s.history s.idx_history n) :=
  ⟨⟨h.hist.hlen, h.hist.nonneg, h.hist.le, h.hist.wf, h.hist.ok⟩, h.above⟩

theorem deterministic_fill_inv (ps : List Nat) (s s' : State) (x : Int) (h : SolveInv s)
    (hps : ∀ p ∈ ps, CandOK p) (hr : deterministic_fill ps s = some (x, s')) : SolveInv s' := by
  induction ps generalizing s with
  | nil =>
    unfold deterministic_fill at hr
    simp only [Option.some.injEq, Prod.mk.injEq] at hr
    rw [← hr.2]
    exact h
  | cons p ps ih =>
    unfold deterministic_fill at hr
    have hp := hps p (List.mem_cons_self _ _)
    cases hf : fill s (GET_INDEX p) (GET_DIGIT p) with
    | none =>
      rw [hf] at hr
      exact absurd hr (by simp)
    | some r1 =>
      obtain ⟨r, s1⟩ := r1
      rw [hf] at hr
      dsimp only at hr
      have h1 := SolveInv_fill s s1 _ _ r h hp.1 hp.2.1 hp.2.2 hf
      by_cases hr1 : r = -1
      · rw [if_pos hr1] at hr
        simp only [Option.some.injEq, Prod.mk.injEq] at hr
        rw [← hr.2]
        exact h1
      · rw [if_neg hr1] at hr
        exact ih s1 h1 (fun q hq => hps q (List.mem_cons_of_mem _ hq)) hr

theorem deterministic_loop_inv (fuel : Nat) (r : Int × List Nat × List Nat) (s s' : State)
    (x : Int) (h : SolveInv s) (hab : Above r.2.2 s.board) (hc : ∀ p ∈ r.2.1, CandOK p)
    (hr : deterministic_loop fuel r s = some (x, s')) : SolveInv s' := by
  induction fuel generalizing r s with
  | zero =>
    unfold deterministic_loop at hr
    exact absurd hr (by simp)
  | succ fuel ih =>
    unfold deterministic_loop at hr
    dsimp only at hr
    have h0 := SolveInv_board s r.2.2 h hab
    by_cases hn : 0 < r.1
    · rw [if_pos hn] at hr
      have h1 := SolveInv_pass _ (s.pass + 1) h0
      cases hf : deterministic_fill (r.2.1.take r.1.toNat)
          (State.mk r.2.2 s.history s.idx_history (s.pass + 1)) with
      | none =>
        rw [hf] at hr
        exact absurd hr (by simp)
      | some r2 =>
        obtain ⟨y, s2⟩ := r2
        rw [hf] at hr
        dsimp only at hr
        have h2 := deterministic_fill_inv _ _ s2 y h1
          (fun p hp => hc p (List.mem_of_mem_take hp)) hf
        by_cases hy : y = -1
        · rw [if_pos hy] at hr
          simp only [Option.some.injEq, Prod.mk.injEq] at hr
          rw [← hr.2]
          exact h2
        · rw [if_neg hy] at hr
          exact ih (allmoves s2.board) s2 h2
            (allmoves_Above s2.board h2.board_wf.len h2.board_wf.digit_le)
            (allmoves_CandOK s2.board) hr
    · rw [if_neg hn] at hr
      simp only [Option.some.injEq, Prod.mk.injEq] at hr
      rw [← hr.2]
      exact h0

theorem deterministic_inv (fuel : Nat) (s s' : State) (x : Int) (h : SolveInv s)
    (hr : deterministic fuel s = some (x, s')) : SolveInv s' := by
  unfold deterministic at hr
  exact deterministic_loop_inv fuel (allmoves s.board) s s' x h
    (allmoves_Above s.board h.board_wf.len h.board_wf.digit_le) (allmoves_CandOK s.board) hr

theorem HistInv_prefix (s : State) (h : HistInv s) (m : Int) (h0 : 0 ≤ m)
    (hm : m ≤ s.idx_history) : HistInv (State.mk s.board s.history m s.pass) where
  hlen := h.hlen
  nonneg := h0
  le := le_trans hm h.le
  wf := fun k hk => h.wf k (by
    have : m.toNat ≤ s.idx_history.toNat := Int.toNat_le_toNat hm
    exact lt_of_lt_of_le hk this)
  ok := replay_valid_prefix s.history s.idx_history.toNat m.toNat
    (by rw [h.hlen]; have := h.le; have := h.nonneg; omega) (Int.toNat_le_toNat hm) h.ok

theorem SolveInv_reapply (s : State) (h : HistInv s) : SolveInv (reapply s).2 := by
  unfold reapply
  exact ⟨⟨h.hlen, h.nonneg, h.le, h.wf, h.ok⟩, Above_refl _ h.replay_wf.len⟩

/-- When `backtrack` finds a choice to change, the resulting state satisfies the solver
invariant. -/
theorem backtrack_loop_inv (fuel : Nat) (s s' : State) (b : Int) (h : HistInv s)
    (hr : backtrack_loop fuel s = some (b, s')) (hb : b ≠ -1) : SolveInv s' := by
  induction fuel generalizing s with
  | zero =>
    unfold backtrack_loop at hr
    exact absurd hr (by simp)
  | succ fuel ih =>
    unfold backtrack_loop at hr
    dsimp only at hr
    by_cases hpos : 0 < s.idx_history - 1
    · rw [if_pos hpos] at hr
      have h1 : HistInv (State.mk s.board s.history (s.idx_history - 1) s.pass) :=
        HistInv_prefix s h _ (by omega) (by omega)
      by_cases hch : rd s.history (s.idx_history - 1).toNat &&& CHOICE ≠ 0
      · rw [if_pos hch] at hr
        have h2 := SolveInv_reapply _ h1
        have hw := h.wf (s.idx_history - 1).toNat (by omega)
        cases hc : choose (reapply (State.mk s.board s.history (s.idx_history - 1) s.pass)).2
            (GET_INDEX (rd s.history (s.idx_history - 1).toNat))
            (GET_DIGIT (rd s.history (s.idx_history - 1).toNat) + 1) with
        | none =>
          rw [hc] at hr
          exact absurd hr (by simp)
        | some r3 =>
          obtain ⟨r, s3⟩ := r3
          rw [hc] at hr
          dsimp only at hr
          have h3 := SolveInv_choose _ s3 _ _ r h2 hw.1 (by omega) hc
          by_cases hr1 : r ≠ -1
          · rw [if_pos hr1] at hr
            simp only [Option.some.injEq, Prod.mk.injEq] at hr
            rw [← hr.2]
            exact h3.1
          · rw [if_neg hr1] at hr
            exact ih s3 h3.1.hist hr
      · rw [if_neg hch] at hr
        exact ih _ h1 hr
    · rw [if_neg hpos] at hr
      simp only [Option.some.injEq, Prod.mk.injEq] at hr
      exact absurd hr.1.symm hb

theorem backtrack_inv (s s' : State) (b : Int) (h : HistInv s)
    (hr : backtrack s = some (b, s')) (hb : b ≠ -1) : SolveInv s' := by
  unfold backtrack at hr
  exact backtrack_loop_inv _ s s' b h hr hb

/-- When `solve` returns 0 the final state satisfies the solver invariant and `choice`
finds no empty cell. -/
theorem solve_inv (qsort : (Nat → Nat → Int) → List Nat → List Nat)
    (hq : ∀ c l, (qsort c l).Perm l) (fuel : Nat) (s s' : State) (h : SolveInv s)
    (hr : solve qsort fuel s = some (0, s')) :
    SolveInv s' ∧ choice qsort s'.board = -1 := by
  induction fuel generalizing s with
  | zero =>
    unfold solve at hr
    exact absurd hr (by simp)
  | succ fuel ih =>
    unfold solve at hr
    cases hd : deterministic (fuel + 1) s with
    | none =>
      rw [hd] at hr
      exact absurd hr (by simp)
    | some r1 =>
      obtain ⟨r, s1⟩ := r1
      rw [hd] at hr
      dsimp only at hr
      have h1 := deterministic_inv _ s s1 r h hd
      -- the common continuation after a call of `backtrack`
      have hback : ∀ t : State, HistInv t →
          (match backtrack t with
            | none => none
            | some (b, s2) => if b = -1 then some (-1, s2) else solve qsort fuel s2)
            = some (0, s') → SolveInv s' ∧ choice qsort s'.board = -1 := by
        intro t ht hm
        cases hb : backtrack t with
        | none =>
          rw [hb] at hm
          exact absurd hm (by simp)
        | some r2 =>
          obtain ⟨b, s2⟩ := r2
          rw [hb] at hm
          dsimp only at hm
          by_cases hb1 : b = -1
          · rw [if_pos hb1] at hm
            simp only [Option.some.injEq, Prod.mk.injEq] at hm
            exact absurd hm.1 (by decide)
          · rw [if_neg hb1] at hm
            exact ih s2 (backtrack_inv t s2 b ht hb hb1) hm
      by_cases hr0 : r = 0
      · rw [if_pos hr0] at hr
        by_cases hc1 : choice qsort s1.board = -1
        · rw [if_pos hc1] at hr
          simp only [Option.some.injEq, Prod.mk.injEq] at hr
          rw [← hr.2]
          exact ⟨h1, hc1⟩
        · rw [if_neg hc1] at hr
          by_cases hc2 : choice qsort s1.board < 0
          · rw [if_pos hc2] at hr
            exact hback s1 h1.hist hr
          · rw [if_neg hc2] at hr
            have hidx := choice_index qsort hq s1.board (by omega)
            cases hch : choose s1 (choice qsort s1.board).toNat 1 with
            | none =>
              rw [hch] at hr
              exact absurd hr (by simp)
            | some r2 =>
              obtain ⟨c, s2⟩ := r2
              rw [hch] at hr
              dsimp only at hr
              have h2 := SolveInv_choose s1 s2 _ 1 c h1 hidx (le_refl _) hch
              by_cases hcm : c = -1
              · rw [if_pos hcm] at hr
                exact hback s2 h2.1.hist hr
              · rw [if_neg hcm] at hr
                exact ih s2 h2.1 hr
      · rw [if_neg hr0] at hr
        exact hback s1 h1.hist hr

/-! ## A full board without conflicts is solved -/

theorem unit_digits_count (b : List Nat) (idx_fn : Nat → Nat → Nat) (el : Nat)
    (hfn : ∀ k < 9, idx_fn el k < 81)
    (hpeer : ∀ k < 9, ∀ k' < 9, k ≠ k' →
      idx_fn el k ≠ idx_fn el k' ∧ peer (idx_fn el k) (idx_fn el k'))
    (hwf : ∀ c < 81, DIGIT b c ≤ 9) (hnc : NoConflict b) (hfull : ∀ c < 81, DIGIT b c ≠ 0)
    (d : Nat) (hd1 : 1 ≤ d) (hd9 : d ≤ 9) : (unit_digits b idx_fn el).count d = 1 := by
  have hnodup : (unit_digits b idx_fn el).Nodup := by
    unfold unit_digits
    apply List.Nodup.map_on _ (List.nodup_range 9)
    intro k hk k' hk' heq
    by_contra hne
    rw [List.mem_range] at hk hk'
    obtain ⟨h1, h2⟩ := hpeer k hk k' hk' hne
    exact hnc _ (hfn k hk) _ (hfn k' hk') h1 h2 (hfull _ (hfn k hk)) heq
  have hsub : unit_digits b idx_fn el ⊆ List.range' 1 9 := by
    intro x hx
    unfold unit_digits at hx
    obtain ⟨k, hk, rfl⟩ := List.mem_map.1 hx
    rw [List.mem_range] at hk
    rw [List.mem_range'_1]
    have h1 := hfull _ (hfn k hk)
    have h2 := hwf _ (hfn k hk)
    omega
  have hlen : (List.range' 1 9).length ≤ (unit_digits b idx_fn el).length := by
    unfold unit_digits
    simp
  have hperm := (List.subperm_of_subset hnodup hsub).perm_of_length_le hlen
  rw [hperm.count_eq]
  interval_cases d <;> rfl

theorem Solved_of_full (b : List Nat) (hwf : ∀ c < 81, DIGIT b c ≤ 9) (hnc : NoConflict b)
    (hfull : ∀ c < 81, DIGIT b c ≠ 0) : Solved b := by
  refine ⟨fun i hi => ⟨by have := hfull i hi; omega, hwf i hi⟩, ?_⟩
  intro el hel d hd9 hd1
  refine ⟨?_, ?_, ?_⟩
  · apply unit_digits_count b idx_row el (fun k hk => idx_row_lt hel hk) _ hwf hnc hfull d hd1
      (by omega)
    intro k hk k' hk' hne
    unfold peer idx_row INDEX BLOCK ROW COLUMN
    exact ⟨by omega, Or.inl (by omega)⟩
  · apply unit_digits_count b idx_column el (fun k hk => idx_column_lt hel hk) _ hwf hnc hfull
      d hd1 (by omega)
    intro k hk k' hk' hne
    unfold peer idx_column INDEX BLOCK ROW COLUMN
    exact ⟨by omega, Or.inr (Or.inl (by omega))⟩
  · apply unit_digits_count b idx_block el (fun k hk => idx_block_lt hel hk) _ hwf hnc hfull
      d hd1 (by omega)
    intro k hk k' hk' hne
    unfold peer idx_block INDEX BLOCK ROW COLUMN
    exact ⟨by omega, Or.inr (Or.inr (by omega))⟩

end Sudoku

namespace Sudoku

/-! ## Claim C1: a successful `solve` leaves a solved board -/

theorem qsort_model_perm (c : Nat → Nat → Int) (l : List Nat) : (qsort_model c l).Perm l :=
  List.perm_insertionSort _ l

theorem SolveInv_of_reapply (s : State) (hlen : s.history.length = 243)
    (h0 : 0 ≤ s.idx_history) (hle : s.idx_history ≤ 243)
    (hwf : WFHistory s.history s.idx_history.toNat) (hre : reapply s = (0, s)) :
    SolveInv s := by
  unfold reapply at hre
  simp only [Prod.mk.injEq] at hre
  have hb : s.board = (replay s.history s.idx_history.toNat).2 := by
    have := congrArg State.board hre.2
    exact this.symm
  have hh : HistInv s := ⟨hlen, h0, hle, hwf, hre.1⟩
  refine ⟨hh, ?_⟩
  rw [hb]
  exact Above_refl _ hh.replay_wf.len

/-- C1: for every starting state whose board is the valid replay of its history
(`reapply` returns 0 and rebuilds the same board; the records are well-formed and the
live part fits the array), and for every sorting function used as `qsort`, if `solve`
returns 0 then all 81 cells hold a digit 1..9 and every row, column and block contains
each digit 1..9 exactly once. -/
theorem solve_success_solved (qsort : (Nat → Nat → Int) → List Nat → List Nat)
    (hq : ∀ c l, (qsort c l).Perm l) (fuel : Nat) (s s' : State)
    (hlen : s.history.length = 243) (h0 : 0 ≤ s.idx_history) (hle : s.idx_history ≤ 243)
    (hwf : WFHistory s.history s.idx_history.toNat) (hre : reapply s = (0, s))
    (hs : solve qsort fuel s = some (0, s')) : Solved s'.board := by
  have h := SolveInv_of_reapply s hlen h0 hle hwf hre
  obtain ⟨h1, h2⟩ := solve_inv qsort hq fuel s s' h hs
  exact Solved_of_full s'.board h1.board_wf.digit_le h1.no_conflict
    (choice_done qsort s'.board h2)

/-- When the board is the valid replay of the live records, `reapply` changes nothing. -/
theorem reapply_of_replay (s : State) (n : Nat) (hn : s.idx_history = (n : Int))
    (h : replay s.history n = (0, s.board)) : reapply s = (0, s) := by
  cases s with
  | mk b hi i p =>
    dsimp only at hn h
    subst hn
    unfold reapply
    dsimp only
    rw [Int.toNat_ofNat, h]

/-- The replay of `a + b` records from the replay of the first `a`. -/
theorem replay_extend (hist : List Nat) (a b : Nat) (r1 r2 : Int × List Nat)
    (h1 : replay hist a = r1)
    (h2 : ((hist.drop a).take b).foldl reapply_step r1 = r2) :
    replay hist (a + b) = r2 := by
  unfold replay at h1 ⊢
  rw [List.take_add, List.foldl_append, h1, h2]

set_option maxRecDepth 100000 in
set_option maxHeartbeats 2000000 in
theorem replayed9_failing_eq :
    replay clued_failing.history 9 = (0, replayed9_failing) := by
  decide!

set_option maxRecDepth 100000 in
set_option maxHeartbeats 2000000 in
theorem replayed18_failing_eq :
    ((clued_failing.history.drop 9).take 9).foldl reapply_step (0, replayed9_failing) =
      (0, replayed18_failing) := by
  decide!

set_option maxRecDepth 100000 in
set_option maxHeartbeats 2000000 in
theorem replayed26_failing_eq :
    ((clued_failing.history.drop 18).take 8).foldl reapply_step (0, replayed18_failing) =
      (0, replayed26_failing) := by
  decide!

set_option maxRecDepth 100000 in
set_option maxHeartbeats 2000000 in
theorem replayed31_failing_eq :
    ((clued_failing.history.drop 26).take 5).foldl reapply_step (0, replayed26_failing) =
      (0, replayed31_failing) := by
  decide!

set_option maxRecDepth 100000 in
set_option maxHeartbeats 2000000 in
theorem replayed36_failing_eq :
    ((clued_failing.history.drop 31).take 5).foldl reapply_step (0, replayed31_failing) =
      (0, replayed36_failing) := by
  decide!

set_option maxRecDepth 100000 in
set_option maxHeartbeats 2000000 in
theorem replayed41_failing_eq :
    ((clued_failing.history.drop 36).take 5).foldl reapply_step (0, replayed36_failing) =
      (0, replayed41_failing) := by
  decide!

set_option maxRecDepth 100000 in
set_option maxHeartbeats 2000000 in
theorem replayed46_failing_eq :
    ((clued_failing.history.drop 41).take 5).foldl reapply_step (0, replayed41_failing) =
      (0, replayed46_failing) := by
  decide!

set_option maxRecDepth 100000 in
set_option maxHeartbeats 2000000 in
theorem replayed49_failing_eq :
    ((clued_failing.history.drop 46).take 3).foldl reapply_step (0, replayed46_failing) =
      (0, replayed49_failing) := by
  decide!

set_option maxRecDepth 100000 in
set_option maxHeartbeats 2000000 in
theorem replayed52_failing_eq :
    ((clued_failing.history.drop 49).take 3).foldl reapply_step (0, replayed49_failing) =
      (0, replayed52_failing) := by
  decide!

set_option maxRecDepth 100000 in
set_option maxHeartbeats 2000000 in
theorem replayed56_failing_eq :
    ((clued_failing.history.drop 52).take 4).foldl reapply_step (0, replayed52_failing) =
      (0, replayed56_failing) := by
  decide!

set_option maxRecDepth 100000 in
set_option maxHeartbeats 2000000 in
theorem replayed60_failing_eq :
    ((clued_failing.history.drop 56).take 4).foldl reapply_step (0, replayed56_failing) =
      (0, replayed60_failing) := by
  decide!

set_option maxRecDepth 100000 in
set_option maxHeartbeats 2000000 in
theorem replayed64_failing_eq :
    ((clued_failing.history.drop 60).take 4).foldl reapply_step (0, replayed60_failing) =
      (0, replayed64_failing) := by
  decide!

set_option maxRecDepth 100000 in
set_option maxHeartbeats 2000000 in
theorem replayed68_failing_eq :
    ((clued_failing.history.drop 64).take 4).foldl reapply_step (0, replayed64_failing) =
      (0, replayed68_failing) := by
  decide!

set_option maxRecDepth 100000 in
set_option maxHeartbeats 2000000 in
theorem replayed72_failing_eq :
    ((clued_failing.history.drop 68).take 4).foldl reapply_step (0, replayed68_failing) =
      (0, replayed72_failing) := by
  decide!

set_option maxRecDepth 100000 in
set_option maxHeartbeats 2000000 in
theorem replayed76_failing_eq :
    ((clued_failing.history.drop 72).take 4).foldl reapply_step (0, replayed72_failing) =
      (0, replayed76_failing) := by
  decide!

set_option maxRecDepth 100000 in
set_option maxHeartbeats 2000000 in
theorem replayed79_failing_eq :
    ((clued_failing.history.drop 76).take 3).foldl reapply_step (0, replayed76_failing) =
      (0, clued_failing.board) := by
  decide!

theorem replayed18_failing_replay :
    replay clued_failing.history 18 = (0, replayed18_failing) :=
  replay_extend clued_failing.history 9 9 (0, replayed9_failing) (0, replayed18_failing)
    replayed9_failing_eq replayed18_failing_eq

theorem replayed26_failing_replay :
    replay clued_failing.history 26 = (0, replayed26_failing) :=
  replay_extend clued_failing.history 18 8 (0, replayed18_failing) (0, replayed26_failing)
    replayed18_failing_replay replayed26_failing_eq

theorem replayed31_failing_replay :
    replay clued_failing.history 31 = (0, replayed31_failing) :=
  replay_extend clued_failing.history 26 5 (0, replayed26_failing) (0, replayed31_failing)
    replayed26_failing_replay replayed31_failing_eq

theorem replayed36_failing_replay :
    replay clued_failing.history 36 = (0, replayed36_failing) :=
  replay_extend clued_failing.history 31 5 (0, replayed31_failing) (0, replayed36_failing)
    replayed31_failing_replay replayed36_failing_eq

theorem replayed41_failing_replay :
    replay clued_failing.history 41 = (0, replayed41_failing) :=
  replay_extend clued_failing.history 36 5 (0, replayed36_failing) (0, replayed41_failing)
    replayed36_failing_replay replayed41_failing_eq

theorem replayed46_failing_replay :
    replay clued_failing.history 46 = (0, replayed46_failing) :=
  replay_extend clued_failing.history 41 5 (0, replayed41_failing) (0, replayed46_failing)
    replayed41_failing_replay replayed46_failing_eq

theorem replayed49_failing_replay :
    replay clued_failing.history 49 = (0, replayed49_failing) :=
  replay_extend clued_failing.history 46 3 (0, replayed46_failing) (0, replayed49_failing)
    replayed46_failing_replay replayed49_failing_eq

theorem replayed52_failing_replay :
    replay clued_failing.history 52 = (0, replayed52_failing) :=
  replay_extend clued_failing.history 49 3 (0, replayed49_failing) (0, replayed52_failing)
    replayed49_failing_replay replayed52_failing_eq

theorem replayed56_failing_replay :
    replay clued_failing.history 56 = (0, replayed56_failing) :=
  replay_extend clued_failing.history 52 4 (0, replayed52_failing) (0, replayed56_failing)
    replayed52_failing_replay replayed56_failing_eq

theorem replayed60_failing_replay :
    replay clued_failing.history 60 = (0, replayed60_failing) :=
  replay_extend clued_failing.history 56 4 (0, replayed56_failing) (0, replayed60_failing)
    replayed56_failing_replay replayed60_failing_eq

theorem replayed64_failing_replay :
    replay clued_failing.history 64 = (0, replayed64_failing) :=
  replay_extend clued_failing.history 60 4 (0, replayed60_failing) (0, replayed64_failing)
    replayed60_failing_replay replayed64_failing_eq

theorem replayed68_failing_replay :
    replay clued_failing.history 68 = (0, replayed68_failing) :=
  replay_extend clued_failing.history 64 4 (0, replayed64_failing) (0, replayed68_failing)
    replayed64_failing_replay replayed68_failing_eq

theorem replayed72_failing_replay :
    replay clued_failing.history 72 = (0, replayed72_failing) :=
  replay_extend clued_failing.history 68 4 (0, replayed68_failing) (0, replayed72_failing)
    replayed68_failing_replay replayed72_failing_eq

theorem replayed76_failing_replay :
    replay clued_failing.history 76 = (0, replayed76_failing) :=
  replay_extend clued_failing.history 72 4 (0, replayed72_failing) (0, replayed76_failing)
    replayed72_failing_replay replayed76_failing_eq

theorem replayed79_failing_replay :
    replay clued_failing.history 79 = (0, clued_failing.board) :=
  replay_extend clued_failing.history 76 3 (0, replayed76_failing) (0, clued_failing.board)
    replayed76_failing_replay replayed79_failing_eq

/-- The board of `clued_failing` is the valid replay of its 79 clues. -/
theorem clued_failing_replay :
    replay clued_failing.history (26 + 26 + 27) = (0, clued_failing.board) :=
  replayed79_failing_replay

end Sudoku

namespace Sudoku

/-! ## Counting in lists -/

theorem two_le_countP {α : Type} (p : α → Bool) (L : List α) (x y : α) (hx : x ∈ L)
    (hy : y ∈ L) (hxy : x ≠ y) (px : p x = true) (py : p y = true) : 2 ≤ L.countP p := by
  induction L with
  | nil => exact absurd hx (List.not_mem_nil x)
  | cons a L ih =>
    rw [List.countP_cons]
    rcases List.mem_cons.1 hx with rfl | hx'
    · rcases List.mem_cons.1 hy with rfl | hy'
      · exact absurd rfl hxy
      · have := List.countP_pos_iff.2 ⟨y, hy', py⟩
        simp only [px, if_true]
        omega
    · rcases List.mem_cons.1 hy with rfl | hy'
      · have := List.countP_pos_iff.2 ⟨x, hx', px⟩
        simp only [py, if_true]
        omega
      · have := ih hx' hy'
        omega

theorem three_le_countP {α : Type} (p : α → Bool) (L : List α) (x y z : α) (hx : x ∈ L)
    (hy : y ∈ L) (hz : z ∈ L) (hxy : x ≠ y) (hxz : x ≠ z) (hyz : y ≠ z)
    (px : p x = true) (py : p y = true) (pz : p z = true) : 3 ≤ L.countP p := by
  induction L with
  | nil => exact absurd hx (List.not_mem_nil x)
  | cons a L ih =>
    rw [List.countP_cons]
    rcases List.mem_cons.1 hx with rfl | hx'
    · have hy' : y ∈ L := (List.mem_cons.1 hy).resolve_left (fun h => hxy h.symm)
      have hz' : z ∈ L := (List.mem_cons.1 hz).resolve_left (fun h => hxz h.symm)
      have := two_le_countP p L y z hy' hz' hyz py pz
      simp only [px, if_true]
      omega
    · rcases List.mem_cons.1 hy with rfl | hy'
      · have hz' : z ∈ L := (List.mem_cons.1 hz).resolve_left (fun h => hyz h.symm)
        have := two_le_countP p L x z hx' hz' hxz px pz
        simp only [py, if_true]
        omega
      · rcases List.mem_cons.1 hz with rfl | hz'
        · have := two_le_countP p L x y hx' hy' hxy px py
          simp only [pz, if_true]
          omega
        · have := ih hx' hy' hz'
          omega

theorem countP_eq_one_unique {α : Type} (p : α → Bool) (L : List α) (h : L.countP p = 1)
    (x y : α) (hx : x ∈ L) (hy : y ∈ L) (px : p x = true) (py : p y = true) : x = y := by
  by_contra hxy
  have := two_le_countP p L x y hx hy hxy px py
  omega

/-! ## Facts about complete valid grids -/

theorem Solved.digit_ge {G : List Nat} (h : Solved G) (i : Nat) (hi : i < 81) :
    1 ≤ DIGIT G i := (h.1 i hi).1

theorem Solved.digit_le9 {G : List Nat} (h : Solved G) (i : Nat) (hi : i < 81) :
    DIGIT G i ≤ 9 := (h.1 i hi).2

theorem unit_count_two (G : List Nat) (idx_fn : Nat → Nat → Nat) (el k k' : Nat) (hk : k < 9)
    (hk' : k' < 9) (hne : k ≠ k') (heq : DIGIT G (idx_fn el k) = DIGIT G (idx_fn el k')) :
    2 ≤ (unit_digits G idx_fn el).count (DIGIT G (idx_fn el k)) := by
  unfold unit_digits
  rw [List.count, List.countP_map]
  apply two_le_countP _ _ k k' (List.mem_range.2 hk) (List.mem_range.2 hk') hne
  · simp
  · simp [heq]

/-- In a complete valid grid two distinct cells that see each other hold different
digits. -/
theorem Solved.no_conflict_grid {G : List Nat} (h : Solved G) : NoConflict G := by
  intro i hi j hj hij hp _ heq
  have hd1 := h.digit_ge i hi
  have hd9 := h.digit_le9 i hi
  unfold peer at hp
  rcases hp with hp | hp | hp
  · have h1 : idx_row (ROW i) (COLUMN i) = i := by
      unfold idx_row INDEX ROW COLUMN; omega
    have h2 : idx_row (ROW i) (COLUMN j) = j := by
      unfold idx_row INDEX ROW COLUMN at *; omega
    have hc := unit_count_two G idx_row (ROW i) (COLUMN i) (COLUMN j)
      (by unfold COLUMN; omega) (by unfold COLUMN; omega)
      (by unfold ROW COLUMN at *; omega) (by rw [h1, h2]; exact heq)
    rw [h1] at hc
    have := (h.2 (ROW i) (by unfold ROW; omega) (DIGIT G i) (by omega) hd1).1
    omega
  · have h1 : idx_column (COLUMN i) (ROW i) = i := by
      unfold idx_column INDEX ROW COLUMN; omega
    have h2 : idx_column (COLUMN i) (ROW j) = j := by
      unfold idx_column INDEX ROW COLUMN at *; omega
    have hc := unit_count_two G idx_column (COLUMN i) (ROW i) (ROW j)
      (by unfold ROW; omega) (by unfold ROW; omega)
      (by unfold ROW COLUMN at *; omega) (by rw [h1, h2]; exact heq)
    rw [h1] at hc
    have := (h.2 (COLUMN i) (by unfold COLUMN; omega) (DIGIT G i) (by omega) hd1).2.1
    omega
  · have h1 : idx_block (BLOCK i) (3 * (i / 9 % 3) + i % 9 % 3) = i := by
      unfold idx_block INDEX BLOCK ROW COLUMN; omega
    have h2 : idx_block (BLOCK i) (3 * (j / 9 % 3) + j % 9 % 3) = j := by
      unfold idx_block INDEX BLOCK ROW COLUMN at *; omega
    have hc := unit_count_two G idx_block (BLOCK i) (3 * (i / 9 % 3) + i % 9 % 3)
      (3 * (j / 9 % 3) + j % 9 % 3) (by omega) (by omega)
      (by unfold BLOCK ROW COLUMN at *; omega) (by rw [h1, h2]; exact heq)
    rw [h1] at hc
    have := (h.2 (BLOCK i) (by unfold BLOCK ROW COLUMN; omega) (DIGIT G i) (by omega) hd1).2.2
    omega

theorem unit_count_mem (G : List Nat) (idx_fn : Nat → Nat → Nat) (el d : Nat)
    (h : (unit_digits G idx_fn el).count d = 1) : ∃ k < 9, DIGIT G (idx_fn el k) = d := by
  have hm : d ∈ unit_digits G idx_fn el := List.count_pos_iff.1 (by omega)
  unfold unit_digits at hm
  obtain ⟨k, hk, hkd⟩ := List.mem_map.1 hm
  exact ⟨k, List.mem_range.1 hk, hkd⟩

/-- In a complete valid grid every row holds every digit. -/
theorem Solved.row_has {G : List Nat} (h : Solved G) (el d : Nat) (hel : el < 9) (hd1 : 1 ≤ d)
    (hd9 : d ≤ 9) : ∃ k < 9, DIGIT G (idx_row el k) = d :=
  unit_count_mem G idx_row el d (h.2 el hel d (by omega) hd1).1

/-- In a complete valid grid every column holds every digit. -/
theorem Solved.column_has {G : List Nat} (h : Solved G) (el d : Nat) (hel : el < 9)
    (hd1 : 1 ≤ d) (hd9 : d ≤ 9) : ∃ k < 9, DIGIT G (idx_column el k) = d :=
  unit_count_mem G idx_column el d (h.2 el hel d (by omega) hd1).2.1

/-- In a complete valid grid every block holds every digit. -/
theorem Solved.block_has {G : List Nat} (h : Solved G) (el d : Nat) (hel : el < 9)
    (hd1 : 1 ≤ d) (hd9 : d ≤ 9) : ∃ k < 9, DIGIT G (idx_block el k) = d :=
  unit_count_mem G idx_block el d (h.2 el hel d (by omega) hd1).2.2

/-! ## Grids consistent with a board -/

theorem Cons_empty (G : List Nat) : Cons G (List.replicate 81 0) := by
  intro i _
  refine ⟨fun h => absurd (DIGIT_replicate i) h, fun _ => DISALLOWED_replicate i _⟩

/-- Placing the digit that the grid holds at a cell keeps the grid consistent. -/
theorem Cons_place (G b : List Nat) (idx w : Nat) (hG : Solved G) (hb : b.length = 81)
    (hc : Cons G b) (hidx : idx < 81) (hw : GET_DIGIT w = DIGIT G idx) :
    Cons G (update (wr b idx w) idx) := by
  have hd1 : 1 ≤ GET_DIGIT w := by rw [hw]; exact hG.digit_ge idx hidx
  have hd9 : GET_DIGIT w ≤ 9 := by rw [hw]; exact hG.digit_le9 idx hidx
  intro i hi
  rw [place_DIGIT b idx w i hb hidx hd1 hd9]
  by_cases hii : i = idx
  · subst hii
    rw [if_pos rfl]
    exact ⟨fun _ => hw.symm, fun h => by omega⟩
  · rw [if_neg hii]
    refine ⟨(hc i hi).1, ?_⟩
    intro hempty
    by_contra hdis
    have hdis' := (place_DISALLOWED_other b idx w i _ hb hidx hd1 hd9 hii).1 hdis
    rcases hdis' with h | ⟨_, hp, heq⟩
    · exact h ((hc i hi).2 hempty)
    · have := hG.no_conflict_grid i hi idx hidx hii (peer_symm hp)
        (by have := hG.digit_ge i hi; omega)
      rw [hw] at heq
      exact this heq

/-- Adding mask bits that do not exclude the grid's digit keeps the grid consistent. -/
theorem Cons_or (G b : List Nat) (k m : Nat) (hm : inState m) (hc : Cons G b)
    (hk : k < 81 → DIGIT b k = 0 → m &&& DIGIT_STATE (DIGIT G k) = 0) :
    Cons G (wr b k (rd b k ||| m)) := by
  intro i hi
  have hdig : DIGIT (wr b k (rd b k ||| m)) i = DIGIT b i := by
    unfold DIGIT
    rw [rd_wr]
    split
    · rename_i h
      rw [← h.1]
      exact GET_DIGIT_or _ _ (inState_and_DIGIT_MASK m hm)
    · rfl
  rw [hdig]
  refine ⟨(hc i hi).1, ?_⟩
  intro hempty
  unfold DISALLOWED
  rw [rd_wr]
  split
  · rename_i h
    obtain ⟨rfl, _⟩ := h
    have h1 := (hc k hi).2 hempty
    have h2 := hk hi hempty
    unfold DISALLOWED at h1
    rw [and_DIGIT_STATE_eq_zero] at h1 h2 ⊢
    rw [Nat.testBit_or, h1, h2]
    rfl
  · exact (hc i hi).2 hempty

/-- A grid consistent with a board is consistent with every board below it. -/
theorem Cons_Above (G b b' : List Nat) (hG : Solved G) (hc : Cons G b') (hab : Above b' b) :
    Cons G b := by
  intro i hi
  rw [← (hab.2 i hi).1]
  refine ⟨(hc i hi).1, ?_⟩
  intro hempty
  by_contra hdis
  exact (hab.2 i hi).2 _ (hG.digit_ge i hi) (hG.digit_le9 i hi) hdis ((hc i hi).2 hempty)

end Sudoku

namespace Sudoku

/-! ## `numset` and `count_set_digits` count mask bits -/

theorem rdi_wri (a : List Int) (i j : Nat) (v : Int) :
    rdi (wri a i v) j = if i = j ∧ i < a.length then v else rdi a j := by
  unfold rdi wri
  rw [List.getD_eq_getElem?_getD, List.getD_eq_getElem?_getD, List.getElem?_set]
  by_cases hij : i = j
  · subst hij
    by_cases hl : i < a.length
    · simp [hl]
    · have : a[i]? = none := List.getElem?_eq_none (by omega)
      simp [hl, this]
  · simp [hij]

theorem length_wri (a : List Int) (i : Nat) (v : Int) : (wri a i v).length = a.length := by
  simp [wri]

theorem numset_bit (x t : Nat) :
    x &&& (1 <<< (STATE_SHIFT + 1 + t)) ≠ 0 ↔ x.testBit (7 + t) = true := by
  have : STATE_SHIFT + 1 + t = 7 + t := by unfold STATE_SHIFT; omega
  rw [this, Nat.one_shiftLeft, and_two_pow_ne_zero]

theorem DISALLOWED_eq_zero_iff (b : List Nat) (idx d : Nat) :
    DISALLOWED b idx d = 0 ↔ (rd b idx).testBit (6 + d) = false := by
  unfold DISALLOWED
  exact and_DIGIT_STATE_eq_zero _ _

theorem DISALLOWED_ne_zero_iff (b : List Nat) (idx d : Nat) :
    DISALLOWED b idx d ≠ 0 ↔ (rd b idx).testBit (6 + d) = true := by
  unfold DISALLOWED
  exact and_DIGIT_STATE_ne_zero _ _

theorem numset_step_fst (x : Nat) (L : List Nat) (acc : Nat × List Nat) :
    (L.foldl (numset_step x) acc).1 = acc.1 + L.countP (fun t => x.testBit (7 + t)) := by
  induction L generalizing acc with
  | nil => simp
  | cons t L ih =>
    rw [List.foldl_cons, ih, List.countP_cons]
    unfold numset_step
    dsimp only
    by_cases hb : x.testBit (7 + t) = true
    · rw [if_pos ((numset_bit x t).2 hb)]
      simp only [hb, if_true]
      omega
    · rw [if_neg (fun h => hb ((numset_bit x t).1 h))]
      simp only [hb]
      simp

theorem numset_step_snd_length (x : Nat) (L : List Nat) (acc : Nat × List Nat) :
    (L.foldl (numset_step x) acc).2.length = acc.2.length := by
  induction L generalizing acc with
  | nil => rfl
  | cons t L ih =>
    rw [List.foldl_cons, ih]
    unfold numset_step
    dsimp only
    split
    · rfl
    · rw [length_wr]

theorem numset_step_snd (x : Nat) (L : List Nat) (acc : Nat × List Nat) (c : Nat)
    (hL : L.Nodup) (hlen : ∀ t ∈ L, t < acc.2.length) :
    rd (L.foldl (numset_step x) acc).2 c =
      rd acc.2 c + (if c ∈ L ∧ x.testBit (7 + c) = false then 1 else 0) := by
  induction L generalizing acc with
  | nil => simp
  | cons t L ih =>
    rw [List.foldl_cons]
    have hnd := List.nodup_cons.1 hL
    have hstep_len : (numset_step x acc t).2.length = acc.2.length := by
      unfold numset_step
      dsimp only
      split
      · rfl
      · rw [length_wr]
    rw [ih _ hnd.2 (fun u hu => by rw [hstep_len]; exact hlen u (List.mem_cons_of_mem _ hu))]
    have ht := hlen t (List.mem_cons_self _ _)
    have hidx : STATE_SHIFT + 1 + t - STATE_SHIFT - 1 = t := by unfold STATE_SHIFT; omega
    unfold numset_step
    dsimp only
    rw [hidx]
    by_cases hb : x.testBit (7 + t) = true
    · rw [if_pos ((numset_bit x t).2 hb)]
      dsimp only
      by_cases hct : c = t
      · subst hct
        have h1 : ¬ (c ∈ L ∧ x.testBit (7 + c) = false) := fun h => hnd.1 h.1
        have h2 : ¬ (c ∈ c :: L ∧ x.testBit (7 + c) = false) := by
          rintro ⟨_, h⟩
          rw [hb] at h
          exact absurd h (by decide)
        rw [if_neg h1, if_neg h2]
      · have : (c ∈ t :: L ∧ x.testBit (7 + c) = false) ↔ (c ∈ L ∧ x.testBit (7 + c) = false) := by
          rw [List.mem_cons]
          constructor
          · rintro ⟨h | h, h'⟩
            · exact absurd h hct
            · exact ⟨h, h'⟩
          · rintro ⟨h, h'⟩
            exact ⟨Or.inr h, h'⟩
        simp only [this]
    · rw [if_neg (fun h => hb ((numset_bit x t).1 h))]
      dsimp only
      have hbf : x.testBit (7 + t) = false := by simpa using hb
      by_cases hct : c = t
      · subst hct
        have h1 : ¬ (c ∈ L ∧ x.testBit (7 + c) = false) := fun h => hnd.1 h.1
        have h2 : (c ∈ c :: L ∧ x.testBit (7 + c) = false) := ⟨List.mem_cons_self _ _, hbf⟩
        rw [if_neg h1, if_pos h2, rd_wr_self _ _ _ ht]
      · have : (c ∈ t :: L ∧ x.testBit (7 + c) = false) ↔ (c ∈ L ∧ x.testBit (7 + c) = false) := by
          rw [List.mem_cons]
          constructor
          · rintro ⟨h | h, h'⟩
            · exact absurd h hct
            · exact ⟨h, h'⟩
          · rintro ⟨h, h'⟩
            exact ⟨Or.inr h, h'⟩
        simp only [this]
        rw [rd_wr_ne _ _ _ _ (fun h => hct h.symm)]

/-- The value of `numset`: the number of set bits among bits 7..15. -/
theorem numset_fst (counts : List Nat) (x : Nat) :
    (numset counts x).1 = (List.range 9).countP (fun t => x.testBit (7 + t)) := by
  unfold numset
  rw [numset_step_fst]
  simp

theorem numset_snd_length (counts : List Nat) (x : Nat) :
    (numset counts x).2.length = counts.length := by
  unfold numset
  exact numset_step_snd_length _ _ _

/-- The side effect of `numset`: `counts[c]` is incremented for every clear bit. -/
theorem numset_snd (counts : List Nat) (x c : Nat) (hlen : counts.length = 9) :
    rd (numset counts x).2 c =
      rd counts c + (if c < 9 ∧ x.testBit (7 + c) = false then 1 else 0) := by
  unfold numset
  rw [numset_step_snd x _ _ c (List.nodup_range 9)
    (fun t ht => by rw [hlen]; exact List.mem_range.1 ht)]
  simp only [List.mem_range]

theorem count_set_digits_step_length (board : List Nat) (el : Nat) (idx_fn : Nat → Nat → Nat)
    (L : List Nat) (acc : List Int × List Nat) :
    (L.foldl (count_set_digits_step board el idx_fn) acc).1.length = acc.1.length ∧
      (L.foldl (count_set_digits_step board el idx_fn) acc).2.length = acc.2.length := by
  induction L generalizing acc with
  | nil => exact ⟨rfl, rfl⟩
  | cons i L ih =>
    rw [List.foldl_cons]
    obtain ⟨h1, h2⟩ := ih (count_set_digits_step board el idx_fn acc i)
    unfold count_set_digits_step at h1 h2
    dsimp only at h1 h2
    rw [length_wri] at h1
    rw [numset_snd_length] at h2
    exact ⟨h1, h2⟩

theorem count_set_digits_step_counts (board : List Nat) (el : Nat) (idx_fn : Nat → Nat → Nat)
    (L : List Nat) (acc : List Int × List Nat) (c : Nat) (hc : c < 9)
    (hlen : acc.2.length = 9) :
    rd (L.foldl (count_set_digits_step board el idx_fn) acc).2 c =
      rd acc.2 c + L.countP (fun i => !(rd board (idx_fn el i)).testBit (7 + c)) := by
  induction L generalizing acc with
  | nil => simp
  | cons i L ih =>
    rw [List.foldl_cons, ih _ (by
      unfold count_set_digits_step
      dsimp only
      rw [numset_snd_length, hlen]), List.countP_cons]
    unfold count_set_digits_step
    dsimp only
    rw [numset_snd _ _ _ hlen]
    by_cases hb : (rd board (idx_fn el i)).testBit (7 + c) = false
    · simp only [hc, hb, and_self, if_true, Bool.not_false]
      omega
    · have hbt : (rd board (idx_fn el i)).testBit (7 + c) = true := by simpa using hb
      simp only [hbt, and_false, if_false, Bool.not_true]
      simp

theorem count_set_digits_step_digits (board : List Nat) (el : Nat) (idx_fn : Nat → Nat → Nat)
    (L : List Nat) (acc : List Int × List Nat) (i : Nat) (hi : i ∈ L) (hL : L.Nodup)
    (hlen : ∀ j ∈ L, j < acc.1.length) :
    rdi (L.foldl (count_set_digits_step board el idx_fn) acc).1 i =
      ((List.range 9).countP (fun t => (rd board (idx_fn el i)).testBit (7 + t)) : Nat) := by
  induction L generalizing acc with
  | nil => exact absurd hi (List.not_mem_nil i)
  | cons j L ih =>
    rw [List.foldl_cons]
    have hnd := List.nodup_cons.1 hL
    have hlen1 : (count_set_digits_step board el idx_fn acc j).1.length = acc.1.length := by
      unfold count_set_digits_step
      dsimp only
      rw [length_wri]
    rcases List.mem_cons.1 hi with rfl | hi'
    · -- `i` is processed now and not touched later
      have key : ∀ (M : List Nat) (a : List Int × List Nat), i ∉ M →
          rdi (M.foldl (count_set_digits_step board el idx_fn) a).1 i = rdi a.1 i := by
        intro M
        induction M with
        | nil => intro a _; rfl
        | cons m M ihM =>
          intro a hm
          rw [List.foldl_cons, ihM _ (fun h => hm (List.mem_cons_of_mem _ h))]
          unfold count_set_digits_step
          dsimp only
          rw [rdi_wri, if_neg]
          rintro ⟨h, _⟩
          exact hm (by rw [h]; exact List.mem_cons_self _ _)
      rw [key L _ hnd.1]
      unfold count_set_digits_step
      dsimp only
      rw [rdi_wri, if_pos ⟨rfl, hlen i (List.mem_cons_self _ _)⟩, numset_fst]
    · exact ih _ hi' hnd.2 (fun k hk => by
        rw [hlen1]
        exact hlen k (List.mem_cons_of_mem _ hk))

/-- The array `counts` after `count_set_digits`: `counts[c]` is the number of cells of the
element in which the bit of digit `c + 1` is clear. -/
theorem count_set_digits_counts (board : List Nat) (el : Nat) (idx_fn : Nat → Nat → Nat)
    (c : Nat) (hc : c < 9) :
    rd (count_set_digits board el idx_fn).2 c =
      (List.range 9).countP (fun i => !(rd board (idx_fn el i)).testBit (7 + c)) := by
  unfold count_set_digits
  rw [count_set_digits_step_counts _ _ _ _ _ c hc (by simp), rd_replicate]
  simp

/-- The array `digits` after `count_set_digits`: `digits[i]` is the number of mask bits
set in cell `i` of the element. -/
theorem count_set_digits_digits (board : List Nat) (el : Nat) (idx_fn : Nat → Nat → Nat)
    (i : Nat) (hi : i < 9) :
    rdi (count_set_digits board el idx_fn).1 i =
      ((List.range 9).countP (fun t => (rd board (idx_fn el i)).testBit (7 + t)) : Nat) := by
  unfold count_set_digits
  exact count_set_digits_step_digits _ _ _ _ _ i (List.mem_range.2 hi) (List.nodup_range 9)
    (fun j hj => by simp; exact List.mem_range.1 hj)

end Sudoku

namespace Sudoku

/-! ## Soundness of `singles` for grids consistent with the board -/

theorem peer_idx_row (el k k' : Nat) (hk : k < 9) (hk' : k' < 9) :
    peer (idx_row el k) (idx_row el k') := by
  unfold peer idx_row INDEX ROW
  left
  omega

theorem peer_idx_column (el k k' : Nat) :
    peer (idx_column el k) (idx_column el k') := by
  unfold peer idx_column INDEX COLUMN
  right; left
  omega

theorem peer_idx_block (el k k' : Nat) (hk : k < 9) (hk' : k' < 9) :
    peer (idx_block el k) (idx_block el k') := by
  unfold peer idx_block INDEX BLOCK ROW COLUMN
  right; right
  omega

theorem singles_digit_zero (fuel d : Nat) : singles_digit fuel 0 d = d := by
  cases fuel with
  | zero => rfl
  | succ f => simp [singles_digit]

theorem singles_digit_two_pow (fuel k d : Nat) (hk : k < fuel) :
    singles_digit fuel (2 ^ k) d = d + k + 1 := by
  induction fuel generalizing k d with
  | zero => omega
  | succ fuel ih =>
    unfold singles_digit
    rw [if_pos (by positivity)]
    cases k with
    | zero =>
      have : (2 ^ 0) >>> 1 = 0 := by decide
      rw [this, singles_digit_zero]
    | succ k =>
      have : (2 ^ (k + 1)) >>> 1 = 2 ^ k := by
        rw [Nat.shiftRight_eq_div_pow, Nat.pow_succ]
        simp
      rw [this, ih k (d + 1) (by omega)]
      omega

theorem countP_eight_unique (p : Nat → Bool) (h : (List.range 9).countP p = 8) :
    ∃ t0 < 9, p t0 = false ∧ ∀ t < 9, p t = false → t = t0 := by
  have hlen := List.length_eq_countP_add_countP p (List.range 9)
  rw [List.length_range, h] at hlen
  have h1 : (List.range 9).countP (fun a => !p a) = 1 := by
    have : (List.range 9).countP (fun a => decide ¬p a = true) =
        (List.range 9).countP (fun a => !p a) := by
      congr 1
      funext a
      cases p a <;> rfl
    omega
  have hpos : 0 < (List.range 9).countP (fun a => !p a) := by omega
  obtain ⟨t0, ht0, hp0⟩ := List.countP_pos_iff.1 hpos
  refine ⟨t0, List.mem_range.1 ht0, by simpa using hp0, ?_⟩
  intro t ht hpt
  exact countP_eq_one_unique _ _ h1 t t0 (List.mem_range.2 ht) ht0 (by simp [hpt]) hp0

theorem square_mask (x t0 : Nat) (ht0 : t0 < 9)
    (hu : ∀ t < 9, x.testBit (7 + t) = false ↔ t = t0) :
    (STATE_MASK &&& (0xffffffff ^^^ (x &&& STATE_MASK))) >>> (STATE_SHIFT + 1) = 2 ^ t0 := by
  apply Nat.eq_of_testBit_eq
  intro i
  have h32 : (0xffffffff : Nat) = 2 ^ 32 - 1 := by decide
  have hs : STATE_SHIFT + 1 = 7 := by decide
  rw [hs, Nat.testBit_shiftRight, Nat.testBit_and, Nat.testBit_xor, Nat.testBit_and,
    testBit_STATE_MASK, h32, Nat.testBit_two_pow_sub_one, Nat.testBit_two_pow]
  by_cases hi : i < 9
  · have := hu i hi
    by_cases hb : x.testBit (7 + i) = false
    · have hit := this.1 hb
      have h1 : 7 ≤ 7 + i := by omega
      have h2 : 7 + i < 16 := by omega
      have h3 : 7 + i < 32 := by omega
      subst hit
      simp [h2, h3, hb]
    · have hne : ¬ i = t0 := fun h => hb (this.2 h)
      have hbt : x.testBit (7 + i) = true := by simpa using hb
      have h1 : 7 ≤ 7 + i := by omega
      have h2 : 7 + i < 16 := by omega
      have h3 : 7 + i < 32 := by omega
      have hne' : ¬ t0 = i := fun h => hne h.symm
      simp [h1, h2, h3, hbt, hne']
  · have h2 : ¬ 7 + i < 16 := by omega
    have hne' : ¬ t0 = i := by omega
    simp [h2, hne']

theorem Forced_word (G : List Nat) (idx d hintcode : Nat) (hidx : idx < 81) (hd9 : d ≤ 9)
    (h1 : hintcode &&& INDEX_MASK = 0) (h2 : hintcode &&& DIGIT_MASK = 0)
    (hd : d = DIGIT G idx) : Forced G (SET_INDEX idx ||| SET_DIGIT d ||| hintcode) := by
  unfold Forced
  rw [record_index _ _ _ (by omega) h1, record_digit _ _ _ (by omega) (by omega) h2]
  exact ⟨hidx, hd⟩

/-- The first `if` of the loop body of `singles` does not fire on a board that has a
completion. -/
theorem singles_contra (G b : List Nat) (el : Nat) (idx_fn : Nat → Nat → Nat)
    (hc : Cons G b) (hlt : ∀ k < 9, idx_fn el k < 81)
    (hhas : ∀ d, 1 ≤ d → d ≤ 9 → ∃ k < 9, DIGIT G (idx_fn el k) = d)
    (c : Nat) (hc9 : c < 9) :
    ¬ (rd (count_set_digits b el idx_fn).2 c = 0 ∧
      ¬ (List.range 9).any (fun j => DIGIT b (idx_fn el j) == c + 1)) := by
  rintro ⟨h0, hany⟩
  obtain ⟨k, hk, hGk⟩ := hhas (c + 1) (by omega) (by omega)
  have hck := hc (idx_fn el k) (hlt k hk)
  by_cases he : DIGIT b (idx_fn el k) = 0
  · have hd := hck.2 he
    rw [hGk, DISALLOWED_eq_zero_iff] at hd
    rw [count_set_digits_counts _ _ _ c hc9] at h0
    have hpos : 0 < (List.range 9).countP
        (fun i => !(rd b (idx_fn el i)).testBit (7 + c)) := by
      apply List.countP_pos_iff.2
      refine ⟨k, List.mem_range.2 hk, ?_⟩
      have : 6 + (c + 1) = 7 + c := by omega
      rw [this] at hd
      simp [hd]
    omega
  · apply hany
    rw [List.any_eq_true]
    refine ⟨k, List.mem_range.2 hk, ?_⟩
    rw [← hck.1 he, hGk]
    simp

/-- A hidden single recorded by `singles` is the digit of every completion. -/
theorem singles_position_sound (G b : List Nat) (el : Nat) (idx_fn : Nat → Nat → Nat)
    (hintcode : Nat) (hwf : BoardWF b) (hc : Cons G b) (hlt : ∀ k < 9, idx_fn el k < 81)
    (hpeer : ∀ k < 9, ∀ j < 9, peer (idx_fn el k) (idx_fn el j))
    (hhas : ∀ d, 1 ≤ d → d ≤ 9 → ∃ k < 9, DIGIT G (idx_fn el k) = d)
    (h1 : hintcode &&& INDEX_MASK = 0) (h2 : hintcode &&& DIGIT_MASK = 0)
    (c : Nat) (hc9 : c < 9) (possible : List Nat) (hp : ∀ p ∈ possible, Forced G p) :
    ∀ p ∈ singles_position b el idx_fn hintcode (count_set_digits b el idx_fn).2 c possible,
      Forced G p := by
  unfold singles_position
  split
  · rename_i hcnt
    split
    · rename_i j hj
      have hj9 := List.mem_range.1 (List.mem_of_find?_eq_some hj)
      have hjp := List.find?_some hj
      have hjd : DISALLOWED b (idx_fn el j) (c + 1) = 0 := by simpa using hjp
      intro p hp'
      rcases List.mem_append.1 hp' with h | h
      · exact hp p h
      · rw [List.mem_singleton] at h
        rw [h]
        apply Forced_word G _ _ _ (hlt j hj9) (by omega) h1 h2
        obtain ⟨k, hk, hGk⟩ := hhas (c + 1) (by omega) (by omega)
        have hck := hc (idx_fn el k) (hlt k hk)
        have h76 : 6 + (c + 1) = 7 + c := by omega
        by_cases he : DIGIT b (idx_fn el k) = 0
        · have hd := hck.2 he
          rw [hGk, DISALLOWED_eq_zero_iff, h76] at hd
          rw [DISALLOWED_eq_zero_iff, h76] at hjd
          have hcount := hcnt.1
          rw [count_set_digits_counts _ _ _ c hc9] at hcount
          have := countP_eq_one_unique _ _ hcount k j (List.mem_range.2 hk)
            (List.mem_range.2 hj9) (by simp [hd]) (by simp [hjd])
          rw [← this, hGk]
        · exfalso
          have hs := hwf.seen (idx_fn el k) (hlt k hk) (idx_fn el j) (hlt j hj9)
            (hpeer k hk j hj9) he
          rw [← hck.1 he, hGk] at hs
          exact hs hjd
    · exact hp
  · exact hp

/-- A naked single recorded by `singles` is the digit of every completion. -/
theorem singles_square_sound (G b : List Nat) (el : Nat) (idx_fn : Nat → Nat → Nat)
    (hintcode : Nat) (hG : Solved G) (hwf : BoardWF b) (hc : Cons G b)
    (hlt : ∀ k < 9, idx_fn el k < 81)
    (h1 : hintcode &&& INDEX_MASK = 0) (h2 : hintcode &&& DIGIT_MASK = 0)
    (i : Nat) (hi : i < 9) (possible : List Nat) (hp : ∀ p ∈ possible, Forced G p) :
    ∀ p ∈ singles_square b el idx_fn hintcode (count_set_digits b el idx_fn).1 i possible,
      Forced G p := by
  unfold singles_square
  dsimp only
  split
  · rename_i hd8
    have h8 := hd8.1
    rw [count_set_digits_digits _ _ _ i hi] at h8
    have h8' : (List.range 9).countP (fun t => (rd b (idx_fn el i)).testBit (7 + t)) = 8 := by
      exact_mod_cast h8
    obtain ⟨t0, ht0, hpt0, huniq⟩ := countP_eight_unique _ h8'
    have hidx := hlt i hi
    have hempty : DIGIT b (idx_fn el i) = 0 := by
      by_contra hne
      have := hwf.full _ hidx hne (t0 + 1) (by omega) (by omega)
      rw [DISALLOWED_ne_zero_iff] at this
      have h76 : 6 + (t0 + 1) = 7 + t0 := by omega
      rw [h76] at this
      rw [this] at hpt0
      exact absurd hpt0 (by decide)
    have hGd := (hc _ hidx).2 hempty
    rw [DISALLOWED_eq_zero_iff] at hGd
    have hg1 := hG.digit_ge _ hidx
    have hg9 := hG.digit_le9 _ hidx
    have hgt : DIGIT G (idx_fn el i) - 1 = t0 := by
      apply huniq _ (by omega)
      dsimp only
      have : 7 + (DIGIT G (idx_fn el i) - 1) = 6 + DIGIT G (idx_fn el i) := by omega
      rw [this]
      exact hGd
    have hmask := square_mask (rd b (idx_fn el i)) t0 ht0 (by
      intro t ht
      constructor
      · intro h
        exact huniq t ht h
      · intro h
        rw [h]
        exact hpt0)
    have hdig : singles_digit 32 ((STATE_MASK &&& (0xffffffff ^^^ STATE b (idx_fn el i))) >>>
        (STATE_SHIFT + 1)) 0 = DIGIT G (idx_fn el i) := by
      unfold STATE
      rw [hmask, singles_digit_two_pow 32 t0 0 (by omega)]
      omega
    rw [hdig]
    split
    · intro p hp'
      rcases List.mem_append.1 hp' with h | h
      · exact hp p h
      · rw [List.mem_singleton] at h
        rw [h]
        exact Forced_word G _ _ _ hidx hg9 h1 h2 rfl
    · exact hp
  · exact hp

theorem singles_loop_sound (G b : List Nat) (el : Nat) (idx_fn : Nat → Nat → Nat)
    (hintcode : Nat) (hG : Solved G) (hwf : BoardWF b) (hc : Cons G b)
    (hlt : ∀ k < 9, idx_fn el k < 81)
    (hpeer : ∀ k < 9, ∀ j < 9, peer (idx_fn el k) (idx_fn el j))
    (hhas : ∀ d, 1 ≤ d → d ≤ 9 → ∃ k < 9, DIGIT G (idx_fn el k) = d)
    (h1 : hintcode &&& INDEX_MASK = 0) (h2 : hintcode &&& DIGIT_MASK = 0)
    (fuel i : Nat) (hfuel : 9 ≤ i + fuel) (possible : List Nat)
    (hp : ∀ p ∈ possible, Forced G p) :
    9 ≤ (singles_loop b el idx_fn hintcode (count_set_digits b el idx_fn).1
        (count_set_digits b el idx_fn).2 fuel i possible).1 ∧
      ∀ p ∈ (singles_loop b el idx_fn hintcode (count_set_digits b el idx_fn).1
        (count_set_digits b el idx_fn).2 fuel i possible).2, Forced G p := by
  induction fuel generalizing i possible with
  | zero =>
    unfold singles_loop
    exact ⟨by simpa using hfuel, hp⟩
  | succ fuel ih =>
    unfold singles_loop
    by_cases hi : i < 9
    · rw [if_pos hi]
      dsimp only
      rw [if_neg (singles_contra G b el idx_fn hc hlt hhas i hi)]
      apply ih (i + 1) (by omega)
      apply singles_square_sound G b el idx_fn hintcode hG hwf hc hlt h1 h2 i hi
      exact singles_position_sound G b el idx_fn hintcode hwf hc hlt hpeer hhas h1 h2 i hi
        possible hp
    · rw [if_neg hi]
      exact ⟨by omega, hp⟩

theorem singles_sound (G b : List Nat) (el : Nat) (idx_fn : Nat → Nat → Nat)
    (hintcode : Nat) (hG : Solved G) (hwf : BoardWF b) (hc : Cons G b)
    (hlt : ∀ k < 9, idx_fn el k < 81)
    (hpeer : ∀ k < 9, ∀ j < 9, peer (idx_fn el k) (idx_fn el j))
    (hhas : ∀ d, 1 ≤ d → d ≤ 9 → ∃ k < 9, DIGIT G (idx_fn el k) = d)
    (h1 : hintcode &&& INDEX_MASK = 0) (h2 : hintcode &&& DIGIT_MASK = 0)
    (possible : List Nat) (hp : ∀ p ∈ possible, Forced G p) :
    (singles b el idx_fn hintcode possible).1 ≠ -1 ∧
      ∀ p ∈ (singles b el idx_fn hintcode possible).2, Forced G p := by
  have h := singles_loop_sound G b el idx_fn hintcode hG hwf hc hlt hpeer hhas h1 h2 9 0
    (by omega) possible hp
  unfold singles
  dsimp only
  refine ⟨?_, h.2⟩
  rw [if_neg (by omega)]
  decide

theorem findmoves_loop_sound (G b : List Nat) (hG : Solved G) (hwf : BoardWF b)
    (hc : Cons G b) (fuel el : Nat) (possible : List Nat)
    (hp : ∀ p ∈ possible, Forced G p) :
    (findmoves_loop b fuel el possible).1 ≠ -1 ∧
      ∀ p ∈ (findmoves_loop b fuel el possible).2, Forced G p := by
  induction fuel generalizing el possible with
  | zero =>
    unfold findmoves_loop
    exact ⟨by omega, hp⟩
  | succ fuel ih =>
    unfold findmoves_loop
    by_cases hel : el < 9
    · rw [if_pos hel]
      dsimp only
      have g1 := singles_sound G b el idx_row HINT_ROW hG hwf hc
        (fun j hj => idx_row_lt hel hj) (fun k hk j hj => peer_idx_row el k j hk hj)
        (fun d hd1 hd9 => hG.row_has el d hel hd1 hd9) (by decide) (by decide) possible hp
      have g2 := singles_sound G b el idx_column HINT_COLUMN hG hwf hc
        (fun j hj => idx_column_lt hel hj) (fun k _ j _ => peer_idx_column el k j)
        (fun d hd1 hd9 => hG.column_has el d hel hd1 hd9) (by decide) (by decide) _ g1.2
      have g3 := singles_sound G b el idx_block HINT_BLOCK hG hwf hc
        (fun j hj => idx_block_lt hel hj) (fun k hk j hj => peer_idx_block el k j hk hj)
        (fun d hd1 hd9 => hG.block_has el d hel hd1 hd9) (by decide) (by decide) _ g2.2
      rw [if_neg g1.1, if_neg g2.1, if_neg g3.1]
      exact ih _ _ g3.2
    · rw [if_neg hel]
      exact ⟨by omega, hp⟩

/-- On a board that has a completion `findmoves` reports no contradiction and every move
it finds is the digit of the completion. -/
theorem findmoves_sound (G b : List Nat) (hG : Solved G) (hwf : BoardWF b) (hc : Cons G b) :
    (findmoves b).1 ≠ -1 ∧ ∀ p ∈ (findmoves b).2, Forced G p := by
  unfold findmoves
  exact findmoves_loop_sound G b hG hwf hc 9 0 [] (fun p hp => absurd hp (List.not_mem_nil p))

end Sudoku

namespace Sudoku

/-! ## The masking strategies keep every completion: `exmask`, `exblock`, `block` -/

theorem Good_or (G b b0 : List Nat) (k m : Nat) (hg : Good G b) (ha : Above b b0)
    (hm : inState m) (hk : k < 81 → DIGIT b0 k = 0 → m &&& DIGIT_STATE (DIGIT G k) = 0) :
    Good G (wr b k (rd b k ||| m)) ∧ Above (wr b k (rd b k ||| m)) b0 := by
  have h1 := or_mask_Above b k m hg.1.len hm
  refine ⟨⟨Above_BoardWF _ _ h1 hg.1, ?_⟩, Above_trans _ _ _ h1 ha⟩
  apply Cons_or G b k m hm hg.2
  intro hk81 hd
  rw [(ha.2 k hk81).1] at hd
  exact hk hk81 hd

theorem foldl_Good {α : Type} (G b0 : List Nat) (f : List Nat → α → List Nat) (L : List α)
    (hf : ∀ b, ∀ x ∈ L, Good G b → Above b b0 → Good G (f b x) ∧ Above (f b x) b0)
    (b : List Nat) (hg : Good G b) (ha : Above b b0) :
    Good G (L.foldl f b) ∧ Above (L.foldl f b) b0 := by
  induction L generalizing b with
  | nil => exact ⟨hg, ha⟩
  | cons x L ih =>
    rw [List.foldl_cons]
    have h1 := hf b x (List.mem_cons_self _ _) hg ha
    exact ih (fun b y hy => hf b y (List.mem_cons_of_mem _ hy)) _ h1.1 h1.2

theorem IS_EMPTY_iff (b : List Nat) (idx : Nat) : IS_EMPTY b idx = true ↔ DIGIT b idx = 0 := by
  unfold IS_EMPTY
  simp

theorem exmask_Good (G b b0 : List Nat) (mask blk el : Nat) (idx_fn : Nat → Nat → Nat)
    (hg : Good G b) (ha : Above b b0) (hm : inState mask)
    (H : ∀ i < 9, blk ≠ BLOCK (idx_fn el i) → idx_fn el i < 81 → DIGIT b0 (idx_fn el i) = 0 →
      mask &&& DIGIT_STATE (DIGIT G (idx_fn el i)) = 0) :
    Good G (exmask b mask blk el idx_fn) ∧ Above (exmask b mask blk el idx_fn) b0 := by
  unfold exmask
  apply foldl_Good G b0 _ _ _ b hg ha
  intro b i hi hg ha
  unfold exmask_step
  dsimp only
  split
  · rename_i hcond
    exact Good_or G b b0 _ mask hg ha hm (fun h81 h0 => H i (List.mem_range.1 hi) hcond.1 h81 h0)
  · exact ⟨hg, ha⟩

theorem exblock_mask_mono (b : List Nat) (blk : Nat) (L : List Nat) (m t : Nat)
    (h : m.testBit t = true) : (L.foldl (exblock_step b blk) m).testBit t = true := by
  induction L generalizing m with
  | nil => exact h
  | cons i L ih =>
    rw [List.foldl_cons]
    apply ih
    unfold exblock_step
    dsimp only
    split
    · rw [Nat.testBit_or, h]
      rfl
    · exact h

theorem exblock_mask_bit (b : List Nat) (blk : Nat) (L : List Nat) (m i : Nat) (hi : i ∈ L)
    (hne : DIGIT b (idx_block blk i) ≠ 0) :
    (L.foldl (exblock_step b blk) m).testBit (6 + DIGIT b (idx_block blk i)) = true := by
  induction L generalizing m with
  | nil => exact absurd hi (List.not_mem_nil i)
  | cons j L ih =>
    rw [List.foldl_cons]
    rcases List.mem_cons.1 hi with rfl | hi'
    · apply exblock_mask_mono
      unfold exblock_step
      dsimp only
      have : ¬ IS_EMPTY b (idx_block blk i) = true := by
        rw [IS_EMPTY_iff]
        exact hne
      rw [if_pos this, Nat.testBit_or, testBit_DIGIT_STATE]
      simp
    · exact ih _ hi'

theorem BLOCK_idx_block (el k : Nat) (_hel : el < 9) (hk : k < 9) :
    BLOCK (idx_block el k) = el := by
  unfold idx_block INDEX BLOCK ROW COLUMN
  omega

theorem ROW_idx_row (el k : Nat) (hk : k < 9) : ROW (idx_row el k) = el := by
  unfold idx_row INDEX ROW
  omega

theorem COLUMN_idx_column (el k : Nat) (hel : el < 9) (_hk : k < 9) : COLUMN (idx_column el k) = el := by
  unfold idx_column INDEX COLUMN
  omega

/-- Soundness of `exblock`: when every empty cell of block `blk` lies in the line `el`,
the digits missing in the block cannot stand in the rest of the line. -/
theorem exblock_Good (G b b0 : List Nat) (blk el : Nat) (idx_fn : Nat → Nat → Nat)
    (line : Nat → Nat) (hG : Solved G) (hg : Good G b) (ha : Above b b0) (hblk : blk < 9)
    (hline : ∀ i < 9, line (idx_fn el i) = el)
    (hpeer : ∀ x y, line x = line y → peer x y)
    (hall : ∀ k < 9, DIGIT b0 (idx_block blk k) = 0 → line (idx_block blk k) = el) :
    Good G (exblock b blk el idx_fn) ∧ Above (exblock b blk el idx_fn) b0 := by
  unfold exblock
  dsimp only
  have hd : ∀ i < 81, DIGIT b i ≤ 9 := hg.1.digit_le
  have hm0 := exblock_mask_inState b blk hblk hd _ (fun i hi => List.mem_range.1 hi) 0
    inState_zero
  apply exmask_Good G b b0 _ blk el idx_fn hg ha (inState_xor _ _ hm0 inState_STATE_MASK)
  intro i hi hblock h81 hempty
  obtain ⟨k, hk, hGk⟩ := hG.block_has blk (DIGIT G (idx_fn el i)) hblk (hG.digit_ge _ h81)
    (hG.digit_le9 _ h81)
  have hk81 := idx_block_lt hblk hk
  have hne : idx_fn el i ≠ idx_block blk k := by
    intro h
    apply hblock
    rw [h, BLOCK_idx_block blk k hblk hk]
  have hfilled : DIGIT b0 (idx_block blk k) ≠ 0 := by
    intro h0
    have hl := hall k hk h0
    have hp : peer (idx_fn el i) (idx_block blk k) := hpeer _ _ (by rw [hline i hi, hl])
    exact hG.no_conflict_grid _ h81 _ hk81 hne hp (by have := hG.digit_ge _ h81; omega)
      hGk.symm
  have hb0 : DIGIT b (idx_block blk k) = DIGIT b0 (idx_block blk k) := (ha.2 _ hk81).1
  have hcons := (hg.2 _ hk81).1 (by rw [hb0]; exact hfilled)
  have hbit := exblock_mask_bit b blk (List.range 9) 0 k (List.mem_range.2 hk)
    (by rw [hb0]; exact hfilled)
  rw [← hcons, hGk] at hbit
  rw [and_DIGIT_STATE_eq_zero, Nat.testBit_xor, hbit, testBit_STATE_MASK]
  have h1 := hG.digit_ge _ h81
  have h9 := hG.digit_le9 _ h81
  have e1 : 7 ≤ 6 + DIGIT G (idx_fn el i) ∧ 6 + DIGIT G (idx_fn el i) < 16 := by omega
  simp [e1]

theorem block_step_row (b : List Nat) (el : Nat) (L : List Nat) (acc : Int × Int)
    (h : 0 ≤ (L.foldl (block_step b el) acc).1) :
    (L.foldl (block_step b el) acc).1 = acc.1 ∧
      ∀ i ∈ L, DIGIT b (idx_block el i) = 0 → (ROW (idx_block el i) : Int) = acc.1 := by
  induction L generalizing acc with
  | nil => exact ⟨rfl, fun i hi => absurd hi (List.not_mem_nil i)⟩
  | cons j L ih =>
    rw [List.foldl_cons] at h ⊢
    have h1 := ih _ h
    by_cases he : IS_EMPTY b (idx_block el j) = true
    · have hs : (block_step b el acc j).1 =
          if (ROW (idx_block el j) : Int) ≠ acc.1 then -1 else acc.1 := by
        unfold block_step
        dsimp only
        rw [if_pos he]
      by_cases hr : (ROW (idx_block el j) : Int) ≠ acc.1
      · rw [hs, if_pos hr] at h1
        rw [h1.1] at h
        omega
      · rw [hs, if_neg hr] at h1
        refine ⟨h1.1, ?_⟩
        intro i hi hd
        rcases List.mem_cons.1 hi with rfl | hi'
        · exact not_not.1 hr
        · exact h1.2 i hi' hd
    · have hs : block_step b el acc j = acc := by
        unfold block_step
        dsimp only
        rw [if_neg he]
      rw [hs] at h1 ⊢
      refine ⟨h1.1, ?_⟩
      intro i hi hd
      rcases List.mem_cons.1 hi with rfl | hi'
      · exact absurd ((IS_EMPTY_iff b _).2 hd) he
      · exact h1.2 i hi' hd

theorem block_step_col (b : List Nat) (el : Nat) (L : List Nat) (acc : Int × Int)
    (h : 0 ≤ (L.foldl (block_step b el) acc).2) :
    (L.foldl (block_step b el) acc).2 = acc.2 ∧
      ∀ i ∈ L, DIGIT b (idx_block el i) = 0 → (COLUMN (idx_block el i) : Int) = acc.2 := by
  induction L generalizing acc with
  | nil => exact ⟨rfl, fun i hi => absurd hi (List.not_mem_nil i)⟩
  | cons j L ih =>
    rw [List.foldl_cons] at h ⊢
    have h1 := ih _ h
    by_cases he : IS_EMPTY b (idx_block el j) = true
    · have hs : (block_step b el acc j).2 =
          if (COLUMN (idx_block el j) : Int) ≠ acc.2 then -1 else acc.2 := by
        unfold block_step
        dsimp only
        rw [if_pos he]
      by_cases hr : (COLUMN (idx_block el j) : Int) ≠ acc.2
      · rw [hs, if_pos hr] at h1
        rw [h1.1] at h
        omega
      · rw [hs, if_neg hr] at h1
        refine ⟨h1.1, ?_⟩
        intro i hi hd
        rcases List.mem_cons.1 hi with rfl | hi'
        · exact not_not.1 hr
        · exact h1.2 i hi' hd
    · have hs : block_step b el acc j = acc := by
        unfold block_step
        dsimp only
        rw [if_neg he]
      rw [hs] at h1 ⊢
      refine ⟨h1.1, ?_⟩
      intro i hi hd
      rcases List.mem_cons.1 hi with rfl | hi'
      · exact absurd ((IS_EMPTY_iff b _).2 hd) he
      · exact h1.2 i hi' hd

/-- Soundness of `block`: no completion is lost. -/
theorem block_Good (G b : List Nat) (el : Nat) (hG : Solved G) (hg : Good G b) (hel : el < 9) :
    Good G (block b el) ∧ Above (block b el) b := by
  have hab := Above_refl b hg.1.len
  unfold block
  split
  · exact ⟨hg, hab⟩
  · rename_i i hfind
    rw [List.find?_range_eq_some] at hfind
    obtain ⟨hpi, hi, hfirst⟩ := hfind
    have hi9 := List.mem_range.1 hi
    dsimp only
    generalize hrc : (List.range' (i + 1) (9 - (i + 1))).foldl (block_step b el)
      ((ROW (idx_block el i) : Int), (COLUMN (idx_block el i) : Int)) = rc
    have hrow : 0 ≤ rc.1 → ∀ k < 9, DIGIT b (idx_block el k) = 0 →
        ROW (idx_block el k) = rc.1.toNat := by
      intro h0 k hk hd
      rw [← hrc] at h0
      have h := block_step_row b el _ _ h0
      rw [hrc] at h
      dsimp only at h
      rcases Nat.lt_trichotomy k i with hlt | heq | hgt
      · have := hfirst k hlt
        rw [(IS_EMPTY_iff b _).2 hd] at this
        exact absurd this (by decide)
      · rw [heq, h.1]
        rfl
      · have := h.2 k (List.mem_range'_1.2 (by omega)) hd
        rw [h.1]
        omega
    have hcol : 0 ≤ rc.2 → ∀ k < 9, DIGIT b (idx_block el k) = 0 →
        COLUMN (idx_block el k) = rc.2.toNat := by
      intro h0 k hk hd
      rw [← hrc] at h0
      have h := block_step_col b el _ _ h0
      rw [hrc] at h
      dsimp only at h
      rcases Nat.lt_trichotomy k i with hlt | heq | hgt
      · have := hfirst k hlt
        rw [(IS_EMPTY_iff b _).2 hd] at this
        exact absurd this (by decide)
      · rw [heq, h.1]
        rfl
      · have := h.2 k (List.mem_range'_1.2 (by omega)) hd
        rw [h.1]
        omega
    have hcol9 : 0 ≤ rc.2 → rc.2.toNat < 9 := by
      intro h0
      have := hcol h0 i hi9 ((IS_EMPTY_iff b _).1 hpi)
      rw [← this]
      unfold COLUMN
      omega
    have h1 : Good G (if 0 ≤ rc.1 then exblock b el rc.1.toNat idx_row else b) ∧
        Above (if 0 ≤ rc.1 then exblock b el rc.1.toNat idx_row else b) b := by
      split
      · rename_i h0
        exact exblock_Good G b b el rc.1.toNat idx_row ROW hG hg hab hel
          (fun k hk => ROW_idx_row _ k hk) (fun x y h => Or.inl h) (hrow h0)
      · exact ⟨hg, hab⟩
    split
    · rename_i h0
      exact exblock_Good G _ b el rc.2.toNat idx_column COLUMN hG h1.1 h1.2 hel
        (fun k hk => COLUMN_idx_column _ k (hcol9 h0) hk) (fun x y h => Or.inr (Or.inl h))
        (hcol h0)
    · exact h1

end Sudoku

namespace Sudoku

/-! ## The masking strategies keep every completion: `common` -/

theorem common_step_row (b : List Nat) (el mask : Nat) (L : List Nat) (acc : Int × Int)
    (hacc : acc.1 = -1 ∨ 0 ≤ acc.1)
    (h1 : (L.foldl (common_step b el mask) acc).1 ≠ -1)
    (h9 : (L.foldl (common_step b el mask) acc).1 < 9) :
    0 ≤ (L.foldl (common_step b el mask) acc).1 ∧
    (acc.1 = -1 ∨ acc.1 = (L.foldl (common_step b el mask) acc).1) ∧
    (acc.1 = -1 → ∃ i ∈ L, IS_EMPTY b (idx_block el i) = true ∧
      rd b (idx_block el i) &&& mask = 0) ∧
    ∀ i ∈ L, IS_EMPTY b (idx_block el i) = true → rd b (idx_block el i) &&& mask = 0 →
      (ROW (idx_block el i) : Int) = (L.foldl (common_step b el mask) acc).1 := by
  induction L generalizing acc with
  | nil =>
    refine ⟨?_, Or.inr rfl, ?_, fun i hi => absurd hi (List.not_mem_nil i)⟩
    · rcases hacc with h | h
      · exact absurd h h1
      · exact h
    · intro h
      exact absurd h h1
  | cons j L ih =>
    rw [List.foldl_cons] at h1 h9 ⊢
    by_cases hc : IS_EMPTY b (idx_block el j) = true ∧ rd b (idx_block el j) &&& mask = 0
    · have hs : (common_step b el mask acc j).1 =
          if acc.1 < 0 then (ROW (idx_block el j) : Int)
          else if acc.1 ≠ (ROW (idx_block el j) : Int) then 9 else acc.1 := by
        unfold common_step
        dsimp only
        rw [if_pos hc]
      have hacc' : (common_step b el mask acc j).1 = -1 ∨ 0 ≤ (common_step b el mask acc j).1 := by
        right
        rw [hs]
        split
        · omega
        · split <;> omega
      obtain ⟨g0, g1, _, g3⟩ := ih _ hacc' h1 h9
      have hne : (common_step b el mask acc j).1 ≠ -1 := by
        rw [hs]
        split
        · omega
        · split <;> omega
      have heq := g1.resolve_left hne
      refine ⟨g0, ?_, fun _ => ⟨j, List.mem_cons_self _ _, hc.1, hc.2⟩, ?_⟩
      · rw [← heq, hs]
        by_cases ha : acc.1 < 0
        · left
          omega
        · rw [if_neg ha]
          by_cases hb : acc.1 ≠ (ROW (idx_block el j) : Int)
          · rw [hs, if_neg ha, if_pos hb] at heq
            omega
          · rw [if_neg hb]
            right
            rfl
      · intro i hi he hm
        rcases List.mem_cons.1 hi with rfl | hi'
        · rw [← heq, hs]
          by_cases ha : acc.1 < 0
          · rw [if_pos ha]
          · rw [if_neg ha]
            by_cases hb : acc.1 ≠ (ROW (idx_block el i) : Int)
            · rw [hs, if_neg ha, if_pos hb] at heq
              omega
            · rw [if_neg hb]
              exact (not_not.1 hb).symm
        · exact g3 i hi' he hm
    · have hs : common_step b el mask acc j = acc := by
        unfold common_step
        dsimp only
        rw [if_neg hc]
      rw [hs] at h1 h9 ⊢
      obtain ⟨g0, g1, g2, g3⟩ := ih _ hacc h1 h9
      refine ⟨g0, g1, ?_, ?_⟩
      · intro h
        obtain ⟨i, hi, hh⟩ := g2 h
        exact ⟨i, List.mem_cons_of_mem _ hi, hh⟩
      · intro i hi he hm
        rcases List.mem_cons.1 hi with rfl | hi'
        · exact absurd ⟨he, hm⟩ hc
        · exact g3 i hi' he hm

theorem common_step_col (b : List Nat) (el mask : Nat) (L : List Nat) (acc : Int × Int)
    (hacc : acc.2 = -1 ∨ 0 ≤ acc.2)
    (h1 : (L.foldl (common_step b el mask) acc).2 ≠ -1)
    (h9 : (L.foldl (common_step b el mask) acc).2 < 9) :
    0 ≤ (L.foldl (common_step b el mask) acc).2 ∧
    (acc.2 = -1 ∨ acc.2 = (L.foldl (common_step b el mask) acc).2) ∧
    (acc.2 = -1 → ∃ i ∈ L, IS_EMPTY b (idx_block el i) = true ∧
      rd b (idx_block el i) &&& mask = 0) ∧
    ∀ i ∈ L, IS_EMPTY b (idx_block el i) = true → rd b (idx_block el i) &&& mask = 0 →
      (COLUMN (idx_block el i) : Int) = (L.foldl (common_step b el mask) acc).2 := by
  induction L generalizing acc with
  | nil =>
    refine ⟨?_, Or.inr rfl, ?_, fun i hi => absurd hi (List.not_mem_nil i)⟩
    · rcases hacc with h | h
      · exact absurd h h1
      · exact h
    · intro h
      exact absurd h h1
  | cons j L ih =>
    rw [List.foldl_cons] at h1 h9 ⊢
    by_cases hc : IS_EMPTY b (idx_block el j) = true ∧ rd b (idx_block el j) &&& mask = 0
    · have hs : (common_step b el mask acc j).2 =
          if acc.2 < 0 then (COLUMN (idx_block el j) : Int)
          else if acc.2 ≠ (COLUMN (idx_block el j) : Int) then 9 else acc.2 := by
        unfold common_step
        dsimp only
        rw [if_pos hc]
      have hacc' : (common_step b el mask acc j).2 = -1 ∨ 0 ≤ (common_step b el mask acc j).2 := by
        right
        rw [hs]
        split
        · omega
        · split <;> omega
      obtain ⟨g0, g1, _, g3⟩ := ih _ hacc' h1 h9
      have hne : (common_step b el mask acc j).2 ≠ -1 := by
        rw [hs]
        split
        · omega
        · split <;> omega
      have heq := g1.resolve_left hne
      refine ⟨g0, ?_, fun _ => ⟨j, List.mem_cons_self _ _, hc.1, hc.2⟩, ?_⟩
      · rw [← heq, hs]
        by_cases ha : acc.2 < 0
        · left
          omega
        · rw [if_neg ha]
          by_cases hb : acc.2 ≠ (COLUMN (idx_block el j) : Int)
          · rw [hs, if_neg ha, if_pos hb] at heq
            omega
          · rw [if_neg hb]
            right
            rfl
      · intro i hi he hm
        rcases List.mem_cons.1 hi with rfl | hi'
        · rw [← heq, hs]
          by_cases ha : acc.2 < 0
          · rw [if_pos ha]
          · rw [if_neg ha]
            by_cases hb : acc.2 ≠ (COLUMN (idx_block el i) : Int)
            · rw [hs, if_neg ha, if_pos hb] at heq
              omega
            · rw [if_neg hb]
              exact (not_not.1 hb).symm
        · exact g3 i hi' he hm
    · have hs : common_step b el mask acc j = acc := by
        unfold common_step
        dsimp only
        rw [if_neg hc]
      rw [hs] at h1 h9 ⊢
      obtain ⟨g0, g1, g2, g3⟩ := ih _ hacc h1 h9
      refine ⟨g0, g1, ?_, ?_⟩
      · intro h
        obtain ⟨i, hi, hh⟩ := g2 h
        exact ⟨i, List.mem_cons_of_mem _ hi, hh⟩
      · intro i hi he hm
        rcases List.mem_cons.1 hi with rfl | hi'
        · exact absurd ⟨he, hm⟩ hc
        · exact g3 i hi' he hm

theorem DIGIT_STATE_disjoint (d g : Nat) (h : g ≠ d) : DIGIT_STATE d &&& DIGIT_STATE g = 0 := by
  rw [and_DIGIT_STATE_eq_zero, testBit_DIGIT_STATE]
  simp
  omega

/-- The masking step of `common` for one line: when every cell of block `el` that may
hold `d` is in line `ln`, no completion has `d` in the rest of the line. -/
theorem common_exmask_Good (G b b0 : List Nat) (d el ln : Nat) (idx_fn : Nat → Nat → Nat)
    (line : Nat → Nat) (hG : Solved G) (hg0 : Good G b0) (hg : Good G b) (ha : Above b b0)
    (hel : el < 9) (hd1 : 1 ≤ d) (hd9 : d ≤ 9)
    (hline : ∀ i < 9, line (idx_fn ln i) = ln)
    (hpeer : ∀ x y, line x = line y → peer x y)
    (hex : ∃ i < 9, IS_EMPTY b0 (idx_block el i) = true ∧
      rd b0 (idx_block el i) &&& DIGIT_STATE d = 0)
    (hall : ∀ i < 9, IS_EMPTY b0 (idx_block el i) = true →
      rd b0 (idx_block el i) &&& DIGIT_STATE d = 0 → line (idx_block el i) = ln) :
    Good G (exmask b (DIGIT_STATE d) el ln idx_fn) ∧
      Above (exmask b (DIGIT_STATE d) el ln idx_fn) b0 := by
  apply exmask_Good G b b0 _ el ln idx_fn hg ha (inState_DIGIT_STATE d hd1 hd9)
  intro i hi hblock h81 _
  apply DIGIT_STATE_disjoint
  intro hGd
  obtain ⟨k, hk, hGk⟩ := hG.block_has el d hel hd1 hd9
  have hk81 := idx_block_lt hel hk
  have hne : idx_fn ln i ≠ idx_block el k := by
    intro h
    apply hblock
    rw [h, BLOCK_idx_block el k hel hk]
  have hcons := hg0.2 _ hk81
  have hempty : DIGIT b0 (idx_block el k) = 0 := by
    by_contra hne0
    obtain ⟨j, hj, hje, hjm⟩ := hex
    have hs := hg0.1.seen _ hk81 _ (idx_block_lt hel hj) (peer_idx_block el k j hk hj) hne0
    rw [← hcons.1 hne0, hGk] at hs
    exact hs hjm
  have hallow := hcons.2 hempty
  rw [hGk] at hallow
  have hl := hall k hk ((IS_EMPTY_iff _ _).2 hempty) hallow
  have hp : peer (idx_fn ln i) (idx_block el k) := hpeer _ _ (by rw [hline i hi, hl])
  exact hG.no_conflict_grid _ h81 _ hk81 hne hp (by omega) (by rw [hGd, hGk])

theorem common_digit_Good (G b : List Nat) (el d : Nat) (hG : Solved G) (hg : Good G b)
    (hel : el < 9) (hd1 : 1 ≤ d) (hd9 : d ≤ 9) :
    Good G (common_digit el b d) ∧ Above (common_digit el b d) b := by
  have hab := Above_refl b hg.1.len
  unfold common_digit
  dsimp only
  generalize hrc : (List.range 9).foldl (common_step b el (DIGIT_STATE d))
    ((-1 : Int), (-1 : Int)) = rc
  have h1 : Good G (if rc.1 ≠ -1 ∧ rc.1 < 9
        then exmask b (DIGIT_STATE d) el rc.1.toNat idx_row else b) ∧
      Above (if rc.1 ≠ -1 ∧ rc.1 < 9
        then exmask b (DIGIT_STATE d) el rc.1.toNat idx_row else b) b := by
    split
    · rename_i hc
      rw [← hrc] at hc
      obtain ⟨g0, _, g2, g3⟩ := common_step_row b el (DIGIT_STATE d) (List.range 9)
        ((-1 : Int), (-1 : Int)) (Or.inl rfl) hc.1 hc.2
      rw [hrc] at g0 g3
      obtain ⟨j, hj, hje⟩ := g2 rfl
      apply common_exmask_Good G b b d el rc.1.toNat idx_row ROW hG hg hg hab hel hd1 hd9
        (fun k hk => ROW_idx_row _ k hk) (fun x y h => Or.inl h)
        ⟨j, List.mem_range.1 hj, hje⟩
      intro i hi he hm
      have := g3 i (List.mem_range.2 hi) he hm
      omega
    · exact ⟨hg, hab⟩
  split
  · rename_i hc
    rw [← hrc] at hc
    obtain ⟨g0, _, g2, g3⟩ := common_step_col b el (DIGIT_STATE d) (List.range 9)
      ((-1 : Int), (-1 : Int)) (Or.inl rfl) hc.1 hc.2
    rw [hrc] at g0 g3
    rw [hrc] at hc
    obtain ⟨j, hj, hje⟩ := g2 rfl
    apply common_exmask_Good G _ b d el rc.2.toNat idx_column COLUMN hG hg h1.1 h1.2 hel hd1 hd9
      (fun k hk => COLUMN_idx_column _ k (by have := hc.2; omega) hk)
      (fun x y h => Or.inr (Or.inl h)) ⟨j, List.mem_range.1 hj, hje⟩
    intro i hi he hm
    have := g3 i (List.mem_range.2 hi) he hm
    omega
  · exact h1

/-- Soundness of `common`: no completion is lost. -/
theorem common_Good (G b : List Nat) (el : Nat) (hG : Solved G) (hg : Good G b)
    (hel : el < 9) : Good G (common b el) ∧ Above (common b el) b := by
  unfold common
  apply foldl_Good G b _ _ _ b hg (Above_refl b hg.1.len)
  intro b' d hd hg' ha'
  rw [List.mem_range'_1] at hd
  have := common_digit_Good G b' el d hG hg' hel (by omega) (by omega)
  exact ⟨this.1, Above_trans _ _ _ this.2 ha'⟩

end Sudoku

namespace Sudoku

/-! ## The masking strategies keep every completion: `position2` -/

theorem position2_count_fst (b : List Nat) (el mask : Nat) (L : List Nat) (acc : Nat × Nat) :
    (L.foldl (position2_count b el mask) acc).1 =
      acc.1 + L.countP (fun i => decide (mask &&& rd b (idx_block el i) = 0)) := by
  induction L generalizing acc with
  | nil => simp
  | cons j L ih =>
    rw [List.foldl_cons, ih, List.countP_cons]
    unfold position2_count
    by_cases h : mask &&& rd b (idx_block el j) = 0
    · rw [if_pos h]
      simp only [h, decide_True, if_true]
      omega
    · rw [if_neg h]
      simp only [h, decide_False]
      simp

theorem position2_count_snd (b : List Nat) (el mask : Nat) (L : List Nat) (acc : Nat × Nat)
    (t : Nat) :
    (L.foldl (position2_count b el mask) acc).2.testBit t = true ↔
      acc.2.testBit t = true ∨ ∃ i ∈ L, 6 + i = t ∧ mask &&& rd b (idx_block el i) = 0 := by
  induction L generalizing acc with
  | nil => simp
  | cons j L ih =>
    rw [List.foldl_cons, ih]
    unfold position2_count
    by_cases h : mask &&& rd b (idx_block el j) = 0
    · rw [if_pos h]
      dsimp only
      rw [Nat.testBit_or, testBit_DIGIT_STATE]
      constructor
      · rintro (h' | ⟨i, hi, h'⟩)
        · rw [Bool.or_eq_true] at h'
          rcases h' with h'' | h''
          · exact Or.inl h''
          · exact Or.inr ⟨j, List.mem_cons_self _ _, by simpa using h'', h⟩
        · exact Or.inr ⟨i, List.mem_cons_of_mem _ hi, h'⟩
      · rintro (h' | ⟨i, hi, h'⟩)
        · left
          rw [h']
          rfl
        · rcases List.mem_cons.1 hi with rfl | hi'
          · left
            rw [Bool.or_eq_true]
            right
            simpa using h'.1
          · exact Or.inr ⟨i, hi', h'⟩
    · rw [if_neg h]
      constructor
      · rintro (h' | ⟨i, hi, h'⟩)
        · exact Or.inl h'
        · exact Or.inr ⟨i, List.mem_cons_of_mem _ hi, h'⟩
      · rintro (h' | ⟨i, hi, h'⟩)
        · exact Or.inl h'
        · rcases List.mem_cons.1 hi with rfl | hi'
          · exact absurd h'.2 h
          · exact Or.inr ⟨i, hi', h'⟩

/-- The position set computed by `position2`: bit `6 + i` of `posn` is set exactly when
the digit is not masked out in cell `i` of the block. -/
theorem position2_posn_bit (b : List Nat) (el d i : Nat) :
    ((List.range 9).foldl (position2_count b el (DIGIT_STATE d)) (0, 0)).2.testBit (6 + i) = true ↔
      i < 9 ∧ DISALLOWED b (idx_block el i) d = 0 := by
  rw [position2_count_snd]
  unfold DISALLOWED
  constructor
  · rintro (h | ⟨j, hj, h1, h2⟩)
    · simp at h
    · have : j = i := by omega
      subst this
      exact ⟨List.mem_range.1 hj, by rw [Nat.and_comm]; exact h2⟩
  · rintro ⟨hi, h⟩
    exact Or.inr ⟨i, List.mem_range.2 hi, rfl, by rw [Nat.and_comm]; exact h⟩

theorem position2_posn_count (b : List Nat) (el d : Nat) :
    ((List.range 9).foldl (position2_count b el (DIGIT_STATE d)) (0, 0)).1 =
      (List.range 9).countP (fun i => decide (DISALLOWED b (idx_block el i) d = 0)) := by
  rw [position2_count_fst]
  unfold DISALLOWED
  simp only [Nat.zero_add]
  congr 1
  funext i
  rw [Nat.and_comm]

theorem position2_posn_inv (b : List Nat) (el : Nat) (L : List Nat) (pd : List Nat)
    (h : ∀ d, rd pd d ≠ 0 →
      ((List.range 9).foldl (position2_count b el (DIGIT_STATE d)) (0, 0)).1 = 2 ∧
      rd pd d = ((List.range 9).foldl (position2_count b el (DIGIT_STATE d)) (0, 0)).2) :
    ∀ d, rd (L.foldl (position2_posn b el) pd) d ≠ 0 →
      ((List.range 9).foldl (position2_count b el (DIGIT_STATE d)) (0, 0)).1 = 2 ∧
      rd (L.foldl (position2_posn b el) pd) d =
        ((List.range 9).foldl (position2_count b el (DIGIT_STATE d)) (0, 0)).2 := by
  induction L generalizing pd with
  | nil => exact h
  | cons d' L ih =>
    rw [List.foldl_cons]
    apply ih
    intro d hd
    unfold position2_posn at hd ⊢
    dsimp only at hd ⊢
    by_cases hc : ((List.range 9).foldl (position2_count b el (DIGIT_STATE d')) (0, 0)).1 = 2
    · rw [if_pos hc] at hd ⊢
      rw [rd_wr] at hd ⊢
      by_cases hdd : d' = d ∧ d' < (wr pd d' 0).length
      · rw [if_pos hdd] at hd ⊢
        rw [← hdd.1]
        exact ⟨hc, rfl⟩
      · rw [if_neg hdd] at hd ⊢
        rw [rd_wr] at hd ⊢
        by_cases hdd' : d' = d ∧ d' < pd.length
        · rw [if_pos hdd'] at hd
          exact absurd rfl hd
        · rw [if_neg hdd'] at hd ⊢
          exact h d hd
    · rw [if_neg hc] at hd ⊢
      rw [rd_wr] at hd ⊢
      by_cases hdd' : d' = d ∧ d' < pd.length
      · rw [if_pos hdd'] at hd
        exact absurd rfl hd
      · rw [if_neg hdd'] at hd ⊢
        exact h d hd

/-- Two digits confined to the same two cells of a block occupy exactly these cells in
every completion. -/
theorem pair_positions (G b0 : List Nat) (el d d2 i : Nat) (hG : Solved G) (hg : Good G b0)
    (hel : el < 9) (hd1 : 1 ≤ d) (hd9 : d ≤ 9) (h21 : 1 ≤ d2) (h29 : d2 ≤ 9) (hne : d ≠ d2)
    (hcount : (List.range 9).countP
      (fun j => decide (DISALLOWED b0 (idx_block el j) d = 0)) = 2)
    (hsame : ∀ j < 9, DISALLOWED b0 (idx_block el j) d = 0 ↔
      DISALLOWED b0 (idx_block el j) d2 = 0)
    (hi : i < 9) (hid : DISALLOWED b0 (idx_block el i) d = 0) :
    DIGIT G (idx_block el i) = d ∨ DIGIT G (idx_block el i) = d2 := by
  have place : ∀ g, 1 ≤ g → g ≤ 9 → DISALLOWED b0 (idx_block el i) g = 0 →
      ∃ k < 9, DIGIT G (idx_block el k) = g ∧ DISALLOWED b0 (idx_block el k) g = 0 := by
    intro g hg1 hg9 hig
    obtain ⟨k, hk, hGk⟩ := hG.block_has el g hel hg1 hg9
    have hk81 := idx_block_lt hel hk
    have hcons := hg.2 _ hk81
    refine ⟨k, hk, hGk, ?_⟩
    have hempty : DIGIT b0 (idx_block el k) = 0 := by
      by_contra hne0
      have hs := hg.1.seen _ hk81 _ (idx_block_lt hel hi) (peer_idx_block el k i hk hi) hne0
      rw [← hcons.1 hne0, hGk] at hs
      exact hs hig
    have := hcons.2 hempty
    rw [hGk] at this
    exact this
  obtain ⟨k1, hk1, hG1, ha1⟩ := place d hd1 hd9 hid
  obtain ⟨k2, hk2, hG2, ha2⟩ := place d2 h21 h29 ((hsame i hi).1 hid)
  have ha2' := (hsame k2 hk2).2 ha2
  by_contra hcon
  rw [not_or] at hcon
  have n1 : i ≠ k1 := by
    intro h
    rw [h] at hcon
    exact hcon.1 hG1
  have n2 : i ≠ k2 := by
    intro h
    rw [h] at hcon
    exact hcon.2 hG2
  have n3 : k1 ≠ k2 := by
    intro h
    rw [h] at hG1
    rw [hG1] at hG2
    exact hne hG2
  have := three_le_countP (fun j => decide (DISALLOWED b0 (idx_block el j) d = 0))
    (List.range 9) i k1 k2 (List.mem_range.2 hi) (List.mem_range.2 hk1) (List.mem_range.2 hk2)
    n1 n2 n3 (by simpa using hid) (by simpa using ha1) (by simpa using ha2')
  omega

theorem pair_mask_disjoint (d d2 g : Nat) (hg1 : 1 ≤ g) (hg9 : g ≤ 9)
    (h : g = d ∨ g = d2) :
    (STATE_MASK ^^^ (DIGIT_STATE d ||| DIGIT_STATE d2)) &&& DIGIT_STATE g = 0 := by
  rw [and_DIGIT_STATE_eq_zero, Nat.testBit_xor, Nat.testBit_or, testBit_STATE_MASK,
    testBit_DIGIT_STATE, testBit_DIGIT_STATE]
  have e1 : 7 ≤ 6 + g ∧ 6 + g < 16 := by omega
  rcases h with h | h
  · subst h
    simp [e1]
  · subst h
    simp [e1]

theorem position2_digit_Good (G b0 : List Nat) (el d : Nat) (acc : List Nat × List Nat)
    (hG : Solved G) (hg0 : Good G b0) (hel : el < 9) (hd1 : 1 ≤ d) (hd8 : d ≤ 8)
    (hg : Good G acc.1) (ha : Above acc.1 b0)
    (hq : ∀ d, rd acc.2 d ≠ 0 →
      ((List.range 9).foldl (position2_count b0 el (DIGIT_STATE d)) (0, 0)).1 = 2 ∧
      rd acc.2 d = ((List.range 9).foldl (position2_count b0 el (DIGIT_STATE d)) (0, 0)).2) :
    (Good G (position2_digit el acc d).1 ∧ Above (position2_digit el acc d).1 b0) ∧
    ∀ d', rd (position2_digit el acc d).2 d' ≠ 0 →
      ((List.range 9).foldl (position2_count b0 el (DIGIT_STATE d')) (0, 0)).1 = 2 ∧
      rd (position2_digit el acc d).2 d' =
        ((List.range 9).foldl (position2_count b0 el (DIGIT_STATE d')) (0, 0)).2 := by
  unfold position2_digit
  split
  · rename_i hnz
    split
    · rename_i d2 hfind
      have hmem := List.mem_of_find?_eq_some hfind
      rw [List.mem_range'_1] at hmem
      have hpeq : rd acc.2 d = rd acc.2 d2 := by simpa using List.find?_some hfind
      have hq1 := hq d hnz
      have hq2 := hq d2 (by rw [← hpeq]; exact hnz)
      have hposn : ((List.range 9).foldl (position2_count b0 el (DIGIT_STATE d)) (0, 0)).2 =
          ((List.range 9).foldl (position2_count b0 el (DIGIT_STATE d2)) (0, 0)).2 := by
        rw [← hq1.2, ← hq2.2, hpeq]
      have hsame : ∀ j < 9, DISALLOWED b0 (idx_block el j) d = 0 ↔
          DISALLOWED b0 (idx_block el j) d2 = 0 := by
        intro j hj
        have e1 := position2_posn_bit b0 el d j
        have e2 := position2_posn_bit b0 el d2 j
        rw [hposn] at e1
        constructor
        · intro h
          exact (e2.1 (e1.2 ⟨hj, h⟩)).2
        · intro h
          exact (e1.1 (e2.2 ⟨hj, h⟩)).2
      have hcount := hq1.1
      rw [position2_posn_count] at hcount
      dsimp only
      refine ⟨?_, ?_⟩
      · apply foldl_Good G b0 _ _ _ acc.1 hg ha
        intro b i hi hgb hab
        unfold position2_mask
        dsimp only
        split
        · rename_i hallow
          have hi9 := List.mem_range.1 hi
          have hm : inState (STATE_MASK ^^^ (DIGIT_STATE d ||| DIGIT_STATE d2)) :=
            inState_xor _ _ inState_STATE_MASK (inState_or _ _
              (inState_DIGIT_STATE d hd1 (by omega))
              (inState_DIGIT_STATE d2 (by omega) (by omega)))
          apply Good_or G b b0 _ _ hgb hab hm
          intro h81 _
          have hid : DISALLOWED b0 (idx_block el i) d = 0 := by
            by_contra hne
            have := (hab.2 _ h81).2 d hd1 (by omega) hne
            apply this
            unfold DISALLOWED
            rw [Nat.and_comm]
            exact hallow
          have := pair_positions G b0 el d d2 i hG hg0 hel hd1 (by omega) (by omega) (by omega)
            (by omega) hcount hsame hi9 hid
          exact pair_mask_disjoint d d2 _ (hG.digit_ge _ h81) (hG.digit_le9 _ h81) this
        · exact ⟨hgb, hab⟩
      · intro d' hd'
        rw [rd_wr] at hd' ⊢
        by_cases c1 : d = d' ∧ d < (wr acc.2 d2 0).length
        · rw [if_pos c1] at hd'
          exact absurd rfl hd'
        · rw [if_neg c1] at hd' ⊢
          rw [rd_wr] at hd' ⊢
          by_cases c2 : d2 = d' ∧ d2 < acc.2.length
          · rw [if_pos c2] at hd'
            exact absurd rfl hd'
          · rw [if_neg c2] at hd' ⊢
            exact hq d' hd'
    · exact ⟨⟨hg, ha⟩, hq⟩
  · exact ⟨⟨hg, ha⟩, hq⟩

/-- Soundness of `position2`: no completion is lost. -/
theorem position2_Good (G b : List Nat) (el : Nat) (hG : Solved G) (hg : Good G b)
    (hel : el < 9) : Good G (position2 b el) ∧ Above (position2 b el) b := by
  unfold position2
  dsimp only
  have key : ∀ (L : List Nat), (∀ d ∈ L, 1 ≤ d ∧ d ≤ 8) → ∀ acc : List Nat × List Nat,
      Good G acc.1 → Above acc.1 b →
      (∀ d, rd acc.2 d ≠ 0 →
        ((List.range 9).foldl (position2_count b el (DIGIT_STATE d)) (0, 0)).1 = 2 ∧
        rd acc.2 d = ((List.range 9).foldl (position2_count b el (DIGIT_STATE d)) (0, 0)).2) →
      Good G (L.foldl (position2_digit el) acc).1 ∧
        Above (L.foldl (position2_digit el) acc).1 b := by
    intro L
    induction L with
    | nil => exact fun _ acc hg ha _ => ⟨hg, ha⟩
    | cons d L ih =>
      intro hL acc hga haa hq
      rw [List.foldl_cons]
      have hd18 := hL d (List.mem_cons_self _ _)
      have h1 := position2_digit_Good G b el d acc hG hg hel hd18.1 hd18.2 hga haa hq
      exact ih (fun d' hd' => hL d' (List.mem_cons_of_mem _ hd')) _ h1.1.1 h1.1.2 h1.2
  apply key _ _ (b, _) hg (Above_refl b hg.1.len)
  · apply position2_posn_inv
    intro d hd
    rw [rd_replicate] at hd
    simp at hd
  · intro d hd'
    rw [List.mem_range'_1] at hd'
    omega

end Sudoku

namespace Sudoku

/-! ## The masking strategies keep every completion: `pairs` -/

theorem pairs_mask_foldl_Good (G b0 : List Nat) (el : Nat) (idx_fn : Nat → Nat → Nat)
    (m : Nat) (hm : inState m) (L : List Nat)
    (H : ∀ k ∈ L, idx_fn el k < 81 → m &&& DIGIT_STATE (DIGIT G (idx_fn el k)) = 0)
    (b : List Nat) (hg : Good G b) (ha : Above b b0) :
    Good G (L.foldl (pairs_mask el idx_fn m) b) ∧
      Above (L.foldl (pairs_mask el idx_fn m) b) b0 := by
  apply foldl_Good G b0 _ _ _ b hg ha
  intro b k hk hg ha
  unfold pairs_mask
  exact Good_or G b b0 _ m hg ha hm (fun h81 _ => H k hk h81)

theorem STATE_testBit (b : List Nat) (idx g : Nat) (hg1 : 1 ≤ g) (hg9 : g ≤ 9) :
    (STATE b idx).testBit (6 + g) = (rd b idx).testBit (6 + g) := by
  unfold STATE
  rw [Nat.testBit_and, testBit_STATE_MASK]
  have : 7 ≤ 6 + g ∧ 6 + g < 16 := by omega
  simp [this]

/-- The mask of a naked pair: two cells of an element with the same state and at most two
digits left; no other cell of the element holds one of these digits in a completion. -/
theorem pairs_key (G cur b0 : List Nat) (el : Nat) (idx_fn : Nat → Nat → Nat) (i j k : Nat)
    (hG : Solved G) (hg : Good G cur) (ha : Above cur b0)
    (hlt : ∀ k < 9, idx_fn el k < 81)
    (hpeer : ∀ k < 9, ∀ j < 9, peer (idx_fn el k) (idx_fn el j))
    (hinj : ∀ k < 9, ∀ j < 9, idx_fn el k = idx_fn el j → k = j)
    (hi : i < 9) (hj : j < 9) (hk : k < 9) (hij : i ≠ j) (hki : k ≠ i) (hkj : k ≠ j)
    (h7 : 7 ≤ (List.range 9).countP (fun t => (rd b0 (idx_fn el i)).testBit (7 + t)))
    (hst : STATE cur (idx_fn el i) = STATE cur (idx_fn el j)) :
    (STATE_MASK ^^^ (STATE_MASK &&& rd cur (idx_fn el i))) &&&
      DIGIT_STATE (DIGIT G (idx_fn el k)) = 0 := by
  have hi81 := hlt i hi
  have hj81 := hlt j hj
  have hk81 := hlt k hk
  have gk1 := hG.digit_ge _ hk81
  have gk9 := hG.digit_le9 _ hk81
  have gi1 := hG.digit_ge _ hi81
  have gi9 := hG.digit_le9 _ hi81
  have gj1 := hG.digit_ge _ hj81
  have gj9 := hG.digit_le9 _ hj81
  rw [and_DIGIT_STATE_eq_zero, Nat.testBit_xor, Nat.testBit_and, testBit_STATE_MASK]
  have e1 : 7 ≤ 6 + DIGIT G (idx_fn el k) ∧ 6 + DIGIT G (idx_fn el k) < 16 := by omega
  suffices hbit : (rd cur (idx_fn el i)).testBit (6 + DIGIT G (idx_fn el k)) = true by
    simp [e1, hbit]
  by_cases hfi : DIGIT cur (idx_fn el i) = 0
  · have ci := (hg.2 _ hi81).2 hfi
    rw [DISALLOWED_eq_zero_iff] at ci
    have cj0 : (rd cur (idx_fn el j)).testBit (6 + DIGIT G (idx_fn el i)) = false := by
      rw [← STATE_testBit _ _ _ gi1 gi9, ← hst, STATE_testBit _ _ _ gi1 gi9]
      exact ci
    have hfj : DIGIT cur (idx_fn el j) = 0 := by
      by_contra hne
      have := hg.1.full _ hj81 hne _ gi1 gi9
      rw [DISALLOWED_ne_zero_iff, cj0] at this
      exact absurd this (by decide)
    have cj := (hg.2 _ hj81).2 hfj
    rw [DISALLOWED_eq_zero_iff] at cj
    have cij : (rd cur (idx_fn el i)).testBit (6 + DIGIT G (idx_fn el j)) = false := by
      rw [← STATE_testBit _ _ _ gj1 gj9, hst, STATE_testBit _ _ _ gj1 gj9]
      exact cj
    have hnc := hG.no_conflict_grid
    have nij : DIGIT G (idx_fn el i) ≠ DIGIT G (idx_fn el j) :=
      hnc _ hi81 _ hj81 (fun h => hij (hinj i hi j hj h)) (hpeer i hi j hj) (by omega)
    have nki : DIGIT G (idx_fn el k) ≠ DIGIT G (idx_fn el i) :=
      hnc _ hk81 _ hi81 (fun h => hki (hinj k hk i hi h)) (hpeer k hk i hi) (by omega)
    have nkj : DIGIT G (idx_fn el k) ≠ DIGIT G (idx_fn el j) :=
      hnc _ hk81 _ hj81 (fun h => hkj (hinj k hk j hj h)) (hpeer k hk j hj) (by omega)
    by_contra hclear
    have hclear' : (rd cur (idx_fn el i)).testBit (6 + DIGIT G (idx_fn el k)) = false := by
      simpa using hclear
    have hmono : (List.range 9).countP (fun t => (rd b0 (idx_fn el i)).testBit (7 + t)) ≤
        (List.range 9).countP (fun t => (rd cur (idx_fn el i)).testBit (7 + t)) := by
      apply List.countP_mono_left
      intro t ht hbt
      have ht9 := List.mem_range.1 ht
      have := (ha.2 _ hi81).2 (t + 1) (by omega) (by omega)
        ((DISALLOWED_ne_zero_iff _ _ _).2 (by
          have : 6 + (t + 1) = 7 + t := by omega
          rw [this]
          exact hbt))
      rw [DISALLOWED_ne_zero_iff] at this
      have e : 6 + (t + 1) = 7 + t := by omega
      rw [e] at this
      exact this
    have hsplit := List.length_eq_countP_add_countP
      (fun t => (rd cur (idx_fn el i)).testBit (7 + t)) (List.range 9)
    rw [List.length_range] at hsplit
    have h3 := three_le_countP
      (fun t => decide ¬ (rd cur (idx_fn el i)).testBit (7 + t) = true) (List.range 9)
      (DIGIT G (idx_fn el i) - 1) (DIGIT G (idx_fn el j) - 1) (DIGIT G (idx_fn el k) - 1)
      (List.mem_range.2 (by omega)) (List.mem_range.2 (by omega)) (List.mem_range.2 (by omega))
      (by omega) (by omega) (by omega)
      (by
        have : 7 + (DIGIT G (idx_fn el i) - 1) = 6 + DIGIT G (idx_fn el i) := by omega
        dsimp only
        rw [this, ci]
        decide)
      (by
        have : 7 + (DIGIT G (idx_fn el j) - 1) = 6 + DIGIT G (idx_fn el j) := by omega
        dsimp only
        rw [this, cij]
        decide)
      (by
        have : 7 + (DIGIT G (idx_fn el k) - 1) = 6 + DIGIT G (idx_fn el k) := by omega
        dsimp only
        rw [this, hclear']
        decide)
    omega
  · have := hg.1.full _ hi81 hfi _ gk1 gk9
    rw [DISALLOWED_ne_zero_iff] at this
    exact this

theorem pairs_inner_Good (G b0 : List Nat) (el : Nat) (idx_fn : Nat → Nat → Nat) (i j : Nat)
    (acc : List Nat × List Int) (hG : Solved G)
    (hlt : ∀ k < 9, idx_fn el k < 81)
    (hpeer : ∀ k < 9, ∀ j < 9, peer (idx_fn el k) (idx_fn el j))
    (hinj : ∀ k < 9, ∀ j < 9, idx_fn el k = idx_fn el j → k = j)
    (hij : i < j) (hj : j < 9)
    (h7 : 7 ≤ (List.range 9).countP (fun t => (rd b0 (idx_fn el i)).testBit (7 + t)))
    (hg : Good G acc.1) (ha : Above acc.1 b0)
    (hD : ∀ i < 9, rdi acc.2 i = 7 →
      7 ≤ (List.range 9).countP (fun t => (rd b0 (idx_fn el i)).testBit (7 + t))) :
    (Good G (pairs_inner el idx_fn i acc j).1 ∧ Above (pairs_inner el idx_fn i acc j).1 b0) ∧
    ∀ i' < 9, rdi (pairs_inner el idx_fn i acc j).2 i' = 7 →
      7 ≤ (List.range 9).countP (fun t => (rd b0 (idx_fn el i')).testBit (7 + t)) := by
  unfold pairs_inner
  dsimp only
  by_cases hst : STATE acc.1 (idx_fn el i) = STATE acc.1 (idx_fn el j)
  · rw [if_pos hst]
    have hm : inState (STATE_MASK ^^^ (STATE_MASK &&& rd acc.1 (idx_fn el i))) :=
      inState_xor _ _ inState_STATE_MASK (inState_and_left _ _ inState_STATE_MASK)
    have key : ∀ k, k < 9 → k ≠ i → k ≠ j → idx_fn el k < 81 →
        (STATE_MASK ^^^ (STATE_MASK &&& rd acc.1 (idx_fn el i))) &&&
          DIGIT_STATE (DIGIT G (idx_fn el k)) = 0 := by
      intro k hk hki hkj _
      exact pairs_key G acc.1 b0 el idx_fn i j k hG hg ha hlt hpeer hinj (by omega) hj hk
        (by omega) hki hkj h7 hst
    have h1 := pairs_mask_foldl_Good G b0 el idx_fn _ hm (List.range' 0 i)
      (fun k hk h81 => by
        rw [List.mem_range'_1] at hk
        exact key k (by omega) (by omega) (by omega) h81) acc.1 hg ha
    have h2 := pairs_mask_foldl_Good G b0 el idx_fn _ hm (List.range' (i + 1) (j - (i + 1)))
      (fun k hk h81 => by
        rw [List.mem_range'_1] at hk
        exact key k (by omega) (by omega) (by omega) h81) _ h1.1 h1.2
    have h3 := pairs_mask_foldl_Good G b0 el idx_fn _ hm (List.range' (j + 1) (9 - (j + 1)))
      (fun k hk h81 => by
        rw [List.mem_range'_1] at hk
        exact key k (by omega) (by omega) (by omega) h81) _ h2.1 h2.2
    refine ⟨h3, ?_⟩
    intro i' hi' h
    rw [rdi_wri] at h
    split at h
    · omega
    · exact hD i' hi' h
  · rw [if_neg hst]
    exact ⟨⟨hg, ha⟩, hD⟩

theorem pairs_outer_Good (G b0 : List Nat) (el : Nat) (idx_fn : Nat → Nat → Nat) (i : Nat)
    (acc : List Nat × List Int) (hG : Solved G)
    (hlt : ∀ k < 9, idx_fn el k < 81)
    (hpeer : ∀ k < 9, ∀ j < 9, peer (idx_fn el k) (idx_fn el j))
    (hinj : ∀ k < 9, ∀ j < 9, idx_fn el k = idx_fn el j → k = j)
    (hi : i < 9)
    (hg : Good G acc.1) (ha : Above acc.1 b0)
    (hD : ∀ i < 9, rdi acc.2 i = 7 →
      7 ≤ (List.range 9).countP (fun t => (rd b0 (idx_fn el i)).testBit (7 + t))) :
    (Good G (pairs_outer el idx_fn acc i).1 ∧ Above (pairs_outer el idx_fn acc i).1 b0) ∧
    ∀ i' < 9, rdi (pairs_outer el idx_fn acc i).2 i' = 7 →
      7 ≤ (List.range 9).countP (fun t => (rd b0 (idx_fn el i')).testBit (7 + t)) := by
  unfold pairs_outer
  by_cases h7 : rdi acc.2 i = 7
  · rw [if_pos h7]
    have h7' := hD i hi h7
    have key : ∀ (L : List Nat), (∀ j ∈ L, i < j ∧ j < 9) → ∀ acc : List Nat × List Int,
        Good G acc.1 → Above acc.1 b0 →
        (∀ i' < 9, rdi acc.2 i' = 7 →
          7 ≤ (List.range 9).countP (fun t => (rd b0 (idx_fn el i')).testBit (7 + t))) →
        (Good G (L.foldl (pairs_inner el idx_fn i) acc).1 ∧
          Above (L.foldl (pairs_inner el idx_fn i) acc).1 b0) ∧
        ∀ i' < 9, rdi (L.foldl (pairs_inner el idx_fn i) acc).2 i' = 7 →
          7 ≤ (List.range 9).countP (fun t => (rd b0 (idx_fn el i')).testBit (7 + t)) := by
      intro L
      induction L with
      | nil => exact fun _ acc hg ha hD => ⟨⟨hg, ha⟩, hD⟩
      | cons j L ih =>
        intro hL acc hg ha hD
        rw [List.foldl_cons]
        have hj := hL j (List.mem_cons_self _ _)
        have h1 := pairs_inner_Good G b0 el idx_fn i j acc hG hlt hpeer hinj hj.1 hj.2 h7'
          hg ha hD
        exact ih (fun j' hj' => hL j' (List.mem_cons_of_mem _ hj')) _ h1.1.1 h1.1.2 h1.2
    apply key _ _ acc hg ha hD
    intro j hj
    rw [List.mem_range'_1] at hj
    omega
  · rw [if_neg h7]
    exact ⟨⟨hg, ha⟩, hD⟩

/-- Soundness of `pairs` after `count_set_digits` on the same element: no completion is
lost. -/
theorem pairs_Good (G b : List Nat) (el : Nat) (idx_fn : Nat → Nat → Nat) (hG : Solved G)
    (hlt : ∀ k < 9, idx_fn el k < 81)
    (hpeer : ∀ k < 9, ∀ j < 9, peer (idx_fn el k) (idx_fn el j))
    (hinj : ∀ k < 9, ∀ j < 9, idx_fn el k = idx_fn el j → k = j)
    (hg : Good G b) :
    Good G (pairs b (count_set_digits b el idx_fn).1 el idx_fn) ∧
      Above (pairs b (count_set_digits b el idx_fn).1 el idx_fn) b := by
  unfold pairs
  have key : ∀ (L : List Nat), (∀ i ∈ L, i < 9) → ∀ acc : List Nat × List Int,
      Good G acc.1 → Above acc.1 b →
      (∀ i < 9, rdi acc.2 i = 7 →
        7 ≤ (List.range 9).countP (fun t => (rd b (idx_fn el i)).testBit (7 + t))) →
      Good G (L.foldl (pairs_outer el idx_fn) acc).1 ∧
        Above (L.foldl (pairs_outer el idx_fn) acc).1 b := by
    intro L
    induction L with
    | nil => exact fun _ acc hg ha _ => ⟨hg, ha⟩
    | cons i L ih =>
      intro hL acc hg ha hD
      rw [List.foldl_cons]
      have h1 := pairs_outer_Good G b el idx_fn i acc hG hlt hpeer hinj
        (hL i (List.mem_cons_self _ _)) hg ha hD
      exact ih (fun j' hj' => hL j' (List.mem_cons_of_mem _ hj')) _ h1.1.1 h1.1.2 h1.2
  apply key _ _ (b, _) hg (Above_refl b hg.1.len)
  · intro i hi h7
    dsimp only at h7
    rw [count_set_digits_digits _ _ _ i hi] at h7
    have : (List.range 9).countP (fun t => (rd b (idx_fn el i)).testBit (7 + t)) = 7 := by
      exact_mod_cast h7
    omega
  · intro i hi
    have := List.mem_range.1 hi
    omega

theorem idx_row_inj (el k j : Nat) (_hk : k < 9) (_hj : j < 9)
    (h : idx_row el k = idx_row el j) : k = j := by
  unfold idx_row INDEX at h
  omega

theorem idx_column_inj (el k j : Nat) (_hk : k < 9) (_hj : j < 9)
    (h : idx_column el k = idx_column el j) : k = j := by
  unfold idx_column INDEX at h
  omega

theorem idx_block_inj (el k j : Nat) (_hk : k < 9) (_hj : j < 9)
    (h : idx_block el k = idx_block el j) : k = j := by
  unfold idx_block INDEX at h
  omega

theorem allmoves_pairs_Good (G b : List Nat) (i : Nat) (hG : Solved G) (hi : i < 9)
    (hg : Good G b) : Good G (allmoves_pairs b i) ∧ Above (allmoves_pairs b i) b := by
  unfold allmoves_pairs
  dsimp only
  have h1 := pairs_Good G b i idx_row hG (fun k hk => idx_row_lt hi hk)
    (fun k hk j hj => peer_idx_row i k j hk hj) (fun k hk j hj => idx_row_inj i k j hk hj) hg
  have h2 := pairs_Good G _ i idx_column hG (fun k hk => idx_column_lt hi hk)
    (fun k _ j _ => peer_idx_column i k j) (fun k hk j hj => idx_column_inj i k j hk hj) h1.1
  have h3 := pairs_Good G _ i idx_block hG (fun k hk => idx_block_lt hi hk)
    (fun k hk j hj => peer_idx_block i k j hk hj) (fun k hk j hj => idx_block_inj i k j hk hj)
    h2.1
  exact ⟨h3.1, Above_trans _ _ _ h3.2 (Above_trans _ _ _ h2.2 h1.2)⟩

theorem allmoves_block_Good (G b : List Nat) (i : Nat) (hG : Solved G) (hi : i < 9)
    (hg : Good G b) : Good G (allmoves_block b i) ∧ Above (allmoves_block b i) b := by
  unfold allmoves_block
  have h1 := block_Good G b i hG hg hi
  have h2 := common_Good G _ i hG h1.1 hi
  have h3 := position2_Good G _ i hG h2.1 hi
  exact ⟨h3.1, Above_trans _ _ _ h3.2 (Above_trans _ _ _ h2.2 h1.2)⟩

/-- Soundness of `allmoves`: on a board that has the completion `G`, no contradiction is
reported, `G` stays consistent with the masked board, and every move found is a digit
of `G`. -/
theorem allmoves_sound (G b : List Nat) (hG : Solved G) (hg : Good G b) :
    (allmoves b).1 ≠ -1 ∧ Good G (allmoves b).2.2 ∧
      ∀ p ∈ (allmoves b).2.1, Forced G p := by
  have hp : ∀ b', Good G b' → Good G ((List.range 9).foldl allmoves_pairs b') := by
    intro b' hg'
    refine (foldl_Good G b' _ _ ?_ b' hg' (Above_refl b' hg'.1.len)).1
    intro b2 i hi hg2 ha2
    have := allmoves_pairs_Good G b2 i hG (List.mem_range.1 hi) hg2
    exact ⟨this.1, Above_trans _ _ _ this.2 ha2⟩
  have hb : ∀ b', Good G b' → Good G ((List.range 9).foldl allmoves_block b') := by
    intro b' hg'
    refine (foldl_Good G b' _ _ ?_ b' hg' (Above_refl b' hg'.1.len)).1
    intro b2 i hi hg2 ha2
    have := allmoves_block_Good G b2 i hG (List.mem_range.1 hi) hg2
    exact ⟨this.1, Above_trans _ _ _ this.2 ha2⟩
  rw [allmoves_eq]
  by_cases c1 : (findmoves b).1 ≠ 0
  · rw [if_pos c1, triple_fst (findmoves b).1 (findmoves b).2 b,
      triple_snd_snd (findmoves b).1 (findmoves b).2 b,
      triple_snd_fst (findmoves b).1 (findmoves b).2 b]
    have := findmoves_sound G b hG hg.1 hg.2
    exact ⟨this.1, hg, this.2⟩
  · rw [if_neg c1]
    have hg1 := hp b hg
    by_cases c2 : (findmoves ((List.range 9).foldl allmoves_pairs b)).1 ≠ 0
    · rw [if_pos c2, triple_fst (findmoves ((List.range 9).foldl allmoves_pairs b)).1
          (findmoves ((List.range 9).foldl allmoves_pairs b)).2
          ((List.range 9).foldl allmoves_pairs b),
        triple_snd_snd (findmoves ((List.range 9).foldl allmoves_pairs b)).1
          (findmoves ((List.range 9).foldl allmoves_pairs b)).2
          ((List.range 9).foldl allmoves_pairs b),
        triple_snd_fst (findmoves ((List.range 9).foldl allmoves_pairs b)).1
          (findmoves ((List.range 9).foldl allmoves_pairs b)).2
          ((List.range 9).foldl allmoves_pairs b)]
      have := findmoves_sound G _ hG hg1.1 hg1.2
      exact ⟨this.1, hg1, this.2⟩
    · have hg2 := hb _ hg1
      rw [if_neg c2, triple_fst (findmoves ((List.range 9).foldl allmoves_block
            ((List.range 9).foldl allmoves_pairs b))).1
          (findmoves ((List.range 9).foldl allmoves_block
            ((List.range 9).foldl allmoves_pairs b))).2
          ((List.range 9).foldl allmoves_block ((List.range 9).foldl allmoves_pairs b)),
        triple_snd_snd (findmoves ((List.range 9).foldl allmoves_block
            ((List.range 9).foldl allmoves_pairs b))).1
          (findmoves ((List.range 9).foldl allmoves_block
            ((List.range 9).foldl allmoves_pairs b))).2
          ((List.range 9).foldl allmoves_block ((List.range 9).foldl allmoves_pairs b)),
        triple_snd_fst (findmoves ((List.range 9).foldl allmoves_block
            ((List.range 9).foldl allmoves_pairs b))).1
          (findmoves ((List.range 9).foldl allmoves_block
            ((List.range 9).foldl allmoves_pairs b))).2
          ((List.range 9).foldl allmoves_block ((List.range 9).foldl allmoves_pairs b))]
      have := findmoves_sound G _ hG hg2.1 hg2.2
      exact ⟨this.1, hg2, this.2⟩

end Sudoku

namespace Sudoku

/-! ## Grids that agree with a history -/

theorem Agree_mono (G h : List Nat) (n m : Nat) (hm : m ≤ n) (ha : Agree G h n) :
    Agree G h m :=
  fun k hk hr => ha k (by omega) hr

theorem Agree_congr (G h h' : List Nat) (n : Nat) (heq : ∀ k < n, rd h k = rd h' k)
    (ha : Agree G h n) : Agree G h' n := by
  intro k hk hr
  rw [← heq k hk] at hr ⊢
  exact ha k hk hr

theorem Agree_succ (G h : List Nat) (n : Nat) :
    Agree G h (n + 1) ↔ Agree G h n ∧
      (replayable (rd h n) → DIGIT G (GET_INDEX (rd h n)) = GET_DIGIT (rd h n)) := by
  constructor
  · intro ha
    exact ⟨Agree_mono G h _ _ (by omega) ha, ha n (by omega)⟩
  · rintro ⟨h1, h2⟩ k hk hr
    by_cases hkn : k = n
    · subst hkn
      exact h2 hr
    · exact h1 k (by omega) hr

/-- A grid that agrees with the records of a history is consistent with its replay. -/
theorem replay_Cons (G hist : List Nat) (n : Nat) (hG : Solved G) (hn : n ≤ hist.length)
    (hwf : WFHistory hist n) (ha : Agree G hist n) : Cons G (replay hist n).2 := by
  induction n with
  | zero =>
    rw [replay_zero]
    exact Cons_empty G
  | succ n ih =>
    have ih' := ih (by omega) (fun k hk => hwf k (by omega)) (Agree_mono G hist _ _ (by omega) ha)
    by_cases hr : replayable (rd hist n)
    · rw [replay_succ_place hist n (by omega) hwf hr]
      apply Cons_place G _ _ _ hG (replay_BoardWF hist n (by omega)
        (fun k hk => hwf k (by omega))).len ih' (hwf n (by omega)).1
      rw [GET_DIGIT_record_word]
      exact (ha n (by omega) hr).symm
    · rw [replay_succ hist n (by omega), reapply_step_skip _ _ hr]
      exact ih'

theorem filled_congr (b b' : List Nat) (h : ∀ i < 81, DIGIT b i = DIGIT b' i) :
    filled b = filled b' := by
  unfold filled
  apply Finset.filter_congr
  intro i hi
  rw [h i (Finset.mem_range.1 hi)]

/-- A valid replay of `n` replayed records fills `n` cells. -/
theorem replay_card (hist : List Nat) (n : Nat) (hn : n ≤ hist.length)
    (hwf : WFHistory hist n) (hlive : ∀ k < n, replayable (rd hist k))
    (hok : (replay hist n).1 = 0) : (filled (replay hist n).2).card = n := by
  induction n with
  | zero =>
    rw [replay_zero]
    decide
  | succ n ih =>
    have hr := hlive n (by omega)
    have hv := replay_valid_step hist n (by omega) hok hr
    have ih' := ih (by omega) (fun k hk => hwf k (by omega)) (fun k hk => hlive k (by omega))
      ( replay_valid_prefix hist (n + 1) n hn (by omega) hok)
    rw [replay_succ_place hist n (by omega) hwf hr]
    rw [filled_place _ _ _ (replay_BoardWF hist n (by omega)
      (fun k hk => hwf k (by omega))).len (hwf n (by omega)).1
      (by rw [GET_DIGIT_record_word]; have := hr.2; omega)
      (by rw [GET_DIGIT_record_word]; exact (hwf n (by omega)).2)
      ((IS_EMPTY_iff _ _).1 hv.1), ih']

/-! ## Order on histories: extension and advanced choices -/

theorem Ext_refl (h : List Nat) (n : Nat) : Ext h n h n := ⟨le_refl _, fun _ _ => rfl⟩

theorem Ext_trans (h1 h2 h3 : List Nat) (n1 n2 n3 : Nat) (a : Ext h1 n1 h2 n2)
    (b : Ext h2 n2 h3 n3) : Ext h1 n1 h3 n3 :=
  ⟨le_trans a.1 b.1, fun k hk => by rw [b.2 k (by have := a.1; omega), a.2 k hk]⟩

theorem Agree_Ext (G h h' : List Nat) (n n' : Nat) (e : Ext h n h' n') (ha : Agree G h' n') :
    Agree G h n :=
  Agree_congr G h' h n e.2 (Agree_mono G h' n' n e.1 ha)

theorem Adv_mono_left (h h' : List Nat) (n m n' : Nat) (hm : n ≤ m) (a : Adv h n h' n') :
    Adv h m h' n' := by
  obtain ⟨k, h1, h2, h3⟩ := a
  exact ⟨k, by omega, h2, h3⟩

theorem Ext_Adv (h1 h2 h3 : List Nat) (n1 n2 n3 : Nat) (a : Ext h1 n1 h2 n2)
    (b : Adv h2 n2 h3 n3) : Ext h1 n1 h3 n3 ∨ Adv h1 n1 h3 n3 := by
  obtain ⟨k, k1, k2, k3, k4, k5, k6, k7⟩ := b
  by_cases hk : k < n1
  · right
    refine ⟨k, hk, k2, ?_, ?_, k5, ?_, ?_⟩
    · intro j hj
      rw [k3 j hj, a.2 j (by omega)]
    · rw [← a.2 k hk]
      exact k4
    · rw [k6, a.2 k hk]
    · rw [← a.2 k hk]
      exact k7
  · left
    refine ⟨by omega, ?_⟩
    intro j hj
    rw [k3 j (by omega), a.2 j hj]

theorem Adv_Ext (h1 h2 h3 : List Nat) (n1 n2 n3 : Nat) (a : Adv h1 n1 h2 n2)
    (b : Ext h2 n2 h3 n3) : Adv h1 n1 h3 n3 := by
  obtain ⟨k, k1, k2, k3, k4, k5, k6, k7⟩ := a
  refine ⟨k, k1, by have := b.1; omega, ?_, k4, ?_, ?_, ?_⟩
  · intro j hj
    rw [b.2 j (by omega), k3 j hj]
  · rw [b.2 k k2]
    exact k5
  · rw [b.2 k k2]
    exact k6
  · rw [b.2 k k2]
    exact k7

theorem Adv_Adv (h1 h2 h3 : List Nat) (n1 n2 n3 : Nat) (a : Adv h1 n1 h2 n2)
    (b : Adv h2 n2 h3 n3) : Adv h1 n1 h3 n3 := by
  obtain ⟨k, k1, k2, k3, k4, k5, k6, k7⟩ := a
  obtain ⟨j, j1, j2, j3, j4, j5, j6, j7⟩ := b
  rcases Nat.lt_trichotomy j k with hlt | heq | hgt
  · refine ⟨j, by omega, j2, ?_, ?_, j5, ?_, ?_⟩
    · intro i hi
      rw [j3 i hi, k3 i (by omega)]
    · rw [← k3 j hlt]
      exact j4
    · rw [j6, k3 j hlt]
    · rw [← k3 j hlt]
      exact j7
  · subst heq
    refine ⟨j, k1, j2, ?_, k4, j5, ?_, ?_⟩
    · intro i hi
      rw [j3 i hi, k3 i hi]
    · rw [j6, k6]
    · omega
  · refine ⟨k, k1, by omega, ?_, k4, ?_, ?_, ?_⟩
    · intro i hi
      rw [j3 i (by omega), k3 i hi]
    · rw [j3 k hgt]
      exact k5
    · rw [j3 k hgt]
      exact k6
    · rw [j3 k hgt]
      exact k7

/-- The order is transitive. -/
theorem Later_trans (h1 h2 h3 : List Nat) (n1 n2 n3 : Nat)
    (a : Ext h1 n1 h2 n2 ∨ Adv h1 n1 h2 n2) (b : Ext h2 n2 h3 n3 ∨ Adv h2 n2 h3 n3) :
    Ext h1 n1 h3 n3 ∨ Adv h1 n1 h3 n3 := by
  rcases a with a | a
  · rcases b with b | b
    · exact Or.inl (Ext_trans _ _ _ _ _ _ a b)
    · exact Ext_Adv _ _ _ _ _ _ a b
  · rcases b with b | b
    · exact Or.inr (Adv_Ext _ _ _ _ _ _ a b)
    · exact Or.inr (Adv_Adv _ _ _ _ _ _ a b)

end Sudoku

namespace Sudoku

/-! ## The search invariant under placements -/

theorem word_choice_flag (idx d flags : Nat) (hidx : idx < 81) (hd : d ≤ 9)
    (hf : flags = 0 ∨ flags = CHOICE) :
    ((SET_INDEX idx ||| SET_DIGIT d ||| flags) &&& CHOICE ≠ 0 ↔ flags = CHOICE) ∧
      (SET_INDEX idx ||| SET_DIGIT d ||| flags) &&& FIXED = 0 := by
  have h1 := record_flag idx d CHOICE 21 CHOICE_eq (by omega) (by omega) (by omega)
  have h2 := record_flag idx d FIXED 20 FIXED_eq (by omega) (by omega) (by omega)
  rw [CHOICE_eq, and_two_pow_eq_zero] at h1
  rw [FIXED_eq, and_two_pow_eq_zero] at h2
  constructor
  · rw [CHOICE_eq, and_two_pow_ne_zero, Nat.testBit_or, h1]
    rcases hf with hf | hf
    · subst hf
      simp
    · subst hf
      rw [CHOICE_eq, Nat.testBit_two_pow]
      simp
  · rw [FIXED_eq, and_two_pow_eq_zero, Nat.testBit_or, h2]
    rcases hf with hf | hf
    · subst hf
      simp
    · subst hf
      rw [CHOICE_eq, Nat.testBit_two_pow]
      simp

theorem SearchInv.n_le {C : List Nat → Prop} {P : List Nat → Prop} {m0 : Nat} {H0 : List Nat} {s : State}
    (h : SearchInv C P m0 H0 s) : s.idx_history.toNat ≤ 81 := by
  rw [h.card]
  exact filled_card_le _

theorem SearchInv.n_lt {C : List Nat → Prop} {P : List Nat → Prop} {m0 : Nat} {H0 : List Nat} {s : State}
    (h : SearchInv C P m0 H0 s) (idx : Nat) (hidx : idx < 81) (hempty : DIGIT s.board idx = 0) :
    s.idx_history.toNat < 81 := by
  rw [h.card]
  unfold filled
  have hsub : (Finset.range 81).filter (fun i => DIGIT s.board i ≠ 0) ⊆
      (Finset.range 81).erase idx := by
    intro i hi
    rw [Finset.mem_filter] at hi
    rw [Finset.mem_erase]
    refine ⟨?_, hi.1⟩
    intro hc
    rw [hc] at hi
    exact hi.2 hempty
  have := Finset.card_le_card hsub
  rw [Finset.card_erase_of_mem (Finset.mem_range.2 hidx), Finset.card_range] at this
  omega

theorem SearchInv.fresh {C : List Nat → Prop} {P : List Nat → Prop} {m0 : Nat} {H0 : List Nat} {s : State}
    (h : SearchInv C P m0 H0 s) (idx : Nat) (hidx : idx < 81) (hempty : DIGIT s.board idx = 0) :
    ∀ k < s.idx_history.toNat, GET_INDEX (rd s.history k) ≠ idx := by
  intro k hk hc
  have hn := h.n_le
  have := replay_record_filled s.history s.idx_history.toNat k
    (by rw [h.inv.hist.hlen]; omega) hk h.inv.hist.wf (h.live k hk)
  rw [hc, ← (h.inv.above.2 idx hidx).1] at this
  exact this hempty

/-- Placing an allowed digit in an empty cell keeps the search invariant, provided the
new record is justified: a forced digit is the digit of every grid of the class that
agrees with the history, a chosen digit is at most that digit. -/
theorem SearchInv_place (C : List Nat → Prop) (P : List Nat → Prop) (m0 : Nat) (H0 : List Nat) (s : State)
    (idx d flags : Nat) (hC : ∀ G, C G → Solved G) (hP : WordClosed P) (h : SearchInv C P m0 H0 s)
    (hidx : idx < 81) (hd1 : 1 ≤ d) (hd9 : d ≤ 9) (hf : flags = 0 ∨ flags = CHOICE)
    (hempty : DIGIT s.board idx = 0) (hallowed : DISALLOWED s.board idx d = 0)
    (hlex : ∀ G, C G → Agree G s.history s.idx_history.toNat →
      (flags = CHOICE → d ≤ DIGIT G idx) ∧ (flags ≠ CHOICE → DIGIT G idx = d)) :
    add_move (State.mk (update (wr s.board idx (SET_DIGIT d)) idx) s.history
        s.idx_history s.pass) idx d flags =
      some (State.mk (update (wr s.board idx (SET_DIGIT d)) idx)
        (wr s.history s.idx_history.toNat (SET_INDEX idx ||| SET_DIGIT d ||| flags))
        (s.idx_history + 1) s.pass) ∧
    SearchInv C P m0 H0 (State.mk (update (wr s.board idx (SET_DIGIT d)) idx)
        (wr s.history s.idx_history.toNat (SET_INDEX idx ||| SET_DIGIT d ||| flags))
        (s.idx_history + 1) s.pass) := by
  have hn := h.n_lt idx hidx hempty
  have h0 := h.inv.hist.nonneg
  have hlen := h.inv.hist.hlen
  have hadd := add_move_fresh (State.mk (update (wr s.board idx (SET_DIGIT d)) idx) s.history
    s.idx_history s.pass) idx d flags h0 (by dsimp only; omega) (h.fresh idx hidx hempty)
  dsimp only at hadd
  refine ⟨hadd, ?_⟩
  have hinv := SolveInv_place s _ idx d flags h.inv hidx hd1 hd9 hf hempty hallowed hadd
  obtain ⟨hw1, hw2, hw3, hw4, hw5⟩ := word_replayable idx d flags hidx hd1 hd9 hf
  have hn1 : (s.idx_history + 1).toNat = s.idx_history.toNat + 1 := by omega
  have hold : ∀ k < s.idx_history.toNat,
      rd (wr s.history s.idx_history.toNat (SET_INDEX idx ||| SET_DIGIT d ||| flags)) k =
        rd s.history k := fun k hk => rd_wr_ne _ _ _ _ (by omega)
  have hnew : rd (wr s.history s.idx_history.toNat (SET_INDEX idx ||| SET_DIGIT d ||| flags))
      s.idx_history.toNat = SET_INDEX idx ||| SET_DIGIT d ||| flags :=
    rd_wr_self _ _ _ (by rw [hlen]; omega)
  have hagree : ∀ G k, k ≤ s.idx_history.toNat →
      Agree G (wr s.history s.idx_history.toNat (SET_INDEX idx ||| SET_DIGIT d ||| flags)) k →
      Agree G s.history k := by
    intro G k hk ha
    exact Agree_congr G _ _ k (fun j hj => hold j (by omega)) ha
  refine ⟨hinv, ?_, ?_, h.base1, ?_, ?_, ?_, ?_, ?_,
    hP _ _ idx d flags hidx hd1 hd9 hf h.hp⟩
  · intro k hk
    dsimp only at hk ⊢
    rw [hn1] at hk
    by_cases hkn : k = s.idx_history.toNat
    · rw [hkn, hnew]
      exact hw1
    · rw [hold k (by omega)]
      exact h.live k (by omega)
  · dsimp only
    rw [hn1, filled_place _ _ _ h.inv.board_wf.len hidx
      (by rw [GET_DIGIT_SET_DIGIT _ (by omega)]; exact hd1)
      (by rw [GET_DIGIT_SET_DIGIT _ (by omega)]; exact hd9) hempty, ← h.card]
  · dsimp only
    have := h.base
    omega
  · intro k hk1 hk
    dsimp only
    rw [hold k (by have := h.base; omega)]
    exact h.nochoice k hk1 hk
  · intro k hk
    dsimp only
    rw [hold k (by have := h.base; omega)]
    exact h.pre k hk
  · intro G hG ha
    dsimp only at ha ⊢
    rw [hn1, Agree_succ, hnew, hw3, hw4] at ha
    have hc := h.sound G hG (hagree G _ (le_refl _) ha.1)
    apply Cons_place G _ _ _ (hC G hG) h.inv.board_wf.len hc hidx
    rw [GET_DIGIT_SET_DIGIT _ (by omega)]
    exact (ha.2 hw1).symm
  · intro G hG k hk0 hk ha
    dsimp only at hk ha ⊢
    rw [hn1] at hk
    by_cases hkn : k = s.idx_history.toNat
    · rw [hkn] at ha ⊢
      rw [hnew, hw3, hw4]
      have hl := hlex G hG (hagree G _ (le_refl _) ha)
      have hfl := (word_choice_flag idx d flags hidx hd9 hf).1
      constructor
      · intro hc
        exact hl.1 (hfl.1 hc)
      · intro hc
        apply hl.2
        intro hcf
        exact (hfl.2 hcf) hc
    · rw [hold k (by omega)]
      exact h.lex G hG k hk0 (by omega) (hagree G k (by omega) ha)

end Sudoku

namespace Sudoku

/-! ## The search invariant through `deterministic` -/

theorem SearchInv_board (C : List Nat → Prop) (P : List Nat → Prop) (m0 : Nat) (H0 : List Nat) (s : State)
    (b : List Nat) (p : Nat) (h : SearchInv C P m0 H0 s) (hab : Above b s.board)
    (hs : ∀ G, C G → Agree G s.history s.idx_history.toNat → Cons G b) :
    SearchInv C P m0 H0 (State.mk b s.history s.idx_history p) where
  inv := SolveInv_pass _ p (SolveInv_board s b h.inv hab)
  live := h.live
  card := by
    dsimp only
    rw [h.card, filled_congr b s.board (fun i hi => (hab.2 i hi).1)]
  base1 := h.base1
  base := h.base
  nochoice := h.nochoice
  pre := h.pre
  sound := hs
  lex := h.lex
  hp := h.hp

theorem findmoves_loop_fst (b : List Nat) (fuel el : Nat) (possible : List Nat) :
    (findmoves_loop b fuel el possible).1 = -1 ∨ 0 ≤ (findmoves_loop b fuel el possible).1 := by
  induction fuel generalizing el possible with
  | zero =>
    unfold findmoves_loop
    right
    exact Int.natCast_nonneg _
  | succ fuel ih =>
    unfold findmoves_loop
    split
    · dsimp only
      split
      · exact Or.inl rfl
      · split
        · exact Or.inl rfl
        · split
          · exact Or.inl rfl
          · exact ih _ _
    · right
      exact Int.natCast_nonneg _

theorem allmoves_fst (b : List Nat) : (allmoves b).1 = -1 ∨ 0 ≤ (allmoves b).1 := by
  rw [allmoves_eq]
  by_cases c1 : (findmoves b).1 ≠ 0
  · rw [if_pos c1, triple_fst (findmoves b).1 (findmoves b).2 b]
    exact findmoves_loop_fst b 9 0 []
  · rw [if_neg c1]
    by_cases c2 : (findmoves ((List.range 9).foldl allmoves_pairs b)).1 ≠ 0
    · rw [if_pos c2, triple_fst (findmoves ((List.range 9).foldl allmoves_pairs b)).1
          (findmoves ((List.range 9).foldl allmoves_pairs b)).2
          ((List.range 9).foldl allmoves_pairs b)]
      exact findmoves_loop_fst _ 9 0 []
    · rw [if_neg c2, triple_fst (findmoves ((List.range 9).foldl allmoves_block
            ((List.range 9).foldl allmoves_pairs b))).1
          (findmoves ((List.range 9).foldl allmoves_block
            ((List.range 9).foldl allmoves_pairs b))).2
          ((List.range 9).foldl allmoves_block ((List.range 9).foldl allmoves_pairs b))]
      exact findmoves_loop_fst _ 9 0 []

/-- A call of `fill` with a digit that every grid of the class holds in the cell: the
invariant is kept, the live records stay, and a failure means that no grid of the class
agrees with the history. -/
theorem SearchInv_fill (C : List Nat → Prop) (P : List Nat → Prop) (m0 : Nat) (H0 : List Nat) (s s' : State)
    (idx d : Nat) (r : Int) (hC : ∀ G, C G → Solved G) (hP : WordClosed P) (h : SearchInv C P m0 H0 s)
    (hidx : idx < 81) (hd1 : 1 ≤ d) (hd9 : d ≤ 9)
    (hforced : ∀ G, C G → Agree G s.history s.idx_history.toNat → DIGIT G idx = d)
    (hfill : fill s idx d = some (r, s')) :
    SearchInv C P m0 H0 s' ∧ (r = 0 ∨ r = -1) ∧ (r = -1 → Dead C s') ∧
      s.idx_history.toNat ≤ s'.idx_history.toNat ∧
      ∀ k < s.idx_history.toNat, rd s'.history k = rd s.history k := by
  unfold fill at hfill
  by_cases he : IS_EMPTY s.board idx = true
  · have hempty := (IS_EMPTY_iff _ _).1 he
    rw [if_neg (by simp [he])] at hfill
    by_cases hd : DISALLOWED s.board idx d ≠ 0
    · rw [if_pos hd] at hfill
      simp only [Option.some.injEq, Prod.mk.injEq] at hfill
      rw [← hfill.1, ← hfill.2]
      refine ⟨h, Or.inr rfl, ?_, le_refl _, fun _ _ => rfl⟩
      intro _ G hG ha
      have hc := (h.sound G hG ha idx hidx).2 hempty
      rw [hforced G hG ha] at hc
      exact hd hc
    · rw [if_neg hd] at hfill
      have hallowed : DISALLOWED s.board idx d = 0 := not_not.1 hd
      obtain ⟨hadd, hinv⟩ := SearchInv_place C P m0 H0 s idx d 0 hC hP h hidx hd1 hd9 (Or.inl rfl)
        hempty hallowed (fun G hG ha => ⟨fun hc => absurd hc (by decide),
          fun _ => hforced G hG ha⟩)
      dsimp only at hfill
      rw [hadd] at hfill
      simp only [Option.map_some', Option.some.injEq, Prod.mk.injEq] at hfill
      rw [← hfill.1, ← hfill.2]
      refine ⟨hinv, Or.inl rfl, fun hc => absurd hc (by decide), ?_, ?_⟩
      · dsimp only
        have := h.inv.hist.nonneg
        omega
      · intro k hk
        dsimp only
        exact rd_wr_ne _ _ _ _ (by omega)
  · rw [if_pos (by simp [he])] at hfill
    simp only [Option.some.injEq, Prod.mk.injEq] at hfill
    rw [← hfill.1, ← hfill.2]
    refine ⟨h, ?_, ?_, le_refl _, fun _ _ => rfl⟩
    · split
      · exact Or.inl rfl
      · exact Or.inr rfl
    · intro hr G hG ha
      have hne : DIGIT s.board idx ≠ 0 := by
        intro h0
        exact he ((IS_EMPTY_iff _ _).2 h0)
      have hc := (h.sound G hG ha idx hidx).1 hne
      rw [hforced G hG ha] at hc
      rw [if_pos hc.symm] at hr
      exact absurd hr (by decide)

theorem deterministic_fill_search (C : List Nat → Prop) (P : List Nat → Prop) (m0 : Nat) (H0 : List Nat)
    (hC : ∀ G, C G → Solved G) (hP : WordClosed P) (ps : List Nat) (s s' : State) (x : Int)
    (h : SearchInv C P m0 H0 s)
    (hps : ∀ p ∈ ps, CandOK p ∧
      ∀ G, C G → Agree G s.history s.idx_history.toNat → Forced G p)
    (hr : deterministic_fill ps s = some (x, s')) :
    SearchInv C P m0 H0 s' ∧ (x = 0 ∨ x = -1) ∧ (x = -1 → Dead C s') ∧
      Ext s.history s.idx_history.toNat s'.history s'.idx_history.toNat := by
  induction ps generalizing s with
  | nil =>
    unfold deterministic_fill at hr
    simp only [Option.some.injEq, Prod.mk.injEq] at hr
    rw [← hr.2, ← hr.1]
    exact ⟨h, Or.inl rfl, fun hc => absurd hc (by decide), Ext_refl _ _⟩
  | cons p ps ih =>
    unfold deterministic_fill at hr
    have hp := hps p (List.mem_cons_self _ _)
    cases hf : fill s (GET_INDEX p) (GET_DIGIT p) with
    | none =>
      rw [hf] at hr
      exact absurd hr (by simp)
    | some r1 =>
      obtain ⟨r, s1⟩ := r1
      rw [hf] at hr
      dsimp only at hr
      obtain ⟨g1, g2, g3, g4, g5⟩ := SearchInv_fill C P m0 H0 s s1 _ _ r hC hP h hp.1.1 hp.1.2.1
        hp.1.2.2 (fun G hG ha => ((hp.2 G hG ha).2).symm) hf
      by_cases hr1 : r = -1
      · rw [if_pos hr1] at hr
        simp only [Option.some.injEq, Prod.mk.injEq] at hr
        rw [← hr.2, ← hr.1]
        exact ⟨g1, Or.inr rfl, fun _ => g3 hr1, g4, g5⟩
      · rw [if_neg hr1] at hr
        have hrec := ih s1 g1 ?_ hr
        · exact ⟨hrec.1, hrec.2.1, hrec.2.2.1, Ext_trans _ _ _ _ _ _ ⟨g4, g5⟩ hrec.2.2.2⟩
        intro q hq
        have hq' := hps q (List.mem_cons_of_mem _ hq)
        refine ⟨hq'.1, ?_⟩
        intro G hG ha
        apply hq'.2 G hG
        exact Agree_congr G _ _ _ g5 (Agree_mono G _ _ _ g4 ha)

theorem deterministic_loop_search (C : List Nat → Prop) (P : List Nat → Prop) (m0 : Nat) (H0 : List Nat)
    (hC : ∀ G, C G → Solved G) (hP : WordClosed P) (fuel : Nat) (r : Int × List Nat × List Nat) (s s' : State)
    (x : Int) (h : SearchInv C P m0 H0 s) (hr : r = allmoves s.board)
    (hres : deterministic_loop fuel r s = some (x, s')) :
    SearchInv C P m0 H0 s' ∧ (x ≠ 0 → Dead C s') ∧
      Ext s.history s.idx_history.toNat s'.history s'.idx_history.toNat := by
  induction fuel generalizing r s with
  | zero =>
    unfold deterministic_loop at hres
    exact absurd hres (by simp)
  | succ fuel ih =>
    unfold deterministic_loop at hres
    dsimp only at hres
    have hab : Above r.2.2 s.board := by
      rw [hr]
      exact allmoves_Above s.board h.inv.board_wf.len h.inv.board_wf.digit_le
    have hsound : ∀ G, C G → Agree G s.history s.idx_history.toNat →
        r.1 ≠ -1 ∧ Good G r.2.2 ∧ ∀ p ∈ r.2.1, Forced G p := by
      intro G hG ha
      rw [hr]
      exact allmoves_sound G s.board (hC G hG) ⟨h.inv.board_wf, h.sound G hG ha⟩
    have h0 : ∀ p, SearchInv C P m0 H0 (State.mk r.2.2 s.history s.idx_history p) :=
      fun p => SearchInv_board C P m0 H0 s r.2.2 p h hab (fun G hG ha => (hsound G hG ha).2.1.2)
    by_cases hn : 0 < r.1
    · rw [if_pos hn] at hres
      cases hf : deterministic_fill (r.2.1.take r.1.toNat)
          (State.mk r.2.2 s.history s.idx_history (s.pass + 1)) with
      | none =>
        rw [hf] at hres
        exact absurd hres (by simp)
      | some r2 =>
        obtain ⟨y, s2⟩ := r2
        rw [hf] at hres
        dsimp only at hres
        obtain ⟨g1, g2, g3, g4⟩ := deterministic_fill_search C P m0 H0 hC hP _ _ s2 y (h0 (s.pass + 1))
          (fun p hp => ⟨by rw [hr] at hp; exact allmoves_CandOK s.board p (List.mem_of_mem_take hp),
            fun G hG ha => (hsound G hG ha).2.2 p (List.mem_of_mem_take hp)⟩) hf
        by_cases hy : y = -1
        · rw [if_pos hy] at hres
          simp only [Option.some.injEq, Prod.mk.injEq] at hres
          rw [← hres.2, ← hres.1]
          exact ⟨g1, fun _ => g3 hy, g4⟩
        · rw [if_neg hy] at hres
          have hrec := ih (allmoves s2.board) s2 g1 rfl hres
          exact ⟨hrec.1, hrec.2.1, Ext_trans _ _ _ _ _ _ g4 hrec.2.2⟩
    · rw [if_neg hn] at hres
      simp only [Option.some.injEq, Prod.mk.injEq] at hres
      rw [← hres.2, ← hres.1]
      refine ⟨h0 s.pass, ?_, Ext_refl _ _⟩
      intro hx G hG ha
      have h1 := (hsound G hG ha).1
      have h2 : r.1 = -1 ∨ 0 ≤ r.1 := by
        rw [hr]
        exact allmoves_fst s.board
      omega

/-- The search invariant through `deterministic`: it is kept, and a result other than 0
means that no grid of the class agrees with the history. -/
theorem deterministic_search (C : List Nat → Prop) (P : List Nat → Prop) (m0 : Nat) (H0 : List Nat)
    (hC : ∀ G, C G → Solved G) (hP : WordClosed P) (fuel : Nat) (s s' : State) (x : Int)
    (h : SearchInv C P m0 H0 s) (hres : deterministic fuel s = some (x, s')) :
    SearchInv C P m0 H0 s' ∧ (x ≠ 0 → Dead C s') ∧
      Ext s.history s.idx_history.toNat s'.history s'.idx_history.toNat := by
  unfold deterministic at hres
  exact deterministic_loop_search C P m0 H0 hC hP fuel _ s s' x h rfl hres

end Sudoku

namespace Sudoku

/-! ## The search invariant through `choice`, `choose` and `backtrack` -/

theorem choice_scan_none (board : List Nat) (fuel i : Nat) (acc : List Nat)
    (h : choice_scan board fuel i acc = none) :
    ∃ c < 81, DIGIT board c = 0 ∧ (numset (List.replicate 9 0) (rd board c)).1 = 9 := by
  induction fuel generalizing i acc with
  | zero =>
    unfold choice_scan at h
    exact absurd h (by simp)
  | succ fuel ih =>
    unfold choice_scan at h
    by_cases hi : i < 81
    · rw [if_pos hi] at h
      by_cases he : IS_EMPTY board i = true
      · rw [if_pos he] at h
        dsimp only at h
        have hle := numset_le (List.replicate 9 0) (rd board i)
        have hd : GET_DIGIT (SET_INDEX i ||| SET_DIGIT (numset (List.replicate 9 0)
            (rd board i)).1) = (numset (List.replicate 9 0) (rd board i)).1 := by
          rw [← Nat.or_zero (SET_INDEX i ||| _)]
          exact record_digit _ _ _ (by omega) (by omega) (by decide)
        rw [hd] at h
        by_cases h9 : (numset (List.replicate 9 0) (rd board i)).1 = 9
        · exact ⟨i, hi, (IS_EMPTY_iff _ _).1 he, h9⟩
        · rw [if_neg h9] at h
          exact ih _ _ h
      · rw [if_neg he] at h
        exact ih _ _ h
    · rw [if_neg hi] at h
      exact absurd h (by simp)

theorem choice_scan_empty (board : List Nat) (fuel i : Nat) (acc L : List Nat)
    (h : choice_scan board fuel i acc = some L)
    (hacc : ∀ p ∈ acc, DIGIT board (GET_INDEX p) = 0) :
    ∀ p ∈ L, DIGIT board (GET_INDEX p) = 0 := by
  induction fuel generalizing i acc with
  | zero =>
    unfold choice_scan at h
    simp only [Option.some.injEq] at h
    rw [← h]
    exact hacc
  | succ fuel ih =>
    unfold choice_scan at h
    by_cases hi : i < 81
    · rw [if_pos hi] at h
      by_cases he : IS_EMPTY board i = true
      · rw [if_pos he] at h
        dsimp only at h
        split at h
        · exact absurd h (by simp)
        · apply ih _ _ h
          intro p hp
          rcases List.mem_append.1 hp with hp | hp
          · exact hacc p hp
          · rw [List.mem_singleton] at hp
            rw [hp, ← Nat.or_zero (SET_INDEX i ||| _), record_index _ _ _ (by omega) (by decide)]
            exact (IS_EMPTY_iff _ _).1 he
      · rw [if_neg he] at h
        exact ih _ _ h hacc
    · rw [if_neg hi] at h
      simp only [Option.some.injEq] at h
      rw [← h]
      exact hacc

/-- The cell that `choice` returns is empty. -/
theorem choice_empty (qsort : (Nat → Nat → Int) → List Nat → List Nat)
    (hq : ∀ c l, (qsort c l).Perm l) (board : List Nat) (h : 0 ≤ choice qsort board) :
    DIGIT board (choice qsort board).toNat = 0 := by
  unfold choice at h ⊢
  split at h
  · exact absurd h (by decide)
  · rename_i possible hscan
    split at h
    · exact absurd h (by decide)
    · rename_i hlen
      have hne : qsort cmp possible ≠ [] := by
        intro hc
        have := (hq cmp possible).length_eq
        rw [hc] at this
        exact hlen this.symm
      have hmem := (hq cmp possible).mem_iff.1 (rd_zero_mem _ hne)
      have := choice_scan_empty board 81 0 [] possible hscan
        (fun p hp => absurd hp (List.not_mem_nil p)) _ hmem
      rw [if_neg hlen]
      simpa using this

/-- When `choice` reports an inconsistency, some empty cell has all nine digits masked. -/
theorem choice_stuck (qsort : (Nat → Nat → Int) → List Nat → List Nat) (board : List Nat)
    (h1 : choice qsort board ≠ -1) (h2 : choice qsort board < 0) :
    ∃ c < 81, DIGIT board c = 0 ∧ ∀ d, 1 ≤ d → d ≤ 9 → DISALLOWED board c d ≠ 0 := by
  unfold choice at h1 h2
  split at h2
  · rename_i hscan
    obtain ⟨c, hc, he, h9⟩ := choice_scan_none board 81 0 [] hscan
    refine ⟨c, hc, he, ?_⟩
    intro d hd1 hd9
    rw [numset_fst] at h9
    have hall := List.countP_eq_length.1 (by rw [h9]; rfl : (List.range 9).countP
      (fun t => (rd board c).testBit (7 + t)) = (List.range 9).length)
    have := hall (d - 1) (List.mem_range.2 (by omega))
    rw [DISALLOWED_ne_zero_iff]
    have e : 7 + (d - 1) = 6 + d := by omega
    rw [e] at this
    exact this
  · rename_i possible hscan
    rw [hscan] at h1
    dsimp only at h1
    split at h2
    · rename_i hlen
      rw [if_pos hlen] at h1
      exact absurd rfl h1
    · have : (0 : Int) ≤ (GET_INDEX (rd (qsort cmp possible) 0) : Int) := Int.ofNat_nonneg _
      omega

theorem SearchInv.to_back {C : List Nat → Prop} {P : List Nat → Prop} {m0 : Nat} {H0 : List Nat} {s : State}
    (h : SearchInv C P m0 H0 s) (hd : Dead C s) : BackInv C P m0 H0 s where
  hist := h.inv.hist
  le81 := by
    have := h.n_le
    have := h.inv.hist.nonneg
    omega
  live := h.live
  base1 := h.base1
  nochoice := h.nochoice
  pre := h.pre
  lex := h.lex
  dead := by
    intro G hG
    rw [max_eq_left h.base]
    exact hd G hG
  hp := h.hp

end Sudoku

namespace Sudoku

/-! ## The search invariant through `backtrack` -/

theorem reapply_snd (s : State) :
    (reapply s).2 = State.mk (replay s.history s.idx_history.toNat).2 s.history s.idx_history
      s.pass := by
  unfold reapply
  rfl

/-- The state that `backtrack` builds before it advances the choice record `k`: the
records before `k` with their replay. It satisfies the search invariant. -/
theorem BackInv.to_search {C : List Nat → Prop} {P : List Nat → Prop} {m0 : Nat}
    {H0 : List Nat} {s : State}
    (h : BackInv C P m0 H0 s) (hC : ∀ G, C G → Solved G) (k : Int) (hk0 : 0 ≤ k)
    (hk : k ≤ s.idx_history) (hm : m0 ≤ k.toNat) :
    SearchInv C P m0 H0 (State.mk (replay s.history k.toNat).2 s.history k s.pass) := by
  have h1 := HistInv_prefix s h.hist k hk0 hk
  have hn : k.toNat ≤ s.idx_history.toNat := Int.toNat_le_toNat hk
  have hlen := h.hist.hlen
  have hle := h.le81
  refine ⟨?_, ?_, ?_, h.base1, hm, h.nochoice, h.pre, ?_, ?_, h.hp⟩
  · exact ⟨⟨h1.hlen, h1.nonneg, h1.le, h1.wf, h1.ok⟩, Above_refl _ h1.replay_wf.len⟩
  · intro j hj
    exact h.live j (by dsimp only at hj; omega)
  · dsimp only
    exact (replay_card s.history k.toNat (by omega) h1.wf
      (fun j hj => h.live j (by omega)) h1.ok).symm
  · intro G hG ha
    exact replay_Cons G s.history k.toNat (hC G hG) (by omega) h1.wf ha
  · intro G hG j hj0 hj ha
    exact h.lex G hG j hj0 (by dsimp only at hj; omega) ha

theorem backtrack_loop_search (C : List Nat → Prop) (P : List Nat → Prop) (m0 : Nat) (H0 : List Nat)
    (hC : ∀ G, C G → Solved G) (hP : WordClosed P) (fuel : Nat) (s s' : State) (b : Int)
    (h : BackInv C P m0 H0 s) (hr : backtrack_loop fuel s = some (b, s')) :
    (b ≠ -1 → SearchInv C P m0 H0 s' ∧
        Adv s.history s.idx_history.toNat s'.history s'.idx_history.toNat) ∧
      (b = -1 → (∀ G, C G → ¬ Agree G H0 m0) ∧ s'.history = s.history) := by
  induction fuel generalizing s with
  | zero =>
    unfold backtrack_loop at hr
    exact absurd hr (by simp)
  | succ fuel ih =>
    unfold backtrack_loop at hr
    dsimp only at hr
    have hlen := h.hist.hlen
    have hle := h.le81
    have hnn := h.hist.nonneg
    by_cases hpos : 0 < s.idx_history - 1
    · rw [if_pos hpos] at hr
      have hkn : (s.idx_history - 1).toNat + 1 = s.idx_history.toNat := by omega
      have h1 : HistInv (State.mk s.board s.history (s.idx_history - 1) s.pass) :=
        HistInv_prefix s h.hist _ (by omega) (by omega)
      by_cases hch : rd s.history (s.idx_history - 1).toNat &&& CHOICE ≠ 0
      · rw [if_pos hch, reapply_snd] at hr
        dsimp only at hr
        have hkm : m0 ≤ (s.idx_history - 1).toNat := by
          by_contra hlt
          exact hch (h.nochoice _ (by omega) (by omega))
        have hw := h.hist.wf (s.idx_history - 1).toNat (by omega)
        have hlive := h.live (s.idx_history - 1).toNat (by omega)
        have h2 := h.to_search hC (s.idx_history - 1) (by omega) (by omega) hkm
        have hok : (replay s.history ((s.idx_history - 1).toNat + 1)).1 = 0 := by
          rw [hkn]
          exact h.hist.ok
        have hv := replay_valid_step s.history (s.idx_history - 1).toNat (by omega) hok hlive
        have hempty := (IS_EMPTY_iff _ _).1 hv.1
        have hge : ∀ G, C G → Agree G s.history (s.idx_history - 1).toNat →
            GET_DIGIT (rd s.history (s.idx_history - 1).toNat) + 1 ≤
              DIGIT G (GET_INDEX (rd s.history (s.idx_history - 1).toNat)) ∧
            DISALLOWED (replay s.history (s.idx_history - 1).toNat).2
              (GET_INDEX (rd s.history (s.idx_history - 1).toNat))
              (DIGIT G (GET_INDEX (rd s.history (s.idx_history - 1).toNat))) = 0 := by
          intro G hG ha
          have hl := (h.lex G hG _ hkm (by omega) ha).1 hch
          have hd := h.dead G hG
          rw [max_eq_left (by omega), ← hkn, Agree_succ] at hd
          have hne : DIGIT G (GET_INDEX (rd s.history (s.idx_history - 1).toNat)) ≠
              GET_DIGIT (rd s.history (s.idx_history - 1).toNat) := by
            intro heq
            exact hd ⟨ha, fun _ => heq⟩
          refine ⟨by omega, ?_⟩
          exact (h2.sound G hG ha _ hw.1).2 hempty
        rcases choose_spec (State.mk (replay s.history (s.idx_history - 1).toNat).2 s.history
            (s.idx_history - 1) s.pass) (GET_INDEX (rd s.history (s.idx_history - 1).toNat))
            (GET_DIGIT (rd s.history (s.idx_history - 1).toNat) + 1) with
          ⟨hfail, hall⟩ | ⟨d, hd1, hd9, hallow, hmin, hcs⟩
        · rw [hfail] at hr
          dsimp only at hr
          rw [if_neg (by simp)] at hr
          have hrec := ih _ ?_ hr
          · refine ⟨fun hb => ⟨(hrec.1 hb).1, ?_⟩, hrec.2⟩
            exact Adv_mono_left _ _ _ _ _ (by dsimp only; omega) (hrec.1 hb).2
          refine ⟨⟨h1.hlen, h1.nonneg, h1.le, h1.wf, h1.ok⟩, ?_, ?_, h.base1, h.nochoice,
            h.pre, ?_, ?_, h.hp⟩
          · dsimp only
            omega
          · intro j hj
            exact h.live j (by dsimp only at hj; omega)
          · intro G hG j hj0 hj ha
            exact h.lex G hG j hj0 (by dsimp only at hj; omega) ha
          · intro G hG ha
            dsimp only at ha
            rw [max_eq_left hkm] at ha
            have := hge G hG ha
            exact hall _ this.1 ((hC G hG).digit_le9 _ hw.1) this.2
        · obtain ⟨hadd, hinv⟩ := SearchInv_place C P m0 H0 _ _ d CHOICE hC hP h2 hw.1 (by omega) hd9
            (Or.inr rfl) hempty hallow (by
              intro G hG ha
              refine ⟨fun _ => ?_, fun hc => absurd rfl hc⟩
              have := hge G hG ha
              by_contra hlt
              exact hmin _ this.1 (by omega) this.2)
          dsimp only at hadd hinv
          rw [hcs, hadd] at hr
          simp only [Option.map_some'] at hr
          have hdne : ((d : Nat) : Int) ≠ -1 := by omega
          rw [if_pos hdne] at hr
          simp only [Option.some.injEq, Prod.mk.injEq] at hr
          rw [← hr.1, ← hr.2]
          refine ⟨fun _ => ⟨hinv, ?_⟩, fun hc => ?_⟩
          · obtain ⟨hw1, hw2, hw3, hw4, hw5⟩ := word_replayable
              (GET_INDEX (rd s.history (s.idx_history - 1).toNat)) d CHOICE hw.1 (by omega) hd9
              (Or.inr rfl)
            have hnew : rd (wr s.history (s.idx_history - 1).toNat
                (SET_INDEX (GET_INDEX (rd s.history (s.idx_history - 1).toNat)) |||
                  SET_DIGIT d ||| CHOICE)) (s.idx_history - 1).toNat =
                SET_INDEX (GET_INDEX (rd s.history (s.idx_history - 1).toNat)) |||
                  SET_DIGIT d ||| CHOICE := rd_wr_self _ _ _ (by rw [hlen]; omega)
            refine ⟨(s.idx_history - 1).toNat, by omega, by dsimp only; omega, ?_, hch, ?_, ?_, ?_⟩
            · intro j hj
              dsimp only
              exact rd_wr_ne _ _ _ _ (by omega)
            · dsimp only
              rw [hnew]
              exact (word_choice_flag _ d CHOICE hw.1 hd9 (Or.inr rfl)).1.2 rfl
            · dsimp only
              rw [hnew, hw3]
            · dsimp only
              rw [hnew, hw4]
              omega
          · omega
      · rw [if_neg hch] at hr
        have hrec := ih _ ?_ hr
        · refine ⟨fun hb => ⟨(hrec.1 hb).1, ?_⟩, hrec.2⟩
          exact Adv_mono_left _ _ _ _ _ (by dsimp only; omega) (hrec.1 hb).2
        refine ⟨h1, ?_, ?_, h.base1, h.nochoice, h.pre, ?_, ?_, h.hp⟩
        · dsimp only
          omega
        · intro j hj
          exact h.live j (by dsimp only at hj; omega)
        · intro G hG j hj0 hj ha
          exact h.lex G hG j hj0 (by dsimp only at hj; omega) ha
        · intro G hG ha
          dsimp only at ha
          have hd := h.dead G hG
          by_cases hkm : m0 ≤ (s.idx_history - 1).toNat
          · rw [max_eq_left hkm] at ha
            rw [max_eq_left (by omega), ← hkn, Agree_succ] at hd
            apply hd
            refine ⟨ha, fun _ => ?_⟩
            exact (h.lex G hG _ hkm (by omega) ha).2 (not_not.1 hch)
          · rw [max_eq_right (by omega)] at ha
            rw [max_eq_right (by omega)] at hd
            exact hd ha
    · rw [if_neg hpos] at hr
      simp only [Option.some.injEq, Prod.mk.injEq] at hr
      rw [← hr.1, ← hr.2]
      refine ⟨fun hc => absurd rfl hc, fun _ => ⟨?_, rfl⟩⟩
      intro G hG ha
      have hd := h.dead G hG
      have hb1 := h.base1
      rw [max_eq_right (by omega)] at hd
      apply hd
      exact Agree_congr G _ _ m0 (fun j hj => (h.pre j hj).symm) ha

/-- The search invariant through `backtrack`, called when no grid of the class agrees
with the history: either a choice is advanced and the invariant holds again, or the
search space is exhausted and no grid of the class agrees with the puzzle. -/
theorem backtrack_search (C : List Nat → Prop) (P : List Nat → Prop) (m0 : Nat) (H0 : List Nat)
    (hC : ∀ G, C G → Solved G) (hP : WordClosed P) (s s' : State) (b : Int)
    (h : SearchInv C P m0 H0 s) (hd : Dead C s) (hr : backtrack s = some (b, s')) :
    (b ≠ -1 → SearchInv C P m0 H0 s' ∧
        Adv s.history s.idx_history.toNat s'.history s'.idx_history.toNat) ∧
      (b = -1 → (∀ G, C G → ¬ Agree G H0 m0) ∧ s'.history = s.history) := by
  unfold backtrack at hr
  exact backtrack_loop_search C P m0 H0 hC hP _ s s' b (h.to_back hd) hr

end Sudoku

namespace Sudoku

/-! ## The search invariant through `solve` -/

/-- The search of `solve` from a state that satisfies the search invariant for a class
of grids: a result 0 leaves a full board and the invariant; any other result is `-1` and
then no grid of the class agrees with the puzzle records. -/
theorem solve_search (C : List Nat → Prop) (P : List Nat → Prop) (m0 : Nat) (H0 : List Nat)
    (hC : ∀ G, C G → Solved G) (hP : WordClosed P) (qsort : (Nat → Nat → Int) → List Nat → List Nat)
    (hq : ∀ c l, (qsort c l).Perm l) (fuel : Nat) (s s' : State) (r : Int)
    (h : SearchInv C P m0 H0 s) (hres : solve qsort fuel s = some (r, s')) :
    (r = 0 → SearchInv C P m0 H0 s' ∧ (∀ c < 81, DIGIT s'.board c ≠ 0) ∧
        (Ext s.history s.idx_history.toNat s'.history s'.idx_history.toNat ∨
          Adv s.history s.idx_history.toNat s'.history s'.idx_history.toNat)) ∧
      (r ≠ 0 → r = -1 ∧ (∀ G, C G → ¬ Agree G H0 m0) ∧ P s'.history ∧
        (∀ k < m0, rd s'.history k = rd H0 k) ∧ s'.history.length = 243) := by
  induction fuel generalizing s with
  | zero =>
    unfold solve at hres
    exact absurd hres (by simp)
  | succ fuel ih =>
    unfold solve at hres
    cases hd : deterministic (fuel + 1) s with
    | none =>
      rw [hd] at hres
      exact absurd hres (by simp)
    | some r1 =>
      obtain ⟨x, s1⟩ := r1
      rw [hd] at hres
      dsimp only at hres
      obtain ⟨h1, hdead1, hext1⟩ := deterministic_search C P m0 H0 hC hP _ s s1 x h hd
      -- the common continuation after a call of `backtrack`
      have hback : ∀ t : State, SearchInv C P m0 H0 t → Dead C t →
          Ext s.history s.idx_history.toNat t.history t.idx_history.toNat →
          (match backtrack t with
            | none => none
            | some (b, s2) => if b = -1 then some (-1, s2) else solve qsort fuel s2)
            = some (r, s') →
          (r = 0 → SearchInv C P m0 H0 s' ∧ (∀ c < 81, DIGIT s'.board c ≠ 0) ∧
              (Ext s.history s.idx_history.toNat s'.history s'.idx_history.toNat ∨
                Adv s.history s.idx_history.toNat s'.history s'.idx_history.toNat)) ∧
            (r ≠ 0 → r = -1 ∧ (∀ G, C G → ¬ Agree G H0 m0) ∧ P s'.history ∧
        (∀ k < m0, rd s'.history k = rd H0 k) ∧ s'.history.length = 243) := by
        intro t ht htd hte hm
        cases hb : backtrack t with
        | none =>
          rw [hb] at hm
          exact absurd hm (by simp)
        | some r2 =>
          obtain ⟨b, s2⟩ := r2
          rw [hb] at hm
          dsimp only at hm
          have hbs := backtrack_search C P m0 H0 hC hP t s2 b ht htd hb
          by_cases hb1 : b = -1
          · rw [if_pos hb1] at hm
            simp only [Option.some.injEq, Prod.mk.injEq] at hm
            rw [← hm.1, ← hm.2]
            have hh := (hbs.2 hb1).2
            refine ⟨fun hc => absurd hc (by decide), fun _ => ⟨rfl, (hbs.2 hb1).1, ?_, ?_, ?_⟩⟩
            · rw [hh]
              exact ht.hp
            · rw [hh]
              exact ht.pre
            · rw [hh]
              exact ht.inv.hist.hlen
          · rw [if_neg hb1] at hm
            have hrec := ih s2 (hbs.1 hb1).1 hm
            refine ⟨fun h0 => ?_, hrec.2⟩
            have h3 := hrec.1 h0
            refine ⟨h3.1, h3.2.1, ?_⟩
            exact Later_trans _ _ _ _ _ _ (Ext_Adv _ _ _ _ _ _ hte (hbs.1 hb1).2) h3.2.2
      by_cases hr0 : x = 0
      · rw [if_pos hr0] at hres
        by_cases hc1 : choice qsort s1.board = -1
        · rw [if_pos hc1] at hres
          simp only [Option.some.injEq, Prod.mk.injEq] at hres
          rw [← hres.2, ← hres.1]
          exact ⟨fun _ => ⟨h1, choice_done qsort s1.board hc1, Or.inl hext1⟩,
            fun hc => absurd rfl hc⟩
        · rw [if_neg hc1] at hres
          by_cases hc2 : choice qsort s1.board < 0
          · rw [if_pos hc2] at hres
            apply hback s1 h1 _ hext1 hres
            intro G hG ha
            obtain ⟨c, hc, he, hall⟩ := choice_stuck qsort s1.board hc1 hc2
            have := (h1.sound G hG ha c hc).2 he
            exact hall _ ((hC G hG).digit_ge c hc) ((hC G hG).digit_le9 c hc) this
          · rw [if_neg hc2] at hres
            have hidx := choice_index qsort hq s1.board (by omega)
            have hempty := choice_empty qsort hq s1.board (by omega)
            rcases choose_spec s1 (choice qsort s1.board).toNat 1 with
              ⟨hfail, hall⟩ | ⟨d, hd1, hd9, hallow, hmin, hcs⟩
            · rw [hfail] at hres
              dsimp only at hres
              rw [if_pos rfl] at hres
              apply hback s1 h1 _ hext1 hres
              intro G hG ha
              have := (h1.sound G hG ha _ hidx).2 hempty
              exact hall _ ((hC G hG).digit_ge _ hidx) ((hC G hG).digit_le9 _ hidx) this
            · obtain ⟨hadd, hinv⟩ := SearchInv_place C P m0 H0 s1 _ d CHOICE hC hP h1 hidx hd1 hd9
                (Or.inr rfl) hempty hallow (by
                  intro G hG ha
                  refine ⟨fun _ => ?_, fun hc => absurd rfl hc⟩
                  have := (h1.sound G hG ha _ hidx).2 hempty
                  by_contra hlt
                  exact hmin _ ((hC G hG).digit_ge _ hidx) (by omega) this)
              rw [hcs, hadd] at hres
              simp only [Option.map_some'] at hres
              have hdne : ¬ ((d : Nat) : Int) = -1 := by omega
              rw [if_neg hdne] at hres
              have hrec := ih _ hinv hres
              refine ⟨fun h0 => ?_, hrec.2⟩
              have h3 := hrec.1 h0
              refine ⟨h3.1, h3.2.1, ?_⟩
              refine Later_trans _ _ _ _ _ _ (Or.inl (Ext_trans _ _ _ _ _ _ hext1 ?_)) h3.2.2
              refine ⟨by dsimp only; have := h1.inv.hist.nonneg; omega, ?_⟩
              intro k hk
              dsimp only
              exact rd_wr_ne _ _ _ _ (by omega)
      · rw [if_neg hr0] at hres
        exact hback s1 h1 (hdead1 hr0) hext1 hres

end Sudoku

namespace Sudoku

/-! ## Complete valid grids exist -/

theorem grid_example_digits : grid_example.length = 81 ∧
    ∀ i < 81, 1 ≤ grid_example.getD i 0 ∧ grid_example.getD i 0 ≤ 9 := by decide

/-- A property of the numbers below `a + b` from its two parts. -/
theorem forall_lt_add (P : Nat → Prop) (a b : Nat) (h1 : ∀ i < a, P i)
    (h2 : ∀ i < b, P (a + i)) : ∀ i < a + b, P i := by
  intro i hi
  by_cases h : i < a
  · exact h1 i h
  · have := h2 (i - a) (by omega)
    rwa [show a + (i - a) = i from by omega] at this

set_option maxRecDepth 100000 in
theorem grid_example_distinct17 : ∀ i < 17, ∀ j < 81, i ≠ j → peer i j →
    grid_example.getD i 0 ≠ grid_example.getD j 0 := by decide!

set_option maxRecDepth 100000 in
theorem grid_example_distinct33 : ∀ i < 33, ∀ j < 81, i ≠ j → peer i j →
    grid_example.getD i 0 ≠ grid_example.getD j 0 :=
  forall_lt_add (fun i => ∀ j < 81, i ≠ j → peer i j →
    grid_example.getD i 0 ≠ grid_example.getD j 0) 17 16 grid_example_distinct17
    (by decide!)

set_option maxRecDepth 100000 in
theorem grid_example_distinct49 : ∀ i < 49, ∀ j < 81, i ≠ j → peer i j →
    grid_example.getD i 0 ≠ grid_example.getD j 0 :=
  forall_lt_add (fun i => ∀ j < 81, i ≠ j → peer i j →
    grid_example.getD i 0 ≠ grid_example.getD j 0) 33 16 grid_example_distinct33
    (by decide!)

set_option maxRecDepth 100000 in
theorem grid_example_distinct65 : ∀ i < 65, ∀ j < 81, i ≠ j → peer i j →
    grid_example.getD i 0 ≠ grid_example.getD j 0 :=
  forall_lt_add (fun i => ∀ j < 81, i ≠ j → peer i j →
    grid_example.getD i 0 ≠ grid_example.getD j 0) 49 16 grid_example_distinct49
    (by decide!)

set_option maxRecDepth 100000 in
theorem grid_example_distinct : ∀ i < 81, ∀ j < 81, i ≠ j → peer i j →
    grid_example.getD i 0 ≠ grid_example.getD j 0 :=
  forall_lt_add (fun i => ∀ j < 81, i ≠ j → peer i j →
    grid_example.getD i 0 ≠ grid_example.getD j 0) 65 16 grid_example_distinct65
    (by decide!)

theorem rd_map_grid (f : Nat → Nat) (i : Nat) (hi : i < 81) :
    rd (grid_example.map f) i = f (grid_example.getD i 0) := by
  unfold rd
  have hlen : i < grid_example.length := by rw [grid_example_digits.1]; exact hi
  rw [List.getD_eq_getElem?_getD, List.getElem?_map, List.getD_eq_getElem?_getD,
    List.getElem?_eq_getElem hlen]
  rfl

theorem DIGIT_grid_with_one (idx i : Nat) (hidx : idx < 81) (hi : i < 81) :
    DIGIT (grid_with_one idx) i =
      if grid_example.getD i 0 = 1 then grid_example.getD idx 0
      else if grid_example.getD i 0 = grid_example.getD idx 0 then 1
      else grid_example.getD i 0 := by
  unfold DIGIT grid_with_one
  rw [rd_map_grid _ i hi]
  have h1 := grid_example_digits.2 i hi
  have h2 := grid_example_digits.2 idx hidx
  apply GET_DIGIT_SET_DIGIT
  split
  · omega
  · split <;> omega

/-- For every cell there is a complete valid grid that holds 1 in it. -/
theorem grid_with_one_solved (idx : Nat) (hidx : idx < 81) :
    Solved (grid_with_one idx) ∧ DIGIT (grid_with_one idx) idx = 1 := by
  have h2 := grid_example_digits.2 idx hidx
  have hd : ∀ i < 81, 1 ≤ DIGIT (grid_with_one idx) i ∧ DIGIT (grid_with_one idx) i ≤ 9 := by
    intro i hi
    have h1 := grid_example_digits.2 i hi
    rw [DIGIT_grid_with_one idx i hidx hi]
    split
    · omega
    · split <;> omega
  constructor
  · apply Solved_of_full _ (fun c hc => (hd c hc).2)
    · intro i hi j hj hij hp _
      have hne := grid_example_distinct i hi j hj hij hp
      rw [DIGIT_grid_with_one idx i hidx hi, DIGIT_grid_with_one idx j hidx hj]
      split <;> split <;> (try split) <;> (try split) <;> omega
    · intro c hc
      have := (hd c hc).1
      omega
  · rw [DIGIT_grid_with_one idx idx hidx hidx]
    split
    · rename_i h
      exact h
    · rw [if_pos rfl]

/-! ## The search invariant at the start of `solve` -/

theorem ClueRec.le_length (hist : List Nat) (n : Nat) (hlen : hist.length = 243)
    (hclue : ∀ k < n, ClueRec (rd hist k)) : n ≤ 243 := by
  by_contra hc
  have := (hclue 243 (by omega)).2.1
  rw [rd_ge hist 243 (by omega)] at this
  exact absurd this (by decide)

/-- A state whose history is a non-empty list of clue records and whose board is their
valid replay satisfies the search invariant, with the clues as the puzzle records. -/
theorem SearchInv_init (C : List Nat → Prop) (P : List Nat → Prop)
    (hC : ∀ G, C G → Solved G) (s : State)
    (hlen : s.history.length = 243) (h0 : 0 ≤ s.idx_history)
    (hclue : ∀ k < s.idx_history.toNat, ClueRec (rd s.history k))
    (hre : reapply s = (0, s)) (h1 : 1 ≤ s.idx_history.toNat) (hp : P s.history) :
    SearchInv C P s.idx_history.toNat s.history s := by
  have hle := ClueRec.le_length s.history _ hlen hclue
  have hwf : WFHistory s.history s.idx_history.toNat :=
    fun k hk => ⟨(hclue k hk).1, (hclue k hk).2.2.1⟩
  have hlive : ∀ k < s.idx_history.toNat, replayable (rd s.history k) := by
    intro k hk
    have := hclue k hk
    exact ⟨this.2.2.2.2.2, by have := this.2.1; omega⟩
  have hinv := SolveInv_of_reapply s hlen h0 (by omega) hwf hre
  have hb : s.board = (replay s.history s.idx_history.toNat).2 := by
    have h := hre
    unfold reapply at h
    simp only [Prod.mk.injEq] at h
    exact (congrArg State.board h.2).symm
  refine ⟨hinv, hlive, ?_, h1, le_refl _, ?_, fun _ _ => rfl, ?_, ?_, hp⟩
  · rw [hb]
    exact (replay_card s.history _ (by omega) hwf hlive hinv.hist.ok).symm
  · intro k _ hk
    exact (hclue k hk).2.2.2.2.1
  · intro G hG ha
    rw [hb]
    exact replay_Cons G s.history _ (hC G hG) (by omega) hwf ha
  · intro G _ k hk1 hk2
    omega

/-- A left fold over a range is the fold over its first part followed by the fold over
the rest. -/
theorem foldl_range_append {α : Type} (f : α → Nat → α) (a b c : Nat) (x y z : α)
    (h1 : (List.range' a b).foldl f x = y) (h2 : (List.range' (a + b) c).foldl f y = z) :
    (List.range' a (b + c)).foldl f x = z := by
  have hr : List.range' a (b + c) = List.range' a b ++ List.range' (a + b) c := by
    apply List.ext_getElem
    · simp only [List.length_range', List.length_append]
    · intro i hi1 hi2
      simp only [List.length_range', List.length_append] at hi1 hi2
      simp only [List.getElem_range', List.getElem_append, List.length_range']
      split_ifs <;> omega
  rw [hr, List.foldl_append, h1, h2]

/-- One round of the loop of `findmoves` in which no scan reports an error. -/
theorem findmoves_loop_succ (b : List Nat) (fuel el : Nat) (possible : List Nat) (hlt : el < 9)
    (h1 : ¬ (singles b el idx_row HINT_ROW possible).1 = -1)
    (h2 : ¬ (singles b el idx_column HINT_COLUMN
      (singles b el idx_row HINT_ROW possible).2).1 = -1)
    (h3 : ¬ (singles b el idx_block HINT_BLOCK (singles b el idx_column HINT_COLUMN
      (singles b el idx_row HINT_ROW possible).2).2).1 = -1) :
    findmoves_loop b (fuel + 1) el possible =
      findmoves_loop b fuel (el + 1) (singles b el idx_block HINT_BLOCK
        (singles b el idx_column HINT_COLUMN (singles b el idx_row HINT_ROW possible).2).2).2 := by
  conv_lhs => unfold findmoves_loop
  rw [if_pos hlt]
  dsimp only
  rw [if_neg h1, if_neg h2, if_neg h3]

/-- The loop of `findmoves` over `a + c` elements is the loop over the first `a`, when it
ends without an error, followed by the loop over the next `c`. -/
theorem findmoves_loop_split (b : List Nat) (a c el : Nat) (possible p : List Nat) (n : Int)
    (h : findmoves_loop b a el possible = (n, p)) (hn : n ≠ -1) (hel : el + a ≤ 9) :
    findmoves_loop b (a + c) el possible = findmoves_loop b c (el + a) p := by
  induction a generalizing el possible with
  | zero =>
    unfold findmoves_loop at h
    simp only [Prod.mk.injEq] at h
    rw [Nat.zero_add, Nat.add_zero, h.2]
  | succ a ih =>
    have hlt : el < 9 := by omega
    have e : a + 1 + c = (a + c) + 1 := by omega
    unfold findmoves_loop at h
    rw [if_pos hlt] at h
    dsimp only at h
    by_cases h1 : (singles b el idx_row HINT_ROW possible).1 = -1
    · rw [if_pos h1] at h
      simp only [Prod.mk.injEq] at h
      exact absurd h.1.symm hn
    · rw [if_neg h1] at h
      by_cases h2 : (singles b el idx_column HINT_COLUMN
          (singles b el idx_row HINT_ROW possible).2).1 = -1
      · rw [if_pos h2] at h
        simp only [Prod.mk.injEq] at h
        exact absurd h.1.symm hn
      · rw [if_neg h2] at h
        by_cases h3 : (singles b el idx_block HINT_BLOCK
            (singles b el idx_column HINT_COLUMN
              (singles b el idx_row HINT_ROW possible).2).2).1 = -1
        · rw [if_pos h3] at h
          simp only [Prod.mk.injEq] at h
          exact absurd h.1.symm hn
        · rw [if_neg h3] at h
          rw [e, findmoves_loop_succ b (a + c) el possible hlt h1 h2 h3,
            ih (el + 1) _ h (by omega), show el + 1 + a = el + (a + 1) from by omega]

/-- The scan of `findmoves` in three runs of three elements each. -/
theorem findmoves_of_thirds (b p1 p2 p3 : List Nat) (n1 n2 n3 : Int)
    (h1 : findmoves_loop b 3 0 [] = (n1, p1)) (hn1 : n1 ≠ -1)
    (h2 : findmoves_loop b 3 3 p1 = (n2, p2)) (hn2 : n2 ≠ -1)
    (h3 : findmoves_loop b 3 6 p2 = (n3, p3)) : findmoves b = (n3, p3) := by
  unfold findmoves
  rw [findmoves_loop_split b 3 6 0 [] p1 n1 h1 hn1 (by omega),
    findmoves_loop_split b 3 3 (0 + 3) p1 p2 n2 h2 hn2 (by omega)]
  exact h3

/-- The result of `allmoves` when the simple strategies find nothing before and after
the pairs strategy. -/
theorem allmoves_of_steps (b b1 b2 : List Nat) (n : Int) (p : List Nat)
    (h1 : findmoves b = (0, []))
    (h2 : (List.range 9).foldl allmoves_pairs b = b1)
    (h3 : findmoves b1 = (0, []))
    (h4 : (List.range 9).foldl allmoves_block b1 = b2)
    (h5 : findmoves b2 = (n, p)) : allmoves b = (n, p, b2) := by
  unfold allmoves
  rw [h1]
  dsimp only
  rw [if_neg (by simp), h2, h3]
  dsimp only
  rw [if_neg (by simp), h4, h5]

set_option maxRecDepth 100000 in
theorem findmoves_empty2 : findmoves_loop (List.replicate 81 0) 2 0 [] = (0, []) := by
  decide!

set_option maxRecDepth 100000 in
theorem findmoves_empty4 : findmoves_loop (List.replicate 81 0) 2 2 [] = (0, []) := by
  decide!

set_option maxRecDepth 100000 in
theorem findmoves_empty6 : findmoves_loop (List.replicate 81 0) 2 4 [] = (0, []) := by
  decide!

set_option maxRecDepth 100000 in
theorem findmoves_empty8 : findmoves_loop (List.replicate 81 0) 2 6 [] = (0, []) := by
  decide!

set_option maxRecDepth 100000 in
theorem findmoves_empty9 : findmoves_loop (List.replicate 81 0) 1 8 [] = (0, []) := by
  decide!

/-- On the empty board `findmoves` finds no move. -/
theorem findmoves_empty : findmoves (List.replicate 81 0) = (0, []) := by
  unfold findmoves
  rw [findmoves_loop_split (List.replicate 81 0) 2 7 0 [] [] 0 findmoves_empty2 (by decide)
      (by omega),
    findmoves_loop_split (List.replicate 81 0) 2 5 (0 + 2) [] [] 0 findmoves_empty4 (by decide)
      (by omega),
    findmoves_loop_split (List.replicate 81 0) 2 3 (0 + 2 + 2) [] [] 0 findmoves_empty6
      (by decide) (by omega),
    findmoves_loop_split (List.replicate 81 0) 2 1 (0 + 2 + 2 + 2) [] [] 0 findmoves_empty8
      (by decide) (by omega)]
  exact findmoves_empty9

set_option maxRecDepth 100000 in
theorem allmoves_pairs_empty5 :
    (List.range' 0 5).foldl allmoves_pairs (List.replicate 81 0) = List.replicate 81 0 := by
  decide!

set_option maxRecDepth 100000 in
theorem allmoves_pairs_empty :
    (List.range 9).foldl allmoves_pairs (List.replicate 81 0) = List.replicate 81 0 := by
  rw [List.range_eq_range']
  exact foldl_range_append allmoves_pairs 0 5 4 (List.replicate 81 0) (List.replicate 81 0)
    (List.replicate 81 0) allmoves_pairs_empty5 (by decide!)

set_option maxRecDepth 100000 in
theorem allmoves_block_empty5 :
    (List.range' 0 5).foldl allmoves_block (List.replicate 81 0) = List.replicate 81 0 := by
  decide!

set_option maxRecDepth 100000 in
theorem allmoves_block_empty :
    (List.range 9).foldl allmoves_block (List.replicate 81 0) = List.replicate 81 0 := by
  rw [List.range_eq_range']
  exact foldl_range_append allmoves_block 0 5 4 (List.replicate 81 0) (List.replicate 81 0)
    (List.replicate 81 0) allmoves_block_empty5 (by decide!)

theorem allmoves_empty : allmoves (List.replicate 81 0) = (0, [], List.replicate 81 0) :=
  allmoves_of_steps (List.replicate 81 0) (List.replicate 81 0) (List.replicate 81 0) 0 []
    findmoves_empty allmoves_pairs_empty findmoves_empty allmoves_block_empty findmoves_empty

/-- The first round of `solve` on the empty board: nothing is forced, `choice` picks some
cell and `choose` puts 1 into it; the search goes on from a state that satisfies the
search invariant with this first record as the puzzle. -/
theorem solve_empty_start (C : List Nat → Prop) (P : List Nat → Prop)
    (hC : ∀ G, C G → Solved G) (hP : WordClosed P)
    (qsort : (Nat → Nat → Int) → List Nat → List Nat) (hq : ∀ c l, (qsort c l).Perm l)
    (fuel : Nat) (s s' : State) (r : Int) (hlen : s.history.length = 243)
    (hn : s.idx_history = 0) (hb : s.board = List.replicate 81 0) (hp : P s.history)
    (hres : solve qsort fuel s = some (r, s')) :
    ∃ s2 fuel2, SearchInv C P 1 s2.history s2 ∧ replayable (rd s2.history 0) ∧
      GET_INDEX (rd s2.history 0) < 81 ∧ GET_DIGIT (rd s2.history 0) = 1 ∧
      solve qsort fuel2 s2 = some (r, s') := by
  cases fuel with
  | zero =>
    unfold solve at hres
    exact absurd hres (by simp)
  | succ fuel =>
    unfold solve at hres
    have hdet : deterministic (fuel + 1) s =
        some (0, State.mk (List.replicate 81 0) s.history s.idx_history s.pass) := by
      unfold deterministic deterministic_loop
      rw [hb, allmoves_empty]
      rfl
    rw [hdet] at hres
    dsimp only at hres
    rw [if_pos rfl] at hres
    have hinv1 : SolveInv (State.mk (List.replicate 81 0) s.history s.idx_history s.pass) := by
      refine ⟨⟨hlen, by dsimp only; omega, by dsimp only; omega, ?_, ?_⟩, ?_⟩
      · intro k hk
        dsimp only at hk
        rw [hn] at hk
        have : (0 : Int).toNat = 0 := rfl
        omega
      · dsimp only
        rw [hn]
        rfl
      · dsimp only
        rw [hn]
        exact Above_refl _ (List.length_replicate _ _)
    have hc1 : choice qsort (List.replicate 81 0) ≠ -1 := by
      intro hc
      exact choice_done qsort _ hc 0 (by omega) (DIGIT_replicate 0)
    have hc2 : ¬ choice qsort (List.replicate 81 0) < 0 := by
      intro hc
      obtain ⟨c, _, _, hall⟩ := choice_stuck qsort _ hc1 hc
      exact hall 1 (by omega) (by omega) (DISALLOWED_replicate c 1)
    rw [if_neg hc1, if_neg hc2] at hres
    have hidx := choice_index qsort hq (List.replicate 81 0) (by omega)
    rcases choose_spec (State.mk (List.replicate 81 0) s.history s.idx_history s.pass)
        (choice qsort (List.replicate 81 0)).toNat 1 with
      ⟨_, hall⟩ | ⟨d, hd1, hd9, hallow, hmin, hcs⟩
    · exact absurd (DISALLOWED_replicate _ 1) (hall 1 (le_refl _) (by omega))
    · have hd : d = 1 := by
        by_contra hne
        exact hmin 1 (le_refl _) (by omega) (DISALLOWED_replicate _ 1)
      subst hd
      have hadd := add_move_fresh (State.mk (update (wr (List.replicate 81 0)
        (choice qsort (List.replicate 81 0)).toNat (SET_DIGIT 1))
        (choice qsort (List.replicate 81 0)).toNat) s.history s.idx_history s.pass)
        (choice qsort (List.replicate 81 0)).toNat 1 CHOICE (by dsimp only; omega)
        (by dsimp only; omega) (by
          intro k hk
          dsimp only at hk
          rw [hn] at hk
          have : (0 : Int).toNat = 0 := rfl
          omega)
      dsimp only at hadd hcs
      have hinv2 := SolveInv_place _ _ _ 1 CHOICE hinv1 hidx (le_refl _) (by omega) (Or.inr rfl)
        (DIGIT_replicate _) (DISALLOWED_replicate _ _) hadd
      rw [hcs, hadd] at hres
      simp only [Option.map_some'] at hres
      rw [if_neg (by decide)] at hres
      obtain ⟨hw1, hw2, hw3, hw4, hw5⟩ := word_replayable
        (choice qsort (List.replicate 81 0)).toNat 1 CHOICE hidx (le_refl _) (by omega)
        (Or.inr rfl)
      have hn0 : s.idx_history.toNat = 0 := by rw [hn]; rfl
      have hrd : rd (wr s.history s.idx_history.toNat (SET_INDEX
          (choice qsort (List.replicate 81 0)).toNat ||| SET_DIGIT 1 ||| CHOICE)) 0 =
          SET_INDEX (choice qsort (List.replicate 81 0)).toNat ||| SET_DIGIT 1 ||| CHOICE := by
        rw [hn0]
        exact rd_wr_self _ _ _ (by rw [hlen]; omega)
      have hn1 : (s.idx_history + 1).toNat = 1 := by rw [hn]; rfl
      refine ⟨_, fuel, ?_, ?_, ?_, ?_, hres⟩
      · refine ⟨hinv2, ?_, ?_, le_refl _, ?_, ?_, fun _ _ => rfl, ?_, ?_,
          hP _ _ _ 1 CHOICE hidx (le_refl _) (by omega) (Or.inr rfl) hp⟩
        · intro k hk
          dsimp only at hk ⊢
          rw [hn1] at hk
          have : k = 0 := by omega
          rw [this, hrd]
          exact hw1
        · dsimp only
          rw [hn1, filled_place _ _ _ (List.length_replicate _ _) hidx
            (by rw [GET_DIGIT_SET_DIGIT _ (by omega)])
            (by rw [GET_DIGIT_SET_DIGIT _ (by omega)]; omega) (DIGIT_replicate _)]
          decide
        · dsimp only
          rw [hn1]
        · intro k hk1 hk
          omega
        · intro G hG ha
          dsimp only at ha ⊢
          rw [hn1] at ha
          have := ha 0 (by omega) (by rw [hrd]; exact hw1)
          rw [hrd, hw3, hw4] at this
          apply Cons_place G _ _ _ (hC G hG) (List.length_replicate _ _) (Cons_empty G) hidx
          rw [GET_DIGIT_SET_DIGIT _ (by omega)]
          exact this.symm
        · intro G _ k hk1 hk2
          dsimp only at hk2
          omega
      · dsimp only
        rw [hrd]
        exact hw1
      · dsimp only
        rw [hrd, hw3]
        exact hidx
      · dsimp only
        rw [hrd, hw4]

end Sudoku

namespace Sudoku

/-! ## Claim C2: an exhausted search means that the clues have no completion -/

/-- C2: for every starting state whose history is a list of fixed clues (each live
record names a cell, a digit 1..9 and carries `FIXED` but neither `CHOICE` nor `IGNORED`)
and whose board is their valid replay (`reapply` returns 0 and rebuilds the same board),
and for every sorting function used as `qsort`, if `solve` returns -1 then no complete
grid with each digit 1..9 exactly once in every row, column and block agrees with the
clues. -/
theorem solve_exhausted_no_grid (qsort : (Nat → Nat → Int) → List Nat → List Nat)
    (hq : ∀ c l, (qsort c l).Perm l) (fuel : Nat) (s s' : State)
    (hlen : s.history.length = 243) (h0 : 0 ≤ s.idx_history)
    (hclue : ∀ k < s.idx_history.toNat, ClueRec (rd s.history k))
    (hre : reapply s = (0, s)) (hs : solve qsort fuel s = some (-1, s')) :
    ¬ ∃ G, Solved G ∧ Agree G s.history s.idx_history.toNat := by
  rintro ⟨G, hG, ha⟩
  by_cases h1 : 1 ≤ s.idx_history.toNat
  · have hinv := SearchInv_init Solved (fun _ => True) (fun _ h => h) s hlen h0 hclue hre h1
      trivial
    have := (solve_search Solved (fun _ => True) _ _ (fun _ h => h)
      (fun _ _ _ _ _ _ _ _ _ _ => trivial) qsort hq fuel s s' (-1) hinv hs).2 (by decide)
    exact this.2.1 G hG ha
  · have hn : s.idx_history = 0 := by omega
    have hb : s.board = List.replicate 81 0 := by
      have h := hre
      unfold reapply at h
      simp only [Prod.mk.injEq] at h
      have hb := (congrArg State.board h.2).symm
      rw [hb]
      dsimp only
      rw [hn]
      rfl
    obtain ⟨s2, fuel2, hinv, hr, hi, hd, hs2⟩ := solve_empty_start Solved (fun _ => True)
      (fun _ h => h) (fun _ _ _ _ _ _ _ _ _ _ => trivial) qsort hq fuel s s' (-1) hlen hn hb
      trivial hs
    have := (solve_search Solved (fun _ => True) _ _ (fun _ h => h)
      (fun _ _ _ _ _ _ _ _ _ _ => trivial) qsort hq fuel2 s2 s' (-1) hinv hs2).2 (by decide)
    obtain ⟨hS, hone⟩ := grid_with_one_solved _ hi
    apply this.2.1 _ hS
    intro k hk _
    have hk0 : k = 0 := by omega
    rw [hk0, hone, hd]

set_option maxRecDepth 100000 in
theorem solve_exhausted_no_grid_witness :
    ¬ ∃ G, Solved G ∧ Agree G (clues_state clues_dead).history
      (clues_state clues_dead).idx_history.toNat :=
  solve_exhausted_no_grid qsort_model qsort_model_perm 3 (clues_state clues_dead)
    dead_example (by decide!) (by decide!) (by decide!) (by decide!) (by decide!)

end Sudoku

namespace Sudoku

/-! ## The generator: filling in the template -/

theorem NoFixedFrom_closed (m : Nat) : WordClosed (NoFixedFrom m) := by
  intro hist k idx d flags hidx _ hd9 hf hp j hj
  rw [rd_wr]
  split
  · exact (word_choice_flag idx d flags hidx hd9 hf).2
  · exact hp j hj

theorem add_move_first (B hist : List Nat) (pass idx d flags : Nat) :
    add_move (State.mk B hist 0 pass) idx d flags =
      some (State.mk B (wr hist 0 (SET_INDEX idx ||| SET_DIGIT d ||| flags)) 1 pass) := by
  have h := add_move_fresh (State.mk B hist 0 pass) idx d flags (le_refl _)
    (by dsimp only; omega) (fun k hk => absurd hk (Nat.not_lt_zero k))
  dsimp only at h
  rw [h]
  rfl

/-- The first record: placing a digit on the empty board with an empty history gives a
state that satisfies the search invariant with this record as the puzzle. -/
theorem SearchInv_first (C : List Nat → Prop) (P : List Nat → Prop)
    (hC : ∀ G, C G → Solved G) (hP : WordClosed P) (hist : List Nat) (pass idx d flags : Nat)
    (hlen : hist.length = 243) (hp : P hist) (hidx : idx < 81) (hd1 : 1 ≤ d) (hd9 : d ≤ 9)
    (hf : flags = 0 ∨ flags = CHOICE) :
    add_move (State.mk (update (wr (List.replicate 81 0) idx (SET_DIGIT d)) idx) hist 0
        pass) idx d flags =
      some (State.mk (update (wr (List.replicate 81 0) idx (SET_DIGIT d)) idx)
        (wr hist 0 (SET_INDEX idx ||| SET_DIGIT d ||| flags)) 1 pass) ∧
    SearchInv C P 1 (wr hist 0 (SET_INDEX idx ||| SET_DIGIT d ||| flags))
      (State.mk (update (wr (List.replicate 81 0) idx (SET_DIGIT d)) idx)
        (wr hist 0 (SET_INDEX idx ||| SET_DIGIT d ||| flags)) 1 pass) := by
  have hinv1 : SolveInv (State.mk (List.replicate 81 0) hist 0 pass) := by
    refine ⟨⟨hlen, le_refl _, ?_, ?_, rfl⟩, ?_⟩
    · dsimp only
      omega
    · intro k hk
      exact absurd hk (Nat.not_lt_zero k)
    · exact Above_refl _ (List.length_replicate _ _)
  have hadd : add_move (State.mk (update (wr (List.replicate 81 0) idx (SET_DIGIT d)) idx)
      hist 0 pass) idx d flags =
      some (State.mk (update (wr (List.replicate 81 0) idx (SET_DIGIT d)) idx)
        (wr hist 0 (SET_INDEX idx ||| SET_DIGIT d ||| flags)) 1 pass) :=
    add_move_first _ hist pass idx d flags
  have hinv2 := SolveInv_place (State.mk (List.replicate 81 0) hist 0 pass) _ idx d flags hinv1
    hidx hd1 hd9 hf (DIGIT_replicate _) (DISALLOWED_replicate _ _) hadd
  obtain ⟨hw1, hw2, hw3, hw4, hw5⟩ := word_replayable idx d flags hidx hd1 hd9 hf
  have hrd : rd (wr hist 0 (SET_INDEX idx ||| SET_DIGIT d ||| flags)) 0 =
      SET_INDEX idx ||| SET_DIGIT d ||| flags := rd_wr_self _ _ _ (by rw [hlen]; omega)
  have hone : ((1 : Int)).toNat = 1 := rfl
  refine ⟨hadd, ?_⟩
  refine ⟨hinv2, ?_, ?_, le_refl _, ?_, ?_, fun _ _ => rfl, ?_, ?_,
    hP _ _ idx d flags hidx hd1 hd9 hf hp⟩
  · intro k hk
    dsimp only at hk ⊢
    rw [hone] at hk
    have hk0 : k = 0 := by omega
    rw [hk0, hrd]
    exact hw1
  · dsimp only
    rw [hone, filled_place (List.replicate 81 0) idx (SET_DIGIT d) (List.length_replicate _ _)
      hidx (by rw [GET_DIGIT_SET_DIGIT _ (by omega)]; exact hd1)
      (by rw [GET_DIGIT_SET_DIGIT _ (by omega)]; exact hd9) (DIGIT_replicate _)]
    have h0 : (filled (List.replicate 81 0)).card = 0 := by decide
    rw [h0]
  · dsimp only
    rw [hone]
  · intro k hk1 hk
    omega
  · intro G hG ha
    dsimp only at ha ⊢
    rw [hone] at ha
    have := ha 0 (by omega) (by rw [hrd]; exact hw1)
    rw [hrd, hw3, hw4] at this
    apply Cons_place G _ _ _ (hC G hG) (List.length_replicate _ _) (Cons_empty G) hidx
    rw [GET_DIGIT_SET_DIGIT _ (by omega)]
    exact this.symm
  · intro G _ k hk1 hk2
    dsimp only at hk2
    rw [hone] at hk2
    omega

theorem fill_place_eq (s : State) (idx d : Nat) (he : IS_EMPTY s.board idx = true)
    (hd : DISALLOWED s.board idx d = 0) :
    fill s idx d =
      (add_move (State.mk (update (wr s.board idx (SET_DIGIT d)) idx) s.history s.idx_history
        s.pass) idx d 0).map (fun s1 => ((0 : Int), s1)) := by
  unfold fill
  rw [if_neg (fun h => h he), if_neg (fun h => h hd)]

theorem foldl_generate_fill_none (digits tmplt : List Nat) (L : List Nat) :
    L.foldl (generate_fill_step digits tmplt) none = none := by
  induction L with
  | nil => rfl
  | cons i L ih =>
    rw [List.foldl_cons]
    exact ih

/-- The template loop of `generate`, started on an empty board: it ends on the empty
board or in a state that satisfies the search invariant. -/
theorem generate_fill_loop (C : List Nat → Prop) (P : List Nat → Prop)
    (hC : ∀ G, C G → Solved G) (hP : WordClosed P) (hCe : ∀ G, ¬ C G)
    (digits tmplt : List Nat)
    (hdig : ∀ i < 9, 1 ≤ rd digits i ∧ rd digits i ≤ 9) (L : List Nat)
    (htm : ∀ i ∈ L, rd tmplt i < 81) (s s1 : State)
    (hs : (s.idx_history = 0 ∧ s.board = List.replicate 81 0 ∧ s.history.length = 243 ∧
        P s.history) ∨ ∃ H0, SearchInv C P 1 H0 s)
    (hr : L.foldl (generate_fill_step digits tmplt) (some s) = some s1) :
    (s1.idx_history = 0 ∧ s1.board = List.replicate 81 0 ∧ s1.history.length = 243 ∧
        P s1.history) ∨ ∃ H0, SearchInv C P 1 H0 s1 := by
  induction L generalizing s with
  | nil =>
    simp only [List.foldl_nil, Option.some.injEq] at hr
    rw [← hr]
    exact hs
  | cons i L ih =>
    rw [List.foldl_cons] at hr
    have hi := htm i (List.mem_cons_self _ _)
    have hd := hdig (i % 9) (Nat.mod_lt _ (by decide))
    cases hf : fill s (rd tmplt i) (rd digits (i % 9)) with
    | none =>
      have : generate_fill_step digits tmplt (some s) i = none := by
        unfold generate_fill_step
        dsimp only
        rw [hf]
        rfl
      rw [this, foldl_generate_fill_none] at hr
      exact absurd hr (by simp)
    | some r =>
      obtain ⟨x, s2⟩ := r
      have hstep : generate_fill_step digits tmplt (some s) i = some s2 := by
        unfold generate_fill_step
        dsimp only
        rw [hf]
        rfl
      rw [hstep] at hr
      apply ih (fun j hj => htm j (List.mem_cons_of_mem _ hj)) s2 _ hr
      rcases hs with ⟨hn, hb, hlen, hp⟩ | ⟨H0, hinv⟩
      · right
        obtain ⟨b, hist, n, pass⟩ := s
        dsimp only at hn hb hlen hp
        subst hn
        subst hb
        obtain ⟨hadd, hS⟩ := SearchInv_first C P hC hP hist pass (rd tmplt i)
          (rd digits (i % 9)) 0 hlen hp hi hd.1 hd.2 (Or.inl rfl)
        have he : IS_EMPTY (List.replicate 81 0) (rd tmplt i) = true :=
          (IS_EMPTY_iff _ _).2 (DIGIT_replicate _)
        have hfe := fill_place_eq (State.mk (List.replicate 81 0) hist 0 pass) (rd tmplt i)
          (rd digits (i % 9)) he (DISALLOWED_replicate _ _)
        dsimp only at hfe
        rw [hfe, hadd] at hf
        simp only [Option.map_some', Option.some.injEq, Prod.mk.injEq] at hf
        rw [← hf.2]
        exact ⟨_, hS⟩
      · right
        refine ⟨H0, (SearchInv_fill C P 1 H0 s s2 _ _ x hC hP hinv hi hd.1 hd.2
          (fun G hG _ => absurd hG (hCe G)) hf).1⟩

end Sudoku

namespace Sudoku

/-! ## Replays of clue records -/

/-- A cell that the replay has filled is the cell of a replayed record. -/
theorem replay_filled_rev (hist : List Nat) (n c : Nat) (hn : n ≤ hist.length)
    (hwf : WFHistory hist n) (hc : DIGIT (replay hist n).2 c ≠ 0) :
    ∃ k < n, replayable (rd hist k) ∧ GET_INDEX (rd hist k) = c := by
  induction n with
  | zero =>
    rw [replay_zero] at hc
    exact absurd (DIGIT_replicate c) hc
  | succ n ih =>
    have hwf' : WFHistory hist n := fun k hk => hwf k (by omega)
    by_cases hr : replayable (rd hist n)
    · rw [replay_succ_place hist n (by omega) hwf hr, place_DIGIT _ _ _ _
        (replay_BoardWF hist n (by omega) hwf').len (hwf n (by omega)).1
        (by rw [GET_DIGIT_record_word]; have := hr.2; omega)
        (by rw [GET_DIGIT_record_word]; exact (hwf n (by omega)).2)] at hc
      by_cases hcn : c = GET_INDEX (rd hist n)
      · exact ⟨n, by omega, hr, hcn.symm⟩
      · rw [if_neg hcn] at hc
        obtain ⟨k, hk, h1, h2⟩ := ih (by omega) hwf' hc
        exact ⟨k, by omega, h1, h2⟩
    · rw [replay_succ hist n (by omega), reapply_step_skip _ _ hr] at hc
      obtain ⟨k, hk, h1, h2⟩ := ih (by omega) hwf' hc
      exact ⟨k, by omega, h1, h2⟩

/-- After a valid replay every replayed record finds its digit in its cell. -/
theorem replay_agree (hist : List Nat) (n k : Nat) (hn : n ≤ hist.length)
    (hwf : WFHistory hist n) (hok : (replay hist n).1 = 0) (hk : k < n)
    (hr : replayable (rd hist k)) :
    DIGIT (replay hist n).2 (GET_INDEX (rd hist k)) = GET_DIGIT (rd hist k) := by
  induction n with
  | zero => omega
  | succ n ih =>
    have hwf' : WFHistory hist n := fun j hj => hwf j (by omega)
    have hok' := replay_valid_prefix hist (n + 1) n hn (by omega) hok
    by_cases hrn : replayable (rd hist n)
    · have hv := replay_valid_step hist n (by omega) hok hrn
      rw [replay_succ_place hist n (by omega) hwf hrn, place_DIGIT _ _ _ _
        (replay_BoardWF hist n (by omega) hwf').len (hwf n (by omega)).1
        (by rw [GET_DIGIT_record_word]; have := hrn.2; omega)
        (by rw [GET_DIGIT_record_word]; exact (hwf n (by omega)).2)]
      by_cases hkn : k = n
      · rw [hkn, if_pos rfl, GET_DIGIT_record_word]
      · have hfilled := replay_record_filled hist n k (by omega) (by omega) hwf' hr
        have hne : GET_INDEX (rd hist k) ≠ GET_INDEX (rd hist n) := by
          intro h
          rw [h] at hfilled
          exact hfilled ((IS_EMPTY_iff _ _).1 hv.1)
        rw [if_neg hne]
        exact ih (by omega) hwf' hok' (by omega)
    · rw [replay_succ hist n (by omega), reapply_step_skip _ _ hrn]
      have hkn : k ≠ n := by
        intro h
        rw [h] at hr
        exact hrn hr
      exact ih (by omega) hwf' hok' (by omega)

/-- Records with distinct cells that a complete valid grid agrees with replay without an
error. -/
theorem replay_valid_of_agree (F hist : List Nat) (n : Nat) (hF : Solved F)
    (hn : n ≤ hist.length) (hwf : WFHistory hist n)
    (hdist : ∀ k k', k < k' → k' < n → GET_INDEX (rd hist k) ≠ GET_INDEX (rd hist k'))
    (ha : Agree F hist n) : (replay hist n).1 = 0 := by
  induction n with
  | zero =>
    rw [replay_zero]
  | succ n ih =>
    have hwf' : WFHistory hist n := fun j hj => hwf j (by omega)
    have ha' := Agree_mono F hist _ n (by omega) ha
    have ih' := ih (by omega) hwf' (fun k k' h1 h2 => hdist k k' h1 (by omega)) ha'
    by_cases hr : replayable (rd hist n)
    · rw [replay_succ hist n (by omega), reapply_step_ok _ _ hr, if_neg]
      · exact ih'
      · have hempty : DIGIT (replay hist n).2 (GET_INDEX (rd hist n)) = 0 := by
          by_contra hne
          obtain ⟨k, hk, _, h2⟩ := replay_filled_rev hist n _ (by omega) hwf' hne
          exact hdist k n hk (by omega) h2
        rintro (hc | hc)
        · rw [(IS_EMPTY_iff _ _).2 hempty] at hc
          exact absurd hc (by decide)
        · have hcons := replay_Cons F hist n hF (by omega) hwf' ha'
          have := (hcons _ (hwf n (by omega)).1).2 hempty
          rw [ha n (by omega) hr] at this
          exact hc this
    · rw [replay_succ hist n (by omega), reapply_step_skip _ _ hr]
      exact ih'

/-! ## The generator: fixed squares -/

theorem DIGIT_or_FIXED (b : List Nat) (c i : Nat) :
    DIGIT (wr b c (rd b c ||| FIXED)) i = DIGIT b i := by
  unfold DIGIT
  rw [rd_wr]
  split
  · rename_i h
    rw [← h.1]
    exact GET_DIGIT_or _ _ FIXED_and_DIGIT_MASK
  · rfl

theorem generate_mark_DIGIT (tmplt b : List Nat) (i : Nat) :
    DIGIT (generate_mark tmplt b) i = DIGIT b i := by
  unfold generate_mark
  generalize List.range tmplt.length = L
  induction L generalizing b with
  | nil => rfl
  | cons j L ih =>
    rw [List.foldl_cons, ih, DIGIT_or_FIXED]

theorem clue_word (i d : Nat) (hi : i < 81) (hd1 : 1 ≤ d) (hd9 : d ≤ 9) :
    ClueRec (SET_INDEX i ||| SET_DIGIT d ||| FIXED) ∧
      GET_INDEX (SET_INDEX i ||| SET_DIGIT d ||| FIXED) = i ∧
      GET_DIGIT (SET_INDEX i ||| SET_DIGIT d ||| FIXED) = d := by
  have h1 := record_index i d FIXED (by omega) (by decide)
  have h2 := record_digit i d FIXED (by omega) (by omega) (by decide)
  have c1 := record_flag i d CHOICE 21 CHOICE_eq (by omega) (by omega) (by omega)
  have c2 := record_flag i d IGNORED 22 IGNORED_eq (by omega) (by omega) (by omega)
  have c3 := record_flag i d FIXED 20 FIXED_eq (by omega) (by omega) (by omega)
  rw [CHOICE_eq, and_two_pow_eq_zero] at c1
  rw [IGNORED_eq, and_two_pow_eq_zero] at c2
  refine ⟨⟨by rw [h1]; exact hi, by rw [h2]; exact hd1, by rw [h2]; exact hd9, ?_, ?_, ?_⟩,
    h1, h2⟩
  · rw [FIXED_eq, and_two_pow_ne_zero, Nat.testBit_or, ← FIXED_eq, testBit_FIXED]
    simp
  · rw [CHOICE_eq, and_two_pow_eq_zero, Nat.testBit_or, c1, FIXED_eq, Nat.testBit_two_pow]
    simp
  · rw [IGNORED_eq, and_two_pow_eq_zero, Nat.testBit_or, c2, FIXED_eq, Nat.testBit_two_pow]
    simp

/-- The history that `generate` constructs from the fixed squares: clue records with
increasing cells and the digits of the board; the records behind them are left alone. -/
theorem generate_fixed_loop (b hist : List Nat) (hlen : hist.length = 243)
    (hb : ∀ i < 81, 1 ≤ DIGIT b i ∧ DIGIT b i ≤ 9) (m : Nat) (hm : m ≤ 81) :
    ((List.range m).foldl (generate_fixed_step b) (hist, 0)).2 ≤ m ∧
    ((List.range m).foldl (generate_fixed_step b) (hist, 0)).1.length = 243 ∧
    (∀ k < ((List.range m).foldl (generate_fixed_step b) (hist, 0)).2,
      ClueRec (rd ((List.range m).foldl (generate_fixed_step b) (hist, 0)).1 k) ∧
      GET_INDEX (rd ((List.range m).foldl (generate_fixed_step b) (hist, 0)).1 k) < m ∧
      GET_DIGIT (rd ((List.range m).foldl (generate_fixed_step b) (hist, 0)).1 k) =
        DIGIT b (GET_INDEX (rd ((List.range m).foldl (generate_fixed_step b) (hist, 0)).1 k))) ∧
    (∀ k k', k < k' → k' < ((List.range m).foldl (generate_fixed_step b) (hist, 0)).2 →
      GET_INDEX (rd ((List.range m).foldl (generate_fixed_step b) (hist, 0)).1 k) <
        GET_INDEX (rd ((List.range m).foldl (generate_fixed_step b) (hist, 0)).1 k')) ∧
    (∀ k, ((List.range m).foldl (generate_fixed_step b) (hist, 0)).2 ≤ k →
      rd ((List.range m).foldl (generate_fixed_step b) (hist, 0)).1 k = rd hist k) := by
  induction m with
  | zero =>
    refine ⟨le_refl _, hlen, ?_, ?_, fun _ _ => rfl⟩
    · intro k hk
      exact absurd hk (Nat.not_lt_zero k)
    · intro k k' _ hk
      exact absurd hk (Nat.not_lt_zero k')
  | succ m ih =>
    obtain ⟨g1, g2, g3, g4, g5⟩ := ih (by omega)
    rw [List.range_succ, List.foldl_append, List.foldl_cons, List.foldl_nil]
    generalize (List.range m).foldl (generate_fixed_step b) (hist, 0) = R at g1 g2 g3 g4 g5
    unfold generate_fixed_step
    by_cases hfix : IS_FIXED b m ≠ 0
    · rw [if_pos hfix]
      dsimp only
      obtain ⟨w1, w2, w3⟩ := clue_word m (DIGIT b m) (by omega) (hb m (by omega)).1
        (hb m (by omega)).2
      have hnew : rd (wr R.1 R.2 (SET_INDEX m ||| SET_DIGIT (DIGIT b m) ||| FIXED)) R.2 =
          SET_INDEX m ||| SET_DIGIT (DIGIT b m) ||| FIXED :=
        rd_wr_self _ _ _ (by rw [g2]; omega)
      have hold : ∀ k, k ≠ R.2 →
          rd (wr R.1 R.2 (SET_INDEX m ||| SET_DIGIT (DIGIT b m) ||| FIXED)) k = rd R.1 k :=
        fun k hk => rd_wr_ne _ _ _ _ (fun h => hk h.symm)
      refine ⟨by omega, by rw [length_wr, g2], ?_, ?_, ?_⟩
      · intro k hk
        by_cases hkn : k = R.2
        · rw [hkn, hnew]
          exact ⟨w1, by rw [w2]; omega, by rw [w2, w3]⟩
        · rw [hold k hkn]
          have := g3 k (by omega)
          exact ⟨this.1, by omega, this.2.2⟩
      · intro k k' hkk hk'
        by_cases hkn : k' = R.2
        · rw [hkn, hnew, w2, hold k (by omega)]
          exact (g3 k (by omega)).2.1
        · rw [hold k (by omega), hold k' hkn]
          exact g4 k k' hkk (by omega)
      · intro k hk
        rw [hold k (by omega)]
        exact g5 k (by omega)
    · rw [if_neg hfix]
      refine ⟨by omega, g2, ?_, g4, g5⟩
      intro k hk
      have := g3 k hk
      exact ⟨this.1, by omega, this.2.2⟩

/-- The scan of `clear_moves` stops at the first record without `FIXED`. -/
theorem clear_moves_scan_eq (hist : List Nat) (nf : Nat)
    (h1 : ∀ k < nf, rd hist k &&& FIXED ≠ 0) (h2 : rd hist nf &&& FIXED = 0) (hnf : nf < 243)
    (fuel i : Nat) (hi : i ≤ nf) (hf : nf - i < fuel) :
    clear_moves_scan hist fuel i = some nf := by
  induction fuel generalizing i with
  | zero => omega
  | succ fuel ih =>
    unfold clear_moves_scan
    rw [if_neg (by omega)]
    by_cases hin : i = nf
    · rw [hin, if_neg (fun h => h h2)]
    · rw [if_pos (h1 i (by omega))]
      exact ih (i + 1) (by omega) (by omega)

/-- What `clear_moves` does on a history whose first `nf` records are fixed and whose
next record is not. -/
theorem clear_moves_eq (s : State) (nf : Nat)
    (h1 : ∀ k < nf, rd s.history k &&& FIXED ≠ 0) (h2 : rd s.history nf &&& FIXED = 0)
    (hnf : nf < 243) :
    clear_moves s = some (State.mk (replay s.history nf).2 s.history (nf : Int) s.pass) := by
  unfold clear_moves
  rw [clear_moves_scan_eq s.history nf h1 h2 hnf 244 0 (by omega) (by omega)]
  dsimp only
  rw [reapply_snd]
  rfl

end Sudoku

namespace Sudoku

/-! ## A second grid, and the uniqueness test of the generator -/

theorem rd_map (L : List Nat) (f : Nat → Nat) (i : Nat) (hi : i < L.length) :
    rd (L.map f) i = f (rd L i) := by
  unfold rd
  rw [List.getD_eq_getElem?_getD, List.getElem?_map, List.getD_eq_getElem?_getD,
    List.getElem?_eq_getElem hi]
  rfl

theorem DIGIT_grid_with_one_alt (idx i : Nat) (hidx : idx < 81) (hi : i < 81) :
    DIGIT (grid_with_one_alt idx) i =
      if DIGIT (grid_with_one idx) i = 2 then 3
      else if DIGIT (grid_with_one idx) i = 3 then 2 else DIGIT (grid_with_one idx) i := by
  have hlen : (grid_with_one idx).length = 81 := by
    unfold grid_with_one
    rw [List.length_map, grid_example_digits.1]
  have h9 := (grid_with_one_solved idx hidx).1.digit_le9 i hi
  unfold grid_with_one_alt
  unfold DIGIT at h9 ⊢
  rw [rd_map _ _ i (by omega)]
  apply GET_DIGIT_SET_DIGIT
  split
  · omega
  · split <;> omega

/-- For every cell there are two complete valid grids with different digits that hold 1
in it. -/
theorem two_grids_with_one (idx : Nat) (hidx : idx < 81) :
    Solved (grid_with_one_alt idx) ∧ DIGIT (grid_with_one_alt idx) idx = 1 ∧
      ¬ SameDigits (grid_with_one idx) (grid_with_one_alt idx) := by
  obtain ⟨hS, h1⟩ := grid_with_one_solved idx hidx
  have hd : ∀ i < 81, 1 ≤ DIGIT (grid_with_one_alt idx) i ∧
      DIGIT (grid_with_one_alt idx) i ≤ 9 := by
    intro i hi
    have a := hS.digit_ge i hi
    have b := hS.digit_le9 i hi
    rw [DIGIT_grid_with_one_alt idx i hidx hi]
    split
    · omega
    · split <;> omega
  refine ⟨?_, ?_, ?_⟩
  · apply Solved_of_full _ (fun c hc => (hd c hc).2)
    · intro i hi j hj hij hp _
      have hne := hS.no_conflict_grid i hi j hj hij hp (by have := hS.digit_ge i hi; omega)
      rw [DIGIT_grid_with_one_alt idx i hidx hi, DIGIT_grid_with_one_alt idx j hidx hj]
      split <;> split <;> (try split) <;> (try split) <;> omega
    · intro c hc
      have := (hd c hc).1
      omega
  · rw [DIGIT_grid_with_one_alt idx idx hidx hidx, h1]
    decide
  · intro hsame
    obtain ⟨k, hk, hk2⟩ := hS.row_has 0 2 (by omega) (by omega) (by omega)
    have h81 := idx_row_lt (by omega : 0 < 9) hk
    have := hsame _ h81
    rw [DIGIT_grid_with_one_alt idx _ hidx h81, hk2] at this
    exact absurd this (by decide)

theorem SearchInv.mono {C C' : List Nat → Prop} {P : List Nat → Prop} {m0 : Nat}
    {H0 : List Nat} {s : State} (h : SearchInv C P m0 H0 s) (hsub : ∀ G, C' G → C G) :
    SearchInv C' P m0 H0 s where
  inv := h.inv
  live := h.live
  card := h.card
  base1 := h.base1
  base := h.base
  nochoice := h.nochoice
  pre := h.pre
  sound := fun G hG => h.sound G (hsub G hG)
  lex := fun G hG => h.lex G (hsub G hG)
  hp := h.hp

/-- The board agrees with the records of its history. -/
theorem SearchInv.board_agree {C : List Nat → Prop} {P : List Nat → Prop} {m0 : Nat}
    {H0 : List Nat} {s : State} (h : SearchInv C P m0 H0 s) :
    Agree s.board s.history s.idx_history.toNat := by
  intro k hk hr
  have hn := h.n_le
  have hw := h.inv.hist.wf k hk
  rw [(h.inv.above.2 _ hw.1).1]
  exact replay_agree s.history _ k (by rw [h.inv.hist.hlen]; omega) h.inv.hist.wf
    h.inv.hist.ok hk hr

theorem SearchInv.board_agree_puzzle {C : List Nat → Prop} {P : List Nat → Prop} {m0 : Nat}
    {H0 : List Nat} {s : State} (h : SearchInv C P m0 H0 s) : Agree s.board H0 m0 :=
  Agree_congr _ _ _ m0 h.pre (Agree_mono _ _ _ m0 h.base h.board_agree)

theorem Cons_full (G b : List Nat) (hc : Cons G b) (hfull : ∀ c < 81, DIGIT b c ≠ 0) :
    SameDigits G b :=
  fun i hi => (hc i hi).1 (hfull i hi)

/-- The uniqueness test of `generate`: after a successful `solve` the call of
`backtrack`, and the call of `solve` that follows when a choice could be advanced, end
without a second solution only if every complete valid grid that agrees with the puzzle
holds the digits of the board. -/
theorem second_search (P : List Nat → Prop) (hP : WordClosed P) (m0 : Nat) (H0 : List Nat)
    (qsort : (Nat → Nat → Int) → List Nat → List Nat) (hq : ∀ c l, (qsort c l).Perm l)
    (fuel : Nat) (s4 s5 : State) (b1 : Int) (h : SearchInv Solved P m0 H0 s4)
    (hfull : ∀ c < 81, DIGIT s4.board c ≠ 0) (hb : backtrack s4 = some (b1, s5)) :
    (b1 = -1 → (∀ G, Solved G → Agree G H0 m0 → SameDigits G s4.board) ∧
      P s5.history ∧ (∀ k < m0, rd s5.history k = rd H0 k) ∧ s5.history.length = 243) ∧
    (b1 ≠ -1 → ∀ r3 s6, solve qsort fuel s5 = some (r3, s6) → r3 ≠ 0 →
      (∀ G, Solved G → Agree G H0 m0 → SameDigits G s4.board) ∧
      P s6.history ∧ (∀ k < m0, rd s6.history k = rd H0 k) ∧ s6.history.length = 243) := by
  have hC : ∀ G, (Solved G ∧ ¬ SameDigits G s4.board) → Solved G := fun _ hG => hG.1
  have h' : SearchInv (fun G => Solved G ∧ ¬ SameDigits G s4.board) P m0 H0 s4 :=
    h.mono hC
  have hdead : Dead (fun G => Solved G ∧ ¬ SameDigits G s4.board) s4 := by
    intro G hG ha
    exact hG.2 (Cons_full G _ (h.sound G hG.1 ha) hfull)
  have hbs := backtrack_search _ P m0 H0 hC hP s4 s5 b1 h' hdead hb
  have huniq : (∀ G, (Solved G ∧ ¬ SameDigits G s4.board) → ¬ Agree G H0 m0) →
      ∀ G, Solved G → Agree G H0 m0 → SameDigits G s4.board := by
    intro hno G hG ha
    by_contra hne
    exact hno G ⟨hG, hne⟩ ha
  constructor
  · intro hb1
    have := hbs.2 hb1
    refine ⟨huniq this.1, ?_, ?_, ?_⟩
    · rw [this.2]
      exact h.hp
    · rw [this.2]
      exact h.pre
    · rw [this.2]
      exact h.inv.hist.hlen
  · intro hb1 r3 s6 hs hr3
    have h5 := (hbs.1 hb1).1
    have := (solve_search _ P m0 H0 hC hP qsort hq fuel s5 s6 r3 h5 hs).2 hr3
    exact ⟨huniq this.2.1, this.2.2⟩

end Sudoku

namespace Sudoku

/-! ## The generator: one round -/

theorem reapply_replayed (hist : List Nat) (n pass : Nat) (hok : (replay hist n).1 = 0) :
    reapply (State.mk (replay hist n).2 hist (n : Int) pass) =
      (0, State.mk (replay hist n).2 hist (n : Int) pass) := by
  unfold reapply
  dsimp only
  rw [Int.toNat_ofNat, hok]

theorem SearchInv.solved {C : List Nat → Prop} {P : List Nat → Prop} {m0 : Nat}
    {H0 : List Nat} {s : State} (h : SearchInv C P m0 H0 s)
    (hfull : ∀ c < 81, DIGIT s.board c ≠ 0) : Solved s.board :=
  Solved_of_full s.board h.inv.board_wf.digit_le h.inv.no_conflict hfull

/-- A successful `solve` after the template loop leaves a full board in a state that
satisfies the search invariant. -/
theorem solve_first_phase (C : List Nat → Prop) (P : List Nat → Prop)
    (hC : ∀ G, C G → Solved G) (hP : WordClosed P)
    (qsort : (Nat → Nat → Int) → List Nat → List Nat) (hq : ∀ c l, (qsort c l).Perm l)
    (fuel : Nat) (s s' : State)
    (hs : (s.idx_history = 0 ∧ s.board = List.replicate 81 0 ∧ s.history.length = 243 ∧
        P s.history) ∨ ∃ H0, SearchInv C P 1 H0 s)
    (hres : solve qsort fuel s = some (0, s')) :
    ∃ m0 H0, SearchInv C P m0 H0 s' ∧ ∀ c < 81, DIGIT s'.board c ≠ 0 := by
  rcases hs with ⟨hn, hb, hlen, hp⟩ | ⟨H0, hinv⟩
  · obtain ⟨s2, fuel2, hinv, _, _, _, hs2⟩ := solve_empty_start C P hC hP qsort hq fuel s s' 0
      hlen hn hb hp hres
    have := (solve_search C P _ _ hC hP qsort hq fuel2 s2 s' 0 hinv hs2).1 rfl
    exact ⟨_, _, this.1, this.2.1⟩
  · have := (solve_search C P _ _ hC hP qsort hq fuel s s' 0 hinv hres).1 rfl
    exact ⟨_, _, this.1, this.2.1⟩

theorem SameDigits_trans_symm (G G' F : List Nat) (h1 : SameDigits G F)
    (h2 : SameDigits G' F) : SameDigits G G' :=
  fun i hi => by rw [h1 i hi, h2 i hi]

/-- The second part of a round of `generate`: from the replay of the constructed clue
records, a successful `solve` followed by a uniqueness test that finds no second solution
shows that the clues have exactly one solution. -/
theorem puzzle_round (qsort : (Nat → Nat → Int) → List Nat → List Nat)
    (hq : ∀ c l, (qsort c l).Perm l) (fuel : Nat) (hist : List Nat) (nf pass : Nat)
    (s4 s5 s : State) (b1 : Int) (hlen : hist.length = 243) (hnf : nf ≤ 81)
    (hclue : ∀ k < nf, ClueRec (rd hist k)) (hvalid : (replay hist nf).1 = 0)
    (hnofix : NoFixedFrom nf hist)
    (h1 : solve qsort fuel (State.mk (replay hist nf).2 hist (nf : Int) pass) = some (0, s4))
    (h2 : backtrack s4 = some (b1, s5))
    (h3 : (b1 = -1 ∧ s = s5) ∨
      (b1 ≠ -1 ∧ ∃ r3, solve qsort fuel s5 = some (r3, s) ∧ r3 ≠ 0)) :
    UniquePuzzle hist nf ∧ CluePrefix hist nf s.history := by
  have hnat : ((nf : Int)).toNat = nf := Int.toNat_ofNat nf
  by_cases hpos : 1 ≤ nf
  · have hinv := SearchInv_init Solved (NoFixedFrom nf) (fun _ h => h)
      (State.mk (replay hist nf).2 hist (nf : Int) pass) hlen (Int.natCast_nonneg nf)
      (by dsimp only; rw [hnat]; exact hclue) (reapply_replayed hist nf pass hvalid)
      (by dsimp only; rw [hnat]; exact hpos) hnofix
    dsimp only at hinv
    rw [hnat] at hinv
    obtain ⟨hinv4, hfull, _⟩ := (solve_search Solved _ _ _ (fun _ h => h)
      (NoFixedFrom_closed nf) qsort hq fuel _ s4 0 hinv h1).1 rfl
    have hsec := second_search _ (NoFixedFrom_closed nf) nf hist qsort hq fuel s4 s5 b1 hinv4
      hfull h2
    have hfacts : (∀ G, Solved G → Agree G hist nf → SameDigits G s4.board) ∧
        NoFixedFrom nf s.history ∧ (∀ k < nf, rd s.history k = rd hist k) ∧
        s.history.length = 243 := by
      rcases h3 with ⟨hb1, hs⟩ | ⟨hb1, r3, hs, hr3⟩
      · rw [hs]
        exact hsec.1 hb1
      · exact hsec.2 hb1 r3 s hs hr3
    refine ⟨⟨hpos, hnf, hclue, hvalid, ⟨s4.board, hinv4.solved hfull,
      hinv4.board_agree_puzzle⟩, ?_⟩, hfacts.2.2.2, hfacts.2.1, hfacts.2.2.1⟩
    intro G G' hG ha hG' ha'
    exact SameDigits_trans_symm G G' _ (hfacts.1 G hG ha) (hfacts.1 G' hG' ha')
  · exfalso
    have h0 : nf = 0 := by omega
    subst h0
    obtain ⟨s2, fuel2, hinv, hr, hi, hd, hs2⟩ := solve_empty_start Solved (fun _ => True)
      (fun _ h => h) (fun _ _ _ _ _ _ _ _ _ _ => trivial) qsort hq fuel
      (State.mk (replay hist 0).2 hist ((0 : Nat) : Int) pass) s4 0 hlen rfl
      (by dsimp only; rw [replay_zero]) trivial h1
    obtain ⟨hinv4, hfull, _⟩ := (solve_search Solved _ _ _ (fun _ h => h)
      (fun _ _ _ _ _ _ _ _ _ _ => trivial) qsort hq fuel2 s2 s4 0 hinv hs2).1 rfl
    have hsec := second_search _ (fun _ _ _ _ _ _ _ _ _ _ => trivial) 1 s2.history qsort hq
      fuel s4 s5 b1 hinv4 hfull h2
    have huniq : ∀ G, Solved G → Agree G s2.history 1 → SameDigits G s4.board := by
      rcases h3 with ⟨hb1, _⟩ | ⟨hb1, r3, hs, hr3⟩
      · exact (hsec.1 hb1).1
      · exact (hsec.2 hb1 r3 s hs hr3).1
    obtain ⟨hS1, hone1⟩ := grid_with_one_solved _ hi
    obtain ⟨hS2, hone2, hdiff⟩ := two_grids_with_one _ hi
    have ha1 : Agree (grid_with_one (GET_INDEX (rd s2.history 0))) s2.history 1 := by
      intro k hk _
      have hk0 : k = 0 := by omega
      rw [hk0, hone1, hd]
    have ha2 : Agree (grid_with_one_alt (GET_INDEX (rd s2.history 0))) s2.history 1 := by
      intro k hk _
      have hk0 : k = 0 := by omega
      rw [hk0, hone2, hd]
    exact hdiff (SameDigits_trans_symm _ _ _ (huniq _ hS1 ha1) (huniq _ hS2 ha2))

end Sudoku

namespace Sudoku

/-! ## Claim C3: an accepted round of `generate` leaves a puzzle with one solution -/

theorem CluePrefix.clear {H0 : List Nat} {nf : Nat} (hU : UniquePuzzle H0 nf) (s : State)
    (hcp : CluePrefix H0 nf s.history) :
    clear_moves s = some (State.mk (replay s.history nf).2 s.history (nf : Int) s.pass) := by
  apply clear_moves_eq s nf
  · intro k hk
    rw [hcp.2.2 k hk]
    exact (hU.clues k hk).2.2.2.1
  · exact hcp.2.1 nf (le_refl _)
  · have := hU.le
    omega

theorem CluePrefix.valid {H0 : List Nat} {nf : Nat} (hU : UniquePuzzle H0 nf)
    (hist : List Nat) (hcp : CluePrefix H0 nf hist) : (replay hist nf).1 = 0 := by
  have hH0 : nf ≤ H0.length := by
    by_contra hc
    have := (hU.clues (nf - 1) (by have := hU.pos; omega)).2.1
    rw [rd_ge H0 (nf - 1) (by omega)] at this
    exact absurd this (by decide)
  rw [replay_congr hist H0 nf (by rw [hcp.1]; have := hU.le; omega) hH0 hcp.2.2]
  exact hU.valid

/-- The calls `clear_moves(); solve()` of `classify` keep the clue records in place. -/
theorem classify_keeps (qsort : (Nat → Nat → Int) → List Nat → List Nat)
    (hq : ∀ c l, (qsort c l).Perm l) (fuel : Nat) (H0 : List Nat) (nf : Nat)
    (hU : UniquePuzzle H0 nf) (s s1 : State) (r : Int) (hcp : CluePrefix H0 nf s.history)
    (hcl : classify_solve qsort fuel s = some (r, s1)) : CluePrefix H0 nf s1.history := by
  unfold classify_solve at hcl
  have hclear := CluePrefix.clear hU (State.mk s.board s.history s.idx_history 0) hcp
  dsimp only at hclear
  rw [hclear] at hcl
  dsimp only at hcl
  have hnat : ((nf : Int)).toNat = nf := Int.toNat_ofNat nf
  have hinv := SearchInv_init Solved (NoFixedFrom nf) (fun _ h => h)
    (State.mk (replay s.history nf).2 s.history (nf : Int) 0) hcp.1 (Int.natCast_nonneg nf)
    (by
      dsimp only
      rw [hnat]
      intro k hk
      rw [hcp.2.2 k hk]
      exact hU.clues k hk)
    (reapply_replayed s.history nf 0 (CluePrefix.valid hU s.history hcp))
    (by dsimp only; rw [hnat]; exact hU.pos) hcp.2.1
  dsimp only at hinv
  rw [hnat] at hinv
  have hss := solve_search Solved _ _ _ (fun _ h => h) (NoFixedFrom_closed nf) qsort hq fuel _
    s1 r hinv hcl
  by_cases hr : r = 0
  · have h1 := (hss.1 hr).1
    exact ⟨h1.inv.hist.hlen, h1.hp, fun k hk => by rw [h1.pre k hk, hcp.2.2 k hk]⟩
  · have h1 := (hss.2 hr).2.2
    exact ⟨h1.2.2, h1.1, fun k hk => by rw [h1.2.1 k hk, hcp.2.2 k hk]⟩

/-- A round of `generate` that does not end in `continue` has constructed clue records
with exactly one solution, and they are still the fixed records of the history. -/
theorem generate_round_unique (qsort : (Nat → Nat → Int) → List Nat → List Nat)
    (hq : ∀ c l, (qsort c l).Perm l) (fuel : Nat) (digits tmplt : List Nat) (s : State)
    (hdig : ∀ i < 9, 1 ≤ rd digits i ∧ rd digits i ≤ 9)
    (htm : ∀ i < tmplt.length, rd tmplt i < 81)
    (hround : generate_round qsort fuel digits tmplt = some (some s)) :
    ∃ H0 nf, UniquePuzzle H0 nf ∧ CluePrefix H0 nf s.history := by
  unfold generate_round at hround
  cases hf : generate_fill digits tmplt reset with
  | none =>
    rw [hf] at hround
    exact absurd hround (by simp)
  | some s1 =>
    rw [hf] at hround
    dsimp only at hround
    cases hs1 : solve qsort fuel s1 with
    | none =>
      rw [hs1] at hround
      exact absurd hround (by simp)
    | some p1 =>
      obtain ⟨r1, s2⟩ := p1
      rw [hs1] at hround
      dsimp only at hround
      by_cases c1 : r1 ≠ 0 ∨ s2.idx_history < 81
      · rw [if_pos c1] at hround
        exact absurd hround (by simp)
      · rw [if_neg c1] at hround
        have hr1 : r1 = 0 := by
          by_contra h
          exact c1 (Or.inl h)
        subst hr1
        -- the first phase
        have hstart := generate_fill_loop (fun _ => False) (NoFixedFrom 0)
          (fun _ h => absurd h id) (NoFixedFrom_closed 0) (fun _ h => h) digits tmplt hdig
          (List.range tmplt.length) (fun i hi => htm i (List.mem_range.1 hi)) reset s1
          (Or.inl ⟨rfl, rfl, List.length_replicate 243 0, fun k _ => by
            show rd (List.replicate 243 0) k &&& FIXED = 0
            rw [rd_replicate]
            exact Nat.zero_and _⟩) hf
        obtain ⟨m1, H1, hinv2, hfull2⟩ := solve_first_phase (fun _ => False) (NoFixedFrom 0)
          (fun _ h => absurd h id) (NoFixedFrom_closed 0) qsort hq fuel s1 s2 hstart hs1
        have hF := hinv2.solved hfull2
        have hb : ∀ i < 81, 1 ≤ DIGIT (generate_mark tmplt s2.board) i ∧
            DIGIT (generate_mark tmplt s2.board) i ≤ 9 := by
          intro i hi
          rw [generate_mark_DIGIT]
          exact ⟨hF.digit_ge i hi, hF.digit_le9 i hi⟩
        obtain ⟨g1, g2, g3, g4, g5⟩ := generate_fixed_loop (generate_mark tmplt s2.board)
          s2.history hinv2.inv.hist.hlen hb 81 (le_refl _)
        have hgf : generate_fixed (generate_mark tmplt s2.board) s2.history =
            (List.range 81).foldl (generate_fixed_step (generate_mark tmplt s2.board))
              (s2.history, 0) := rfl
        rw [← hgf] at g1 g2 g3 g4 g5
        generalize generate_fixed (generate_mark tmplt s2.board) s2.history = hn at *
        have hclue : ∀ k < hn.2, ClueRec (rd hn.1 k) := fun k hk => (g3 k hk).1
        have hnofix : NoFixedFrom hn.2 hn.1 := by
          intro k hk
          rw [g5 k hk]
          exact hinv2.hp k (Nat.zero_le k)
        have hagree : Agree s2.board hn.1 hn.2 := by
          intro k hk _
          rw [(g3 k hk).2.2, generate_mark_DIGIT]
        have hwf : WFHistory hn.1 hn.2 :=
          fun k hk => ⟨(hclue k hk).1, (hclue k hk).2.2.1⟩
        have hvalid := replay_valid_of_agree s2.board hn.1 hn.2 hF (by rw [g2]; omega) hwf
          (fun k k' h1 h2 => Nat.ne_of_lt (g4 k k' h1 h2)) hagree
        have hclear := clear_moves_eq (State.mk (generate_mark tmplt s2.board) hn.1
          (hn.2 : Int) s2.pass) hn.2 (fun k hk => (hclue k hk).2.2.2.1)
          (hnofix hn.2 (le_refl _)) (by omega)
        dsimp only at hclear
        rw [hclear] at hround
        dsimp only at hround
        cases hs3 : solve qsort fuel (State.mk (replay hn.1 hn.2).2 hn.1 (hn.2 : Int) s2.pass) with
        | none =>
          rw [hs3] at hround
          exact absurd hround (by simp)
        | some p3 =>
          obtain ⟨r2, s4⟩ := p3
          rw [hs3] at hround
          dsimp only at hround
          by_cases c2 : r2 ≠ 0 ∨ s4.idx_history < 81
          · rw [if_pos c2] at hround
            exact absurd hround (by simp)
          · rw [if_neg c2] at hround
            have hr2 : r2 = 0 := by
              by_contra h
              exact c2 (Or.inl h)
            subst hr2
            cases hbk : backtrack s4 with
            | none =>
              rw [hbk] at hround
              exact absurd hround (by simp)
            | some p4 =>
              obtain ⟨b1, s5⟩ := p4
              rw [hbk] at hround
              dsimp only at hround
              refine ⟨hn.1, hn.2, ?_⟩
              apply puzzle_round qsort hq fuel hn.1 hn.2 s2.pass s4 s5 s b1 g2 g1 hclue hvalid
                hnofix hs3 hbk
              by_cases hb1 : b1 ≠ -1
              · rw [if_pos hb1] at hround
                right
                cases hs5 : solve qsort fuel s5 with
                | none =>
                  rw [hs5] at hround
                  exact absurd hround (by simp)
                | some p5 =>
                  obtain ⟨r3, s6⟩ := p5
                  rw [hs5] at hround
                  dsimp only at hround
                  by_cases hr3 : r3 = 0
                  · rw [if_pos hr3] at hround
                    exact absurd hround (by simp)
                  · rw [if_neg hr3] at hround
                    simp only [Option.some.injEq] at hround
                    rw [← hround]
                    exact ⟨hb1, r3, rfl, hr3⟩
              · rw [if_neg hb1] at hround
                simp only [Option.some.injEq] at hround
                left
                exact ⟨not_not.1 hb1, hround.symm⟩

end Sudoku

namespace Sudoku

/-- The round of `generate` composed from its steps, when both calls of `solve` complete
the board and the last `backtrack` finds no choice to undo. -/
theorem generate_round_steps (qsort : (Nat → Nat → Int) → List Nat → List Nat) (fuel : Nat)
    (digits tmplt : List Nat) (s1 s2 s3 s4 s5 : State)
    (h1 : generate_fill digits tmplt reset = some s1)
    (h2 : solve qsort fuel s1 = some (0, s2)) (hn2 : 81 ≤ s2.idx_history)
    (h3 : clear_moves (State.mk (generate_mark tmplt s2.board)
      (generate_fixed (generate_mark tmplt s2.board) s2.history).1
      ((generate_fixed (generate_mark tmplt s2.board) s2.history).2 : Int) s2.pass) = some s3)
    (h4 : solve qsort fuel s3 = some (0, s4)) (hn4 : 81 ≤ s4.idx_history)
    (h5 : backtrack s4 = some (-1, s5)) :
    generate_round qsort fuel digits tmplt = some (some s5) := by
  unfold generate_round
  rw [h1]
  dsimp only
  rw [h2]
  dsimp only
  rw [if_neg (by
    intro h
    rcases h with h | h
    · exact h rfl
    · omega)]
  rw [h3]
  dsimp only
  rw [h4]
  dsimp only
  rw [if_neg (by
    intro h
    rcases h with h | h
    · exact h rfl
    · omega)]
  rw [h5]
  dsimp only
  rw [if_neg (by simp)]

/-- The construction of the fixed squares in `generate` followed by `clear_moves`, from
its steps. -/
theorem clear_moves_of_steps (tmplt : List Nat) (s2 s3 : State) (m : List Nat) (n k : Nat)
    (hm : generate_mark tmplt s2.board = m)
    (hf : generate_fixed m s2.history = (s3.history, n))
    (hs : clear_moves_scan s3.history 244 0 = some k)
    (hk : s3.idx_history = (k : Int))
    (hr : replay s3.history k = (0, s3.board))
    (hp : s3.pass = s2.pass) :
    clear_moves (State.mk (generate_mark tmplt s2.board)
      (generate_fixed (generate_mark tmplt s2.board) s2.history).1
      ((generate_fixed (generate_mark tmplt s2.board) s2.history).2 : Int) s2.pass) =
      some s3 := by
  cases s3 with
  | mk b3 h3 i3 p3 =>
    dsimp only at hf hs hk hr hp
    subst hk
    subst hp
    rw [hm, hf]
    unfold clear_moves
    dsimp only
    rw [hs]
    unfold reapply
    dsimp only
    rw [Int.toNat_ofNat, hr]

set_option maxRecDepth 100000 in
set_option maxHeartbeats 2000000 in
theorem filled5_example_eq :
    (List.range' 0 5).foldl (generate_fill_step digits_example template_example)
      (some reset) = some (filled_upto filled5_board 5) := by
  decide!

set_option maxRecDepth 100000 in
set_option maxHeartbeats 2000000 in
theorem filled10_example_eq :
    (List.range' 0 10).foldl (generate_fill_step digits_example template_example)
      (some reset) = some (filled_upto filled10_board 10) :=
  foldl_range_append (generate_fill_step digits_example template_example) 0 5 5
    (some reset) (some (filled_upto filled5_board 5))
    (some (filled_upto filled10_board 10)) filled5_example_eq (by decide!)

set_option maxRecDepth 100000 in
set_option maxHeartbeats 2000000 in
theorem filled15_example_eq :
    (List.range' 0 15).foldl (generate_fill_step digits_example template_example)
      (some reset) = some (filled_upto filled15_board 15) :=
  foldl_range_append (generate_fill_step digits_example template_example) 0 10 5
    (some reset) (some (filled_upto filled10_board 10))
    (some (filled_upto filled15_board 15)) filled10_example_eq (by decide!)

set_option maxRecDepth 100000 in
set_option maxHeartbeats 2000000 in
theorem filled20_example_eq :
    (List.range' 0 20).foldl (generate_fill_step digits_example template_example)
      (some reset) = some (filled_upto filled20_board 20) :=
  foldl_range_append (generate_fill_step digits_example template_example) 0 15 5
    (some reset) (some (filled_upto filled15_board 15))
    (some (filled_upto filled20_board 20)) filled15_example_eq (by decide!)

set_option maxRecDepth 100000 in
set_option maxHeartbeats 2000000 in
theorem filled23_example_eq :
    (List.range' 0 23).foldl (generate_fill_step digits_example template_example)
      (some reset) = some (filled_upto filled23_board 23) :=
  foldl_range_append (generate_fill_step digits_example template_example) 0 20 3
    (some reset) (some (filled_upto filled20_board 20))
    (some (filled_upto filled23_board 23)) filled20_example_eq (by decide!)

set_option maxRecDepth 100000 in
set_option maxHeartbeats 2000000 in
theorem filled26_example_eq :
    (List.range' 0 26).foldl (generate_fill_step digits_example template_example)
      (some reset) = some filled26_example :=
  foldl_range_append (generate_fill_step digits_example template_example) 0 23 3
    (some reset) (some (filled_upto filled23_board 23))
    (some filled26_example) filled23_example_eq (by decide!)

set_option maxRecDepth 100000 in
set_option maxHeartbeats 2000000 in
theorem filled29_example_eq :
    (List.range' 0 29).foldl (generate_fill_step digits_example template_example)
      (some reset) = some (filled_upto filled29_board 29) :=
  foldl_range_append (generate_fill_step digits_example template_example) 0 26 3
    (some reset) (some filled26_example)
    (some (filled_upto filled29_board 29)) filled26_example_eq (by decide!)

set_option maxRecDepth 100000 in
set_option maxHeartbeats 2000000 in
theorem filled32_example_eq :
    (List.range' 0 32).foldl (generate_fill_step digits_example template_example)
      (some reset) = some (filled_upto filled32_board 32) :=
  foldl_range_append (generate_fill_step digits_example template_example) 0 29 3
    (some reset) (some (filled_upto filled29_board 29))
    (some (filled_upto filled32_board 32)) filled29_example_eq (by decide!)

set_option maxRecDepth 100000 in
set_option maxHeartbeats 2000000 in
theorem filled35_example_eq :
    (List.range' 0 35).foldl (generate_fill_step digits_example template_example)
      (some reset) = some (filled_upto filled35_board 35) :=
  foldl_range_append (generate_fill_step digits_example template_example) 0 32 3
    (some reset) (some (filled_upto filled32_board 32))
    (some (filled_upto filled35_board 35)) filled32_example_eq (by decide!)

set_option maxRecDepth 100000 in
set_option maxHeartbeats 2000000 in
theorem filled38_example_eq :
    (List.range' 0 38).foldl (generate_fill_step digits_example template_example)
      (some reset) = some (filled_upto filled38_board 38) :=
  foldl_range_append (generate_fill_step digits_example template_example) 0 35 3
    (some reset) (some (filled_upto filled35_board 35))
    (some (filled_upto filled38_board 38)) filled35_example_eq (by decide!)

set_option maxRecDepth 100000 in
set_option maxHeartbeats 2000000 in
theorem filled41_example_eq :
    (List.range' 0 41).foldl (generate_fill_step digits_example template_example)
      (some reset) = some (filled_upto filled41_board 41) :=
  foldl_range_append (generate_fill_step digits_example template_example) 0 38 3
    (some reset) (some (filled_upto filled38_board 38))
    (some (filled_upto filled41_board 41)) filled38_example_eq (by decide!)

set_option maxRecDepth 100000 in
set_option maxHeartbeats 2000000 in
theorem filled44_example_eq :
    (List.range' 0 44).foldl (generate_fill_step digits_example template_example)
      (some reset) = some (filled_upto filled44_board 44) :=
  foldl_range_append (generate_fill_step digits_example template_example) 0 41 3
    (some reset) (some (filled_upto filled41_board 41))
    (some (filled_upto filled44_board 44)) filled41_example_eq (by decide!)

set_option maxRecDepth 100000 in
set_option maxHeartbeats 2000000 in
theorem filled47_example_eq :
    (List.range' 0 47).foldl (generate_fill_step digits_example template_example)
      (some reset) = some (filled_upto filled47_board 47) :=
  foldl_range_append (generate_fill_step digits_example template_example) 0 44 3
    (some reset) (some (filled_upto filled44_board 44))
    (some (filled_upto filled47_board 47)) filled44_example_eq (by decide!)

set_option maxRecDepth 100000 in
set_option maxHeartbeats 2000000 in
theorem filled50_example_eq :
    (List.range' 0 50).foldl (generate_fill_step digits_example template_example)
      (some reset) = some (filled_upto filled50_board 50) :=
  foldl_range_append (generate_fill_step digits_example template_example) 0 47 3
    (some reset) (some (filled_upto filled47_board 47))
    (some (filled_upto filled50_board 50)) filled47_example_eq (by decide!)

set_option maxRecDepth 100000 in
set_option maxHeartbeats 2000000 in
theorem filled52_example_eq :
    (List.range' 0 52).foldl (generate_fill_step digits_example template_example)
      (some reset) = some filled52_example :=
  foldl_range_append (generate_fill_step digits_example template_example) 0 50 2
    (some reset) (some (filled_upto filled50_board 50))
    (some filled52_example) filled50_example_eq (by decide!)

set_option maxRecDepth 100000 in
set_option maxHeartbeats 2000000 in
theorem filled54_example_eq :
    (List.range' 0 54).foldl (generate_fill_step digits_example template_example)
      (some reset) = some (filled_upto filled54_board 54) :=
  foldl_range_append (generate_fill_step digits_example template_example) 0 52 2
    (some reset) (some filled52_example)
    (some (filled_upto filled54_board 54)) filled52_example_eq (by decide!)

set_option maxRecDepth 100000 in
set_option maxHeartbeats 2000000 in
theorem filled56_example_eq :
    (List.range' 0 56).foldl (generate_fill_step digits_example template_example)
      (some reset) = some (filled_upto filled56_board 56) :=
  foldl_range_append (generate_fill_step digits_example template_example) 0 54 2
    (some reset) (some (filled_upto filled54_board 54))
    (some (filled_upto filled56_board 56)) filled54_example_eq (by decide!)

set_option maxRecDepth 100000 in
set_option maxHeartbeats 2000000 in
theorem filled58_example_eq :
    (List.range' 0 58).foldl (generate_fill_step digits_example template_example)
      (some reset) = some (filled_upto filled58_board 58) :=
  foldl_range_append (generate_fill_step digits_example template_example) 0 56 2
    (some reset) (some (filled_upto filled56_board 56))
    (some (filled_upto filled58_board 58)) filled56_example_eq (by decide!)

set_option maxRecDepth 100000 in
set_option maxHeartbeats 2000000 in
theorem filled60_example_eq :
    (List.range' 0 60).foldl (generate_fill_step digits_example template_example)
      (some reset) = some (filled_upto filled60_board 60) :=
  foldl_range_append (generate_fill_step digits_example template_example) 0 58 2
    (some reset) (some (filled_upto filled58_board 58))
    (some (filled_upto filled60_board 60)) filled58_example_eq (by decide!)

set_option maxRecDepth 100000 in
set_option maxHeartbeats 2000000 in
theorem filled62_example_eq :
    (List.range' 0 62).foldl (generate_fill_step digits_example template_example)
      (some reset) = some (filled_upto filled62_board 62) :=
  foldl_range_append (generate_fill_step digits_example template_example) 0 60 2
    (some reset) (some (filled_upto filled60_board 60))
    (some (filled_upto filled62_board 62)) filled60_example_eq (by decide!)

set_option maxRecDepth 100000 in
set_option maxHeartbeats 2000000 in
theorem filled64_example_eq :
    (List.range' 0 64).foldl (generate_fill_step digits_example template_example)
      (some reset) = some (filled_upto filled64_board 64) :=
  foldl_range_append (generate_fill_step digits_example template_example) 0 62 2
    (some reset) (some (filled_upto filled62_board 62))
    (some (filled_upto filled64_board 64)) filled62_example_eq (by decide!)

set_option maxRecDepth 100000 in
set_option maxHeartbeats 2000000 in
theorem filled65_example_eq :
    (List.range' 0 65).foldl (generate_fill_step digits_example template_example)
      (some reset) = some filled65_example :=
  foldl_range_append (generate_fill_step digits_example template_example) 0 64 1
    (some reset) (some (filled_upto filled64_board 64))
    (some filled65_example) filled64_example_eq (by decide!)

set_option maxRecDepth 100000 in
set_option maxHeartbeats 2000000 in
theorem filled67_example_eq :
    (List.range' 0 67).foldl (generate_fill_step digits_example template_example)
      (some reset) = some (filled_upto filled67_board 67) :=
  foldl_range_append (generate_fill_step digits_example template_example) 0 65 2
    (some reset) (some filled65_example)
    (some (filled_upto filled67_board 67)) filled65_example_eq (by decide!)

set_option maxRecDepth 100000 in
set_option maxHeartbeats 2000000 in
theorem filled69_example_eq :
    (List.range' 0 69).foldl (generate_fill_step digits_example template_example)
      (some reset) = some (filled_upto filled69_board 69) :=
  foldl_range_append (generate_fill_step digits_example template_example) 0 67 2
    (some reset) (some (filled_upto filled67_board 67))
    (some (filled_upto filled69_board 69)) filled67_example_eq (by decide!)

set_option maxRecDepth 100000 in
set_option maxHeartbeats 2000000 in
theorem filled71_example_eq :
    (List.range' 0 71).foldl (generate_fill_step digits_example template_example)
      (some reset) = some (filled_upto filled71_board 71) :=
  foldl_range_append (generate_fill_step digits_example template_example) 0 69 2
    (some reset) (some (filled_upto filled69_board 69))
    (some (filled_upto filled71_board 71)) filled69_example_eq (by decide!)

set_option maxRecDepth 100000 in
set_option maxHeartbeats 2000000 in
theorem filled73_example_eq :
    (List.range' 0 73).foldl (generate_fill_step digits_example template_example)
      (some reset) = some (filled_upto filled73_board 73) :=
  foldl_range_append (generate_fill_step digits_example template_example) 0 71 2
    (some reset) (some (filled_upto filled71_board 71))
    (some (filled_upto filled73_board 73)) filled71_example_eq (by decide!)

set_option maxRecDepth 100000 in
set_option maxHeartbeats 2000000 in
theorem filled75_example_eq :
    (List.range' 0 75).foldl (generate_fill_step digits_example template_example)
      (some reset) = some (filled_upto filled75_board 75) :=
  foldl_range_append (generate_fill_step digits_example template_example) 0 73 2
    (some reset) (some (filled_upto filled73_board 73))
    (some (filled_upto filled75_board 75)) filled73_example_eq (by decide!)

set_option maxRecDepth 100000 in
set_option maxHeartbeats 2000000 in
theorem filled77_example_eq :
    (List.range' 0 77).foldl (generate_fill_step digits_example template_example)
      (some reset) = some (filled_upto filled77_board 77) :=
  foldl_range_append (generate_fill_step digits_example template_example) 0 75 2
    (some reset) (some (filled_upto filled75_board 75))
    (some (filled_upto filled77_board 77)) filled75_example_eq (by decide!)

set_option maxRecDepth 100000 in
set_option maxHeartbeats 2000000 in
theorem filled78_example_eq :
    (List.range' 0 78).foldl (generate_fill_step digits_example template_example)
      (some reset) = some filled_example :=
  foldl_range_append (generate_fill_step digits_example template_example) 0 77 1
    (some reset) (some (filled_upto filled77_board 77))
    (some filled_example) filled77_example_eq (by decide!)

/-- The 78 fills of the example round of `generate` leave `filled_example`. -/
theorem filled_example_eq :
    generate_fill digits_example template_example reset = some filled_example := by
  unfold generate_fill
  rw [List.range_eq_range', show template_example.length = 78 from by decide]
  exact filled78_example_eq

/-- The loop of `fill` calls on a template with one more cell. -/
theorem generate_fill_snoc (digits t : List Nat) (x : Nat) (s0 s1 s2 : State)
    (h1 : generate_fill digits t s0 = some s1)
    (h2 : generate_fill_step digits (t ++ [x]) (some s1) t.length = some s2) :
    generate_fill digits (t ++ [x]) s0 = some s2 := by
  unfold generate_fill at h1 ⊢
  rw [List.length_append, List.length_singleton, List.range_succ, List.foldl_append]
  have hext : (List.range t.length).foldl (generate_fill_step digits (t ++ [x])) (some s0) =
      (List.range t.length).foldl (generate_fill_step digits t) (some s0) := by
    apply List.foldl_ext
    intro acc i hi
    rw [List.mem_range] at hi
    unfold generate_fill_step
    rw [rd_append_left t [x] i hi]
  rw [hext, h1]
  exact h2

set_option maxRecDepth 100000 in
set_option maxHeartbeats 2000000 in
theorem failing_fill_step :
    generate_fill_step digits_example (template_example ++ [5]) (some filled_example)
      template_example.length = some filled_example := by
  decide!

theorem filled_failing_eq :
    generate_fill digits_example (template_example ++ [5]) reset = some filled_example :=
  generate_fill_snoc digits_example template_example 5 reset filled_example filled_example
    filled_example_eq failing_fill_step

set_option maxRecDepth 100000 in
set_option maxHeartbeats 2000000 in
theorem marked_failing_eq :
    generate_mark (template_example ++ [5]) completed_example.board = marked_failing := by
  decide!

set_option maxRecDepth 100000 in
set_option maxHeartbeats 2000000 in
theorem fixed_failing_eq :
    generate_fixed marked_failing completed_example.history =
      (clued_failing.history, 79) := by
  decide!

set_option maxRecDepth 100000 in
set_option maxHeartbeats 2000000 in
theorem clued_failing_scan :
    clear_moves_scan clued_failing.history 244 0 = some (26 + 26 + 27) := by
  decide!

theorem clued_failing_eq :
    clear_moves (State.mk (generate_mark (template_example ++ [5]) completed_example.board)
      (generate_fixed (generate_mark (template_example ++ [5]) completed_example.board)
        completed_example.history).1
      ((generate_fixed (generate_mark (template_example ++ [5]) completed_example.board)
        completed_example.history).2 : Int) completed_example.pass) = some clued_failing :=
  clear_moves_of_steps (template_example ++ [5]) completed_example clued_failing
    marked_failing 79 (26 + 26 + 27) marked_failing_eq fixed_failing_eq clued_failing_scan
    (by decide) clued_failing_replay (by decide)

set_option maxRecDepth 100000 in
set_option maxHeartbeats 2000000 in
theorem generated_failing_eq :
    backtrack resolved_failing = some (-1, generated_failing) := by
  decide!

/-- Without a requested class an accepted round is an accepted attempt. -/
theorem generate_attempt_none (qsort : (Nat → Nat → Int) → List Nat → List Nat) (fuel : Nat)
    (digits tmplt : List Nat) (s : State)
    (h : generate_round qsort fuel digits tmplt = some (some s)) :
    generate_attempt qsort fuel digits tmplt none = some (some s) := by
  unfold generate_attempt
  rw [h]

/-- C3: when a round of `generate` is accepted (for every template of cells and every
order of the digits, with or without a requested class), the fixed records of the
history are its first `nf` records, they are clue records, some complete valid grid
agrees with them, and any two complete valid grids that agree with them hold the same
digits: the generated puzzle has exactly one solution. Whenever the closing `classify`
and `clear_moves` of `generate` return, they leave these clues in place with
`idx_history` their number. -/
theorem generate_unique (qsort : (Nat → Nat → Int) → List Nat → List Nat)
    (hq : ∀ c l, (qsort c l).Perm l) (fuel : Nat) (digits tmplt : List Nat)
    (requested : Option (Int × State → Bool)) (s : State)
    (hdig : ∀ i < 9, 1 ≤ rd digits i ∧ rd digits i ≤ 9)
    (htm : ∀ i < tmplt.length, rd tmplt i < 81)
    (hat : generate_attempt qsort fuel digits tmplt requested = some (some s)) :
    ∃ nf, 1 ≤ nf ∧ nf ≤ 81 ∧
      (∀ k < nf, ClueRec (rd s.history k)) ∧
      NoFixedFrom nf s.history ∧
      (∃ F, Solved F ∧ Agree F s.history nf) ∧
      (∀ G G', Solved G → Agree G s.history nf →
        Solved G' → Agree G' s.history nf → SameDigits G G') ∧
      ∀ s', generate_finish qsort fuel s = some s' →
        s'.idx_history = (nf : Int) ∧ NoFixedFrom nf s'.history ∧
        ∀ k < nf, rd s'.history k = rd s.history k := by
  have hkey : ∃ H0 nf, UniquePuzzle H0 nf ∧ CluePrefix H0 nf s.history := by
    unfold generate_attempt at hat
    cases hr : generate_round qsort fuel digits tmplt with
    | none =>
      rw [hr] at hat
      exact absurd hat (by simp)
    | some o =>
      cases o with
      | none =>
        rw [hr] at hat
        exact absurd hat (by simp)
      | some s0 =>
        rw [hr] at hat
        dsimp only at hat
        obtain ⟨H0, nf, hU, hcp0⟩ :=
          generate_round_unique qsort hq fuel digits tmplt s0 hdig htm hr
        refine ⟨H0, nf, hU, ?_⟩
        cases requested with
        | none =>
          dsimp only at hat
          simp only [Option.some.injEq] at hat
          rw [← hat]
          exact hcp0
        | some want =>
          dsimp only at hat
          cases hc : classify_solve qsort fuel s0 with
          | none =>
            rw [hc] at hat
            exact absurd hat (by simp)
          | some p =>
            obtain ⟨r, s1⟩ := p
            rw [hc] at hat
            dsimp only at hat
            by_cases hw : want (r, s1) = true
            · rw [if_pos hw] at hat
              simp only [Option.some.injEq] at hat
              rw [← hat]
              exact classify_keeps qsort hq fuel H0 nf hU s0 s1 r hcp0 hc
            · rw [if_neg hw] at hat
              exact absurd hat (by simp)
  obtain ⟨H0, nf, hU, hcp⟩ := hkey
  have hsym : ∀ k < nf, rd H0 k = rd s.history k := fun k hk => (hcp.2.2 k hk).symm
  refine ⟨nf, hU.pos, hU.le, ?_, hcp.2.1, ?_, ?_, ?_⟩
  · intro k hk
    rw [hcp.2.2 k hk]
    exact hU.clues k hk
  · obtain ⟨F, hF, hA⟩ := hU.ex
    exact ⟨F, hF, Agree_congr F H0 s.history nf hsym hA⟩
  · intro G G' hG hA hG' hA'
    exact hU.uniq G G' hG (Agree_congr G s.history H0 nf hcp.2.2 hA) hG'
      (Agree_congr G' s.history H0 nf hcp.2.2 hA')
  · intro s' hfin
    unfold generate_finish at hfin
    cases hc : classify_solve qsort fuel s with
    | none =>
      rw [hc] at hfin
      exact absurd hfin (by simp)
    | some p =>
      obtain ⟨r, s1⟩ := p
      rw [hc] at hfin
      dsimp only at hfin
      have hcp1 := classify_keeps qsort hq fuel H0 nf hU s s1 r hcp hc
      rw [CluePrefix.clear hU s1 hcp1] at hfin
      simp only [Option.some.injEq] at hfin
      rw [← hfin]
      dsimp only
      refine ⟨rfl, hcp1.2.1, ?_⟩
      intro k hk
      rw [hcp1.2.2 k hk, hcp.2.2 k hk]

end Sudoku

namespace Sudoku

/-! ## Claim C12: the records after `add_move` -/

theorem add_move_ignore_latest (h : List Nat) (idx n k : Nat) (hk : k < n)
    (hlen : n ≤ h.length) (hidx : GET_INDEX (rd h k) = idx)
    (hlast : ∀ k' < n, k < k' → GET_INDEX (rd h k') ≠ idx) :
    rd (add_move_ignore h idx n) k = rd h k ||| IGNORED := by
  induction n with
  | zero => omega
  | succ i ih =>
    unfold add_move_ignore
    by_cases hi : GET_INDEX (rd h i) = idx
    · rw [if_pos hi]
      have hki : k = i := by
        by_contra hne
        exact hlast i (by omega) (by omega) hi
      subst hki
      rw [rd_wr_self _ _ _ (by omega)]
    · rw [if_neg hi]
      have hki : k ≠ i := fun e => hi (e ▸ hidx)
      exact ih (by omega) (by omega) (fun k' hk' hkk' => hlast k' (by omega) hkk')

theorem add_move_ignore_other (h : List Nat) (idx n k : Nat)
    (hother : GET_INDEX (rd h k) ≠ idx ∨ ∃ k' < n, k < k' ∧ GET_INDEX (rd h k') = idx) :
    rd (add_move_ignore h idx n) k = rd h k := by
  induction n with
  | zero => rfl
  | succ i ih =>
    unfold add_move_ignore
    by_cases hi : GET_INDEX (rd h i) = idx
    · rw [if_pos hi]
      apply rd_wr_ne
      rintro rfl
      rcases hother with h1 | ⟨k', h1, h2, _⟩
      · exact h1 hi
      · omega
    · rw [if_neg hi]
      apply ih
      rcases hother with h1 | ⟨k', h1, h2, h3⟩
      · exact Or.inl h1
      · refine Or.inr ⟨k', ?_, h2, h3⟩
        by_contra hc
        have : k' = i := by omega
        exact hi (this ▸ h3)

/-- C12 (as stated, refuted): the history of `records_stale` holds two records of cell 5, the older one not ignored
and the more recent one ignored: `add_move(5, 3, 0)` sets the flag of the more recent
record again and leaves the older record, the most recent unignored one, not ignored. -/
theorem add_move_skips_unignored :
    (add_move (history_state records_stale) 5 3 0).map
      (fun s => (rd s.history 0 &&& IGNORED, rd s.history 1 &&& IGNORED, s.idx_history)) =
      some (0, IGNORED, 3) := by
  decide!

/-- C12 (amended): below capacity `add_move(idx, digit, flags)` stores the word
`SET_INDEX(idx) | SET_DIGIT(digit) | flags` as the new last record, which for a cell index
below 128, a digit below 16 and flags outside the index, digit and `IGNORED` bits reads
back as `idx`, `digit` and not ignored; it sets `IGNORED` on the most recent earlier
record whose index is `idx`, whether or not that record is ignored already, and every
other record and the board keep their contents. -/
theorem add_move_appends (s : State) (idx digit flags : Nat) (h0 : 0 ≤ s.idx_history)
    (hcap : s.idx_history < 242) (hlen : s.history.length = 243) :
    ∃ s', add_move s idx digit flags = some s' ∧
      s'.idx_history = s.idx_history + 1 ∧ s'.board = s.board ∧
      s'.history.length = 243 ∧
      rd s'.history s.idx_history.toNat = SET_INDEX idx ||| SET_DIGIT digit ||| flags ∧
      (idx < 128 → digit < 16 → flags &&& INDEX_MASK = 0 → flags &&& DIGIT_MASK = 0 →
        flags &&& IGNORED = 0 →
        GET_INDEX (rd s'.history s.idx_history.toNat) = idx ∧
        GET_DIGIT (rd s'.history s.idx_history.toNat) = digit ∧
        rd s'.history s.idx_history.toNat &&& IGNORED = 0) ∧
      (∀ k < s.idx_history.toNat, GET_INDEX (rd s.history k) = idx →
        (∀ k' < s.idx_history.toNat, k < k' → GET_INDEX (rd s.history k') ≠ idx) →
        rd s'.history k = rd s.history k ||| IGNORED) ∧
      (∀ k, k ≠ s.idx_history.toNat →
        (GET_INDEX (rd s.history k) ≠ idx ∨ s.idx_history.toNat < k ∨
          ∃ k' < s.idx_history.toNat, k < k' ∧ GET_INDEX (rd s.history k') = idx) →
        rd s'.history k = rd s.history k) := by
  obtain ⟨n, hn⟩ : ∃ n : Nat, s.idx_history = (n : Int) := ⟨s.idx_history.toNat, by omega⟩
  have hnat : s.idx_history.toNat = n := by omega
  have hn242 : n < 242 := by omega
  rw [add_move_below s idx digit flags h0 hcap, hnat]
  refine ⟨_, rfl, rfl, rfl, ?_, ?_, ?_, ?_, ?_⟩
  · dsimp only
    rw [add_move_ignore_length, length_wr, hlen]
  · dsimp only
    rw [add_move_ignore_rd_ge _ _ _ _ (le_refl _), rd_wr_self _ _ _ (by omega)]
  · intro hidx hd hf1 hf2 hf3
    dsimp only
    rw [add_move_ignore_rd_ge _ _ _ _ (le_refl _), rd_wr_self _ _ _ (by omega)]
    refine ⟨record_index idx digit flags hidx hf1, record_digit idx digit flags hidx hd hf2, ?_⟩
    have h1 := record_flag idx digit IGNORED 22 IGNORED_eq (by omega) hidx hd
    rw [IGNORED_eq, and_two_pow_eq_zero] at h1 hf3 ⊢
    rw [Nat.testBit_or, h1, hf3]
    rfl
  · intro k hk hidx hlast
    dsimp only
    have e : ∀ j < n, rd (wr s.history n (SET_INDEX idx ||| SET_DIGIT digit ||| flags)) j =
        rd s.history j := fun j hj => rd_wr_ne _ _ _ _ (by omega)
    rw [add_move_ignore_latest _ idx n k hk (by rw [length_wr]; omega) (by rw [e k hk]; exact hidx)
      (fun k' hk' hkk' => by rw [e k' hk']; exact hlast k' hk' hkk'), e k hk]
  · intro k hkn hother
    dsimp only
    by_cases hk : k < n
    · have e : ∀ j < n, rd (wr s.history n (SET_INDEX idx ||| SET_DIGIT digit ||| flags)) j =
          rd s.history j := fun j hj => rd_wr_ne _ _ _ _ (by omega)
      rw [add_move_ignore_other _ idx n k (by
        rcases hother with h1 | h1 | ⟨k', h1, h2, h3⟩
        · exact Or.inl (by rw [e k hk]; exact h1)
        · omega
        · exact Or.inr ⟨k', h1, h2, by rw [e k' h1]; exact h3⟩), e k hk]
    · rw [add_move_ignore_rd_ge _ _ _ _ (by omega), rd_wr_ne _ _ _ _ (by omega)]

set_option maxRecDepth 100000 in
theorem add_move_appends_witness :
    ∃ s', add_move (history_state records_twice) 1 5 0 = some s' ∧
      s'.idx_history = (history_state records_twice).idx_history + 1 ∧
      s'.board = (history_state records_twice).board ∧
      s'.history.length = 243 ∧
      rd s'.history (history_state records_twice).idx_history.toNat =
        SET_INDEX 1 ||| SET_DIGIT 5 ||| 0 ∧
      (1 < 128 → 5 < 16 → 0 &&& INDEX_MASK = 0 → 0 &&& DIGIT_MASK = 0 → 0 &&& IGNORED = 0 →
        GET_INDEX (rd s'.history (history_state records_twice).idx_history.toNat) = 1 ∧
        GET_DIGIT (rd s'.history (history_state records_twice).idx_history.toNat) = 5 ∧
        rd s'.history (history_state records_twice).idx_history.toNat &&& IGNORED = 0) ∧
      (∀ k < (history_state records_twice).idx_history.toNat,
        GET_INDEX (rd (history_state records_twice).history k) = 1 →
        (∀ k' < (history_state records_twice).idx_history.toNat, k < k' →
          GET_INDEX (rd (history_state records_twice).history k') ≠ 1) →
        rd s'.history k = rd (history_state records_twice).history k ||| IGNORED) ∧
      (∀ k, k ≠ (history_state records_twice).idx_history.toNat →
        (GET_INDEX (rd (history_state records_twice).history k) ≠ 1 ∨
          (history_state records_twice).idx_history.toNat < k ∨
          ∃ k' < (history_state records_twice).idx_history.toNat, k < k' ∧
            GET_INDEX (rd (history_state records_twice).history k') = 1) →
        rd s'.history k = rd (history_state records_twice).history k) :=
  add_move_appends (history_state records_twice) 1 5 0 (by decide) (by decide) (by decide!)

end Sudoku

namespace Sudoku

/-! ## Claims C15 and C16: the records after `compress` -/

theorem compress_first_live (H : List Nat) (n : Nat) (fuel k : Nat) :
    ∀ p, k ≤ p → p < compress_first H (n : Int) fuel k → rd H p &&& IGNORED = 0 := by
  induction fuel generalizing k with
  | zero =>
    intro p h1 h2
    unfold compress_first at h2
    omega
  | succ fuel ih =>
    intro p h1 h2
    unfold compress_first at h2
    by_cases hc : (k : Int) < (n : Int)
    · rw [if_pos hc] at h2
      by_cases hig : rd H k &&& IGNORED ≠ 0
      · rw [if_pos hig] at h2
        omega
      · rw [if_neg hig] at h2
        by_cases hpk : p = k
        · rw [hpk]
          exact not_not.1 hig
        · exact ih (k + 1) p (by omega) h2
    · rw [if_neg hc] at h2
      omega

theorem compress_kept_ge (limit : Int) (j : Nat) (l : List Nat) (h : limit ≤ (j : Int)) :
    compress_kept limit j l = l := by
  induction l generalizing j with
  | nil => rfl
  | cons x xs ih =>
    unfold compress_kept
    by_cases hx : x &&& IGNORED = 0
    · rw [if_pos hx, ih (j + 1) (by omega)]
    · rw [if_neg hx, if_neg (by omega), ih j h]

theorem compress_kept_live (limit : Int) (j : Nat) (A B : List Nat)
    (hA : ∀ x ∈ A, x &&& IGNORED = 0) :
    compress_kept limit j (A ++ B) = A ++ compress_kept limit (j + A.length) B := by
  induction A generalizing j with
  | nil => rfl
  | cons x xs ih =>
    rw [List.cons_append]
    conv_lhs => unfold compress_kept
    rw [if_pos (hA x (List.mem_cons_self _ _)),
      ih (j + 1) (fun y hy => hA y (List.mem_cons_of_mem _ hy))]
    have e : j + 1 + xs.length = j + (x :: xs).length := by
      rw [List.length_cons]
      omega
    rw [e, List.cons_append]

theorem compress_move_kept (n : Nat) (limit : Int) (fuel : Nat) (H : List Nat) (i j : Nat)
    (H' : List Nat) (i' j' : Nat)
    (hji : j ≤ i) (hin : i ≤ n) (hn : n ≤ H.length) (hf : n - i ≤ fuel)
    (hr : compress_move (n : Int) limit fuel H i j = (H', i', j')) :
    H'.take j' ++ (H.drop i').take (n - i') =
      H.take j ++ compress_kept limit j ((H.drop i).take (n - i)) := by
  induction fuel generalizing H i j with
  | zero =>
    unfold compress_move at hr
    simp only [Prod.mk.injEq] at hr
    obtain ⟨rfl, rfl, rfl⟩ := hr
    have : n - i = 0 := by omega
    rw [this, List.take_zero]
    rfl
  | succ fuel ih =>
    unfold compress_move at hr
    by_cases hc : (i : Int) < (n : Int) ∧ (j : Int) < limit
    · rw [if_pos hc] at hr
      have hi : i < n := by omega
      have hsub : n - i = (n - (i + 1)) + 1 := by omega
      by_cases hig : rd H i &&& IGNORED = 0
      · rw [if_pos hig] at hr
        have hs := compress_move_spec n limit fuel (wr H j (rd H i)) (i + 1) (j + 1) H' i' j'
          (by omega) (by omega) (by rw [length_wr]; exact hn) hr
        have := ih (wr H j (rd H i)) (i + 1) (j + 1) (by omega) (by omega)
          (by rw [length_wr]; exact hn) (by omega) hr
        rw [take_wr_succ _ _ _ (by omega), drop_wr_of_lt _ _ _ _ (by omega),
          drop_wr_of_lt _ _ _ _ (by omega)] at this
        rw [this, hsub, drop_take_cons _ _ _ (by omega)]
        conv_rhs => unfold compress_kept
        rw [if_pos hig]
        simp
      · rw [if_neg hig] at hr
        have := ih H (i + 1) j (by omega) (by omega) hn (by omega) hr
        rw [this, hsub, drop_take_cons _ _ _ (by omega)]
        conv_rhs => unfold compress_kept
        rw [if_neg hig, if_pos hc.2]
    · rw [if_neg hc] at hr
      simp only [Prod.mk.injEq] at hr
      obtain ⟨rfl, rfl, rfl⟩ := hr
      by_cases hi : i < n
      · rw [compress_kept_ge limit j _ (by omega)]
      · have : n - i = 0 := by omega
        rw [this, List.take_zero]
        rfl

/-- The live records after `compress(limit)` are `compress_kept limit 0` of the live
records before it. -/
theorem compress_eq_kept (s : State) (limit : Int) (n : Nat) (hs : s.idx_history = (n : Int))
    (hn : n ≤ s.history.length) :
    ∃ m : Nat, m ≤ n ∧ (compress s limit).idx_history = (m : Int) ∧
      (compress s limit).history.length = s.history.length ∧
      (compress s limit).board = s.board ∧ (compress s limit).pass = s.pass ∧
      (compress s limit).history.take m = compress_kept limit 0 (s.history.take n) := by
  have htn : s.idx_history.toNat = n := by omega
  have hk := compress_first_le s.history n n 0 (by omega)
  have hlive := compress_first_live s.history n n 0
  rcases hm : compress_move (n : Int) limit n s.history
    (compress_first s.history (n : Int) n 0) (compress_first s.history (n : Int) n 0)
    with ⟨H1, i1, j1⟩
  obtain ⟨h1, h2, h3, h4, h5, h6⟩ := compress_move_spec n limit n s.history _ _ H1 i1 j1
    (le_refl _) hk.2 hn hm
  have hkept := compress_move_kept n limit n s.history _ _ H1 i1 j1 (le_refl _) hk.2 hn
    (by omega) hm
  rcases hr : compress_rest (n : Int) n H1 i1 j1 with ⟨H2, j2⟩
  obtain ⟨g1, g2, g3⟩ := compress_rest_spec n n H1 i1 j1 H2 j2 h4 h3 (by rw [h1]; exact hn)
    (by omega) hr
  have hcomp : compress s limit = State.mk s.board H2 (j2 : Int) s.pass := by
    unfold compress
    simp only [hs, htn, hm, hr, Int.toNat_ofNat]
  generalize compress_first s.history (n : Int) n 0 = k at hk hlive hm h2 h5 hkept
  refine ⟨j2, by omega, ?_, ?_, ?_, ?_, ?_⟩
  · rw [hcomp]
  · rw [hcomp]
    show H2.length = _
    rw [g1, h1]
  · rw [hcomp]
  · rw [hcomp]
  · rw [hcomp]
    show H2.take j2 = _
    rw [g3, h6, hkept]
    have hsplit : s.history.take n = s.history.take k ++ (s.history.drop k).take (n - k) := by
      have : n = k + (n - k) := by omega
      conv_lhs => rw [this, List.take_add]
    rw [hsplit, compress_kept_live limit 0 _ _ (fun x hx => by
      obtain ⟨p, hp, rfl⟩ := List.getElem_of_mem hx
      rw [List.length_take] at hp
      have := hlive p (Nat.zero_le _) (by omega)
      unfold rd at this
      rw [List.getElem_take]
      rw [List.getD_eq_getElem?_getD, List.getElem?_eq_getElem (by omega)] at this
      exact this)]
    rw [List.length_take, Nat.zero_add, Nat.min_eq_left (by omega)]

end Sudoku

namespace Sudoku

theorem compress_kept_filter (limit : Int) (j : Nat) (l : List Nat) :
    (compress_kept limit j l).filter (fun x => decide (x &&& IGNORED = 0)) =
      l.filter (fun x => decide (x &&& IGNORED = 0)) := by
  induction l generalizing j with
  | nil => rfl
  | cons x xs ih =>
    unfold compress_kept
    by_cases hx : x &&& IGNORED = 0
    · rw [if_pos hx, List.filter_cons_of_pos (by simpa using hx),
        List.filter_cons_of_pos (by simpa using hx), ih]
    · rw [if_neg hx, List.filter_cons_of_neg (by simpa using hx)]
      by_cases hj : (j : Int) < limit
      · rw [if_pos hj, ih]
      · rw [if_neg hj, List.filter_cons_of_neg (by simpa using hx), ih]

theorem compress_kept_sublist (limit : Int) (j : Nat) (l : List Nat) :
    (compress_kept limit j l).Sublist l := by
  induction l generalizing j with
  | nil => exact List.Sublist.slnil
  | cons x xs ih =>
    unfold compress_kept
    by_cases hx : x &&& IGNORED = 0
    · rw [if_pos hx]
      exact (ih (j + 1)).cons₂ x
    · rw [if_neg hx]
      by_cases hj : (j : Int) < limit
      · rw [if_pos hj]
        exact (ih j).cons x
      · rw [if_neg hj]
        exact (ih j).cons₂ x

/-- C15: for every history within the array and every limit, the records that are live
after `compress(limit)` are a subsequence of the live records before it (no record is
changed or reordered), and the records that are not ignored are the same before and
after, in the same order: none of them is dropped and none is marked ignored. -/
theorem compress_retains_unignored (s : State) (limit : Int) (h0 : 0 ≤ s.idx_history)
    (hn : s.idx_history ≤ 243) (hlen : s.history.length = 243) :
    0 ≤ (compress s limit).idx_history ∧ (compress s limit).idx_history ≤ s.idx_history ∧
    ((compress s limit).history.take (compress s limit).idx_history.toNat).Sublist
      (s.history.take s.idx_history.toNat) ∧
    ((compress s limit).history.take (compress s limit).idx_history.toNat).filter
        (fun x => decide (x &&& IGNORED = 0)) =
      (s.history.take s.idx_history.toNat).filter (fun x => decide (x &&& IGNORED = 0)) := by
  obtain ⟨n, hs⟩ : ∃ n : Nat, s.idx_history = (n : Int) := ⟨s.idx_history.toNat, by omega⟩
  obtain ⟨m, hm, h1, _, _, _, h5⟩ := compress_eq_kept s limit n hs (by omega)
  have hnat : s.idx_history.toNat = n := by omega
  have hmat : (compress s limit).idx_history.toNat = m := by omega
  rw [hnat, hmat, h5]
  exact ⟨by omega, by omega, compress_kept_sublist limit 0 _, compress_kept_filter limit 0 _⟩

set_option maxRecDepth 100000 in
theorem compress_retains_unignored_witness :
    0 ≤ (compress (history_state records_twice) 81).idx_history ∧
    (compress (history_state records_twice) 81).idx_history ≤
      (history_state records_twice).idx_history ∧
    ((compress (history_state records_twice) 81).history.take
      (compress (history_state records_twice) 81).idx_history.toNat).Sublist
      ((history_state records_twice).history.take
        (history_state records_twice).idx_history.toNat) ∧
    ((compress (history_state records_twice) 81).history.take
      (compress (history_state records_twice) 81).idx_history.toNat).filter
        (fun x => decide (x &&& IGNORED = 0)) =
      ((history_state records_twice).history.take
        (history_state records_twice).idx_history.toNat).filter
        (fun x => decide (x &&& IGNORED = 0)) :=
  compress_retains_unignored (history_state records_twice) 81 (by decide) (by decide)
    (by decide!)

/-- C16 (as stated, refuted): four live records, the ignored ones at positions 0 and 2, and `limit = 1`: the record
at position 2 lies before the most recent record and is ignored, yet `compress(1)` keeps
it; only the record at position 0 is removed. -/
theorem compress_keeps_late_ignored :
    (compress (history_state records_twice) 1).idx_history = 3 ∧
    (compress (history_state records_twice) 1).history.take 3 =
      [SET_INDEX 0 ||| SET_DIGIT 2, SET_INDEX 1 ||| SET_DIGIT 3 ||| IGNORED,
        SET_INDEX 1 ||| SET_DIGIT 4] ∧
    compress_described 1 records_twice =
      [SET_INDEX 0 ||| SET_DIGIT 2, SET_INDEX 1 ||| SET_DIGIT 4] := by
  decide!

/-- C16 (amended): for every history within the array and every limit, the live records
after `compress(limit)` are the live records before it without the ignored records that
are met while fewer than `limit` records have been kept (`compress_kept`): going through
the records in order, a record that is not ignored is kept, and an ignored record is
removed exactly when fewer than `limit` records that are not ignored precede it. The
board is not touched. -/
theorem compress_removes (s : State) (limit : Int) (h0 : 0 ≤ s.idx_history)
    (hn : s.idx_history ≤ 243) (hlen : s.history.length = 243) :
    0 ≤ (compress s limit).idx_history ∧ (compress s limit).idx_history ≤ s.idx_history ∧
    (compress s limit).history.length = 243 ∧ (compress s limit).board = s.board ∧
    (compress s limit).history.take (compress s limit).idx_history.toNat =
      compress_kept limit 0 (s.history.take s.idx_history.toNat) := by
  obtain ⟨n, hs⟩ : ∃ n : Nat, s.idx_history = (n : Int) := ⟨s.idx_history.toNat, by omega⟩
  obtain ⟨m, hm, h1, h2, h3, _, h5⟩ := compress_eq_kept s limit n hs (by omega)
  have hnat : s.idx_history.toNat = n := by omega
  have hmat : (compress s limit).idx_history.toNat = m := by omega
  rw [hnat, hmat, h5]
  exact ⟨by omega, by omega, by rw [h2, hlen], h3, rfl⟩

set_option maxRecDepth 100000 in
theorem compress_removes_witness :
    0 ≤ (compress (history_state records_twice) 1).idx_history ∧
    (compress (history_state records_twice) 1).idx_history ≤
      (history_state records_twice).idx_history ∧
    (compress (history_state records_twice) 1).history.length = 243 ∧
    (compress (history_state records_twice) 1).board = (history_state records_twice).board ∧
    (compress (history_state records_twice) 1).history.take
        (compress (history_state records_twice) 1).idx_history.toNat =
      compress_kept 1 0 ((history_state records_twice).history.take
        (history_state records_twice).idx_history.toNat) :=
  compress_removes (history_state records_twice) 1 (by decide) (by decide) (by decide!)

end Sudoku

namespace Sudoku

/-! ## Claim C14: `clear_moves` -/

/-- C14 (as stated, refuted): after `backtrack` has rewound the history of a one-clue puzzle to `idx_history = 0`,
the fixed record is still in the array, and `clear_moves` sets `idx_history` to 1: the
history after the call is longer than the history before the call. -/
theorem clear_moves_extends_history :
    backtrack (clues_state [(3, 7)]) = some (-1, state_rewound) ∧
    state_rewound.idx_history = 0 ∧
    (clear_moves state_rewound).map (fun s => (s.idx_history, DIGIT s.board 3)) =
      some (1, 7) := by
  decide!

/-- C14 (amended): when some record of the history array is not fixed, `clear_moves()`
returns with `idx_history` set to the length `nf` of the longest run of fixed records at
the start of the array, counted from index 0 whatever `idx_history` was before the call;
the array itself is not changed and the board is the replay of these `nf` records. -/
theorem clear_moves_fixed_run (s : State) (hex : ∃ i < 243, rd s.history i &&& FIXED = 0) :
    ∃ s' nf, clear_moves s = some s' ∧ nf < 243 ∧
      (∀ k < nf, rd s.history k &&& FIXED ≠ 0) ∧ rd s.history nf &&& FIXED = 0 ∧
      s'.idx_history = (nf : Int) ∧ s'.history = s.history ∧
      s'.board = (replay s.history nf).2 ∧ s'.pass = s.pass := by
  classical
  have hex' : ∃ i, rd s.history i &&& FIXED = 0 := by
    obtain ⟨i, _, hi⟩ := hex
    exact ⟨i, hi⟩
  have h2 := Nat.find_spec hex'
  have h1 : ∀ k < Nat.find hex', rd s.history k &&& FIXED ≠ 0 := fun k hk => Nat.find_min hex' hk
  have hnf : Nat.find hex' < 243 := by
    obtain ⟨i, hi, hi'⟩ := hex
    exact lt_of_le_of_lt (Nat.find_min' hex' hi') hi
  exact ⟨_, Nat.find hex', clear_moves_eq s _ h1 h2 hnf, hnf, h1, h2, rfl, rfl, rfl, rfl⟩

set_option maxRecDepth 100000 in
theorem clear_moves_fixed_run_witness :
    ∃ s' nf, clear_moves state_rewound = some s' ∧ nf < 243 ∧
      (∀ k < nf, rd state_rewound.history k &&& FIXED ≠ 0) ∧
      rd state_rewound.history nf &&& FIXED = 0 ∧
      s'.idx_history = (nf : Int) ∧ s'.history = state_rewound.history ∧
      s'.board = (replay state_rewound.history nf).2 ∧ s'.pass = state_rewound.pass :=
  clear_moves_fixed_run state_rewound ⟨1, by decide, by decide!⟩

end Sudoku

namespace Sudoku

/-! ## The invariant of the ignored flag -/

theorem GET_INDEX_or (x m : Nat) (hm : ∀ i < 7, m.testBit i = false) :
    GET_INDEX (x ||| m) = GET_INDEX x := by
  unfold GET_INDEX
  apply Nat.eq_of_testBit_eq
  intro i
  rw [Nat.testBit_and, Nat.testBit_and, Nat.testBit_or, testBit_INDEX_MASK]
  by_cases hi : i < 7
  · simp [hi, hm i hi]
  · simp [hi]

theorem GET_INDEX_or_IGNORED (x : Nat) : GET_INDEX (x ||| IGNORED) = GET_INDEX x :=
  GET_INDEX_or x IGNORED (fun i hi => by
    rw [testBit_IGNORED]
    simp
    omega)

theorem GET_INDEX_unignore (x : Nat) :
    GET_INDEX (x &&& (0xffffffff ^^^ IGNORED)) = GET_INDEX x := by
  unfold GET_INDEX
  apply Nat.eq_of_testBit_eq
  intro i
  rw [Nat.testBit_and, Nat.testBit_and, Nat.testBit_and, testBit_INDEX_MASK]
  by_cases hi : i < 7
  · have : (0xffffffff ^^^ IGNORED).testBit i = true := by
      interval_cases i <;> decide
    simp [hi, this]
  · simp [hi]

theorem unignore_and_IGNORED (x : Nat) : x &&& (0xffffffff ^^^ IGNORED) &&& IGNORED = 0 := by
  rw [Nat.and_assoc]
  have : (0xffffffff ^^^ IGNORED) &&& IGNORED = 0 := by decide
  rw [this, Nat.and_zero]

theorem SET_DIGIT_low (d : Nat) (i : Nat) (hi : i < 16) : (SET_DIGIT d).testBit i = false := by
  unfold SET_DIGIT DIGIT_SHIFT
  rw [Nat.testBit_shiftLeft]
  simp
  omega

theorem SET_DIGIT_high (d : Nat) (hd : d < 16) (i : Nat) (hi : 20 ≤ i) :
    (SET_DIGIT d).testBit i = false := by
  unfold SET_DIGIT DIGIT_SHIFT
  rw [Nat.testBit_shiftLeft]
  have h2 : d < 2 ^ (i - 16) :=
    lt_of_lt_of_le hd (by
      have : (16 : Nat) = 2 ^ 4 := rfl
      rw [this]; exact Nat.pow_le_pow_right (by omega) (by omega))
  rw [Nat.testBit_lt_two_pow h2]
  simp

theorem or_SET_DIGIT_IGNORED (x d : Nat) (hd : d < 16) :
    (x ||| SET_DIGIT d) &&& IGNORED = x &&& IGNORED := by
  apply Nat.eq_of_testBit_eq
  intro i
  rw [Nat.testBit_and, Nat.testBit_and, Nat.testBit_or, testBit_IGNORED]
  by_cases hi : 22 = i
  · subst hi
    simp [SET_DIGIT_high d hd 22 (by omega)]
  · simp [hi]

theorem rd_cons_zero (x : Nat) (xs : List Nat) : rd (x :: xs) 0 = x := rfl

theorem rd_cons_succ (x : Nat) (xs : List Nat) (k : Nat) : rd (x :: xs) (k + 1) = rd xs k := rfl

theorem rd_mem (l : List Nat) (k : Nat) (hk : k < l.length) : rd l k ∈ l := by
  unfold rd
  rw [List.getD_eq_getElem?_getD, List.getElem?_eq_getElem hk]
  exact List.getElem_mem _

theorem mem_rd (l : List Nat) (y : Nat) (hy : y ∈ l) : ∃ k < l.length, rd l k = y := by
  obtain ⟨k, hk, rfl⟩ := List.getElem_of_mem hy
  refine ⟨k, hk, ?_⟩
  unfold rd
  rw [List.getD_eq_getElem?_getD, List.getElem?_eq_getElem hk]
  rfl

theorem RecentLiveList_iff (l : List Nat) : RecentLiveList l ↔ RecentLive l l.length := by
  induction l with
  | nil =>
    unfold RecentLiveList RecentLive
    simp
  | cons x xs ih =>
    unfold RecentLiveList
    rw [ih]
    constructor
    · rintro ⟨hA, hR⟩ k hk hlast
      cases k with
      | zero =>
        rw [rd_cons_zero]
        rcases hA with hA | ⟨y, hy, hyx⟩
        · exact hA
        · obtain ⟨p, hp, rfl⟩ := mem_rd xs y hy
          exact absurd hyx (hlast (p + 1) (by rw [List.length_cons]; omega) (by omega))
      | succ k0 =>
        rw [rd_cons_succ]
        rw [List.length_cons] at hk
        apply hR k0 (by omega)
        intro k' hk' hkk'
        have := hlast (k' + 1) (by rw [List.length_cons]; omega) (by omega)
        rw [rd_cons_succ, rd_cons_succ] at this
        exact this
    · intro hR
      constructor
      · by_cases hex : ∃ y ∈ xs, GET_INDEX y = GET_INDEX x
        · exact Or.inr hex
        · left
          have := hR 0 (by rw [List.length_cons]; omega) (by
            intro k' hk' hpos
            obtain ⟨k0, rfl⟩ : ∃ k0, k' = k0 + 1 := ⟨k' - 1, by omega⟩
            rw [rd_cons_succ, rd_cons_zero]
            rw [List.length_cons] at hk'
            intro he
            exact hex ⟨rd xs k0, rd_mem xs k0 (by omega), he⟩)
          rw [rd_cons_zero] at this
          exact this
      · intro k hk hlast
        have := hR (k + 1) (by rw [List.length_cons]; omega) (by
          intro k' hk' hkk'
          obtain ⟨k0, rfl⟩ : ∃ k0, k' = k0 + 1 := ⟨k' - 1, by omega⟩
          rw [rd_cons_succ, rd_cons_succ]
          rw [List.length_cons] at hk'
          exact hlast k0 (by omega) (by omega))
        rw [rd_cons_succ] at this
        exact this

theorem RecentLive_take (h : List Nat) (n : Nat) (hn : n ≤ h.length) :
    RecentLive h n ↔ RecentLiveList (h.take n) := by
  rw [RecentLiveList_iff, List.length_take, Nat.min_eq_left hn]
  unfold RecentLive
  constructor
  · intro hR k hk hlast
    rw [rd_take _ _ _ hk]
    apply hR k hk
    intro k' hk' hkk'
    have := hlast k' hk' hkk'
    rw [rd_take _ _ _ hk, rd_take _ _ _ hk'] at this
    exact this
  · intro hR k hk hlast
    rw [← rd_take h n k hk]
    apply hR k hk
    intro k' hk' hkk'
    rw [rd_take _ _ _ hk, rd_take _ _ _ hk']
    exact hlast k' hk' hkk'

theorem RecentLiveList_kept (limit : Int) (j : Nat) (l : List Nat) (h : RecentLiveList l) :
    RecentLiveList (compress_kept limit j l) := by
  induction l generalizing j with
  | nil => exact h
  | cons x xs ih =>
    by_cases hx : x &&& IGNORED = 0
    · unfold compress_kept
      rw [if_pos hx]
      unfold RecentLiveList
      unfold RecentLiveList at h
      exact ⟨Or.inl hx, ih (j + 1) h.2⟩
    · by_cases hj : (j : Int) < limit
      · unfold compress_kept
        rw [if_neg hx, if_pos hj]
        unfold RecentLiveList at h
        exact ih j h.2
      · rw [compress_kept_ge limit j _ (by omega)]
        exact h

theorem RecentLive_congr (h h' : List Nat) (n : Nat)
    (hi : ∀ k < n, GET_INDEX (rd h' k) = GET_INDEX (rd h k))
    (hg : ∀ k < n, rd h k &&& IGNORED = 0 → rd h' k &&& IGNORED = 0)
    (hR : RecentLive h n) : RecentLive h' n := by
  intro k hk hlast
  apply hg k hk
  apply hR k hk
  intro k' hk' hkk'
  rw [← hi k hk, ← hi k' hk']
  exact hlast k' hk' hkk'

end Sudoku

namespace Sudoku

theorem add_move_ignore_index (h : List Nat) (idx n k : Nat) :
    GET_INDEX (rd (add_move_ignore h idx n) k) = GET_INDEX (rd h k) := by
  rcases add_move_ignore_rd h idx n k with e | ⟨_, _, e⟩
  · rw [e]
  · rw [e, GET_INDEX_or_IGNORED]

theorem RecentLive_add (h : List Nat) (n idx w : Nat) (hn : n < h.length)
    (hR : RecentLive h n) (hw : GET_INDEX w = idx) (hl : w &&& IGNORED = 0) :
    RecentLive (add_move_ignore (wr h n w) idx n) (n + 1) := by
  intro k hk hlast
  have e : ∀ j < n, rd (wr h n w) j = rd h j := fun j hj => rd_wr_ne _ _ _ _ (by omega)
  have en : rd (add_move_ignore (wr h n w) idx n) n = w := by
    rw [add_move_ignore_rd_ge _ _ _ _ (le_refl _), rd_wr_self _ _ _ hn]
  by_cases hkn : k = n
  · rw [hkn, en]
    exact hl
  · have hk' : k < n := by omega
    have h1 := hlast n (by omega) hk'
    rw [en, add_move_ignore_index, e k hk', hw] at h1
    rcases add_move_ignore_rd (wr h n w) idx n k with e1 | ⟨_, e1, _⟩
    · rw [e1, e k hk']
      apply hR k hk'
      intro k' hk'' hkk'
      have := hlast k' (by omega) hkk'
      rw [add_move_ignore_index, add_move_ignore_index, e k hk', e k' hk''] at this
      exact this
    · rw [e k hk'] at e1
      exact absurd e1.symm h1

theorem record_live (idx digit : Nat) (hidx : idx < 128) (hd : digit < 16) :
    GET_INDEX (SET_INDEX idx ||| SET_DIGIT digit ||| 0) = idx ∧
    (SET_INDEX idx ||| SET_DIGIT digit ||| 0) &&& IGNORED = 0 ∧
    (SET_INDEX idx ||| SET_DIGIT digit ||| 0) &&& FIXED = 0 := by
  refine ⟨record_index idx digit 0 hidx (Nat.zero_and _), ?_, ?_⟩
  · rw [Nat.or_zero]
    exact record_flag idx digit IGNORED 22 IGNORED_eq (by omega) hidx hd
  · rw [Nat.or_zero]
    exact record_flag idx digit FIXED 20 FIXED_eq (by omega) hidx hd

theorem compress_inv (s : State) (limit : Int) (h : UserInv s) :
    UserInv (compress s limit) ∧ (compress s limit).board = s.board ∧
      (compress s limit).idx_history ≤ s.idx_history := by
  obtain ⟨n, hs⟩ : ∃ n : Nat, s.idx_history = (n : Int) :=
    ⟨s.idx_history.toNat, by have := h.nonneg; omega⟩
  have hn243 : n ≤ 243 := by have := h.le; omega
  obtain ⟨m, hm, h1, h2, h3, _, h5⟩ := compress_eq_kept s limit n hs (by rw [h.hlen]; exact hn243)
  have hnat : s.idx_history.toNat = n := by omega
  have hmat : (compress s limit).idx_history.toNat = m := by omega
  refine ⟨⟨by rw [h2, h.hlen], by omega, by omega, ?_⟩, h3, by omega⟩
  rw [hmat, RecentLive_take _ _ (by rw [h2, h.hlen]; omega), h5]
  apply RecentLiveList_kept
  rw [← RecentLive_take _ _ (by rw [h.hlen]; exact hn243), ← hnat]
  exact h.recent

/-- The history after `add_move` with no flags satisfies the invariant again; the new
record is the last one. -/
theorem add_move_inv (s s' : State) (idx digit : Nat) (h : UserInv s) (hidx : idx < 128)
    (hd : digit < 16) (hr : add_move s idx digit 0 = some s') :
    UserInv s' ∧ 0 < s'.idx_history ∧ s'.board = s.board := by
  unfold add_move at hr
  have hs1 : UserInv (if 243 - 1 ≤ s.idx_history ∨ s.idx_history < 0 then compress s 81 else s) ∧
      (if 243 - 1 ≤ s.idx_history ∨ s.idx_history < 0 then compress s 81 else s).board =
        s.board := by
    split
    · exact ⟨(compress_inv s 81 h).1, (compress_inv s 81 h).2.1⟩
    · exact ⟨h, rfl⟩
  generalize (if 243 - 1 ≤ s.idx_history ∨ s.idx_history < 0 then compress s 81 else s) = s1
    at hr hs1
  dsimp only at hr
  by_cases hc : s1.idx_history < 0 ∨ 243 ≤ s1.idx_history
  · rw [if_pos hc] at hr
    exact absurd hr (by simp)
  · rw [if_neg hc] at hr
    simp only [Option.some.injEq] at hr
    rw [← hr]
    have h1 := hs1.1
    obtain ⟨n, hn⟩ : ∃ n : Nat, s1.idx_history = (n : Int) :=
      ⟨s1.idx_history.toNat, by have := h1.nonneg; omega⟩
    have hnat : s1.idx_history.toNat = n := by omega
    have hrl := record_live idx digit hidx hd
    refine ⟨⟨?_, ?_, ?_, ?_⟩, ?_, hs1.2⟩
    · dsimp only
      rw [add_move_ignore_length, length_wr, h1.hlen]
    · dsimp only
      omega
    · dsimp only
      omega
    · dsimp only
      have e : (s1.idx_history + 1).toNat = n + 1 := by omega
      rw [e, hnat]
      apply RecentLive_add _ _ _ _ (by rw [h1.hlen]; omega) _ hrl.1 hrl.2.1
      rw [← hnat]
      exact h1.recent
    · dsimp only
      omega

theorem undo_unignore_length (h : List Nat) (idx n : Nat) :
    (undo_unignore h idx n).length = h.length := by
  induction n with
  | zero => rfl
  | succ i ih =>
    unfold undo_unignore
    split
    · simp
    · exact ih

theorem undo_unignore_rd (h : List Nat) (idx n k : Nat) :
    rd (undo_unignore h idx n) k = rd h k ∨
      (k < n ∧ GET_INDEX (rd h k) = idx ∧
        rd (undo_unignore h idx n) k = rd h k &&& (0xffffffff ^^^ IGNORED)) := by
  induction n with
  | zero => exact Or.inl rfl
  | succ i ih =>
    unfold undo_unignore
    split
    · rename_i hi
      rw [rd_wr]
      by_cases hk : i = k ∧ i < h.length
      · rw [if_pos hk]
        obtain ⟨rfl, _⟩ := hk
        exact Or.inr ⟨by omega, hi, rfl⟩
      · rw [if_neg hk]
        exact Or.inl rfl
    · rcases ih with ih | ⟨h1, h2, h3⟩
      · exact Or.inl ih
      · exact Or.inr ⟨by omega, h2, h3⟩

theorem undo_unignore_latest (h : List Nat) (idx n k : Nat) (hk : k < n)
    (hlen : n ≤ h.length) (hidx : GET_INDEX (rd h k) = idx)
    (hlast : ∀ k' < n, k < k' → GET_INDEX (rd h k') ≠ idx) :
    rd (undo_unignore h idx n) k = rd h k &&& (0xffffffff ^^^ IGNORED) := by
  induction n with
  | zero => omega
  | succ i ih =>
    unfold undo_unignore
    by_cases hi : GET_INDEX (rd h i) = idx
    · rw [if_pos hi]
      have hki : k = i := by
        by_contra hne
        exact hlast i (by omega) (by omega) hi
      subst hki
      rw [rd_wr_self _ _ _ (by omega)]
    · rw [if_neg hi]
      have hki : k ≠ i := fun e => hi (e ▸ hidx)
      exact ih (by omega) (by omega) (fun k' hk' hkk' => hlast k' (by omega) hkk')

theorem undo_unignore_index (h : List Nat) (idx n k : Nat) :
    GET_INDEX (rd (undo_unignore h idx n) k) = GET_INDEX (rd h k) := by
  rcases undo_unignore_rd h idx n k with e | ⟨_, _, e⟩
  · rw [e]
  · rw [e, GET_INDEX_unignore]

theorem RecentLive_undo (h : List Nat) (n : Nat) (hn : n + 1 ≤ h.length)
    (hR : RecentLive h (n + 1)) :
    RecentLive (undo_unignore h (GET_INDEX (rd h n)) n) n := by
  intro k hk hlast
  by_cases hidx : GET_INDEX (rd h k) = GET_INDEX (rd h n)
  · rw [undo_unignore_latest h _ n k hk (by omega) hidx (fun k' hk' hkk' => by
      have := hlast k' hk' hkk'
      rw [undo_unignore_index, undo_unignore_index, hidx] at this
      exact this)]
    exact unignore_and_IGNORED _
  · rcases undo_unignore_rd h (GET_INDEX (rd h n)) n k with e | ⟨_, e, _⟩
    · rw [e]
      apply hR k (by omega)
      intro k' hk' hkk'
      by_cases hkn : k' = n
      · rw [hkn]
        exact fun e' => hidx e'.symm
      · have := hlast k' (by omega) hkk'
        rw [undo_unignore_index, undo_unignore_index] at this
        exact this
    · exact absurd e hidx

theorem undo_inv (s : State) (h : UserInv s) : UserInv (undo s) := by
  unfold undo
  by_cases hc : s.idx_history ≤ 0 ∨ rd s.history (s.idx_history - 1).toNat &&& FIXED ≠ 0
  · rw [if_pos hc]
    exact h
  · rw [if_neg hc]
    dsimp only
    rw [reapply_snd]
    dsimp only
    obtain ⟨n, hn⟩ : ∃ n : Nat, s.idx_history = (n : Int) + 1 :=
      ⟨(s.idx_history - 1).toNat, by omega⟩
    have e1 : (s.idx_history - 1).toNat = n := by omega
    have e2 : s.idx_history.toNat = n + 1 := by omega
    have hle := h.le
    refine ⟨?_, ?_, ?_, ?_⟩
    · dsimp only
      rw [undo_unignore_length, h.hlen]
    · dsimp only
      omega
    · dsimp only
      omega
    · dsimp only
      rw [e1]
      apply RecentLive_undo _ _ (by rw [h.hlen]; omega)
      rw [← e2]
      exact h.recent

end Sudoku

namespace Sudoku

/-! ## Claim C11: the most recent record of a cell is never ignored -/

theorem reapply_inv (s : State) (h : UserInv s) : UserInv (reapply s).2 := by
  rw [reapply_snd]
  exact ⟨h.hlen, h.nonneg, h.le, h.recent⟩

theorem patch_inv (s : State) (digit : Nat) (hd : digit < 16) (h : UserInv s) :
    UserInv (State.mk s.board (wr s.history (s.idx_history - 1).toNat
      (rd s.history (s.idx_history - 1).toNat ||| SET_DIGIT digit)) s.idx_history s.pass) := by
  refine ⟨?_, h.nonneg, h.le, ?_⟩
  · dsimp only
    rw [length_wr, h.hlen]
  · dsimp only
    apply RecentLive_congr s.history _ _ _ _ h.recent
    · intro k _
      rw [rd_wr]
      split
      · rename_i hk
        rw [hk.1, GET_INDEX_or _ _ (fun i hi => SET_DIGIT_low digit i (by omega))]
      · rfl
    · intro k _ hl
      rw [rd_wr]
      split
      · rename_i hk
        rw [or_SET_DIGIT_IGNORED _ _ hd, hk.1]
        exact hl
      · exact hl

theorem fillx_inv (s s' : State) (idx digit : Nat) (h : UserInv s) (hidx : idx < 81)
    (hd : digit ≤ 9) (hr : fillx s idx digit = some s') : UserInv s' := by
  unfold fillx at hr
  by_cases h1 : DIGIT s.board idx = digit
  · rw [if_pos h1] at hr
    simp only [Option.some.injEq] at hr
    rw [← hr]
    exact h
  · rw [if_neg h1] at hr
    by_cases h2 : digit ≠ 0 ∧ IS_EMPTY s.board idx
    · rw [if_pos h2] at hr
      dsimp only at hr
      have hi0 : UserInv (State.mk (update (wr s.board idx (SET_DIGIT digit ||| SET_INDEX idx))
          idx) s.history s.idx_history s.pass) := ⟨h.hlen, h.nonneg, h.le, h.recent⟩
      exact (add_move_inv (State.mk (update (wr s.board idx (SET_DIGIT digit ||| SET_INDEX idx))
          idx) s.history s.idx_history s.pass) s' idx digit hi0 (by omega) (by omega) hr).1
    · rw [if_neg h2] at hr
      cases ha : add_move s idx 0 0 with
      | none =>
        rw [ha] at hr
        exact absurd hr (by simp)
      | some s1 =>
        rw [ha] at hr
        dsimp only at hr
        obtain ⟨hi1, hpos, _⟩ := add_move_inv s s1 idx 0 h (by omega) (by omega) ha
        have hi2 := reapply_inv s1 hi1
        have hpos2 : 0 < (reapply s1).2.idx_history := by
          rw [reapply_snd]
          exact hpos
        by_cases h3 : digit ≠ 0
        · rw [if_pos h3, if_pos hpos2] at hr
          simp only [Option.some.injEq] at hr
          rw [← hr]
          exact reapply_inv _ (patch_inv _ digit (by omega) hi2)
        · rw [if_neg h3] at hr
          simp only [Option.some.injEq] at hr
          rw [← hr]
          exact hi2

theorem run_user_inv (ops : List UserOp) (s s' : State) (h : UserInv s)
    (hok : ∀ c ∈ ops, c.ok) (hr : run_user s ops = some s') : UserInv s' := by
  induction ops generalizing s with
  | nil =>
    unfold run_user at hr
    simp only [Option.some.injEq] at hr
    rw [← hr]
    exact h
  | cons c cs ih =>
    unfold run_user at hr
    cases hc : run_user_op s c with
    | none =>
      rw [hc] at hr
      exact absurd hr (by simp)
    | some s1 =>
      rw [hc] at hr
      dsimp only at hr
      apply ih s1 _ (fun c' hc' => hok c' (List.mem_cons_of_mem _ hc')) hr
      have hcok := hok c (List.mem_cons_self _ _)
      cases c with
      | fillx idx digit =>
        unfold UserOp.ok at hcok
        unfold run_user_op at hc
        exact fillx_inv s s1 idx digit h hcok.1 hcok.2 hc
      | undo =>
        unfold run_user_op at hc
        simp only [Option.some.injEq] at hc
        rw [← hc]
        exact undo_inv s h

/-- C11: starting from an empty history (`idx_history = 0`), after any sequence of calls
`fillx(idx, digit)` with a cell index 0..80 and a digit 0..9 (fills, clears, overwrites,
with the compression that `add_move` may trigger) and of undo commands, `idx_history` is
within the array and, among the live records, the most recent record of every cell index
is not marked ignored. -/
theorem recent_record_live (s0 s : State) (ops : List UserOp)
    (hlen : s0.history.length = 243) (h0 : s0.idx_history = 0) (hok : ∀ c ∈ ops, c.ok)
    (hrun : run_user s0 ops = some s) :
    0 ≤ s.idx_history ∧ s.idx_history ≤ 243 ∧
    ∀ k < s.idx_history.toNat,
      (∀ k' < s.idx_history.toNat, k < k' →
        GET_INDEX (rd s.history k') ≠ GET_INDEX (rd s.history k)) →
      rd s.history k &&& IGNORED = 0 := by
  have hinv : UserInv s0 := by
    refine ⟨hlen, by omega, by omega, ?_⟩
    rw [h0]
    intro k hk
    exact absurd hk (by simp)
  have h := run_user_inv ops s0 s hinv hok hrun
  exact ⟨h.nonneg, h.le, h.recent⟩

set_option maxRecDepth 100000 in
theorem recent_record_live_witness :
    0 ≤ user_example.idx_history ∧ user_example.idx_history ≤ 243 ∧
    ∀ k < user_example.idx_history.toNat,
      (∀ k' < user_example.idx_history.toNat, k < k' →
        GET_INDEX (rd user_example.history k') ≠ GET_INDEX (rd user_example.history k)) →
      rd user_example.history k &&& IGNORED = 0 :=
  recent_record_live reset user_example ops_example (by decide!) (by decide) (by decide)
    (by decide!)

end Sudoku

namespace Sudoku

/-! ## Claim C13: `fillx` followed by undo -/

theorem testBit_unignore (i : Nat) :
    (0xffffffff ^^^ IGNORED).testBit i = decide (i < 32 ∧ i ≠ 22) := by
  have h1 : (0xffffffff : Nat) = 2 ^ 32 - 1 := by decide
  rw [Nat.testBit_xor, h1, Nat.testBit_two_pow_sub_one, testBit_IGNORED]
  by_cases h22 : 22 = i
  · subst h22
    decide
  · have : ¬ i = 22 := fun e => h22 e.symm
    simp [h22, this]

theorem ignore_unignore (x : Nat) (hx : x < 2 ^ 32) (hl : x &&& IGNORED = 0) :
    (x ||| IGNORED) &&& (0xffffffff ^^^ IGNORED) = x := by
  rw [IGNORED_eq, and_two_pow_eq_zero] at hl
  apply Nat.eq_of_testBit_eq
  intro i
  rw [Nat.testBit_and, Nat.testBit_or, testBit_unignore, testBit_IGNORED]
  by_cases h22 : i = 22
  · subst h22
    simp [hl]
  · by_cases h32 : i < 32
    · have : ¬ 22 = i := fun e => h22 e.symm
      simp [h22, h32, this]
    · have hlt : x < 2 ^ i :=
        lt_of_lt_of_le hx (Nat.pow_le_pow_right (by omega) (by omega))
      simp [h32, Nat.testBit_lt_two_pow hlt]

theorem undo_unignore_other (h : List Nat) (idx n k : Nat)
    (hother : GET_INDEX (rd h k) ≠ idx ∨ n ≤ k ∨
      ∃ k' < n, k < k' ∧ GET_INDEX (rd h k') = idx) :
    rd (undo_unignore h idx n) k = rd h k := by
  induction n with
  | zero => rfl
  | succ i ih =>
    unfold undo_unignore
    by_cases hi : GET_INDEX (rd h i) = idx
    · rw [if_pos hi]
      apply rd_wr_ne
      rintro rfl
      rcases hother with h1 | h1 | ⟨k', h1, h2, _⟩
      · exact h1 hi
      · omega
      · omega
    · rw [if_neg hi]
      apply ih
      rcases hother with h1 | h1 | ⟨k', h1, h2, h3⟩
      · exact Or.inl h1
      · exact Or.inr (Or.inl (by omega))
      · refine Or.inr (Or.inr ⟨k', ?_, h2, h3⟩)
        by_contra hc
        have : k' = i := by omega
        exact hi (this ▸ h3)

/-- Clearing the flag that `add_move` has set gives back the records below `n`. -/
theorem unignore_restores (h h' g : List Nat) (n idx : Nat) (hn : n ≤ h'.length)
    (hgl : n ≤ g.length) (hR : RecentLive h n) (hw : ∀ k < n, rd h k < 2 ^ 32)
    (hh : ∀ k < n, rd h' k = rd h k)
    (hg : ∀ k < n, rd g k = rd (add_move_ignore h' idx n) k) :
    ∀ k < n, rd (undo_unignore g idx n) k = rd h k := by
  intro k hk
  have hgi : ∀ j < n, GET_INDEX (rd g j) = GET_INDEX (rd h j) := fun j hj => by
    rw [hg j hj, add_move_ignore_index, hh j hj]
  by_cases hc : GET_INDEX (rd h k) = idx ∧ ∀ k' < n, k < k' → GET_INDEX (rd h k') ≠ idx
  · rw [undo_unignore_latest g idx n k hk hgl (by rw [hgi k hk]; exact hc.1)
      (fun k' hk' hkk' => by rw [hgi k' hk']; exact hc.2 k' hk' hkk'), hg k hk,
      add_move_ignore_latest h' idx n k hk hn (by rw [hh k hk]; exact hc.1)
        (fun k' hk' hkk' => by rw [hh k' hk']; exact hc.2 k' hk' hkk'), hh k hk]
    apply ignore_unignore _ (hw k hk)
    apply hR k hk
    intro k' hk' hkk'
    rw [hc.1]
    exact hc.2 k' hk' hkk'
  · have hother : GET_INDEX (rd h k) ≠ idx ∨
        ∃ k' < n, k < k' ∧ GET_INDEX (rd h k') = idx := by
      by_cases h1 : GET_INDEX (rd h k) = idx
      · right
        by_contra hne
        apply hc
        refine ⟨h1, fun k' hk' hkk' he => hne ⟨k', hk', hkk', he⟩⟩
      · exact Or.inl h1
    rw [undo_unignore_other g idx n k (by
      rcases hother with h1 | ⟨k', h1, h2, h3⟩
      · exact Or.inl (by rw [hgi k hk]; exact h1)
      · exact Or.inr (Or.inr ⟨k', h1, h2, by rw [hgi k' h1]; exact h3⟩)), hg k hk,
      add_move_ignore_other h' idx n k (by
        rcases hother with h1 | ⟨k', h1, h2, h3⟩
        · exact Or.inl (by rw [hh k hk]; exact h1)
        · exact Or.inr ⟨k', h1, h2, by rw [hh k' h1]; exact h3⟩), hh k hk]

/-- The undo command on a state whose last record is a non-fixed record of cell `idx`
added by `add_move` to the history `h`. -/
theorem undo_restores (h h' : List Nat) (n idx : Nat) (s1 : State)
    (hlen : h.length = 243) (hn : n < 243) (hR : RecentLive h n)
    (hw : ∀ k < n, rd h k < 2 ^ 32) (hh' : h'.length = 243) (hh : ∀ k < n, rd h' k = rd h k)
    (h1len : s1.history.length = 243) (h1idx : s1.idx_history = (n : Int) + 1)
    (hlast : GET_INDEX (rd s1.history n) = idx) (hfix : rd s1.history n &&& FIXED = 0)
    (hg : ∀ k < n, rd s1.history k = rd (add_move_ignore h' idx n) k) :
    (undo s1).idx_history = (n : Int) ∧ (undo s1).history.length = 243 ∧
    (∀ k < n, rd (undo s1).history k = rd h k) ∧ (undo s1).board = (replay h n).2 := by
  have e1 : (s1.idx_history - 1).toNat = n := by omega
  have hc : ¬ (s1.idx_history ≤ 0 ∨ rd s1.history (s1.idx_history - 1).toNat &&& FIXED ≠ 0) := by
    rw [e1]
    intro hc
    rcases hc with hc | hc
    · omega
    · exact hc hfix
  have hrec := unignore_restores h h' s1.history n idx (by omega) (by omega) hR hw hh hg
  have hu : undo s1 = State.mk (replay (undo_unignore s1.history idx n) n).2
      (undo_unignore s1.history idx n) (n : Int) s1.pass := by
    unfold undo
    rw [if_neg hc]
    dsimp only
    rw [reapply_snd]
    dsimp only
    rw [e1, hlast]
    have e3 : s1.idx_history - 1 = (n : Int) := by omega
    rw [e3]
  rw [hu]
  refine ⟨rfl, ?_, hrec, ?_⟩
  · show (undo_unignore s1.history idx n).length = 243
    rw [undo_unignore_length, h1len]
  · show (replay (undo_unignore s1.history idx n) n).2 = _
    rw [replay_congr _ h n (by rw [undo_unignore_length, h1len]; omega) (by omega) hrec]

end Sudoku

namespace Sudoku

theorem patched_record (idx d : Nat) (hidx : idx < 128) (hd : d < 16) :
    GET_INDEX (SET_INDEX idx ||| SET_DIGIT 0 ||| 0 ||| SET_DIGIT d) = idx ∧
    (SET_INDEX idx ||| SET_DIGIT 0 ||| 0 ||| SET_DIGIT d) &&& FIXED = 0 := by
  have h0 := record_live idx 0 hidx (by omega)
  constructor
  · rw [GET_INDEX_or _ _ (fun i hi => SET_DIGIT_low d i (by omega))]
    exact h0.1
  · have h1 := h0.2.2
    rw [FIXED_eq, and_two_pow_eq_zero] at h1 ⊢
    rw [Nat.testBit_or, h1, SET_DIGIT_high d hd 20 (by omega)]
    rfl

/-- C13: for every state whose history is below capacity, consists of 32-bit words and
satisfies the ignored-flag invariant, and whose board is the replay of the history, and
for every cell `idx` and digit `d` (0 clears) other than the digit of the cell:
`fillx(idx, d)` returns with one more record, and one undo afterwards gives back the
length of the history, every live record with its flags, and the whole board. The cell
need not even be non-fixed for this. -/
theorem fillx_undo_restores (s : State) (idx d : Nat) (hlen : s.history.length = 243)
    (h0 : 0 ≤ s.idx_history) (hcap : s.idx_history < 242)
    (hR : RecentLive s.history s.idx_history.toNat)
    (hw : ∀ k < s.idx_history.toNat, rd s.history k < 2 ^ 32)
    (hb : s.board = (replay s.history s.idx_history.toNat).2)
    (hidx : idx < 81) (hd : d ≤ 9) (hne : DIGIT s.board idx ≠ d) :
    ∃ s1, fillx s idx d = some s1 ∧ s1.idx_history = s.idx_history + 1 ∧
      (undo s1).idx_history = s.idx_history ∧ (undo s1).history.length = 243 ∧
      (∀ k < s.idx_history.toNat, rd (undo s1).history k = rd s.history k) ∧
      (undo s1).board = s.board := by
  obtain ⟨n, hn⟩ : ∃ n : Nat, s.idx_history = (n : Int) := ⟨s.idx_history.toNat, by omega⟩
  have hnat : s.idx_history.toNat = n := by omega
  have hn242 : n < 242 := by omega
  rw [hnat] at hR hw hb ⊢
  rw [hb]
  unfold fillx
  rw [if_neg hne]
  by_cases h2 : d ≠ 0 ∧ IS_EMPTY s.board idx
  · rw [if_pos h2]
    dsimp only
    have ha := add_move_below (State.mk (update (wr s.board idx (SET_DIGIT d ||| SET_INDEX idx))
      idx) s.history s.idx_history s.pass) idx d 0 h0 hcap
    dsimp only at ha
    rw [ha, hnat]
    have hrl := record_live idx d (by omega) (by omega)
    have hlastw : rd (add_move_ignore (wr s.history n (SET_INDEX idx ||| SET_DIGIT d ||| 0))
        idx n) n = SET_INDEX idx ||| SET_DIGIT d ||| 0 := by
      rw [add_move_ignore_rd_ge _ _ _ _ (le_refl _), rd_wr_self _ _ _ (by omega)]
    have hres := undo_restores s.history
      (wr s.history n (SET_INDEX idx ||| SET_DIGIT d ||| 0)) n idx
      (State.mk (update (wr s.board idx (SET_DIGIT d ||| SET_INDEX idx)) idx)
        (add_move_ignore (wr s.history n (SET_INDEX idx ||| SET_DIGIT d ||| 0)) idx n)
        (s.idx_history + 1) s.pass)
      hlen (by omega) hR hw (by rw [length_wr, hlen])
      (fun k hk => rd_wr_ne _ _ _ _ (by omega))
      (by dsimp only; rw [add_move_ignore_length, length_wr, hlen])
      (by dsimp only; omega)
      (by dsimp only; rw [hlastw]; exact hrl.1)
      (by dsimp only; rw [hlastw]; exact hrl.2.2)
      (fun k _ => rfl)
    exact ⟨_, rfl, rfl, by rw [hres.1, hn], hres.2.1, hres.2.2.1, hres.2.2.2⟩
  · rw [if_neg h2]
    have ha := add_move_below s idx 0 0 h0 hcap
    rw [ha, hnat]
    dsimp only
    rw [reapply_snd]
    dsimp only
    have hrl := record_live idx 0 (by omega) (by omega)
    have hlastw : rd (add_move_ignore (wr s.history n (SET_INDEX idx ||| SET_DIGIT 0 ||| 0))
        idx n) n = SET_INDEX idx ||| SET_DIGIT 0 ||| 0 := by
      rw [add_move_ignore_rd_ge _ _ _ _ (le_refl _), rd_wr_self _ _ _ (by omega)]
    by_cases h3 : d ≠ 0
    · rw [if_pos h3, if_pos (by omega)]
      rw [reapply_snd]
      dsimp only
      have e1 : (s.idx_history + 1 - 1).toNat = n := by omega
      rw [e1, hlastw]
      have hpr := patched_record idx d (by omega) (by omega)
      have hres := undo_restores s.history
        (wr s.history n (SET_INDEX idx ||| SET_DIGIT 0 ||| 0)) n idx
        (State.mk (replay (wr (add_move_ignore (wr s.history n
            (SET_INDEX idx ||| SET_DIGIT 0 ||| 0)) idx n) n
            (SET_INDEX idx ||| SET_DIGIT 0 ||| 0 ||| SET_DIGIT d)) (s.idx_history + 1).toNat).2
          (wr (add_move_ignore (wr s.history n (SET_INDEX idx ||| SET_DIGIT 0 ||| 0)) idx n) n
            (SET_INDEX idx ||| SET_DIGIT 0 ||| 0 ||| SET_DIGIT d))
          (s.idx_history + 1) s.pass)
        hlen (by omega) hR hw (by rw [length_wr, hlen])
        (fun k hk => rd_wr_ne _ _ _ _ (by omega))
        (by dsimp only; rw [length_wr, add_move_ignore_length, length_wr, hlen])
        (by dsimp only; omega)
        (by
          dsimp only
          rw [rd_wr_self _ _ _ (by rw [add_move_ignore_length, length_wr, hlen]; omega)]
          exact hpr.1)
        (by
          dsimp only
          rw [rd_wr_self _ _ _ (by rw [add_move_ignore_length, length_wr, hlen]; omega)]
          exact hpr.2)
        (fun k hk => by dsimp only; rw [rd_wr_ne _ _ _ _ (by omega)])
      exact ⟨_, rfl, rfl, by rw [hres.1, hn], hres.2.1, hres.2.2.1, hres.2.2.2⟩
    · rw [if_neg h3]
      have hres := undo_restores s.history
        (wr s.history n (SET_INDEX idx ||| SET_DIGIT 0 ||| 0)) n idx
        (State.mk (replay (add_move_ignore (wr s.history n
            (SET_INDEX idx ||| SET_DIGIT 0 ||| 0)) idx n) (s.idx_history + 1).toNat).2
          (add_move_ignore (wr s.history n (SET_INDEX idx ||| SET_DIGIT 0 ||| 0)) idx n)
          (s.idx_history + 1) s.pass)
        hlen (by omega) hR hw (by rw [length_wr, hlen])
        (fun k hk => rd_wr_ne _ _ _ _ (by omega))
        (by dsimp only; rw [add_move_ignore_length, length_wr, hlen])
        (by dsimp only; omega)
        (by dsimp only; rw [hlastw]; exact hrl.1)
        (by dsimp only; rw [hlastw]; exact hrl.2.2)
        (fun k _ => rfl)
      exact ⟨_, rfl, rfl, by rw [hres.1, hn], hres.2.1, hres.2.2.1, hres.2.2.2⟩

set_option maxRecDepth 100000 in
theorem fillx_undo_restores_witness :
    ∃ s1, fillx user_example 40 2 = some s1 ∧ s1.idx_history = user_example.idx_history + 1 ∧
      (undo s1).idx_history = user_example.idx_history ∧ (undo s1).history.length = 243 ∧
      (∀ k < user_example.idx_history.toNat,
        rd (undo s1).history k = rd user_example.history k) ∧
      (undo s1).board = user_example.board :=
  fillx_undo_restores user_example 40 2 (by decide!) (by decide!) (by decide!) (by decide!)
    (by decide!) (by decide!) (by decide) (by decide) (by decide!)

end Sudoku

namespace Sudoku

/-! ## Claim C18: the contradiction signal of `singles` and `findmoves` -/

theorem singles_loop_break (board : List Nat) (el : Nat) (idx_fn : Nat → Nat → Nat)
    (hintcode : Nat) (digits : List Int) (counts : List Nat) (fuel i : Nat)
    (hfuel : 9 ≤ i + fuel) (possible : List Nat) :
    (singles_loop board el idx_fn hintcode digits counts fuel i possible).1 < 9 ↔
      ∃ c, i ≤ c ∧ c < 9 ∧ rd counts c = 0 ∧
        ¬ (List.range 9).any (fun j => DIGIT board (idx_fn el j) == c + 1) := by
  induction fuel generalizing i possible with
  | zero =>
    unfold singles_loop
    constructor
    · intro h
      dsimp only at h
      omega
    · rintro ⟨c, h1, h2, _⟩
      omega
  | succ fuel ih =>
    unfold singles_loop
    by_cases hi : i < 9
    · rw [if_pos hi]
      dsimp only
      by_cases hc : rd counts i = 0 ∧
          ¬ (List.range 9).any (fun j => DIGIT board (idx_fn el j) == i + 1)
      · rw [if_pos hc]
        exact ⟨fun _ => ⟨i, le_refl _, hi, hc.1, hc.2⟩, fun _ => hi⟩
      · rw [if_neg hc, ih (i + 1) (by omega)]
        constructor
        · rintro ⟨c, h1, h2, h3⟩
          exact ⟨c, by omega, h2, h3⟩
        · rintro ⟨c, h1, h2, h3⟩
          refine ⟨c, ?_, h2, h3⟩
          by_contra hlt
          have : c = i := by omega
          subst this
          exact hc h3
    · rw [if_neg hi]
      constructor
      · intro h
        dsimp only at h
        omega
      · rintro ⟨c, h1, h2, _⟩
        omega

theorem counts_zero_iff (board : List Nat) (el : Nat) (idx_fn : Nat → Nat → Nat) (c : Nat)
    (hc : c < 9) :
    rd (count_set_digits board el idx_fn).2 c = 0 ↔
      ∀ j < 9, DISALLOWED board (idx_fn el j) (c + 1) ≠ 0 := by
  rw [count_set_digits_counts _ _ _ c hc, List.countP_eq_zero]
  have h76 : 6 + (c + 1) = 7 + c := by omega
  constructor
  · intro h j hj
    have := h j (List.mem_range.2 hj)
    rw [DISALLOWED_ne_zero_iff, h76]
    simpa using this
  · intro h j hj
    have := h j (List.mem_range.1 hj)
    rw [DISALLOWED_ne_zero_iff, h76] at this
    simp [this]

theorem singles_dead_iff (board : List Nat) (el : Nat) (idx_fn : Nat → Nat → Nat)
    (hintcode : Nat) (possible : List Nat) :
    (singles board el idx_fn hintcode possible).1 = -1 ↔ UnitDead board el idx_fn := by
  unfold singles
  dsimp only
  have hb := singles_loop_break board el idx_fn hintcode (count_set_digits board el idx_fn).1
    (count_set_digits board el idx_fn).2 9 0 (by omega) possible
  constructor
  · intro h
    have hlt : (singles_loop board el idx_fn hintcode (count_set_digits board el idx_fn).1
        (count_set_digits board el idx_fn).2 9 0 possible).1 < 9 := by
      by_contra hge
      rw [if_neg hge] at h
      exact absurd h (by decide)
    obtain ⟨c, _, hc9, h0, hany⟩ := hb.1 hlt
    refine ⟨c + 1, by omega, by omega, (counts_zero_iff board el idx_fn c hc9).1 h0, ?_⟩
    intro j hj he
    apply hany
    rw [List.any_eq_true]
    exact ⟨j, List.mem_range.2 hj, by simp [he]⟩
  · rintro ⟨d, hd1, hd9, hall, hnone⟩
    have hlt := hb.2 ⟨d - 1, Nat.zero_le _, by omega, by
      rw [counts_zero_iff board el idx_fn (d - 1) (by omega)]
      have : d - 1 + 1 = d := by omega
      rw [this]
      exact hall, by
      rw [List.any_eq_true]
      rintro ⟨j, hj, he⟩
      have : d - 1 + 1 = d := by omega
      rw [this] at he
      exact hnone j (List.mem_range.1 hj) (by simpa using he)⟩
    rw [if_pos hlt]

theorem findmoves_loop_dead_iff (board : List Nat) (fuel el : Nat) (hfuel : 9 ≤ el + fuel)
    (possible : List Nat) :
    (findmoves_loop board fuel el possible).1 = -1 ↔
      ∃ e, el ≤ e ∧ e < 9 ∧ (UnitDead board e idx_row ∨ UnitDead board e idx_column ∨
        UnitDead board e idx_block) := by
  induction fuel generalizing el possible with
  | zero =>
    unfold findmoves_loop
    constructor
    · intro h
      dsimp only at h
      omega
    · rintro ⟨e, h1, h2, _⟩
      omega
  | succ fuel ih =>
    unfold findmoves_loop
    by_cases hel : el < 9
    · rw [if_pos hel]
      dsimp only
      by_cases h1 : (singles board el idx_row HINT_ROW possible).1 = -1
      · rw [if_pos h1]
        exact ⟨fun _ => ⟨el, le_refl _, hel, Or.inl ((singles_dead_iff _ _ _ _ _).1 h1)⟩,
          fun _ => rfl⟩
      · rw [if_neg h1]
        by_cases h2 : (singles board el idx_column HINT_COLUMN
            (singles board el idx_row HINT_ROW possible).2).1 = -1
        · rw [if_pos h2]
          exact ⟨fun _ => ⟨el, le_refl _, hel,
            Or.inr (Or.inl ((singles_dead_iff _ _ _ _ _).1 h2))⟩, fun _ => rfl⟩
        · rw [if_neg h2]
          by_cases h3 : (singles board el idx_block HINT_BLOCK
              (singles board el idx_column HINT_COLUMN
                (singles board el idx_row HINT_ROW possible).2).2).1 = -1
          · rw [if_pos h3]
            exact ⟨fun _ => ⟨el, le_refl _, hel,
              Or.inr (Or.inr ((singles_dead_iff _ _ _ _ _).1 h3))⟩, fun _ => rfl⟩
          · rw [if_neg h3, ih (el + 1) (by omega)]
            constructor
            · rintro ⟨e, g1, g2, g3⟩
              exact ⟨e, by omega, g2, g3⟩
            · rintro ⟨e, g1, g2, g3⟩
              refine ⟨e, ?_, g2, g3⟩
              by_contra hlt
              have : e = el := by omega
              subst this
              rcases g3 with g3 | g3 | g3
              · exact h1 ((singles_dead_iff _ _ _ _ _).2 g3)
              · exact h2 ((singles_dead_iff _ _ _ _ _).2 g3)
              · exact h3 ((singles_dead_iff _ _ _ _ _).2 g3)
    · rw [if_neg hel]
      constructor
      · intro h
        dsimp only at h
        omega
      · rintro ⟨e, g1, g2, _⟩
        omega

/-- C18: for every board, every unit (any element number and index function, in
particular rows, columns and blocks), every hint code and every content of the candidate
buffer, `singles` returns `-1` if and only if some digit 1..9 is masked out in all nine
cells of the unit and is not the digit of any cell of the unit (`UnitDead`); and
`findmoves` returns `-1` if and only if this holds for some row, column or block. -/
theorem contradiction_iff (board : List Nat) :
    (∀ el idx_fn hintcode possible,
      (singles board el idx_fn hintcode possible).1 = -1 ↔ UnitDead board el idx_fn) ∧
    ((findmoves board).1 = -1 ↔
      ∃ el < 9, UnitDead board el idx_row ∨ UnitDead board el idx_column ∨
        UnitDead board el idx_block) := by
  refine ⟨fun el idx_fn hintcode possible => singles_dead_iff board el idx_fn hintcode possible,
    ?_⟩
  unfold findmoves
  rw [findmoves_loop_dead_iff board 9 0 (by omega) []]
  constructor
  · rintro ⟨e, _, h2, h3⟩
    exact ⟨e, h2, h3⟩
  · rintro ⟨e, h2, h3⟩
    exact ⟨e, Nat.zero_le _, h2, h3⟩

end Sudoku

namespace Sudoku

/-! ## Claim C19: the naked single of a cell with eight masked digits -/

theorem singles_position_ext (board : List Nat) (el : Nat) (idx_fn : Nat → Nat → Nat)
    (hintcode : Nat) (counts : List Nat) (c : Nat) (possible : List Nat) :
    ∃ ext, singles_position board el idx_fn hintcode counts c possible = possible ++ ext := by
  unfold singles_position
  split
  · split
    · exact ⟨_, rfl⟩
    · exact ⟨[], (List.append_nil _).symm⟩
  · exact ⟨[], (List.append_nil _).symm⟩

theorem singles_square_ext (board : List Nat) (el : Nat) (idx_fn : Nat → Nat → Nat)
    (hintcode : Nat) (digits : List Int) (i : Nat) (possible : List Nat) :
    ∃ ext, singles_square board el idx_fn hintcode digits i possible = possible ++ ext := by
  unfold singles_square
  dsimp only
  split
  · split
    · exact ⟨_, rfl⟩
    · exact ⟨[], (List.append_nil _).symm⟩
  · exact ⟨[], (List.append_nil _).symm⟩

theorem singles_loop_ext (board : List Nat) (el : Nat) (idx_fn : Nat → Nat → Nat)
    (hintcode : Nat) (digits : List Int) (counts : List Nat) (fuel i : Nat)
    (possible : List Nat) :
    ∃ ext, (singles_loop board el idx_fn hintcode digits counts fuel i possible).2 =
      possible ++ ext := by
  induction fuel generalizing i possible with
  | zero =>
    unfold singles_loop
    exact ⟨[], (List.append_nil _).symm⟩
  | succ fuel ih =>
    unfold singles_loop
    split
    · dsimp only
      split
      · exact ⟨[], (List.append_nil _).symm⟩
      · obtain ⟨e1, h1⟩ := singles_position_ext board el idx_fn hintcode counts i possible
        obtain ⟨e2, h2⟩ := singles_square_ext board el idx_fn hintcode digits i
          (singles_position board el idx_fn hintcode counts i possible)
        obtain ⟨e3, h3⟩ := ih (i + 1) (singles_square board el idx_fn hintcode digits i
          (singles_position board el idx_fn hintcode counts i possible))
        refine ⟨e1 ++ e2 ++ e3, ?_⟩
        rw [h3, h2, h1]
        simp
    · exact ⟨[], (List.append_nil _).symm⟩

/-- A word with the bit of digit `d` clear and the bits of the other eight digits set:
eight of the nine mask bits are set, and the shift-and-count loop of `singles` finds
`d`. -/
theorem eight_masked (x d : Nat) (hd1 : 1 ≤ d) (hd9 : d ≤ 9)
    (hclear : x.testBit (6 + d) = false)
    (hset : ∀ e < 10, 1 ≤ e → e ≠ d → x.testBit (6 + e) = true) :
    (List.range 9).countP (fun t => x.testBit (7 + t)) = 8 ∧
    singles_digit 32 ((STATE_MASK &&& (0xffffffff ^^^ (x &&& STATE_MASK))) >>>
      (STATE_SHIFT + 1)) 0 = d := by
  have hbits : ∀ t < 9, x.testBit (7 + t) = decide (t ≠ d - 1) := by
    intro t ht
    by_cases htd : t = d - 1
    · have : 7 + t = 6 + d := by omega
      rw [this, hclear]
      simp [htd]
    · have : 7 + t = 6 + (t + 1) := by omega
      rw [this, hset (t + 1) (by omega) (by omega) (by omega)]
      simp [htd]
  constructor
  · rw [List.countP_congr (fun t ht => by
      rw [hbits t (List.mem_range.1 ht)] : ∀ t ∈ List.range 9,
        (x.testBit (7 + t) = true ↔ decide (t ≠ d - 1) = true))]
    interval_cases d <;> decide
  · rw [square_mask x (d - 1) (by omega) (fun t ht => by
      rw [hbits t ht]
      simp), singles_digit_two_pow 32 (d - 1) 0 (by omega)]
    omega

theorem singles_loop_emits (board : List Nat) (el : Nat) (idx_fn : Nat → Nat → Nat)
    (hintcode : Nat) (digits : List Int) (counts : List Nat) (i w : Nat) (hi : i < 9)
    (hsq : ∀ p1 : List Nat, p1.length < 81 →
      singles_square board el idx_fn hintcode digits i p1 = p1 ++ [w])
    (fuel i0 : Nat) (hi0 : i0 ≤ i) (hfuel : 9 ≤ i0 + fuel) (possible : List Nat)
    (hfin : ¬ (singles_loop board el idx_fn hintcode digits counts fuel i0 possible).1 < 9)
    (hroom : (singles_loop board el idx_fn hintcode digits counts fuel i0 possible).2.length
      < 81) :
    ∃ ext, (singles_loop board el idx_fn hintcode digits counts fuel i0 possible).2 =
      possible ++ ext ∧ w ∈ ext := by
  induction fuel generalizing i0 possible with
  | zero => omega
  | succ fuel ih =>
    unfold singles_loop at hfin hroom ⊢
    have hi09 : i0 < 9 := by omega
    rw [if_pos hi09] at hfin hroom ⊢
    dsimp only at hfin hroom ⊢
    by_cases hc : rd counts i0 = 0 ∧
        ¬ (List.range 9).any (fun j => DIGIT board (idx_fn el j) == i0 + 1)
    · rw [if_pos hc] at hfin
      exact absurd hi09 hfin
    · rw [if_neg hc] at hfin hroom ⊢
      obtain ⟨e1, h1⟩ := singles_position_ext board el idx_fn hintcode counts i0 possible
      obtain ⟨e2, h2⟩ := singles_square_ext board el idx_fn hintcode digits i0
        (singles_position board el idx_fn hintcode counts i0 possible)
      obtain ⟨e3, h3⟩ := singles_loop_ext board el idx_fn hintcode digits counts fuel (i0 + 1)
        (singles_square board el idx_fn hintcode digits i0
          (singles_position board el idx_fn hintcode counts i0 possible))
      by_cases heq : i0 = i
      · subst heq
        have hlen : (singles_position board el idx_fn hintcode counts i0 possible).length
            < 81 := by
          rw [h3, h2, List.length_append, List.length_append] at hroom
          omega
        have hw := hsq _ hlen
        refine ⟨e1 ++ [w] ++ e3, ?_, by simp⟩
        rw [h3, hw, h1]
        simp
      · obtain ⟨ext, he, hmem⟩ := ih (i0 + 1) (by omega) (by omega) _ hfin hroom
        refine ⟨e1 ++ e2 ++ ext, ?_, by simp [hmem]⟩
        rw [he, h2, h1]
        simp

/-- C19: for every unit scan `singles(el, idx_fn, hintcode)` that reports no contradiction
and leaves fewer than 81 entries in the buffer, and for every cell `i` of the unit whose
mask has the bit of digit `d` clear and the bits of the other eight digits set: the
shift-and-count loop computes exactly `d`, and the scan adds the candidate with this cell,
digit `d` and the hint code to the buffer. -/
theorem naked_single_emitted (board : List Nat) (el : Nat) (idx_fn : Nat → Nat → Nat)
    (hintcode : Nat) (possible : List Nat) (i d : Nat) (hi : i < 9) (hd1 : 1 ≤ d)
    (hd9 : d ≤ 9) (hclear : DISALLOWED board (idx_fn el i) d = 0)
    (hset : ∀ e < 10, 1 ≤ e → e ≠ d → DISALLOWED board (idx_fn el i) e ≠ 0)
    (hnc : (singles board el idx_fn hintcode possible).1 ≠ -1)
    (hroom : (singles board el idx_fn hintcode possible).2.length < 81) :
    singles_digit 32 ((STATE_MASK &&& (0xffffffff ^^^ STATE board (idx_fn el i))) >>>
      (STATE_SHIFT + 1)) 0 = d ∧
    ∃ emitted, (singles board el idx_fn hintcode possible).2 = possible ++ emitted ∧
      SET_INDEX (idx_fn el i) ||| SET_DIGIT d ||| hintcode ∈ emitted := by
  rw [DISALLOWED_eq_zero_iff] at hclear
  have hset' : ∀ e < 10, 1 ≤ e → e ≠ d → (rd board (idx_fn el i)).testBit (6 + e) = true :=
    fun e h1 h2 h3 => (DISALLOWED_ne_zero_iff _ _ _).1 (hset e h1 h2 h3)
  obtain ⟨h8, hdig⟩ := eight_masked (rd board (idx_fn el i)) d hd1 hd9 hclear hset'
  have hdig' : singles_digit 32 ((STATE_MASK &&& (0xffffffff ^^^ STATE board (idx_fn el i))) >>>
      (STATE_SHIFT + 1)) 0 = d := hdig
  refine ⟨hdig', ?_⟩
  unfold singles at hnc hroom ⊢
  dsimp only at hnc hroom ⊢
  apply singles_loop_emits board el idx_fn hintcode _ _ i _ hi _ 9 0 (Nat.zero_le _)
    (by omega) possible _ hroom
  · intro p1 hp1
    unfold singles_square
    dsimp only
    have hd8 : rdi (count_set_digits board el idx_fn).1 i = 8 := by
      rw [count_set_digits_digits _ _ _ i hi, h8]
      rfl
    rw [if_pos ⟨hd8, hp1⟩, hdig', if_pos ⟨by omega, by omega⟩]
  · intro hlt
    rw [if_pos hlt] at hnc
    exact hnc rfl

set_option maxRecDepth 100000 in
theorem naked_single_emitted_witness :
    singles_digit 32 ((STATE_MASK &&& (0xffffffff ^^^ STATE row_example.board (idx_row 0 8)))
      >>> (STATE_SHIFT + 1)) 0 = 2 ∧
    ∃ emitted, (singles row_example.board 0 idx_row HINT_ROW []).2 = [] ++ emitted ∧
      SET_INDEX (idx_row 0 8) ||| SET_DIGIT 2 ||| HINT_ROW ∈ emitted :=
  naked_single_emitted row_example.board 0 idx_row HINT_ROW [] 8 2 (by decide) (by decide)
    (by decide) (by decide!) (by decide!) (by decide!) (by decide!)

end Sudoku

namespace Sudoku

/-! ## Claim C17: the scan of a row with one empty cell -/

theorem find_range_first (q : Nat → Bool) (n p : Nat) (hp : p < n) (hq : q p = true)
    (hbefore : ∀ j < p, q j = false) : (List.range n).find? q = some p := by
  induction n with
  | zero => omega
  | succ n ih =>
    rw [List.range_succ, List.find?_append]
    by_cases hpn : p < n
    · rw [ih hpn]
      rfl
    · have hpe : p = n := by omega
      subst hpe
      have hnone : (List.range p).find? q = none := by
        rw [List.find?_eq_none]
        intro j hj
        rw [hbefore j (List.mem_range.1 hj)]
        simp
      rw [hnone]
      simp [hq]

theorem countP_single (p : Nat) (hp : p < 9) :
    (List.range 9).countP (fun j => decide (j = p)) = 1 := by
  interval_cases p <;> decide

/-- The arrays `counts` and `digits` of a unit in which cell `p` has only the bit of `d`
clear and all other cells have all nine bits set. -/
theorem one_open_counts (b : List Nat) (el : Nat) (idx_fn : Nat → Nat → Nat) (p d : Nat)
    (hp : p < 9) (hd1 : 1 ≤ d) (hd9 : d ≤ 9)
    (hfull : ∀ j < 9, j ≠ p → ∀ e < 10, 1 ≤ e → DISALLOWED b (idx_fn el j) e ≠ 0)
    (hset : ∀ e < 10, 1 ≤ e → e ≠ d → DISALLOWED b (idx_fn el p) e ≠ 0)
    (hclear : DISALLOWED b (idx_fn el p) d = 0) :
    (∀ c < 9, rd (count_set_digits b el idx_fn).2 c = if c = d - 1 then 1 else 0) ∧
    (∀ i < 9, rdi (count_set_digits b el idx_fn).1 i = if i = p then 8 else 9) := by
  have hbit : ∀ j < 9, ∀ c < 9, (rd b (idx_fn el j)).testBit (7 + c) =
      decide (¬ (j = p ∧ c = d - 1)) := by
    intro j hj c hc
    have h76 : 7 + c = 6 + (c + 1) := by omega
    by_cases hjp : j = p
    · subst hjp
      by_cases hcd : c = d - 1
      · have : 7 + c = 6 + d := by omega
        rw [this, (DISALLOWED_eq_zero_iff _ _ _).1 hclear]
        simp [hcd]
      · rw [h76, (DISALLOWED_ne_zero_iff _ _ _).1 (hset (c + 1) (by omega) (by omega)
          (by omega))]
        simp [hcd]
    · rw [h76, (DISALLOWED_ne_zero_iff _ _ _).1 (hfull j hj hjp (c + 1) (by omega) (by omega))]
      simp [hjp]
  constructor
  · intro c hc
    rw [count_set_digits_counts _ _ _ c hc]
    by_cases hcd : c = d - 1
    · rw [if_pos hcd, ← countP_single p hp]
      apply List.countP_congr
      intro j hj
      rw [hbit j (List.mem_range.1 hj) c hc]
      simp [hcd]
    · rw [if_neg hcd, List.countP_eq_zero]
      intro j hj
      rw [hbit j (List.mem_range.1 hj) c hc]
      simp [hcd]
  · intro i hi
    rw [count_set_digits_digits _ _ _ i hi]
    by_cases hip : i = p
    · rw [if_pos hip, hip]
      have := (eight_masked (rd b (idx_fn el p)) d hd1 hd9
        ((DISALLOWED_eq_zero_iff _ _ _).1 hclear)
        (fun e h1 h2 h3 => (DISALLOWED_ne_zero_iff _ _ _).1 (hset e h1 h2 h3))).1
      rw [this]
      rfl
    · rw [if_neg hip]
      have : (List.range 9).countP (fun t => (rd b (idx_fn el i)).testBit (7 + t)) =
          (List.range 9).length := by
        rw [List.countP_eq_length]
        intro t ht
        rw [hbit i hi t (List.mem_range.1 ht)]
        simp [hip]
      rw [this]
      rfl

theorem singles_loop_two (board : List Nat) (el : Nat) (idx_fn : Nat → Nat → Nat)
    (hintcode : Nat) (digits : List Int) (counts : List Nat) (p t w : Nat) (hp : p < 9)
    (ht : t < 9)
    (hcontra : ∀ c < 9, ¬ (rd counts c = 0 ∧
      ¬ (List.range 9).any (fun j => DIGIT board (idx_fn el j) == c + 1)))
    (hpos : ∀ c < 9, ∀ possible : List Nat, possible.length < 81 →
      singles_position board el idx_fn hintcode counts c possible =
        possible ++ List.replicate (if c = t then 1 else 0) w)
    (hsq : ∀ i < 9, ∀ possible : List Nat, possible.length < 81 →
      singles_square board el idx_fn hintcode digits i possible =
        possible ++ List.replicate (if i = p then 1 else 0) w)
    (fuel i0 : Nat) (hi0 : i0 ≤ 9) (hfuel : 9 ≤ i0 + fuel) (possible : List Nat)
    (hlen : possible.length + ((if i0 ≤ t then 1 else 0) + (if i0 ≤ p then 1 else 0)) < 81) :
    singles_loop board el idx_fn hintcode digits counts fuel i0 possible =
      (9, possible ++ List.replicate
        ((if i0 ≤ t then 1 else 0) + (if i0 ≤ p then 1 else 0)) w) := by
  induction fuel generalizing i0 possible with
  | zero =>
    have h9 : i0 = 9 := by omega
    unfold singles_loop
    rw [h9, if_neg (by omega), if_neg (by omega)]
    simp
  | succ fuel ih =>
    unfold singles_loop
    by_cases hi : i0 < 9
    · rw [if_pos hi]
      dsimp only
      have hA : (if i0 = t then 1 else 0) + (if i0 = p then 1 else 0) +
          ((if i0 + 1 ≤ t then 1 else 0) + (if i0 + 1 ≤ p then 1 else 0)) =
          (if i0 ≤ t then 1 else 0) + (if i0 ≤ p then 1 else 0) := by
        split_ifs <;> omega
      have hnext := ih (i0 + 1) (by omega) (by omega)
        (possible ++ List.replicate (if i0 = t then 1 else 0) w ++
          List.replicate (if i0 = p then 1 else 0) w)
      rw [if_neg (hcontra i0 hi)]
      generalize (if i0 ≤ t then 1 else 0) + (if i0 ≤ p then 1 else 0) = A0 at hlen hA ⊢
      generalize (if i0 + 1 ≤ t then 1 else 0) + (if i0 + 1 ≤ p then 1 else 0) = A1
        at hnext hA ⊢
      rw [hpos i0 hi possible (by omega)]
      generalize (if i0 = t then 1 else 0) = x at hnext hA ⊢
      rw [hsq i0 hi _ (by rw [List.length_append, List.length_replicate]; omega)]
      generalize (if i0 = p then 1 else 0) = y at hnext hA ⊢
      rw [hnext (by
        rw [List.length_append, List.length_append, List.length_replicate,
          List.length_replicate]
        omega)]
      rw [List.append_assoc, List.append_assoc, ← List.replicate_add, ← List.replicate_add,
        ← Nat.add_assoc, hA]
    · have h9 : i0 = 9 := by omega
      rw [h9, if_neg (by omega), if_neg (by omega), if_neg (by omega)]
      simp

end Sudoku

namespace Sudoku

/-- C17 (as stated, refuted): the first eight cells of row 0 are filled with 5, 3, 4, 6, 7, 8, 9, 1 and cell 8
still allows the missing digit 2: the scan of the row stores the candidate (cell 8,
digit 2, row) twice, once for the digit with one position left and once for the cell with
one digit left, so the buffer holds two entries, not one. -/
theorem singles_reports_twice :
    (run_fills reset row_clues).map (fun s => singles s.board 0 idx_row HINT_ROW []) =
      some (0, [SET_INDEX 8 ||| SET_DIGIT 2 ||| HINT_ROW,
        SET_INDEX 8 ||| SET_DIGIT 2 ||| HINT_ROW]) := by
  decide!

/-- C17 (amended): for every board built from the empty board by calls of `fill` in
which row `r` has eight filled cells and its ninth cell (position `p` of the row) is
empty and still allows the one digit `d` that no cell of the row holds, the scan
`singles(r, idx_row, HINT_ROW)` started with an empty candidate buffer reports no
contradiction and leaves exactly two entries in the buffer, both the candidate with that
cell, digit `d` and the tag Row. -/
theorem singles_row_twice (cs : List (Nat × Nat)) (s : State) (r p d : Nat)
    (hcs : ∀ c ∈ cs, c.1 < 81 ∧ 1 ≤ c.2 ∧ c.2 ≤ 9) (hrun : run_fills reset cs = some s)
    (hr : r < 9) (hp : p < 9) (hd1 : 1 ≤ d) (hd9 : d ≤ 9)
    (_hempty : DIGIT s.board (idx_row r p) = 0)
    (hfilled : ∀ j < 9, j ≠ p → DIGIT s.board (idx_row r j) ≠ 0)
    (hrow : ∀ e < 10, 1 ≤ e → e ≠ d → ∃ j < 9, DIGIT s.board (idx_row r j) = e)
    (hallow : DISALLOWED s.board (idx_row r p) d = 0) :
    singles s.board r idx_row HINT_ROW [] =
      (0, [SET_INDEX (idx_row r p) ||| SET_DIGIT d ||| HINT_ROW,
        SET_INDEX (idx_row r p) ||| SET_DIGIT d ||| HINT_ROW]) := by
  obtain ⟨s', hs', hinv⟩ := FreshInv_run_fills cs reset FreshInv_reset hcs
  rw [hrun] at hs'
  simp only [Option.some.injEq] at hs'
  subst hs'
  have hwf := hinv.fresh_board_wf
  have hfull : ∀ j < 9, j ≠ p → ∀ e < 10, 1 ≤ e → DISALLOWED s.board (idx_row r j) e ≠ 0 :=
    fun j hj hjp e he10 he1 =>
      hwf.full _ (idx_row_lt hr hj) (hfilled j hj hjp) e he1 (by omega)
  have hset : ∀ e < 10, 1 ≤ e → e ≠ d → DISALLOWED s.board (idx_row r p) e ≠ 0 := by
    intro e he10 he1 hed
    obtain ⟨j, hj, hje⟩ := hrow e he10 he1 hed
    have := hwf.seen _ (idx_row_lt hr hj) _ (idx_row_lt hr hp) (peer_idx_row r j p hj hp)
      (by rw [hje]; omega)
    rw [hje] at this
    exact this
  obtain ⟨hcounts, hdigits⟩ := one_open_counts s.board r idx_row p d hp hd1 hd9 hfull hset
    hallow
  have hloop := singles_loop_two s.board r idx_row HINT_ROW
    (count_set_digits s.board r idx_row).1 (count_set_digits s.board r idx_row).2 p (d - 1)
    (SET_INDEX (idx_row r p) ||| SET_DIGIT d ||| HINT_ROW) hp (by omega)
    (by
      intro c hc hcon
      by_cases hcd : c = d - 1
      · rw [hcounts c hc, if_pos hcd] at hcon
        exact absurd hcon.1 (by decide)
      · apply hcon.2
        obtain ⟨j, hj, hje⟩ := hrow (c + 1) (by omega) (by omega) (by omega)
        rw [List.any_eq_true]
        exact ⟨j, List.mem_range.2 hj, by simp [hje]⟩)
    (by
      intro c hc possible hlen
      unfold singles_position
      rw [hcounts c hc]
      by_cases hcd : c = d - 1
      · have hc1 : c + 1 = d := by omega
        rw [if_pos hcd, if_pos ⟨rfl, hlen⟩, hc1,
          find_range_first (fun j => DISALLOWED s.board (idx_row r j) d == 0) 9 p hp
            (by simp [hallow])
            (fun j hj => by
              have := hfull j (by omega) (by omega) d (by omega) hd1
              simp [this])]
        rfl
      · rw [if_neg hcd, if_neg (fun h => absurd h.1 (by decide))]
        simp)
    (by
      intro i hi possible hlen
      unfold singles_square
      dsimp only
      rw [hdigits i hi]
      by_cases hip : i = p
      · rw [if_pos hip, if_pos ⟨rfl, hlen⟩, hip]
        have hdig := (eight_masked (rd s.board (idx_row r p)) d hd1 hd9
          ((DISALLOWED_eq_zero_iff _ _ _).1 hallow)
          (fun e h1 h2 h3 => (DISALLOWED_ne_zero_iff _ _ _).1 (hset e h1 h2 h3))).2
        have hdig' : singles_digit 32 ((STATE_MASK &&& (0xffffffff ^^^
            STATE s.board (idx_row r p))) >>> (STATE_SHIFT + 1)) 0 = d := hdig
        rw [hdig', if_pos ⟨by omega, by omega⟩]
        simp
      · rw [if_neg hip, if_neg (fun h => absurd h.1 (by decide))]
        simp [hip])
    9 0 (by omega) (by omega) [] (by
      rw [List.length_nil]
      split_ifs <;> omega)
  unfold singles
  dsimp only
  rw [hloop, if_pos (Nat.zero_le _), if_pos (Nat.zero_le _)]
  rfl

set_option maxRecDepth 100000 in
theorem singles_row_twice_witness :
    singles row_example.board 0 idx_row HINT_ROW [] =
      (0, [SET_INDEX (idx_row 0 8) ||| SET_DIGIT 2 ||| HINT_ROW,
        SET_INDEX (idx_row 0 8) ||| SET_DIGIT 2 ||| HINT_ROW]) :=
  singles_row_twice row_clues row_example 0 8 2 (by decide) (by decide!) (by decide)
    (by decide) (by decide) (by decide) (by decide!) (by decide!) (by decide!) (by decide!)

end Sudoku

namespace Sudoku

/-! ## Claim C20: `pairs` on a unit with one naked pair -/

theorem pairs_mask_foldl_length (el : Nat) (idx_fn : Nat → Nat → Nat) (m : Nat)
    (L : List Nat) (B : List Nat) :
    (L.foldl (pairs_mask el idx_fn m) B).length = B.length := by
  induction L generalizing B with
  | nil => rfl
  | cons k L ih =>
    rw [List.foldl_cons, ih]
    unfold pairs_mask
    rw [length_wr]

theorem pairs_mask_foldl_off (el : Nat) (idx_fn : Nat → Nat → Nat) (m : Nat)
    (L : List Nat) (B : List Nat) (c : Nat) (h : ∀ k ∈ L, idx_fn el k ≠ c) :
    rd (L.foldl (pairs_mask el idx_fn m) B) c = rd B c := by
  induction L generalizing B with
  | nil => rfl
  | cons k L ih =>
    rw [List.foldl_cons, ih _ (fun k' hk' => h k' (List.mem_cons_of_mem _ hk'))]
    unfold pairs_mask
    exact rd_wr_ne _ _ _ _ (h k (List.mem_cons_self _ _))

theorem pairs_mask_foldl_on (el : Nat) (idx_fn : Nat → Nat → Nat) (m : Nat)
    (L : List Nat) (B : List Nat) (c : Nat) (hc : c < B.length)
    (h : ∃ k ∈ L, idx_fn el k = c) :
    rd (L.foldl (pairs_mask el idx_fn m) B) c = rd B c ||| m := by
  induction L generalizing B with
  | nil =>
    obtain ⟨k, hk, _⟩ := h
    exact absurd hk (List.not_mem_nil _)
  | cons k L ih =>
    rw [List.foldl_cons]
    by_cases hk : idx_fn el k = c
    · have h1 : rd (pairs_mask el idx_fn m B k) c = rd B c ||| m := by
        unfold pairs_mask
        rw [hk, rd_wr_self _ _ _ hc]
      by_cases hL : ∃ k' ∈ L, idx_fn el k' = c
      · rw [ih _ (by unfold pairs_mask; rw [length_wr]; exact hc) hL, h1, or_or_self]
      · rw [pairs_mask_foldl_off _ _ _ _ _ _ (fun k' hk' he => hL ⟨k', hk', he⟩), h1]
    · obtain ⟨k', hk', he⟩ := h
      have hk'L : k' ∈ L := by
        rcases List.mem_cons.1 hk' with e | e
        · exact absurd (e ▸ he) hk
        · exact e
      rw [ih _ (by unfold pairs_mask; rw [length_wr]; exact hc) ⟨k', hk'L, he⟩]
      unfold pairs_mask
      rw [rd_wr_ne _ _ _ _ hk]

/-- The cells of the unit after one of the three masking loops of `pairs`. -/
theorem pairs_mask_range (el : Nat) (idx_fn : Nat → Nat → Nat) (m : Nat) (B : List Nat)
    (hlt : ∀ k < 9, idx_fn el k < B.length)
    (hinj : ∀ k < 9, ∀ j < 9, idx_fn el k = idx_fn el j → k = j)
    (s n : Nat) (hsn : s + n ≤ 9) (k : Nat) (hk : k < 9) :
    rd ((List.range' s n).foldl (pairs_mask el idx_fn m) B) (idx_fn el k) =
      if s ≤ k ∧ k < s + n then rd B (idx_fn el k) ||| m else rd B (idx_fn el k) := by
  by_cases hin : s ≤ k ∧ k < s + n
  · rw [if_pos hin]
    apply pairs_mask_foldl_on _ _ _ _ _ _ (hlt k hk)
    exact ⟨k, by rw [List.mem_range'_1]; exact hin, rfl⟩
  · rw [if_neg hin]
    apply pairs_mask_foldl_off
    intro k' hk' he
    rw [List.mem_range'_1] at hk'
    have := hinj k' (by omega) k hk he
    omega

/-- The effect of the body of the `j` loop of `pairs` when the states of the cells `i` and
`j` are equal. -/
theorem pairs_inner_match (el : Nat) (idx_fn : Nat → Nat → Nat) (i j : Nat)
    (acc : List Nat × List Int) (hij : i < j) (hj : j < 9)
    (hlt : ∀ k < 9, idx_fn el k < acc.1.length)
    (hinj : ∀ k < 9, ∀ j < 9, idx_fn el k = idx_fn el j → k = j)
    (hst : STATE acc.1 (idx_fn el i) = STATE acc.1 (idx_fn el j)) :
    (pairs_inner el idx_fn i acc j).1.length = acc.1.length ∧
    (pairs_inner el idx_fn i acc j).2 = wri acc.2 j (-1) ∧
    ∀ k < 9, rd (pairs_inner el idx_fn i acc j).1 (idx_fn el k) =
      if k = i ∨ k = j then rd acc.1 (idx_fn el k)
      else rd acc.1 (idx_fn el k) |||
        (STATE_MASK ^^^ (STATE_MASK &&& rd acc.1 (idx_fn el i))) := by
  unfold pairs_inner
  dsimp only
  rw [if_pos hst]
  dsimp only
  refine ⟨?_, rfl, ?_⟩
  · rw [pairs_mask_foldl_length, pairs_mask_foldl_length, pairs_mask_foldl_length]
  · intro k hk
    have hl1 : ∀ k < 9, idx_fn el k < ((List.range' 0 i).foldl (pairs_mask el idx_fn
        (STATE_MASK ^^^ (STATE_MASK &&& rd acc.1 (idx_fn el i)))) acc.1).length := by
      intro k hk
      rw [pairs_mask_foldl_length]
      exact hlt k hk
    have hl2 : ∀ k < 9, idx_fn el k < ((List.range' (i + 1) (j - (i + 1))).foldl
        (pairs_mask el idx_fn (STATE_MASK ^^^ (STATE_MASK &&& rd acc.1 (idx_fn el i))))
        ((List.range' 0 i).foldl (pairs_mask el idx_fn
        (STATE_MASK ^^^ (STATE_MASK &&& rd acc.1 (idx_fn el i)))) acc.1)).length := by
      intro k hk
      rw [pairs_mask_foldl_length]
      exact hl1 k hk
    rw [pairs_mask_range el idx_fn _ _ hl2 hinj (j + 1) (9 - (j + 1)) (by omega) k hk,
      pairs_mask_range el idx_fn _ _ hl1 hinj (i + 1) (j - (i + 1)) (by omega) k hk,
      pairs_mask_range el idx_fn _ _ hlt hinj 0 i (by omega) k hk]
    by_cases h1 : k < i
    · rw [if_neg (by omega), if_neg (by omega), if_pos (by omega), if_neg (by omega)]
    · by_cases h2 : k = i
      · rw [if_neg (by omega), if_neg (by omega), if_neg (by omega), if_pos (Or.inl h2)]
      · by_cases h3 : k < j
        · rw [if_neg (by omega), if_pos (by omega), if_neg (by omega), if_neg (by omega)]
        · by_cases h4 : k = j
          · rw [if_neg (by omega), if_neg (by omega), if_neg (by omega), if_pos (Or.inr h4)]
          · rw [if_pos (by omega), if_neg (by omega), if_neg (by omega), if_neg (by omega)]

end Sudoku

namespace Sudoku

theorem pairs_inner_foldl_same (el : Nat) (idx_fn : Nat → Nat → Nat) (i : Nat)
    (acc : List Nat × List Int) (L : List Nat)
    (h : ∀ j ∈ L, STATE acc.1 (idx_fn el i) ≠ STATE acc.1 (idx_fn el j)) :
    L.foldl (pairs_inner el idx_fn i) acc = acc := by
  induction L with
  | nil => rfl
  | cons j L ih =>
    rw [List.foldl_cons]
    have : pairs_inner el idx_fn i acc j = acc := by
      unfold pairs_inner
      dsimp only
      rw [if_neg (h j (List.mem_cons_self _ _))]
    rw [this]
    exact ih (fun j' hj' => h j' (List.mem_cons_of_mem _ hj'))

theorem pairs_outer_foldl_same (el : Nat) (idx_fn : Nat → Nat → Nat)
    (acc : List Nat × List Int) (L : List Nat)
    (h : ∀ i ∈ L, rdi acc.2 i = 7 → ∀ j < 9, i < j →
      STATE acc.1 (idx_fn el i) ≠ STATE acc.1 (idx_fn el j)) :
    L.foldl (pairs_outer el idx_fn) acc = acc := by
  induction L with
  | nil => rfl
  | cons i L ih =>
    rw [List.foldl_cons]
    have : pairs_outer el idx_fn acc i = acc := by
      unfold pairs_outer
      by_cases h7 : rdi acc.2 i = 7
      · rw [if_pos h7]
        apply pairs_inner_foldl_same
        intro j hj
        rw [List.mem_range'_1] at hj
        exact h i (List.mem_cons_self _ _) h7 j (by omega) (by omega)
      · rw [if_neg h7]
    rw [this]
    exact ih (fun i' hi' => h i' (List.mem_cons_of_mem _ hi'))

theorem testBit_pair_mask (x t : Nat) :
    (STATE_MASK ^^^ (STATE_MASK &&& x)).testBit t =
      (decide (7 ≤ t ∧ t < 16) && !x.testBit t) := by
  rw [Nat.testBit_xor, Nat.testBit_and, testBit_STATE_MASK]
  by_cases h : 7 ≤ t ∧ t < 16
  · simp [h]
  · simp [h]

theorem STATE_eq_testBit (b : List Nat) (i j t : Nat) (ht : 7 ≤ t) (ht' : t < 16)
    (h : STATE b i = STATE b j) : (rd b i).testBit t = (rd b j).testBit t := by
  have h1 : (STATE b i).testBit t = (STATE b j).testBit t := by rw [h]
  unfold STATE at h1
  rw [Nat.testBit_and, Nat.testBit_and, testBit_STATE_MASK] at h1
  simpa [ht, ht'] using h1

/-- Masking with the complement of the state of a cell that has the bits of `a` and `c`
set does not change a word whose other state bits are all set. -/
theorem or_pair_mask_keep (w x a c : Nat) (hxa : x.testBit (6 + a) = true)
    (hxc : x.testBit (6 + c) = true)
    (hw : ∀ t, 7 ≤ t → t < 16 → t ≠ 6 + a → t ≠ 6 + c → w.testBit t = true) :
    w ||| (STATE_MASK ^^^ (STATE_MASK &&& x)) = w := by
  apply Nat.eq_of_testBit_eq
  intro t
  rw [Nat.testBit_or, testBit_pair_mask]
  by_cases h : 7 ≤ t ∧ t < 16
  · by_cases hta : t = 6 + a
    · rw [hta, hxa]
      simp
    · by_cases htc : t = 6 + c
      · rw [htc, hxc]
        simp
      · rw [hw t h.1 h.2 hta htc]
        simp
  · simp [h]

end Sudoku

namespace Sudoku

theorem pairs_inner_PairInv (el : Nat) (idx_fn : Nat → Nat → Nat) (board0 : List Nat)
    (p q a c i j : Nat) (acc : List Nat × List Int)
    (hinj : ∀ k < 9, ∀ j < 9, idx_fn el k = idx_fn el j → k = j)
    (hlt : ∀ k < 9, idx_fn el k < 81) (ha1 : 1 ≤ a) (ha9 : a ≤ 9) (hp : p < 9) (hq : q < 9)
    (hpa : (rd board0 (idx_fn el p)).testBit (6 + a) = false)
    (hpq : STATE board0 (idx_fn el p) = STATE board0 (idx_fn el q))
    (hpw : ∀ t, 7 ≤ t → t < 16 → t ≠ 6 + a → t ≠ 6 + c →
      (rd board0 (idx_fn el p)).testBit t = true)
    (hip : i ≠ p) (hiq : i ≠ q) (hij : i < j) (hj : j < 9) (hjp : j ≠ p)
    (h : PairInv el idx_fn board0 p q a c acc) :
    PairInv el idx_fn board0 p q a c (pairs_inner el idx_fn i acc j) := by
  by_cases hst : STATE acc.1 (idx_fn el i) = STATE acc.1 (idx_fn el j)
  · have hi9 : i < 9 := by omega
    have hia := (h.masked i hi9 hip hiq).1
    have hic := (h.masked i hi9 hip hiq).2
    have hjq : j ≠ q := by
      intro e
      rw [e] at hst
      have h1 := STATE_eq_testBit acc.1 _ _ (6 + a) (by omega) (by omega) hst
      rw [hia, h.keep_q, ← STATE_eq_testBit board0 _ _ (6 + a) (by omega) (by omega) hpq,
        hpa] at h1
      exact absurd h1 (by decide)
    obtain ⟨m1, m2, m3⟩ := pairs_inner_match el idx_fn i j acc hij hj
      (fun k hk => by rw [h.len]; exact hlt k hk) hinj hst
    refine ⟨by rw [m1, h.len], ?_, ?_, ?_, ?_⟩
    · rw [m3 p hp, if_neg (by
        rintro (e | e)
        · exact hip e.symm
        · exact hjp e.symm), h.keep_p]
      exact or_pair_mask_keep _ _ a c hia hic hpw
    · rw [m3 q hq, if_neg (by
        rintro (e | e)
        · exact hiq e.symm
        · exact hjq e.symm), h.keep_q]
      apply or_pair_mask_keep _ _ a c hia hic
      intro t h1 h2 h3 h4
      rw [← STATE_eq_testBit board0 _ _ t h1 h2 hpq]
      exact hpw t h1 h2 h3 h4
    · intro k hk hkp hkq
      rw [m3 k hk]
      have hm := h.masked k hk hkp hkq
      split
      · exact hm
      · rw [Nat.testBit_or, Nat.testBit_or, hm.1, hm.2]
        exact ⟨rfl, rfl⟩
    · rw [m2, rdi_wri, if_neg (fun e => hjq e.1)]
      exact h.done
  · have : pairs_inner el idx_fn i acc j = acc := by
      unfold pairs_inner
      dsimp only
      rw [if_neg hst]
    rw [this]
    exact h

theorem pairs_outer_PairInv (el : Nat) (idx_fn : Nat → Nat → Nat) (board0 : List Nat)
    (p q a c i : Nat) (acc : List Nat × List Int)
    (hinj : ∀ k < 9, ∀ j < 9, idx_fn el k = idx_fn el j → k = j)
    (hlt : ∀ k < 9, idx_fn el k < 81) (ha1 : 1 ≤ a) (ha9 : a ≤ 9) (hp : p < 9) (hq : q < 9)
    (hpa : (rd board0 (idx_fn el p)).testBit (6 + a) = false)
    (hpq : STATE board0 (idx_fn el p) = STATE board0 (idx_fn el q))
    (hpw : ∀ t, 7 ≤ t → t < 16 → t ≠ 6 + a → t ≠ 6 + c →
      (rd board0 (idx_fn el p)).testBit t = true)
    (hpi : p < i) (h : PairInv el idx_fn board0 p q a c acc) :
    PairInv el idx_fn board0 p q a c (pairs_outer el idx_fn acc i) := by
  unfold pairs_outer
  by_cases h7 : rdi acc.2 i = 7
  · rw [if_pos h7]
    have hiq : i ≠ q := fun e => h.done (e ▸ h7)
    have key : ∀ (L : List Nat), (∀ j ∈ L, i < j ∧ j < 9) → ∀ acc : List Nat × List Int,
        PairInv el idx_fn board0 p q a c acc →
        PairInv el idx_fn board0 p q a c (L.foldl (pairs_inner el idx_fn i) acc) := by
      intro L
      induction L with
      | nil => exact fun _ acc h => h
      | cons j L ih =>
        intro hL acc h
        rw [List.foldl_cons]
        have hj := hL j (List.mem_cons_self _ _)
        exact ih (fun j' hj' => hL j' (List.mem_cons_of_mem _ hj')) _
          (pairs_inner_PairInv el idx_fn board0 p q a c i j acc hinj hlt ha1 ha9 hp hq hpa hpq
            hpw (by omega) hiq hj.1 hj.2 (by omega) h)
    apply key _ _ acc h
    intro j hj
    rw [List.mem_range'_1] at hj
    omega
  · rw [if_neg h7]
    exact h

theorem pairs_outer_foldl_PairInv (el : Nat) (idx_fn : Nat → Nat → Nat) (board0 : List Nat)
    (p q a c : Nat) (L : List Nat) (acc : List Nat × List Int)
    (hinj : ∀ k < 9, ∀ j < 9, idx_fn el k = idx_fn el j → k = j)
    (hlt : ∀ k < 9, idx_fn el k < 81) (ha1 : 1 ≤ a) (ha9 : a ≤ 9) (hp : p < 9) (hq : q < 9)
    (hpa : (rd board0 (idx_fn el p)).testBit (6 + a) = false)
    (hpq : STATE board0 (idx_fn el p) = STATE board0 (idx_fn el q))
    (hpw : ∀ t, 7 ≤ t → t < 16 → t ≠ 6 + a → t ≠ 6 + c →
      (rd board0 (idx_fn el p)).testBit t = true)
    (hL : ∀ i ∈ L, p < i) (h : PairInv el idx_fn board0 p q a c acc) :
    PairInv el idx_fn board0 p q a c (L.foldl (pairs_outer el idx_fn) acc) := by
  induction L generalizing acc with
  | nil => exact h
  | cons i L ih =>
    rw [List.foldl_cons]
    exact ih _ (fun i' hi' => hL i' (List.mem_cons_of_mem _ hi'))
      (pairs_outer_PairInv el idx_fn board0 p q a c i acc hinj hlt ha1 ha9 hp hq hpa hpq hpw
        (hL i (List.mem_cons_self _ _)) h)

/-- The pass of the `i` loop of `pairs` at the first pair cell establishes the invariant. -/
theorem pairs_outer_first (el : Nat) (idx_fn : Nat → Nat → Nat) (board : List Nat)
    (digits : List Int) (p q a c : Nat)
    (hinj : ∀ k < 9, ∀ j < 9, idx_fn el k = idx_fn el j → k = j)
    (hlt : ∀ k < 9, idx_fn el k < 81) (hlen : board.length = 81) (hdl : digits.length = 9)
    (ha1 : 1 ≤ a) (ha9 : a ≤ 9) (hc1 : 1 ≤ c) (hc9 : c ≤ 9) (hpq' : p < q) (hq : q < 9)
    (hpa : (rd board (idx_fn el p)).testBit (6 + a) = false)
    (hpc : (rd board (idx_fn el p)).testBit (6 + c) = false)
    (hpq : STATE board (idx_fn el p) = STATE board (idx_fn el q))
    (h7 : rdi digits p = 7)
    (hA : ∀ k < 9, k ≠ p → k ≠ q →
      STATE board (idx_fn el k) ≠ STATE board (idx_fn el p)) :
    PairInv el idx_fn board p q a c (pairs_outer el idx_fn (board, digits) p) := by
  unfold pairs_outer
  dsimp only
  rw [if_pos h7]
  have e1 : 9 - (p + 1) = (9 - q) + (q - (p + 1)) := by omega
  have e2 : 9 - q = (9 - (q + 1)) + 1 := by omega
  have e3 : p + 1 + (q - (p + 1)) = q := by omega
  rw [e1, ← List.range'_append_1, e3, e2, List.range'_succ, List.foldl_append,
    List.foldl_cons]
  rw [pairs_inner_foldl_same el idx_fn p (board, digits) _ (fun j hj => by
    rw [List.mem_range'_1] at hj
    exact fun e => hA j (by omega) (by omega) (by omega) e.symm)]
  obtain ⟨m1, m2, m3⟩ := pairs_inner_match el idx_fn p q (board, digits) hpq' hq
    (fun k hk => by dsimp only; rw [hlen]; exact hlt k hk) hinj hpq
  dsimp only at m1 m2 m3
  have hmask_a : (STATE_MASK ^^^ (STATE_MASK &&& rd board (idx_fn el p))).testBit (6 + a)
      = true := by
    rw [testBit_pair_mask, hpa]
    have : 7 ≤ 6 + a ∧ 6 + a < 16 := by omega
    simp [this]
  have hmask_c : (STATE_MASK ^^^ (STATE_MASK &&& rd board (idx_fn el p))).testBit (6 + c)
      = true := by
    rw [testBit_pair_mask, hpc]
    have : 7 ≤ 6 + c ∧ 6 + c < 16 := by omega
    simp [this]
  have hp_keep : rd (pairs_inner el idx_fn p (board, digits) q).1 (idx_fn el p) =
      rd board (idx_fn el p) := by
    rw [m3 p (by omega), if_pos (Or.inl rfl)]
  have hother : ∀ k < 9, k ≠ p → k ≠ q →
      (rd (pairs_inner el idx_fn p (board, digits) q).1 (idx_fn el k)).testBit (6 + a) =
        true := by
    intro k hk hkp hkq
    rw [m3 k hk, if_neg (by
      rintro (e | e)
      · exact hkp e
      · exact hkq e), Nat.testBit_or, hmask_a]
    simp
  rw [pairs_inner_foldl_same el idx_fn p _ _ (fun j hj => by
    rw [List.mem_range'_1] at hj
    intro e
    have h1 := STATE_eq_testBit _ _ _ (6 + a) (by omega) (by omega) e
    rw [hp_keep, hpa, hother j (by omega) (by omega) (by omega)] at h1
    exact absurd h1 (by decide))]
  refine ⟨by rw [m1, hlen], hp_keep, ?_, ?_, ?_⟩
  · rw [m3 q hq, if_pos (Or.inr rfl)]
  · intro k hk hkp hkq
    refine ⟨hother k hk hkp hkq, ?_⟩
    rw [m3 k hk, if_neg (by
      rintro (e | e)
      · exact hkp e
      · exact hkq e), Nat.testBit_or, hmask_c]
    simp
  · rw [m2, rdi_wri, if_pos ⟨rfl, by rw [hdl]; exact hq⟩]
    decide

end Sudoku

namespace Sudoku

theorem seven_masked (x a c : Nat) (ha1 : 1 ≤ a) (ha9 : a ≤ 9) (hc1 : 1 ≤ c) (hc9 : c ≤ 9)
    (hac : a ≠ c) (hxa : x.testBit (6 + a) = false) (hxc : x.testBit (6 + c) = false)
    (hset : ∀ e < 10, 1 ≤ e → e ≠ a → e ≠ c → x.testBit (6 + e) = true) :
    (List.range 9).countP (fun t => x.testBit (7 + t)) = 7 := by
  have hbits : ∀ t < 9, x.testBit (7 + t) = decide (t ≠ a - 1 ∧ t ≠ c - 1) := by
    intro t ht
    by_cases hta : t = a - 1
    · have : 7 + t = 6 + a := by omega
      rw [this, hxa]
      simp [hta]
    · by_cases htc : t = c - 1
      · have : 7 + t = 6 + c := by omega
        rw [this, hxc]
        simp [htc]
      · have : 7 + t = 6 + (t + 1) := by omega
        rw [this, hset (t + 1) (by omega) (by omega) (by omega) (by omega)]
        simp [hta, htc]
  rw [List.countP_congr (fun t ht => by
    rw [hbits t (List.mem_range.1 ht)] : ∀ t ∈ List.range 9,
      (x.testBit (7 + t) = true ↔ decide (t ≠ a - 1 ∧ t ≠ c - 1) = true))]
  interval_cases a <;> interval_cases c <;> first | exact absurd rfl hac | decide

theorem count_set_digits_length (board : List Nat) (el : Nat) (idx_fn : Nat → Nat → Nat) :
    (count_set_digits board el idx_fn).1.length = 9 := by
  unfold count_set_digits
  rw [(count_set_digits_step_length board el idx_fn _ _).1]
  rfl

/-- The board after `count_set_digits` and `pairs` on a unit whose cells are distinct. -/
theorem pairs_unit (board : List Nat) (el : Nat) (idx_fn : Nat → Nat → Nat) (p q a c : Nat)
    (hinj : ∀ k < 9, ∀ j < 9, idx_fn el k = idx_fn el j → k = j)
    (hlt : ∀ k < 9, idx_fn el k < 81) (hlen : board.length = 81)
    (hpq : p < q) (hq : q < 9) (ha1 : 1 ≤ a) (ha9 : a ≤ 9) (hc1 : 1 ≤ c) (hc9 : c ≤ 9)
    (hac : a ≠ c)
    (hst : STATE board (idx_fn el p) = STATE board (idx_fn el q))
    (hpa : DISALLOWED board (idx_fn el p) a = 0) (hpc : DISALLOWED board (idx_fn el p) c = 0)
    (hpo : ∀ e < 10, 1 ≤ e → e ≠ a → e ≠ c → DISALLOWED board (idx_fn el p) e ≠ 0)
    (hA : ∀ k < 9, k ≠ p → k ≠ q → STATE board (idx_fn el k) ≠ STATE board (idx_fn el p))
    (hB : ∀ i < p, rdi (count_set_digits board el idx_fn).1 i = 7 → ∀ j < 9, i < j →
      STATE board (idx_fn el i) ≠ STATE board (idx_fn el j)) :
    PairInv el idx_fn board p q a c
      ((List.range 8).foldl (pairs_outer el idx_fn)
        (board, (count_set_digits board el idx_fn).1)) := by
  rw [DISALLOWED_eq_zero_iff] at hpa hpc
  have hpo' : ∀ e < 10, 1 ≤ e → e ≠ a → e ≠ c →
      (rd board (idx_fn el p)).testBit (6 + e) = true :=
    fun e h1 h2 h3 h4 => (DISALLOWED_ne_zero_iff _ _ _).1 (hpo e h1 h2 h3 h4)
  have h7 : rdi (count_set_digits board el idx_fn).1 p = 7 := by
    rw [count_set_digits_digits _ _ _ p (by omega),
      seven_masked _ a c ha1 ha9 hc1 hc9 hac hpa hpc hpo']
    rfl
  have hpw : ∀ t, 7 ≤ t → t < 16 → t ≠ 6 + a → t ≠ 6 + c →
      (rd board (idx_fn el p)).testBit t = true := by
    intro t h1 h2 h3 h4
    have := hpo' (t - 6) (by omega) (by omega) (by omega) (by omega)
    have e : 6 + (t - 6) = t := by omega
    rw [e] at this
    exact this
  have hr : List.range 8 = List.range' 0 p ++ p :: List.range' (p + 1) (8 - (p + 1)) := by
    have e1 : 8 = (8 - p) + p := by omega
    have e2 : 8 - p = (8 - (p + 1)) + 1 := by omega
    rw [List.range_eq_range']
    conv_lhs => rw [e1]
    rw [← List.range'_append_1, Nat.zero_add, e2, List.range'_succ]
  rw [hr, List.foldl_append, List.foldl_cons]
  rw [pairs_outer_foldl_same el idx_fn (board, (count_set_digits board el idx_fn).1)
    (List.range' 0 p) (fun i hi h7' j hj hij => by
      rw [List.mem_range'_1] at hi
      exact hB i (by omega) h7' j hj hij)]
  apply pairs_outer_foldl_PairInv el idx_fn board p q a c _ _ hinj hlt ha1 ha9 (by omega) hq
    hpa hst hpw
  · intro i hi
    rw [List.mem_range'_1] at hi
    omega
  · exact pairs_outer_first el idx_fn board _ p q a c hinj hlt hlen
      (count_set_digits_length board el idx_fn) ha1 ha9 hc1 hc9 hpq hq hpa hpc hst h7 hA

end Sudoku

namespace Sudoku

/-- C20 (as stated, refuted): in the row 0 of the board of `triple_clues` the cells 6, 7 and 8 have identical masks
with exactly the bits of 1 and 2 clear. For the pair of cells 7 and 8, after
`count_set_digits` and `pairs` on the row the other cell 6 still allows 1 and 2 and the
pair cell 8 allows neither any more: the loops have treated the cells 6 and 7 as the
pair. -/
theorem pairs_third_cell :
    run_fills reset triple_clues = some triple_example ∧
    STATE triple_example.board 7 = STATE triple_example.board 8 ∧
    STATE triple_example.board 6 = STATE triple_example.board 7 ∧
    (∀ d < 10, 1 ≤ d → (DISALLOWED triple_example.board 7 d = 0 ↔ d = 1 ∨ d = 2)) ∧
    DISALLOWED (pairs triple_example.board (count_set_digits triple_example.board 0 idx_row).1
      0 idx_row) 6 1 = 0 ∧
    DISALLOWED (pairs triple_example.board (count_set_digits triple_example.board 0 idx_row).1
      0 idx_row) 6 2 = 0 ∧
    DISALLOWED (pairs triple_example.board (count_set_digits triple_example.board 0 idx_row).1
      0 idx_row) 8 1 ≠ 0 ∧
    DISALLOWED (pairs triple_example.board (count_set_digits triple_example.board 0 idx_row).1
      0 idx_row) 8 2 ≠ 0 := by
  decide!

/-- C20 (amended): let a row, column or block hold two cells, at the positions `p < q` of
the unit, whose masks are identical with exactly the bits of the digits `a` and `c`
clear, let no other cell of the unit have this same mask, and let no cell before
position `p` with exactly two candidates (`digits[i] == 7`) have the same mask as a later
cell of the unit. Then after `count_set_digits` followed by `pairs` on that unit every
other cell of the unit has the bits of `a` and of `c` set, and the two pair cells still
allow `a` and `c`. -/
theorem pairs_masks_others (board : List Nat) (el : Nat) (idx_fn : Nat → Nat → Nat)
    (p q a c : Nat)
    (hfn : idx_fn = idx_row ∨ idx_fn = idx_column ∨ idx_fn = idx_block) (hel : el < 9)
    (hlen : board.length = 81) (hpq : p < q) (hq : q < 9) (ha1 : 1 ≤ a) (ha9 : a ≤ 9)
    (hc1 : 1 ≤ c) (hc9 : c ≤ 9) (hac : a ≠ c)
    (hst : STATE board (idx_fn el p) = STATE board (idx_fn el q))
    (hpa : DISALLOWED board (idx_fn el p) a = 0) (hpc : DISALLOWED board (idx_fn el p) c = 0)
    (hpo : ∀ e < 10, 1 ≤ e → e ≠ a → e ≠ c → DISALLOWED board (idx_fn el p) e ≠ 0)
    (hA : ∀ k < 9, k ≠ p → k ≠ q → STATE board (idx_fn el k) ≠ STATE board (idx_fn el p))
    (hB : ∀ i < p, rdi (count_set_digits board el idx_fn).1 i = 7 → ∀ j < 9, i < j →
      STATE board (idx_fn el i) ≠ STATE board (idx_fn el j)) :
    (∀ k < 9, k ≠ p → k ≠ q →
      DISALLOWED (pairs board (count_set_digits board el idx_fn).1 el idx_fn)
        (idx_fn el k) a ≠ 0 ∧
      DISALLOWED (pairs board (count_set_digits board el idx_fn).1 el idx_fn)
        (idx_fn el k) c ≠ 0) ∧
    DISALLOWED (pairs board (count_set_digits board el idx_fn).1 el idx_fn)
      (idx_fn el p) a = 0 ∧
    DISALLOWED (pairs board (count_set_digits board el idx_fn).1 el idx_fn)
      (idx_fn el p) c = 0 ∧
    DISALLOWED (pairs board (count_set_digits board el idx_fn).1 el idx_fn)
      (idx_fn el q) a = 0 ∧
    DISALLOWED (pairs board (count_set_digits board el idx_fn).1 el idx_fn)
      (idx_fn el q) c = 0 := by
  have hinj : ∀ k < 9, ∀ j < 9, idx_fn el k = idx_fn el j → k = j := by
    rcases hfn with rfl | rfl | rfl
    · exact fun k hk j hj => idx_row_inj el k j hk hj
    · exact fun k hk j hj => idx_column_inj el k j hk hj
    · exact fun k hk j hj => idx_block_inj el k j hk hj
  have hlt : ∀ k < 9, idx_fn el k < 81 := by
    rcases hfn with rfl | rfl | rfl
    · exact fun k hk => idx_row_lt hel hk
    · exact fun k hk => idx_column_lt hel hk
    · exact fun k hk => idx_block_lt hel hk
  have hinv := pairs_unit board el idx_fn p q a c hinj hlt hlen hpq hq ha1 ha9 hc1 hc9 hac hst
    hpa hpc hpo hA hB
  have hqa : DISALLOWED board (idx_fn el q) a = 0 := by
    rw [DISALLOWED_eq_zero_iff] at hpa ⊢
    rw [← STATE_eq_testBit board _ _ (6 + a) (by omega) (by omega) hst]
    exact hpa
  have hqc : DISALLOWED board (idx_fn el q) c = 0 := by
    rw [DISALLOWED_eq_zero_iff] at hpc ⊢
    rw [← STATE_eq_testBit board _ _ (6 + c) (by omega) (by omega) hst]
    exact hpc
  unfold pairs
  refine ⟨?_, ?_, ?_, ?_, ?_⟩
  · intro k hk hkp hkq
    rw [DISALLOWED_ne_zero_iff, DISALLOWED_ne_zero_iff]
    exact hinv.masked k hk hkp hkq
  · unfold DISALLOWED at hpa ⊢
    rw [hinv.keep_p]
    exact hpa
  · unfold DISALLOWED at hpc ⊢
    rw [hinv.keep_p]
    exact hpc
  · unfold DISALLOWED at hqa ⊢
    rw [hinv.keep_q]
    exact hqa
  · unfold DISALLOWED at hqc ⊢
    rw [hinv.keep_q]
    exact hqc

set_option maxRecDepth 100000 in
theorem pairs_masks_others_witness :
    (∀ k < 9, k ≠ 1 → k ≠ 2 →
      DISALLOWED (pairs pair_example.board (count_set_digits pair_example.board 2 idx_block).1
        2 idx_block) (idx_block 2 k) 1 ≠ 0 ∧
      DISALLOWED (pairs pair_example.board (count_set_digits pair_example.board 2 idx_block).1
        2 idx_block) (idx_block 2 k) 2 ≠ 0) ∧
    DISALLOWED (pairs pair_example.board (count_set_digits pair_example.board 2 idx_block).1
      2 idx_block) (idx_block 2 1) 1 = 0 ∧
    DISALLOWED (pairs pair_example.board (count_set_digits pair_example.board 2 idx_block).1
      2 idx_block) (idx_block 2 1) 2 = 0 ∧
    DISALLOWED (pairs pair_example.board (count_set_digits pair_example.board 2 idx_block).1
      2 idx_block) (idx_block 2 2) 1 = 0 ∧
    DISALLOWED (pairs pair_example.board (count_set_digits pair_example.board 2 idx_block).1
      2 idx_block) (idx_block 2 2) 2 = 0 :=
  pairs_masks_others pair_example.board 2 idx_block 1 2 1 2 (Or.inr (Or.inr rfl)) (by decide)
    (by decide!) (by decide) (by decide) (by decide) (by decide) (by decide) (by decide)
    (by decide) (by decide!) (by decide!) (by decide!) (by decide!) (by decide!) (by decide!)

end Sudoku

namespace Sudoku

/-! ## Claims C21 and C22: hints -/

/-- The board of the state that the loader hands over is the replay of the clue
records. -/
theorem clues_state_board (clues : List (Nat × Nat)) :
    (clues_state clues).board =
      (replay (clues.map (fun c => SET_INDEX c.1 ||| SET_DIGIT c.2 ||| FIXED))
        clues.length).2 := rfl

set_option maxRecDepth 100000 in
set_option maxHeartbeats 2000000 in
theorem hint6_board_eq : replay hint_records 6 = (0, hint6_board) := by
  decide!

set_option maxRecDepth 100000 in
set_option maxHeartbeats 2000000 in
theorem hint11_board_eq :
    ((hint_records.drop 6).take 5).foldl reapply_step (0, hint6_board) = (0, hint11_board) := by
  decide!

set_option maxRecDepth 100000 in
set_option maxHeartbeats 2000000 in
theorem hint16_board_eq :
    ((hint_records.drop 11).take 5).foldl reapply_step (0, hint11_board) = (0, hint_board) := by
  decide!

theorem hint_records_replay : replay hint_records 16 = (0, hint_board) :=
  replay_extend hint_records 11 5 (0, hint11_board) (0, hint_board)
    (replay_extend hint_records 6 5 (0, hint6_board) (0, hint11_board) hint6_board_eq
      hint11_board_eq) hint16_board_eq

/-- The board of `hint_example` in full. -/
theorem hint_example_board : hint_example.board = hint_board := by
  have h := hint_records_replay
  unfold hint_records at h
  unfold hint_example
  rw [clues_state_board, show hint_clues.length = 16 from rfl, h]

set_option maxRecDepth 100000 in
set_option maxHeartbeats 2000000 in
theorem hint_moves3 :
    findmoves_loop hint_board 3 0 [] =
      (6, [16908296, 16908296, 17301521, 17301521, 67239944, 67633169]) := by
  decide!

set_option maxRecDepth 100000 in
set_option maxHeartbeats 2000000 in
theorem hint_moves6 :
    findmoves_loop hint_board 3 3 [16908296, 16908296, 17301521, 17301521, 67239944, 67633169] =
      (6, [16908296, 16908296, 17301521, 17301521, 67239944, 67633169]) := by
  decide!

set_option maxRecDepth 100000 in
set_option maxHeartbeats 2000000 in
theorem hint_moves9 :
    findmoves_loop hint_board 3 6 [16908296, 16908296, 17301521, 17301521, 67239944, 67633169] =
      (8, hint_moves) := by
  decide!

/-- On the board of `hint_example` the first scan of `findmoves` finds eight moves. -/
theorem hint_example_moves : findmoves hint_example.board = (8, hint_moves) := by
  rw [hint_example_board]
  exact findmoves_of_thirds hint_board _ _ _ 6 6 8 hint_moves3 (by decide) hint_moves6
    (by decide) hint_moves9

theorem hint_example_search :
    findhints_search hint_example.board = ((8, hint_moves), hint_example.board, false) := by
  unfold findhints_search
  rw [hint_example_moves]
  rfl

set_option maxRecDepth 100000 in
/-- C22 (the code at the failing input): on the board of `hint_clues`, where only the
cells 8 and 17 have a candidate, `findhints` returns 5, and the first four of the five
entries all refer to cell 17. -/
theorem findhints_keeps_duplicates :
    (findhints qsort_model hint_example).1 = 5 ∧
    ((findhints qsort_model hint_example).2.1.take 5).map GET_INDEX = [17, 17, 17, 17, 8] := by
  have h : findhints qsort_model hint_example =
      ((findhints_unique qsort_model 8 hint_moves).1,
        (findhints_unique qsort_model 8 hint_moves).2, hint_example) := by
    unfold findhints
    rw [hint_example_search]
    rfl
  rw [h]
  decide!

end Sudoku

namespace Sudoku

/-! ## Claim C25: `choose` -/

/-- The two outcomes of `choose` below the capacity of the history, with the state that
it leaves. -/
theorem choose_cases (s : State) (idx start : Nat) (h0 : 0 ≤ s.idx_history)
    (hcap : s.idx_history < 242) :
    (choose s idx start = some (-1, s) ∧
      ∀ d, start ≤ d → d ≤ 9 → DISALLOWED s.board idx d ≠ 0) ∨
    (∃ d, start ≤ d ∧ d ≤ 9 ∧ DISALLOWED s.board idx d = 0 ∧
      (∀ d', start ≤ d' → d' < d → DISALLOWED s.board idx d' ≠ 0) ∧
      choose s idx start = some ((d : Int),
        State.mk (update (wr s.board idx (SET_DIGIT d)) idx)
          (add_move_ignore
            (wr s.history s.idx_history.toNat (SET_INDEX idx ||| SET_DIGIT d ||| CHOICE))
            idx s.idx_history.toNat)
          (s.idx_history + 1) s.pass)) := by
  rcases choose_spec s idx start with h | ⟨d, h1, h2, h3, h4, h5⟩
  · exact Or.inl h
  · refine Or.inr ⟨d, h1, h2, h3, h4, ?_⟩
    rw [h5, add_move_below (State.mk (update (wr s.board idx (SET_DIGIT d)) idx) s.history
      s.idx_history s.pass) idx d CHOICE h0 hcap]
    simp only [Option.map_some']

/-- C25: for every board of 81 cells, every cell `idx`, every start digit from 1 to 10
and every history below capacity, either every digit from the start digit to 9 is masked
out at `idx` and `choose` returns -1 with the state unchanged, or `choose` returns the
smallest digit `d` from the start digit on that is not masked out, the cell holds `d`
afterwards (the board is `update` of the board with `SET_DIGIT(d)` stored in the cell),
the history is one record longer, its new last record is (`idx`, `d`) tagged `CHOICE`, and
every older record is unchanged or has only got the flag `IGNORED`. The two cases exclude
each other: the result is -1 exactly when every digit from the start digit to 9 is
masked out. -/
theorem choose_places (s : State) (idx start : Nat) (hb : s.board.length = 81)
    (hidx : idx < 81) (h1 : 1 ≤ start) (h10 : start ≤ 10) (hlen : s.history.length = 243)
    (h0 : 0 ≤ s.idx_history) (hcap : s.idx_history < 242) :
    ((∀ d, start ≤ d → d ≤ 9 → DISALLOWED s.board idx d ≠ 0) ∧
      choose s idx start = some (-1, s)) ∨
    ((¬ ∀ d, start ≤ d → d ≤ 9 → DISALLOWED s.board idx d ≠ 0) ∧
      ∃ d s', start ≤ d ∧ d ≤ 9 ∧ DISALLOWED s.board idx d = 0 ∧
        (∀ d', start ≤ d' → d' < d → DISALLOWED s.board idx d' ≠ 0) ∧
        choose s idx start = some ((d : Int), s') ∧ (d : Int) ≠ -1 ∧
        s'.board = update (wr s.board idx (SET_DIGIT d)) idx ∧
        DIGIT s'.board idx = d ∧
        s'.idx_history = s.idx_history + 1 ∧ s'.history.length = 243 ∧
        rd s'.history s.idx_history.toNat = SET_INDEX idx ||| SET_DIGIT d ||| CHOICE ∧
        GET_INDEX (rd s'.history s.idx_history.toNat) = idx ∧
        GET_DIGIT (rd s'.history s.idx_history.toNat) = d ∧
        rd s'.history s.idx_history.toNat &&& CHOICE ≠ 0 ∧
        ∀ k < s.idx_history.toNat, rd s'.history k = rd s.history k ∨
          rd s'.history k = rd s.history k ||| IGNORED) := by
  rcases choose_cases s idx start h0 hcap with ⟨h, hall⟩ | ⟨d, hd1, hd2, hd3, hd4, hd5⟩
  · exact Or.inl ⟨hall, h⟩
  · refine Or.inr ⟨fun hall => hall d hd1 hd2 hd3, d,
      State.mk (update (wr s.board idx (SET_DIGIT d)) idx)
        (add_move_ignore
          (wr s.history s.idx_history.toNat (SET_INDEX idx ||| SET_DIGIT d ||| CHOICE))
          idx s.idx_history.toNat)
        (s.idx_history + 1) s.pass,
      hd1, hd2, hd3, hd4, hd5, by omega, ?_, ?_, ?_, ?_, ?_, ?_, ?_, ?_, ?_⟩
    · dsimp only
    · dsimp only
      rw [place_DIGIT s.board idx (SET_DIGIT d) idx hb hidx
        (by rw [GET_DIGIT_SET_DIGIT d (by omega)]; omega)
        (by rw [GET_DIGIT_SET_DIGIT d (by omega)]; omega), if_pos rfl,
        GET_DIGIT_SET_DIGIT d (by omega)]
    · dsimp only
    · dsimp only
      rw [add_move_ignore_length, length_wr, hlen]
    · dsimp only
      rw [add_move_ignore_rd_ge _ _ _ _ (le_refl _), rd_wr_self _ _ _ (by omega)]
    · dsimp only
      rw [add_move_ignore_rd_ge _ _ _ _ (le_refl _), rd_wr_self _ _ _ (by omega)]
      exact record_index idx d CHOICE (by omega) (by decide)
    · dsimp only
      rw [add_move_ignore_rd_ge _ _ _ _ (le_refl _), rd_wr_self _ _ _ (by omega)]
      exact record_digit idx d CHOICE (by omega) (by omega) (by decide)
    · dsimp only
      rw [add_move_ignore_rd_ge _ _ _ _ (le_refl _), rd_wr_self _ _ _ (by omega)]
      exact ((word_choice_flag idx d CHOICE hidx hd2 (Or.inr rfl)).1).2 rfl
    · intro k hk
      dsimp only
      rcases add_move_ignore_rd
        (wr s.history s.idx_history.toNat (SET_INDEX idx ||| SET_DIGIT d ||| CHOICE)) idx
        s.idx_history.toNat k with e | ⟨_, _, e⟩
      · left
        rw [e, rd_wr_ne _ _ _ _ (by omega)]
      · right
        rw [e, rd_wr_ne _ _ _ _ (by omega)]

set_option maxRecDepth 100000 in
theorem choose_places_witness :
    ((∀ d, 3 ≤ d → d ≤ 9 → DISALLOWED state_one_fill.board 1 d ≠ 0) ∧
      choose state_one_fill 1 3 = some (-1, state_one_fill)) ∨
    ((¬ ∀ d, 3 ≤ d → d ≤ 9 → DISALLOWED state_one_fill.board 1 d ≠ 0) ∧
      ∃ d s', 3 ≤ d ∧ d ≤ 9 ∧ DISALLOWED state_one_fill.board 1 d = 0 ∧
        (∀ d', 3 ≤ d' → d' < d → DISALLOWED state_one_fill.board 1 d' ≠ 0) ∧
        choose state_one_fill 1 3 = some ((d : Int), s') ∧ (d : Int) ≠ -1 ∧
        s'.board = update (wr state_one_fill.board 1 (SET_DIGIT d)) 1 ∧
        DIGIT s'.board 1 = d ∧
        s'.idx_history = state_one_fill.idx_history + 1 ∧ s'.history.length = 243 ∧
        rd s'.history state_one_fill.idx_history.toNat =
          SET_INDEX 1 ||| SET_DIGIT d ||| CHOICE ∧
        GET_INDEX (rd s'.history state_one_fill.idx_history.toNat) = 1 ∧
        GET_DIGIT (rd s'.history state_one_fill.idx_history.toNat) = d ∧
        rd s'.history state_one_fill.idx_history.toNat &&& CHOICE ≠ 0 ∧
        ∀ k < state_one_fill.idx_history.toNat,
          rd s'.history k = rd state_one_fill.history k ∨
          rd s'.history k = rd state_one_fill.history k ||| IGNORED) :=
  choose_places state_one_fill 1 3 (by decide!) (by decide) (by decide) (by decide)
    (by decide!) (by decide!) (by decide!)

end Sudoku

namespace Sudoku

/-! ## Claim C26: `backtrack` -/

/-- What a call of `backtrack` on the history `hist` with `n` live records has done when
it returns `r` and leaves the state `s'`. -/
theorem backtrack_loop_spec (fuel : Nat) (hist : List Nat) (n : Nat)
    (b : List Nat) (pass : Nat) (hn : n ≤ 242) (hf : n < fuel) :
    ∃ r s', backtrack_loop fuel (State.mk b hist (n : Int) pass) = some (r, s') ∧
      ((r = -1 ∧ (∀ k, 1 ≤ k → k < n → ¬ OpenChoice hist k) ∧ s'.history = hist ∧
          s'.idx_history ≤ 0) ∨
       (∃ k d, 1 ≤ k ∧ k < n ∧ OpenChoice hist k ∧
          (∀ j, k < j → j < n → ¬ OpenChoice hist j) ∧
          GET_DIGIT (rd hist k) < d ∧ d ≤ 9 ∧
          DISALLOWED (replay hist k).2 (GET_INDEX (rd hist k)) d = 0 ∧
          (∀ d', GET_DIGIT (rd hist k) < d' → d' < d →
            DISALLOWED (replay hist k).2 (GET_INDEX (rd hist k)) d' ≠ 0) ∧
          r = (GET_INDEX (rd hist k) : Int) ∧
          s' = State.mk
            (update (wr (replay hist k).2 (GET_INDEX (rd hist k)) (SET_DIGIT d))
              (GET_INDEX (rd hist k)))
            (add_move_ignore
              (wr hist k (SET_INDEX (GET_INDEX (rd hist k)) ||| SET_DIGIT d ||| CHOICE))
              (GET_INDEX (rd hist k)) k)
            ((k : Int) + 1) pass)) := by
  induction fuel generalizing n b with
  | zero => omega
  | succ fuel ih =>
    unfold backtrack_loop
    dsimp only
    by_cases h1 : 0 < (n : Int) - 1
    · rw [if_pos h1]
      obtain ⟨k, rfl⟩ : ∃ k, n = k + 1 := ⟨n - 1, by omega⟩
      have e : ((k + 1 : Nat) : Int) - 1 = (k : Int) := by omega
      rw [e, Int.toNat_ofNat]
      have hk1 : 1 ≤ k := by omega
      by_cases hc : rd hist k &&& CHOICE ≠ 0
      · rw [if_pos hc, reapply_snd]
        dsimp only
        rw [Int.toNat_ofNat]
        rcases choose_cases (State.mk (replay hist k).2 hist (k : Int) pass)
          (GET_INDEX (rd hist k)) (GET_DIGIT (rd hist k) + 1) (Int.natCast_nonneg k)
          (by dsimp only; omega) with
          ⟨hch, hall⟩ | ⟨d, hd1, hd2, hd3, hd4, hch⟩
        · rw [hch]
          dsimp only
          rw [if_neg (by simp)]
          obtain ⟨r, s', hr, hspec⟩ := ih k (replay hist k).2 (by omega) (by omega)
          refine ⟨r, s', hr, ?_⟩
          have hclosed : ¬ OpenChoice hist k := by
            rintro ⟨_, d, hd1, hd2, hd3⟩
            exact hall d (by omega) hd2 hd3
          rcases hspec with ⟨hr1, hno, hh, hi⟩ | ⟨k', d, g1, g2, g3, g4, g5⟩
          · refine Or.inl ⟨hr1, ?_, hh, hi⟩
            intro j hj1 hj2
            by_cases hjk : j = k
            · rw [hjk]
              exact hclosed
            · exact hno j hj1 (by omega)
          · refine Or.inr ⟨k', d, g1, by omega, g3, ?_, g5⟩
            intro j hj1 hj2
            by_cases hjk : j = k
            · rw [hjk]
              exact hclosed
            · exact g4 j hj1 (by omega)
        · rw [hch]
          dsimp only at hd3 hd4 ⊢
          rw [Int.toNat_ofNat]
          have hne : ((d : Int) ≠ -1) := by omega
          rw [if_pos hne]
          refine ⟨_, _, rfl, Or.inr ⟨k, d, hk1, by omega, ⟨hc, d, by omega, hd2, hd3⟩, ?_,
            by omega, hd2, hd3, ?_, rfl, rfl⟩⟩
          · intro j hj1 hj2
            omega
          · intro d' h1' h2'
            exact hd4 d' (by omega) h2'
      · rw [if_neg hc]
        obtain ⟨r, s', hr, hspec⟩ := ih k b (by omega) (by omega)
        refine ⟨r, s', hr, ?_⟩
        have hclosed : ¬ OpenChoice hist k := fun h => hc h.1
        rcases hspec with ⟨hr1, hno, hh, hi⟩ | ⟨k', d, g1, g2, g3, g4, g5⟩
        · refine Or.inl ⟨hr1, ?_, hh, hi⟩
          intro j hj1 hj2
          by_cases hjk : j = k
          · rw [hjk]
            exact hclosed
          · exact hno j hj1 (by omega)
        · refine Or.inr ⟨k', d, g1, by omega, g3, ?_, g5⟩
          intro j hj1 hj2
          by_cases hjk : j = k
          · rw [hjk]
            exact hclosed
          · exact g4 j hj1 (by omega)
    · rw [if_neg h1]
      refine ⟨_, _, rfl, Or.inl ⟨rfl, ?_, rfl, ?_⟩⟩
      · intro k hk1 hk2
        omega
      · dsimp only
        omega

set_option maxRecDepth 100000 in
/-- C26 (as stated, refuted): on the empty board `choice` picks cell 0 and the first step
of `solve` is the choice of digit 1 for it; on this history of one record `backtrack`
returns -1 although the record is an open choice point: 2 is allowed at cell 0 on the
board replayed from the records before it. -/
theorem backtrack_skips_first_record :
    choice qsort_model reset.board = 0 ∧
    choose reset 0 1 = some (1, first_choice_example) ∧
    first_choice_example.idx_history = 1 ∧
    (backtrack first_choice_example).map (fun r => r.1) = some (-1) ∧
    OpenChoice first_choice_example.history 0 :=
  ⟨by decide!, by decide!, by decide!, by decide!, by decide!, 2, by decide!, by decide!,
    by decide!⟩

/-- C26 (amended): for every history of at most 242 live records, `backtrack` returns,
and it returns -1 only if no record at a position from 1 on is an open choice point (a
record tagged `CHOICE` such that some digit higher than the recorded one is allowed at
its cell on the board replayed from the records before it); record 0 is never examined.
Otherwise it rebuilds the board from the records before the most recent such record,
places the next higher allowed digit there and stores it as the new choice record, which
ends the history. -/
theorem backtrack_open_choice (s : State) (h0 : 0 ≤ s.idx_history)
    (hcap : s.idx_history ≤ 242) :
    ∃ r s', backtrack s = some (r, s') ∧ Backtracked s r s' := by
  obtain ⟨n, hn⟩ : ∃ n : Nat, s.idx_history = (n : Int) := ⟨s.idx_history.toNat, by omega⟩
  cases s with
  | mk b hist i pass =>
    dsimp only at hn h0 hcap
    subst hn
    unfold backtrack Backtracked
    dsimp only
    rw [Int.toNat_ofNat]
    exact backtrack_loop_spec (n + 1) hist n b pass (by omega) (by omega)

set_option maxRecDepth 100000 in
theorem backtrack_open_choice_witness :
    ∃ r s', backtrack two_choices_example = some (r, s') ∧
      Backtracked two_choices_example r s' :=
  backtrack_open_choice two_choices_example (by decide!) (by decide!)

end Sudoku

namespace Sudoku

/-! ## Claims C23 and C24: `choice` -/

theorem choice_word_digit (board : List Nat) (i : Nat) (hi : i < 81) :
    GET_DIGIT (choice_word board i) = (numset (List.replicate 9 0) (rd board i)).1 := by
  unfold choice_word
  have hle := numset_le (List.replicate 9 0) (rd board i)
  rw [← Nat.or_zero (SET_INDEX i ||| _)]
  exact record_digit _ _ _ (by omega) (by omega) (by decide)

theorem choice_word_index (board : List Nat) (i : Nat) (hi : i < 81) :
    GET_INDEX (choice_word board i) = i := by
  unfold choice_word
  rw [← Nat.or_zero (SET_INDEX i ||| _)]
  exact record_index _ _ _ (by omega) (by decide)

/-- The number of masked digits that `numset` counts and the remaining candidates add up
to nine. -/
theorem numset_candidates (counts : List Nat) (board : List Nat) (i : Nat) :
    (numset counts (rd board i)).1 + candidates board i = 9 := by
  rw [numset_fst]
  unfold candidates
  have h1 : (List.range' 1 9).filter (fun d => decide (DISALLOWED board i d = 0)) =
      ((List.range 9).filter (fun t => ! (rd board i).testBit (7 + t))).map (fun t => t + 1) := by
    have hr : List.range' 1 9 = (List.range 9).map (fun t => t + 1) := by decide
    rw [hr, List.filter_map]
    congr 1
    apply List.filter_congr
    intro t _
    simp only [Function.comp]
    have e : 6 + (t + 1) = 7 + t := by omega
    by_cases hb : (rd board i).testBit (7 + t) = true
    · have : DISALLOWED board i (t + 1) ≠ 0 := by
        rw [DISALLOWED_ne_zero_iff, e]
        exact hb
      simp [this, hb]
    · have hb' : (rd board i).testBit (7 + t) = false := by simpa using hb
      have : DISALLOWED board i (t + 1) = 0 := by
        rw [DISALLOWED_eq_zero_iff, e]
        exact hb'
      simp [this, hb']
  rw [h1, List.length_map, ← List.countP_eq_length_filter]
  have h2 := List.length_eq_countP_add_countP (fun t => (rd board i).testBit (7 + t))
    (List.range 9)
  rw [List.length_range] at h2
  have h3 : List.countP (fun t => ! (rd board i).testBit (7 + t)) (List.range 9) =
      List.countP (fun a => decide ¬ (rd board i).testBit (7 + a) = true) (List.range 9) := by
    apply List.countP_congr
    intro t _
    simp
  rw [h3]
  omega

/-- Closed form of the scan of `choice` from cell `i` on. -/
theorem choice_scan_spec (board : List Nat) (fuel i : Nat) (acc : List Nat)
    (h81 : 81 ≤ i + fuel) :
    (choice_scan board fuel i acc = none ∧
      ∃ c, i ≤ c ∧ c < 81 ∧ DIGIT board c = 0 ∧ candidates board c = 0) ∨
    (choice_scan board fuel i acc =
        some (acc ++ ((List.range' i (81 - i)).filter (fun c => IS_EMPTY board c)).map
          (choice_word board)) ∧
      ∀ c, i ≤ c → c < 81 → DIGIT board c = 0 → candidates board c ≠ 0) := by
  induction fuel generalizing i acc with
  | zero =>
    right
    have h0 : 81 - i = 0 := by omega
    unfold choice_scan
    rw [h0]
    refine ⟨by simp, ?_⟩
    intro c h1 h2
    omega
  | succ fuel ih =>
    unfold choice_scan
    by_cases hi : i < 81
    · rw [if_pos hi]
      have hr : List.range' i (81 - i) = i :: List.range' (i + 1) (81 - (i + 1)) := by
        have : 81 - i = (81 - (i + 1)) + 1 := by omega
        rw [this, List.range'_succ]
      by_cases he : IS_EMPTY board i = true
      · rw [if_pos he]
        dsimp only
        have hw : SET_INDEX i ||| SET_DIGIT (numset (List.replicate 9 0) (rd board i)).1 =
            choice_word board i := rfl
        rw [hw, choice_word_digit board i hi]
        have hsum := numset_candidates (List.replicate 9 0) board i
        by_cases h9 : (numset (List.replicate 9 0) (rd board i)).1 = 9
        · rw [if_pos h9]
          exact Or.inl ⟨rfl, i, le_refl _, hi, (IS_EMPTY_iff _ _).1 he, by omega⟩
        · rw [if_neg h9]
          rcases ih (i + 1) (acc ++ [choice_word board i]) (by omega) with
            ⟨h1, c, hc1, hc2, hc3, hc4⟩ | ⟨h1, h2⟩
          · exact Or.inl ⟨h1, c, by omega, hc2, hc3, hc4⟩
          · right
            refine ⟨?_, ?_⟩
            · rw [h1, hr, List.filter_cons_of_pos (by simpa using he), List.map_cons,
                List.append_assoc]
              rfl
            · intro c hc1 hc2 hc3
              by_cases hci : c = i
              · rw [hci]
                omega
              · exact h2 c (by omega) hc2 hc3
      · rw [if_neg he]
        rcases ih (i + 1) acc (by omega) with ⟨h1, c, hc1, hc2, hc3, hc4⟩ | ⟨h1, h2⟩
        · exact Or.inl ⟨h1, c, by omega, hc2, hc3, hc4⟩
        · right
          refine ⟨?_, ?_⟩
          · rw [h1, hr, List.filter_cons_of_neg (by simpa using he)]
          · intro c hc1 hc2 hc3
            by_cases hci : c = i
            · rw [hci] at hc3
              exact absurd ((IS_EMPTY_iff _ _).2 hc3) he
            · exact h2 c (by omega) hc2 hc3
    · rw [if_neg hi]
      right
      have h0 : 81 - i = 0 := by omega
      rw [h0]
      refine ⟨by simp, ?_⟩
      intro c h1 h2
      omega

theorem candidates_eq_zero (board : List Nat) (c : Nat) :
    candidates board c = 0 ↔ ∀ d, 1 ≤ d → d ≤ 9 → DISALLOWED board c d ≠ 0 := by
  unfold candidates
  rw [List.length_eq_zero, List.filter_eq_nil_iff]
  constructor
  · intro h d h1 h9
    have := h d (by
      rw [List.mem_range'_1]
      omega)
    simpa using this
  · intro h d hd
    rw [List.mem_range'_1] at hd
    have := h d (by omega) (by omega)
    simpa using this

/-- The list that the scan of `choice` collects: one entry per empty cell, in the order
of the cells. -/
theorem choice_list_mem (board : List Nat) (p : Nat) :
    p ∈ ((List.range' 0 (81 - 0)).filter (fun c => IS_EMPTY board c)).map (choice_word board) ↔
      ∃ c < 81, DIGIT board c = 0 ∧ p = choice_word board c := by
  rw [List.mem_map]
  constructor
  · rintro ⟨c, hc, rfl⟩
    rw [List.mem_filter, List.mem_range'_1] at hc
    exact ⟨c, by omega, (IS_EMPTY_iff _ _).1 hc.2, rfl⟩
  · rintro ⟨c, hc, he, rfl⟩
    refine ⟨c, ?_, rfl⟩
    rw [List.mem_filter, List.mem_range'_1]
    exact ⟨by omega, (IS_EMPTY_iff _ _).2 he⟩

/-- The first element of a sorted array is not behind any of its elements. -/
theorem sorted_head_le (l : List Nat) (hl : l ≠ [])
    (hs : l.Pairwise (fun a b => cmp a b ≤ 0)) : ∀ q ∈ l, cmp (rd l 0) q ≤ 0 := by
  cases l with
  | nil => exact absurd rfl hl
  | cons p rest =>
    intro q hq
    have h0 : rd (p :: rest) 0 = p := rfl
    rw [h0]
    rcases List.mem_cons.1 hq with e | e
    · rw [e]
      unfold cmp
      omega
    · exact (List.pairwise_cons.1 hs).1 q e

/-- The result of `choice` on a board on which the scan finds an empty cell and no empty
cell without a candidate. -/
theorem choice_found (qsort : (Nat → Nat → Int) → List Nat → List Nat) (board : List Nat)
    (hscan : choice_scan board 81 0 [] =
      some ([] ++ ((List.range' 0 (81 - 0)).filter (fun c => IS_EMPTY board c)).map
        (choice_word board)))
    (hne : ((List.range' 0 (81 - 0)).filter (fun c => IS_EMPTY board c)).map
        (choice_word board) ≠ []) :
    choice qsort board = (GET_INDEX (rd (qsort cmp
      (((List.range' 0 (81 - 0)).filter (fun c => IS_EMPTY board c)).map
        (choice_word board))) 0) : Int) := by
  unfold choice
  rw [hscan]
  dsimp only
  rw [List.nil_append, if_neg]
  rw [List.length_eq_zero]
  exact hne

/-- C23: for every board and every function used as `qsort` that returns its input
sorted by the comparison function `cmp`, `choice` returns -1 exactly when no cell is
empty, returns -2 exactly when some empty cell has all nine digits masked out, and
otherwise returns the index of an empty cell whose number of remaining candidates is
minimal among all empty cells. -/
theorem choice_minimal (qsort : (Nat → Nat → Int) → List Nat → List Nat)
    (hq : ∀ c l, (qsort c l).Perm l)
    (hs : ∀ l, (qsort cmp l).Pairwise (fun a b => cmp a b ≤ 0)) (board : List Nat) :
    (choice qsort board = -1 ↔ ∀ c < 81, DIGIT board c ≠ 0) ∧
    (choice qsort board = -2 ↔
      ∃ c < 81, DIGIT board c = 0 ∧ ∀ d, 1 ≤ d → d ≤ 9 → DISALLOWED board c d ≠ 0) ∧
    (choice qsort board ≠ -1 → choice qsort board ≠ -2 →
      ∃ c : Nat, c < 81 ∧ choice qsort board = (c : Int) ∧ DIGIT board c = 0 ∧
        ∀ c' < 81, DIGIT board c' = 0 → candidates board c ≤ candidates board c') := by
  rcases choice_scan_spec board 81 0 [] (by omega) with ⟨h1, c, _, hc2, hc3, hc4⟩ | ⟨h1, h2⟩
  · have hres : choice qsort board = -2 := by
      unfold choice
      rw [h1]
    rw [hres]
    refine ⟨⟨fun h => absurd h (by decide), fun h => absurd hc3 (h c hc2)⟩,
      ⟨fun _ => ⟨c, hc2, hc3, (candidates_eq_zero board c).1 hc4⟩, fun _ => rfl⟩,
      fun _ h => absurd rfl h⟩
  · have hstuck : ¬ ∃ c < 81, DIGIT board c = 0 ∧
        ∀ d, 1 ≤ d → d ≤ 9 → DISALLOWED board c d ≠ 0 := by
      rintro ⟨c, hc, he, hall⟩
      exact h2 c (by omega) hc he ((candidates_eq_zero board c).2 hall)
    by_cases hnil : ((List.range' 0 (81 - 0)).filter (fun c => IS_EMPTY board c)).map
        (choice_word board) = []
    · have hres : choice qsort board = -1 := by
        unfold choice
        rw [h1, hnil]
        rfl
      have hfull : ∀ c < 81, DIGIT board c ≠ 0 := by
        intro c hc he
        have := (choice_list_mem board (choice_word board c)).2 ⟨c, hc, he, rfl⟩
        rw [hnil] at this
        exact absurd this (List.not_mem_nil _)
      rw [hres]
      exact ⟨⟨fun _ => hfull, fun _ => rfl⟩,
        ⟨fun h => absurd h (by decide), fun h => absurd h hstuck⟩, fun h _ => absurd rfl h⟩
    · have hres := choice_found qsort board h1 hnil
      have hperm := hq cmp (((List.range' 0 (81 - 0)).filter (fun c => IS_EMPTY board c)).map
        (choice_word board))
      have hne : qsort cmp (((List.range' 0 (81 - 0)).filter
          (fun c => IS_EMPTY board c)).map (choice_word board)) ≠ [] := by
        intro h
        rw [h] at hperm
        exact hnil (List.Perm.eq_nil hperm.symm)
      have hmem := hperm.mem_iff.1 (rd_zero_mem _ hne)
      obtain ⟨c, hc, he, hp⟩ := (choice_list_mem board _).1 hmem
      have hidx : choice qsort board = (c : Int) := by
        rw [hres, hp, choice_word_index board c hc]
      refine ⟨⟨fun h => ?_, fun h => absurd he (h c hc)⟩, ⟨fun h => ?_, fun h => absurd h hstuck⟩,
        fun _ _ => ⟨c, hc, hidx, he, ?_⟩⟩
      · rw [hidx] at h
        omega
      · rw [hidx] at h
        omega
      · intro c' hc' he'
        have hq' : choice_word board c' ∈ qsort cmp (((List.range' 0 (81 - 0)).filter
            (fun c => IS_EMPTY board c)).map (choice_word board)) :=
          hperm.mem_iff.2 ((choice_list_mem board _).2 ⟨c', hc', he', rfl⟩)
        have hle := sorted_head_le _ hne (hs _) _ hq'
        rw [hp] at hle
        unfold cmp at hle
        rw [choice_word_digit board c hc, choice_word_digit board c' hc'] at hle
        have e1 := numset_candidates (List.replicate 9 0) board c
        have e2 := numset_candidates (List.replicate 9 0) board c'
        omega

theorem qsort_model_sorted (l : List Nat) :
    (qsort_model cmp l).Pairwise (fun a b => cmp a b ≤ 0) := by
  unfold qsort_model
  haveI : IsTotal Nat (fun a b => cmp a b ≤ 0) := ⟨fun a b => by unfold cmp; omega⟩
  haveI : IsTrans Nat (fun a b => cmp a b ≤ 0) := ⟨fun a b c => by unfold cmp; omega⟩
  exact List.sorted_insertionSort (fun a b => cmp a b ≤ 0) l

set_option maxRecDepth 100000 in
theorem choice_minimal_witness :
    (choice qsort_model state_one_fill.board = -1 ↔
      ∀ c < 81, DIGIT state_one_fill.board c ≠ 0) ∧
    (choice qsort_model state_one_fill.board = -2 ↔
      ∃ c < 81, DIGIT state_one_fill.board c = 0 ∧
        ∀ d, 1 ≤ d → d ≤ 9 → DISALLOWED state_one_fill.board c d ≠ 0) ∧
    (choice qsort_model state_one_fill.board ≠ -1 →
      choice qsort_model state_one_fill.board ≠ -2 →
      ∃ c : Nat, c < 81 ∧ choice qsort_model state_one_fill.board = (c : Int) ∧
        DIGIT state_one_fill.board c = 0 ∧
        ∀ c' < 81, DIGIT state_one_fill.board c' = 0 →
          candidates state_one_fill.board c ≤ candidates state_one_fill.board c') :=
  choice_minimal qsort_model qsort_model_perm qsort_model_sorted state_one_fill.board

end Sudoku

namespace Sudoku

/-! ## Claim C24: ties in `choice` -/

/-- The entries that the scan of `choice` collects are in the order of their cells. -/
theorem choice_list_increasing (board : List Nat) :
    (((List.range' 0 (81 - 0)).filter (fun c => IS_EMPTY board c)).map
      (choice_word board)).Pairwise (fun a b => GET_INDEX a < GET_INDEX b) := by
  rw [List.pairwise_map]
  have h1 : ((List.range' 0 (81 - 0)).filter (fun c => IS_EMPTY board c)).Pairwise
      (fun a b => a < b) := List.Pairwise.filter _ (List.pairwise_lt_range' 0 (81 - 0))
  rw [List.Pairwise.imp_mem] at h1 ⊢
  refine List.Pairwise.imp ?_ h1
  intro a b h ha hb
  have ha' := (List.mem_filter.1 ha).1
  have hb' := (List.mem_filter.1 hb).1
  rw [List.mem_range'_1] at ha' hb'
  rw [choice_word_index board a (by omega), choice_word_index board b (by omega)]
  exact h ha hb

theorem rd_zero_cons (l : List Nat) (hl : l ≠ []) : l = rd l 0 :: l.tail := by
  cases l with
  | nil => exact absurd rfl hl
  | cons p rest => rfl

/-- C24 (amended): for every function used as `qsort` that returns a permutation of its
input in which the elements that compare equal under `cmp` keep their order (a stable
sort), the cell that `choice` returns is the lowest among the empty cells with as many
remaining candidates as it has: when several empty cells tie for the fewest remaining
candidates, `choice` returns the one with the lowest cell index. -/
theorem choice_lowest_tie (qsort : (Nat → Nat → Int) → List Nat → List Nat)
    (hq : ∀ c l, (qsort c l).Perm l)
    (hst : ∀ l k, (qsort cmp l).filter (fun x => GET_DIGIT x == k) =
      l.filter (fun x => GET_DIGIT x == k))
    (board : List Nat) (c : Nat) (hc : choice qsort board = (c : Int)) :
    ∀ c' < 81, DIGIT board c' = 0 → candidates board c' = candidates board c → c ≤ c' := by
  intro c' hc' he' htie
  rcases choice_scan_spec board 81 0 [] (by omega) with ⟨h1, _⟩ | ⟨h1, _⟩
  · have hres : choice qsort board = -2 := by
      unfold choice
      rw [h1]
    rw [hres] at hc
    omega
  · have hmem' := (choice_list_mem board (choice_word board c')).2 ⟨c', hc', he', rfl⟩
    have hnil : ((List.range' 0 (81 - 0)).filter (fun c => IS_EMPTY board c)).map
        (choice_word board) ≠ [] := List.ne_nil_of_mem hmem'
    have hres := choice_found qsort board h1 hnil
    have hperm := hq cmp (((List.range' 0 (81 - 0)).filter (fun c => IS_EMPTY board c)).map
      (choice_word board))
    have hne : qsort cmp (((List.range' 0 (81 - 0)).filter
        (fun c => IS_EMPTY board c)).map (choice_word board)) ≠ [] := by
      intro h
      rw [h] at hperm
      exact hnil (List.Perm.eq_nil hperm.symm)
    have hmem := hperm.mem_iff.1 (rd_zero_mem _ hne)
    obtain ⟨c0, hc0, he0, hp⟩ := (choice_list_mem board _).1 hmem
    have hcc : c0 = c := by
      rw [hres, hp, choice_word_index board c0 hc0] at hc
      omega
    rw [hcc] at hp hc0
    -- the elements with the key of the first element, before and after sorting
    have hkey : GET_DIGIT (choice_word board c') = GET_DIGIT (choice_word board c) := by
      rw [choice_word_digit board c hc0, choice_word_digit board c' hc']
      have e1 := numset_candidates (List.replicate 9 0) board c
      have e2 := numset_candidates (List.replicate 9 0) board c'
      omega
    have hf := hst (((List.range' 0 (81 - 0)).filter (fun c => IS_EMPTY board c)).map
      (choice_word board)) (GET_DIGIT (choice_word board c))
    rw [rd_zero_cons _ hne, hp, List.filter_cons_of_pos (by simp)] at hf
    have hin : choice_word board c' ∈
        (((List.range' 0 (81 - 0)).filter (fun c => IS_EMPTY board c)).map
          (choice_word board)).filter
          (fun x => GET_DIGIT x == GET_DIGIT (choice_word board c)) := by
      rw [List.mem_filter]
      exact ⟨hmem', by simpa using hkey⟩
    have hinc := List.Pairwise.filter
      (fun x => GET_DIGIT x == GET_DIGIT (choice_word board c)) (choice_list_increasing board)
    rw [← hf] at hin hinc
    rcases List.mem_cons.1 hin with e | e
    · have := congrArg GET_INDEX e
      rw [choice_word_index board c' hc', choice_word_index board c hc0] at this
      omega
    · have := (List.pairwise_cons.1 hinc).1 _ e
      rw [choice_word_index board c' hc', choice_word_index board c hc0] at this
      omega

theorem qsort_reversed_perm (c : Nat → Nat → Int) (l : List Nat) :
    (qsort_reversed c l).Perm l :=
  (List.perm_insertionSort _ _).trans (List.reverse_perm l)

theorem qsort_reversed_sorted (l : List Nat) :
    (qsort_reversed cmp l).Pairwise (fun a b => cmp a b ≤ 0) := by
  unfold qsort_reversed
  haveI : IsTotal Nat (fun a b => cmp a b ≤ 0) := ⟨fun a b => by unfold cmp; omega⟩
  haveI : IsTrans Nat (fun a b => cmp a b ≤ 0) := ⟨fun a b c => by unfold cmp; omega⟩
  exact List.sorted_insertionSort (fun a b => cmp a b ≤ 0) l.reverse

/-- Insertion sort leaves the elements with the same key in their order. -/
theorem qsort_model_stable (l : List Nat) (k : Nat) :
    (qsort_model cmp l).filter (fun x => GET_DIGIT x == k) =
      l.filter (fun x => GET_DIGIT x == k) := by
  unfold qsort_model
  have hpw : (l.filter (fun x => GET_DIGIT x == k)).Pairwise (fun a b => cmp a b ≤ 0) := by
    apply List.pairwise_of_forall_mem_list
    intro a ha b hb
    have h1 := (List.mem_filter.1 ha).2
    have h2 := (List.mem_filter.1 hb).2
    simp only [beq_iff_eq] at h1 h2
    unfold cmp
    omega
  have hsub := List.sublist_insertionSort hpw (List.filter_sublist l)
  have hsub2 := hsub.filter (fun x => GET_DIGIT x == k)
  rw [List.filter_filter] at hsub2
  simp only [Bool.and_self] at hsub2
  have hlen : ((l.insertionSort (fun a b => cmp a b ≤ 0)).filter
      (fun x => GET_DIGIT x == k)).length = (l.filter (fun x => GET_DIGIT x == k)).length :=
    ((List.perm_insertionSort _ l).filter _).length_eq
  exact (hsub2.eq_of_length hlen.symm).symm

set_option maxRecDepth 100000 in
/-- C24 (as stated, refuted): `qsort_reversed` returns every array sorted by the
comparison function, and with it `choice` returns cell 72 on the board that holds a 5 in
cell 0 and nothing else, although the lower empty cell 1 has as few remaining candidates
(cell 72 has the fewest: no empty cell has fewer than cell 1). -/
theorem choice_tie_not_lowest :
    (∀ c l, (qsort_reversed c l).Perm l) ∧
    (∀ l, (qsort_reversed cmp l).Pairwise (fun a b => cmp a b ≤ 0)) ∧
    choice qsort_reversed state_one_fill.board = 72 ∧
    DIGIT state_one_fill.board 1 = 0 ∧
    candidates state_one_fill.board 1 = candidates state_one_fill.board 72 ∧
    ∀ c < 81, DIGIT state_one_fill.board c = 0 →
      candidates state_one_fill.board 1 ≤ candidates state_one_fill.board c :=
  ⟨qsort_reversed_perm, qsort_reversed_sorted, by decide!, by decide!, by decide!, by decide!⟩

set_option maxRecDepth 100000 in
theorem choice_lowest_tie_witness :
    choice qsort_model state_one_fill.board = ((1 : Nat) : Int) ∧
      DIGIT state_one_fill.board 72 = 0 ∧
      candidates state_one_fill.board 72 = candidates state_one_fill.board 1 ∧ 1 ≤ 72 :=
  ⟨by decide!, by decide!, by decide!,
    choice_lowest_tie qsort_model qsort_model_perm qsort_model_stable state_one_fill.board 1
      (by decide!) 72 (by decide) (by decide!) (by decide!)⟩

end Sudoku

namespace Sudoku

/-! ## Claim C29: a failed fill of a template cell -/

/-- The loop of `fill` calls of `generate` goes on whatever `fill` returns. -/
theorem generate_fill_step_some (digits tmplt : List Nat) (s s' : State) (i : Nat) (r : Int)
    (h : fill s (rd tmplt i) (rd digits (i % 9)) = some (r, s')) :
    generate_fill_step digits tmplt (some s) i = some s' := by
  unfold generate_fill_step
  dsimp only
  rw [h]
  rfl

/-- A round of `generate` ends in `continue` only on the result of one of its calls of
`solve`. -/
theorem generate_round_none (qsort : (Nat → Nat → Int) → List Nat → List Nat) (fuel : Nat)
    (digits tmplt : List Nat) (h : generate_round qsort fuel digits tmplt = some none) :
    ∃ s1, generate_fill digits tmplt reset = some s1 ∧
      ((∃ r s2, solve qsort fuel s1 = some (r, s2) ∧ (r ≠ 0 ∨ s2.idx_history < 81)) ∨
       (∃ s2 s3 r s4, solve qsort fuel s1 = some (0, s2) ∧
          clear_moves (State.mk (generate_mark tmplt s2.board)
            (generate_fixed (generate_mark tmplt s2.board) s2.history).1
            ((generate_fixed (generate_mark tmplt s2.board) s2.history).2 : Int) s2.pass) =
            some s3 ∧
          solve qsort fuel s3 = some (r, s4) ∧ (r ≠ 0 ∨ s4.idx_history < 81)) ∨
       (∃ s2 s3 s4 b s5 s6, solve qsort fuel s1 = some (0, s2) ∧
          clear_moves (State.mk (generate_mark tmplt s2.board)
            (generate_fixed (generate_mark tmplt s2.board) s2.history).1
            ((generate_fixed (generate_mark tmplt s2.board) s2.history).2 : Int) s2.pass) =
            some s3 ∧
          solve qsort fuel s3 = some (0, s4) ∧ backtrack s4 = some (b, s5) ∧ b ≠ -1 ∧
          solve qsort fuel s5 = some (0, s6))) := by
  unfold generate_round at h
  cases h1 : generate_fill digits tmplt reset with
  | none =>
    rw [h1] at h
    exact absurd h (by simp)
  | some s1 =>
    rw [h1] at h
    dsimp only at h
    refine ⟨s1, rfl, ?_⟩
    cases h2 : solve qsort fuel s1 with
    | none =>
      rw [h2] at h
      exact absurd h (by simp)
    | some p2 =>
      obtain ⟨r1, s2⟩ := p2
      rw [h2] at h
      dsimp only at h
      by_cases hc1 : r1 ≠ 0 ∨ s2.idx_history < 81
      · exact Or.inl ⟨r1, s2, rfl, hc1⟩
      · rw [if_neg hc1] at h
        have hr1 : r1 = 0 := by
          by_contra hne
          exact hc1 (Or.inl hne)
        subst hr1
        cases h3 : clear_moves (State.mk (generate_mark tmplt s2.board)
            (generate_fixed (generate_mark tmplt s2.board) s2.history).1
            ((generate_fixed (generate_mark tmplt s2.board) s2.history).2 : Int) s2.pass) with
        | none =>
          rw [h3] at h
          exact absurd h (by simp)
        | some s3 =>
          rw [h3] at h
          dsimp only at h
          cases h4 : solve qsort fuel s3 with
          | none =>
            rw [h4] at h
            exact absurd h (by simp)
          | some p4 =>
            obtain ⟨r2, s4⟩ := p4
            rw [h4] at h
            dsimp only at h
            by_cases hc2 : r2 ≠ 0 ∨ s4.idx_history < 81
            · exact Or.inr (Or.inl ⟨s2, s3, r2, s4, rfl, h3, h4, hc2⟩)
            · rw [if_neg hc2] at h
              have hr2 : r2 = 0 := by
                by_contra hne
                exact hc2 (Or.inl hne)
              subst hr2
              cases h5 : backtrack s4 with
              | none =>
                rw [h5] at h
                exact absurd h (by simp)
              | some p5 =>
                obtain ⟨b1, s5⟩ := p5
                rw [h5] at h
                dsimp only at h
                by_cases hb : b1 ≠ -1
                · rw [if_pos hb] at h
                  cases h6 : solve qsort fuel s5 with
                  | none =>
                    rw [h6] at h
                    exact absurd h (by simp)
                  | some p6 =>
                    obtain ⟨r3, s6⟩ := p6
                    rw [h6] at h
                    dsimp only at h
                    by_cases hr3 : r3 = 0
                    · subst hr3
                      exact Or.inr (Or.inr ⟨s2, s3, s4, b1, s5, s6, rfl, h3, h4, h5, hb, h6⟩)
                    · rw [if_neg hr3] at h
                      exact absurd h (by simp)
                · rw [if_neg hb] at h
                  exact absurd h (by simp)

set_option maxRecDepth 100000 in
set_option maxHeartbeats 2000000 in
theorem failing_fill_eq : fill filled_example 5 7 = some (-1, filled_example) := by
  decide!

/-- C29 (amended): in a generation attempt the value that `fill` returns for a template
cell is not looked at: the loop goes on with the state that `fill` leaves, and the attempt
is discarded (the round ends in `continue`) only when the first `solve` fails or leaves
fewer than 81 records, or the second `solve` does, or the `backtrack` after it finds a
choice to change and the third `solve` succeeds. -/
theorem generate_discard_reason (qsort : (Nat → Nat → Int) → List Nat → List Nat)
    (fuel : Nat) (digits tmplt : List Nat)
    (h : generate_round qsort fuel digits tmplt = some none) :
    (∀ s s' i r, fill s (rd tmplt i) (rd digits (i % 9)) = some (r, s') →
      generate_fill_step digits tmplt (some s) i = some s') ∧
    ∃ s1, generate_fill digits tmplt reset = some s1 ∧
      ((∃ r s2, solve qsort fuel s1 = some (r, s2) ∧ (r ≠ 0 ∨ s2.idx_history < 81)) ∨
       (∃ s2 s3 r s4, solve qsort fuel s1 = some (0, s2) ∧
          clear_moves (State.mk (generate_mark tmplt s2.board)
            (generate_fixed (generate_mark tmplt s2.board) s2.history).1
            ((generate_fixed (generate_mark tmplt s2.board) s2.history).2 : Int) s2.pass) =
            some s3 ∧
          solve qsort fuel s3 = some (r, s4) ∧ (r ≠ 0 ∨ s4.idx_history < 81)) ∨
       (∃ s2 s3 s4 b s5 s6, solve qsort fuel s1 = some (0, s2) ∧
          clear_moves (State.mk (generate_mark tmplt s2.board)
            (generate_fixed (generate_mark tmplt s2.board) s2.history).1
            ((generate_fixed (generate_mark tmplt s2.board) s2.history).2 : Int) s2.pass) =
            some s3 ∧
          solve qsort fuel s3 = some (0, s4) ∧ backtrack s4 = some (b, s5) ∧ b ≠ -1 ∧
          solve qsort fuel s5 = some (0, s6))) :=
  ⟨fun s s' i r hf => generate_fill_step_some digits tmplt s s' i r hf,
    generate_round_none qsort fuel digits tmplt h⟩

set_option maxRecDepth 100000 in
set_option maxHeartbeats 2000000 in
theorem generate_discard_reason_witness :
    (∀ s s' i r, fill s (rd template_dead i) (rd digits_example (i % 9)) = some (r, s') →
      generate_fill_step digits_example template_dead (some s) i = some s') ∧
    ∃ s1, generate_fill digits_example template_dead reset = some s1 ∧
      ((∃ r s2, solve qsort_model 3 s1 = some (r, s2) ∧ (r ≠ 0 ∨ s2.idx_history < 81)) ∨
       (∃ s2 s3 r s4, solve qsort_model 3 s1 = some (0, s2) ∧
          clear_moves (State.mk (generate_mark template_dead s2.board)
            (generate_fixed (generate_mark template_dead s2.board) s2.history).1
            ((generate_fixed (generate_mark template_dead s2.board) s2.history).2 : Int)
            s2.pass) = some s3 ∧
          solve qsort_model 3 s3 = some (r, s4) ∧ (r ≠ 0 ∨ s4.idx_history < 81)) ∨
       (∃ s2 s3 s4 b s5 s6, solve qsort_model 3 s1 = some (0, s2) ∧
          clear_moves (State.mk (generate_mark template_dead s2.board)
            (generate_fixed (generate_mark template_dead s2.board) s2.history).1
            ((generate_fixed (generate_mark template_dead s2.board) s2.history).2 : Int)
            s2.pass) = some s3 ∧
          solve qsort_model 3 s3 = some (0, s4) ∧ backtrack s4 = some (b, s5) ∧ b ≠ -1 ∧
          solve qsort_model 3 s5 = some (0, s6))) :=
  generate_discard_reason qsort_model 3 digits_example template_dead (by decide!)

end Sudoku

namespace Sudoku

/-! ## The strategies change mask bits only -/

theorem Same_refl (b : List Nat) (hb : b.length = 81) : Same b b :=
  ⟨hb, fun _ _ => ⟨rfl, rfl⟩⟩

theorem Same_trans (a b c : List Nat) (h1 : Same a b) (h2 : Same b c) : Same a c := by
  refine ⟨h1.1, fun i hi => ⟨?_, ?_⟩⟩
  · rw [(h1.2 i hi).1, (h2.2 i hi).1]
  · rw [(h1.2 i hi).2, (h2.2 i hi).2]

theorem or_STATE_MASK_absorb (x m : Nat) (hm : inState m) :
    x ||| m ||| STATE_MASK = x ||| STATE_MASK := by
  apply Nat.eq_of_testBit_eq
  intro i
  rw [Nat.testBit_or, Nat.testBit_or, Nat.testBit_or, testBit_STATE_MASK]
  by_cases hi : m.testBit i = true
  · have := hm i hi
    have h2 : decide (7 ≤ i ∧ i < 16) = true := by simpa using this
    rw [hi, h2]
    simp
  · have h2 : m.testBit i = false := by simpa using hi
    rw [h2]
    simp

theorem or_mask_Same (b : List Nat) (k m : Nat) (hb : b.length = 81) (hm : inState m) :
    Same (wr b k (rd b k ||| m)) b := by
  refine ⟨by rw [length_wr, hb], fun i hi => ⟨?_, ?_⟩⟩
  · unfold DIGIT
    rw [rd_wr]
    split
    · rename_i h
      rw [← h.1]
      exact GET_DIGIT_or _ _ (inState_and_DIGIT_MASK m hm)
    · rfl
  · rw [rd_wr]
    split
    · rename_i h
      rw [← h.1]
      exact or_STATE_MASK_absorb _ _ hm
    · rfl

theorem foldl_Same {α : Type} (f : List Nat → α → List Nat)
    (hf : ∀ b x, b.length = 81 → (∀ i < 81, DIGIT b i ≤ 9) → Same (f b x) b)
    (L : List α) (b : List Nat) (hb : b.length = 81) (hd : ∀ i < 81, DIGIT b i ≤ 9) :
    Same (L.foldl f b) b := by
  induction L generalizing b with
  | nil => exact Same_refl b hb
  | cons x L ih =>
    rw [List.foldl_cons]
    have h1 := hf b x hb hd
    have h2 := ih (f b x) h1.1 (fun i hi => by rw [(h1.2 i hi).1]; exact hd i hi)
    exact Same_trans _ _ _ h2 h1

theorem foldl_Same_pair {α β : Type} (f : List Nat × β → α → List Nat × β)
    (hf : ∀ acc x, acc.1.length = 81 → (∀ i < 81, DIGIT acc.1 i ≤ 9) →
      Same (f acc x).1 acc.1)
    (L : List α) (acc : List Nat × β) (hb : acc.1.length = 81)
    (hd : ∀ i < 81, DIGIT acc.1 i ≤ 9) :
    Same (L.foldl f acc).1 acc.1 := by
  induction L generalizing acc with
  | nil => exact Same_refl acc.1 hb
  | cons x L ih =>
    rw [List.foldl_cons]
    have h1 := hf acc x hb hd
    have h2 := ih (f acc x) h1.1 (fun i hi => by rw [(h1.2 i hi).1]; exact hd i hi)
    exact Same_trans _ _ _ h2 h1

theorem foldl_Same_mem {α : Type} (f : List Nat → α → List Nat) (L : List α)
    (hf : ∀ b, ∀ x ∈ L, b.length = 81 → (∀ i < 81, DIGIT b i ≤ 9) → Same (f b x) b)
    (b : List Nat) (hb : b.length = 81) (hd : ∀ i < 81, DIGIT b i ≤ 9) :
    Same (L.foldl f b) b := by
  induction L generalizing b with
  | nil => exact Same_refl b hb
  | cons x L ih =>
    rw [List.foldl_cons]
    have h1 := hf b x (List.mem_cons_self _ _) hb hd
    have h2 := ih (fun b y hy => hf b y (List.mem_cons_of_mem _ hy)) (f b x) h1.1
      (fun i hi => by rw [(h1.2 i hi).1]; exact hd i hi)
    exact Same_trans _ _ _ h2 h1

theorem Same_digit_le (b' b : List Nat) (h : Same b' b) (hd : ∀ i < 81, DIGIT b i ≤ 9) :
    ∀ i < 81, DIGIT b' i ≤ 9 := by
  intro i hi
  rw [(h.2 i hi).1]
  exact hd i hi

theorem pairs_mask_foldl_Same (el : Nat) (idx_fn : Nat → Nat → Nat) (mask : Nat)
    (hm : inState mask) (L : List Nat) (b : List Nat) (hb : b.length = 81)
    (hd : ∀ i < 81, DIGIT b i ≤ 9) :
    Same (L.foldl (pairs_mask el idx_fn mask) b) b :=
  foldl_Same _ (fun b _ hb _ => or_mask_Same b _ mask hb hm) L b hb hd

theorem pairs_inner_Same (el : Nat) (idx_fn : Nat → Nat → Nat) (i : Nat)
    (acc : List Nat × List Int) (j : Nat) (hb : acc.1.length = 81)
    (hd : ∀ i < 81, DIGIT acc.1 i ≤ 9) :
    Same (pairs_inner el idx_fn i acc j).1 acc.1 := by
  unfold pairs_inner
  dsimp only
  split
  · have hm : inState (STATE_MASK ^^^ (STATE_MASK &&& rd acc.1 (idx_fn el i))) :=
      inState_xor _ _ inState_STATE_MASK (inState_and_left _ _ inState_STATE_MASK)
    have h1 := pairs_mask_foldl_Same el idx_fn _ hm (List.range' 0 i) acc.1 hb hd
    have h2 := pairs_mask_foldl_Same el idx_fn _ hm (List.range' (i + 1) (j - (i + 1))) _ h1.1
      (Same_digit_le _ _ h1 hd)
    have h3 := pairs_mask_foldl_Same el idx_fn _ hm (List.range' (j + 1) (9 - (j + 1))) _ h2.1
      (Same_digit_le _ _ h2 (Same_digit_le _ _ h1 hd))
    exact Same_trans _ _ _ h3 (Same_trans _ _ _ h2 h1)
  · exact Same_refl _ hb

theorem pairs_outer_Same (el : Nat) (idx_fn : Nat → Nat → Nat)
    (acc : List Nat × List Int) (i : Nat) (hb : acc.1.length = 81)
    (hd : ∀ i < 81, DIGIT acc.1 i ≤ 9) :
    Same (pairs_outer el idx_fn acc i).1 acc.1 := by
  unfold pairs_outer
  split
  · exact foldl_Same_pair _ (fun acc j hb hd => pairs_inner_Same el idx_fn i acc j hb hd)
      _ acc hb hd
  · exact Same_refl _ hb

theorem pairs_Same (b : List Nat) (digits : List Int) (el : Nat) (idx_fn : Nat → Nat → Nat)
    (hb : b.length = 81) (hd : ∀ i < 81, DIGIT b i ≤ 9) :
    Same (pairs b digits el idx_fn) b := by
  unfold pairs
  exact foldl_Same_pair _ (fun acc i hb hd => pairs_outer_Same el idx_fn acc i hb hd)
    _ (b, digits) hb hd

theorem exmask_Same (b : List Nat) (mask blk el : Nat) (idx_fn : Nat → Nat → Nat)
    (hm : inState mask) (hb : b.length = 81) (hd : ∀ i < 81, DIGIT b i ≤ 9) :
    Same (exmask b mask blk el idx_fn) b := by
  unfold exmask
  apply foldl_Same _ _ _ b hb hd
  intro b i hb _
  unfold exmask_step
  dsimp only
  split
  · exact or_mask_Same b _ mask hb hm
  · exact Same_refl b hb

theorem exblock_Same (b : List Nat) (blk el : Nat) (idx_fn : Nat → Nat → Nat)
    (hblk : blk < 9) (hb : b.length = 81) (hd : ∀ i < 81, DIGIT b i ≤ 9) :
    Same (exblock b blk el idx_fn) b := by
  unfold exblock
  dsimp only
  apply exmask_Same _ _ _ _ _ _ hb hd
  apply inState_xor _ _ _ inState_STATE_MASK
  exact exblock_mask_inState b blk hblk hd _ (fun i hi => List.mem_range.1 hi) 0 inState_zero

theorem block_Same (b : List Nat) (el : Nat) (hel : el < 9) (hb : b.length = 81)
    (hd : ∀ i < 81, DIGIT b i ≤ 9) : Same (block b el) b := by
  unfold block
  split
  · exact Same_refl b hb
  · dsimp only
    generalize (List.range' (_ + 1) (9 - (_ + 1))).foldl (block_step b el) _ = rc
    have h1 : Same (if 0 ≤ rc.1 then exblock b el rc.1.toNat idx_row else b) b := by
      split
      · exact exblock_Same b el _ idx_row hel hb hd
      · exact Same_refl b hb
    split
    · exact Same_trans _ _ _
        (exblock_Same _ el _ idx_column hel h1.1 (Same_digit_le _ _ h1 hd)) h1
    · exact h1

theorem common_digit_Same (b : List Nat) (el d : Nat) (hd1 : 1 ≤ d) (hd9 : d ≤ 9)
    (hb : b.length = 81) (hd : ∀ i < 81, DIGIT b i ≤ 9) : Same (common_digit el b d) b := by
  have hm := inState_DIGIT_STATE d hd1 hd9
  unfold common_digit
  dsimp only
  generalize (List.range 9).foldl (common_step b el (DIGIT_STATE d)) _ = rc
  have h2 : Same (if rc.1 ≠ -1 ∧ rc.1 < 9
      then exmask b (DIGIT_STATE d) el rc.1.toNat idx_row else b) b := by
    split
    · exact exmask_Same b _ el _ idx_row hm hb hd
    · exact Same_refl b hb
  split
  · exact Same_trans _ _ _
      (exmask_Same _ _ el _ idx_column hm h2.1 (Same_digit_le _ _ h2 hd)) h2
  · exact h2

theorem common_Same (b : List Nat) (el : Nat) (hb : b.length = 81)
    (hd : ∀ i < 81, DIGIT b i ≤ 9) : Same (common b el) b := by
  unfold common
  apply foldl_Same_mem _ _ _ b hb hd
  intro b d hd' hb hd
  rw [List.mem_range'_1] at hd'
  exact common_digit_Same b el d (by omega) (by omega) hb hd

theorem position2_Same (b : List Nat) (el : Nat) (hb : b.length = 81)
    (hd : ∀ i < 81, DIGIT b i ≤ 9) : Same (position2 b el) b := by
  unfold position2
  dsimp only
  have key : ∀ (L : List Nat), (∀ d ∈ L, 1 ≤ d ∧ d ≤ 8) → ∀ acc : List Nat × List Nat,
      acc.1.length = 81 → (∀ i < 81, DIGIT acc.1 i ≤ 9) →
      Same (L.foldl (position2_digit el) acc).1 acc.1 := by
    intro L
    induction L with
    | nil => exact fun _ acc hb _ => Same_refl acc.1 hb
    | cons d L ih =>
      intro hL acc hb hd
      rw [List.foldl_cons]
      have hd18 := hL d (List.mem_cons_self _ _)
      have h1 : Same (position2_digit el acc d).1 acc.1 := by
        unfold position2_digit
        split
        · split
          · rename_i d2 hfind
            have hd2 := List.mem_of_find?_eq_some hfind
            rw [List.mem_range'_1] at hd2
            dsimp only
            have hm : inState (STATE_MASK ^^^ (DIGIT_STATE d ||| DIGIT_STATE d2)) :=
              inState_xor _ _ inState_STATE_MASK (inState_or _ _
                (inState_DIGIT_STATE d hd18.1 (by omega))
                (inState_DIGIT_STATE d2 (by omega) (by omega)))
            apply foldl_Same _ _ _ acc.1 hb hd
            intro b i hb _
            unfold position2_mask
            dsimp only
            split
            · exact or_mask_Same b _ _ hb hm
            · exact Same_refl b hb
          · exact Same_refl _ hb
        · exact Same_refl _ hb
      exact Same_trans _ _ _
        (ih (fun d' hd' => hL d' (List.mem_cons_of_mem _ hd')) _ h1.1
          (Same_digit_le _ _ h1 hd)) h1
  apply key _ _ (b, _) hb hd
  intro d hd'
  rw [List.mem_range'_1] at hd'
  omega

theorem allmoves_pairs_Same (b : List Nat) (i : Nat) (hb : b.length = 81)
    (hd : ∀ i < 81, DIGIT b i ≤ 9) : Same (allmoves_pairs b i) b := by
  unfold allmoves_pairs
  dsimp only
  have h1 := pairs_Same b (count_set_digits b i idx_row).1 i idx_row hb hd
  have h2 := pairs_Same _ (count_set_digits (pairs b (count_set_digits b i idx_row).1 i idx_row)
    i idx_column).1 i idx_column h1.1 (Same_digit_le _ _ h1 hd)
  have h3 := pairs_Same _ (count_set_digits (pairs (pairs b (count_set_digits b i idx_row).1 i
    idx_row) (count_set_digits (pairs b (count_set_digits b i idx_row).1 i idx_row) i
    idx_column).1 i idx_column) i idx_block).1 i idx_block h2.1
    (Same_digit_le _ _ h2 (Same_digit_le _ _ h1 hd))
  exact Same_trans _ _ _ h3 (Same_trans _ _ _ h2 h1)

theorem allmoves_block_Same (b : List Nat) (i : Nat) (hi : i < 9) (hb : b.length = 81)
    (hd : ∀ i < 81, DIGIT b i ≤ 9) : Same (allmoves_block b i) b := by
  unfold allmoves_block
  have h1 := block_Same b i hi hb hd
  have h2 := common_Same _ i h1.1 (Same_digit_le _ _ h1 hd)
  have h3 := position2_Same _ i h2.1 (Same_digit_le _ _ h2 (Same_digit_le _ _ h1 hd))
  exact Same_trans _ _ _ h3 (Same_trans _ _ _ h2 h1)

/-- The board returned by `allmoves` differs from the board it was given in mask bits
only. -/
theorem allmoves_Same (b : List Nat) (hb : b.length = 81) (hd : ∀ i < 81, DIGIT b i ≤ 9) :
    Same (allmoves b).2.2 b := by
  rw [allmoves_eq]
  have h1 : Same ((List.range 9).foldl allmoves_pairs b) b :=
    foldl_Same _ (fun b i hb hd => allmoves_pairs_Same b i hb hd) _ b hb hd
  have h2 : Same ((List.range 9).foldl allmoves_block ((List.range 9).foldl allmoves_pairs b))
      ((List.range 9).foldl allmoves_pairs b) :=
    foldl_Same_mem _ _ (fun b i hi hb hd => allmoves_block_Same b i (List.mem_range.1 hi) hb hd)
      _ h1.1 (Same_digit_le _ _ h1 hd)
  by_cases c1 : (findmoves b).1 ≠ 0
  · rw [if_pos c1]
    exact Same_refl b hb
  · rw [if_neg c1]
    by_cases c2 : (findmoves ((List.range 9).foldl allmoves_pairs b)).1 ≠ 0
    · rw [if_pos c2, triple_snd_snd]
      exact h1
    · rw [if_neg c2, triple_snd_snd]
      exact Same_trans _ _ _ h2 h1


end Sudoku

namespace Sudoku

/-! ## The board through the steps of `solve` -/

theorem replay_snoc (hist : List Nat) (n w : Nat) (hn : n < hist.length) :
    replay (wr hist n w) (n + 1) = reapply_step (replay hist n) w := by
  rw [replay_succ _ n (by rw [length_wr]; exact hn), rd_wr_self _ _ _ hn,
    replay_congr (wr hist n w) hist n (by rw [length_wr]; omega) (by omega)
      (fun k hk => rd_wr_ne _ _ _ _ (by omega))]

theorem or_STATE_MASK_swap (x y m : Nat) (h : x ||| STATE_MASK = y ||| STATE_MASK) :
    x ||| m ||| STATE_MASK = y ||| m ||| STATE_MASK := by
  rw [Nat.or_assoc, Nat.or_comm m, ← Nat.or_assoc, h, Nat.or_assoc, Nat.or_comm STATE_MASK,
    ← Nat.or_assoc]

/-- The same placement on two boards that are the same up to mask bits. -/
theorem Same_place (b r : List Nat) (idx w : Nat) (h : Same b r) (hr : r.length = 81)
    (hidx : idx < 81) (hd1 : 1 ≤ GET_DIGIT w) (hd9 : GET_DIGIT w ≤ 9) :
    Same (update (wr b idx w) idx) (update (wr r idx w) idx) := by
  refine ⟨by rw [update_length, length_wr, h.1], ?_⟩
  intro i hi
  refine ⟨?_, ?_⟩
  · rw [place_DIGIT b idx w i h.1 hidx hd1 hd9, place_DIGIT r idx w i hr hidx hd1 hd9]
    by_cases hii : i = idx
    · rw [if_pos hii, if_pos hii]
    · rw [if_neg hii, if_neg hii]
      exact (h.2 i hi).1
  · rw [place_rd b idx w i h.1 hidx hd1 hd9, place_rd r idx w i hr hidx hd1 hd9]
    by_cases hii : i = idx
    · rw [if_pos hii, if_pos hii]
    · rw [if_neg hii, if_neg hii]
      by_cases hp : i < 81 ∧ peer idx i
      · rw [if_pos hp, if_pos hp]
        exact or_STATE_MASK_swap _ _ _ (h.2 i hi).2
      · rw [if_neg hp, if_neg hp]
        exact (h.2 i hi).2

/-- The board after a placement and the replay of the history with the record of the
placement. -/
theorem Same_placed (b hist : List Nat) (n idx d flags : Nat)
    (hS : Same b (replay hist n).2) (hR : (replay hist n).2.length = 81)
    (hn : n < hist.length) (hidx : idx < 81) (hd1 : 1 ≤ d) (hd9 : d ≤ 9)
    (hf : flags = 0 ∨ flags = CHOICE) :
    Same (update (wr b idx (SET_DIGIT d)) idx)
      (replay (wr hist n (SET_INDEX idx ||| SET_DIGIT d ||| flags)) (n + 1)).2 := by
  obtain ⟨hw1, _, hw3, _, hw5⟩ := word_replayable idx d flags hidx hd1 hd9 hf
  rw [replay_snoc hist n _ hn, reapply_step_board _ _ hw1 (by rw [hw3, hR]; exact hidx), hw3,
    hw5]
  exact Same_place b _ idx _ hS hR hidx
    (by rw [GET_DIGIT_SET_DIGIT _ (by omega)]; exact hd1)
    (by rw [GET_DIGIT_SET_DIGIT _ (by omega)]; exact hd9)

theorem WordClosed_true : WordClosed (fun _ => True) :=
  fun _ _ _ _ _ _ _ _ _ _ => trivial

/-- A placement at an empty cell keeps the invariant of the board. -/
theorem KeepInv_place (m0 : Nat) (H0 : List Nat) (s : State) (idx d flags : Nat)
    (h : KeepInv m0 H0 s) (hidx : idx < 81) (hd1 : 1 ≤ d) (hd9 : d ≤ 9)
    (hf : flags = 0 ∨ flags = CHOICE) (hempty : DIGIT s.board idx = 0)
    (hallowed : DISALLOWED s.board idx d = 0) :
    add_move (State.mk (update (wr s.board idx (SET_DIGIT d)) idx) s.history
        s.idx_history s.pass) idx d flags =
      some (State.mk (update (wr s.board idx (SET_DIGIT d)) idx)
        (wr s.history s.idx_history.toNat (SET_INDEX idx ||| SET_DIGIT d ||| flags))
        (s.idx_history + 1) s.pass) ∧
    KeepInv m0 H0 (State.mk (update (wr s.board idx (SET_DIGIT d)) idx)
        (wr s.history s.idx_history.toNat (SET_INDEX idx ||| SET_DIGIT d ||| flags))
        (s.idx_history + 1) s.pass) := by
  obtain ⟨hadd, hinv⟩ := SearchInv_place (fun _ => False) (fun _ => True) m0 H0 s idx d flags
    (fun _ hG => absurd hG id) WordClosed_true h.search hidx hd1 hd9 hf hempty hallowed
    (fun _ hG => absurd hG id)
  refine ⟨hadd, hinv, ?_⟩
  dsimp only
  have hnn := h.search.inv.hist.nonneg
  have hlt := h.search.n_lt idx hidx hempty
  have e : (s.idx_history + 1).toNat = s.idx_history.toNat + 1 := by omega
  rw [e]
  exact Same_placed s.board s.history _ idx d flags h.same h.search.inv.hist.replay_wf.len
    (by rw [h.search.inv.hist.hlen]; omega) hidx hd1 hd9 hf

/-- The invariant of the board through `fill`. -/
theorem KeepInv_fill (m0 : Nat) (H0 : List Nat) (s s' : State) (idx d : Nat) (r : Int)
    (h : KeepInv m0 H0 s) (hidx : idx < 81) (hd1 : 1 ≤ d) (hd9 : d ≤ 9)
    (hfill : fill s idx d = some (r, s')) : KeepInv m0 H0 s' := by
  unfold fill at hfill
  by_cases he : IS_EMPTY s.board idx = true
  · by_cases hd : DISALLOWED s.board idx d = 0
    · have hempty : DIGIT s.board idx = 0 := (IS_EMPTY_iff _ _).1 he
      simp only [he, not_true_eq_false, if_false, hd, ne_eq] at hfill
      obtain ⟨hadd, hinv⟩ := KeepInv_place m0 H0 s idx d 0 h hidx hd1 hd9 (Or.inl rfl) hempty hd
      rw [hadd] at hfill
      simp only [Option.map_some', Option.some.injEq, Prod.mk.injEq] at hfill
      rw [← hfill.2]
      exact hinv
    · simp [he, hd] at hfill
      rw [← hfill.2]
      exact h
  · simp [he] at hfill
    rw [← hfill.2]
    exact h

theorem KeepInv_board (m0 : Nat) (H0 : List Nat) (s : State) (b : List Nat) (p : Nat)
    (h : KeepInv m0 H0 s) (hab : Above b s.board) (hsb : Same b s.board) :
    KeepInv m0 H0 (State.mk b s.history s.idx_history p) :=
  ⟨SearchInv_board (fun _ => False) (fun _ => True) m0 H0 s b p h.search hab
    (fun _ hG => absurd hG id), Same_trans _ _ _ hsb h.same⟩

theorem deterministic_fill_Keep (m0 : Nat) (H0 : List Nat) (ps : List Nat) (s s' : State)
    (x : Int) (h : KeepInv m0 H0 s) (hps : ∀ p ∈ ps, CandOK p)
    (hr : deterministic_fill ps s = some (x, s')) : KeepInv m0 H0 s' := by
  induction ps generalizing s with
  | nil =>
    unfold deterministic_fill at hr
    simp only [Option.some.injEq, Prod.mk.injEq] at hr
    rw [← hr.2]
    exact h
  | cons p ps ih =>
    unfold deterministic_fill at hr
    have hp := hps p (List.mem_cons_self _ _)
    cases hf : fill s (GET_INDEX p) (GET_DIGIT p) with
    | none =>
      rw [hf] at hr
      exact absurd hr (by simp)
    | some r1 =>
      obtain ⟨r, s1⟩ := r1
      rw [hf] at hr
      dsimp only at hr
      have h1 := KeepInv_fill m0 H0 s s1 _ _ r h hp.1 hp.2.1 hp.2.2 hf
      by_cases hr1 : r = -1
      · rw [if_pos hr1] at hr
        simp only [Option.some.injEq, Prod.mk.injEq] at hr
        rw [← hr.2]
        exact h1
      · rw [if_neg hr1] at hr
        exact ih s1 h1 (fun q hq => hps q (List.mem_cons_of_mem _ hq)) hr

theorem deterministic_loop_Keep (m0 : Nat) (H0 : List Nat) (fuel : Nat)
    (r : Int × List Nat × List Nat) (s s' : State)
    (x : Int) (h : KeepInv m0 H0 s) (hab : Above r.2.2 s.board) (hsb : Same r.2.2 s.board)
    (hc : ∀ p ∈ r.2.1, CandOK p)
    (hr : deterministic_loop fuel r s = some (x, s')) : KeepInv m0 H0 s' := by
  induction fuel generalizing r s with
  | zero =>
    unfold deterministic_loop at hr
    exact absurd hr (by simp)
  | succ fuel ih =>
    unfold deterministic_loop at hr
    dsimp only at hr
    by_cases hn : 0 < r.1
    · rw [if_pos hn] at hr
      have h1 := KeepInv_board m0 H0 s r.2.2 (s.pass + 1) h hab hsb
      cases hf : deterministic_fill (r.2.1.take r.1.toNat)
          (State.mk r.2.2 s.history s.idx_history (s.pass + 1)) with
      | none =>
        rw [hf] at hr
        exact absurd hr (by simp)
      | some r2 =>
        obtain ⟨y, s2⟩ := r2
        rw [hf] at hr
        dsimp only at hr
        have h2 := deterministic_fill_Keep m0 H0 _ _ s2 y h1
          (fun p hp => hc p (List.mem_of_mem_take hp)) hf
        by_cases hy : y = -1
        · rw [if_pos hy] at hr
          simp only [Option.some.injEq, Prod.mk.injEq] at hr
          rw [← hr.2]
          exact h2
        · rw [if_neg hy] at hr
          have hwf := h2.search.inv.board_wf
          exact ih (allmoves s2.board) s2 h2
            (allmoves_Above s2.board hwf.len hwf.digit_le)
            (allmoves_Same s2.board hwf.len hwf.digit_le)
            (allmoves_CandOK s2.board) hr
    · rw [if_neg hn] at hr
      simp only [Option.some.injEq, Prod.mk.injEq] at hr
      rw [← hr.2]
      exact KeepInv_board m0 H0 s r.2.2 s.pass h hab hsb

theorem deterministic_Keep (m0 : Nat) (H0 : List Nat) (fuel : Nat) (s s' : State) (x : Int)
    (h : KeepInv m0 H0 s) (hr : deterministic fuel s = some (x, s')) : KeepInv m0 H0 s' := by
  unfold deterministic at hr
  have hwf := h.search.inv.board_wf
  exact deterministic_loop_Keep m0 H0 fuel (allmoves s.board) s s' x h
    (allmoves_Above s.board hwf.len hwf.digit_le)
    (allmoves_Same s.board hwf.len hwf.digit_le) (allmoves_CandOK s.board) hr

end Sudoku

namespace Sudoku

/-! ## The board through `backtrack` and `solve` -/

theorem Dead_empty (s : State) : Dead (fun _ => False) s := fun _ hG => absurd hG id

/-- The state before `backtrack` satisfies what a failed `solve` leaves. -/
theorem KeepInv.stale {m0 : Nat} {H0 : List Nat} {s : State} (h : KeepInv m0 H0 s) :
    Stale m0 H0 s :=
  ⟨h.search.inv.hist.hlen, h.search.pre, s.idx_history.toNat, h.search.base, h.search.n_le,
    h.search.inv.hist.wf, h.search.live, h.search.inv.hist.ok, h.same⟩

theorem backtrack_loop_Keep (m0 : Nat) (H0 : List Nat) (fuel : Nat) (s s' : State) (b : Int)
    (h : BackInv (fun _ => False) (fun _ => True) m0 H0 s) (hst : Stale m0 H0 s)
    (hr : backtrack_loop fuel s = some (b, s')) :
    (b ≠ -1 → KeepInv m0 H0 s') ∧ (b = -1 → Stale m0 H0 s') := by
  induction fuel generalizing s with
  | zero =>
    unfold backtrack_loop at hr
    exact absurd hr (by simp)
  | succ fuel ih =>
    unfold backtrack_loop at hr
    dsimp only at hr
    have hlen := h.hist.hlen
    have hle := h.le81
    have hnn := h.hist.nonneg
    by_cases hpos : 0 < s.idx_history - 1
    · rw [if_pos hpos] at hr
      have hkn : (s.idx_history - 1).toNat + 1 = s.idx_history.toNat := by omega
      have h1 : HistInv (State.mk s.board s.history (s.idx_history - 1) s.pass) :=
        HistInv_prefix s h.hist _ (by omega) (by omega)
      by_cases hch : rd s.history (s.idx_history - 1).toNat &&& CHOICE ≠ 0
      · rw [if_pos hch, reapply_snd] at hr
        dsimp only at hr
        have hkm : m0 ≤ (s.idx_history - 1).toNat := by
          by_contra hlt
          exact hch (h.nochoice _ (by omega) (by omega))
        have hw := h.hist.wf (s.idx_history - 1).toNat (by omega)
        have hlive := h.live (s.idx_history - 1).toNat (by omega)
        have h2 := h.to_search (fun _ hG => absurd hG id) (s.idx_history - 1) (by omega)
          (by omega) hkm
        have hok : (replay s.history ((s.idx_history - 1).toNat + 1)).1 = 0 := by
          rw [hkn]
          exact h.hist.ok
        have hv := replay_valid_step s.history (s.idx_history - 1).toNat (by omega) hok hlive
        have hempty := (IS_EMPTY_iff _ _).1 hv.1
        have hk2 : KeepInv m0 H0 (State.mk (replay s.history (s.idx_history - 1).toNat).2
            s.history (s.idx_history - 1) s.pass) :=
          ⟨h2, Same_refl _ h1.replay_wf.len⟩
        rcases choose_spec (State.mk (replay s.history (s.idx_history - 1).toNat).2 s.history
            (s.idx_history - 1) s.pass) (GET_INDEX (rd s.history (s.idx_history - 1).toNat))
            (GET_DIGIT (rd s.history (s.idx_history - 1).toNat) + 1) with
          ⟨hfail, hall⟩ | ⟨d, hd1, hd9, hallow, hmin, hcs⟩
        · rw [hfail] at hr
          dsimp only at hr
          rw [if_neg (by simp)] at hr
          refine ih _ ?_ hk2.stale hr
          refine ⟨⟨h1.hlen, h1.nonneg, h1.le, h1.wf, h1.ok⟩, ?_, ?_, h.base1, h.nochoice,
            h.pre, ?_, ?_, h.hp⟩
          · dsimp only
            omega
          · intro j hj
            exact h.live j (by dsimp only at hj; omega)
          · intro G hG
            exact absurd hG id
          · intro G hG
            exact absurd hG id
        · obtain ⟨hadd, hinv⟩ := KeepInv_place m0 H0 _ _ d CHOICE hk2 hw.1 (by omega) hd9
            (Or.inr rfl) hempty hallow
          dsimp only at hadd hinv
          rw [hcs, hadd] at hr
          simp only [Option.map_some'] at hr
          have hdne : ((d : Nat) : Int) ≠ -1 := by omega
          rw [if_pos hdne] at hr
          simp only [Option.some.injEq, Prod.mk.injEq] at hr
          rw [← hr.1, ← hr.2]
          exact ⟨fun _ => hinv, fun hc => by omega⟩
      · rw [if_neg hch] at hr
        refine ih (State.mk s.board s.history (s.idx_history - 1) s.pass) ?_ hst hr
        refine ⟨h1, ?_, ?_, h.base1, h.nochoice, h.pre, ?_, ?_, h.hp⟩
        · dsimp only
          omega
        · intro j hj
          exact h.live j (by dsimp only at hj; omega)
        · intro G hG
          exact absurd hG id
        · intro G hG
          exact absurd hG id
    · rw [if_neg hpos] at hr
      simp only [Option.some.injEq, Prod.mk.injEq] at hr
      rw [← hr.1, ← hr.2]
      exact ⟨fun hc => absurd rfl hc, fun _ => hst⟩

theorem backtrack_Keep (m0 : Nat) (H0 : List Nat) (s s' : State) (b : Int)
    (h : KeepInv m0 H0 s) (hr : backtrack s = some (b, s')) :
    (b ≠ -1 → KeepInv m0 H0 s') ∧ (b = -1 → Stale m0 H0 s') := by
  unfold backtrack at hr
  exact backtrack_loop_Keep m0 H0 _ s s' b (h.search.to_back (Dead_empty s)) h.stale hr

/-- The board through `solve`: after a success the invariant of the board holds and the
board is full; after a failure the board is the replay of some of the records, the
puzzle records among them, up to mask bits. -/
theorem solve_Keep (m0 : Nat) (H0 : List Nat)
    (qsort : (Nat → Nat → Int) → List Nat → List Nat)
    (hq : ∀ c l, (qsort c l).Perm l) (fuel : Nat) (s s' : State) (r : Int)
    (h : KeepInv m0 H0 s) (hres : solve qsort fuel s = some (r, s')) :
    (r = 0 → KeepInv m0 H0 s' ∧ ∀ c < 81, DIGIT s'.board c ≠ 0) ∧
      (r ≠ 0 → r = -1 ∧ Stale m0 H0 s') := by
  induction fuel generalizing s with
  | zero =>
    unfold solve at hres
    exact absurd hres (by simp)
  | succ fuel ih =>
    unfold solve at hres
    cases hd : deterministic (fuel + 1) s with
    | none =>
      rw [hd] at hres
      exact absurd hres (by simp)
    | some r1 =>
      obtain ⟨x, s1⟩ := r1
      rw [hd] at hres
      dsimp only at hres
      have h1 := deterministic_Keep m0 H0 _ s s1 x h hd
      have hback : ∀ t : State, KeepInv m0 H0 t →
          (match backtrack t with
            | none => none
            | some (b, s2) => if b = -1 then some (-1, s2) else solve qsort fuel s2)
            = some (r, s') →
          (r = 0 → KeepInv m0 H0 s' ∧ ∀ c < 81, DIGIT s'.board c ≠ 0) ∧
            (r ≠ 0 → r = -1 ∧ Stale m0 H0 s') := by
        intro t ht hm
        cases hb : backtrack t with
        | none =>
          rw [hb] at hm
          exact absurd hm (by simp)
        | some r2 =>
          obtain ⟨b, s2⟩ := r2
          rw [hb] at hm
          dsimp only at hm
          have hbs := backtrack_Keep m0 H0 t s2 b ht hb
          by_cases hb1 : b = -1
          · rw [if_pos hb1] at hm
            simp only [Option.some.injEq, Prod.mk.injEq] at hm
            rw [← hm.1, ← hm.2]
            exact ⟨fun hc => absurd hc (by decide), fun _ => ⟨rfl, hbs.2 hb1⟩⟩
          · rw [if_neg hb1] at hm
            exact ih s2 (hbs.1 hb1) hm
      by_cases hr0 : x = 0
      · rw [if_pos hr0] at hres
        by_cases hc1 : choice qsort s1.board = -1
        · rw [if_pos hc1] at hres
          simp only [Option.some.injEq, Prod.mk.injEq] at hres
          rw [← hres.2, ← hres.1]
          exact ⟨fun _ => ⟨h1, choice_done qsort s1.board hc1⟩, fun hc => absurd rfl hc⟩
        · rw [if_neg hc1] at hres
          by_cases hc2 : choice qsort s1.board < 0
          · rw [if_pos hc2] at hres
            exact hback s1 h1 hres
          · rw [if_neg hc2] at hres
            have hidx := choice_index qsort hq s1.board (by omega)
            have hempty := choice_empty qsort hq s1.board (by omega)
            rcases choose_spec s1 (choice qsort s1.board).toNat 1 with
              ⟨hfail, hall⟩ | ⟨d, hd1, hd9, hallow, hmin, hcs⟩
            · rw [hfail] at hres
              dsimp only at hres
              rw [if_pos rfl] at hres
              exact hback s1 h1 hres
            · obtain ⟨hadd, hinv⟩ := KeepInv_place m0 H0 s1 _ d CHOICE h1 hidx hd1 hd9
                (Or.inr rfl) hempty hallow
              rw [hcs, hadd] at hres
              simp only [Option.map_some'] at hres
              have hdne : ¬ ((d : Nat) : Int) = -1 := by omega
              rw [if_neg hdne] at hres
              exact ih _ hinv hres
      · rw [if_neg hr0] at hres
        exact hback s1 h1 hres

end Sudoku

namespace Sudoku

/-! ## The board after `solve` and the replay of the history -/

theorem or_STATE_MASK_full (x : Nat)
    (h : ∀ d, 1 ≤ d → d ≤ 9 → x &&& DIGIT_STATE d ≠ 0) : x ||| STATE_MASK = x := by
  apply Nat.eq_of_testBit_eq
  intro i
  rw [Nat.testBit_or, testBit_STATE_MASK]
  by_cases hi : 7 ≤ i ∧ i < 16
  · have hd := h (i - 6) (by omega) (by omega)
    rw [Ne, and_DIGIT_STATE_eq_zero] at hd
    have e : 6 + (i - 6) = i := by omega
    rw [e] at hd
    simp at hd
    rw [hd]
    simp
  · simp [hi]

/-- Two full boards that are the same up to mask bits are equal. -/
theorem Same_full_eq (b r : List Nat) (hS : Same b r) (hb : BoardWF b) (hr : BoardWF r)
    (hfull : ∀ i < 81, DIGIT b i ≠ 0) : b = r := by
  apply List.ext_getElem (by rw [hb.len, hr.len])
  intro i h1 h2
  have hi : i < 81 := by rw [hb.len] at h1; exact h1
  have e1 : rd b i = b[i] := by
    unfold rd
    rw [List.getD_eq_getElem _ _ h1]
  have e2 : rd r i = r[i] := by
    unfold rd
    rw [List.getD_eq_getElem _ _ h2]
  rw [← e1, ← e2]
  have hfr : DIGIT r i ≠ 0 := by
    rw [← (hS.2 i hi).1]
    exact hfull i hi
  have := (hS.2 i hi).2
  rw [or_STATE_MASK_full _ (hb.full i hi (hfull i hi)),
    or_STATE_MASK_full _ (hr.full i hi hfr)] at this
  exact this

/-- In a valid replay of live records, the cell of every record holds the digit of the
record, and the flag `FIXED` if the record carries it. -/
theorem replay_holds (hist : List Nat) (n k : Nat) (hn : n ≤ hist.length) (hk : k < n)
    (hwf : WFHistory hist n) (hlive : ∀ j < n, replayable (rd hist j))
    (hok : (replay hist n).1 = 0) :
    DIGIT (replay hist n).2 (GET_INDEX (rd hist k)) = GET_DIGIT (rd hist k) ∧
      (rd hist k &&& FIXED ≠ 0 →
        IS_FIXED (replay hist n).2 (GET_INDEX (rd hist k)) ≠ 0) := by
  induction n with
  | zero => omega
  | succ n ih =>
    have hr := hlive n (by omega)
    have hw := hwf n (by omega)
    have hv := replay_valid_step hist n (by omega) hok hr
    have hB := replay_BoardWF hist n (by omega) (fun j hj => hwf j (by omega))
    have hd1 : 1 ≤ GET_DIGIT (record_word (rd hist n)) := by
      rw [GET_DIGIT_record_word]
      have := hr.2
      omega
    have hd9 : GET_DIGIT (record_word (rd hist n)) ≤ 9 := by
      rw [GET_DIGIT_record_word]
      exact hw.2
    rw [replay_succ_place hist n (by omega) hwf hr]
    unfold IS_FIXED
    rw [place_DIGIT _ _ _ _ hB.len hw.1 hd1 hd9, place_rd _ _ _ _ hB.len hw.1 hd1 hd9]
    by_cases hkn : k = n
    · subst hkn
      rw [if_pos rfl, if_pos rfl]
      refine ⟨GET_DIGIT_record_word _, ?_⟩
      intro hf
      unfold record_word
      rw [if_pos hf]
      intro hc
      have := congrArg (fun x => x.testBit 20) hc
      simp [Nat.testBit_and, Nat.testBit_or, testBit_FIXED, testBit_STATE_MASK] at this
    · have ih' := ih (by omega) (by omega) (fun j hj => hwf j (by omega))
        (fun j hj => hlive j (by omega))
        ( replay_valid_prefix hist (n + 1) n hn (by omega) hok)
      have hne : GET_INDEX (rd hist k) ≠ GET_INDEX (rd hist n) := by
        intro hc
        have h0 := (IS_EMPTY_iff _ _).1 hv.1
        rw [← hc, ih'.1] at h0
        exact (hlive k (by omega)).2 h0
      rw [if_neg hne, if_neg hne]
      refine ⟨ih'.1, ?_⟩
      intro hf
      have h2 := ih'.2 hf
      unfold IS_FIXED at h2
      split
      · intro hc
        apply h2
        apply Nat.eq_of_testBit_eq
        intro i
        have := congrArg (fun x => x.testBit i) hc
        simp only [Nat.testBit_and, Nat.testBit_or, testBit_FIXED, testBit_DIGIT_STATE,
          Nat.zero_testBit] at this ⊢
        by_cases h20 : 20 = i
        · subst h20
          have e : decide (6 + GET_DIGIT (record_word (rd hist n)) = 20) = false := by
            simp
            omega
          rw [e] at this
          simpa using this
        · simp [h20]
      · exact h2

/-- A state whose history is a list of live records, the first `m0` of them without the
flag `CHOICE` behind position 0, and whose board is their valid replay satisfies the
invariant of the board. -/
theorem KeepInv_init (s : State) (m0 : Nat) (hlen : s.history.length = 243)
    (h0 : 0 ≤ s.idx_history) (hwf : WFHistory s.history s.idx_history.toNat)
    (hlive : ∀ k < s.idx_history.toNat, replayable (rd s.history k))
    (hre : reapply s = (0, s)) (h1 : 1 ≤ m0) (hm : m0 ≤ s.idx_history.toNat)
    (hnc : ∀ k, 1 ≤ k → k < m0 → rd s.history k &&& CHOICE = 0) :
    KeepInv m0 s.history s := by
  have hle : s.idx_history.toNat ≤ 243 := by
    by_contra hc
    have := (hlive 243 (by omega)).2
    rw [rd_ge s.history 243 (by omega)] at this
    exact this (by decide)
  have hinv := SolveInv_of_reapply s hlen h0 (by omega) hwf hre
  have hb : s.board = (replay s.history s.idx_history.toNat).2 := by
    have h := hre
    unfold reapply at h
    simp only [Prod.mk.injEq] at h
    exact (congrArg State.board h.2).symm
  refine ⟨⟨hinv, hlive, ?_, h1, hm, hnc, fun _ _ => rfl, ?_, ?_, trivial⟩, ?_⟩
  · rw [hb]
    exact (replay_card s.history _ (by omega) hwf hlive hinv.hist.ok).symm
  · intro G hG
    exact absurd hG id
  · intro G hG
    exact absurd hG id
  · rw [← hb]
    exact Same_refl _ hinv.board_wf.len

/-- The first round of `solve` on the empty board: nothing is forced, `choice` picks a
cell and `choose` puts 1 into it; the search goes on from a state whose only record is
this first choice, and which satisfies the invariant of the board. -/
theorem solve_empty_round (qsort : (Nat → Nat → Int) → List Nat → List Nat)
    (hq : ∀ c l, (qsort c l).Perm l) (s : State)
    (hlen : s.history.length = 243) (hn : s.idx_history = 0)
    (hb : s.board = List.replicate 81 0) :
    ∃ s2, KeepInv 1 s2.history s2 ∧ s2.pass = s.pass ∧
      ∀ fuel, solve qsort (fuel + 1) s = solve qsort fuel s2 := by
  have hc1 : choice qsort (List.replicate 81 0) ≠ -1 := by
    intro hc
    exact choice_done qsort _ hc 0 (by omega) (DIGIT_replicate 0)
  have hc2 : ¬ choice qsort (List.replicate 81 0) < 0 := by
    intro hc
    obtain ⟨c, _, _, hall⟩ := choice_stuck qsort _ hc1 hc
    exact hall 1 (by omega) (by omega) (DISALLOWED_replicate c 1)
  have hidx := choice_index qsort hq (List.replicate 81 0) (by omega)
  rcases choose_spec (State.mk (List.replicate 81 0) s.history s.idx_history s.pass)
      (choice qsort (List.replicate 81 0)).toNat 1 with
    ⟨_, hall⟩ | ⟨d, hd1, hd9, hallow, hmin, hcs⟩
  · exact absurd (DISALLOWED_replicate _ 1) (hall 1 (le_refl _) (by omega))
  · have hd : d = 1 := by
      by_contra hne
      exact hmin 1 (le_refl _) (by omega) (DISALLOWED_replicate _ 1)
    subst hd
    have hn0 : s.idx_history.toNat = 0 := by rw [hn]; rfl
    have hadd := add_move_fresh (State.mk (update (wr (List.replicate 81 0)
      (choice qsort (List.replicate 81 0)).toNat (SET_DIGIT 1))
      (choice qsort (List.replicate 81 0)).toNat) s.history s.idx_history s.pass)
      (choice qsort (List.replicate 81 0)).toNat 1 CHOICE (by dsimp only; omega)
      (by dsimp only; omega) (by
        intro k hk
        dsimp only at hk
        omega)
    dsimp only at hadd hcs
    obtain ⟨hw1, hw2, hw3, hw4, hw5⟩ := word_replayable
      (choice qsort (List.replicate 81 0)).toNat 1 CHOICE hidx (le_refl _) (by omega)
      (Or.inr rfl)
    have hrd : rd (wr s.history s.idx_history.toNat (SET_INDEX
        (choice qsort (List.replicate 81 0)).toNat ||| SET_DIGIT 1 ||| CHOICE)) 0 =
        SET_INDEX (choice qsort (List.replicate 81 0)).toNat ||| SET_DIGIT 1 ||| CHOICE := by
      rw [hn0]
      exact rd_wr_self _ _ _ (by rw [hlen]; omega)
    have hn1 : (s.idx_history + 1).toNat = 1 := by rw [hn]; rfl
    have hrep : (replay (wr s.history s.idx_history.toNat (SET_INDEX
        (choice qsort (List.replicate 81 0)).toNat ||| SET_DIGIT 1 ||| CHOICE)) 1).2 =
        update (wr (List.replicate 81 0) (choice qsort (List.replicate 81 0)).toNat
          (SET_DIGIT 1)) (choice qsort (List.replicate 81 0)).toNat := by
      rw [hn0, replay_snoc s.history 0 _ (by rw [hlen]; omega), replay_zero,
        reapply_step_board _ _ hw1 (by rw [hw3]; simpa using hidx), hw3, hw5]
    have hrok : (replay (wr s.history s.idx_history.toNat (SET_INDEX
        (choice qsort (List.replicate 81 0)).toNat ||| SET_DIGIT 1 ||| CHOICE)) 1).1 = 0 := by
      rcases replay_ok_cases (wr s.history s.idx_history.toNat (SET_INDEX
          (choice qsort (List.replicate 81 0)).toNat ||| SET_DIGIT 1 ||| CHOICE)) 1
          (by rw [length_wr, hlen]; omega) with h | h
      · exact h
      · exfalso
        obtain ⟨k, hk, _, hk2⟩ := (replay_invalid_iff (wr s.history s.idx_history.toNat
          (SET_INDEX (choice qsort (List.replicate 81 0)).toNat ||| SET_DIGIT 1 ||| CHOICE)) 1
          (by rw [length_wr, hlen]; omega)).1 h
        have hk0 : k = 0 := by omega
        rw [hk0, replay_zero] at hk2
        rcases hk2 with h2 | h2
        · rw [(IS_EMPTY_iff _ _).2 (DIGIT_replicate _)] at h2
          exact absurd h2 (by decide)
        · exact h2 (DISALLOWED_replicate _ _)
    refine ⟨State.mk (update (wr (List.replicate 81 0)
      (choice qsort (List.replicate 81 0)).toNat (SET_DIGIT 1))
      (choice qsort (List.replicate 81 0)).toNat)
      (wr s.history s.idx_history.toNat (SET_INDEX
        (choice qsort (List.replicate 81 0)).toNat ||| SET_DIGIT 1 ||| CHOICE))
      (s.idx_history + 1) s.pass, ?_, ?_, ?_⟩
    · refine KeepInv_init _ 1 ?_ ?_ ?_ ?_ ?_ (le_refl _) ?_ ?_
      · dsimp only
        rw [length_wr, hlen]
      · dsimp only
        omega
      · intro k hk
        dsimp only at hk ⊢
        have : k = 0 := by omega
        rw [this, hrd]
        exact hw2
      · intro k hk
        dsimp only at hk ⊢
        have : k = 0 := by omega
        rw [this, hrd]
        exact hw1
      · unfold reapply
        dsimp only
        rw [hn1, ← hrep]
        rw [Prod.mk.injEq]
        exact ⟨hrok, rfl⟩
      · dsimp only
        omega
      · intro k hk1 hk
        omega
    · dsimp only
    · intro fuel
      have hdet : deterministic (fuel + 1) s =
          some (0, State.mk (List.replicate 81 0) s.history s.idx_history s.pass) := by
        unfold deterministic deterministic_loop
        rw [hb, allmoves_empty]
        rfl
      rw [solve, hdet]
      dsimp only
      rw [if_pos rfl, if_neg hc1, if_neg hc2, hcs, hadd]
      simp only [Option.map_some']
      rw [if_neg (by decide)]

end Sudoku

namespace Sudoku

/-! ## Claims C27 and C28: the board and the clues after `solve` -/

theorem Same_FIXED (b r : List Nat) (i : Nat) (hi : i < 81) (h : Same b r) :
    IS_FIXED b i = IS_FIXED r i := by
  unfold IS_FIXED
  apply Nat.eq_of_testBit_eq
  intro j
  have := congrArg (fun x => x.testBit j) (h.2 i hi).2
  simp only [Nat.testBit_or, Nat.testBit_and, testBit_STATE_MASK, testBit_FIXED] at this ⊢
  by_cases h20 : 20 = j
  · subst h20
    simpa using this
  · simp [h20]

/-- A board that is, up to mask bits, the valid replay of live records holds the digit
and the flag of every fixed record among them. -/
theorem Same_replay_clue (b hist : List Nat) (n k : Nat) (hk : k < n) (hn : n ≤ hist.length)
    (hwf : WFHistory hist n) (hlive : ∀ j < n, replayable (rd hist j))
    (hok : (replay hist n).1 = 0) (hS : Same b (replay hist n).2)
    (hfix : rd hist k &&& FIXED ≠ 0) :
    DIGIT b (GET_INDEX (rd hist k)) = GET_DIGIT (rd hist k) ∧
      IS_FIXED b (GET_INDEX (rd hist k)) ≠ 0 := by
  have hidx := (hwf k hk).1
  have h := replay_holds hist n k hn hk hwf hlive hok
  rw [(hS.2 _ hidx).1, Same_FIXED b _ _ hidx hS]
  exact ⟨h.1, h.2 hfix⟩

/-- The board equals the replay of the history when the invariant of the board holds and
the board is full. -/
theorem KeepInv.exact {m0 : Nat} {H0 : List Nat} {s : State} (h : KeepInv m0 H0 s)
    (hfull : ∀ c < 81, DIGIT s.board c ≠ 0) : reapply s = (0, s) := by
  have hb := Same_full_eq s.board _ h.same h.search.inv.board_wf h.search.inv.hist.replay_wf
    hfull
  unfold reapply
  dsimp only
  rw [← hb, h.search.inv.hist.ok]

/-- C27 (amended): for every starting state whose history is a list of fixed clues and
whose board is their valid replay, and for every sorting function used as `qsort`,
whenever `solve` returns 0, replaying the records of the history up to its current length
from the empty board is valid and reproduces the current board exactly: `reapply` returns
0 and leaves the state as it is. -/
theorem solve_success_replay (qsort : (Nat → Nat → Int) → List Nat → List Nat)
    (hq : ∀ c l, (qsort c l).Perm l) (fuel : Nat) (s s' : State)
    (hlen : s.history.length = 243) (h0 : 0 ≤ s.idx_history)
    (hclue : ∀ k < s.idx_history.toNat, ClueRec (rd s.history k))
    (hre : reapply s = (0, s)) (hs : solve qsort fuel s = some (0, s')) :
    reapply s' = (0, s') := by
  by_cases h1 : 1 ≤ s.idx_history.toNat
  · have hinv := KeepInv_init s s.idx_history.toNat hlen h0
      (fun k hk => ⟨(hclue k hk).1, (hclue k hk).2.2.1⟩)
      (fun k hk => ⟨(hclue k hk).2.2.2.2.2, by have := (hclue k hk).2.1; omega⟩)
      hre h1 (le_refl _) (fun k _ hk => (hclue k hk).2.2.2.2.1)
    obtain ⟨hk, hfull⟩ := (solve_Keep _ _ qsort hq fuel s s' 0 hinv hs).1 rfl
    exact hk.exact hfull
  · have hn : s.idx_history = 0 := by omega
    have hb : s.board = List.replicate 81 0 := by
      have h := hre
      unfold reapply at h
      simp only [Prod.mk.injEq] at h
      have hb := (congrArg State.board h.2).symm
      rw [hb]
      dsimp only
      rw [hn]
      rfl
    obtain ⟨s2, hinv, _, hstep⟩ := solve_empty_round qsort hq s hlen hn hb
    cases fuel with
    | zero =>
      unfold solve at hs
      exact absurd hs (by simp)
    | succ fuel =>
      rw [hstep fuel] at hs
      obtain ⟨hk, hfull⟩ := (solve_Keep _ _ qsort hq fuel s2 s' 0 hinv hs).1 rfl
      exact hk.exact hfull

set_option maxRecDepth 100000 in
set_option maxHeartbeats 2000000 in
/-- C27 (as stated, refuted): the nine clues of `clues_dead` are fixed clue records and the
board is their valid replay; `solve` returns -1 and leaves the history with length 0, so
that its replay is the empty board, while the board still holds the 1 in cell 0. -/
theorem solve_failure_board_stale :
    reapply (clues_state clues_dead) = (0, clues_state clues_dead) ∧
      (∀ k < 9, ClueRec (rd (clues_state clues_dead).history k)) ∧
      (solve qsort_model 3 (clues_state clues_dead)).map
        (fun p => (p.1, p.2.idx_history, DIGIT p.2.board 0,
          DIGIT (replay p.2.history p.2.idx_history.toNat).2 0)) = some (-1, 0, 1, 0) := by
  decide!

end Sudoku

namespace Sudoku

/-! ## Every candidate move is open on the board it was found on -/

theorem open_word (b : List Nat) (idx d hintcode : Nat) (hidx : idx < 81) (hd9 : d ≤ 9)
    (h1 : hintcode &&& INDEX_MASK = 0) (h2 : hintcode &&& DIGIT_MASK = 0)
    (h : DISALLOWED b idx d = 0) :
    DISALLOWED b (GET_INDEX (SET_INDEX idx ||| SET_DIGIT d ||| hintcode))
      (GET_DIGIT (SET_INDEX idx ||| SET_DIGIT d ||| hintcode)) = 0 := by
  rw [record_index _ _ _ (by omega) h1, record_digit _ _ _ (by omega) (by omega) h2]
  exact h

theorem singles_position_open (board : List Nat) (el : Nat) (idx_fn : Nat → Nat → Nat)
    (hintcode : Nat) (counts : List Nat) (hfn : ∀ j < 9, idx_fn el j < 81)
    (h1 : hintcode &&& INDEX_MASK = 0) (h2 : hintcode &&& DIGIT_MASK = 0)
    (c : Nat) (hc : c < 9) (possible : List Nat)
    (hp : ∀ p ∈ possible, DISALLOWED board (GET_INDEX p) (GET_DIGIT p) = 0) :
    ∀ p ∈ singles_position board el idx_fn hintcode counts c possible,
      DISALLOWED board (GET_INDEX p) (GET_DIGIT p) = 0 := by
  unfold singles_position
  split
  · split
    · rename_i j hj
      have hj9 := List.mem_range.1 (List.mem_of_find?_eq_some hj)
      have hjp := List.find?_some hj
      intro p hp'
      rcases List.mem_append.1 hp' with h | h
      · exact hp p h
      · rw [List.mem_singleton] at h
        rw [h]
        exact open_word _ _ _ _ (hfn j hj9) (by omega) h1 h2 (by simpa using hjp)
    · exact hp
  · exact hp

theorem singles_square_open (b : List Nat) (el : Nat) (idx_fn : Nat → Nat → Nat)
    (hintcode : Nat) (hfn : ∀ j < 9, idx_fn el j < 81)
    (h1 : hintcode &&& INDEX_MASK = 0) (h2 : hintcode &&& DIGIT_MASK = 0)
    (i : Nat) (hi : i < 9) (possible : List Nat)
    (hp : ∀ p ∈ possible, DISALLOWED b (GET_INDEX p) (GET_DIGIT p) = 0) :
    ∀ p ∈ singles_square b el idx_fn hintcode (count_set_digits b el idx_fn).1 i possible,
      DISALLOWED b (GET_INDEX p) (GET_DIGIT p) = 0 := by
  unfold singles_square
  dsimp only
  split
  · rename_i hd8
    have h8 := hd8.1
    rw [count_set_digits_digits _ _ _ i hi] at h8
    have h8' : (List.range 9).countP (fun t => (rd b (idx_fn el i)).testBit (7 + t)) = 8 := by
      exact_mod_cast h8
    obtain ⟨t0, ht0, hpt0, huniq⟩ := countP_eight_unique _ h8'
    have hmask := square_mask (rd b (idx_fn el i)) t0 ht0 (by
      intro t ht
      constructor
      · intro h
        exact huniq t ht h
      · intro h
        rw [h]
        exact hpt0)
    have hdig : singles_digit 32 ((STATE_MASK &&& (0xffffffff ^^^ STATE b (idx_fn el i))) >>>
        (STATE_SHIFT + 1)) 0 = t0 + 1 := by
      unfold STATE
      rw [hmask, singles_digit_two_pow 32 t0 0 (by omega)]
      omega
    rw [hdig]
    split
    · intro p hp'
      rcases List.mem_append.1 hp' with h | h
      · exact hp p h
      · rw [List.mem_singleton] at h
        rw [h]
        apply open_word _ _ _ _ (hfn i hi) (by omega) h1 h2
        rw [DISALLOWED_eq_zero_iff]
        have e : 6 + (t0 + 1) = 7 + t0 := by omega
        rw [e]
        exact hpt0
    · exact hp
  · exact hp

theorem singles_loop_open (b : List Nat) (el : Nat) (idx_fn : Nat → Nat → Nat)
    (hintcode : Nat) (hfn : ∀ j < 9, idx_fn el j < 81)
    (h1 : hintcode &&& INDEX_MASK = 0) (h2 : hintcode &&& DIGIT_MASK = 0)
    (fuel i : Nat) (possible : List Nat)
    (hp : ∀ p ∈ possible, DISALLOWED b (GET_INDEX p) (GET_DIGIT p) = 0) :
    ∀ p ∈ (singles_loop b el idx_fn hintcode (count_set_digits b el idx_fn).1
        (count_set_digits b el idx_fn).2 fuel i possible).2,
      DISALLOWED b (GET_INDEX p) (GET_DIGIT p) = 0 := by
  induction fuel generalizing i possible with
  | zero => exact hp
  | succ fuel ih =>
    unfold singles_loop
    by_cases hi : i < 9
    · rw [if_pos hi]
      dsimp only
      split
      · exact hp
      · apply ih
        apply singles_square_open _ _ _ _ hfn h1 h2 i hi
        exact singles_position_open _ _ _ _ _ hfn h1 h2 i hi possible hp
    · rw [if_neg hi]
      exact hp

theorem singles_open (b : List Nat) (el : Nat) (idx_fn : Nat → Nat → Nat)
    (hintcode : Nat) (hfn : ∀ j < 9, idx_fn el j < 81)
    (h1 : hintcode &&& INDEX_MASK = 0) (h2 : hintcode &&& DIGIT_MASK = 0)
    (possible : List Nat)
    (hp : ∀ p ∈ possible, DISALLOWED b (GET_INDEX p) (GET_DIGIT p) = 0) :
    ∀ p ∈ (singles b el idx_fn hintcode possible).2,
      DISALLOWED b (GET_INDEX p) (GET_DIGIT p) = 0 := by
  unfold singles
  exact singles_loop_open b el idx_fn hintcode hfn h1 h2 9 0 possible hp

theorem findmoves_loop_open (b : List Nat) (fuel el : Nat) (possible : List Nat)
    (hp : ∀ p ∈ possible, DISALLOWED b (GET_INDEX p) (GET_DIGIT p) = 0) :
    ∀ p ∈ (findmoves_loop b fuel el possible).2,
      DISALLOWED b (GET_INDEX p) (GET_DIGIT p) = 0 := by
  induction fuel generalizing el possible with
  | zero => exact hp
  | succ fuel ih =>
    unfold findmoves_loop
    by_cases hel : el < 9
    · rw [if_pos hel]
      dsimp only
      have g1 := singles_open b el idx_row HINT_ROW (fun j hj => idx_row_lt hel hj)
        (by decide) (by decide) possible hp
      have g2 := singles_open b el idx_column HINT_COLUMN
        (fun j hj => idx_column_lt hel hj) (by decide) (by decide) _ g1
      have g3 := singles_open b el idx_block HINT_BLOCK
        (fun j hj => idx_block_lt hel hj) (by decide) (by decide) _ g2
      split
      · exact g1
      · split
        · exact g2
        · split
          · exact g3
          · exact ih _ _ g3
    · rw [if_neg hel]
      exact hp

theorem findmoves_open (b : List Nat) :
    ∀ p ∈ (findmoves b).2, DISALLOWED b (GET_INDEX p) (GET_DIGIT p) = 0 := by
  unfold findmoves
  exact findmoves_loop_open b 9 0 [] (fun p hp => absurd hp (List.not_mem_nil p))

theorem triple_open (n : Int) (ps b : List Nat)
    (h : ∀ p ∈ ps, DISALLOWED b (GET_INDEX p) (GET_DIGIT p) = 0) :
    ∀ p ∈ (n, ps, b).2.1, DISALLOWED (n, ps, b).2.2 (GET_INDEX p) (GET_DIGIT p) = 0 := h

theorem triple_count (n : Int) (ps b : List Nat) (h : n = -1 ∨ n = (ps.length : Int)) :
    (n, ps, b).1 = -1 ∨ (n, ps, b).1 = ((n, ps, b).2.1.length : Int) := h

/-- Every candidate that `allmoves` reports is allowed on the board that it returns. -/
theorem allmoves_open (b : List Nat) :
    ∀ p ∈ (allmoves b).2.1, DISALLOWED (allmoves b).2.2 (GET_INDEX p) (GET_DIGIT p) = 0 := by
  rw [allmoves_eq]
  by_cases c1 : (findmoves b).1 ≠ 0
  · rw [if_pos c1]
    exact triple_open _ _ _ (findmoves_open _)
  · rw [if_neg c1]
    by_cases c2 : (findmoves ((List.range 9).foldl allmoves_pairs b)).1 ≠ 0
    · rw [if_pos c2]
      exact triple_open _ _ _ (findmoves_open _)
    · rw [if_neg c2]
      exact triple_open _ _ _ (findmoves_open _)

theorem findmoves_loop_count (b : List Nat) (fuel el : Nat) (possible : List Nat) :
    (findmoves_loop b fuel el possible).1 = -1 ∨
      (findmoves_loop b fuel el possible).1 = ((findmoves_loop b fuel el possible).2.length : Int) := by
  induction fuel generalizing el possible with
  | zero =>
    unfold findmoves_loop
    exact Or.inr rfl
  | succ fuel ih =>
    unfold findmoves_loop
    split
    · dsimp only
      split
      · exact Or.inl rfl
      · split
        · exact Or.inl rfl
        · split
          · exact Or.inl rfl
          · exact ih _ _
    · exact Or.inr rfl

theorem findmoves_count (b : List Nat) :
    (findmoves b).1 = -1 ∨ (findmoves b).1 = ((findmoves b).2.length : Int) := by
  unfold findmoves
  exact findmoves_loop_count b 9 0 []

/-- The count that `allmoves` returns is -1 or the number of candidates. -/
theorem allmoves_count (b : List Nat) :
    (allmoves b).1 = -1 ∨ (allmoves b).1 = ((allmoves b).2.1.length : Int) := by
  rw [allmoves_eq]
  by_cases c1 : (findmoves b).1 ≠ 0
  · rw [if_pos c1]
    exact triple_count _ _ _ (findmoves_count _)
  · rw [if_neg c1]
    by_cases c2 : (findmoves ((List.range 9).foldl allmoves_pairs b)).1 ≠ 0
    · rw [if_pos c2]
      exact triple_count _ _ _ (findmoves_count _)
    · rw [if_neg c2]
      exact triple_count _ _ _ (findmoves_count _)

end Sudoku

namespace Sudoku

/-! ## The solver on a board that one pass of forced moves completes -/

/-- On a complete board without conflicts `allmoves` finds no move and leaves the board
as it is. -/
theorem allmoves_full (b : List Nat) (hwf : BoardWF b) (hnc : NoConflict b)
    (hfull : ∀ c < 81, DIGIT b c ≠ 0) : allmoves b = (0, [], b) := by
  have hS : Solved b := Solved_of_full b hwf.digit_le hnc hfull
  have hg : Good b b := ⟨hwf, fun i hi => ⟨fun _ => rfl, fun h0 => absurd h0 (hfull i hi)⟩⟩
  obtain ⟨h1, h2, _⟩ := allmoves_sound b b hS hg
  have hA := allmoves_Above b hwf.len hwf.digit_le
  have hfull2 : ∀ i < 81, DIGIT (allmoves b).2.2 i ≠ 0 := by
    intro i hi
    rw [(hA.2 i hi).1]
    exact hfull i hi
  have hb : (allmoves b).2.2 = b :=
    Same_full_eq _ _ (allmoves_Same b hwf.len hwf.digit_le) h2.1 hwf hfull2
  have hp : (allmoves b).2.1 = [] := by
    apply List.eq_nil_iff_forall_not_mem.2
    intro p hp
    have hc := allmoves_CandOK b p hp
    exact h2.1.full _ hc.1 (hfull2 _ hc.1) _ hc.2.1 hc.2.2 (allmoves_open b p hp)
  have hn : (allmoves b).1 = 0 := by
    rcases allmoves_count b with h | h
    · exact absurd h h1
    · rw [h, hp]
      rfl
  exact Prod.ext hn (Prod.ext hp hb)

/-- On a complete board `choice` returns -1. -/
theorem choice_full (qsort : (Nat → Nat → Int) → List Nat → List Nat) (b : List Nat)
    (hfull : ∀ c < 81, DIGIT b c ≠ 0) : choice qsort b = -1 := by
  have hnil : (List.range' 0 (81 - 0)).filter (fun c => IS_EMPTY b c) = [] := by
    apply List.filter_eq_nil_iff.2
    intro c hc he
    have hc81 : c < 81 := by
      have := (List.mem_range'_1.1 hc).2
      omega
    exact hfull c hc81 ((IS_EMPTY_iff b c).1 he)
  rcases choice_scan_spec b 81 0 [] (by omega) with ⟨_, c, _, hc, h0, _⟩ | ⟨h, _⟩
  · exact absurd h0 (hfull c hc)
  · unfold choice
    rw [h, hnil]
    rfl

/-- On a complete board without conflicts `solve` returns 0 at once and changes
nothing. -/
theorem solve_full (qsort : (Nat → Nat → Int) → List Nat → List Nat) (fuel : Nat)
    (s : State) (hwf : BoardWF s.board) (hnc : NoConflict s.board)
    (hfull : ∀ c < 81, DIGIT s.board c ≠ 0) : solve qsort (fuel + 1) s = some (0, s) := by
  have hd : deterministic (fuel + 1) s = some (0, s) := by
    unfold deterministic deterministic_loop
    rw [allmoves_full s.board hwf hnc hfull]
    rfl
  unfold solve
  rw [hd]
  dsimp only
  rw [if_pos rfl, if_pos (choice_full qsort s.board hfull)]

/-- When the first scan of `findmoves` gives `n > 0` moves and filling them in completes
the board, `solve` returns 0 in the state that the fills leave. -/
theorem solve_pass_full (qsort : (Nat → Nat → Int) → List Nat → List Nat) (fuel : Nat)
    (s s2 : State) (n : Int) (ps : List Nat) (hinv : SolveInv s)
    (hfm : findmoves s.board = (n, ps)) (hn : 0 < n)
    (hfill : deterministic_fill (ps.take n.toNat)
      (State.mk s.board s.history s.idx_history (s.pass + 1)) = some (0, s2))
    (hfull : ∀ c < 81, DIGIT s2.board c ≠ 0) : solve qsort (fuel + 2) s = some (0, s2) := by
  have hall : allmoves s.board = (n, ps, s.board) := by
    rw [allmoves_eq, hfm]
    dsimp only
    rw [if_pos (by omega)]
  have hps : ∀ p ∈ ps.take n.toNat, CandOK p := by
    intro p hp
    have := findmoves_CandOK s.board p
    rw [hfm] at this
    exact this (List.mem_of_mem_take hp)
  have hinv2 : SolveInv s2 :=
    deterministic_fill_inv _ _ s2 0 (SolveInv_pass s (s.pass + 1) hinv) hps hfill
  have hwf := hinv2.board_wf
  have hnc := hinv2.no_conflict
  have hd : deterministic (fuel + 2) s = some (0, s2) := by
    unfold deterministic deterministic_loop
    rw [hall]
    dsimp only
    rw [if_pos hn, hfill]
    dsimp only
    rw [if_neg (by decide)]
    unfold deterministic_loop
    rw [allmoves_full s2.board hwf hnc hfull]
    rfl
  unfold solve
  rw [hd]
  dsimp only
  rw [if_pos rfl, if_pos (choice_full qsort s2.board hfull)]

/-- The template loop of `generate` keeps the invariant of the states built from
`reset`. -/
theorem generate_fill_fresh (digits tmplt : List Nat)
    (hdig : ∀ i < 9, 1 ≤ rd digits i ∧ rd digits i ≤ 9) (L : List Nat)
    (htm : ∀ i ∈ L, rd tmplt i < 81) (s s1 : State) (h : FreshInv s)
    (hr : L.foldl (generate_fill_step digits tmplt) (some s) = some s1) : FreshInv s1 := by
  induction L generalizing s with
  | nil =>
    simp only [List.foldl_nil, Option.some.injEq] at hr
    rw [← hr]
    exact h
  | cons i L ih =>
    rw [List.foldl_cons] at hr
    have hd := hdig (i % 9) (Nat.mod_lt _ (by decide))
    obtain ⟨r, h1, h2⟩ := FreshInv_fill s (rd tmplt i) (rd digits (i % 9)) h
      (htm i (List.mem_cons_self _ _)) hd.1 hd.2
    have hstep : generate_fill_step digits tmplt (some s) i = some r.2 := by
      unfold generate_fill_step
      dsimp only
      rw [h1]
      rfl
    rw [hstep] at hr
    exact ih (fun j hj => htm j (List.mem_cons_of_mem _ hj)) r.2 h2 hr

/-- A state built from `reset` by fills satisfies the invariant of the solver. -/
theorem SolveInv_of_fresh (s : State) (h : FreshInv s) : SolveInv s := by
  have hle : s.idx_history ≤ 243 := by
    have h1 := h.card
    have h2 := filled_card_le s.board
    have h3 := h.nonneg
    omega
  refine ⟨⟨h.hlen, h.nonneg, hle, h.wf, by rw [h.rep]⟩, ?_⟩
  rw [h.rep]
  exact Above_refl _ h.fresh_board_wf.len

/-! ## The example round of `generate`, second part -/

set_option maxRecDepth 100000 in
set_option maxHeartbeats 2000000 in
theorem clued_failing_moves3 :
    findmoves_loop clued_failing.board 3 0 [] = (8, moves3_failing) := by
  decide!

set_option maxRecDepth 100000 in
set_option maxHeartbeats 2000000 in
theorem clued_failing_moves6 :
    findmoves_loop clued_failing.board 3 3 moves3_failing = (10, moves6_failing) := by
  decide!

set_option maxRecDepth 100000 in
set_option maxHeartbeats 2000000 in
theorem clued_failing_moves9 :
    findmoves_loop clued_failing.board 3 6 moves6_failing = (12, moves_failing) := by
  decide!

/-- On the 79 clues of the example round `findmoves` finds the digits of the two empty
cells. -/
theorem clued_failing_moves :
    findmoves clued_failing.board = (12, moves_failing) :=
  findmoves_of_thirds clued_failing.board _ _ _ 8 10 12 clued_failing_moves3 (by decide)
    clued_failing_moves6 (by decide) clued_failing_moves9

set_option maxRecDepth 100000 in
set_option maxHeartbeats 2000000 in
theorem clued_failing_fill :
    deterministic_fill (List.take (12 : Int).toNat moves_failing)
      (State.mk clued_failing.board clued_failing.history clued_failing.idx_history
        (clued_failing.pass + 1)) = some (0, resolved_failing) := by
  decide!

set_option maxRecDepth 100000 in
set_option maxHeartbeats 2000000 in
theorem clued_failing_inv : SolveInv clued_failing :=
  SolveInv_of_reapply clued_failing (by decide!) (by decide!) (by decide!) (by decide!)
    (reapply_of_replay clued_failing (26 + 26 + 27) (by decide) clued_failing_replay)

set_option maxRecDepth 100000 in
set_option maxHeartbeats 2000000 in
/-- On the 79 clues of the example round `solve` returns 0 and leaves the board complete. -/
theorem resolved_failing_eq :
    solve qsort_model 10 clued_failing = some (0, resolved_failing) :=
  solve_pass_full qsort_model 8 clued_failing resolved_failing 12 _ clued_failing_inv
    clued_failing_moves (by decide) clued_failing_fill (by decide!)

set_option maxRecDepth 100000 in
set_option maxHeartbeats 2000000 in
theorem filled_example_moves3 :
    findmoves_loop filled_example.board 3 0 [] = (12, moves3_example) := by
  decide!

set_option maxRecDepth 100000 in
set_option maxHeartbeats 2000000 in
theorem filled_example_moves6 :
    findmoves_loop filled_example.board 3 3 moves3_example = (16, moves6_example) := by
  decide!

set_option maxRecDepth 100000 in
set_option maxHeartbeats 2000000 in
theorem filled_example_moves9 :
    findmoves_loop filled_example.board 3 6 moves6_example = (18, moves_example) := by
  decide!

/-- After the 78 fills of the example round `findmoves` finds the digits of the three
empty cells. -/
theorem filled_example_moves :
    findmoves filled_example.board = (18, moves_example) :=
  findmoves_of_thirds filled_example.board _ _ _ 12 16 18 filled_example_moves3 (by decide)
    filled_example_moves6 (by decide) filled_example_moves9

set_option maxRecDepth 100000 in
set_option maxHeartbeats 2000000 in
theorem filled_example_fill :
    deterministic_fill (List.take (18 : Int).toNat moves_example)
      (State.mk filled_example.board filled_example.history filled_example.idx_history
        (filled_example.pass + 1)) = some (0, completed_example) := by
  decide!

theorem filled_example_inv : SolveInv filled_example :=
  SolveInv_of_fresh filled_example
    (generate_fill_fresh digits_example template_example (by decide) _ (by decide) reset
      filled_example FreshInv_reset filled_example_eq)

set_option maxRecDepth 100000 in
set_option maxHeartbeats 2000000 in
theorem completed_example_eq :
    solve qsort_model 10 filled_example = some (0, completed_example) :=
  solve_pass_full qsort_model 8 filled_example completed_example 18 _ filled_example_inv
    filled_example_moves (by decide) filled_example_fill (by decide!)

/-- The round of `generate` on the example template followed by cell 5, whose fill
fails, is accepted and ends in `generated_failing`. -/
theorem generated_failing_round :
    generate_attempt qsort_model 10 digits_example (template_example ++ [5]) none =
      some (some generated_failing) :=
  generate_attempt_none qsort_model 10 digits_example (template_example ++ [5])
    generated_failing
    (generate_round_steps qsort_model 10 digits_example (template_example ++ [5])
      filled_example completed_example clued_failing resolved_failing generated_failing
      filled_failing_eq completed_example_eq (by decide) clued_failing_eq resolved_failing_eq
      (by decide) generated_failing_eq)

set_option maxRecDepth 100000 in
set_option maxHeartbeats 2000000 in
theorem solve_success_solved_witness : Solved resolved_failing.board :=
  solve_success_solved qsort_model qsort_model_perm 10 clued_failing resolved_failing
    (by decide!) (by decide!) (by decide!) (by decide!)
    (reapply_of_replay clued_failing (26 + 26 + 27) (by decide) clued_failing_replay)
    resolved_failing_eq

set_option maxRecDepth 100000 in
theorem generate_unique_witness :
    ∃ nf, 1 ≤ nf ∧ nf ≤ 81 ∧
      (∀ k < nf, ClueRec (rd generated_failing.history k)) ∧
      NoFixedFrom nf generated_failing.history ∧
      (∃ F, Solved F ∧ Agree F generated_failing.history nf) ∧
      (∀ G G', Solved G → Agree G generated_failing.history nf →
        Solved G' → Agree G' generated_failing.history nf → SameDigits G G') ∧
      ∀ s', generate_finish qsort_model 10 generated_failing = some s' →
        s'.idx_history = (nf : Int) ∧ NoFixedFrom nf s'.history ∧
        ∀ k < nf, rd s'.history k = rd generated_failing.history k :=
  generate_unique qsort_model qsort_model_perm 10 digits_example (template_example ++ [5])
    none generated_failing (by decide!) (by decide!) generated_failing_round

/-- C29 (as stated, refuted): with the digits in the order 1..9 and the template
`template_failing`, the 79th fill of the attempt is `fill(5, 7)` on the board left by the
first 78 fills; it fails, and the attempt is accepted all the same: the round ends in
`generated_failing`, whose clues include cell 5. -/
theorem generate_accepts_failed_fill :
    template_failing = template_example ++ [5] ∧
    generate_fill digits_example template_example reset = some filled_example ∧
    fill filled_example 5 7 = some (-1, filled_example) ∧
    generate_attempt qsort_model 10 digits_example (template_example ++ [5]) none =
      some (some generated_failing) ∧
    IS_FIXED generated_failing.board 5 ≠ 0 :=
  ⟨rfl, filled_example_eq, failing_fill_eq, generated_failing_round, by decide⟩

set_option maxRecDepth 100000 in
set_option maxHeartbeats 2000000 in
theorem solve_success_replay_witness : reapply resolved_failing = (0, resolved_failing) :=
  solve_success_replay qsort_model qsort_model_perm 10 clued_failing resolved_failing
    (by decide!) (by decide!) (by decide!)
    (reapply_of_replay clued_failing (26 + 26 + 27) (by decide) clued_failing_replay)
    resolved_failing_eq

end Sudoku

namespace Sudoku

/-! ## The weight of the history grows along the search -/

theorem weight_succ (h : List Nat) (n : Nat) :
    weight h (n + 1) = weight h n + GET_DIGIT (rd h n) * 10 ^ (80 - n) := rfl

theorem weight_congr (h h' : List Nat) (n : Nat) (he : ∀ k < n, rd h' k = rd h k) :
    weight h' n = weight h n := by
  induction n with
  | zero => rfl
  | succ n ih =>
    rw [weight_succ, weight_succ, ih (fun k hk => he k (by omega)), he n (by omega)]

theorem weight_mono (h : List Nat) (n n' : Nat) (hn : n ≤ n') : weight h n ≤ weight h n' := by
  induction n' with
  | zero =>
    have : n = 0 := by omega
    rw [this]
  | succ m ih =>
    by_cases hm : n = m + 1
    · rw [hm]
    · have := ih (by omega)
      rw [weight_succ]
      omega

/-- The records behind position `k` weigh less than one unit of position `k - 1`. -/
theorem weight_bound (h : List Nat) (k n : Nat) (hk : k ≤ n) (hn : n ≤ 81)
    (hd : ∀ j < n, GET_DIGIT (rd h j) ≤ 9) :
    weight h n + 10 ^ (81 - n) ≤ weight h k + 10 ^ (81 - k) := by
  induction n with
  | zero =>
    have : k = 0 := by omega
    rw [this]
  | succ m ih =>
    by_cases hm : k = m + 1
    · rw [hm]
    · have h1 := ih (by omega) (by omega) (fun j hj => hd j (by omega))
      have h2 := hd m (by omega)
      have e : 81 - m = (81 - (m + 1)) + 1 := by omega
      have e2 : 80 - m = 81 - (m + 1) := by omega
      rw [e, pow_succ] at h1
      rw [weight_succ, e2]
      have h3 : GET_DIGIT (rd h m) * 10 ^ (81 - (m + 1)) ≤ 9 * 10 ^ (81 - (m + 1)) :=
        Nat.mul_le_mul_right _ h2
      omega

theorem weight_lt (h : List Nat) (n : Nat) (hn : n ≤ 81)
    (hd : ∀ j < n, GET_DIGIT (rd h j) ≤ 9) : weight h n < 10 ^ 81 := by
  have h1 := weight_bound h 0 n (by omega) hn hd
  have h2 : 0 < 10 ^ (81 - n) := by positivity
  have h3 : weight h 0 = 0 := rfl
  rw [h3] at h1
  have e : 81 - 0 = 81 := rfl
  rw [e] at h1
  omega

theorem Ext_weight (h : List Nat) (n : Nat) (h' : List Nat) (n' : Nat) (he : Ext h n h' n') :
    weight h n ≤ weight h' n' := by
  rw [← weight_congr h h' n he.2]
  exact weight_mono h' n n' he.1

theorem Adv_weight (h : List Nat) (n : Nat) (h' : List Nat) (n' : Nat) (ha : Adv h n h' n')
    (hn : n ≤ 81) (hd : ∀ j < n, GET_DIGIT (rd h j) ≤ 9) : weight h n < weight h' n' := by
  obtain ⟨k, hk, hk', hpre, _, _, _, hdig⟩ := ha
  have h1 := weight_mono h' (k + 1) n' (by omega)
  have h2 := weight_bound h (k + 1) n (by omega) hn hd
  have h3 : weight h' (k + 1) = weight h k + GET_DIGIT (rd h' k) * 10 ^ (80 - k) := by
    rw [weight_succ, weight_congr h h' k hpre]
  have h4 : weight h (k + 1) = weight h k + GET_DIGIT (rd h k) * 10 ^ (80 - k) :=
    weight_succ h k
  have e : 81 - (k + 1) = 80 - k := by omega
  rw [e] at h2
  have h5 : (GET_DIGIT (rd h k) + 1) * 10 ^ (80 - k) ≤ GET_DIGIT (rd h' k) * 10 ^ (80 - k) :=
    Nat.mul_le_mul_right _ (by omega)
  rw [Nat.add_mul, Nat.one_mul] at h5
  have h6 : 0 < 10 ^ (81 - n) := by positivity
  omega

theorem weight_snoc (h : List Nat) (n w : Nat) (hn : n < h.length)
    (hd : 1 ≤ GET_DIGIT w) : weight h n < weight (wr h n w) (n + 1) := by
  have h1 : weight (wr h n w) (n + 1) = weight h n + GET_DIGIT w * 10 ^ (80 - n) := by
    rw [weight_succ, rd_wr_self _ _ _ hn,
      weight_congr h (wr h n w) n (fun k hk => rd_wr_ne _ _ _ _ (by omega))]
  have h2 : 0 < 10 ^ (80 - n) := by positivity
  have h3 : 1 * 10 ^ (80 - n) ≤ GET_DIGIT w * 10 ^ (80 - n) := Nat.mul_le_mul_right _ hd
  omega

end Sudoku

namespace Sudoku

/-! ## `solve` returns -/

/-- Under the invariant `fill` returns; it adds a record when the digit is allowed. -/
theorem fill_total (m0 : Nat) (H0 : List Nat) (s : State) (idx d : Nat)
    (h : KeepInv m0 H0 s) (hidx : idx < 81) (hd1 : 1 ≤ d) (hd9 : d ≤ 9) :
    ∃ r s', fill s idx d = some (r, s') ∧ KeepInv m0 H0 s' ∧
      s.idx_history ≤ s'.idx_history ∧
      (DISALLOWED s.board idx d = 0 → s'.idx_history = s.idx_history + 1) := by
  by_cases he : IS_EMPTY s.board idx = true
  · by_cases hd : DISALLOWED s.board idx d = 0
    · have hempty : DIGIT s.board idx = 0 := (IS_EMPTY_iff _ _).1 he
      obtain ⟨hadd, hinv⟩ := KeepInv_place m0 H0 s idx d 0 h hidx hd1 hd9 (Or.inl rfl) hempty hd
      refine ⟨0, _, ?_, hinv, ?_, fun _ => rfl⟩
      · unfold fill
        simp only [he, not_true_eq_false, if_false, hd, ne_eq]
        rw [hadd]
        rfl
      · dsimp only
        omega
    · refine ⟨-1, s, ?_, h, le_refl _, fun hc => absurd hc hd⟩
      unfold fill
      simp [he, hd]
  · refine ⟨if DIGIT s.board idx = d then 0 else -1, s, ?_, h, le_refl _, ?_⟩
    · unfold fill
      simp [he]
    · intro hc
      exfalso
      have hne : DIGIT s.board idx ≠ 0 := by
        intro h0
        exact he ((IS_EMPTY_iff _ _).2 h0)
      exact h.search.inv.board_wf.full idx hidx hne d hd1 hd9 hc

/-- Under the invariant the loop over the candidates returns; it adds a record when the
first candidate is allowed. -/
theorem deterministic_fill_total (m0 : Nat) (H0 : List Nat) (ps : List Nat) (s : State)
    (h : KeepInv m0 H0 s) (hps : ∀ p ∈ ps, CandOK p) :
    ∃ x s', deterministic_fill ps s = some (x, s') ∧ KeepInv m0 H0 s' ∧
      s.idx_history ≤ s'.idx_history ∧
      (∀ p0 rest, ps = p0 :: rest → DISALLOWED s.board (GET_INDEX p0) (GET_DIGIT p0) = 0 →
        s.idx_history + 1 ≤ s'.idx_history) := by
  induction ps generalizing s with
  | nil =>
    refine ⟨0, s, rfl, h, le_refl _, ?_⟩
    intro p0 rest hc
    exact absurd hc (by simp)
  | cons p ps ih =>
    have hp := hps p (List.mem_cons_self _ _)
    obtain ⟨r, s1, hf, h1, hle, hopen⟩ := fill_total m0 H0 s _ _ h hp.1 hp.2.1 hp.2.2
    by_cases hr1 : r = -1
    · refine ⟨-1, s1, ?_, h1, hle, ?_⟩
      · unfold deterministic_fill
        rw [hf]
        dsimp only
        rw [if_pos hr1]
      · intro p0 rest hc ho
        simp only [List.cons.injEq] at hc
        rw [← hc.1] at ho
        have := hopen ho
        omega
    · obtain ⟨x, s2, hf2, h2, hle2, _⟩ := ih s1 h1 (fun q hq => hps q (List.mem_cons_of_mem _ hq))
      refine ⟨x, s2, ?_, h2, by omega, ?_⟩
      · unfold deterministic_fill
        rw [hf]
        dsimp only
        rw [if_neg hr1]
        exact hf2
      · intro p0 rest hc ho
        simp only [List.cons.injEq] at hc
        rw [← hc.1] at ho
        have := hopen ho
        omega

/-- Under the invariant the loop of `deterministic` returns when given 82 rounds less
the number of records. -/
theorem deterministic_loop_total (m0 : Nat) (H0 : List Nat) (fuel : Nat)
    (r : Int × List Nat × List Nat) (s : State) (h : KeepInv m0 H0 s)
    (hr : r = allmoves s.board) (hf : 82 ≤ fuel + s.idx_history.toNat) :
    ∃ x s', deterministic_loop fuel r s = some (x, s') := by
  induction fuel generalizing r s with
  | zero =>
    have := h.search.n_le
    omega
  | succ fuel ih =>
    have hwf := h.search.inv.board_wf
    have hab : Above r.2.2 s.board := by
      rw [hr]
      exact allmoves_Above s.board hwf.len hwf.digit_le
    have hsb : Same r.2.2 s.board := by
      rw [hr]
      exact allmoves_Same s.board hwf.len hwf.digit_le
    unfold deterministic_loop
    dsimp only
    by_cases hn : 0 < r.1
    · rw [if_pos hn]
      have h1 := KeepInv_board m0 H0 s r.2.2 (s.pass + 1) h hab hsb
      have hcand : ∀ p ∈ r.2.1.take r.1.toNat, CandOK p := by
        intro p hp
        rw [hr] at hp
        exact allmoves_CandOK s.board p (List.mem_of_mem_take hp)
      obtain ⟨x, s2, hf2, h2, hle2, hprog⟩ := deterministic_fill_total m0 H0
        (r.2.1.take r.1.toNat) (State.mk r.2.2 s.history s.idx_history (s.pass + 1)) h1 hcand
      rw [hf2]
      dsimp only
      by_cases hx : x = -1
      · rw [if_pos hx]
        exact ⟨_, _, rfl⟩
      · rw [if_neg hx]
        have hcount : r.1 = (r.2.1.length : Int) := by
          rcases allmoves_count s.board with hc | hc
          · rw [← hr] at hc
            omega
          · rw [← hr] at hc
            exact hc
        have hne : r.2.1.take r.1.toNat ≠ [] := by
          intro hc
          have := congrArg List.length hc
          rw [List.length_take] at this
          simp only [List.length_nil] at this
          omega
        obtain ⟨p0, rest, hcons⟩ := List.exists_cons_of_ne_nil hne
        have hmem : p0 ∈ r.2.1 := by
          apply List.mem_of_mem_take (n := r.1.toNat)
          rw [hcons]
          exact List.mem_cons_self _ _
        have hopen : DISALLOWED r.2.2 (GET_INDEX p0) (GET_DIGIT p0) = 0 := by
          rw [hr] at hmem ⊢
          exact allmoves_open s.board p0 hmem
        have hp := hprog p0 rest hcons hopen
        dsimp only at hp
        have hnn := h.search.inv.hist.nonneg
        exact ih (allmoves s2.board) s2 h2 rfl (by omega)
    · rw [if_neg hn]
      exact ⟨_, _, rfl⟩

theorem deterministic_total (m0 : Nat) (H0 : List Nat) (fuel : Nat) (s : State)
    (h : KeepInv m0 H0 s) (hf : 82 ≤ fuel + s.idx_history.toNat) :
    ∃ x s', deterministic fuel s = some (x, s') := by
  unfold deterministic
  exact deterministic_loop_total m0 H0 fuel _ s h rfl hf

end Sudoku

namespace Sudoku

theorem backtrack_total (s : State) (h0 : 0 ≤ s.idx_history) (hcap : s.idx_history ≤ 242) :
    ∃ b s', backtrack s = some (b, s') := by
  obtain ⟨r, s', hr, _⟩ := backtrack_loop_spec (s.idx_history.toNat + 1) s.history
    s.idx_history.toNat s.board s.pass (by omega) (by omega)
  refine ⟨r, s', ?_⟩
  unfold backtrack
  have e : ((s.idx_history.toNat : Nat) : Int) = s.idx_history := by omega
  rw [e] at hr
  exact hr

theorem KeepInv.weight_below {m0 : Nat} {H0 : List Nat} {s : State} (h : KeepInv m0 H0 s) :
    weight s.history s.idx_history.toNat < 10 ^ 81 :=
  Sudoku.weight_lt s.history _ h.search.n_le (fun j hj => (h.search.inv.hist.wf j hj).2)

/-- Under the invariant `solve` returns when given `10 ^ 81 + 82` rounds less the weight
of the history: every round that does not return adds a record or advances a choice. -/
theorem solve_total (m0 : Nat) (H0 : List Nat)
    (qsort : (Nat → Nat → Int) → List Nat → List Nat)
    (hq : ∀ c l, (qsort c l).Perm l) (fuel : Nat) (s : State) (h : KeepInv m0 H0 s)
    (hf : 10 ^ 81 + 82 ≤ fuel + weight s.history s.idx_history.toNat) :
    ∃ r s', solve qsort fuel s = some (r, s') := by
  induction fuel generalizing s with
  | zero =>
    have := h.weight_below
    omega
  | succ fuel ih =>
    have hw := h.weight_below
    obtain ⟨x, s1, hd⟩ := deterministic_total m0 H0 (fuel + 1) s h (by omega)
    have h1 := deterministic_Keep m0 H0 _ s s1 x h hd
    have hext := (deterministic_search (fun _ => False) (fun _ => True) m0 H0
      (fun _ hG => absurd hG id) WordClosed_true (fuel + 1) s s1 x h.search hd).2.2
    have hw1 := Ext_weight _ _ _ _ hext
    have hback : ∀ t : State, KeepInv m0 H0 t →
        weight s.history s.idx_history.toNat ≤ weight t.history t.idx_history.toNat →
        ∃ r s', (match backtrack t with
          | none => none
          | some (b, s2) => if b = -1 then some (-1, s2) else solve qsort fuel s2)
          = some (r, s') := by
      intro t ht hwt
      have hn := ht.search.n_le
      obtain ⟨b, s2, hb⟩ := backtrack_total t ht.search.inv.hist.nonneg
        (by have := ht.search.inv.hist.nonneg; omega)
      rw [hb]
      dsimp only
      by_cases hb1 : b = -1
      · rw [if_pos hb1]
        exact ⟨_, _, rfl⟩
      · rw [if_neg hb1]
        have hk2 := (backtrack_Keep m0 H0 t s2 b ht hb).1 hb1
        have hadv := ((backtrack_search (fun _ => False) (fun _ => True) m0 H0
          (fun _ hG => absurd hG id) WordClosed_true t s2 b ht.search (Dead_empty t) hb).1
          hb1).2
        have := Adv_weight _ _ _ _ hadv hn (fun j hj => (ht.search.inv.hist.wf j hj).2)
        exact ih s2 hk2 (by omega)
    rw [solve, hd]
    dsimp only
    by_cases hr0 : x = 0
    · rw [if_pos hr0]
      by_cases hc1 : choice qsort s1.board = -1
      · rw [if_pos hc1]
        exact ⟨_, _, rfl⟩
      · rw [if_neg hc1]
        by_cases hc2 : choice qsort s1.board < 0
        · rw [if_pos hc2]
          exact hback s1 h1 hw1
        · rw [if_neg hc2]
          have hidx := choice_index qsort hq s1.board (by omega)
          have hempty := choice_empty qsort hq s1.board (by omega)
          rcases choose_spec s1 (choice qsort s1.board).toNat 1 with
            ⟨hfail, hall⟩ | ⟨d, hd1, hd9, hallow, hmin, hcs⟩
          · rw [hfail]
            dsimp only
            rw [if_pos rfl]
            exact hback s1 h1 hw1
          · obtain ⟨hadd, hinv⟩ := KeepInv_place m0 H0 s1 _ d CHOICE h1 hidx hd1 hd9
              (Or.inr rfl) hempty hallow
            rw [hcs, hadd]
            simp only [Option.map_some']
            have hdne : ¬ ((d : Nat) : Int) = -1 := by omega
            rw [if_neg hdne]
            apply ih _ hinv
            dsimp only
            have hn1 := h1.search.n_lt _ hidx hempty
            have hnn := h1.search.inv.hist.nonneg
            have e : (s1.idx_history + 1).toNat = s1.idx_history.toNat + 1 := by omega
            rw [e]
            have := weight_snoc s1.history s1.idx_history.toNat
              (SET_INDEX (choice qsort s1.board).toNat ||| SET_DIGIT d ||| CHOICE)
              (by rw [h1.search.inv.hist.hlen]; omega)
              (by
                rw [(word_replayable _ d CHOICE hidx hd1 hd9 (Or.inr rfl)).2.2.2.1]
                exact hd1)
            omega
    · rw [if_neg hr0]
      exact hback s1 h1 hw1

end Sudoku

namespace Sudoku

/-! ## Claim C30: `classify` -/

theorem foldl_sub_count (p : Nat → Prop) [DecidablePred p] (c : Int) (L : List Nat)
    (init : Int) :
    L.foldl (fun sc i => if p i then sc - c else sc) init =
      init - c * ((L.filter (fun i => p i)).length : Int) := by
  induction L generalizing init with
  | nil => simp
  | cons x L ih =>
    rw [List.foldl_cons, ih]
    by_cases hx : p x
    · rw [if_pos hx, List.filter_cons_of_pos (by simpa using hx), List.length_cons]
      push_cast
      ring
    · rw [if_neg hx, List.filter_cons_of_neg (by simpa using hx)]

theorem class_name_by_score_eq (pass : Nat) (score : Int) :
    class_name_by_score pass score = label_stated pass score := rfl

theorem filled_full (b : List Nat) (hfull : ∀ c < 81, DIGIT b c ≠ 0) : (filled b).card = 81 := by
  unfold filled
  rw [Finset.filter_true_of_mem (fun i hi => hfull i (Finset.mem_range.1 hi))]
  exact Finset.card_range 81

/-- When `solve` returns -1 on a board of fixed clues, no complete valid grid agrees with
the clues. -/
theorem exhausted_no_grid (qsort : (Nat → Nat → Int) → List Nat → List Nat)
    (hq : ∀ c l, (qsort c l).Perm l) (fuel : Nat) (s s' : State)
    (hlen : s.history.length = 243) (h0 : 0 ≤ s.idx_history)
    (hclue : ∀ k < s.idx_history.toNat, ClueRec (rd s.history k))
    (hre : reapply s = (0, s)) (hs : solve qsort fuel s = some (-1, s')) :
    ¬ ∃ G, Solved G ∧ Agree G s.history s.idx_history.toNat := by
  rintro ⟨G, hG, ha⟩
  by_cases h1 : 1 ≤ s.idx_history.toNat
  · have hinv := SearchInv_init Solved (fun _ => True) (fun _ h => h) s hlen h0 hclue hre h1
      trivial
    have := (solve_search Solved (fun _ => True) _ _ (fun _ h => h)
      WordClosed_true qsort hq fuel s s' (-1) hinv hs).2 (by decide)
    exact this.2.1 G hG ha
  · have hn : s.idx_history = 0 := by omega
    have hb : s.board = List.replicate 81 0 := by
      have h := hre
      unfold reapply at h
      simp only [Prod.mk.injEq] at h
      have hb := (congrArg State.board h.2).symm
      rw [hb]
      dsimp only
      rw [hn]
      rfl
    obtain ⟨s2, fuel2, hinv, hr, hi, hd, hs2⟩ := solve_empty_start Solved (fun _ => True)
      (fun _ h => h) WordClosed_true qsort hq fuel s s' (-1) hlen hn hb trivial hs
    have := (solve_search Solved (fun _ => True) _ _ (fun _ h => h)
      WordClosed_true qsort hq fuel2 s2 s' (-1) hinv hs2).2 (by decide)
    obtain ⟨hS, hone⟩ := grid_with_one_solved _ hi
    apply this.2.1 _ hS
    intro k hk _
    have hk0 : k = 0 := by omega
    rw [hk0, hone, hd]

/-- What `solve` leaves after a success, under the invariant of the board: a complete
valid grid, 81 live records, and a state that is its own valid replay. -/
theorem KeepInv.complete {m0 : Nat} {H0 : List Nat} {s : State} (h : KeepInv m0 H0 s)
    (hfull : ∀ c < 81, DIGIT s.board c ≠ 0) : Solved s.board ∧ s.idx_history = 81 := by
  refine ⟨Solved_of_full s.board h.search.inv.board_wf.digit_le h.search.inv.no_conflict hfull,
    ?_⟩
  have := h.search.card
  rw [filled_full _ hfull] at this
  have := h.search.inv.hist.nonneg
  omega

/-- On a board of fixed clues `solve` returns when given `10 ^ 81 + 83` rounds: with 0, a
complete valid grid that agrees with the clues and 81 live records; or with -1, and then
no complete valid grid agrees with the clues. -/
theorem solve_outcome (qsort : (Nat → Nat → Int) → List Nat → List Nat)
    (hq : ∀ c l, (qsort c l).Perm l) (fuel : Nat) (hf : 10 ^ 81 + 83 ≤ fuel) (s : State)
    (hlen : s.history.length = 243) (h0 : 0 ≤ s.idx_history)
    (hclue : ∀ k < s.idx_history.toNat, ClueRec (rd s.history k))
    (hre : reapply s = (0, s)) :
    ∃ r s', solve qsort fuel s = some (r, s') ∧
      ((r = 0 ∧ Solved s'.board ∧ Agree s'.board s.history s.idx_history.toNat ∧
          s'.idx_history = 81) ∨
        (r = -1 ∧ ¬ ∃ G, Solved G ∧ Agree G s.history s.idx_history.toNat)) := by
  by_cases h1 : 1 ≤ s.idx_history.toNat
  · have hwf : WFHistory s.history s.idx_history.toNat :=
      fun k hk => ⟨(hclue k hk).1, (hclue k hk).2.2.1⟩
    have hlive : ∀ k < s.idx_history.toNat, replayable (rd s.history k) :=
      fun k hk => ⟨(hclue k hk).2.2.2.2.2, by have := (hclue k hk).2.1; omega⟩
    have hinv := KeepInv_init s s.idx_history.toNat hlen h0 hwf hlive hre h1 (le_refl _)
      (fun k _ hk => (hclue k hk).2.2.2.2.1)
    obtain ⟨r, s', hs⟩ := solve_total _ _ qsort hq fuel s hinv (by omega)
    refine ⟨r, s', hs, ?_⟩
    have hres := solve_Keep _ _ qsort hq fuel s s' r hinv hs
    by_cases hr : r = 0
    · left
      obtain ⟨hK, hfull⟩ := hres.1 hr
      obtain ⟨hS, h81⟩ := hK.complete hfull
      refine ⟨hr, hS, ?_, h81⟩
      intro k hk _
      have hpre := hK.search.pre k hk
      have := Same_replay_clue s'.board s'.history _ k (by have := hK.search.base; omega)
        (by rw [hK.search.inv.hist.hlen]; have := hK.search.n_le; omega)
        hK.search.inv.hist.wf hK.search.live hK.search.inv.hist.ok hK.same
        (by rw [hpre]; exact (hclue k hk).2.2.2.1)
      rw [hpre] at this
      exact this.1
    · right
      have hr1 := (hres.2 hr).1
      rw [hr1] at hs
      exact ⟨hr1, exhausted_no_grid qsort hq fuel s s' hlen h0 hclue hre hs⟩
  · have hn : s.idx_history = 0 := by omega
    have hb : s.board = List.replicate 81 0 := by
      have h := hre
      unfold reapply at h
      simp only [Prod.mk.injEq] at h
      have hb := (congrArg State.board h.2).symm
      rw [hb]
      dsimp only
      rw [hn]
      rfl
    obtain ⟨s2, hinv, _, hstep⟩ := solve_empty_round qsort hq s hlen hn hb
    obtain ⟨fuel1, hfuel⟩ : ∃ f, fuel = f + 1 := ⟨fuel - 1, by omega⟩
    obtain ⟨r, s', hs2⟩ := solve_total _ _ qsort hq fuel1 s2 hinv (by omega)
    have hs : solve qsort fuel s = some (r, s') := by
      rw [hfuel, hstep fuel1]
      exact hs2
    refine ⟨r, s', hs, ?_⟩
    have hres := solve_Keep _ _ qsort hq fuel1 s2 s' r hinv hs2
    by_cases hr : r = 0
    · left
      obtain ⟨hK, hfull⟩ := hres.1 hr
      obtain ⟨hS, h81⟩ := hK.complete hfull
      refine ⟨hr, hS, ?_, h81⟩
      intro k hk _
      omega
    · right
      have hr1 := (hres.2 hr).1
      rw [hr1] at hs
      exact ⟨hr1, exhausted_no_grid qsort hq fuel s s' hlen h0 hclue hre hs⟩

end Sudoku

namespace Sudoku

theorem classify_score (s : State) :
    (List.range 81).foldl
      (fun sc i => if rd s.history i &&& CHOICE ≠ 0 then sc - 5 else sc)
      ((List.range 81).foldl
        (fun sc i => if IS_FIXED s.board i ≠ 0 then sc - 1 else sc) (81 : Int)) =
      score_stated s := by
  rw [foldl_sub_count (fun i => rd s.history i &&& CHOICE ≠ 0) 5,
    foldl_sub_count (fun i => IS_FIXED s.board i ≠ 0) 1]
  unfold score_stated
  ring

/-- The steps of `classify` once the result of `classify_solve` is known. -/
theorem classify_of_solve (qsort : (Nat → Nat → Int) → List Nat → List Nat) (fuel : Nat)
    (s s' : State) (r : Int) (h : classify_solve qsort fuel s = some (r, s')) :
    classify qsort fuel s =
      if r = -1 then some (none, s')
      else if s'.idx_history ≠ 81 then none
      else some (some (label_stated s'.pass (score_stated s')), s') := by
  unfold classify
  rw [h]
  dsimp only
  rw [classify_score, class_name_by_score_eq]

/-- C30: for every state whose history starts with `n` fixed clue records, followed by a
record that is not fixed, where the replay of the clues is valid, for every sorting
function used as `qsort` and every fuel from `10 ^ 81 + 83` on, `classify` returns. It
returns the null result iff no complete valid grid agrees with the clues. When such a grid
exists, the state `s'` it leaves is the one in which `solve` returned 0 after `pass = 0`
and `clear_moves`, and the result is the label of the score
`81 - (number of fixed cells) - 5 * (number of records tagged choice)` of `s'`: very easy
if the score exceeds 15 times the pass count of `s'`, else easy above 11 times, else
medium above 7 times, else hard above 4 times, else fiendish. -/
theorem classify_label (qsort : (Nat → Nat → Int) → List Nat → List Nat)
    (hq : ∀ c l, (qsort c l).Perm l) (fuel : Nat) (hf : 10 ^ 81 + 83 ≤ fuel) (s : State)
    (n : Nat) (hlen : s.history.length = 243)
    (hclue : ∀ k < n, ClueRec (rd s.history k)) (hend : rd s.history n &&& FIXED = 0)
    (hok : (replay s.history n).1 = 0) :
    ∃ res s', classify qsort fuel s = some (res, s') ∧
      (res = none ↔ ¬ ∃ G, Solved G ∧ Agree G s.history n) ∧
      ((∃ G, Solved G ∧ Agree G s.history n) →
        classify_solve qsort fuel s = some (0, s') ∧
          res = some (label_stated s'.pass (score_stated s'))) := by
  have hn243 := ClueRec.le_length s.history n hlen hclue
  have hwf : WFHistory s.history n := fun k hk => ⟨(hclue k hk).1, (hclue k hk).2.2.1⟩
  have hlive : ∀ k < n, replayable (rd s.history k) :=
    fun k hk => ⟨(hclue k hk).2.2.2.2.2, by have := (hclue k hk).2.1; omega⟩
  have hn81 : n ≤ 81 := by
    rw [← replay_card s.history n (by omega) hwf hlive hok]
    exact filled_card_le _
  have hcm : clear_moves (State.mk s.board s.history s.idx_history 0) =
      some (State.mk (replay s.history n).2 s.history (n : Int) 0) :=
    clear_moves_eq (State.mk s.board s.history s.idx_history 0) n
      (fun k hk => (hclue k hk).2.2.2.1) hend (by omega)
  have hre : reapply (State.mk (replay s.history n).2 s.history (n : Int) 0) =
      (0, State.mk (replay s.history n).2 s.history (n : Int) 0) := by
    unfold reapply
    dsimp only
    rw [Int.toNat_ofNat, hok]
  obtain ⟨r, s', hs, hcase⟩ := solve_outcome qsort hq fuel hf
    (State.mk (replay s.history n).2 s.history (n : Int) 0) hlen (Int.natCast_nonneg n)
    (by dsimp only; rw [Int.toNat_ofNat]; exact hclue) hre
  dsimp only at hcase
  rw [Int.toNat_ofNat] at hcase
  have hcs : classify_solve qsort fuel s = some (r, s') := by
    unfold classify_solve
    rw [hcm]
    exact hs
  rcases hcase with ⟨hr, hS, hA, h81⟩ | ⟨hr, hno⟩
  · refine ⟨some (label_stated s'.pass (score_stated s')), s', ?_, ?_, ?_⟩
    · rw [classify_of_solve qsort fuel s s' r hcs, hr, if_neg (by decide),
        if_neg (by rw [not_not]; exact h81)]
    · constructor
      · intro hc
        exact absurd hc (by simp)
      · intro hc
        exact absurd ⟨s'.board, hS, hA⟩ hc
    · intro _
      rw [hr] at hcs
      exact ⟨hcs, rfl⟩
  · refine ⟨none, s', ?_, ?_, ?_⟩
    · rw [classify_of_solve qsort fuel s s' r hcs, if_pos hr]
    · exact ⟨fun _ => hno, fun _ => rfl⟩
    · intro hG
      exact absurd hG hno

set_option maxRecDepth 100000 in
set_option maxHeartbeats 2000000 in
theorem classify_label_witness :
    ∃ res s', classify qsort_model (10 ^ 81 + 83) clued_failing = some (res, s') ∧
      (res = none ↔ ¬ ∃ G, Solved G ∧ Agree G clued_failing.history (26 + 26 + 27)) ∧
      ((∃ G, Solved G ∧ Agree G clued_failing.history (26 + 26 + 27)) →
        classify_solve qsort_model (10 ^ 81 + 83) clued_failing = some (0, s') ∧
          res = some (label_stated s'.pass (score_stated s'))) :=
  classify_label qsort_model qsort_model_perm (10 ^ 81 + 83) (le_refl _)
    clued_failing (26 + 26 + 27) (by decide!) (by decide!) (by decide!)
    (congrArg Prod.fst clued_failing_replay)

end Sudoku

namespace Sudoku

/-! ## Claim C4: `number_solutions` on a puzzle with one solution -/

/-- A history in which a choice was advanced leads to another board: the boards of two
states that satisfy the invariant differ when the history of the second is that of the
first with a choice advanced. -/
theorem Adv_boards_differ (m0 : Nat) (H0 : List Nat) (s t : State) (hs : KeepInv m0 H0 s)
    (ht : KeepInv m0 H0 t)
    (ha : Adv s.history s.idx_history.toNat t.history t.idx_history.toNat) :
    ¬ SameDigits s.board t.board := by
  obtain ⟨k, hk, hk', _, _, _, hidx, hdig⟩ := ha
  intro hsame
  have h1 := hs.search.board_agree k hk (hs.search.live k hk)
  have h2 := ht.search.board_agree k hk' (ht.search.live k hk')
  have hw := (hs.search.inv.hist.wf k hk).1
  have := hsame _ hw
  rw [h1, ← hidx, h2] at this
  omega

/-- The board that `solve` leaves after a success agrees with the puzzle records. -/
theorem KeepInv.agree_puzzle {m0 : Nat} {H0 : List Nat} {s : State} (h : KeepInv m0 H0 s) :
    Agree s.board H0 m0 :=
  h.search.board_agree_puzzle

/-- The loop of `number_solutions` after the first solution of a puzzle with one
solution: it returns with the count raised by one. -/
theorem number_solutions_loop_one (m0 : Nat) (H0 : List Nat)
    (qsort : (Nat → Nat → Int) → List Nat → List Nat) (hq : ∀ c l, (qsort c l).Perm l)
    (fuel : Nat) (hf : 10 ^ 81 + 83 ≤ fuel) (count : Nat) (s : State)
    (h : KeepInv m0 H0 s) (hfull : ∀ c < 81, DIGIT s.board c ≠ 0)
    (huniq : ∀ G G', Solved G → Agree G H0 m0 → Solved G' → Agree G' H0 m0 →
      SameDigits G G') :
    ∃ s', number_solutions_loop qsort fuel count s = some (count + 1, s') := by
  obtain ⟨fuel1, hfuel⟩ : ∃ f, fuel = f + 1 := ⟨fuel - 1, by omega⟩
  rw [hfuel]
  unfold number_solutions_loop
  have hn := h.search.n_le
  have hnn := h.search.inv.hist.nonneg
  obtain ⟨b, s1, hb⟩ := backtrack_total s hnn (by omega)
  rw [hb]
  dsimp only
  by_cases hb1 : b ≠ -1
  · rw [if_pos hb1]
    have h1 := (backtrack_Keep m0 H0 s s1 b h hb).1 hb1
    have hadv := ((backtrack_search (fun _ => False) (fun _ => True) m0 H0
      (fun _ hG => absurd hG id) WordClosed_true s s1 b h.search (Dead_empty s) hb).1 hb1).2
    obtain ⟨r, s2, hs2⟩ := solve_total m0 H0 qsort hq (fuel1 + 1) s1 h1 (by omega)
    rw [hs2]
    dsimp only
    have hres := solve_Keep m0 H0 qsort hq (fuel1 + 1) s1 s2 r h1 hs2
    by_cases hr : r = 0
    · exfalso
      obtain ⟨h2, hfull2⟩ := hres.1 hr
      rw [hr] at hs2
      have hstep := ((solve_search (fun _ => False) (fun _ => True) m0 H0
        (fun _ hG => absurd hG id) WordClosed_true qsort hq (fuel1 + 1) s1 s2 0 h1.search
        hs2).1 rfl).2.2
      have hadv2 : Adv s.history s.idx_history.toNat s2.history s2.idx_history.toNat := by
        rcases hstep with he | ha
        · exact Adv_Ext _ _ _ _ _ _ hadv he
        · exact Adv_Adv _ _ _ _ _ _ hadv ha
      exact Adv_boards_differ m0 H0 s s2 h h2 hadv2
        (huniq _ _ (h.complete hfull).1 h.agree_puzzle (h2.complete hfull2).1 h2.agree_puzzle)
    · have hr1 := (hres.2 hr).1
      rw [if_neg (by rw [not_not]; exact hr1)]
      exact ⟨_, rfl⟩
  · rw [if_neg hb1]
    exact ⟨_, rfl⟩

/-- C4: for every starting state whose history is a list of fixed clues and whose board
is their valid replay, if some complete valid grid agrees with the clues and any two such
grids hold the same digits, then for every sorting function used as `qsort` and every
fuel from `10 ^ 81 + 83` on, `number_solutions` returns 1. -/
theorem number_solutions_one (qsort : (Nat → Nat → Int) → List Nat → List Nat)
    (hq : ∀ c l, (qsort c l).Perm l) (fuel : Nat) (hf : 10 ^ 81 + 83 ≤ fuel) (s : State)
    (hlen : s.history.length = 243) (h0 : 0 ≤ s.idx_history)
    (hclue : ∀ k < s.idx_history.toNat, ClueRec (rd s.history k))
    (hre : reapply s = (0, s))
    (hex : ∃ G, Solved G ∧ Agree G s.history s.idx_history.toNat)
    (huniq : ∀ G G', Solved G → Agree G s.history s.idx_history.toNat → Solved G' →
      Agree G' s.history s.idx_history.toNat → SameDigits G G') :
    ∃ s', number_solutions qsort fuel s = some (1, s') := by
  have h1 : 1 ≤ s.idx_history.toNat := by
    by_contra hc
    have hn : s.idx_history.toNat = 0 := by omega
    rw [hn] at huniq
    obtain ⟨hS, _⟩ := grid_with_one_solved 0 (by omega)
    obtain ⟨hS', _, hne⟩ := two_grids_with_one 0 (by omega)
    exact hne (huniq _ _ hS (fun k hk => absurd hk (Nat.not_lt_zero k)) hS'
      (fun k hk => absurd hk (Nat.not_lt_zero k)))
  have hwf : WFHistory s.history s.idx_history.toNat :=
    fun k hk => ⟨(hclue k hk).1, (hclue k hk).2.2.1⟩
  have hlive : ∀ k < s.idx_history.toNat, replayable (rd s.history k) :=
    fun k hk => ⟨(hclue k hk).2.2.2.2.2, by have := (hclue k hk).2.1; omega⟩
  have hinv := KeepInv_init s s.idx_history.toNat hlen h0 hwf hlive hre h1 (le_refl _)
    (fun k _ hk => (hclue k hk).2.2.2.2.1)
  obtain ⟨r, s1, hs⟩ := solve_total _ _ qsort hq fuel s hinv (by omega)
  have hres := solve_Keep _ _ qsort hq fuel s s1 r hinv hs
  have hr : r = 0 := by
    by_contra hr
    have hr1 := (hres.2 hr).1
    rw [hr1] at hs
    exact exhausted_no_grid qsort hq fuel s s1 hlen h0 hclue hre hs hex
  obtain ⟨hK, hfull⟩ := hres.1 hr
  obtain ⟨s', hloop⟩ := number_solutions_loop_one _ _ qsort hq fuel hf 0 s1 hK hfull huniq
  refine ⟨s', ?_⟩
  unfold number_solutions
  rw [hs]
  dsimp only
  rw [if_pos (by rw [hr]; decide)]
  exact hloop

/-- When `backtrack` after a successful `solve` finds no open choice, any two complete
valid grids that agree with the clues hold the same digits. -/
theorem unique_of_backtrack (qsort : (Nat → Nat → Int) → List Nat → List Nat)
    (hq : ∀ c l, (qsort c l).Perm l) (fuel : Nat) (s s4 s5 : State)
    (hlen : s.history.length = 243) (h0 : 0 ≤ s.idx_history)
    (hclue : ∀ k < s.idx_history.toNat, ClueRec (rd s.history k))
    (hre : reapply s = (0, s)) (h1 : 1 ≤ s.idx_history.toNat)
    (hs : solve qsort fuel s = some (0, s4)) (hb : backtrack s4 = some (-1, s5)) :
    (∃ G, Solved G ∧ Agree G s.history s.idx_history.toNat) ∧
      ∀ G G', Solved G → Agree G s.history s.idx_history.toNat → Solved G' →
        Agree G' s.history s.idx_history.toNat → SameDigits G G' := by
  have hinv := SearchInv_init Solved (fun _ => True) (fun _ h => h) s hlen h0 hclue hre h1
    trivial
  obtain ⟨hinv4, hfull, _⟩ := (solve_search Solved _ _ _ (fun _ h => h)
    WordClosed_true qsort hq fuel s s4 0 hinv hs).1 rfl
  have hsec := (second_search _ WordClosed_true _ _ qsort hq fuel s4 s5 (-1) hinv4 hfull
    hb).1 rfl
  refine ⟨⟨s4.board, hinv4.solved hfull, hinv4.board_agree_puzzle⟩, ?_⟩
  intro G G' hG ha hG' ha'
  exact SameDigits_trans_symm G G' _ (hsec.1 G hG ha) (hsec.1 G' hG' ha')

set_option maxRecDepth 100000 in
set_option maxHeartbeats 2000000 in
/-- The 79 clues of the example have exactly one solution: the uniqueness test of the code
itself, a `solve` followed by a `backtrack` that finds no open choice, shows it. -/
theorem clued_failing_unique :
    (∃ G, Solved G ∧ Agree G clued_failing.history clued_failing.idx_history.toNat) ∧
      ∀ G G', Solved G → Agree G clued_failing.history clued_failing.idx_history.toNat →
        Solved G' → Agree G' clued_failing.history clued_failing.idx_history.toNat →
        SameDigits G G' :=
  unique_of_backtrack qsort_model qsort_model_perm 10 clued_failing resolved_failing
    generated_failing (by decide!) (by decide!) (by decide!)
    (reapply_of_replay clued_failing (26 + 26 + 27) (by decide) clued_failing_replay)
    (by decide!) resolved_failing_eq generated_failing_eq

set_option maxRecDepth 100000 in
set_option maxHeartbeats 2000000 in
theorem number_solutions_one_witness :
    ∃ s', number_solutions qsort_model (10 ^ 81 + 83) clued_failing = some (1, s') :=
  number_solutions_one qsort_model qsort_model_perm (10 ^ 81 + 83) (le_refl _) clued_failing
    (by decide!) (by decide!) (by decide!)
    (reapply_of_replay clued_failing (26 + 26 + 27) (by decide) clued_failing_replay)
    clued_failing_unique.1 clued_failing_unique.2

end Sudoku

namespace Sudoku

/-! ## Claims C31, C32 and C36: the strategies keep every solution, the candidates are
forced moves, and a fill that places nothing changes nothing -/

/-- C36: whenever `fill(idx, digit)`, called with a digit other than 0, returns -1, or
returns with the cell already holding that digit, the state is left exactly as it was:
the board, the history, its length and the pass counter. -/
theorem fill_no_place (s s' : State) (idx digit : Nat) (r : Int) (hd : digit ≠ 0)
    (h : fill s idx digit = some (r, s')) (hno : r = -1 ∨ DIGIT s.board idx = digit) :
    s' = s := by
  unfold fill at h
  by_cases he : IS_EMPTY s.board idx = true
  · by_cases hdis : DISALLOWED s.board idx digit = 0
    · exfalso
      simp only [he, not_true_eq_false, if_false, hdis, ne_eq] at h
      rcases hno with h1 | h1
      · cases ha : add_move (State.mk (update (wr s.board idx (SET_DIGIT digit)) idx) s.history
            s.idx_history s.pass) idx digit 0 with
        | none =>
          rw [ha] at h
          exact absurd h (by simp)
        | some s1 =>
          rw [ha] at h
          simp only [Option.map_some', Option.some.injEq, Prod.mk.injEq] at h
          omega
      · have := (IS_EMPTY_iff _ _).1 he
        omega
    · simp [he, hdis] at h
      exact h.2.symm
  · simp [he] at h
    exact h.2.symm

theorem fill_no_place_witness :
    (7 : Nat) ≠ 0 ∧ fill filled_example 5 7 = some (-1, filled_example) ∧
      filled_example = filled_example :=
  ⟨by decide, failing_fill_eq,
    fill_no_place filled_example filled_example 5 7 (-1) (by decide) failing_fill_eq
      (Or.inl rfl)⟩

end Sudoku

namespace Sudoku

/-! ## Claim C40: the assertion of `classify` -/

/-- Two live records of a valid replay name different cells. -/
theorem replay_distinct (hist : List Nat) (n j k : Nat) (hn : n ≤ hist.length)
    (hwf : WFHistory hist n) (hlive : ∀ i < n, replayable (rd hist i))
    (hok : (replay hist n).1 = 0) (hjk : j < k) (hk : k < n) :
    GET_INDEX (rd hist j) ≠ GET_INDEX (rd hist k) := by
  intro he
  have hok' := replay_valid_prefix hist n (k + 1) hn (by omega) hok
  have hv := (replay_valid_step hist k (by omega) hok' (hlive k hk)).1
  have hf := replay_record_filled hist k j (by omega) hjk (fun i hi => hwf i (by omega))
    (hlive j (by omega))
  rw [he] at hf
  exact hf ((IS_EMPTY_iff _ _).1 hv)

/-- A state whose board is the valid replay of live records: when `solve` returns 0 the
invariant of the search holds in the state it leaves, and the board is full. -/
theorem solve_success_full (qsort : (Nat → Nat → Int) → List Nat → List Nat)
    (hq : ∀ c l, (qsort c l).Perm l) (fuel : Nat) (s s' : State)
    (hlen : s.history.length = 243) (h0 : 0 ≤ s.idx_history)
    (hwf : WFHistory s.history s.idx_history.toNat)
    (hlive : ∀ k < s.idx_history.toNat, replayable (rd s.history k))
    (hre : reapply s = (0, s)) (hs : solve qsort fuel s = some (0, s')) :
    ∃ H0, KeepInv 1 H0 s' ∧ ∀ c < 81, DIGIT s'.board c ≠ 0 := by
  by_cases h1 : 1 ≤ s.idx_history.toNat
  · have hinv := KeepInv_init s 1 hlen h0 hwf hlive hre (le_refl _) h1
      (fun k h1 h2 => by omega)
    exact ⟨_, (solve_Keep _ _ qsort hq fuel s s' 0 hinv hs).1 rfl⟩
  · have hn : s.idx_history = 0 := by omega
    have hb : s.board = List.replicate 81 0 := by
      have h := hre
      unfold reapply at h
      simp only [Prod.mk.injEq] at h
      have hb := (congrArg State.board h.2).symm
      rw [hb]
      dsimp only
      rw [hn]
      rfl
    obtain ⟨s2, hinv, _, hstep⟩ := solve_empty_round qsort hq s hlen hn hb
    cases fuel with
    | zero =>
      unfold solve at hs
      exact absurd hs (by simp)
    | succ fuel1 =>
      rw [hstep fuel1] at hs
      exact ⟨_, (solve_Keep _ _ qsort hq fuel1 s2 s' 0 hinv hs).1 rfl⟩

/-- A state whose board is the valid replay of live records: `solve` returns when given
`10 ^ 81 + 83` rounds. -/
theorem solve_returns (qsort : (Nat → Nat → Int) → List Nat → List Nat)
    (hq : ∀ c l, (qsort c l).Perm l) (fuel : Nat) (hf : 10 ^ 81 + 83 ≤ fuel) (s : State)
    (hlen : s.history.length = 243) (h0 : 0 ≤ s.idx_history)
    (hwf : WFHistory s.history s.idx_history.toNat)
    (hlive : ∀ k < s.idx_history.toNat, replayable (rd s.history k))
    (hre : reapply s = (0, s)) : ∃ r s', solve qsort fuel s = some (r, s') := by
  by_cases h1 : 1 ≤ s.idx_history.toNat
  · have hinv := KeepInv_init s 1 hlen h0 hwf hlive hre (le_refl _) h1
      (fun k h1 h2 => by omega)
    exact solve_total _ _ qsort hq fuel s hinv (by omega)
  · have hn : s.idx_history = 0 := by omega
    have hb : s.board = List.replicate 81 0 := by
      have h := hre
      unfold reapply at h
      simp only [Prod.mk.injEq] at h
      have hb := (congrArg State.board h.2).symm
      rw [hb]
      dsimp only
      rw [hn]
      rfl
    obtain ⟨s2, hinv, _, hstep⟩ := solve_empty_round qsort hq s hlen hn hb
    obtain ⟨fuel1, hfuel⟩ : ∃ f, fuel = f + 1 := ⟨fuel - 1, by omega⟩
    obtain ⟨r, s', hs2⟩ := solve_total _ _ qsort hq fuel1 s2 hinv (by omega)
    exact ⟨r, s', by rw [hfuel, hstep fuel1]; exact hs2⟩

/-- C40: for every history whose first `n` records are flagged fixed, are not ignored and
hold a cell index below 81 and a digit 1..9 (the choice flag may be set), followed by a
record that is not fixed, with a valid replay of the `n` records, and for every sorting
function used as `qsort`: `pass = 0; clear_moves(); solve()` returns when given
`10 ^ 81 + 83` rounds, and whenever it returns 0 (with any number of rounds) the history
length is exactly 81, none of the 81 records is ignored, and every cell is the cell of
exactly one of them. -/
theorem classify_assert (qsort : (Nat → Nat → Int) → List Nat → List Nat)
    (hq : ∀ c l, (qsort c l).Perm l) (s : State) (n : Nat) (hlen : s.history.length = 243)
    (hfix : ∀ k < n, rd s.history k &&& FIXED ≠ 0) (hend : rd s.history n &&& FIXED = 0)
    (hrec : ∀ k < n, GET_INDEX (rd s.history k) < 81 ∧ 1 ≤ GET_DIGIT (rd s.history k) ∧
      GET_DIGIT (rd s.history k) ≤ 9 ∧ rd s.history k &&& IGNORED = 0)
    (hok : (replay s.history n).1 = 0) :
    (∀ fuel, 10 ^ 81 + 83 ≤ fuel → ∃ r s', classify_solve qsort fuel s = some (r, s')) ∧
      ∀ fuel s', classify_solve qsort fuel s = some (0, s') →
        s'.idx_history = 81 ∧ (∀ k < 81, rd s'.history k &&& IGNORED = 0) ∧
          ∀ c < 81, ∃! k, k < 81 ∧ GET_INDEX (rd s'.history k) = c := by
  have hwf : WFHistory s.history n := fun k hk => ⟨(hrec k hk).1, (hrec k hk).2.2.1⟩
  have hlive : ∀ k < n, replayable (rd s.history k) :=
    fun k hk => ⟨(hrec k hk).2.2.2, by have := (hrec k hk).2.1; omega⟩
  have hn243 : n ≤ 243 := by
    by_contra hc
    have := (hrec 243 (by omega)).2.1
    rw [rd_ge s.history 243 (by omega)] at this
    exact absurd this (by decide)
  have hn81 : n ≤ 81 := by
    rw [← replay_card s.history n (by omega) hwf hlive hok]
    exact filled_card_le _
  have hcm : clear_moves (State.mk s.board s.history s.idx_history 0) =
      some (State.mk (replay s.history n).2 s.history (n : Int) 0) :=
    clear_moves_eq (State.mk s.board s.history s.idx_history 0) n hfix hend (by omega)
  have hre : reapply (State.mk (replay s.history n).2 s.history (n : Int) 0) =
      (0, State.mk (replay s.history n).2 s.history (n : Int) 0) := by
    unfold reapply
    dsimp only
    rw [Int.toNat_ofNat, hok]
  have hcs : ∀ fuel, classify_solve qsort fuel s =
      solve qsort fuel (State.mk (replay s.history n).2 s.history (n : Int) 0) := by
    intro fuel
    unfold classify_solve
    rw [hcm]
  constructor
  · intro fuel hf
    rw [hcs fuel]
    exact solve_returns qsort hq fuel hf _ hlen (Int.natCast_nonneg n)
      (by dsimp only; rw [Int.toNat_ofNat]; exact hwf)
      (by dsimp only; rw [Int.toNat_ofNat]; exact hlive) hre
  · intro fuel s' hs
    rw [hcs fuel] at hs
    obtain ⟨H0, hK, hfull⟩ := solve_success_full qsort hq fuel
      (State.mk (replay s.history n).2 s.history (n : Int) 0) s' hlen
      (Int.natCast_nonneg n) (by dsimp only; rw [Int.toNat_ofNat]; exact hwf)
      (by dsimp only; rw [Int.toNat_ofNat]; exact hlive) hre hs
    obtain ⟨_, h81⟩ := hK.complete hfull
    have ht : s'.idx_history.toNat = 81 := by omega
    have hwf' := hK.search.inv.hist.wf
    have hlive' := hK.search.live
    have hok' := hK.search.inv.hist.ok
    have hlen' := hK.search.inv.hist.hlen
    rw [ht] at hwf' hlive' hok'
    have hbe : s'.board = (replay s'.history 81).2 := by
      have := hK.exact hfull
      unfold reapply at this
      simp only [Prod.mk.injEq] at this
      have hb := (congrArg State.board this.2).symm
      rw [ht] at hb
      exact hb
    refine ⟨h81, fun k hk => (hlive' k hk).1, ?_⟩
    intro c hc
    have hne : DIGIT (replay s'.history 81).2 c ≠ 0 := by
      rw [← hbe]
      exact hfull c hc
    obtain ⟨k, hk, _, hkc⟩ := replay_filled_rev s'.history 81 c (by omega) hwf' hne
    refine ⟨k, ⟨hk, hkc⟩, ?_⟩
    rintro j ⟨hj, hjc⟩
    by_contra hjk
    rcases Nat.lt_or_gt_of_ne hjk with hlt | hgt
    · exact replay_distinct s'.history 81 j k (by omega) hwf' hlive' hok' hlt hk
        (by rw [hjc, hkc])
    · exact replay_distinct s'.history 81 k j (by omega) hwf' hlive' hok' hgt hj
        (by rw [hjc, hkc])

set_option maxRecDepth 100000 in
set_option maxHeartbeats 2000000 in
theorem classify_assert_witness :
    (∀ fuel, 10 ^ 81 + 83 ≤ fuel →
        ∃ r s', classify_solve qsort_model fuel clued_failing = some (r, s')) ∧
      ∀ fuel s', classify_solve qsort_model fuel clued_failing = some (0, s') →
        s'.idx_history = 81 ∧ (∀ k < 81, rd s'.history k &&& IGNORED = 0) ∧
          ∀ c < 81, ∃! k, k < 81 ∧ GET_INDEX (rd s'.history k) = c :=
  classify_assert qsort_model qsort_model_perm clued_failing (26 + 26 + 27) (by decide!)
    (by decide!) (by decide!) (by decide!) (congrArg Prod.fst clued_failing_replay)

end Sudoku

namespace Sudoku

/-! ## Claim C33: every pass of `deterministic` fills a cell -/

theorem add_move_room (b h : List Nat) (i : Int) (p idx digit flags : Nat) (h0 : 0 ≤ i)
    (hcap : i < 242) :
    add_move (State.mk b h i p) idx digit flags =
      some (State.mk b
        (add_move_ignore (wr h i.toNat (SET_INDEX idx ||| SET_DIGIT digit ||| flags)) idx
          i.toNat) (i + 1) p) :=
  add_move_below (State.mk b h i p) idx digit flags h0 hcap

/-- The precondition after one more record and one more filled cell. -/
theorem PassInv_placed (s : State) (b hist : List Nat) (h : PassInv s) (hwf : BoardWF b)
    (hl : hist.length = 243) (hcard : (filled b).card = (filled s.board).card + 1) :
    PassInv (State.mk b hist (s.idx_history + 1) s.pass) := by
  have hroom := h.room
  have hnn := h.nonneg
  have hle := filled_card_le b
  constructor
  · exact hwf
  · exact hl
  · show 0 ≤ s.idx_history + 1
    omega
  · show (s.idx_history + 1).toNat + (81 - (filled b).card) ≤ 242
    omega

/-- The steps of `fill` on an empty cell in which the digit is allowed, while the
history is below the capacity test of `add_move`. -/
theorem fill_room (s : State) (idx d : Nat) (b : List Nat)
    (hb : b = update (wr s.board idx (SET_DIGIT d)) idx) (he : IS_EMPTY s.board idx = true)
    (hd : DISALLOWED s.board idx d = 0) (h0 : 0 ≤ s.idx_history)
    (hcap : s.idx_history < 242) :
    fill s idx d = some (0, State.mk b
      (add_move_ignore (wr s.history s.idx_history.toNat (SET_INDEX idx ||| SET_DIGIT d ||| 0))
        idx s.idx_history.toNat) (s.idx_history + 1) s.pass) := by
  rw [fill_place_eq s idx d he hd, ← hb, add_move_room b s.history s.idx_history s.pass idx d 0
    h0 hcap]
  rfl

/-- Under the precondition `fill` returns and keeps the precondition; it places the digit
when the digit is allowed in the cell. -/
theorem fill_pass (s : State) (idx d : Nat) (h : PassInv s) (hidx : idx < 81) (hd1 : 1 ≤ d)
    (hd9 : d ≤ 9) :
    ∃ r s', fill s idx d = some (r, s') ∧ PassInv s' ∧ s'.pass = s.pass ∧
      (r = 0 ∨ r = -1) ∧ (filled s.board).card ≤ (filled s'.board).card ∧
      (DISALLOWED s.board idx d = 0 →
        DIGIT s.board idx = 0 ∧ r = 0 ∧ DIGIT s'.board idx = d ∧
          (filled s'.board).card = (filled s.board).card + 1) := by
  by_cases he : IS_EMPTY s.board idx = true
  · by_cases hd : DISALLOWED s.board idx d = 0
    · have hempty : DIGIT s.board idx = 0 := (IS_EMPTY_iff _ _).1 he
      have hg : GET_DIGIT (SET_DIGIT d) = d := GET_DIGIT_SET_DIGIT d (by omega)
      obtain ⟨b, hb⟩ : ∃ b, b = update (wr s.board idx (SET_DIGIT d)) idx := ⟨_, rfl⟩
      have hfill : (filled b).card = (filled s.board).card + 1 := by
        rw [hb]
        exact filled_place s.board idx (SET_DIGIT d) h.board_wf.len hidx
          (by rw [hg]; exact hd1) (by rw [hg]; exact hd9) hempty
      have hwf : BoardWF b := by
        rw [hb]
        exact BoardWF_place s.board idx (SET_DIGIT d) h.board_wf hidx (by rw [hg]; exact hd1)
          (by rw [hg]; exact hd9)
      have hdig : DIGIT b idx = d := by
        rw [hb, place_DIGIT s.board idx (SET_DIGIT d) idx h.board_wf.len hidx
          (by rw [hg]; exact hd1) (by rw [hg]; exact hd9), if_pos rfl, hg]
      have hcard := filled_card_le b
      have hroom := h.room
      have hnn := h.nonneg
      have hf := fill_room s idx d b hb he hd hnn (by omega)
      have hl : (add_move_ignore
          (wr s.history s.idx_history.toNat (SET_INDEX idx ||| SET_DIGIT d ||| 0)) idx
          s.idx_history.toNat).length = 243 := by
        rw [add_move_ignore_length, length_wr]
        exact h.hlen
      exact ⟨0, _, hf, PassInv_placed s b _ h hwf hl hfill, rfl, Or.inl rfl,
        by show (filled s.board).card ≤ (filled b).card; omega,
        fun _ => ⟨hempty, rfl, hdig, hfill⟩⟩
    · refine ⟨-1, s, ?_, h, rfl, Or.inr rfl, le_refl _, fun hc => absurd hc hd⟩
      unfold fill
      simp [he, hd]
  · refine ⟨if DIGIT s.board idx = d then 0 else -1, s, ?_, h, rfl, ?_, le_refl _, ?_⟩
    · unfold fill
      simp [he]
    · split
      · exact Or.inl rfl
      · exact Or.inr rfl
    · intro hc
      exfalso
      have hne : DIGIT s.board idx ≠ 0 := by
        intro h0
        exact he ((IS_EMPTY_iff _ _).2 h0)
      exact h.board_wf.full idx hidx hne d hd1 hd9 hc

/-- Under the precondition the loop over the candidates returns and keeps the
precondition; it fills a cell when the first candidate is allowed. -/
theorem deterministic_fill_pass (ps : List Nat) (s : State) (h : PassInv s)
    (hps : ∀ p ∈ ps, CandOK p) :
    ∃ x s', deterministic_fill ps s = some (x, s') ∧ PassInv s' ∧ s'.pass = s.pass ∧
      (x = 0 ∨ x = -1) ∧ (filled s.board).card ≤ (filled s'.board).card ∧
      (∀ p0 rest, ps = p0 :: rest → DISALLOWED s.board (GET_INDEX p0) (GET_DIGIT p0) = 0 →
        (filled s.board).card + 1 ≤ (filled s'.board).card) := by
  induction ps generalizing s with
  | nil =>
    refine ⟨0, s, rfl, h, rfl, Or.inl rfl, le_refl _, ?_⟩
    intro p0 rest hc
    exact absurd hc (by simp)
  | cons p ps ih =>
    have hp := hps p (List.mem_cons_self _ _)
    obtain ⟨r, s1, hf, h1, hpass, _, hle, hopen⟩ := fill_pass s _ _ h hp.1 hp.2.1 hp.2.2
    by_cases hr1 : r = -1
    · refine ⟨-1, s1, ?_, h1, hpass, Or.inr rfl, hle, ?_⟩
      · unfold deterministic_fill
        rw [hf]
        dsimp only
        rw [if_pos hr1]
      · intro p0 rest hc ho
        simp only [List.cons.injEq] at hc
        rw [← hc.1] at ho
        have := (hopen ho).2.2.2
        omega
    · obtain ⟨x, s2, hf2, h2, hpass2, hx, hle2, _⟩ :=
        ih s1 h1 (fun q hq => hps q (List.mem_cons_of_mem _ hq))
      refine ⟨x, s2, ?_, h2, by rw [hpass2, hpass], hx, by omega, ?_⟩
      · unfold deterministic_fill
        rw [hf]
        dsimp only
        rw [if_neg hr1]
        exact hf2
      · intro p0 rest hc ho
        simp only [List.cons.injEq] at hc
        rw [← hc.1] at ho
        have := (hopen ho).2.2.2
        omega

/-- The board that `allmoves` leaves keeps the precondition, with any pass counter. -/
theorem PassInv_allmoves (s : State) (pass : Nat) (h : PassInv s) :
    PassInv (State.mk (allmoves s.board).2.2 s.history s.idx_history pass) ∧
      (filled (allmoves s.board).2.2).card = (filled s.board).card := by
  have hab := allmoves_Above s.board h.board_wf.len h.board_wf.digit_le
  have hfc : filled (allmoves s.board).2.2 = filled s.board :=
    filled_congr _ _ (fun i hi => (hab.2 i hi).1)
  refine ⟨⟨Above_BoardWF _ _ hab h.board_wf, h.hlen, h.nonneg, ?_⟩, by rw [hfc]⟩
  dsimp only
  rw [hfc]
  exact h.room

/-- When `allmoves` returns a positive count, the candidates taken are not the empty
list, and the first of them is allowed on the board that `allmoves` leaves. -/
theorem allmoves_first (b : List Nat) (hn : 0 < (allmoves b).1) :
    ∃ p0 rest, (allmoves b).2.1.take (allmoves b).1.toNat = p0 :: rest ∧ CandOK p0 ∧
      DISALLOWED (allmoves b).2.2 (GET_INDEX p0) (GET_DIGIT p0) = 0 := by
  have hcount : (allmoves b).1 = ((allmoves b).2.1.length : Int) := by
    rcases allmoves_count b with hc | hc
    · omega
    · exact hc
  have hne : (allmoves b).2.1.take (allmoves b).1.toNat ≠ [] := by
    intro hc
    have := congrArg List.length hc
    rw [List.length_take] at this
    simp only [List.length_nil] at this
    omega
  obtain ⟨p0, rest, hcons⟩ := List.exists_cons_of_ne_nil hne
  have hmem : p0 ∈ (allmoves b).2.1 := by
    apply List.mem_of_mem_take (n := (allmoves b).1.toNat)
    rw [hcons]
    exact List.mem_cons_self _ _
  exact ⟨p0, rest, hcons, allmoves_CandOK b p0 hmem, allmoves_open b p0 hmem⟩

/-- Under the precondition the loop of `deterministic` returns when given more rounds
than there are empty cells, and raises the pass counter at most once per empty cell. -/
theorem deterministic_loop_pass (fuel : Nat) (r : Int × List Nat × List Nat) (s : State)
    (h : PassInv s) (hr : r = allmoves s.board) (hf : 81 - (filled s.board).card < fuel) :
    ∃ x s', deterministic_loop fuel r s = some (x, s') ∧
      s'.pass ≤ s.pass + (81 - (filled s.board).card) := by
  induction fuel generalizing r s with
  | zero => omega
  | succ fuel ih =>
    subst hr
    unfold deterministic_loop
    dsimp only
    by_cases hn : 0 < (allmoves s.board).1
    · rw [if_pos hn]
      obtain ⟨h1, hc1⟩ := PassInv_allmoves s (s.pass + 1) h
      have hcand : ∀ p ∈ (allmoves s.board).2.1.take (allmoves s.board).1.toNat, CandOK p :=
        fun p hp => allmoves_CandOK s.board p (List.mem_of_mem_take hp)
      obtain ⟨x, s2, hf2, h2, hpass2, _, _, hprog⟩ := deterministic_fill_pass
        ((allmoves s.board).2.1.take (allmoves s.board).1.toNat)
        (State.mk (allmoves s.board).2.2 s.history s.idx_history (s.pass + 1)) h1 hcand
      rw [hf2]
      dsimp only
      obtain ⟨p0, rest, hcons, _, hopen⟩ := allmoves_first s.board hn
      have hp := hprog p0 rest hcons hopen
      dsimp only at hp hpass2
      rw [hc1] at hp
      have hle := filled_card_le s2.board
      by_cases hx : x = -1
      · rw [if_pos hx]
        exact ⟨_, _, rfl, by omega⟩
      · rw [if_neg hx]
        obtain ⟨y, s3, h3, hb3⟩ := ih (allmoves s2.board) s2 h2 rfl (by omega)
        exact ⟨y, s3, h3, by omega⟩
    · rw [if_neg hn]
      exact ⟨_, _, rfl, by dsimp only; omega⟩

/-- C33: for every state with a well-formed board, a history array of 243 entries and
room in it for one record per empty cell (`PassInv`): when `allmoves` returns a positive
count, the first candidate names an empty cell, its `fill` returns 0 and places the
digit, the loop over the candidates returns 0 or -1 and leaves more cells filled than
before, in a state that satisfies the precondition again, and `deterministic` returns -1
or goes on with the next pass from there; and `deterministic` returns whenever it is given
more rounds than there are empty cells, with the pass counter raised by at most the
number of cells that were empty. -/
theorem deterministic_pass (s : State) (h : PassInv s) :
    (0 < (allmoves s.board).1 →
      ∃ p0 rest x s2,
        (allmoves s.board).2.1.take (allmoves s.board).1.toNat = p0 :: rest ∧
        GET_INDEX p0 < 81 ∧ DIGIT s.board (GET_INDEX p0) = 0 ∧
        (∃ s1, fill (State.mk (allmoves s.board).2.2 s.history s.idx_history (s.pass + 1))
            (GET_INDEX p0) (GET_DIGIT p0) = some (0, s1) ∧
          DIGIT s1.board (GET_INDEX p0) = GET_DIGIT p0 ∧ GET_DIGIT p0 ≠ 0) ∧
        deterministic_fill (p0 :: rest)
          (State.mk (allmoves s.board).2.2 s.history s.idx_history (s.pass + 1)) =
            some (x, s2) ∧
        (x = 0 ∨ x = -1) ∧ (filled s.board).card < (filled s2.board).card ∧ PassInv s2 ∧
        s2.pass = s.pass + 1 ∧
        ∀ fuel, deterministic (fuel + 1) s =
          if x = -1 then some (-1, s2) else deterministic fuel s2) ∧
      ∀ fuel, 81 - (filled s.board).card < fuel →
        ∃ r s', deterministic fuel s = some (r, s') ∧
          s'.pass ≤ s.pass + (81 - (filled s.board).card) := by
  constructor
  · intro hn
    obtain ⟨p0, rest, hcons, hok, hopen⟩ := allmoves_first s.board hn
    obtain ⟨h1, hc1⟩ := PassInv_allmoves s (s.pass + 1) h
    have hab := allmoves_Above s.board h.board_wf.len h.board_wf.digit_le
    have hcand : ∀ p ∈ p0 :: rest, CandOK p := by
      intro p hp
      rw [← hcons] at hp
      exact allmoves_CandOK s.board p (List.mem_of_mem_take hp)
    obtain ⟨r, s1, hf, _, _, _, _, hplace⟩ := fill_pass _ (GET_INDEX p0) (GET_DIGIT p0) h1
      hok.1 hok.2.1 hok.2.2
    obtain ⟨hempty, hr0, hdig, _⟩ := hplace hopen
    obtain ⟨x, s2, hf2, h2, hpass2, hx, _, hprog⟩ := deterministic_fill_pass (p0 :: rest)
      (State.mk (allmoves s.board).2.2 s.history s.idx_history (s.pass + 1)) h1 hcand
    have hp := hprog p0 rest rfl hopen
    dsimp only at hp hpass2 hempty
    rw [hc1] at hp
    rw [(hab.2 _ hok.1).1] at hempty
    refine ⟨p0, rest, x, s2, hcons, hok.1, hempty, ⟨s1, ?_, hdig, by have := hok.2.1; omega⟩,
      hf2, hx, by omega, h2, hpass2, ?_⟩
    · rw [hf, hr0]
    · intro fuel
      unfold deterministic
      rw [deterministic_loop]
      dsimp only
      rw [if_pos hn, hcons, hf2]
  · intro fuel hf
    unfold deterministic
    exact deterministic_loop_pass fuel _ s h rfl hf


/-- The state that the board loader hands over satisfies the precondition of
`deterministic`. -/
theorem clues_state_PassInv (clues : List (Nat × Nat))
    (h : ∀ c ∈ clues, c.1 < 81 ∧ c.2 ≤ 9) (hl : clues.length ≤ 161) :
    PassInv (clues_state clues) := by
  unfold clues_state
  constructor
  · dsimp only
    apply replay_BoardWF _ _ (by simp)
    intro k hk
    unfold rd
    rw [List.getD_eq_getElem _ _ (by simpa using hk), List.getElem_map]
    have hc := h clues[k] (List.getElem_mem _)
    unfold WFRec
    rw [record_index _ _ FIXED (by omega) (by decide),
      record_digit _ _ FIXED (by omega) (by omega) (by decide)]
    exact hc
  · dsimp only
    rw [List.length_append, List.length_map, List.length_replicate]
    omega
  · dsimp only
    omega
  · dsimp only
    rw [Int.toNat_ofNat]
    omega

/-- On the board of `hint_example` the function `allmoves` returns a positive count. -/
theorem hint_example_allmoves_pos : 0 < (allmoves hint_example.board).1 := by
  rw [allmoves_eq, hint_example_moves]
  decide

set_option maxRecDepth 100000 in
theorem deterministic_pass_witness :
    0 < (allmoves hint_example.board).1 ∧
    ((0 < (allmoves hint_example.board).1 →
      ∃ p0 rest x s2,
        (allmoves hint_example.board).2.1.take (allmoves hint_example.board).1.toNat =
          p0 :: rest ∧
        GET_INDEX p0 < 81 ∧ DIGIT hint_example.board (GET_INDEX p0) = 0 ∧
        (∃ s1, fill (State.mk (allmoves hint_example.board).2.2 hint_example.history
            hint_example.idx_history (hint_example.pass + 1))
            (GET_INDEX p0) (GET_DIGIT p0) = some (0, s1) ∧
          DIGIT s1.board (GET_INDEX p0) = GET_DIGIT p0 ∧ GET_DIGIT p0 ≠ 0) ∧
        deterministic_fill (p0 :: rest)
          (State.mk (allmoves hint_example.board).2.2 hint_example.history
            hint_example.idx_history (hint_example.pass + 1)) = some (x, s2) ∧
        (x = 0 ∨ x = -1) ∧
        (filled hint_example.board).card < (filled s2.board).card ∧ PassInv s2 ∧
        s2.pass = hint_example.pass + 1 ∧
        ∀ fuel, deterministic (fuel + 1) hint_example =
          if x = -1 then some (-1, s2) else deterministic fuel s2) ∧
      ∀ fuel, 81 - (filled hint_example.board).card < fuel →
        ∃ r s', deterministic fuel hint_example = some (r, s') ∧
          s'.pass ≤ hint_example.pass + (81 - (filled hint_example.board).card)) :=
  ⟨hint_example_allmoves_pos,
    deterministic_pass hint_example (clues_state_PassInv hint_clues (by decide) (by decide))⟩

end Sudoku

namespace Sudoku

/-! ## Claim C39: `add_move` stays inside the history array -/

theorem IgnoredIffList_of_rd (l : List Nat)
    (h : ∀ k < l.length, (rd l k &&& IGNORED ≠ 0 ↔
      ∃ k' < l.length, k < k' ∧ GET_INDEX (rd l k') = GET_INDEX (rd l k))) :
    IgnoredIffList l := by
  induction l with
  | nil => trivial
  | cons x xs ih =>
    unfold IgnoredIffList
    constructor
    · have h0 := h 0 (by simp)
      rw [rd_cons_zero] at h0
      rw [h0]
      constructor
      · rintro ⟨k', hk', hlt, he⟩
        obtain ⟨j, rfl⟩ : ∃ j, k' = j + 1 := ⟨k' - 1, by omega⟩
        rw [rd_cons_succ] at he
        exact ⟨rd xs j, rd_mem xs j (by simpa using hk'), he⟩
      · rintro ⟨y, hy, he⟩
        obtain ⟨j, hj, hjy⟩ := List.getElem_of_mem hy
        refine ⟨j + 1, by simpa using hj, by omega, ?_⟩
        rw [rd_cons_succ]
        have : rd xs j = y := by
          unfold rd
          rw [List.getD_eq_getElem _ _ hj]
          exact hjy
        rw [this]
        exact he
    · apply ih
      intro k hk
      have hk1 := h (k + 1) (by simpa using hk)
      rw [rd_cons_succ] at hk1
      rw [hk1]
      constructor
      · rintro ⟨k', hk', hlt, he⟩
        obtain ⟨j, rfl⟩ : ∃ j, k' = j + 1 := ⟨k' - 1, by omega⟩
        rw [rd_cons_succ] at he
        exact ⟨j, by simpa using hk', by omega, he⟩
      · rintro ⟨k', hk', hlt, he⟩
        exact ⟨k' + 1, by simpa using hk', by omega, by rw [rd_cons_succ]; exact he⟩

theorem IgnoredIff_take (h : List Nat) (n : Nat) (hn : n ≤ h.length) (hI : IgnoredIff h n) :
    IgnoredIffList (h.take n) := by
  apply IgnoredIffList_of_rd
  rw [List.length_take, Nat.min_eq_left hn]
  intro k hk
  rw [rd_take _ _ _ hk, hI k hk]
  constructor
  · rintro ⟨k', hk', hlt, he⟩
    exact ⟨k', hk', hlt, by rw [rd_take _ _ _ hk']; exact he⟩
  · rintro ⟨k', hk', hlt, he⟩
    rw [rd_take _ _ _ hk'] at he
    exact ⟨k', hk', hlt, he⟩

/-- Under the invariant every record of the list has a record of the same cell that is
not ignored, at its place or later. -/
theorem IgnoredIffList_last (l : List Nat) (h : IgnoredIffList l) (y : Nat) (hy : y ∈ l) :
    ∃ z ∈ l, z &&& IGNORED = 0 ∧ GET_INDEX z = GET_INDEX y := by
  induction l generalizing y with
  | nil => exact absurd hy (List.not_mem_nil _)
  | cons x xs ih =>
    unfold IgnoredIffList at h
    rcases List.mem_cons.1 hy with hyx | hyxs
    · by_cases hx : x &&& IGNORED = 0
      · exact ⟨x, List.mem_cons_self _ _, hx, by rw [hyx]⟩
      · obtain ⟨y', hy', he⟩ := h.1.1 hx
        obtain ⟨z, hz, hz0, hze⟩ := ih h.2 _ hy'
        exact ⟨z, List.mem_cons_of_mem _ hz, hz0, by rw [hze, he, hyx]⟩
    · obtain ⟨z, hz, hz0, hze⟩ := ih h.2 _ hyxs
      exact ⟨z, List.mem_cons_of_mem _ hz, hz0, hze⟩

/-- Under the invariant the records that are not ignored refer to distinct cells. -/
theorem IgnoredIffList_nodup (l : List Nat) (h : IgnoredIffList l) :
    ((l.filter (fun x => decide (x &&& IGNORED = 0))).map GET_INDEX).Nodup := by
  induction l with
  | nil => exact List.nodup_nil
  | cons x xs ih =>
    unfold IgnoredIffList at h
    by_cases hx : x &&& IGNORED = 0
    · rw [List.filter_cons_of_pos (by simpa using hx), List.map_cons, List.nodup_cons]
      refine ⟨?_, ih h.2⟩
      intro hmem
      obtain ⟨y, hy, he⟩ := List.mem_map.1 hmem
      exact (h.1.2 ⟨y, (List.mem_filter.1 hy).1, he⟩) hx
    · rw [List.filter_cons_of_neg (by simpa using hx)]
      exact ih h.2

/-- Under the invariant, with cell indices below 81, at most 81 records are not
ignored. -/
theorem IgnoredIffList_count (l : List Nat) (h : IgnoredIffList l)
    (hidx : ∀ x ∈ l, GET_INDEX x < 81) :
    (l.filter (fun x => decide (x &&& IGNORED = 0))).length ≤ 81 := by
  have hnd := IgnoredIffList_nodup l h
  have hsub : ((l.filter (fun x => decide (x &&& IGNORED = 0))).map GET_INDEX).toFinset ⊆
      Finset.range 81 := by
    intro i hi
    rw [List.mem_toFinset] at hi
    obtain ⟨y, hy, he⟩ := List.mem_map.1 hi
    rw [Finset.mem_range, ← he]
    exact hidx y (List.mem_filter.1 hy).1
  have hc := Finset.card_le_card hsub
  rw [List.toFinset_card_of_nodup hnd, List.length_map, Finset.card_range] at hc
  exact hc

/-- Under the invariant `compress(81)` keeps exactly the records that are not ignored,
as long as the records kept so far and those still to come number at most 81. -/
theorem compress_kept_all (l : List Nat) (h : IgnoredIffList l) (j : Nat)
    (hj : j + (l.filter (fun x => decide (x &&& IGNORED = 0))).length ≤ 81) :
    compress_kept 81 j l = l.filter (fun x => decide (x &&& IGNORED = 0)) := by
  induction l generalizing j with
  | nil => rfl
  | cons x xs ih =>
    unfold IgnoredIffList at h
    unfold compress_kept
    by_cases hx : x &&& IGNORED = 0
    · rw [List.filter_cons_of_pos (by simpa using hx)] at hj ⊢
      rw [if_pos hx, ih h.2 (j + 1) (by rw [List.length_cons] at hj; omega)]
    · rw [List.filter_cons_of_neg (by simpa using hx)] at hj ⊢
      obtain ⟨y, hy, _⟩ := h.1.1 hx
      obtain ⟨z, hz, hz0, _⟩ := IgnoredIffList_last xs h.2 y hy
      have hpos : 0 < (xs.filter (fun x => decide (x &&& IGNORED = 0))).length :=
        List.length_pos_of_mem (List.mem_filter.2 ⟨hz, by simpa using hz0⟩)
      rw [if_neg hx, if_pos (by omega), ih h.2 j hj]

/-- Under the invariant, with cell indices below 81, `compress(81)` leaves exactly the
records that are not ignored, at most 81 of them. -/
theorem compress_all (s : State) (hlen : s.history.length = 243) (h0 : 0 ≤ s.idx_history)
    (h243 : s.idx_history ≤ 243)
    (hidx : ∀ k < s.idx_history.toNat, GET_INDEX (rd s.history k) < 81)
    (hinv : IgnoredIff s.history s.idx_history.toNat) :
    (compress s 81).history.length = 243 ∧ (compress s 81).board = s.board ∧
      0 ≤ (compress s 81).idx_history ∧ (compress s 81).idx_history ≤ 81 ∧
      (compress s 81).history.take (compress s 81).idx_history.toNat =
        (s.history.take s.idx_history.toNat).filter (fun x => decide (x &&& IGNORED = 0)) := by
  obtain ⟨n, hs⟩ : ∃ n : Nat, s.idx_history = (n : Int) := ⟨s.idx_history.toNat, by omega⟩
  have hnat : s.idx_history.toNat = n := by omega
  rw [hnat] at hidx hinv ⊢
  obtain ⟨m, hm, h1, h2, h3, _, h5⟩ := compress_eq_kept s 81 n hs (by omega)
  have hmat : (compress s 81).idx_history.toNat = m := by omega
  have hL := IgnoredIff_take s.history n (by omega) hinv
  have hmem : ∀ x ∈ s.history.take n, GET_INDEX x < 81 := by
    intro x hx
    obtain ⟨k, hk, hkx⟩ := List.getElem_of_mem hx
    have hk' : k < n := by
      rw [List.length_take] at hk
      omega
    have := hidx k hk'
    rw [← rd_take s.history n k hk'] at this
    unfold rd at this
    rw [List.getD_eq_getElem _ _ hk, hkx] at this
    exact this
  have hcount := IgnoredIffList_count _ hL hmem
  rw [compress_kept_all _ hL 0 (by omega)] at h5
  have hmlen : m = ((s.history.take n).filter (fun x => decide (x &&& IGNORED = 0))).length := by
    rw [← h5, List.length_take, h2, hlen]
    omega
  rw [hmat]
  exact ⟨by rw [h2, hlen], h3, by omega, by omega, h5⟩

/-- C39: for every history array of 243 entries with at most 242 records in use, whose
records hold cell indices below 81 and satisfy the ignored-flag invariant (a record is
ignored iff a later record refers to the same index), `compress(81)` leaves exactly the
records that are not ignored, at most 81 of them, and `add_move` stores its record inside
the array and leaves at most 242 records in use: one more than before when fewer than 242
were in use, and one more than `compress(81)` leaves otherwise. -/
theorem add_move_in_bounds (s : State) (idx digit choice : Nat)
    (hlen : s.history.length = 243) (h0 : 0 ≤ s.idx_history) (h242 : s.idx_history ≤ 242)
    (hidx : ∀ k < s.idx_history.toNat, GET_INDEX (rd s.history k) < 81)
    (hinv : IgnoredIff s.history s.idx_history.toNat) :
    (compress s 81).idx_history ≤ 81 ∧
      (compress s 81).history.take (compress s 81).idx_history.toNat =
        (s.history.take s.idx_history.toNat).filter (fun x => decide (x &&& IGNORED = 0)) ∧
      ∃ s', add_move s idx digit choice = some s' ∧ s'.history.length = 243 ∧
        0 < s'.idx_history ∧ s'.idx_history ≤ 242 ∧
        s'.idx_history =
          (if s.idx_history = 242 then (compress s 81).idx_history else s.idx_history) + 1 := by
  obtain ⟨hc1, _, hc2, hc3, hc4⟩ := compress_all s hlen h0 (by omega) hidx hinv
  refine ⟨hc3, hc4, ?_⟩
  by_cases hcap : s.idx_history = 242
  · rw [if_pos hcap]
    have hif : (if 243 - 1 ≤ s.idx_history ∨ s.idx_history < 0 then compress s 81 else s) =
        compress s 81 := if_pos (Or.inl (by omega))
    unfold add_move
    dsimp only
    rw [hif, if_neg (by omega)]
    refine ⟨_, rfl, ?_, ?_, ?_, rfl⟩
    · dsimp only
      rw [add_move_ignore_length, length_wr]
      exact hc1
    · dsimp only
      omega
    · dsimp only
      omega
  · rw [if_neg hcap, add_move_below s idx digit choice h0 (by omega)]
    refine ⟨_, rfl, ?_, ?_, ?_, rfl⟩
    · dsimp only
      rw [add_move_ignore_length, length_wr]
      exact hlen
    · dsimp only
      omega
    · dsimp only
      omega

theorem rd_map_range (f : Nat → Nat) (n k : Nat) (hk : k < n) :
    rd ((List.range n).map f) k = f k := by
  unfold rd
  rw [List.getD_eq_getElem _ _ (by simpa using hk), List.getElem_map, List.getElem_range]

/-- The records of `state_at_capacity` satisfy the ignored-flag invariant. -/
theorem state_at_capacity_inv :
    (∀ k < state_at_capacity.idx_history.toNat,
      GET_INDEX (rd state_at_capacity.history k) < 81) ∧
      IgnoredIff state_at_capacity.history state_at_capacity.idx_history.toNat := by
  have hn : state_at_capacity.idx_history.toNat = 242 := rfl
  have hrd : ∀ k < 242, GET_INDEX (rd state_at_capacity.history k) = 0 ∧
      (rd state_at_capacity.history k &&& IGNORED ≠ 0 ↔ k < 241) := by
    intro k hk
    unfold state_at_capacity
    dsimp only
    rw [rd_map_range _ 243 k (by omega), if_neg (by omega)]
    by_cases h1 : k = 241
    · rw [if_pos h1]
      exact ⟨by decide, by constructor <;> intro h <;> first | omega | exact absurd h (by decide)⟩
    · rw [if_neg h1]
      by_cases h2 : k % 2 = 0
      · rw [if_pos h2]
        exact ⟨by decide, fun _ => by omega, fun _ => by decide⟩
      · rw [if_neg h2]
        exact ⟨by decide, fun _ => by omega, fun _ => by decide⟩
  rw [hn]
  constructor
  · intro k hk
    rw [(hrd k hk).1]
    omega
  · intro k hk
    rw [(hrd k hk).2]
    constructor
    · intro h
      exact ⟨241, by omega, h, by rw [(hrd k hk).1, (hrd 241 (by omega)).1]⟩
    · rintro ⟨k', hk', hlt, _⟩
      omega

set_option maxRecDepth 100000 in
theorem add_move_in_bounds_witness :
    (compress state_at_capacity 81).idx_history ≤ 81 ∧
      (compress state_at_capacity 81).history.take
          (compress state_at_capacity 81).idx_history.toNat =
        (state_at_capacity.history.take state_at_capacity.idx_history.toNat).filter
          (fun x => decide (x &&& IGNORED = 0)) ∧
      ∃ s', add_move state_at_capacity 3 7 0 = some s' ∧ s'.history.length = 243 ∧
        0 < s'.idx_history ∧ s'.idx_history ≤ 242 ∧
        s'.idx_history =
          (if state_at_capacity.idx_history = 242 then
            (compress state_at_capacity 81).idx_history
          else state_at_capacity.idx_history) + 1 :=
  add_move_in_bounds state_at_capacity 3 7 0 (by simp [state_at_capacity]) (by decide)
    (by decide) state_at_capacity_inv.1 state_at_capacity_inv.2

end Sudoku

namespace Sudoku

/-! ## Claim C38: `fix` -/

theorem fix_flag_rd (h : List Nat) (n k : Nat) (hn : n ≤ h.length) :
    (fix_flag h n).length = h.length ∧
      rd (fix_flag h n) k = if k < n then rd h k ||| FIXED else rd h k := by
  induction n with
  | zero => exact ⟨rfl, by rw [if_neg (by omega)]; rfl⟩
  | succ n ih =>
    obtain ⟨ih1, ih2⟩ := ih (by omega)
    have e : fix_flag h (n + 1) =
        wr (fix_flag h n) n (rd (fix_flag h n) n ||| FIXED) := by
      unfold fix_flag
      rw [List.range_succ, List.foldl_append]
      rfl
    rw [e]
    refine ⟨by rw [length_wr, ih1], ?_⟩
    by_cases hk : k = n
    · subst hk
      rw [rd_wr_self _ _ _ (by rw [ih1]; omega), ih2, if_neg (by omega), if_pos (by omega)]
    · rw [rd_wr_ne _ _ _ _ (fun hc => hk hc.symm), ih2]
      by_cases hkn : k < n
      · rw [if_pos hkn, if_pos (by omega)]
      · rw [if_neg hkn, if_neg (by omega)]

/-- With a limit that is not below the number of records, `compress` keeps exactly the
records that are not ignored. -/
theorem compress_kept_limit (limit : Int) (j : Nat) (l : List Nat)
    (h : ((j + l.length : Nat) : Int) ≤ limit) :
    compress_kept limit j l = l.filter (fun x => decide (x &&& IGNORED = 0)) := by
  induction l generalizing j with
  | nil => rfl
  | cons x xs ih =>
    rw [List.length_cons] at h
    unfold compress_kept
    by_cases hx : x &&& IGNORED = 0
    · rw [if_pos hx, List.filter_cons_of_pos (by simpa using hx), ih (j + 1) (by omega)]
    · rw [if_neg hx, List.filter_cons_of_neg (by simpa using hx), if_pos (by omega),
        ih j (by omega)]

theorem and_FIXED_or (x m : Nat) (h : x &&& FIXED ≠ 0) : (x ||| m) &&& FIXED ≠ 0 := by
  intro hc
  apply h
  apply Nat.eq_of_testBit_eq
  intro i
  have := congrArg (fun v => v.testBit i) hc
  simp only [Nat.testBit_and, Nat.testBit_or, Nat.zero_testBit] at this ⊢
  cases hx : x.testBit i <;> simp_all

/-- When every replayed record is flagged fixed, every non-empty cell of the replayed
board is flagged fixed. -/
theorem replay_fixed_all (hist : List Nat) (n : Nat) (hn : n ≤ hist.length)
    (hwf : WFHistory hist n)
    (hfix : ∀ k < n, replayable (rd hist k) → rd hist k &&& FIXED ≠ 0) :
    ∀ c < 81, DIGIT (replay hist n).2 c ≠ 0 → IS_FIXED (replay hist n).2 c ≠ 0 := by
  induction n with
  | zero =>
    intro c _ hc
    rw [replay_zero] at hc
    exact absurd (DIGIT_replicate c) hc
  | succ n ih =>
    have hwf' : WFHistory hist n := fun k hk => hwf k (by omega)
    have ih' := ih (by omega) hwf' (fun k hk => hfix k (by omega))
    by_cases hr : replayable (rd hist n)
    · have hB := replay_BoardWF hist n (by omega) hwf'
      have hw := hwf n (by omega)
      have hd1 : 1 ≤ GET_DIGIT (record_word (rd hist n)) := by
        rw [GET_DIGIT_record_word]
        have := hr.2
        omega
      have hd9 : GET_DIGIT (record_word (rd hist n)) ≤ 9 := by
        rw [GET_DIGIT_record_word]
        exact hw.2
      intro c hc hne
      rw [replay_succ_place hist n (by omega) hwf hr] at hne ⊢
      rw [place_DIGIT _ _ _ _ hB.len hw.1 hd1 hd9] at hne
      unfold IS_FIXED
      rw [place_rd _ _ _ _ hB.len hw.1 hd1 hd9]
      by_cases hcn : c = GET_INDEX (rd hist n)
      · rw [if_pos hcn]
        apply and_FIXED_or
        unfold record_word
        rw [if_pos (hfix n (by omega) hr), Nat.or_comm]
        apply and_FIXED_or
        decide
      · rw [if_neg hcn] at hne ⊢
        have := ih' c hc hne
        unfold IS_FIXED at this
        split
        · exact and_FIXED_or _ _ this
        · exact this
    · rw [replay_succ _ _ (by omega), reapply_step_skip _ _ hr]
      exact ih'

theorem flag_fixed (x : Nat) :
    (x ||| FIXED) &&& FIXED ≠ 0 ∧ ((x ||| FIXED) &&& IGNORED = 0 ↔ x &&& IGNORED = 0) ∧
      GET_INDEX (x ||| FIXED) = GET_INDEX x ∧ GET_DIGIT (x ||| FIXED) = GET_DIGIT x := by
  refine ⟨?_, ?_, GET_INDEX_or x FIXED (by decide), GET_DIGIT_or x FIXED FIXED_and_DIGIT_MASK⟩
  · rw [Nat.or_comm]
    exact and_FIXED_or _ _ (by decide)
  · rw [Nat.and_distrib_right]
    have : FIXED &&& IGNORED = 0 := by decide
    rw [this, Nat.or_zero]

theorem mem_take_rd (h : List Nat) (n : Nat) (x : Nat) (hx : x ∈ h.take n) :
    ∃ k < n, k < h.length ∧ rd h k = x := by
  obtain ⟨k, hk, hkx⟩ := List.getElem_of_mem hx
  rw [List.length_take] at hk
  refine ⟨k, by omega, by omega, ?_⟩
  rw [List.getElem_take] at hkx
  unfold rd
  rw [List.getD_eq_getElem _ _ (by omega)]
  exact hkx

theorem rd_take_mem (h : List Nat) (n k : Nat) (hk : k < n) (hn : n ≤ h.length) :
    rd h k ∈ h.take n := by
  rw [← rd_take h n k hk]
  exact rd_mem _ _ (by rw [List.length_take]; omega)

/-- The two branches of `fix`. -/
theorem fix_eq (s : State) :
    ((reapply s).1 ≠ 0 → fix s = (-1, (reapply s).2)) ∧
      ((reapply s).1 = 0 → fix s = (0, (reapply (State.mk
        (compress (reapply s).2 s.idx_history).board
        (fix_flag (compress (reapply s).2 s.idx_history).history
          (compress (reapply s).2 s.idx_history).idx_history.toNat)
        (compress (reapply s).2 s.idx_history).idx_history
        (compress (reapply s).2 s.idx_history).pass)).2)) := by
  constructor
  · intro h
    unfold fix
    dsimp only
    rw [if_neg h]
  · intro h
    unfold fix
    dsimp only
    rw [if_pos h]
    rfl

/-- The state that `fix` leaves when the replay is valid: the records are those that were
not ignored, each flagged fixed, and every non-empty cell is flagged fixed. -/
theorem fix_valid (s : State) (hlen : s.history.length = 243) (h0 : 0 ≤ s.idx_history)
    (h243 : s.idx_history ≤ 243) (hwf : WFHistory s.history s.idx_history.toNat)
    (hok : (reapply s).1 = 0) :
    (fix s).1 = 0 ∧ (fix s).2.history.length = 243 ∧ 0 ≤ (fix s).2.idx_history ∧
      (fix s).2.idx_history ≤ s.idx_history ∧
      (fix s).2.history.take (fix s).2.idx_history.toNat =
        ((s.history.take s.idx_history.toNat).filter
          (fun x => decide (x &&& IGNORED = 0))).map (fun x => x ||| FIXED) ∧
      (∀ k < (fix s).2.idx_history.toNat,
        rd (fix s).2.history k &&& IGNORED = 0 ∧ rd (fix s).2.history k &&& FIXED ≠ 0) ∧
      ∀ c < 81, DIGIT (fix s).2.board c ≠ 0 → IS_FIXED (fix s).2.board c ≠ 0 := by
  obtain ⟨n, hs⟩ : ∃ n : Nat, s.idx_history = (n : Int) := ⟨s.idx_history.toNat, by omega⟩
  have hnat : s.idx_history.toNat = n := by omega
  rw [hnat] at hwf ⊢
  have hrs : (reapply s).2 = State.mk (replay s.history n).2 s.history (n : Int) s.pass := by
    rw [reapply_snd, hnat, hs]
  obtain ⟨m, hm, h1, h2, _, _, h5⟩ := compress_eq_kept (reapply s).2 s.idx_history n
    (by rw [hrs]) (by rw [hrs]; dsimp only; omega)
  rw [(fix_eq s).2 hok, reapply_snd]
  generalize compress (reapply s).2 s.idx_history = s1 at h1 h2 h5
  rw [hrs] at h2 h5
  dsimp only at h2 h5 ⊢
  rw [compress_kept_limit _ 0 _ (by rw [List.length_take, hs]; omega)] at h5
  have hmat : s1.idx_history.toNat = m := by omega
  rw [hmat]
  have hl1 : s1.history.length = 243 := by rw [h2, hlen]
  have hrd : ∀ k < m, rd (fix_flag s1.history m) k = rd s1.history k ||| FIXED := by
    intro k hk
    rw [(fix_flag_rd s1.history m k (by omega)).2, if_pos hk]
  have hsrc : ∀ k < m, rd s1.history k &&& IGNORED = 0 ∧ WFRec (rd s1.history k) := by
    intro k hk
    have hmem := rd_take_mem s1.history m k hk (by omega)
    rw [h5] at hmem
    obtain ⟨hx, hx0⟩ := List.mem_filter.1 hmem
    obtain ⟨k', hk', _, he⟩ := mem_take_rd s.history n _ hx
    refine ⟨by simpa using hx0, ?_⟩
    rw [← he]
    exact hwf k' hk'
  have hflags : ∀ k < m, rd (fix_flag s1.history m) k &&& IGNORED = 0 ∧
      rd (fix_flag s1.history m) k &&& FIXED ≠ 0 := by
    intro k hk
    rw [hrd k hk]
    exact ⟨(flag_fixed _).2.1.2 (hsrc k hk).1, (flag_fixed _).1⟩
  have hlf : (fix_flag s1.history m).length = 243 := by
    rw [(fix_flag_rd s1.history m 0 (by omega)).1, hl1]
  refine ⟨rfl, hlf, by omega, by omega, ?_, hflags, ?_⟩
  · rw [← h5]
    apply List.ext_getElem
    · rw [List.length_map, List.length_take, List.length_take, hlf, hl1]
    · intro k hk1 hk2
      rw [List.length_take] at hk1
      have hk : k < m := by omega
      rw [List.getElem_map, List.getElem_take, List.getElem_take]
      have e1 := hrd k hk
      unfold rd at e1
      rw [List.getD_eq_getElem (fix_flag s1.history m) 0 (by omega),
        List.getD_eq_getElem s1.history 0 (by omega)] at e1
      exact e1
  · apply replay_fixed_all _ m (by omega)
    · intro k hk
      rw [hrd k hk]
      unfold WFRec
      rw [(flag_fixed _).2.2.1, (flag_fixed _).2.2.2]
      exact (hsrc k hk).2
    · intro k hk _
      exact (hflags k hk).2

/-- C38: for every history array of 243 entries whose records in use hold a cell index
below 81 and a digit 0..9: `fix` returns -1 exactly when `reapply` reports an invalid
board, and then the history and its length are as before; otherwise it returns 0, the
records in use are the records that were not ignored, in their order, each with the fixed
flag set, so none of them is ignored and all are flagged fixed, and every non-empty cell
of the board is flagged fixed. -/
theorem fix_result (s : State) (hlen : s.history.length = 243) (h0 : 0 ≤ s.idx_history)
    (h243 : s.idx_history ≤ 243) (hwf : WFHistory s.history s.idx_history.toNat) :
    ((fix s).1 = -1 ↔ (reapply s).1 = -1) ∧
      ((fix s).1 = -1 →
        (fix s).2.history = s.history ∧ (fix s).2.idx_history = s.idx_history) ∧
      ((fix s).1 ≠ -1 →
        (fix s).1 = 0 ∧ (fix s).2.history.length = 243 ∧ 0 ≤ (fix s).2.idx_history ∧
          (fix s).2.idx_history ≤ s.idx_history ∧
          (fix s).2.history.take (fix s).2.idx_history.toNat =
            ((s.history.take s.idx_history.toNat).filter
              (fun x => decide (x &&& IGNORED = 0))).map (fun x => x ||| FIXED) ∧
          (∀ k < (fix s).2.idx_history.toNat,
            rd (fix s).2.history k &&& IGNORED = 0 ∧ rd (fix s).2.history k &&& FIXED ≠ 0) ∧
          ∀ c < 81, DIGIT (fix s).2.board c ≠ 0 → IS_FIXED (fix s).2.board c ≠ 0) := by
  have hcases : (reapply s).1 = 0 ∨ (reapply s).1 = -1 := by
    unfold reapply
    dsimp only
    exact replay_ok_cases s.history s.idx_history.toNat (by omega)
  rcases hcases with hok | hbad
  · have hv := fix_valid s hlen h0 h243 hwf hok
    refine ⟨?_, ?_, fun _ => hv⟩
    · rw [hv.1, hok]
    · intro hc
      rw [hv.1] at hc
      exact absurd hc (by decide)
  · have hne : (reapply s).1 ≠ 0 := by
      rw [hbad]
      decide
    have he := (fix_eq s).1 hne
    refine ⟨?_, ?_, ?_⟩
    · rw [he, hbad]
    · intro _
      rw [he, reapply_snd]
      exact ⟨rfl, rfl⟩
    · intro hc
      rw [he] at hc
      exact absurd rfl hc

set_option maxRecDepth 100000 in
theorem fix_result_witness :
    ((fix (history_state records_twice)).1 = -1 ↔
        (reapply (history_state records_twice)).1 = -1) ∧
      ((fix (history_state records_twice)).1 = -1 →
        (fix (history_state records_twice)).2.history = (history_state records_twice).history ∧
          (fix (history_state records_twice)).2.idx_history =
            (history_state records_twice).idx_history) ∧
      ((fix (history_state records_twice)).1 ≠ -1 →
        (fix (history_state records_twice)).1 = 0 ∧
          (fix (history_state records_twice)).2.history.length = 243 ∧
          0 ≤ (fix (history_state records_twice)).2.idx_history ∧
          (fix (history_state records_twice)).2.idx_history ≤
            (history_state records_twice).idx_history ∧
          (fix (history_state records_twice)).2.history.take
              (fix (history_state records_twice)).2.idx_history.toNat =
            (((history_state records_twice).history.take
              (history_state records_twice).idx_history.toNat).filter
              (fun x => decide (x &&& IGNORED = 0))).map (fun x => x ||| FIXED) ∧
          (∀ k < (fix (history_state records_twice)).2.idx_history.toNat,
            rd (fix (history_state records_twice)).2.history k &&& IGNORED = 0 ∧
              rd (fix (history_state records_twice)).2.history k &&& FIXED ≠ 0) ∧
          ∀ c < 81, DIGIT (fix (history_state records_twice)).2.board c ≠ 0 →
            IS_FIXED (fix (history_state records_twice)).2.board c ≠ 0) :=
  fix_result (history_state records_twice) (by decide!) (by decide) (by decide) (by decide!)

end Sudoku

namespace Sudoku

/-! ## Claim C37: `fillx` always applies the move -/

theorem or_IGNORED_set (x : Nat) : (x ||| IGNORED) &&& IGNORED ≠ 0 := by
  rw [IGNORED_eq, and_two_pow_ne_zero, Nat.testBit_or, Nat.testBit_two_pow]
  simp

/-- After the new record for cell `idx` is stored behind records of which every one with
a later record of its cell is ignored, every older record of cell `idx` is ignored. -/
theorem add_move_ignore_older (h : List Nat) (n idx w : Nat) (hn : n < h.length)
    (hP : ∀ k k', k < k' → k' < n → GET_INDEX (rd h k') = GET_INDEX (rd h k) →
      rd h k &&& IGNORED ≠ 0) :
    ∀ k < n, GET_INDEX (rd (add_move_ignore (wr h n w) idx n) k) = idx →
      rd (add_move_ignore (wr h n w) idx n) k &&& IGNORED ≠ 0 := by
  intro k hk hki
  have e : ∀ j < n, rd (wr h n w) j = rd h j := fun j hj => rd_wr_ne _ _ _ _ (by omega)
  rw [add_move_ignore_index, e k hk] at hki
  by_cases hlater : ∃ k' < n, k < k' ∧ GET_INDEX (rd h k') = idx
  · obtain ⟨k', hk', hlt, he⟩ := hlater
    have hig := hP k k' hlt hk' (by rw [he, hki])
    rcases add_move_ignore_rd (wr h n w) idx n k with e1 | ⟨_, _, e1⟩
    · rw [e1, e k hk]
      exact hig
    · rw [e1]
      exact or_IGNORED_set _
  · rw [add_move_ignore_latest (wr h n w) idx n k hk (by rw [length_wr]; omega)
      (by rw [e k hk]; exact hki)
      (fun k' hk' hlt hc => hlater ⟨k', hk', hlt, by rw [← e k' hk']; exact hc⟩)]
    exact or_IGNORED_set _

/-- The state in which `add_move` stores its record, under the ignored-flag invariant:
the history array is whole, fewer than 243 records are in use, they are well formed, and
every record with a later record of its cell is ignored. -/
theorem add_move_slot (s : State) (hlen : s.history.length = 243) (h0 : 0 ≤ s.idx_history)
    (h243 : s.idx_history ≤ 243) (hwf : WFHistory s.history s.idx_history.toNat)
    (hinv : IgnoredIff s.history s.idx_history.toNat) :
    ∃ s0, s0 = (if 243 - 1 ≤ s.idx_history ∨ s.idx_history < 0 then compress s 81 else s) ∧
      s0.history.length = 243 ∧ s0.board = s.board ∧ s0.pass = s.pass ∧
      0 ≤ s0.idx_history ∧ s0.idx_history < 243 ∧
      WFHistory s0.history s0.idx_history.toNat ∧
      ∀ k k', k < k' → k' < s0.idx_history.toNat →
        GET_INDEX (rd s0.history k') = GET_INDEX (rd s0.history k) →
        rd s0.history k &&& IGNORED ≠ 0 := by
  refine ⟨_, rfl, ?_⟩
  by_cases hcap : 243 - 1 ≤ s.idx_history ∨ s.idx_history < 0
  · rw [if_pos hcap]
    obtain ⟨hc1, hc2, hc3, hc4, hc5⟩ := compress_all s hlen h0 h243
      (fun k hk => (hwf k hk).1) hinv
    have hcp : (compress s 81).pass = s.pass := rfl
    generalize compress s 81 = s0 at hc1 hc2 hc3 hc4 hc5 hcp
    obtain ⟨m, hm⟩ : ∃ m : Nat, s0.idx_history = (m : Int) := ⟨s0.idx_history.toNat, by omega⟩
    have hmat : s0.idx_history.toNat = m := by omega
    rw [hmat] at hc5 ⊢
    have hL := IgnoredIff_take s.history _ (by omega) hinv
    refine ⟨hc1, hc2, hcp, hc3, by omega, ?_, ?_⟩
    · intro k hk
      have hmem := rd_take_mem s0.history m k hk (by omega)
      rw [hc5] at hmem
      obtain ⟨k', hk', _, he⟩ := mem_take_rd s.history _ _ (List.mem_filter.1 hmem).1
      rw [← he]
      exact hwf k' hk'
    · intro k k' hlt hk' he
      exfalso
      have hnd := IgnoredIffList_nodup _ hL
      rw [← hc5] at hnd
      have hlen' : ((s0.history.take m).map GET_INDEX).length = m := by
        rw [List.length_map, List.length_take]
        omega
      have hg : ∀ j (hj : j < ((s0.history.take m).map GET_INDEX).length),
          ((s0.history.take m).map GET_INDEX)[j] = GET_INDEX (rd s0.history j) := by
        intro j hj
        rw [List.getElem_map, List.getElem_take]
        unfold rd
        rw [List.getD_eq_getElem s0.history 0 (by omega)]
      have hk1 : k < ((s0.history.take m).map GET_INDEX).length := by omega
      have hk2 : k' < ((s0.history.take m).map GET_INDEX).length := by omega
      have hkk : ((s0.history.take m).map GET_INDEX)[k] =
          ((s0.history.take m).map GET_INDEX)[k'] := by
        rw [hg k hk1, hg k' hk2, he]
      have := (List.Nodup.getElem_inj_iff hnd).1 hkk
      omega
  · rw [if_neg hcap]
    refine ⟨hlen, rfl, rfl, h0, by omega, hwf, ?_⟩
    intro k k' hlt hk' he
    exact (hinv k (by omega)).2 ⟨k', hk', hlt, he⟩

/-- What `add_move` leaves under the ignored-flag invariant: the board is untouched, the
new record is the last one, the records before it are well formed and those of the cell
`idx` are ignored. -/
theorem add_move_clears (s : State) (idx digit : Nat) (hlen : s.history.length = 243)
    (h0 : 0 ≤ s.idx_history) (h243 : s.idx_history ≤ 243)
    (hwf : WFHistory s.history s.idx_history.toNat)
    (hinv : IgnoredIff s.history s.idx_history.toNat) :
    ∃ (s1 : State) (n1 : Nat), add_move s idx digit 0 = some s1 ∧ s1.board = s.board ∧ s1.pass = s.pass ∧
      s1.history.length = 243 ∧ n1 < 243 ∧ s1.idx_history = (n1 : Int) + 1 ∧
      rd s1.history n1 = SET_INDEX idx ||| SET_DIGIT digit ||| 0 ∧
      WFHistory s1.history n1 ∧
      ∀ k < n1, GET_INDEX (rd s1.history k) = idx → rd s1.history k &&& IGNORED ≠ 0 := by
  obtain ⟨s0, hs0, hl0, hb0, hp0, hn0, hlt0, hwf0, hP0⟩ := add_move_slot s hlen h0 h243 hwf hinv
  obtain ⟨n, hn⟩ : ∃ n : Nat, s0.idx_history = (n : Int) := ⟨s0.idx_history.toNat, by omega⟩
  have hnat : s0.idx_history.toNat = n := by omega
  rw [hnat] at hwf0 hP0
  have e : ∀ j < n, rd (wr s0.history n (SET_INDEX idx ||| SET_DIGIT digit ||| 0)) j =
      rd s0.history j := fun j hj => rd_wr_ne _ _ _ _ (by omega)
  refine ⟨State.mk s0.board
    (add_move_ignore (wr s0.history n (SET_INDEX idx ||| SET_DIGIT digit ||| 0)) idx n)
    (s0.idx_history + 1) s0.pass, n, ?_, hb0, hp0, ?_, by omega, by dsimp only; omega, ?_, ?_, ?_⟩
  · unfold add_move
    dsimp only
    rw [← hs0, if_neg (by omega), hnat]
  · dsimp only
    rw [add_move_ignore_length, length_wr, hl0]
  · dsimp only
    rw [add_move_ignore_rd_ge _ _ _ _ (le_refl _), rd_wr_self _ _ _ (by omega)]
  · intro k hk
    dsimp only
    have hw := hwf0 k hk
    unfold WFRec at hw ⊢
    rcases add_move_ignore_rd (wr s0.history n (SET_INDEX idx ||| SET_DIGIT digit ||| 0)) idx n k
      with e1 | ⟨_, _, e1⟩
    · rw [e1, e k hk]
      exact hw
    · rw [e1, e k hk, GET_INDEX_or_IGNORED, GET_DIGIT_or _ _ (by decide)]
      exact hw
  · dsimp only
    exact add_move_ignore_older s0.history n idx _ (by omega) hP0

/-- The branch of `fillx` that clears the cell: after `add_move(idx, 0, 0)` the replay
leaves the cell empty. -/
theorem replay_cleared (H : List Nat) (n1 idx : Nat) (hl : H.length = 243) (hn : n1 < 243)
    (hidx : idx < 81) (hlast : rd H n1 = SET_INDEX idx ||| SET_DIGIT 0 ||| 0)
    (hwf : WFHistory H n1)
    (hold : ∀ k < n1, GET_INDEX (rd H k) = idx → rd H k &&& IGNORED ≠ 0) :
    DIGIT (replay H (n1 + 1)).2 idx = 0 := by
  have hrec := record_digit idx 0 0 (by omega) (by omega) (Nat.zero_and _)
  have hri := record_index idx 0 0 (by omega) (Nat.zero_and _)
  have hwf1 : WFHistory H (n1 + 1) := by
    intro k hk
    by_cases hkn : k = n1
    · rw [hkn, hlast]
      unfold WFRec
      rw [hri, hrec]
      omega
    · exact hwf k (by omega)
  by_contra hne
  obtain ⟨k, hk, hr, hki⟩ := replay_filled_rev H (n1 + 1) idx (by omega) hwf1 hne
  by_cases hkn : k = n1
  · rw [hkn, hlast] at hr
    exact hr.2 hrec
  · exact hold k (by omega) hki hr.1

/-- The branch of `fillx` that overwrites the cell: after the digit is stored in the last
record, the replay leaves the digit in the cell. -/
theorem replay_overwritten (H : List Nat) (n1 idx d : Nat) (hl : H.length = 243)
    (hn : n1 < 243) (hidx : idx < 81) (hd1 : 1 ≤ d) (hd9 : d ≤ 9)
    (hlast : rd H n1 = SET_INDEX idx ||| SET_DIGIT 0 ||| 0) (hwf : WFHistory H n1) :
    DIGIT (replay (wr H n1 (rd H n1 ||| SET_DIGIT d)) (n1 + 1)).2 idx = d := by
  have hw : rd (wr H n1 (rd H n1 ||| SET_DIGIT d)) n1 = SET_INDEX idx ||| SET_DIGIT d ||| 0 := by
    rw [rd_wr_self _ _ _ (by omega), hlast]
    have : SET_DIGIT 0 = 0 := by decide
    rw [this, Nat.or_zero, Nat.or_zero, Nat.or_zero]
  have hrd := record_digit idx d 0 (by omega) (by omega) (Nat.zero_and _)
  have hri := record_index idx d 0 (by omega) (Nat.zero_and _)
  have hrl := record_live idx d (by omega) (by omega)
  have hwf1 : WFHistory (wr H n1 (rd H n1 ||| SET_DIGIT d)) (n1 + 1) := by
    intro k hk
    by_cases hkn : k = n1
    · rw [hkn, hw]
      unfold WFRec
      rw [hri, hrd]
      omega
    · rw [rd_wr_ne _ _ _ _ (fun hc => hkn hc.symm)]
      exact hwf k (by omega)
  have hr : replayable (rd (wr H n1 (rd H n1 ||| SET_DIGIT d)) n1) := by
    rw [hw]
    exact ⟨hrl.2.1, by rw [hrd]; omega⟩
  have hB := replay_BoardWF (wr H n1 (rd H n1 ||| SET_DIGIT d)) n1 (by rw [length_wr]; omega)
    (fun k hk => hwf1 k (by omega))
  rw [replay_succ_place _ n1 (by rw [length_wr]; omega) hwf1 hr,
    place_DIGIT _ _ _ _ hB.len (by rw [hw, hri]; exact hidx)
      (by rw [GET_DIGIT_record_word, hw, hrd]; exact hd1)
      (by rw [GET_DIGIT_record_word, hw, hrd]; exact hd9),
    hw, hri, if_pos rfl, GET_DIGIT_record_word, hrd]

/-- C37: for every state with a board of 81 cells (in particular the replay of the
history) and a history array of 243 entries whose records in use hold a cell index below
81 and a digit 0..9 and satisfy the ignored-flag invariant (a record is ignored iff a
later record refers to the same index), for every cell `idx` and every digit `d` in 0..9:
`fillx(idx, d)` returns, afterwards the cell `idx` holds the digit `d` (it is empty when
`d = 0`), and the state is left as it was when the cell already held `d`. -/
theorem fillx_applies (s : State) (idx d : Nat) (hb : s.board.length = 81)
    (hlen : s.history.length = 243) (h0 : 0 ≤ s.idx_history) (h243 : s.idx_history ≤ 243)
    (hwf : WFHistory s.history s.idx_history.toNat)
    (hinv : IgnoredIff s.history s.idx_history.toNat) (hidx : idx < 81) (hd : d ≤ 9) :
    ∃ s', fillx s idx d = some s' ∧ DIGIT s'.board idx = d ∧
      (DIGIT s.board idx = d → s' = s) := by
  by_cases h1 : DIGIT s.board idx = d
  · refine ⟨s, ?_, h1, fun _ => rfl⟩
    unfold fillx
    rw [if_pos h1]
  · by_cases h2 : d ≠ 0 ∧ IS_EMPTY s.board idx
    · obtain ⟨b, hbdef⟩ : ∃ b, b = update (wr s.board idx (SET_DIGIT d ||| SET_INDEX idx)) idx :=
        ⟨_, rfl⟩
      obtain ⟨s1, n1, hadd, hbd, _⟩ := add_move_clears (State.mk b s.history s.idx_history s.pass)
        idx d hlen h0 h243 hwf hinv
      have hg : GET_DIGIT (SET_DIGIT d ||| SET_INDEX idx) = d := by
        have := record_digit idx d 0 (by omega) (by omega) (Nat.zero_and _)
        rw [Nat.or_zero, Nat.or_comm] at this
        exact this
      refine ⟨s1, ?_, ?_, fun hc => absurd hc h1⟩
      · unfold fillx
        rw [if_neg h1, if_pos h2]
        dsimp only
        rw [← hbdef]
        exact hadd
      · rw [hbd]
        dsimp only
        rw [hbdef, place_DIGIT s.board idx _ idx hb hidx (by rw [hg]; have := h2.1; omega)
          (by rw [hg]; exact hd), if_pos rfl, hg]
    · obtain ⟨s1, n1, hadd, _, _, hl1, hn1, hi1, hlast, hwf1, hold⟩ :=
        add_move_clears s idx 0 hlen h0 h243 hwf hinv
      have hnat : s1.idx_history.toNat = n1 + 1 := by omega
      have hre : (reapply s1).2 =
          State.mk (replay s1.history (n1 + 1)).2 s1.history s1.idx_history s1.pass := by
        rw [reapply_snd, hnat]
      by_cases hd0 : d = 0
      · refine ⟨(reapply s1).2, ?_, ?_, fun hc => absurd hc h1⟩
        · unfold fillx
          rw [if_neg h1, if_neg h2, hadd]
          dsimp only
          rw [if_neg (by rw [hd0]; exact fun hc => hc rfl)]
        · rw [hre, hd0]
          exact replay_cleared s1.history n1 idx hl1 hn1 hidx hlast hwf1 hold
      · have hpos : 0 < (reapply s1).2.idx_history := by
          rw [hre]
          dsimp only
          omega
        have hn : ((reapply s1).2.idx_history - 1).toNat = n1 := by
          rw [hre]
          dsimp only
          omega
        refine ⟨(reapply (State.mk (reapply s1).2.board
          (wr (reapply s1).2.history n1 (rd (reapply s1).2.history n1 ||| SET_DIGIT d))
          (reapply s1).2.idx_history (reapply s1).2.pass)).2, ?_, ?_, fun hc => absurd hc h1⟩
        · unfold fillx
          rw [if_neg h1, if_neg h2, hadd]
          dsimp only
          rw [if_pos hd0, if_pos hpos, hn]
        · rw [reapply_snd]
          dsimp only
          rw [hre]
          dsimp only
          rw [hnat]
          exact replay_overwritten s1.history n1 idx d hl1 hn1 hidx (by omega) hd hlast hwf1

set_option maxRecDepth 100000 in
theorem fillx_applies_witness :
    DIGIT (reapply (history_state records_twice)).2.board 1 = 4 ∧
      ∃ s', fillx (reapply (history_state records_twice)).2 0 4 = some s' ∧
        DIGIT s'.board 0 = 4 ∧
        (DIGIT (reapply (history_state records_twice)).2.board 0 = 4 →
          s' = (reapply (history_state records_twice)).2) :=
  ⟨by decide!,
    fillx_applies (reapply (history_state records_twice)).2 0 4 (by decide!) (by decide!)
      (by decide) (by decide) (by decide!) (by decide!) (by decide) (by decide)⟩

end Sudoku

namespace Sudoku

/-! ## Claim C34: `rotate` -/

theorem exchange_fold_spec (x : List Int) (a b n : Nat) (hab : a + n ≤ b)
    (hb : b + n ≤ x.length) (m : Nat) (hm : m ≤ n) :
    ((List.range m).foldl
        (fun y i => wri (wri y (a + i) (rdi y (b + i))) (b + i) (rdi y (a + i))) x).length =
        x.length ∧
      ∀ i, rdi ((List.range m).foldl
          (fun y i => wri (wri y (a + i) (rdi y (b + i))) (b + i) (rdi y (a + i))) x) i =
        if a ≤ i ∧ i < a + m then rdi x (b + (i - a))
        else if b ≤ i ∧ i < b + m then rdi x (a + (i - b)) else rdi x i := by
  induction m with
  | zero =>
    refine ⟨rfl, fun i => ?_⟩
    rw [if_neg (by omega), if_neg (by omega)]
    rfl
  | succ m ih =>
    obtain ⟨ihl, ihr⟩ := ih (by omega)
    rw [List.range_succ, List.foldl_append]
    simp only [List.foldl_cons, List.foldl_nil]
    refine ⟨by rw [length_wri, length_wri, ihl], fun i => ?_⟩
    rw [rdi_wri, rdi_wri, length_wri, ihl, ihr, ihr, ihr]
    split_ifs <;> first | rfl | omega | (congr 1; omega)

/-- What `exchange` does to two disjoint blocks inside the array. -/
theorem exchange_spec (x : List Int) (a b n : Nat) (hab : a + n ≤ b)
    (hb : b + n ≤ x.length) :
    (exchange x a b (n : Int)).length = x.length ∧
      ∀ i, rdi (exchange x a b (n : Int)) i =
        if a ≤ i ∧ i < a + n then rdi x (b + (i - a))
        else if b ≤ i ∧ i < b + n then rdi x (a + (i - b)) else rdi x i := by
  unfold exchange
  rw [Int.toNat_ofNat]
  exact exchange_fold_spec x a b n hab hb n (le_refl _)

theorem rotate1_left_fold_spec (x : List Int) (a n : Nat) (hn : a + n < x.length) (m : Nat)
    (hm : m ≤ n) :
    ((List.range m).foldl (fun y k => wri y (a + k) (rdi y (a + k + 1))) x).length =
        x.length ∧
      ∀ i, rdi ((List.range m).foldl (fun y k => wri y (a + k) (rdi y (a + k + 1))) x) i =
        if a ≤ i ∧ i < a + m then rdi x (i + 1) else rdi x i := by
  induction m with
  | zero =>
    refine ⟨rfl, fun i => ?_⟩
    rw [if_neg (by omega)]
    rfl
  | succ m ih =>
    obtain ⟨ihl, ihr⟩ := ih (by omega)
    rw [List.range_succ, List.foldl_append]
    simp only [List.foldl_cons, List.foldl_nil]
    refine ⟨by rw [length_wri, ihl], fun i => ?_⟩
    rw [rdi_wri, ihl, ihr, ihr]
    split_ifs <;> first | rfl | omega | (congr 1; omega)

/-- What `rotate1_left` does to a block of `len ≥ 1` entries inside the array. -/
theorem rotate1_left_spec (x : List Int) (a len : Nat) (h1 : 1 ≤ len)
    (hl : a + len ≤ x.length) :
    (rotate1_left x a (len : Int)).length = x.length ∧
      ∀ i, rdi (rotate1_left x a (len : Int)) i =
        if a ≤ i ∧ i < a + len - 1 then rdi x (i + 1)
        else if i = a + len - 1 then rdi x a else rdi x i := by
  unfold rotate1_left
  dsimp only
  have e1 : ((len : Int) - 1).toNat = len - 1 := by omega
  rw [Int.toNat_ofNat, e1]
  obtain ⟨hl1, hr1⟩ := rotate1_left_fold_spec x a (len - 1) (by omega) (len - 1) (le_refl _)
  refine ⟨by rw [length_wri, hl1], fun i => ?_⟩
  rw [rdi_wri, hl1, hr1]
  split_ifs <;> first | rfl | omega

theorem rotate1_right_fold_spec (x : List Int) (a len : Nat) (h1 : 1 ≤ len)
    (hl : a + len ≤ x.length) (m : Nat) (hm : m ≤ len - 1) :
    ((List.range m).foldl
        (fun y k => wri y (a + (len - 1 - k)) (rdi y (a + (len - 1 - k) - 1))) x).length =
        x.length ∧
      ∀ i, rdi ((List.range m).foldl
          (fun y k => wri y (a + (len - 1 - k)) (rdi y (a + (len - 1 - k) - 1))) x) i =
        if a + len - 1 - m < i ∧ i ≤ a + len - 1 then rdi x (i - 1) else rdi x i := by
  induction m with
  | zero =>
    refine ⟨rfl, fun i => ?_⟩
    rw [if_neg (by omega)]
    rfl
  | succ m ih =>
    obtain ⟨ihl, ihr⟩ := ih (by omega)
    rw [List.range_succ, List.foldl_append]
    simp only [List.foldl_cons, List.foldl_nil]
    refine ⟨by rw [length_wri, ihl], fun i => ?_⟩
    rw [rdi_wri, ihl, ihr, ihr]
    split_ifs <;> first | rfl | omega | (congr 1; omega)

/-- What `rotate1_right` does to a block of `len ≥ 1` entries inside the array. -/
theorem rotate1_right_spec (x : List Int) (a len : Nat) (h1 : 1 ≤ len)
    (hl : a + len ≤ x.length) :
    (rotate1_right x a (len : Int)).length = x.length ∧
      ∀ i, rdi (rotate1_right x a (len : Int)) i =
        if i = a then rdi x (a + len - 1)
        else if a < i ∧ i < a + len then rdi x (i - 1) else rdi x i := by
  unfold rotate1_right
  dsimp only
  have e1 : ((len : Int) - 1).toNat = len - 1 := by omega
  rw [Int.toNat_ofNat, e1]
  obtain ⟨hl1, hr1⟩ := rotate1_right_fold_spec x a len h1 hl (len - 1) (le_refl _)
  refine ⟨by rw [length_wri, hl1], fun i => ?_⟩
  rw [rdi_wri, hl1, hr1]
  split_ifs <;> first | rfl | omega | (congr 1; omega)

end Sudoku

namespace Sudoku

theorem rotate_loop_zero (fuel : Nat) (x : List Int) (a : Nat) (len : Int) :
    rotate_loop (fuel + 1) x a len 0 = some x := by
  unfold rotate_loop
  dsimp only
  rw [if_neg (by omega), if_neg (by omega)]

/-- The loop of `rotate` on a block of `len` entries inside the array, entered with
`idx < len`: it returns when given `len + 1` evaluations of its condition, and leaves the
block rotated left by `idx` positions and the rest of the array as it was. -/
theorem rotate_loop_spec (fuel : Nat) :
    ∀ (x : List Int) (a : Nat) (L I : Int) (len idx : Nat), L = (len : Int) →
      I = (idx : Int) → idx < len → a + len ≤ x.length → len + 1 ≤ fuel →
      ∃ r, rotate_loop fuel x a L I = some r ∧ r.length = x.length ∧
        ∀ i, rdi r i =
          if a ≤ i ∧ i < a + len then
            rdi x (a + (if i - a + idx < len then i - a + idx else i - a + idx - len))
          else rdi x i := by
  induction fuel with
  | zero =>
    intro x a L I len idx _ _ _ _ hf
    omega
  | succ fuel ih =>
    intro x a L I len idx hL hI hlt hal hf
    subst hL hI
    by_cases h0 : idx = 0
    · subst h0
      refine ⟨x, rotate_loop_zero fuel x a _, rfl, fun i => ?_⟩
      split_ifs <;> first | rfl | omega | (congr 1; omega)
    · unfold rotate_loop
      dsimp only
      by_cases hd0 : 2 * idx = len
      · rw [if_neg (by omega), if_pos (by omega), Int.toNat_ofNat]
        obtain ⟨hl1, hr1⟩ := exchange_spec x a (a + idx) idx (le_refl _) (by omega)
        refine ⟨_, rfl, hl1, fun i => ?_⟩
        rw [hr1]
        split_ifs <;> first | rfl | omega | (congr 1; omega)
      · rw [if_pos (by omega)]
        by_cases hneg : 2 * idx < len
        · rw [if_pos (by omega)]
          by_cases h1 : idx = 1
          · rw [if_pos (by omega)]
            obtain ⟨fuel1, hfuel⟩ : ∃ f, fuel = f + 1 := ⟨fuel - 1, by omega⟩
            rw [hfuel, rotate_loop_zero]
            obtain ⟨hl1, hr1⟩ := rotate1_left_spec x a len (by omega) hal
            refine ⟨_, rfl, hl1, fun i => ?_⟩
            rw [hr1]
            split_ifs <;> first | rfl | omega | (congr 1; omega)
          · rw [if_neg (by omega)]
            have e1 : ((len : Int) - (idx : Int)).toNat = len - idx := by omega
            rw [e1]
            obtain ⟨hl1, hr1⟩ := exchange_spec x a (a + (len - idx)) idx (by omega) (by omega)
            obtain ⟨r, hr, hlr, hrr⟩ := ih (exchange x a (a + (len - idx)) (idx : Int)) a
              ((len : Int) - (idx : Int)) (idx : Int) (len - idx) idx (by omega) rfl (by omega)
              (by rw [hl1]; omega) (by omega)
            refine ⟨r, hr, by rw [hlr, hl1], fun i => ?_⟩
            rw [hrr]
            simp only [hr1]
            split_ifs <;> first | rfl | omega | (congr 1; omega)
        · rw [if_neg (by omega)]
          by_cases h1 : len - idx = 1
          · rw [if_pos (by omega)]
            obtain ⟨fuel1, hfuel⟩ : ∃ f, fuel = f + 1 := ⟨fuel - 1, by omega⟩
            rw [hfuel, rotate_loop_zero]
            obtain ⟨hl1, hr1⟩ := rotate1_right_spec x a len (by omega) hal
            refine ⟨_, rfl, hl1, fun i => ?_⟩
            rw [hr1]
            split_ifs <;> first | rfl | omega | (congr 1; omega)
          · rw [if_neg (by omega)]
            have e1 : ((len : Int) - (idx : Int)).toNat = len - idx := by omega
            rw [e1, Int.toNat_ofNat]
            have e2 : (((len - idx : Nat) : Int)) = (len : Int) - (idx : Int) := by omega
            obtain ⟨hl1, hr1⟩ := exchange_spec x a (a + idx) (len - idx) (by omega) (by omega)
            rw [e2] at hl1 hr1
            obtain ⟨r, hr, hlr, hrr⟩ := ih
              (exchange x a (a + idx) ((len : Int) - (idx : Int))) (a + (len - idx))
              (idx : Int) ((idx : Int) - ((len : Int) - (idx : Int))) idx (idx - (len - idx))
              rfl (by omega) (by omega) (by rw [hl1]; omega) (by omega)
            refine ⟨r, hr, by rw [hlr, hl1], fun i => ?_⟩
            rw [hrr]
            simp only [hr1]
            split_ifs <;> first | rfl | omega | (congr 1; omega)

end Sudoku

namespace Sudoku

theorem rdi_eq_getElem (x : List Int) (i : Nat) (h : i < x.length) : rdi x i = x[i] := by
  unfold rdi
  rw [List.getD_eq_getElem _ _ h]

theorem rotate_index (len idx i : Nat) (hi : i < len) (hidx : idx < len) :
    (i + idx) % len = if i + idx < len then i + idx else i + idx - len := by
  split
  · rename_i h
    exact Nat.mod_eq_of_lt h
  · rw [Nat.mod_eq_sub_mod (by omega), Nat.mod_eq_of_lt (by omega)]

/-- An array that agrees with the rotated block entry by entry is the rotated list. -/
theorem rotate_list_eq (x r : List Int) (len idx : Nat) (hx : len ≤ x.length)
    (hl : r.length = x.length)
    (h1 : ∀ i < len, rdi r i = rdi x ((i + idx) % len))
    (h2 : ∀ i, len ≤ i → rdi r i = rdi x i) :
    r = (x.take len).rotate idx ++ x.drop len := by
  have hlt : (x.take len).length = len := by
    rw [List.length_take]
    omega
  apply List.ext_getElem
  · rw [List.length_append, List.length_rotate, hlt, List.length_drop, hl]
    omega
  · intro i hi1 hi2
    rw [← rdi_eq_getElem r i hi1]
    by_cases hi : i < len
    · rw [List.getElem_append_left (by rw [List.length_rotate, hlt]; exact hi),
        List.getElem_rotate, List.getElem_take, h1 i hi]
      have hm : (i + idx) % len < len := Nat.mod_lt _ (by omega)
      rw [rdi_eq_getElem x _ (by omega)]
      congr 1
      rw [hlt]
    · rw [List.getElem_append_right (by rw [List.length_rotate, hlt]; omega),
        List.getElem_drop, h2 i (by omega), rdi_eq_getElem x i (by omega)]
      congr 1
      rw [List.length_rotate, hlt]
      omega

/-- C34: for every integer array with at least `len` entries and every `idx < len` (in
particular for `len ≥ 2` and `0 < idx < len`, the entry condition of the source),
`rotate(a, len, idx)` returns when its loop is given `len + 1` evaluations of its
condition, and leaves the first `len` entries rotated left by `idx` positions: the new
`a[i]` is the old `a[(i + idx) mod len]` for all `i < len`, the entries from `len` on are
untouched, and the result is a permutation of the input. -/
theorem rotate_left (x : List Int) (len idx fuel : Nat) (hx : len ≤ x.length)
    (h1 : idx < len) (hf : len + 1 ≤ fuel) :
    ∃ r, rotate fuel x (len : Int) (idx : Int) = some r ∧ r.length = x.length ∧
      (∀ i < len, rdi r i = rdi x ((i + idx) % len)) ∧
      (∀ i, len ≤ i → rdi r i = rdi x i) ∧
      r = (x.take len).rotate idx ++ x.drop len ∧ r.Perm x := by
  obtain ⟨r, hr, hl, hp⟩ := rotate_loop_spec fuel x 0 (len : Int) (idx : Int) len idx rfl rfl
    h1 (by omega) hf
  have hp1 : ∀ i < len, rdi r i = rdi x ((i + idx) % len) := by
    intro i hi
    rw [hp i, if_pos (by omega), rotate_index len idx i hi h1]
    split_ifs <;> first | rfl | omega | (congr 1; omega)
  have hp2 : ∀ i, len ≤ i → rdi r i = rdi x i := by
    intro i hi
    rw [hp i, if_neg (by omega)]
  have he := rotate_list_eq x r len idx hx hl hp1 hp2
  refine ⟨r, hr, hl, hp1, hp2, he, ?_⟩
  rw [he]
  have := (List.rotate_perm (x.take len) idx).append_right (x.drop len)
  rw [List.take_append_drop] at this
  exact this

theorem rotate_left_witness :
    ∃ r, rotate 10 [1, 2, 3, 4, 5, 6, 7, 8, 9] ((9 : Nat) : Int) ((4 : Nat) : Int) = some r ∧
      r.length = [(1 : Int), 2, 3, 4, 5, 6, 7, 8, 9].length ∧
      (∀ i < 9, rdi r i = rdi [1, 2, 3, 4, 5, 6, 7, 8, 9] ((i + 4) % 9)) ∧
      (∀ i, 9 ≤ i → rdi r i = rdi [1, 2, 3, 4, 5, 6, 7, 8, 9] i) ∧
      r = ([(1 : Int), 2, 3, 4, 5, 6, 7, 8, 9].take 9).rotate 4 ++
        [(1 : Int), 2, 3, 4, 5, 6, 7, 8, 9].drop 9 ∧
      r.Perm [1, 2, 3, 4, 5, 6, 7, 8, 9] :=
  rotate_left [1, 2, 3, 4, 5, 6, 7, 8, 9] 9 4 10 (by decide) (by decide) (by decide)

end Sudoku

namespace Sudoku

/-! ## Claim C35: `shuffle` -/

theorem count_set_add (l : List Int) (i : Nat) (a b : Int) (hi : i < l.length) :
    (l.set i a).count b + (if l[i] = b then 1 else 0) =
      l.count b + (if a = b then 1 else 0) := by
  induction l generalizing i with
  | nil => exact absurd hi (by simp)
  | cons h t ih =>
    cases i with
    | zero =>
      simp only [List.set_cons_zero, List.getElem_cons_zero, List.count_cons, beq_iff_eq]
      omega
    | succ k =>
      have hk : k < t.length := by simpa using hi
      have := ih k hk
      simp only [List.set_cons_succ, List.getElem_cons_succ, List.count_cons, beq_iff_eq]
      omega

/-- Swapping two entries of an array gives a permutation of it. -/
theorem swap_perm (x : List Int) (p q : Nat) (hp : p < x.length) (hq : q < x.length) :
    (wri (wri x p (rdi x q)) q (rdi x p)).Perm x := by
  have hu := rdi_eq_getElem x p hp
  have hv := rdi_eq_getElem x q hq
  generalize rdi x p = u at hu ⊢
  generalize rdi x q = v at hv ⊢
  rw [List.perm_iff_count]
  intro b
  unfold wri
  have hq' : q < (x.set p v).length := by rw [List.length_set]; exact hq
  have h1 := count_set_add (x.set p v) q u b hq'
  have h2 := count_set_add x p v b hp
  have e : (x.set p v)[q] = x[q] := by
    rw [List.getElem_set]
    split
    · rename_i hpq
      subst hpq
      exact hv
    · rfl
  rw [e, ← hv] at h1
  rw [← hu] at h2
  split_ifs at h1 h2 <;> omega

/-- The loop of `shuffle` entered with `i` entries still to draw: it only swaps entries
below `i`. -/
theorem shuffle_loop_spec (rand : Nat → Nat) (fuel : Nat) :
    ∀ (x : List Int) (i r : Nat), i ≤ x.length →
      (shuffle_loop rand fuel x (i : Int) r).1.length = x.length ∧
        (∀ k, i ≤ k → rdi (shuffle_loop rand fuel x (i : Int) r).1 k = rdi x k) ∧
        (shuffle_loop rand fuel x (i : Int) r).1.Perm x ∧
        (shuffle_loop rand fuel x (i : Int) r).2 = r + min fuel i := by
  induction fuel with
  | zero =>
    intro x i r _
    exact ⟨rfl, fun _ _ => rfl, List.Perm.refl _, by simp [shuffle_loop]⟩
  | succ fuel ih =>
    intro x i r hi
    unfold shuffle_loop
    by_cases h1 : 1 ≤ i
    · rw [if_pos (by omega)]
      dsimp only
      have ej : ((rand r : Int) % (i : Int)).toNat = rand r % i := by
        rw [← Int.natCast_mod, Int.toNat_ofNat]
      have ei : ((i : Int) - 1).toNat = i - 1 := by omega
      have ei' : (i : Int) - 1 = ((i - 1 : Nat) : Int) := by omega
      have hj : rand r % i < i := Nat.mod_lt _ (by omega)
      rw [ej, ei, ei']
      have hl : (wri (wri x (i - 1) (rdi x (rand r % i))) (rand r % i)
          (rdi x (i - 1))).length = x.length := by
        rw [length_wri, length_wri]
      obtain ⟨a1, a2, a3, a4⟩ := ih
        (wri (wri x (i - 1) (rdi x (rand r % i))) (rand r % i) (rdi x (i - 1))) (i - 1) (r + 1)
        (by rw [hl]; omega)
      refine ⟨by rw [a1, hl], ?_, a3.trans (swap_perm x (i - 1) (rand r % i) (by omega)
        (by omega)), by rw [a4]; omega⟩
      intro k hk
      rw [a2 k (by omega), rdi_wri, rdi_wri, if_neg (by omega), if_neg (by omega)]
    · rw [if_neg (by omega)]
      exact ⟨rfl, fun _ _ => rfl, List.Perm.refl _, by dsimp only; omega⟩

/-- What `shuffle` does to an array with at least `len` entries. -/
theorem shuffle_spec (rand : Nat → Nat) (x : List Int) (len r : Nat) (hx : len ≤ x.length) :
    (shuffle rand x (len : Int) r).1.length = x.length ∧
      (∀ k, len ≤ k → rdi (shuffle rand x (len : Int) r).1 k = rdi x k) ∧
      (shuffle rand x (len : Int) r).1.Perm x ∧
      ((shuffle rand x (len : Int) r).1.take len).Perm (x.take len) ∧
      (shuffle rand x (len : Int) r).2 = r + len := by
  unfold shuffle
  rw [Int.toNat_ofNat]
  obtain ⟨a1, a2, a3, a4⟩ := shuffle_loop_spec rand len x len r hx
  refine ⟨a1, a2, a3, ?_, by rw [a4]; omega⟩
  have hd : (shuffle_loop rand len x (len : Int) r).1.drop len = x.drop len := by
    apply List.ext_getElem
    · rw [List.length_drop, List.length_drop, a1]
    · intro k hk1 hk2
      rw [List.length_drop] at hk1 hk2
      rw [List.getElem_drop, List.getElem_drop, ← rdi_eq_getElem _ _ (by omega),
        ← rdi_eq_getElem _ _ (by omega)]
      exact a2 (len + k) (by omega)
  have h : ((shuffle_loop rand len x (len : Int) r).1.take len ++
      (shuffle_loop rand len x (len : Int) r).1.drop len).Perm
      (x.take len ++ x.drop len) := by
    rw [List.take_append_drop, List.take_append_drop]
    exact a3
  rw [hd] at h
  exact (List.perm_append_right_iff (x.drop len)).1 h

/-- C35: for every sequence `rand` of random draws and every array `x` with at least
`len` entries, `shuffle(x, len)` leaves the length and the entries from `len` on as they
were and the result is a permutation of the input (its first `len` entries are a
permutation of the first `len` entries of the input); the digit list that `generate`
prepares (`1..9`, rotated by `1 + rand() % 8`, shuffled) is a permutation of `1..9`; and
for a selected template of `n ≥ 2` cells the template that `generate` prepares (rotated
by `1 + rand() % (n - 1)`, shuffled) holds the same cell indices as the selected one. The
loops of `rotate` are given `fuel` evaluations of their condition, at least 10 and at
least `n + 1`. -/
theorem shuffle_permutes (rand : Nat → Nat) (x : List Int) (len r : Nat) (tmplt : List Int)
    (n fuel : Nat) (hx : len ≤ x.length) (hn2 : 2 ≤ n) (hn : n ≤ tmplt.length)
    (hf : 10 ≤ fuel) (hfn : n + 1 ≤ fuel) :
    ((shuffle rand x (len : Int) r).1.length = x.length ∧
        (∀ k, len ≤ k → rdi (shuffle rand x (len : Int) r).1 k = rdi x k) ∧
        (shuffle rand x (len : Int) r).1.Perm x ∧
        ((shuffle rand x (len : Int) r).1.take len).Perm (x.take len)) ∧
      (∃ d r', generate_digits rand fuel r = some (d, r') ∧
        d.Perm [1, 2, 3, 4, 5, 6, 7, 8, 9]) ∧
      ∃ t r', generate_template rand fuel tmplt (n : Int) r = some (t, r') ∧
        t.length = tmplt.length ∧ (t.take n).Perm (tmplt.take n) ∧
        (∀ k, n ≤ k → rdi t k = rdi tmplt k) ∧ t.Perm tmplt := by
  obtain ⟨s1, s2, s3, s4, _⟩ := shuffle_spec rand x len r hx
  refine ⟨⟨s1, s2, s3, s4⟩, ?_, ?_⟩
  · have e : (1 + (rand r : Int) % 8) = ((1 + rand r % 8 : Nat) : Int) := by omega
    obtain ⟨d, hd, hl, _, _, _, hp⟩ := rotate_left ((List.range 9).map (fun i => (i : Int) + 1))
      9 (1 + rand r % 8) fuel (by decide) (by omega) (by omega)
    obtain ⟨_, _, t3, _, _⟩ := shuffle_spec rand d 9 (r + 1) (by rw [hl]; decide)
    refine ⟨(shuffle rand d 9 (r + 1)).1, (shuffle rand d 9 (r + 1)).2, ?_, ?_⟩
    · unfold generate_digits
      rw [e]
      have e9 : (9 : Int) = ((9 : Nat) : Int) := rfl
      rw [e9, hd]
    · exact t3.trans hp
  · have hmod : ((rand r : Int) % ((n : Int) - 1)) = ((rand r % (n - 1) : Nat) : Int) := by
      have : (n : Int) - 1 = ((n - 1 : Nat) : Int) := by omega
      rw [this, Int.natCast_mod]
    have hlt : rand r % (n - 1) < n - 1 := Nat.mod_lt _ (by omega)
    have e : (1 + (rand r : Int) % ((n : Int) - 1)) = ((1 + rand r % (n - 1) : Nat) : Int) := by
      rw [hmod]
      omega
    obtain ⟨t, ht, hl, _, h2, _, hp⟩ := rotate_left tmplt n (1 + rand r % (n - 1)) fuel hn
      (by omega) hfn
    obtain ⟨u1, u2, u3, u4, _⟩ := shuffle_spec rand t n (r + 1) (by rw [hl]; exact hn)
    have htake : (t.take n).Perm (tmplt.take n) := by
      have hd : t.drop n = tmplt.drop n := by
        apply List.ext_getElem
        · rw [List.length_drop, List.length_drop, hl]
        · intro k hk1 hk2
          rw [List.length_drop] at hk1 hk2
          rw [List.getElem_drop, List.getElem_drop, ← rdi_eq_getElem _ _ (by omega),
            ← rdi_eq_getElem _ _ (by omega)]
          exact h2 (n + k) (by omega)
      have h : (t.take n ++ t.drop n).Perm (tmplt.take n ++ tmplt.drop n) := by
        rw [List.take_append_drop, List.take_append_drop]
        exact hp
      rw [hd] at h
      exact (List.perm_append_right_iff (tmplt.drop n)).1 h
    refine ⟨(shuffle rand t (n : Int) (r + 1)).1, (shuffle rand t (n : Int) (r + 1)).2, ?_,
      by rw [u1, hl], u4.trans htake, fun k hk => by rw [u2 k hk, h2 k hk], u3.trans hp⟩
    unfold generate_template
    rw [if_neg (by omega), e, ht]

theorem shuffle_permutes_witness :
    ((shuffle (fun k => 7 * k + 3) [5, 6, 7, 8] ((3 : Nat) : Int) 0).1.length =
          [(5 : Int), 6, 7, 8].length ∧
        (∀ k, 3 ≤ k → rdi (shuffle (fun k => 7 * k + 3) [5, 6, 7, 8] ((3 : Nat) : Int) 0).1 k =
          rdi [5, 6, 7, 8] k) ∧
        (shuffle (fun k => 7 * k + 3) [5, 6, 7, 8] ((3 : Nat) : Int) 0).1.Perm [5, 6, 7, 8] ∧
        ((shuffle (fun k => 7 * k + 3) [5, 6, 7, 8] ((3 : Nat) : Int) 0).1.take 3).Perm
          ([(5 : Int), 6, 7, 8].take 3)) ∧
      (∃ d r', generate_digits (fun k => 7 * k + 3) 10 0 = some (d, r') ∧
        d.Perm [1, 2, 3, 4, 5, 6, 7, 8, 9]) ∧
      ∃ t r', generate_template (fun k => 7 * k + 3) 10 [0, 40, 80, 12, 68] ((5 : Nat) : Int) 0 =
          some (t, r') ∧
        t.length = [(0 : Int), 40, 80, 12, 68].length ∧
        (t.take 5).Perm ([(0 : Int), 40, 80, 12, 68].take 5) ∧
        (∀ k, 5 ≤ k → rdi t k = rdi [0, 40, 80, 12, 68] k) ∧ t.Perm [0, 40, 80, 12, 68] :=
  shuffle_permutes (fun k => 7 * k + 3) [5, 6, 7, 8] 3 0 [0, 40, 80, 12, 68] 5 10 (by decide)
    (by decide) (by decide) (by decide) (by decide)

end Sudoku

namespace Sudoku

/-! ## The history at capacity -/

end Sudoku
